import Mathlib

/-!
# The ext2 driver of `modules/ext2.c`

A shallow embedding of the ext2 filesystem driver.  Every C buffer (the block
device, the in-memory superblock, the block group descriptor table, an inode
record, a block-sized scratch buffer) is a function from byte offsets to
bytes; packed struct fields are read and written little-endian at their byte
offsets.  Machine arithmetic is on `Nat` with explicit wrap-around at the width
of the C type.  Loops that the C code does not bound take fuel, and `none`
stands for "no result": the loop did not finish within the fuel, or a bitmap
scan ran off the end of its block-sized buffer.
-/

namespace Ext2

/-! ## Machine integers and byte buffers -/

/-- A byte buffer: offset to byte. Only the value modulo 256 is ever read. -/
abbrev Buf := Nat → Nat

/-- Truncation to `uint8_t`. -/
def u8 (x : Nat) : Nat := x % 256
/-- Truncation to `uint16_t`. -/
def u16 (x : Nat) : Nat := x % 65536
/-- Truncation to `uint32_t` / `unsigned int`. -/
def u32 (x : Nat) : Nat := x % 4294967296
/-- Truncation to `size_t` / `uintptr_t` (64 bit). -/
def u64 (x : Nat) : Nat := x % 18446744073709551616

/-- Unsigned 32-bit subtraction `a - b`. -/
def sub32 (a b : Nat) : Nat := (u32 a + (4294967296 - u32 b)) % 4294967296
/-- Unsigned 64-bit subtraction `a - b`. -/
def sub64 (a b : Nat) : Nat := (u64 a + (18446744073709551616 - u64 b)) % 18446744073709551616
/-- Unsigned 16-bit subtraction `a - b`. -/
def sub16 (a b : Nat) : Nat := (u16 a + (65536 - u16 b)) % 65536

/-- The byte at offset `i`. -/
def get8 (b : Buf) (i : Nat) : Nat := b i % 256
/-- The little-endian `uint16_t` at offset `i`. -/
def get16 (b : Buf) (i : Nat) : Nat := get8 b i + 256 * get8 b (i + 1)
/-- The little-endian `uint32_t` at offset `i`. -/
def get32 (b : Buf) (i : Nat) : Nat :=
  get8 b i + 256 * get8 b (i + 1) + 65536 * get8 b (i + 2) + 16777216 * get8 b (i + 3)

/-- Store of the byte `v` (truncated) at offset `i`. -/
def set8 (b : Buf) (i v : Nat) : Buf := fun j => if j = i then v % 256 else b j
/-- Little-endian store of the low 16 bits of `v` at offset `i`. -/
def set16 (b : Buf) (i v : Nat) : Buf := set8 (set8 b i v) (i + 1) (v / 256)
/-- Little-endian store of the low 32 bits of `v` at offset `i`. -/
def set32 (b : Buf) (i v : Nat) : Buf :=
  set8 (set8 (set8 (set8 b i v) (i + 1) (v / 256)) (i + 2) (v / 65536)) (i + 3) (v / 16777216)

/-- The C `memcpy(dst + d, src + s, n)`. -/
def memcpy (dst : Buf) (d : Nat) (src : Buf) (s n : Nat) : Buf :=
  fun j => if d ≤ j ∧ j < d + n then src (s + (j - d)) else dst j

/-- The C `memset(dst + d, v, n)`. -/
def memset (dst : Buf) (d v n : Nat) : Buf :=
  fun j => if d ≤ j ∧ j < d + n then v % 256 else dst j

/-! ## Constants -/

def EXT2_DIRECT_BLOCKS : Nat := 12
def EXT2_S_IFDIR : Nat := 0x4000
def EXT2_S_IFREG : Nat := 0x8000
def EXT2_S_IFLNK : Nat := 0xA000
def E_SUCCESS : Nat := 0
def E_BADBLOCK : Nat := 1
def E_NOSPACE : Nat := 2
def E_BADPARENT : Nat := 3
def EXT2_FLAG_READWRITE : Nat := 0x0002
/-- Size of the packed `struct ext2_superblock`. -/
def sizeof_superblock : Nat := 1024
/-- Size of the packed `struct ext2_bgdescriptor`. -/
def sizeof_bgdescriptor : Nat := 32
/-- Size of the fixed header of the packed `struct ext2_dir`. -/
def sizeof_ext2_dir : Nat := 8

/-! ## The filesystem object -/

/-- The `ext2_fs_t` object.  `superblock` and `block_groups` are the in-memory
copies of the packed on-disk structures, `block_device` is the content of the
backing device.  `malloc_junk` is not a field of the C struct: it is the
content of a buffer as `malloc` hands it out (uninitialised), which the driver
reads whenever `read_block` rejects block number 0 and leaves the buffer
untouched. -/
structure ext2_fs_t where
  superblock : Buf
  block_groups : Buf
  block_device : Buf
  block_size : Nat
  pointers_per_block : Nat
  inodes_per_group : Nat
  block_group_count : Nat
  bgd_block_span : Nat
  bgd_offset : Nat
  inode_size : Nat
  flags : Nat
  malloc_junk : Buf

/-- The `SB->free_blocks_count` field (byte offset 12). -/
def sb_free_blocks_count (fs : ext2_fs_t) : Nat := get32 fs.superblock 12
/-- The `SB->free_inodes_count` field (byte offset 16). -/
def sb_free_inodes_count (fs : ext2_fs_t) : Nat := get32 fs.superblock 16
/-- The `SB->blocks_per_group` field (byte offset 32). -/
def sb_blocks_per_group (fs : ext2_fs_t) : Nat := get32 fs.superblock 32

/-- The `BGD[i].block_bitmap` field. -/
def bgd_block_bitmap (fs : ext2_fs_t) (i : Nat) : Nat := get32 fs.block_groups (32 * i)
/-- The `BGD[i].inode_bitmap` field. -/
def bgd_inode_bitmap (fs : ext2_fs_t) (i : Nat) : Nat := get32 fs.block_groups (32 * i + 4)
/-- The `BGD[i].inode_table` field. -/
def bgd_inode_table (fs : ext2_fs_t) (i : Nat) : Nat := get32 fs.block_groups (32 * i + 8)
/-- The `BGD[i].free_blocks_count` field. -/
def bgd_free_blocks_count (fs : ext2_fs_t) (i : Nat) : Nat := get16 fs.block_groups (32 * i + 12)
/-- The `BGD[i].free_inodes_count` field. -/
def bgd_free_inodes_count (fs : ext2_fs_t) (i : Nat) : Nat := get16 fs.block_groups (32 * i + 14)
/-- The `BGD[i].used_dirs_count` field. -/
def bgd_used_dirs_count (fs : ext2_fs_t) (i : Nat) : Nat := get16 fs.block_groups (32 * i + 16)

/-! ## Inode record fields (packed `struct ext2_inodetable`) -/

def inode_mode (inode : Buf) : Nat := get16 inode 0
def inode_uid (inode : Buf) : Nat := get16 inode 2
def inode_size_field (inode : Buf) : Nat := get32 inode 4
def inode_atime (inode : Buf) : Nat := get32 inode 8
def inode_ctime (inode : Buf) : Nat := get32 inode 12
def inode_mtime (inode : Buf) : Nat := get32 inode 16
def inode_gid (inode : Buf) : Nat := get16 inode 24
def inode_links_count (inode : Buf) : Nat := get16 inode 26
def inode_blocks (inode : Buf) : Nat := get32 inode 28
/-- The `inode->block[k]` entry (the array starts at byte offset 40). -/
def inode_block (inode : Buf) (k : Nat) : Nat := get32 inode (40 + 4 * k)
def set_inode_block (inode : Buf) (k v : Nat) : Buf := set32 inode (40 + 4 * k) v

/-! ## Block device access -/

/-- Modelled from the spec: `read_fs` of the VFS layer (not part of the ext2
module), on a block device that the spec treats as a byte-addressable array:
`size` bytes at `offset` are copied to the start of `buf`. -/
def read_fs (dev : Buf) (offset size : Nat) (buf : Buf) : Buf := memcpy buf 0 dev offset size

/-- Modelled from the spec: `write_fs` of the VFS layer (not part of the ext2
module): `size` bytes from the start of `buf` are stored at `offset`. -/
def write_fs (dev : Buf) (offset size : Nat) (buf : Buf) : Buf := memcpy dev offset buf 0 size

/-- The function `rewrite_superblock`: the in-memory superblock goes to byte 1024. -/
def rewrite_superblock (fs : ext2_fs_t) : ext2_fs_t :=
  { fs with block_device := write_fs fs.block_device 1024 sizeof_superblock fs.superblock }

/-- The function `read_block`: returns the error code and the buffer.  The
parameter `block_no` is an `unsigned int`, and so is the product
`block_no * block_size` that gives the device offset. -/
def read_block (fs : ext2_fs_t) (block_no : Nat) (buf : Buf) : Nat × Buf :=
  if u32 block_no = 0 then (E_BADBLOCK, buf)
  else (E_SUCCESS,
    read_fs fs.block_device (u32 (u32 block_no * fs.block_size)) fs.block_size buf)

/-- The function `write_block`: returns the error code and the new filesystem state. -/
def write_block (fs : ext2_fs_t) (block_no : Nat) (buf : Buf) : Nat × ext2_fs_t :=
  if u32 block_no = 0 then (E_BADBLOCK, fs)
  else
    let dev := write_fs fs.block_device (u32 (u32 block_no * fs.block_size)) fs.block_size buf
    (E_SUCCESS, { fs with block_device := dev })

/-- The loop that writes the in-memory descriptor table back, block by block:
`for (int i = 0; i < bgd_block_span; ++i) write_block(bgd_offset + i, BGD + block_size * i)`. -/
def flush_bgd_loop (fs : ext2_fs_t) : Nat → Nat → ext2_fs_t
  | 0, _ => fs
  | n + 1, i =>
    let buf : Buf := fun j => fs.block_groups (u32 (fs.block_size * i) + j)
    flush_bgd_loop (write_block fs (fs.bgd_offset + i) buf).2 n (i + 1)

def flush_bgd (fs : ext2_fs_t) : ext2_fs_t := flush_bgd_loop fs fs.bgd_block_span 0

/-! ## Bitmaps -/

/-- The macro `BLOCKBIT(n)`: is bit `n` of the bitmap buffer set? -/
def BLOCKBIT (bg_buffer : Buf) (n : Nat) : Bool := Nat.testBit (get8 bg_buffer (n / 8)) (n % 8)

/-- The statement `BLOCKBYTE(n) |= SETBIT(n)`. -/
def set_blockbit (bg_buffer : Buf) (n : Nat) : Buf :=
  set8 bg_buffer (n / 8) (get8 bg_buffer (n / 8) ||| 2 ^ (n % 8))

/-! ## Inode table access -/

/-- The function `write_inode`: copies `inode_size` bytes of `inode` into the
inode table slot of inode number `index` (a `size_t`). -/
def write_inode (fs : ext2_fs_t) (inode : Buf) (index : Nat) : Nat × ext2_fs_t :=
  if index = 0 then (E_BADBLOCK, fs)
  else
    let index := index - 1
    let group := index / fs.inodes_per_group
    if group > fs.block_group_count then (E_BADBLOCK, fs)
    else
      let inode_table_block := bgd_inode_table fs group
      let index := index - group * fs.inodes_per_group
      let block_offset := u64 (index * fs.inode_size) / fs.block_size
      let offset_in_block := sub64 index (u64 (block_offset * (fs.block_size / fs.inode_size)))
      let inodet := (read_block fs (inode_table_block + block_offset) fs.malloc_junk).2
      let inodet := memcpy inodet (u64 (offset_in_block * fs.inode_size)) inode 0 fs.inode_size
      (E_SUCCESS, (write_block fs (inode_table_block + block_offset) inodet).2)

/-- The function `refresh_inode`: reloads the record `inodet` of inode number
`inode` (a `size_t`) from the inode table; the locals are `uint32_t`. -/
def refresh_inode (fs : ext2_fs_t) (inodet : Buf) (inode : Nat) : Buf :=
  if inode = 0 then inodet
  else
    let inode := inode - 1
    let group := u32 (inode / fs.inodes_per_group)
    if group > fs.block_group_count then inodet
    else
      let inode_table_block := bgd_inode_table fs group
      let inode := sub64 inode (u32 (group * fs.inodes_per_group))
      let block_offset := u32 (u64 (inode * fs.inode_size) / fs.block_size)
      let offset_in_block := u32 (sub64 inode (u32 (block_offset * (fs.block_size / fs.inode_size))))
      let buf := (read_block fs (u32 (inode_table_block + block_offset)) fs.malloc_junk).2
      memcpy inodet 0 buf (u32 (offset_in_block * fs.inode_size)) fs.inode_size

/-- The function `read_inode`: a fresh record filled by `refresh_inode`. -/
def read_inode (fs : ext2_fs_t) (inode : Nat) : Buf := refresh_inode fs fs.malloc_junk inode

/-! ## Block allocator -/

/-- The loop `while (BLOCKBIT(block_offset)) ++block_offset;` over a buffer of
`n` remaining bits: `none` when the scan leaves the buffer. -/
def scan_free_bit (bg_buffer : Buf) : Nat → Nat → Option Nat
  | 0, _ => none
  | n + 1, block_offset =>
    if BLOCKBIT bg_buffer block_offset then scan_free_bit bg_buffer n (block_offset + 1)
    else some block_offset

/-- The `for` loop of `allocate_block` over `n` remaining groups from group `i`:
the result is `(block_no, block_offset, group, bg_buffer)`. -/
def allocate_block_groups (fs : ext2_fs_t) : Nat → Nat → Option (Nat × Nat × Nat × Buf)
  | 0, _ => some (0, 0, 0, fs.malloc_junk)
  | n + 1, i =>
    if bgd_free_blocks_count fs i > 0 then
      let bg_buffer := (read_block fs (bgd_block_bitmap fs i) fs.malloc_junk).2
      match scan_free_bit bg_buffer (8 * fs.block_size) 0 with
      | none => none
      | some block_offset =>
        some (u64 (block_offset + u32 (sb_blocks_per_group fs * i)), block_offset, i, bg_buffer)
    else allocate_block_groups fs n (i + 1)

/-- The function `allocate_block`: returns the block number (0: no space) and
the new state. -/
def allocate_block (fs : ext2_fs_t) : Option (Nat × ext2_fs_t) :=
  match allocate_block_groups fs fs.block_group_count 0 with
  | none => none
  | some (block_no, block_offset, group, bg_buffer) =>
    if block_no = 0 then some (0, fs)
    else
      let bg_buffer := set_blockbit bg_buffer block_offset
      let fs := (write_block fs (bgd_block_bitmap fs group) bg_buffer).2
      let bgd := set16 fs.block_groups (32 * group + 12) (sub16 (bgd_free_blocks_count fs group) 1)
      let fs := { fs with block_groups := bgd }
      let fs := flush_bgd fs
      let fs := { fs with superblock := set32 fs.superblock 12 (sub32 (sb_free_blocks_count fs) 1) }
      let fs := rewrite_superblock fs
      let bg_buffer := memset bg_buffer 0 0 fs.block_size
      let fs := (write_block fs block_no bg_buffer).2
      some (block_no, fs)

/-! ## Inode allocator -/

/-- The `while (1)` scan of one inode bitmap in `allocate_inode`, for group `i`:
the result is `(node_offset, node_no, next_block)`, where `next_block` tells
that the scan left through `goto _next_block`. -/
def allocate_inode_scan (fs : ext2_fs_t) (bg_buffer : Buf) (i : Nat) :
    Nat → Nat → Nat → Option (Nat × Nat × Bool)
  | 0, _, _ => none
  | fuel + 1, node_offset, node_no =>
    if node_offset / 8 ≥ fs.block_size then none
    else if BLOCKBIT bg_buffer node_offset then
      let node_offset := u32 (node_offset + 1)
      if node_offset = fs.inodes_per_group then some (node_offset, node_no, true)
      else allocate_inode_scan fs bg_buffer i fuel node_offset node_no
    else
      let node_no := u32 (node_offset + i * fs.inodes_per_group + 1)
      if node_no ≤ 10 then
        let node_offset := u32 (node_offset + 1)
        if node_offset = fs.inodes_per_group then some (node_offset, node_no, true)
        else allocate_inode_scan fs bg_buffer i fuel node_offset node_no
      else some (node_offset, node_no, false)

/-- The `for` loop of `allocate_inode` over `n` remaining groups from group `i`,
entered with `node_offset = 0`: the result is `(node_no, node_offset, group, bg_buffer)`. -/
def allocate_inode_groups (fs : ext2_fs_t) : Nat → Nat → Nat → Buf → Option (Nat × Nat × Nat × Buf)
  | 0, _, node_no, bg_buffer => some (node_no, 0, 0, bg_buffer)
  | n + 1, i, node_no, bg_buffer =>
    if bgd_free_inodes_count fs i > 0 then
      let bg_buffer := (read_block fs (bgd_inode_bitmap fs i) bg_buffer).2
      match allocate_inode_scan fs bg_buffer i (8 * fs.block_size + 1) 0 node_no with
      | none => none
      | some (node_offset, node_no, next_block) =>
        if next_block || node_offset = fs.inodes_per_group then
          allocate_inode_groups fs n (i + 1) node_no bg_buffer
        else some (node_no, node_offset, i, bg_buffer)
    else allocate_inode_groups fs n (i + 1) node_no bg_buffer

/-- The function `allocate_inode`: returns the inode number (0: none) and the new state. -/
def allocate_inode (fs : ext2_fs_t) : Option (Nat × ext2_fs_t) :=
  match allocate_inode_groups fs fs.block_group_count 0 0 fs.malloc_junk with
  | none => none
  | some (node_no, node_offset, group, bg_buffer) =>
    if node_no = 0 then some (0, fs)
    else
      let bg_buffer := set_blockbit bg_buffer node_offset
      let fs := (write_block fs (bgd_inode_bitmap fs group) bg_buffer).2
      let bgd := set16 fs.block_groups (32 * group + 14) (sub16 (bgd_free_inodes_count fs group) 1)
      let fs := { fs with block_groups := bgd }
      let fs := flush_bgd fs
      let fs := { fs with superblock := set32 fs.superblock 16 (sub32 (sb_free_inodes_count fs) 1) }
      let fs := rewrite_superblock fs
      some (node_no, fs)

/-! ## Block-address translation -/

/-- The function `get_block_number`: the real block number of block `iblock`
of the inode (all locals are `unsigned int`). -/
def get_block_number (fs : ext2_fs_t) (inode : Buf) (iblock : Nat) : Nat :=
  let p := fs.pointers_per_block
  if iblock < EXT2_DIRECT_BLOCKS then inode_block inode iblock
  else if iblock < u32 (EXT2_DIRECT_BLOCKS + p) then
    let tmp := (read_block fs (inode_block inode EXT2_DIRECT_BLOCKS) fs.malloc_junk).2
    get32 tmp (4 * sub32 iblock EXT2_DIRECT_BLOCKS)
  else if iblock < u32 (EXT2_DIRECT_BLOCKS + p + p * p) then
    let a := sub32 iblock EXT2_DIRECT_BLOCKS
    let b := sub32 a p
    let c := b / p
    let d := sub32 b (u32 (c * p))
    let tmp := (read_block fs (inode_block inode (EXT2_DIRECT_BLOCKS + 1)) fs.malloc_junk).2
    let nblock := get32 tmp (4 * c)
    let tmp := (read_block fs nblock tmp).2
    get32 tmp (4 * d)
  else if iblock < u32 (EXT2_DIRECT_BLOCKS + p + p * p + p) then
    let a := sub32 iblock EXT2_DIRECT_BLOCKS
    let b := sub32 a p
    let c := sub32 b (u32 (p * p))
    let d := c / u32 (p * p)
    let e := sub32 c (u32 (d * p * p))
    let f := e / p
    let g := sub32 e (u32 (f * p))
    let tmp := (read_block fs (inode_block inode (EXT2_DIRECT_BLOCKS + 2)) fs.malloc_junk).2
    let nblock := get32 tmp (4 * d)
    let tmp := (read_block fs nblock tmp).2
    let nblock := get32 tmp (4 * f)
    let tmp := (read_block fs nblock tmp).2
    get32 tmp (4 * g)
  else 0

/-- The tail of the single-indirect branch of `set_block_number`, once
`inode->block[12]` is set. -/
def set_block_number_single (fs : ext2_fs_t) (inode : Buf) (iblock rblock : Nat) :
    Nat × ext2_fs_t × Buf :=
  let tmp := (read_block fs (inode_block inode EXT2_DIRECT_BLOCKS) fs.malloc_junk).2
  let tmp := set32 tmp (4 * sub32 iblock EXT2_DIRECT_BLOCKS) rblock
  let fs := (write_block fs (inode_block inode EXT2_DIRECT_BLOCKS) tmp).2
  (E_SUCCESS, fs, inode)

/-- The last step of the double- and triple-indirect branches: read block
`nblock`, store `v` in its entry `d`, write it back. -/
def set_block_number_leaf (fs : ext2_fs_t) (inode : Buf) (tmp : Buf) (nblock d v : Nat) :
    Nat × ext2_fs_t × Buf :=
  let tmp := (read_block fs nblock tmp).2
  let tmp := set32 tmp (4 * d) v
  let fs := (write_block fs nblock tmp).2
  (E_SUCCESS, fs, inode)

/-- The tail of the double-indirect branch of `set_block_number`, once
`inode->block[13]` is set. -/
def set_block_number_double (fs : ext2_fs_t) (inode : Buf) (c d rblock : Nat) :
    Option (Nat × ext2_fs_t × Buf) :=
  let tmp := (read_block fs (inode_block inode (EXT2_DIRECT_BLOCKS + 1)) fs.malloc_junk).2
  if get32 tmp (4 * c) = 0 then
    match allocate_block fs with
    | none => none
    | some (block_no, fs) =>
      let block_no := u32 block_no
      if block_no = 0 then some (E_NOSPACE, fs, inode)
      else
        let tmp := set32 tmp (4 * c) block_no
        let fs := (write_block fs (inode_block inode (EXT2_DIRECT_BLOCKS + 1)) tmp).2
        some (set_block_number_leaf fs inode tmp (get32 tmp (4 * c)) d rblock)
  else some (set_block_number_leaf fs inode tmp (get32 tmp (4 * c)) d rblock)

/-- The last steps of the triple-indirect branch, once entry `d` of the first
level is set: `tmp` holds the first-level block.  The C code ends with
`((uint32_t *)tmp)[g] = nblock;`, the number of the third-level block itself. -/
def set_block_number_triple_inner (fs : ext2_fs_t) (inode : Buf) (tmp : Buf) (d f g : Nat) :
    Option (Nat × ext2_fs_t × Buf) :=
  let nblock := get32 tmp (4 * d)
  let tmp := (read_block fs nblock tmp).2
  if get32 tmp (4 * f) = 0 then
    match allocate_block fs with
    | none => none
    | some (block_no, fs) =>
      let block_no := u32 block_no
      if block_no = 0 then some (E_NOSPACE, fs, inode)
      else
        let tmp := set32 tmp (4 * f) block_no
        let fs := (write_block fs nblock tmp).2
        let nblock := get32 tmp (4 * f)
        some (set_block_number_leaf fs inode tmp nblock g nblock)
  else
    let nblock := get32 tmp (4 * f)
    some (set_block_number_leaf fs inode tmp nblock g nblock)

/-- The tail of the triple-indirect branch of `set_block_number`, once
`inode->block[14]` is set. -/
def set_block_number_triple (fs : ext2_fs_t) (inode : Buf) (d f g : Nat) :
    Option (Nat × ext2_fs_t × Buf) :=
  let tmp := (read_block fs (inode_block inode (EXT2_DIRECT_BLOCKS + 2)) fs.malloc_junk).2
  if get32 tmp (4 * d) = 0 then
    match allocate_block fs with
    | none => none
    | some (block_no, fs) =>
      let block_no := u32 block_no
      if block_no = 0 then some (E_NOSPACE, fs, inode)
      else
        let tmp := set32 tmp (4 * d) block_no
        let fs := (write_block fs (inode_block inode (EXT2_DIRECT_BLOCKS + 2)) tmp).2
        set_block_number_triple_inner fs inode tmp d f g
  else set_block_number_triple_inner fs inode tmp d f g

/-- The function `set_block_number`: returns the error code, the new state and
the inode record (which it updates in place). -/
def set_block_number (fs : ext2_fs_t) (inode : Buf) (inode_no iblock rblock : Nat) :
    Option (Nat × ext2_fs_t × Buf) :=
  let p := fs.pointers_per_block
  if iblock < EXT2_DIRECT_BLOCKS then
    some (E_SUCCESS, fs, set_inode_block inode iblock rblock)
  else if iblock < u32 (EXT2_DIRECT_BLOCKS + p) then
    if inode_block inode EXT2_DIRECT_BLOCKS = 0 then
      match allocate_block fs with
      | none => none
      | some (block_no, fs) =>
        let block_no := u32 block_no
        if block_no = 0 then some (E_NOSPACE, fs, inode)
        else
          let inode := set_inode_block inode EXT2_DIRECT_BLOCKS block_no
          let fs := (write_inode fs inode inode_no).2
          some (set_block_number_single fs inode iblock rblock)
    else some (set_block_number_single fs inode iblock rblock)
  else if iblock < u32 (EXT2_DIRECT_BLOCKS + p + p * p) then
    let a := sub32 iblock EXT2_DIRECT_BLOCKS
    let b := sub32 a p
    let c := b / p
    let d := sub32 b (u32 (c * p))
    if inode_block inode (EXT2_DIRECT_BLOCKS + 1) = 0 then
      match allocate_block fs with
      | none => none
      | some (block_no, fs) =>
        let block_no := u32 block_no
        if block_no = 0 then some (E_NOSPACE, fs, inode)
        else
          let inode := set_inode_block inode (EXT2_DIRECT_BLOCKS + 1) block_no
          let fs := (write_inode fs inode inode_no).2
          set_block_number_double fs inode c d rblock
    else set_block_number_double fs inode c d rblock
  else if iblock < u32 (EXT2_DIRECT_BLOCKS + p + p * p + p) then
    let a := sub32 iblock EXT2_DIRECT_BLOCKS
    let b := sub32 a p
    let c := sub32 b (u32 (p * p))
    let d := c / u32 (p * p)
    let e := sub32 c (u32 (d * p * p))
    let f := e / p
    let g := sub32 e (u32 (f * p))
    if inode_block inode (EXT2_DIRECT_BLOCKS + 2) = 0 then
      match allocate_block fs with
      | none => none
      | some (block_no, fs) =>
        let block_no := u32 block_no
        if block_no = 0 then some (E_NOSPACE, fs, inode)
        else
          let inode := set_inode_block inode (EXT2_DIRECT_BLOCKS + 2) block_no
          let fs := (write_inode fs inode inode_no).2
          set_block_number_triple fs inode d f g
    else set_block_number_triple fs inode d f g
  else some (E_BADBLOCK, fs, inode)

/-- The function `allocate_inode_block`: the result of `set_block_number` is
not looked at. -/
def allocate_inode_block (fs : ext2_fs_t) (inode : Buf) (inode_no block : Nat) :
    Option (Nat × ext2_fs_t × Buf) :=
  match allocate_block fs with
  | none => none
  | some (block_no, fs) =>
    let block_no := u32 block_no
    if block_no = 0 then some (E_NOSPACE, fs, inode)
    else
      match set_block_number fs inode inode_no block block_no with
      | none => none
      | some (_, fs, inode) =>
        let t := u32 ((block + 1) * (fs.block_size / 512))
        let inode := if inode_blocks inode < t then set32 inode 28 t else inode
        some (E_SUCCESS, (write_inode fs inode inode_no).2, inode)

/-- The function `inode_read_block`: returns the real block number and the buffer. -/
def inode_read_block (fs : ext2_fs_t) (inode : Buf) (block : Nat) (buf : Buf) : Nat × Buf :=
  if block ≥ inode_blocks inode / (fs.block_size / 512) then
    (0, memset buf 0 0 fs.block_size)
  else
    let real_block := get_block_number fs inode block
    (real_block, (read_block fs real_block buf).2)

/-- The loop of `inode_write_block`:
`while (block >= inode->blocks / (block_size / 512)) { allocate_inode_block; refresh_inode; }`. -/
def inode_write_block_loop (inode_no block : Nat) :
    Nat → ext2_fs_t → Buf → Option (ext2_fs_t × Buf)
  | 0, _, _ => none
  | fuel + 1, fs, inode =>
    if block ≥ inode_blocks inode / (fs.block_size / 512) then
      match allocate_inode_block fs inode inode_no
          (inode_blocks inode / (fs.block_size / 512)) with
      | none => none
      | some (_, fs, inode) =>
        inode_write_block_loop inode_no block fuel fs (refresh_inode fs inode inode_no)
    else some (fs, inode)

/-- The function `inode_write_block`: returns the real block number, the new
state and the inode record. -/
def inode_write_block (fuel : Nat) (fs : ext2_fs_t) (inode : Buf) (inode_no block : Nat)
    (buf : Buf) : Option (Nat × ext2_fs_t × Buf) :=
  match inode_write_block_loop inode_no block fuel fs inode with
  | none => none
  | some (fs, inode) =>
    let real_block := get_block_number fs inode block
    some (real_block, (write_block fs real_block buf).2, inode)

/-! ## C strings and directory records -/

/-- The bytes of a C string argument: a `char *` is given by a list of bytes,
of which the part before the first NUL is the string. -/
def c_str (s : List Nat) : List Nat := (s.map u8).takeWhile (fun c => c ≠ 0)

/-- The C `strlen`. -/
def strlen (s : List Nat) : Nat := (c_str s).length

/-- Modelled from the spec: the error number `ENOENT` of `errno.h` (not among
the sources), "lookup miss"; the driver returns the error numbers negated. -/
def ENOENT : Int := 2
/-- Modelled from the spec: the error number `EEXIST` of `errno.h`, "name collision". -/
def EEXIST : Int := 17
/-- Modelled from the spec: the error number `EINVAL` of `errno.h`, "malformed arguments". -/
def EINVAL : Int := 22
/-- Modelled from the spec: the error number `EROFS` of `errno.h`, "mutating
call on a read-only-mounted instance". -/
def EROFS : Int := 30

/-- The field `d_ent->inode` of the record at `off`. -/
def dirent_inode (block : Buf) (off : Nat) : Nat := get32 block off
/-- The field `d_ent->rec_len` of the record at `off`. -/
def dirent_rec_len (block : Buf) (off : Nat) : Nat := get16 block (off + 4)
/-- The field `d_ent->name_len` of the record at `off`. -/
def dirent_name_len (block : Buf) (off : Nat) : Nat := get8 block (off + 6)
/-- The `name_len` bytes of `d_ent->name` of the record at `off`. -/
def dirent_name (block : Buf) (off : Nat) : List Nat :=
  (List.range (dirent_name_len block off)).map (fun k => get8 block (off + 8 + k))

/-- The C `memcpy(dst + d, s, len(s))` from a list of bytes. -/
def write_bytes (dst : Buf) (d : Nat) (s : List Nat) : Buf :=
  fun j => if d ≤ j ∧ j < d + s.length then u8 (s.getD (j - d) 0) else dst j

/-- The record length computed in `create_entry`:
`len = sizeof(ext2_dir_t) + name_len; len += (len % 4) ? (4 - (len % 4)) : 0`. -/
def min_rec_len (name_len : Nat) : Nat :=
  let len := sizeof_ext2_dir + name_len
  len + (if len % 4 ≠ 0 then 4 - len % 4 else 0)

/-- The generic node that `node_from_file` fills from a directory record and
its inode: the attributes only (the operation table and the type flags, whose
constants live in the VFS headers, are left out). -/
structure fs_node_t where
  inode : Nat
  name : List Nat
  uid : Nat
  gid : Nat
  length : Nat
  mask : Nat
  nlink : Nat
  atime : Nat
  mtime : Nat
  ctime : Nat

/-- The function `node_from_file`. -/
def node_from_file (inode : Buf) (direntry : Buf) : fs_node_t :=
  { inode := dirent_inode direntry 0
    name := dirent_name direntry 0
    uid := inode_uid inode
    gid := inode_gid inode
    length := inode_size_field inode
    mask := inode_mode inode &&& 0xFFF
    nlink := inode_links_count inode
    atime := inode_atime inode
    mtime := inode_mtime inode
    ctime := inode_ctime inode }

/-- The lookup loop that `finddir_ext2` and `unlink_ext2` both contain: walks
the records of the directory `inode` until one with a non-zero inode and the
name `name` is met.  The state is `block_nr` (a `uint8_t`), `dir_offset`,
`total_offset` and the block buffer; the result is `some (block_nr,
dir_offset, block)` for the record found and `none` for no record. -/
def lookup_loop (fs : ext2_fs_t) (inode : Buf) (name : List Nat) :
    Nat → Nat → Nat → Nat → Buf → Option (Option (Nat × Nat × Buf))
  | 0, _, _, _, _ => none
  | fuel + 1, block_nr, dir_offset, total_offset, block =>
    if total_offset < inode_size_field inode then
      let next := dir_offset ≥ fs.block_size
      let block_nr := if next then u8 (block_nr + 1) else block_nr
      let block := if next then (inode_read_block fs inode block_nr block).2 else block
      let dir_offset := if next then sub32 dir_offset fs.block_size else dir_offset
      let rec_len := dirent_rec_len block dir_offset
      if dirent_inode block dir_offset = 0 ∨ strlen name ≠ dirent_name_len block dir_offset then
        lookup_loop fs inode name fuel block_nr (u32 (dir_offset + rec_len))
          (u32 (total_offset + rec_len)) block
      else if c_str (dirent_name block dir_offset) = c_str name then
        some (some (block_nr, dir_offset, block))
      else
        lookup_loop fs inode name fuel block_nr (u32 (dir_offset + rec_len))
          (u32 (total_offset + rec_len)) block
    else some none

/-- The function `finddir_ext2` on the directory with inode number
`node_inode`: `some none` is the NULL result. -/
def finddir_ext2 (fuel : Nat) (fs : ext2_fs_t) (node_inode : Nat) (name : List Nat) :
    Option (Option fs_node_t) :=
  let inode := read_inode fs node_inode
  let block := (inode_read_block fs inode 0 fs.malloc_junk).2
  match lookup_loop fs inode name fuel 0 0 0 block with
  | none => none
  | some none => some none
  | some (some (_, dir_offset, block)) =>
    let direntry := memcpy fs.malloc_junk 0 block dir_offset (dirent_rec_len block dir_offset)
    let inode := read_inode fs (dirent_inode direntry 0)
    some (some (node_from_file inode direntry))

/-- The function `unlink_ext2` on the directory with inode number `node_inode`:
returns the result code and the new state. -/
def unlink_ext2 (fuel : Nat) (fs : ext2_fs_t) (node_inode : Nat) (name : List Nat) :
    Option (Int × ext2_fs_t) :=
  if fs.flags &&& EXT2_FLAG_READWRITE = 0 then some (-EROFS, fs)
  else
    let inode := read_inode fs node_inode
    let block := (inode_read_block fs inode 0 fs.malloc_junk).2
    match lookup_loop fs inode name fuel 0 0 0 block with
    | none => none
    | some none => some (-ENOENT, fs)
    | some (some (block_nr, dir_offset, block)) =>
      let new_inode := dirent_inode block dir_offset
      let block := set32 block dir_offset 0
      match inode_write_block fuel fs inode node_inode block_nr block with
      | none => none
      | some (_, fs, _) =>
        let inode := read_inode fs new_inode
        if inode_links_count inode > 0 then
          let inode := set16 inode 26 (sub16 (inode_links_count inode) 1)
          some (0, (write_inode fs inode new_inode).2)
        else some (0, fs)

/-- The scan loop of `create_entry`.  The state is `block_nr` (a `uint8_t`),
`dir_offset`, `total_offset`, the block buffer and `modify_or_replace`; the
result adds `previous`, the offset in the buffer of the record the loop left
at (meaningful when `modify_or_replace = 1`). -/
def create_entry_loop (fs : ext2_fs_t) (pinode : Buf) :
    Nat → Nat → Nat → Nat → Buf → Nat → Option (Nat × Nat × Nat × Buf × Nat × Nat)
  | 0, _, _, _, _, _ => none
  | fuel + 1, block_nr, dir_offset, total_offset, block, modify_or_replace =>
    if total_offset < inode_size_field pinode then
      let next := dir_offset ≥ fs.block_size
      let block_nr := if next then u8 (block_nr + 1) else block_nr
      let block := if next then (inode_read_block fs pinode block_nr block).2 else block
      let dir_offset := if next then sub32 dir_offset fs.block_size else dir_offset
      let sreclen := min_rec_len (dirent_name_len block dir_offset)
      let rec_len := dirent_rec_len block dir_offset
      if rec_len ≠ sreclen ∧ u32 (total_offset + rec_len) = inode_size_field pinode then
        some (block_nr, u32 (dir_offset + sreclen), u32 (total_offset + sreclen), block, 1,
          dir_offset)
      else
        let modify_or_replace := if dirent_inode block dir_offset = 0 then 2 else modify_or_replace
        create_entry_loop fs pinode fuel block_nr (u32 (dir_offset + rec_len))
          (u32 (total_offset + rec_len)) block modify_or_replace
    else some (block_nr, dir_offset, total_offset, block, modify_or_replace, 0)

/-- The function `create_entry` on the directory with inode number `parent`;
`name = none` is the NULL pointer.  Returns the code and the new state. -/
def create_entry (fuel : Nat) (fs : ext2_fs_t) (parent : Nat) (name : Option (List Nat))
    (inode : Nat) : Option (Nat × ext2_fs_t) :=
  let pinode := read_inode fs parent
  match name with
  | none => some (E_BADPARENT, fs)
  | some name =>
    if inode_mode pinode &&& EXT2_S_IFDIR = 0 then some (E_BADPARENT, fs)
    else
      let rec_len := u32 (sizeof_ext2_dir + strlen name)
      let rec_len := u32 (rec_len + (if rec_len % 4 ≠ 0 then 4 - rec_len % 4 else 0))
      let block := (inode_read_block fs pinode 0 fs.malloc_junk).2
      match create_entry_loop fs pinode fuel 0 0 0 block 0 with
      | none => none
      | some (block_nr, dir_offset, _, block, modify_or_replace, previous) =>
        let grown : Option (ext2_fs_t × Buf × Nat × Nat × Buf) :=
          if modify_or_replace = 1 then
            if u32 (dir_offset + rec_len) ≥ fs.block_size then
              let block_nr := u8 (block_nr + 1)
              match allocate_inode_block fs pinode parent block_nr with
              | none => none
              | some (_, fs, pinode) =>
                let block := memset block 0 0 fs.block_size
                let pinode := set32 pinode 4 (u32 (inode_size_field pinode + fs.block_size))
                some ((write_inode fs pinode parent).2, pinode, block_nr, 0, block)
            else
              let sreclen := min_rec_len (dirent_name_len block previous)
              some (fs, pinode, block_nr, dir_offset, set16 block (previous + 4) sreclen)
          else some (fs, pinode, block_nr, dir_offset, block)
        match grown with
        | none => none
        | some (fs, pinode, block_nr, dir_offset, block) =>
          let block := set32 block dir_offset inode
          let block := set16 block (dir_offset + 4) (sub32 fs.block_size dir_offset)
          let block := set8 block (dir_offset + 6) (strlen name)
          let block := set8 block (dir_offset + 7) 0
          let block := write_bytes block (dir_offset + 8) (c_str name)
          match inode_write_block fuel fs pinode parent block_nr block with
          | none => none
          | some (_, fs, _) => some (E_NOSPACE, fs)

/-! ## Byte-range read and write -/

/-- The `for` loop of `read_ext2` over the blocks before `end_block`, with `n`
iterations left: returns the scratch buffer, the caller's buffer and `blocks_read`. -/
def read_ext2_loop (fs : ext2_fs_t) (inode : Buf) (offset start_block : Nat) :
    Nat → Nat → Nat → Buf → Buf → Buf × Buf × Nat
  | 0, _, blocks_read, buf, buffer => (buf, buffer, blocks_read)
  | n + 1, block_offset, blocks_read, buf, buffer =>
    let buf := (inode_read_block fs inode block_offset buf).2
    let buffer :=
      if block_offset = start_block then
        memcpy buffer 0 buf (offset % fs.block_size) (fs.block_size - offset % fs.block_size)
      else
        memcpy buffer (u32 (fs.block_size * blocks_read) - offset % fs.block_size) buf 0
          fs.block_size
    read_ext2_loop fs inode offset start_block n (u32 (block_offset + 1)) (u32 (blocks_read + 1))
      buf buffer

/-- The function `read_ext2` on the file with inode number `node_inode`:
returns the byte count and the caller's buffer.  The destination
`buffer + block_size * blocks_read - offset % block_size` of the copies after
the first block is an index into the caller's buffer; for an offset beyond
the size of the file, where the loop does not run and the C pointer lies
before the start of the buffer, the index is taken as 0. -/
def read_ext2 (fs : ext2_fs_t) (node_inode : Nat) (offset size : Nat) (buffer : Buf) :
    Nat × Buf :=
  let inode := read_inode fs node_inode
  if inode_size_field inode = 0 then (0, buffer)
  else
    let end_pos := if u64 (offset + size) > inode_size_field inode then inode_size_field inode
      else u32 (offset + size)
    let start_block := u32 (offset / fs.block_size)
    let end_block := end_pos / fs.block_size
    let end_size := sub32 end_pos (u32 (end_block * fs.block_size))
    let size_to_read := sub32 end_pos offset
    let buf := fs.malloc_junk
    if start_block = end_block then
      let buf := (inode_read_block fs inode start_block buf).2
      (size_to_read, memcpy buffer 0 buf (offset % fs.block_size) size_to_read)
    else
      let (buf, buffer, blocks_read) :=
        read_ext2_loop fs inode offset start_block (end_block - start_block) start_block 0
          buf buffer
      if end_size ≠ 0 then
        let buf := (inode_read_block fs inode end_block buf).2
        (size_to_read,
          memcpy buffer (u32 (fs.block_size * blocks_read) - offset % fs.block_size) buf 0 end_size)
      else (size_to_read, buffer)

/-- The `for` loop of `write_inode_buffer` over the blocks before `end_block`,
with `n` iterations left: returns the state, the inode record, the scratch
buffer and `blocks_read`. -/
def write_inode_buffer_loop (fuel : Nat) (inode_number offset start_block : Nat) (buffer : Buf) :
    Nat → Nat → Nat → ext2_fs_t → Buf → Buf → Option (ext2_fs_t × Buf × Buf × Nat)
  | 0, _, blocks_read, fs, inode, buf => some (fs, inode, buf, blocks_read)
  | n + 1, block_offset, blocks_read, fs, inode, buf =>
    let r := inode_read_block fs inode block_offset buf
    let buf :=
      if block_offset = start_block then
        memcpy r.2 (offset % fs.block_size) buffer 0 (fs.block_size - offset % fs.block_size)
      else
        memcpy r.2 0 buffer (u32 (fs.block_size * blocks_read) - offset % fs.block_size)
          fs.block_size
    match inode_write_block fuel fs inode inode_number block_offset buf with
    | none => none
    | some (_, fs, inode) =>
      let inode := if r.1 = 0 then refresh_inode fs inode inode_number else inode
      write_inode_buffer_loop fuel inode_number offset start_block buffer n
        (u32 (block_offset + 1)) (u32 (blocks_read + 1)) fs inode buf

/-- The function `write_inode_buffer`: returns the byte count, the new state
and the inode record. -/
def write_inode_buffer (fuel : Nat) (fs : ext2_fs_t) (inode : Buf) (inode_number : Nat)
    (offset size : Nat) (buffer : Buf) : Option (Nat × ext2_fs_t × Buf) :=
  let end_pos := u32 (offset + size)
  let grow := end_pos > inode_size_field inode
  let inode := if grow then set32 inode 4 end_pos else inode
  let fs := if grow then (write_inode fs inode inode_number).2 else fs
  let start_block := u32 (offset / fs.block_size)
  let end_block := end_pos / fs.block_size
  let end_size := sub32 end_pos (u32 (end_block * fs.block_size))
  let size_to_read := sub32 end_pos offset
  let buf := fs.malloc_junk
  if start_block = end_block then
    let buf := (inode_read_block fs inode start_block buf).2
    let buf := memcpy buf (offset % fs.block_size) buffer 0 size_to_read
    match inode_write_block fuel fs inode inode_number start_block buf with
    | none => none
    | some (_, fs, inode) => some (size_to_read, fs, inode)
  else
    match write_inode_buffer_loop fuel inode_number offset start_block buffer
        (end_block - start_block) start_block 0 fs inode buf with
    | none => none
    | some (fs, inode, buf, blocks_read) =>
      if end_size ≠ 0 then
        let buf := (inode_read_block fs inode end_block buf).2
        let buf := memcpy buf 0 buffer (u32 (fs.block_size * blocks_read) - offset % fs.block_size)
          end_size
        match inode_write_block fuel fs inode inode_number end_block buf with
        | none => none
        | some (_, fs, inode) => some (size_to_read, fs, inode)
      else some (size_to_read, fs, inode)

/-- The function `write_ext2` on the file with inode number `node_inode`:
returns the result (byte count or `-EROFS`) and the new state. -/
def write_ext2 (fuel : Nat) (fs : ext2_fs_t) (node_inode : Nat) (offset size : Nat)
    (buffer : Buf) : Option (Int × ext2_fs_t) :=
  if fs.flags &&& EXT2_FLAG_READWRITE = 0 then some (-EROFS, fs)
  else
    let inode := read_inode fs node_inode
    match write_inode_buffer fuel fs inode node_inode offset size buffer with
    | none => none
    | some (rv, fs, _) => some ((rv : Int), fs)

/-- The function `truncate_ext2` on the file with inode number `node_inode`. -/
def truncate_ext2 (fs : ext2_fs_t) (node_inode : Nat) : Int × ext2_fs_t :=
  if fs.flags &&& EXT2_FLAG_READWRITE = 0 then (-EROFS, fs)
  else
    let inode := read_inode fs node_inode
    let inode := set32 inode 4 0
    (0, (write_inode fs inode node_inode).2)

/-- The function `chmod_ext2` on the node with inode number `node_inode`. -/
def chmod_ext2 (fs : ext2_fs_t) (node_inode : Nat) (mode : Nat) : Int × ext2_fs_t :=
  if fs.flags &&& EXT2_FLAG_READWRITE = 0 then (-EROFS, fs)
  else
    let inode := read_inode fs node_inode
    let inode := set16 inode 0 ((inode_mode inode &&& 0xFFFFF000) ||| mode)
    (0, (write_inode fs inode node_inode).2)

/-! ## Directory listing -/

/-- The loop of `direntry_ext2`.  The state is `block_nr` (a `uint8_t`),
`dir_offset`, `total_offset`, `dir_index` and the block buffer; the result is
`some out` for the copy of the record found and `none` for NULL. -/
def direntry_loop (fs : ext2_fs_t) (inode : Buf) (index : Nat) :
    Nat → Nat → Nat → Nat → Nat → Buf → Option (Option Buf)
  | 0, _, _, _, _, _ => none
  | fuel + 1, block_nr, dir_offset, total_offset, dir_index, block =>
    if total_offset < inode_size_field inode ∧ dir_index ≤ index then
      let rec_len := dirent_rec_len block dir_offset
      if dirent_inode block dir_offset ≠ 0 ∧ dir_index = index then
        some (some (memcpy fs.malloc_junk 0 block dir_offset rec_len))
      else
        let dir_index := if dirent_inode block dir_offset ≠ 0 then u32 (dir_index + 1)
          else dir_index
        let dir_offset := u32 (dir_offset + rec_len)
        let total_offset := u32 (total_offset + rec_len)
        let next := dir_offset ≥ fs.block_size
        let block_nr := if next then u8 (block_nr + 1) else block_nr
        let dir_offset := if next then sub32 dir_offset fs.block_size else dir_offset
        let block := if next then (inode_read_block fs inode block_nr block).2 else block
        direntry_loop fs inode index fuel block_nr dir_offset total_offset dir_index block
    else some none

/-- The function `direntry_ext2`; the parameter `index` is a `uint32_t`. -/
def direntry_ext2 (fuel : Nat) (fs : ext2_fs_t) (inode : Buf) (index : Nat) :
    Option (Option Buf) :=
  let block := (inode_read_block fs inode 0 fs.malloc_junk).2
  direntry_loop fs inode (u32 index) fuel 0 0 0 0 block

/-- The `struct dirent` that `readdir_ext2` returns: the inode number and the
`name_len` bytes of the name (which the C code terminates with a NUL). -/
structure dirent where
  d_ino : Nat
  d_name : List Nat
deriving DecidableEq

/-- The function `readdir_ext2` on the directory with inode number
`node_inode`; `index` is an `unsigned long`.  `some none` is the NULL result. -/
def readdir_ext2 (fuel : Nat) (fs : ext2_fs_t) (node_inode : Nat) (index : Nat) :
    Option (Option dirent) :=
  let inode := read_inode fs node_inode
  match direntry_ext2 fuel fs inode (u64 index) with
  | none => none
  | some none => some none
  | some (some direntry) =>
    some (some { d_ino := dirent_inode direntry 0, d_name := dirent_name direntry 0 })

/-! ## Creating files, directories and symbolic links -/

/-- The ambient values that the creating functions read: `now()` and the
`user` and `user_group` of `this_core->current_process`. -/
structure ambient_t where
  now : Nat
  user : Nat
  user_group : Nat

/-- The statements with which `mkdir_ext2`, `create_ext2` and `symlink_ext2`
all fill the record of the inode they allocated, in the order of the source:
times, `block[]`, `blocks`, `size`, owner, `faddr`, `links_count`, `flags`,
`osd1`, `generation`, `file_acl`, `dir_acl`, `mode` and `osd2`.  The three
functions differ in `links_count` and in `mode`. -/
def init_inode (inode : Buf) (amb : ambient_t) (links_count mode : Nat) : Buf :=
  let inode := set32 inode 8 amb.now
  let inode := set32 inode 12 (inode_atime inode)
  let inode := set32 inode 16 (inode_atime inode)
  let inode := set32 inode 20 0
  let inode := memset inode 40 0 60
  let inode := set32 inode 28 0
  let inode := set32 inode 4 0
  let inode := set16 inode 2 amb.user
  let inode := set16 inode 24 amb.user_group
  let inode := set32 inode 112 0
  let inode := set16 inode 26 links_count
  let inode := set32 inode 32 0
  let inode := set32 inode 36 0
  let inode := set32 inode 100 0
  let inode := set32 inode 104 0
  let inode := set32 inode 108 0
  let inode := set16 inode 0 mode
  memset inode 116 0 12

/-- The buffer `tmp` that `mkdir_ext2` writes as block 0 of the new directory:
an uninitialised block in which the 12-byte records "." (inode `inode_no`,
`rec_len` 12) and ".." (inode `parent`, `rec_len` `block_size - 12`) are
stored at offsets 0 and 12. -/
def mkdir_block (fs : ext2_fs_t) (inode_no parent : Nat) : Buf :=
  let tmp := fs.malloc_junk
  let t := memset fs.malloc_junk 0 0 12
  let t := set32 t 0 inode_no
  let t := set16 t 4 12
  let t := set8 t 6 1
  let t := set8 t 8 46
  let tmp := memcpy tmp 0 t 0 12
  let t := set32 t 0 parent
  let t := set8 t 6 2
  let t := set8 t 9 46
  let t := set16 t 4 (sub32 fs.block_size 12)
  memcpy tmp 12 t 0 12

/-- The function `mkdir_ext2` in the directory with inode number `parent`;
`name = none` is the NULL pointer.  Returns the result code and the new state. -/
def mkdir_ext2 (fuel : Nat) (amb : ambient_t) (fs : ext2_fs_t) (parent : Nat)
    (name : Option (List Nat)) (permission : Nat) : Option (Int × ext2_fs_t) :=
  match name with
  | none => some (-EINVAL, fs)
  | some name =>
    if fs.flags &&& EXT2_FLAG_READWRITE = 0 then some (-EROFS, fs)
    else
      match finddir_ext2 fuel fs parent name with
      | none => none
      | some (some _) => some (-EEXIST, fs)
      | some none =>
        match allocate_inode fs with
        | none => none
        | some (inode_no, fs) =>
          let inode := read_inode fs inode_no
          let inode := init_inode inode amb 2 (EXT2_S_IFDIR ||| (0xFFF &&& permission))
          let fs := (write_inode fs inode inode_no).2
          match create_entry fuel fs parent (some name) inode_no with
          | none => none
          | some (_, fs) =>
            let inode := set32 inode 4 fs.block_size
            let fs := (write_inode fs inode inode_no).2
            let tmp := mkdir_block fs inode_no parent
            match inode_write_block fuel fs inode inode_no 0 tmp with
            | none => none
            | some (_, fs, _) =>
              let pinode := read_inode fs parent
              let pinode := set16 pinode 26 (inode_links_count pinode + 1)
              let fs := (write_inode fs pinode parent).2
              let group := u32 (inode_no / fs.inodes_per_group)
              let bgd := set16 fs.block_groups (32 * group + 16) (bgd_used_dirs_count fs group + 1)
              let fs := { fs with block_groups := bgd }
              some (0, flush_bgd fs)

/-- The function `create_ext2` in the directory with inode number `parent`;
`name = none` is the NULL pointer.  Returns the result code and the new state. -/
def create_ext2 (fuel : Nat) (amb : ambient_t) (fs : ext2_fs_t) (parent : Nat)
    (name : Option (List Nat)) (permission : Nat) : Option (Int × ext2_fs_t) :=
  match name with
  | none => some (-EINVAL, fs)
  | some name =>
    if fs.flags &&& EXT2_FLAG_READWRITE = 0 then some (-EROFS, fs)
    else
      match finddir_ext2 fuel fs parent name with
      | none => none
      | some (some _) => some (-EEXIST, fs)
      | some none =>
        match allocate_inode fs with
        | none => none
        | some (inode_no, fs) =>
          let inode := read_inode fs inode_no
          let inode := init_inode inode amb 1 (EXT2_S_IFREG ||| (0xFFF &&& permission))
          let fs := (write_inode fs inode inode_no).2
          match create_entry fuel fs parent (some name) inode_no with
          | none => none
          | some (_, fs) => some (0, fs)

/-- The bytes of a C string argument as the buffer the pointer addresses. -/
def c_buf (s : List Nat) : Buf := fun k => u8 (s.getD k 0)

/-- The function `symlink_ext2` in the directory with inode number `parent`;
`name = none` is the NULL pointer.  Returns the result code and the new state. -/
def symlink_ext2 (fuel : Nat) (amb : ambient_t) (fs : ext2_fs_t) (parent : Nat)
    (target : List Nat) (name : Option (List Nat)) : Option (Int × ext2_fs_t) :=
  match name with
  | none => some (-EINVAL, fs)
  | some name =>
    if fs.flags &&& EXT2_FLAG_READWRITE = 0 then some (-EROFS, fs)
    else
      match finddir_ext2 fuel fs parent name with
      | none => none
      | some (some _) => some (-EEXIST, fs)
      | some none =>
        match allocate_inode fs with
        | none => none
        | some (inode_no, fs) =>
          let inode := read_inode fs inode_no
          let inode := init_inode inode amb 1 (EXT2_S_IFLNK ||| 0x1FF)
          let target_len := strlen target
          let embedded := target_len ≤ 60
          let inode := if embedded then set32 (write_bytes inode 40 (c_str target)) 4 target_len
            else inode
          let fs := (write_inode fs inode inode_no).2
          match create_entry fuel fs parent (some name) inode_no with
          | none => none
          | some (_, fs) =>
            if embedded then some (0, fs)
            else
              match write_inode_buffer fuel fs inode inode_no 0 target_len (c_buf target) with
              | none => none
              | some (_, fs, _) => some (0, fs)

/-- The function `readlink_ext2` on the link with inode number `node_inode`,
into the caller's buffer `buf` of `size` bytes: returns the count and the buffer. -/
def readlink_ext2 (fs : ext2_fs_t) (node_inode : Nat) (buf : Buf) (size : Nat) : Nat × Buf :=
  let inode := read_inode fs node_inode
  let read_size := if inode_size_field inode < size then inode_size_field inode else size
  let buf :=
    if inode_size_field inode > 60 then (read_ext2 fs node_inode 0 read_size buf).2
    else memcpy buf 0 inode 40 read_size
  let buf := if read_size < size then set8 buf read_size 0 else buf
  (read_size, buf)

/-! ## Specification-level definitions -/

/-- Entry `k` (a little-endian 32-bit word) of the device block numbered `b`:
the four bytes at device offset `b * block_size + 4 * k`. -/
def block_entry (fs : ext2_fs_t) (b k : Nat) : Nat :=
  get32 fs.block_device (b * fs.block_size + 4 * k)

/-- The reference translation of the specification for the direct,
single-indirect and double-indirect ranges (`P` = pointers per block). -/
def reference_block_number (fs : ext2_fs_t) (inode : Buf) (i : Nat) : Nat :=
  let P := fs.pointers_per_block
  if i < 12 then inode_block inode i
  else if i < 12 + P then block_entry fs (inode_block inode 12) (i - 12)
  else block_entry fs (block_entry fs (inode_block inode 13) ((i - 12 - P) / P)) ((i - 12 - P) % P)

/-- The block bitmap of group `g` as `allocate_block` loads it. -/
def block_bitmap (fs : ext2_fs_t) (g : Nat) : Buf :=
  (read_block fs (bgd_block_bitmap fs g) fs.malloc_junk).2

/-- The state that `allocate_block` leaves once it has chosen bit `block_offset`
of group `group`, for the block number `block_no`. -/
def allocate_block_commit (fs : ext2_fs_t) (block_no block_offset group : Nat)
    (bg_buffer : Buf) : ext2_fs_t :=
  let bg_buffer := set_blockbit bg_buffer block_offset
  let fs := (write_block fs (bgd_block_bitmap fs group) bg_buffer).2
  let bgd := set16 fs.block_groups (32 * group + 12) (sub16 (bgd_free_blocks_count fs group) 1)
  let fs := { fs with block_groups := bgd }
  let fs := flush_bgd fs
  let fs := { fs with superblock := set32 fs.superblock 12 (sub32 (sb_free_blocks_count fs) 1) }
  let fs := rewrite_superblock fs
  let bg_buffer := memset bg_buffer 0 0 fs.block_size
  (write_block fs block_no bg_buffer).2

/-- First device byte of block `b`, as `read_block` and `write_block` compute it. -/
def block_start (fs : ext2_fs_t) (b : Nat) : Nat := u32 (u32 b * fs.block_size)

/-- Address `a` lies in the device range that `write_block` overwrites for block `b`. -/
def in_block (fs : ext2_fs_t) (b a : Nat) : Prop :=
  u32 b ≠ 0 ∧ block_start fs b ≤ a ∧ a < block_start fs b + fs.block_size

/-- The state `fs` with the device content replaced. -/
def with_device (fs : ext2_fs_t) (dev : Buf) : ext2_fs_t := { fs with block_device := dev }

/-- The bitmap block of group `g` on the device is apart from everything else
that `allocate_block` writes when it hands out block `n`: it has a non-zero
number, and none of its bytes lies in the superblock bytes 1024..2047, in a
block of the descriptor table or in block `n`. -/
def bitmap_block_apart (fs : ext2_fs_t) (g n : Nat) : Prop :=
  bgd_block_bitmap fs g ≠ 0 ∧
  ∀ a, in_block fs (bgd_block_bitmap fs g) a →
    ¬ (1024 ≤ a ∧ a < 2048) ∧ ¬ in_block fs n a ∧
    ∀ j, j < fs.bgd_block_span → ¬ in_block fs (fs.bgd_offset + j) a

/-! ## Specification-level definitions for directories -/

/-- Device address of byte `pos` of the file with inode record `inode`. -/
def file_byte_addr (fs : ext2_fs_t) (inode : Buf) (pos : Nat) : Nat :=
  block_start fs (get_block_number fs inode (pos / fs.block_size)) + pos % fs.block_size

/-- The content of the file with inode record `inode`, byte by byte, as stored
on the device. -/
def file_view (fs : ext2_fs_t) (inode : Buf) : Buf :=
  fun pos => fs.block_device (file_byte_addr fs inode pos)

/-- The chain of directory records in the file content `v`, from file offset
`pos` to exactly `size`: each record has `rec_len >= 8 + name_len` and ends
within its block.  The result lists the offsets of the records. -/
def dir_chain (v : Buf) (bs size : Nat) : Nat → Nat → Option (List Nat)
  | 0, _ => none
  | fuel + 1, pos =>
    if pos = size then some []
    else if pos < size ∧ 8 + dirent_name_len v pos ≤ dirent_rec_len v pos ∧
        pos % bs + dirent_rec_len v pos ≤ bs then
      match dir_chain v bs size fuel (pos + dirent_rec_len v pos) with
      | none => none
      | some l => some (pos :: l)
    else none

/-- The record at file offset `pos` is live and carries the name `name`. -/
def live_named (v : Buf) (name : List Nat) (pos : Nat) : Bool :=
  decide (dirent_inode v pos ≠ 0) && decide (strlen name = dirent_name_len v pos) &&
    decide (c_str (dirent_name v pos) = c_str name)

/-- The block buffer `block` holds logical block `k` of the file. -/
def holds_block (fs : ext2_fs_t) (inode : Buf) (block : Buf) (k : Nat) : Prop :=
  ∀ a, a < fs.block_size →
    block a = fs.block_device (block_start fs (get_block_number fs inode k) + a)

/-- Every block of the first `size` bytes of the file is counted in
`inode.blocks` and mapped to a non-zero block number. -/
def blocks_mapped (fs : ext2_fs_t) (inode : Buf) (size : Nat) : Prop :=
  ∀ k, k * fs.block_size < size →
    k < inode_blocks inode / (fs.block_size / 512) ∧ get_block_number fs inode k ≠ 0

/-- The scan state `(block_nr, dir_offset, block)` of a directory loop stands at
file offset `pos`: either inside the block it has loaded, or at the end of the
previous block, before the next one is loaded. -/
def scan_at (fs : ext2_fs_t) (inode : Buf) (pos block_nr dir_offset : Nat) (block : Buf) : Prop :=
  (block_nr = pos / fs.block_size ∧ dir_offset = pos % fs.block_size ∧
    holds_block fs inode block (pos / fs.block_size)) ∨
  (0 < pos ∧ pos % fs.block_size = 0 ∧ block_nr + 1 = pos / fs.block_size ∧
    dir_offset = fs.block_size)

/-- The device address of the record of inode number `ino`, as `refresh_inode`
computes it: `none` when `refresh_inode` or `read_block` refuses the number or
the record does not lie inside the table block. -/
def inode_slot (fs : ext2_fs_t) (ino : Nat) : Option Nat :=
  if ino = 0 then none
  else
    let index := ino - 1
    let group := u32 (index / fs.inodes_per_group)
    if group > fs.block_group_count then none
    else
      let index := sub64 index (u32 (group * fs.inodes_per_group))
      let block_offset := u32 (u64 (index * fs.inode_size) / fs.block_size)
      let offset_in_block := u32 (sub64 index (u32 (block_offset * (fs.block_size / fs.inode_size))))
      let b := u32 (bgd_inode_table fs group + block_offset)
      if b = 0 then none
      else if u32 (offset_in_block * fs.inode_size) + fs.inode_size ≤ fs.block_size then
        some (block_start fs b + u32 (offset_in_block * fs.inode_size))
      else none

/-- The table block that `write_inode` rewrites for inode number `index`. -/
def write_inode_block (fs : ext2_fs_t) (index : Nat) : Nat :=
  let group := (index - 1) / fs.inodes_per_group
  let index := index - 1 - group * fs.inodes_per_group
  bgd_inode_table fs group + u64 (index * fs.inode_size) / fs.block_size

/-- The byte offset in that block at which `write_inode` stores the record. -/
def write_inode_offset (fs : ext2_fs_t) (index : Nat) : Nat :=
  let group := (index - 1) / fs.inodes_per_group
  let index := index - 1 - group * fs.inodes_per_group
  let block_offset := u64 (index * fs.inode_size) / fs.block_size
  u64 (sub64 index (u64 (block_offset * (fs.block_size / fs.inode_size))) * fs.inode_size)

/-- Device address `a` lies in the inode record that `write_inode` overwrites
for inode number `index`. -/
def inode_write_range (fs : ext2_fs_t) (index a : Nat) : Prop :=
  index ≠ 0 ∧ ¬ ((index - 1) / fs.inodes_per_group > fs.block_group_count) ∧
  in_block fs (write_inode_block fs index) a ∧
  write_inode_offset fs index ≤ a - block_start fs (write_inode_block fs index) ∧
  a - block_start fs (write_inode_block fs index) < write_inode_offset fs index + fs.inode_size

/-- The directory with inode number `ino` is well-formed, with its records at
the file offsets `l`: its size is a multiple of the block size and at most 256
blocks, every block is counted and mapped, and in each block the records chain
from offset 0 exactly to the block boundary, each with `rec_len >= 8 + name_len`. -/
def dir_well_formed (fs : ext2_fs_t) (ino : Nat) (l : List Nat) : Prop :=
  0 < fs.block_size ∧
  inode_size_field (read_inode fs ino) % fs.block_size = 0 ∧
  inode_size_field (read_inode fs ino) ≤ 256 * fs.block_size ∧
  blocks_mapped fs (read_inode fs ino) (inode_size_field (read_inode fs ino)) ∧
  dir_chain (file_view fs (read_inode fs ino)) fs.block_size
    (inode_size_field (read_inode fs ino)) (inode_size_field (read_inode fs ino) + 1) 0 = some l

/-- The storage of the directory with inode number `ino` is laid out
consistently: its inode record is at device address `s`, its blocks are
addressed through the direct and single-indirect pointers, the bytes of the
directory lie at distinct device addresses, and none of them lies in the
directory's own inode record or in its single-indirect block. -/
def dir_layout (fs : ext2_fs_t) (ino s : Nat) : Prop :=
  inode_slot fs ino = some s ∧
  256 ≤ 12 + fs.pointers_per_block ∧ 12 + fs.pointers_per_block < 4294967296 ∧
  4 * fs.pointers_per_block ≤ fs.block_size ∧
  (∀ x y, x < inode_size_field (read_inode fs ino) → y < inode_size_field (read_inode fs ino) →
    file_byte_addr fs (read_inode fs ino) x = file_byte_addr fs (read_inode fs ino) y → x = y) ∧
  ∀ x, x < inode_size_field (read_inode fs ino) →
    ¬ (s ≤ file_byte_addr fs (read_inode fs ino) x ∧
        file_byte_addr fs (read_inode fs ino) x < s + fs.inode_size) ∧
    ¬ in_block fs (inode_block (read_inode fs ino) 12) (file_byte_addr fs (read_inode fs ino) x)

/-- The inode record of inode number `n`, as `write_inode` addresses it, lies
apart from the storage of the directory `ino`: from its inode record at `s`,
from its single-indirect block and from its bytes. -/
def inode_apart_from_dir (fs : ext2_fs_t) (ino s n : Nat) : Prop :=
  ∀ a, inode_write_range fs n a →
    ¬ (s ≤ a ∧ a < s + fs.inode_size) ∧
    ¬ in_block fs (inode_block (read_inode fs ino) 12) a ∧
    ∀ x, x < inode_size_field (read_inode fs ino) → a ≠ file_byte_addr fs (read_inode fs ino) x

/-! ## Example filesystem states

All of them have 1024-byte blocks (256 pointers per block), 128-byte inodes,
one descriptor block at block 2, and group 0 with its block bitmap at block 3,
its inode bitmap at block 4 and its inode table from block 5 on. -/

/-- A filesystem of one group of 16 inodes whose inode bitmap marks inode 1 as
free and inodes 2..16 as used, with a free-inode count of 1. -/
def reserved_free_fs : ext2_fs_t :=
  { superblock := fun a => if a = 16 then 1 else if a = 33 then 0x20 else 0
    block_groups := fun a =>
      if a = 0 then 3 else if a = 4 then 4 else if a = 8 then 5 else if a = 14 then 1 else 0
    block_device := fun a => if a = 4096 then 0xFE else if a = 4097 then 0xFF else 0
    block_size := 1024
    pointers_per_block := 256
    inodes_per_group := 16
    block_group_count := 1
    bgd_block_span := 1
    bgd_offset := 2
    inode_size := 128
    flags := 2
    malloc_junk := fun _ => 0 }

/-- An inode record whose triple-indirect pointer `block[14]` is block 100. -/
def triple_inode : Buf := fun a => if a = 96 then 100 else 0

/-- A filesystem in which block 100 points to block 101 and block 101 to block
102 (entry 0 each); the block bitmap marks blocks 0..103 as used. -/
def triple_fs : ext2_fs_t :=
  { superblock := fun a => if a = 12 then 200 else if a = 33 then 0x20 else 0
    block_groups := fun a =>
      if a = 0 then 3 else if a = 4 then 4 else if a = 8 then 5 else if a = 12 then 200 else 0
    block_device := fun a =>
      if 3072 ≤ a ∧ a < 3085 then 0xFF
      else if a = 102400 then 101 else if a = 103424 then 102 else 0
    block_size := 1024
    pointers_per_block := 256
    inodes_per_group := 1024
    block_group_count := 1
    bgd_block_span := 1
    bgd_offset := 2
    inode_size := 128
    flags := 2
    malloc_junk := fun _ => 0 }

/-- A device holding inode 12 (inode table block 6, byte 384): a regular file
(mode 0x81A4) of 67646464 bytes, that is 66061 blocks, `blocks` = 132122. -/
def big_file_dev : Buf := fun a =>
  if a = 6528 then 0xA4 else if a = 6529 then 0x81
  else if a = 6533 then 0x34 else if a = 6534 then 0x08 else if a = 6535 then 0x04
  else if a = 6556 then 0x1A else if a = 6557 then 0x04 else if a = 6558 then 0x02
  else 0

def big_file_fs : ext2_fs_t :=
  { superblock := fun a => if a = 33 then 0x20 else 0
    block_groups := fun a => if a = 0 then 3 else if a = 4 then 4 else if a = 8 then 5 else 0
    block_device := big_file_dev
    block_size := 1024
    pointers_per_block := 256
    inodes_per_group := 1024
    block_group_count := 16
    bgd_block_span := 1
    bgd_offset := 2
    inode_size := 128
    flags := 2
    malloc_junk := fun _ => 0 }

/-- A device holding the directory inode 2 (inode table block 5, byte 128:
mode 0x41ED, size 1024, `blocks` = 2, `block[0]` = 50) and its one block 50,
which six records fill exactly: "." (inode 2, rec_len 12), ".." (inode 2,
rec_len 12), three records with 252-byte names (inodes 11, 12, 13, rec_len
260) and a last record with a 212-byte name (inode 14, rec_len 220 = 8 + 212). -/
def full_dir_dev : Buf := fun a =>
  if a = 5248 then 0xED else if a = 5249 then 0x41
  else if a = 5253 then 0x04
  else if a = 5276 then 2
  else if a = 5288 then 50
  else if 51200 ≤ a ∧ a < 52224 then
    let o := a - 51200
    if o = 0 then 2 else if o = 4 then 12 else if o = 6 then 1 else if o = 8 then 46
    else if o = 12 then 2 else if o = 16 then 12 else if o = 18 then 2
    else if o = 20 then 46 else if o = 21 then 46
    else if o = 24 then 11 else if o = 28 then 4 else if o = 29 then 1 else if o = 30 then 252
    else if 32 ≤ o ∧ o < 284 then 97
    else if o = 284 then 12 else if o = 288 then 4 else if o = 289 then 1 else if o = 290 then 252
    else if 292 ≤ o ∧ o < 544 then 98
    else if o = 544 then 13 else if o = 548 then 4 else if o = 549 then 1 else if o = 550 then 252
    else if 552 ≤ o ∧ o < 804 then 99
    else if o = 804 then 14 else if o = 808 then 220 else if o = 810 then 212
    else if 812 ≤ o ∧ o < 1024 then 100
    else 0
  else 0

def full_dir_fs : ext2_fs_t :=
  { superblock := fun a => if a = 33 then 0x20 else 0
    block_groups := fun a => if a = 0 then 3 else if a = 4 then 4 else if a = 8 then 5 else 0
    block_device := full_dir_dev
    block_size := 1024
    pointers_per_block := 256
    inodes_per_group := 1024
    block_group_count := 1
    bgd_block_span := 1
    bgd_offset := 2
    inode_size := 128
    flags := 2
    malloc_junk := fun _ => 0 }

/-- A filesystem whose block bitmap (block 3) marks blocks 0..2 as used and
block 3, the bitmap block itself, as free; 10 free blocks are counted. -/
def self_free_bitmap_fs : ext2_fs_t :=
  { superblock := fun a => if a = 12 then 10 else if a = 33 then 0x20 else 0
    block_groups := fun a =>
      if a = 0 then 3 else if a = 4 then 4 else if a = 8 then 5 else if a = 12 then 10 else 0
    block_device := fun a => if a = 3072 then 0x07 else 0
    block_size := 1024
    pointers_per_block := 256
    inodes_per_group := 1024
    block_group_count := 1
    bgd_block_span := 1
    bgd_offset := 2
    inode_size := 128
    flags := 2
    malloc_junk := fun _ => 0 }

/-- A filesystem whose block bitmap is all zero, with 5 free blocks counted. -/
def block_zero_free_fs : ext2_fs_t :=
  { superblock := fun a => if a = 12 then 5 else if a = 33 then 0x20 else 0
    block_groups := fun a =>
      if a = 0 then 3 else if a = 4 then 4 else if a = 8 then 5 else if a = 12 then 5 else 0
    block_device := fun _ => 0
    block_size := 1024
    pointers_per_block := 256
    inodes_per_group := 1024
    block_group_count := 1
    bgd_block_span := 1
    bgd_offset := 2
    inode_size := 128
    flags := 2
    malloc_junk := fun _ => 0 }

/-- A filesystem whose only data is the non-zero first word (7) of device block 0. -/
def unset_pointer_fs : ext2_fs_t :=
  { superblock := fun a => if a = 33 then 0x20 else 0
    block_groups := fun a => if a = 0 then 3 else if a = 4 then 4 else if a = 8 then 5 else 0
    block_device := fun a => if a = 0 then 7 else 0
    block_size := 1024
    pointers_per_block := 256
    inodes_per_group := 1024
    block_group_count := 1
    bgd_block_span := 1
    bgd_offset := 2
    inode_size := 128
    flags := 2
    malloc_junk := fun _ => 0 }

/-- An inode record whose double-indirect pointer `block[13]` is block 100. -/
def double_inode : Buf := fun a => if a = 92 then 100 else 0

/-- A filesystem of two groups of 8 inodes: group 0 has no free inode (bitmap
at block 4, all used), group 1 has a free-inode count of 1 and its bitmap (at
block 10) marks its first inode, number 9, as free and the others as used. -/
def small_groups_fs : ext2_fs_t :=
  { superblock := fun a => if a = 16 then 1 else if a = 33 then 0x20 else 0
    block_groups := fun a =>
      if a = 0 then 3 else if a = 4 then 4 else if a = 8 then 5
      else if a = 32 then 9 else if a = 36 then 10 else if a = 40 then 11
      else if a = 46 then 1 else 0
    block_device := fun a => if a = 4096 then 0xFF else if a = 10240 then 0xFE else 0
    block_size := 1024
    pointers_per_block := 256
    inodes_per_group := 8
    block_group_count := 2
    bgd_block_span := 1
    bgd_offset := 2
    inode_size := 128
    flags := 2
    malloc_junk := fun _ => 0 }

/-- The sum of `free_blocks_count` over the groups. -/
def total_free_blocks (fs : ext2_fs_t) : Nat :=
  ((List.range fs.block_group_count).map (bgd_free_blocks_count fs)).sum

/-- The sum of `free_inodes_count` over the groups. -/
def total_free_inodes (fs : ext2_fs_t) : Nat :=
  ((List.range fs.block_group_count).map (bgd_free_inodes_count fs)).sum

/-- Byte `i` of the little-endian encoding of `v`. -/
def le32_byte (v i : Nat) : Nat := (v / 256 ^ i) % 256

/-- A device holding a directory of 257 blocks: inode 2 (inode table block 5,
byte 128) has mode 0x41ED, size 263168, `blocks` = 516, direct pointers
`block[k]` = 1000 + k and the single-indirect block 999, whose entry `e` is
1012 + e.  Block `k` of the directory (device block 1000 + k) is one record of
`rec_len` 1024 with inode 100 + k and a one-byte name: "a" in blocks 0..255 and
"z" in block 256. -/
def big_dir_dev : Buf := fun a =>
  let b := a / 1024
  let o := a % 1024
  if b = 5 then
    -- inode 2 at byte 128: mode 0x41ED, size 263168, blocks 516, block[k] = 1000 + k, block[12] = 999
    if o = 128 then 0xED else if o = 129 then 0x41
    else if 132 ≤ o ∧ o < 136 then le32_byte 263168 (o - 132)
    else if 156 ≤ o ∧ o < 160 then le32_byte 516 (o - 156)
    else if 168 ≤ o ∧ o < 216 then le32_byte (1000 + (o - 168) / 4) ((o - 168) % 4)
    else if 216 ≤ o ∧ o < 220 then le32_byte 999 (o - 216)
    else 0
  else if b = 999 then
    if o < 980 then le32_byte (1012 + o / 4) (o % 4) else 0
  else if 1000 ≤ b ∧ b < 1257 then
    if o < 4 then le32_byte (100 + (b - 1000)) o
    else if o = 5 then 4
    else if o = 6 then 1
    else if o = 8 then (if b = 1256 then 122 else 97)
    else 0
  else 0

def big_dir_fs : ext2_fs_t :=
  { superblock := fun a => if a = 33 then 0x20 else 0
    block_groups := fun a => if a = 0 then 3 else if a = 4 then 4 else if a = 8 then 5 else 0
    block_device := big_dir_dev
    block_size := 1024
    pointers_per_block := 256
    inodes_per_group := 1024
    block_group_count := 1
    bgd_block_span := 1
    bgd_offset := 2
    inode_size := 128
    flags := 2
    malloc_junk := fun _ => 0 }

/-- A device holding the directory inode 2 (size 1024, `block[0]` = 50) with
the records "." (inode 2, rec_len 12), ".." (inode 2, rec_len 12) and "x"
(inode 20, rec_len 1000) in block 50, and the regular file inode 20 (inode
table block 7, byte 384) with `links_count` 1. -/
def listed_dir_dev : Buf := fun a =>
  if a = 5248 then 0xED else if a = 5249 then 0x41
  else if a = 5253 then 0x04
  else if a = 5276 then 2
  else if a = 5288 then 50
  else if a = 7552 then 0xA4 else if a = 7553 then 0x81
  else if a = 7578 then 1
  else if 51200 ≤ a ∧ a < 52224 then
    let o := a - 51200
    if o = 0 then 2 else if o = 4 then 12 else if o = 6 then 1 else if o = 8 then 46
    else if o = 12 then 2 else if o = 16 then 12 else if o = 18 then 2
    else if o = 20 then 46 else if o = 21 then 46
    else if o = 24 then 20 else if o = 28 then 0xE8 else if o = 29 then 3 else if o = 30 then 1
    else if o = 32 then 120
    else 0
  else 0

def listed_dir_fs : ext2_fs_t :=
  { superblock := fun a => if a = 33 then 0x20 else 0
    block_groups := fun a => if a = 0 then 3 else if a = 4 then 4 else if a = 8 then 5 else 0
    block_device := listed_dir_dev
    block_size := 1024
    pointers_per_block := 256
    inodes_per_group := 1024
    block_group_count := 1
    bgd_block_span := 1
    bgd_offset := 2
    inode_size := 128
    flags := 2
    malloc_junk := fun _ => 0 }

/-! ## Specification-level definitions for inodes -/

/-- The inode bitmap of group `g` as `allocate_inode` loads it. -/
def inode_bitmap (fs : ext2_fs_t) (g : Nat) : Buf :=
  (read_block fs (bgd_inode_bitmap fs g) fs.malloc_junk).2

/-- The device byte offset that the specification gives for the record of
inode number `n`: `BGD[g].inode_table * block_size + ((n - 1) mod
inodes_per_group) * inode_size` with `g = (n - 1) div inodes_per_group`. -/
def inode_record_addr (fs : ext2_fs_t) (n : Nat) : Nat :=
  bgd_inode_table fs ((n - 1) / fs.inodes_per_group) * fs.block_size
    + ((n - 1) % fs.inodes_per_group) * fs.inode_size

/-- The number of the inode table block that holds the record of inode number
`n`: the table start of its group plus the whole blocks before the record. -/
def inode_record_block (fs : ext2_fs_t) (n : Nat) : Nat :=
  bgd_inode_table fs ((n - 1) / fs.inodes_per_group)
    + ((n - 1) % fs.inodes_per_group) * fs.inode_size / fs.block_size

/-- The record of inode number `n` can be addressed by the driver: the block
size and the inode size are positive and the inode size divides the block size,
inode numbers fit 32 bits, `n` is in `1..inodes_per_group * block_group_count`,
and the table block that holds the record has a non-zero number and ends within
the first 2^32 bytes of the device. -/
def inode_addressable (fs : ext2_fs_t) (n : Nat) : Prop :=
  0 < fs.block_size ∧ 0 < fs.inode_size ∧ fs.inode_size ∣ fs.block_size ∧
  fs.inodes_per_group * fs.block_group_count < 4294967296 ∧
  1 ≤ n ∧ n ≤ fs.inodes_per_group * fs.block_group_count ∧
  inode_record_block fs n ≠ 0 ∧ (inode_record_block fs n + 1) * fs.block_size ≤ 4294967296

/-- The number of bytes that the `for` loop of `read_ext2` has delivered once
`j` blocks are read, when the range starts `o` bytes into its first block. -/
def bytes_done (bs o j : Nat) : Nat := if j = 0 then 0 else j * bs - o

/-- The record at file offset `pos` is live: its inode field is not zero. -/
def live_record (v : Buf) (pos : Nat) : Bool := decide (dirent_inode v pos ≠ 0)

/-! ## Further example filesystem states -/

/-- A filesystem of 600 groups of 16 inodes on a device larger than 4 GiB: the
inode table of group 512 starts at block 4194309, that is at device byte
4294972416 = 2^32 + 5120, where the device holds the byte 0xA4; the device
byte 5120 is 0. -/
def far_table_fs : ext2_fs_t :=
  { superblock := fun a => if a = 33 then 0x20 else 0
    block_groups := fun a =>
      if a = 0 then 3 else if a = 4 then 4 else if a = 8 then 5
      else if a = 16392 then 5 else if a = 16394 then 0x40 else 0
    block_device := fun a => if a = 4294972416 then 0xA4 else 0
    block_size := 1024
    pointers_per_block := 256
    inodes_per_group := 16
    block_group_count := 600
    bgd_block_span := 19
    bgd_offset := 2
    inode_size := 128
    flags := 2
    malloc_junk := fun _ => 0 }

/-- A device with one group of 32 inodes: the block bitmap (block 3) marks
blocks 0..63 as used, the inode bitmap (block 4) marks inodes 1..10 as used,
and the root directory, inode 2 (inode table block 5, byte 128: mode 0x41ED,
size 1024, `links_count` 2, `blocks` 2, `block[0]` = 50), holds the records
"." (inode 2, rec_len 12) and ".." (inode 2, rec_len 1012) in block 50. -/
def fresh_dev : Buf := fun a =>
  if 3072 ≤ a ∧ a < 3080 then 0xFF
  else if a = 4096 then 0xFF else if a = 4097 then 0x03
  else if a = 5248 then 0xED else if a = 5249 then 0x41
  else if a = 5253 then 0x04
  else if a = 5274 then 2
  else if a = 5276 then 2
  else if a = 5288 then 50
  else if 51200 ≤ a ∧ a < 52224 then
    let o := a - 51200
    if o = 0 then 2 else if o = 4 then 12 else if o = 6 then 1 else if o = 8 then 46
    else if o = 12 then 2 else if o = 16 then 0xF4 else if o = 17 then 3 else if o = 18 then 2
    else if o = 20 then 46 else if o = 21 then 46
    else 0
  else 0

/-- The filesystem on `fresh_dev`, mounted read-write, with 100 free blocks
and 22 free inodes counted. -/
def fresh_fs : ext2_fs_t :=
  { superblock := fun a => if a = 12 then 100 else if a = 16 then 22 else if a = 33 then 0x20 else 0
    block_groups := fun a =>
      if a = 0 then 3 else if a = 4 then 4 else if a = 8 then 5
      else if a = 12 then 100 else if a = 14 then 22 else if a = 16 then 1 else 0
    block_device := fresh_dev
    block_size := 1024
    pointers_per_block := 256
    inodes_per_group := 32
    block_group_count := 1
    bgd_block_span := 1
    bgd_offset := 2
    inode_size := 128
    flags := 2
    malloc_junk := fun _ => 0 }

/-- The filesystem on `fresh_dev`, mounted read-only with diagnostic logging
(`EXT2_FLAG_LOUD` only). -/
def read_only_fs : ext2_fs_t := { fresh_fs with flags := 4 }

/-- The ambient values of the examples: time 1000, user 0, group 0. -/
def example_ambient : ambient_t := { now := 1000, user := 0, user_group := 0 }

/-- The listing scenario on `fresh_fs`: `mkdir_ext2` of "d" (mode 0755) in the
root directory, then `create_ext2` of "a", "b" and "c" (mode 0644) in the
directory that `finddir_ext2` returns for "d".  The result is the inode number
of "d" and the final state. -/
def listing_scenario : Option (Nat × ext2_fs_t) :=
  match mkdir_ext2 10 example_ambient fresh_fs 2 (some [100]) 0x1ED with
  | none => none
  | some (_, fs) =>
    match finddir_ext2 10 fs 2 [100] with
    | some (some d) =>
      match create_ext2 10 example_ambient fs d.inode (some [97]) 0x1A4 with
      | none => none
      | some (_, fs) =>
        match create_ext2 10 example_ambient fs d.inode (some [98]) 0x1A4 with
        | none => none
        | some (_, fs) =>
          match create_ext2 10 example_ambient fs d.inode (some [99]) 0x1A4 with
          | none => none
          | some (_, fs) => some (d.inode, fs)
    | _ => none

/-- A device holding the regular file inode 12 (inode table block 6, byte 384:
mode 0x81A4, size 3000, `links_count` 1, `blocks` 6, `block[0..2]` = 60, 61,
62); byte `x` of the blocks 60..62 (device bytes 61440..64511) is
`(x - 61440) mod 251`. -/
def pattern_file_dev : Buf := fun a =>
  if a = 6528 then 0xA4 else if a = 6529 then 0x81
  else if a = 6532 then 0xB8 else if a = 6533 then 0x0B
  else if a = 6554 then 1
  else if a = 6556 then 6
  else if a = 6568 then 60 else if a = 6572 then 61 else if a = 6576 then 62
  else if 61440 ≤ a ∧ a < 64512 then (a - 61440) % 251
  else 0

def pattern_file_fs : ext2_fs_t :=
  { superblock := fun a => if a = 33 then 0x20 else 0
    block_groups := fun a => if a = 0 then 3 else if a = 4 then 4 else if a = 8 then 5 else 0
    block_device := pattern_file_dev
    block_size := 1024
    pointers_per_block := 256
    inodes_per_group := 1024
    block_group_count := 1
    bgd_block_span := 1
    bgd_offset := 2
    inode_size := 128
    flags := 2
    malloc_junk := fun _ => 0 }

/-- The records at the offsets `l` have lengths as `create_entry` gives them:
each `rec_len` is a multiple of 4 and at least the minimal length for the name. -/
def rec_lens_aligned (v : Buf) (l : List Nat) : Prop :=
  ∀ q, q ∈ l → dirent_rec_len v q % 4 = 0 ∧ min_rec_len (dirent_name_len v q) ≤ dirent_rec_len v q

/-- The stores with which `create_entry` fills the new record at offset `off`:
inode, `rec_len`, `name_len`, `file_type` 0 and the bytes of the name. -/
def with_entry (b : Buf) (off inode rec_len : Nat) (name : List Nat) : Buf :=
  write_bytes (set8 (set8 (set16 (set32 b off inode) (off + 4) rec_len) (off + 6) (strlen name))
    (off + 7) 0) (off + 8) (c_str name)

/-- The buffer `b` holds the `bs` bytes of `w` that start at `base`. -/
def agrees (bs base : Nat) (b w : Buf) : Prop := ∀ j, j < bs → b j = w (base + j)

/-- The state `fs2` has the geometry of `fs`: the block size, the counts, the
uninitialised-buffer content, the blocks-per-group field of the superblock and
the three block pointers of every group descriptor are the same.  The device
content, the free counts and the directory counts may differ. -/
structure same_geometry (fs fs2 : ext2_fs_t) : Prop where
  bs : fs2.block_size = fs.block_size
  ppb : fs2.pointers_per_block = fs.pointers_per_block
  ipg : fs2.inodes_per_group = fs.inodes_per_group
  bgc : fs2.block_group_count = fs.block_group_count
  span : fs2.bgd_block_span = fs.bgd_block_span
  bgdo : fs2.bgd_offset = fs.bgd_offset
  isz : fs2.inode_size = fs.inode_size
  flg : fs2.flags = fs.flags
  junk : fs2.malloc_junk = fs.malloc_junk
  bpg : sb_blocks_per_group fs2 = sb_blocks_per_group fs
  bbm : ∀ g, bgd_block_bitmap fs2 g = bgd_block_bitmap fs g
  ibm : ∀ g, bgd_inode_bitmap fs2 g = bgd_inode_bitmap fs g
  itb : ∀ g, bgd_inode_table fs2 g = bgd_inode_table fs g

/-- Device address `a` holds part of the directory with inode number `ino`:
its inode record at `s`, its single-indirect block, or one of its bytes. -/
def dir_storage (fs : ext2_fs_t) (ino s a : Nat) : Prop :=
  (s ≤ a ∧ a < s + fs.inode_size) ∨ in_block fs (inode_block (read_inode fs ino) 12) a ∨
  ∃ x, x < inode_size_field (read_inode fs ino) ∧ a = file_byte_addr fs (read_inode fs ino) x

/-- Device address `a` lies in the metadata that every allocation rewrites:
the superblock bytes 1024..2047 or a block of the descriptor table. -/
def meta_range (fs : ext2_fs_t) (a : Nat) : Prop :=
  (1024 ≤ a ∧ a < 2048) ∨ ∃ j, j < fs.bgd_block_span ∧ in_block fs (fs.bgd_offset + j) a

/-- Device address `a` lies in the block bitmap of some group. -/
def block_bitmap_range (fs : ext2_fs_t) (a : Nat) : Prop :=
  ∃ g, g < fs.block_group_count ∧ in_block fs (bgd_block_bitmap fs g) a

/-- The block number that `allocate_block` computes for bit `k` of group `g`. -/
def bit_block (fs : ext2_fs_t) (g k : Nat) : Nat := u64 (k + u32 (sb_blocks_per_group fs * g))

/-- Device address `a` lies in a block that a block bitmap marks as free. -/
def free_range (fs : ext2_fs_t) (a : Nat) : Prop :=
  ∃ g k, g < fs.block_group_count ∧ k < 8 * fs.block_size ∧
    BLOCKBIT (block_bitmap fs g) k = false ∧ in_block fs (bit_block fs g k) a

/-- The volume is laid out consistently around the device addresses `P` that
are in use: the block bitmaps have non-zero block numbers and lie apart from
each other, from the superblock, from the descriptor table and from every
block they mark free; a free bit stands for a block of its own group, with a
non-zero number, that ends within the first 4 GiB of the device; the free
blocks lie apart from the superblock and the descriptor table; and `P` lies
apart from the superblock, the descriptor table, the bitmaps and the free
blocks. -/
def volume_ok (fs : ext2_fs_t) (P : Nat → Prop) : Prop :=
  (∀ g, g < fs.block_group_count → bgd_block_bitmap fs g ≠ 0) ∧
  (∀ g g2, g < fs.block_group_count → g2 < fs.block_group_count → g ≠ g2 →
    ∀ a, in_block fs (bgd_block_bitmap fs g) a → ¬ in_block fs (bgd_block_bitmap fs g2) a) ∧
  (∀ a, block_bitmap_range fs a → ¬ meta_range fs a ∧ ¬ free_range fs a) ∧
  (∀ g k, g < fs.block_group_count → k < 8 * fs.block_size →
    BLOCKBIT (block_bitmap fs g) k = false →
    k < sb_blocks_per_group fs ∧ sb_blocks_per_group fs * g + k ≠ 0 ∧
      (sb_blocks_per_group fs * g + k + 1) * fs.block_size ≤ 4294967296) ∧
  (∀ a, free_range fs a → ¬ meta_range fs a) ∧
  ∀ a, P a → ¬ meta_range fs a ∧ ¬ block_bitmap_range fs a ∧ ¬ free_range fs a

/-- At least `m` blocks can be handed out: the first group whose descriptor
counts free blocks counts at least `m` of them, and its bitmap has at least
`m` free bits. -/
def free_blocks_ready (fs : ext2_fs_t) (m : Nat) : Prop :=
  ∃ g ks, g < fs.block_group_count ∧ (∀ j, j < g → bgd_free_blocks_count fs j = 0) ∧
    m ≤ bgd_free_blocks_count fs g ∧ List.Nodup ks ∧ m ≤ ks.length ∧
    ∀ k, k ∈ ks → k < 8 * fs.block_size ∧ BLOCKBIT (block_bitmap fs g) k = false

/-- The buffer `r` is an inode record as `read_inode` hands it out: beyond
`inode_size` it holds the bytes of the uninitialised buffer. -/
def record_shaped (fs : ext2_fs_t) (r : Buf) : Prop :=
  ∀ j, fs.inode_size ≤ j → r j = fs.malloc_junk j

/-- Device address `a` lies in the record of inode number `n`. -/
def record_range (fs : ext2_fs_t) (n a : Nat) : Prop :=
  inode_record_addr fs n ≤ a ∧ a < inode_record_addr fs n + fs.inode_size

/-- What `set_block_number` leaves when it maps block `k` of the directory
`ino`, whose record in memory is `X`, to the fresh block `b`: the state `fs2`
and the record `X2`.  Only the pointers of the record change, the blocks below
`k` keep their numbers and block `k` gets the number `b`; the table block is
the old one or a block that was free; within the addresses in use `P1` only
the record of the directory and its old table block change on the device. -/
def block_mapped_post (fs1 : ext2_fs_t) (P1 : Nat → Prop) (X : Buf) (ino k b m : Nat)
    (fs2 : ext2_fs_t) (X2 : Buf) : Prop :=
  same_geometry fs1 fs2 ∧ record_shaped fs1 X2 ∧
  (∀ j, ¬ (40 ≤ j ∧ j < 92) → X2 j = X j) ∧
  (∀ j, j < k → get_block_number fs2 X2 j = get_block_number fs1 X j) ∧
  get_block_number fs2 X2 k = b ∧
  (12 ≤ k → inode_block X2 12 ≠ 0) ∧
  (∀ a, in_block fs1 (inode_block X2 12) a →
    in_block fs1 (inode_block X 12) a ∨ (free_range fs1 a ∧ ¬ P1 a)) ∧
  (∀ a, P1 a → ¬ record_range fs1 ino a → ¬ in_block fs1 (inode_block X 12) a →
    fs2.block_device a = fs1.block_device a) ∧
  volume_ok fs2 (fun a => P1 a ∨ in_block fs1 (inode_block X2 12) a) ∧
  free_blocks_ready fs2 m

/-- The last record of the chain `l` is longer than its name needs, which is
what `create_entry` looks for when it appends a record. -/
def last_has_slack (v : Buf) (l : List Nat) : Prop :=
  ∃ q, l.getLast? = some q ∧ dirent_rec_len v q ≠ min_rec_len (dirent_name_len v q)

/-- The directory `ino`, with its records at the offsets `l`, is ready for the
operations that change it, on a volume that is consistent around the
addresses in use `P`: its inode is addressable and carries the directory
mode, records take at least 128 bytes, the directory is well-formed with
record lengths as `create_entry` gives them, it is laid out consistently with
its inode record apart from its single-indirect block, a directory of more
than 12 blocks has a single-indirect block, and all its storage is in `P`. -/
def dir_ready (fs : ext2_fs_t) (P : Nat → Prop) (ino : Nat) (l : List Nat) : Prop :=
  inode_addressable fs ino ∧ 128 ≤ fs.inode_size ∧
  inode_mode (read_inode fs ino) &&& EXT2_S_IFDIR ≠ 0 ∧
  dir_well_formed fs ino l ∧ rec_lens_aligned (file_view fs (read_inode fs ino)) l ∧
  dir_layout fs ino (inode_record_addr fs ino) ∧
  (∀ a, record_range fs ino a → ¬ in_block fs (inode_block (read_inode fs ino) 12) a) ∧
  (12 * fs.block_size < inode_size_field (read_inode fs ino) →
    inode_block (read_inode fs ino) 12 ≠ 0) ∧
  (∀ a, dir_storage fs ino (inode_record_addr fs ino) a → P a) ∧ volume_ok fs P

/-- Device address `a` lies in the inode bitmap of some group. -/
def inode_bitmap_range (fs : ext2_fs_t) (a : Nat) : Prop :=
  ∃ g, g < fs.block_group_count ∧ in_block fs (bgd_inode_bitmap fs g) a

/-- The inode record that `symlink_ext2` writes for a target of at most 60
bytes, from the record `r` that it read: the initialised record with the
target in the bytes of `block[]` and the length of the target as size. -/
def symlink_record (r : Buf) (amb : ambient_t) (target : List Nat) : Buf :=
  set32 (write_bytes (init_inode r amb 1 (EXT2_S_IFLNK ||| 0x1FF)) 40 (c_str target)) 4
    (strlen target)

/-- The state that the last statements of `mkdir_ext2` leave, from the state
`fs` in which the block of the new directory `n` is written: the link count
of the parent is raised and its record written, the directory count of group
`n / inodes_per_group` is raised and the descriptor table written back. -/
def mkdir_finish (fs : ext2_fs_t) (parent n : Nat) : ext2_fs_t :=
  let pinode := read_inode fs parent
  let pinode := set16 pinode 26 (inode_links_count pinode + 1)
  let fs := (write_inode fs pinode parent).2
  let group := u32 (n / fs.inodes_per_group)
  let bgd := set16 fs.block_groups (32 * group + 16) (bgd_used_dirs_count fs group + 1)
  let fs := { fs with block_groups := bgd }
  flush_bgd fs

/-- The device addresses in use on `fresh_fs`: the inode table and the blocks
that the block bitmap marks as used behind it. -/
def fresh_in_use (a : Nat) : Prop := 5120 ≤ a ∧ a < 65536

/-- A device holding a directory of 256 blocks: inode 2 (inode table block 5,
byte 128) has mode 0x41ED, size 262144, `blocks` = 514, direct pointers
`block[k]` = 100 + k and the single-indirect block 99, whose entry `e` is
112 + e for `e < 244`.  Blocks 0..254 of the directory (device blocks
100..354) hold one record of `rec_len` 1024 with inode 2 and the name "a";
block 255 (device block 355) holds the records "a" (`rec_len` 1008) and "b"
(at offset 1008, `rec_len` 16).  The block bitmap (block 3) marks the blocks
0..359 as used. -/
def wrap_dir_dev : Buf := fun a =>
  let b := a / 1024
  let o := a % 1024
  if b = 3 then (if o < 45 then 0xFF else 0)
  else if b = 5 then
    if o = 128 then 0xED else if o = 129 then 0x41
    else if 132 ≤ o ∧ o < 136 then le32_byte 262144 (o - 132)
    else if 156 ≤ o ∧ o < 160 then le32_byte 514 (o - 156)
    else if 168 ≤ o ∧ o < 216 then le32_byte (100 + (o - 168) / 4) ((o - 168) % 4)
    else if 216 ≤ o ∧ o < 220 then le32_byte 99 (o - 216)
    else 0
  else if b = 99 then
    if o < 976 then le32_byte (112 + o / 4) (o % 4) else 0
  else if 100 ≤ b ∧ b < 355 then
    if o = 0 then 2 else if o = 5 then 4 else if o = 6 then 1 else if o = 8 then 97 else 0
  else if b = 355 then
    if o = 0 then 2 else if o = 4 then 0xF0 else if o = 5 then 3 else if o = 6 then 1
    else if o = 8 then 97
    else if o = 1008 then 2 else if o = 1012 then 16 else if o = 1014 then 1
    else if o = 1016 then 98
    else 0
  else 0

/-- The filesystem on `wrap_dir_dev`, mounted read-write, with 100 free blocks
counted. -/
def wrap_dir_fs : ext2_fs_t :=
  { superblock := fun a => if a = 12 then 100 else if a = 33 then 0x20 else 0
    block_groups := fun a =>
      if a = 0 then 3 else if a = 4 then 4 else if a = 8 then 5 else if a = 12 then 100 else 0
    block_device := wrap_dir_dev
    block_size := 1024
    pointers_per_block := 256
    inodes_per_group := 32
    block_group_count := 1
    bgd_block_span := 1
    bgd_offset := 2
    inode_size := 128
    flags := 2
    malloc_junk := fun _ => 0 }

/-- The filesystem on `fresh_dev` with one free block counted (block 64). -/
def one_free_block_fs : ext2_fs_t :=
  { fresh_fs with
    block_groups := fun a =>
      if a = 0 then 3 else if a = 4 then 4 else if a = 8 then 5
      else if a = 12 then 1 else if a = 14 then 22 else if a = 16 then 1 else 0 }

/-- The filesystem on `fresh_dev` with no free inode counted. -/
def no_free_inode_fs : ext2_fs_t :=
  { fresh_fs with
    block_groups := fun a =>
      if a = 0 then 3 else if a = 4 then 4 else if a = 8 then 5
      else if a = 12 then 100 else if a = 16 then 1 else 0 }

/-- The device `fresh_dev` with the inode bitmap (block 4) marking the inodes
1..31 as used: inode 32, the last inode of group 0, is the only free one. -/
def last_inode_dev : Buf := fun a =>
  if a = 4096 then 0xFF else if a = 4097 then 0xFF else if a = 4098 then 0xFF
  else if a = 4099 then 0x7F
  else fresh_dev a

/-- The filesystem on `last_inode_dev` with two groups of 32 inodes: group 0
counts 100 free blocks, 1 free inode and 1 directory, group 1 (block bitmap
8193, inode bitmap 8194, inode table 8195) counts nothing free and no
directory. -/
def last_inode_fs : ext2_fs_t :=
  { superblock := fun a => if a = 12 then 100 else if a = 16 then 1 else if a = 33 then 0x20 else 0
    block_groups := fun a =>
      if a = 0 then 3 else if a = 4 then 4 else if a = 8 then 5
      else if a = 12 then 100 else if a = 14 then 1 else if a = 16 then 1
      else if a = 32 then 1 else if a = 33 then 0x20
      else if a = 36 then 2 else if a = 37 then 0x20
      else if a = 40 then 3 else if a = 41 then 0x20
      else 0
    block_device := last_inode_dev
    block_size := 1024
    pointers_per_block := 256
    inodes_per_group := 32
    block_group_count := 2
    bgd_block_span := 1
    bgd_offset := 2
    inode_size := 128
    flags := 2
    malloc_junk := fun _ => 0 }

/-- A device holding the regular file inode 12 (inode table block 6, byte 384:
mode 0x81A4, size 67384320 = 65805 blocks, `links_count` 1, `blocks` 131610)
with every block mapped: `block[k]` = 1000 + k; the single-indirect block 999
with entry `e` = 1012 + e; the double-indirect block 998 with entry `c` =
2000 + c, and block 2000 + c with entry `d` = 3000 + 256 c + d; the
triple-indirect block 100 with entry 0 = 101, block 101 with entry 0 = 102 and
block 102 with entry 0 = 200, the block of logical block 65804, whose first
byte is 0x5A.  The block bitmap of group 9 (block 73731) marks the first 16
blocks of the group as used. -/
def triple_file_dev : Buf := fun a =>
  let b := a / 1024
  let o := a % 1024
  if b = 6 then
    if o = 384 then 0xA4 else if o = 385 then 0x81
    else if 388 ≤ o ∧ o < 392 then le32_byte 67384320 (o - 388)
    else if o = 410 then 1
    else if 412 ≤ o ∧ o < 416 then le32_byte 131610 (o - 412)
    else if 424 ≤ o ∧ o < 472 then le32_byte (1000 + (o - 424) / 4) ((o - 424) % 4)
    else if 472 ≤ o ∧ o < 476 then le32_byte 999 (o - 472)
    else if 476 ≤ o ∧ o < 480 then le32_byte 998 (o - 476)
    else if 480 ≤ o ∧ o < 484 then le32_byte 100 (o - 480)
    else 0
  else if b = 100 then (if o < 4 then le32_byte 101 o else 0)
  else if b = 101 then (if o < 4 then le32_byte 102 o else 0)
  else if b = 102 then (if o < 4 then le32_byte 200 o else 0)
  else if b = 200 then (if o = 0 then 0x5A else 0)
  else if b = 998 then le32_byte (2000 + o / 4) (o % 4)
  else if b = 999 then le32_byte (1012 + o / 4) (o % 4)
  else if 2000 ≤ b ∧ b < 2256 then le32_byte (3000 + (b - 2000) * 256 + o / 4) (o % 4)
  else if b = 73731 then (if o < 2 then 0xFF else 0)
  else 0

/-- The filesystem on `triple_file_dev`, mounted read-write: ten groups of
8192 blocks and 32 inodes (block bitmap, inode bitmap and inode table of group
`g` at its blocks 3, 4 and 5); the groups 0..8 count no free block, group 9
counts 100. -/
def triple_file_fs : ext2_fs_t :=
  { superblock := fun a => if a = 12 then 100 else if a = 33 then 0x20 else 0
    block_groups := fun a =>
      let g := a / 32
      let f := a % 32
      if g < 10 then
        if f < 4 then le32_byte (8192 * g + 3) f
        else if f < 8 then le32_byte (8192 * g + 4) (f - 4)
        else if f < 12 then le32_byte (8192 * g + 5) (f - 8)
        else if f = 12 then (if g = 9 then 100 else 0)
        else 0
      else 0
    block_device := triple_file_dev
    block_size := 1024
    pointers_per_block := 256
    inodes_per_group := 32
    block_group_count := 10
    bgd_block_span := 1
    bgd_offset := 2
    inode_size := 128
    flags := 2
    malloc_junk := fun _ => 0 }

/-- The device `wrap_dir_dev` with the record of block 0 of the directory
(device block 100) changed to inode 77 and the name "z". -/
def wrap_named_dev : Buf := fun a =>
  if a = 102400 then 77 else if a = 102408 then 122 else wrap_dir_dev a

/-- The filesystem `wrap_dir_fs` on `wrap_named_dev`. -/
def wrap_named_fs : ext2_fs_t := { wrap_dir_fs with block_device := wrap_named_dev }

/-- The device `fresh_dev` with the `links_count` of the root directory,
inode 2, at its largest value 65535. -/
def max_links_dev : Buf := fun a =>
  if a = 5274 then 0xFF else if a = 5275 then 0xFF else fresh_dev a

/-- The filesystem `fresh_fs` on `max_links_dev`. -/
def max_links_fs : ext2_fs_t := { fresh_fs with block_device := max_links_dev }

/-- Entry `k` (a little-endian 32-bit word) of the table block `b`, at the
device offset where `read_block` and `write_block` address the block. -/
def table_entry (fs : ext2_fs_t) (b k : Nat) : Nat :=
  get32 fs.block_device (block_start fs b + 4 * k)

/-- Device address `a` is one of the four bytes of entry `k` of the table
block `b`. -/
def in_cell (fs : ext2_fs_t) (b k a : Nat) : Prop :=
  block_start fs b + 4 * k ≤ a ∧ a < block_start fs b + 4 * k + 4

/-- Logical block `i` of the inode record `X` is mapped to the block number
`r`, and every pointer on the way to it is set: `block[i]` is `r` for
`i < 12`; `block[12]` is set and its entry `i - 12` is `r` for
`12 <= i < 12 + P`; `block[13]` is set, its entry `(i - 12 - P) / P` is set
and names a block whose entry `(i - 12 - P) % P` is `r` beyond. -/
def maps_to (fs : ext2_fs_t) (X : Buf) (i r : Nat) : Prop :=
  if i < 12 then inode_block X i = r
  else if i < 12 + fs.pointers_per_block then
    inode_block X 12 ≠ 0 ∧ table_entry fs (inode_block X 12) (i - 12) = r
  else
    inode_block X 13 ≠ 0 ∧
    table_entry fs (inode_block X 13)
      ((i - 12 - fs.pointers_per_block) / fs.pointers_per_block) ≠ 0 ∧
    table_entry fs (table_entry fs (inode_block X 13)
      ((i - 12 - fs.pointers_per_block) / fs.pointers_per_block))
      ((i - 12 - fs.pointers_per_block) % fs.pointers_per_block) = r

/-- The indirection blocks of the inode `ino`, whose record in memory is `X`,
are laid out consistently around the device addresses `P` that are in use:
the volume is consistent around `P`; the inode is addressable and its record
is in use; a block holds the `P` pointers and `12 + P + P*P` fits in 32 bits;
the single-indirect block `block[12]`, the double-indirect block `block[13]`
and the blocks that the entries of `block[13]` name are in use, and their
device ranges lie apart from the record and from each other. -/
structure tables_ok (fs : ext2_fs_t) (P : Nat → Prop) (X : Buf) (ino : Nat) : Prop where
  vol : volume_ok fs P
  adr : inode_addressable fs ino
  ppb : 0 < fs.pointers_per_block ∧ 4 * fs.pointers_per_block ≤ fs.block_size ∧
    12 + fs.pointers_per_block + fs.pointers_per_block * fs.pointers_per_block < 4294967296
  recd : ∀ a, record_range fs ino a → P a
  single : ∀ a, in_block fs (inode_block X 12) a → P a ∧ ¬ record_range fs ino a
  double : ∀ a, in_block fs (inode_block X 13) a →
    P a ∧ ¬ record_range fs ino a ∧ ¬ in_block fs (inode_block X 12) a
  leaf : inode_block X 13 ≠ 0 → ∀ c, c < fs.pointers_per_block →
    ∀ a, in_block fs (table_entry fs (inode_block X 13) c) a →
      P a ∧ ¬ record_range fs ino a ∧ ¬ in_block fs (inode_block X 12) a ∧
      ¬ in_block fs (inode_block X 13) a ∧
      ∀ c2, c2 < fs.pointers_per_block → c2 ≠ c →
        ¬ in_block fs (table_entry fs (inode_block X 13) c2) a

/-- An inode record whose single-indirect and double-indirect pointers name
the same block: `block[12]` = `block[13]` = 60, everything else 0. -/
def crossed_inode : Buf := fun a => if a = 88 then 60 else if a = 92 then 60 else 0

/-- The block number `b` is set and names a block that ends within the first
4 GiB of the device, where the 32-bit product `block_no * block_size` of
`read_block` and `write_block` is the offset of the block. -/
def block_reachable (fs : ext2_fs_t) (b : Nat) : Prop :=
  b ≠ 0 ∧ (b + 1) * fs.block_size ≤ 4294967296

/-- Every pointer that the reference translation of logical block `i` follows
is set and names a block within the first 4 GiB: `block[12]` on the
single-indirect range, `block[13]` and its entry `(i - 12 - P) / P` on the
double-indirect range. -/
def reference_path (fs : ext2_fs_t) (inode : Buf) (i : Nat) : Prop :=
  (12 ≤ i → i < 12 + fs.pointers_per_block → block_reachable fs (inode_block inode 12)) ∧
  (12 + fs.pointers_per_block ≤ i →
    block_reachable fs (inode_block inode 13) ∧
    block_reachable fs (block_entry fs (inode_block inode 13)
      ((i - 12 - fs.pointers_per_block) / fs.pointers_per_block)))

/-- An inode record whose single-indirect pointer `block[12]` is 4194364, a
block that starts 61440 bytes behind the first 4 GiB of a device with
1024-byte blocks. -/
def far_pointer_inode : Buf := fun a => if a = 88 then 0x3C else if a = 90 then 0x40 else 0

/-- A filesystem on a device larger than 4 GiB: the first word of block 60
(device byte 61440) is 5, the first word of block 4194364 (device byte
4295028736 = 2^32 + 61440) is 9. -/
def far_entry_fs : ext2_fs_t :=
  { superblock := fun a => if a = 33 then 0x20 else 0
    block_groups := fun a => if a = 0 then 3 else if a = 4 then 4 else if a = 8 then 5 else 0
    block_device := fun a => if a = 61440 then 5 else if a = 4295028736 then 9 else 0
    block_size := 1024
    pointers_per_block := 256
    inodes_per_group := 1024
    block_group_count := 1
    bgd_block_span := 1
    bgd_offset := 2
    inode_size := 128
    flags := 2
    malloc_junk := fun _ => 0 }

/-- Device address `a` is a byte of the block numbered `b`. -/
def block_bytes (fs : ext2_fs_t) (b a : Nat) : Prop :=
  b * fs.block_size ≤ a ∧ a < (b + 1) * fs.block_size

/-- The bitmap block of group `g` is clear of everything else that
`allocate_block` writes when it hands out block `n`: it has a non-zero number;
it, the blocks of the descriptor table and block `n` end within the first
4 GiB of the device, where the 32-bit block offsets of the driver are exact;
and it shares no device byte with the superblock bytes 1024..2047, with a
block of the descriptor table or with block `n`. -/
def bitmap_block_clear (fs : ext2_fs_t) (g n : Nat) : Prop :=
  block_reachable fs (bgd_block_bitmap fs g) ∧ (n + 1) * fs.block_size ≤ 4294967296 ∧
  (∀ j, j < fs.bgd_block_span → (fs.bgd_offset + j + 1) * fs.block_size ≤ 4294967296) ∧
  ∀ a, block_bytes fs (bgd_block_bitmap fs g) a →
    ¬ (1024 ≤ a ∧ a < 2048) ∧ ¬ block_bytes fs n a ∧
    ∀ j, j < fs.bgd_block_span → ¬ block_bytes fs (fs.bgd_offset + j) a

/-- A filesystem of 513 groups of 8192 blocks on a device larger than 4 GiB.
Only group 512 counts a free block; its block bitmap, in block 20, marks the
bits 0..19 as used, so that the first free block is 20 + 8192 * 512 = 4194324. -/
def far_bitmap_fs : ext2_fs_t :=
  { superblock := fun a => if a = 12 then 1 else if a = 33 then 0x20 else 0
    block_groups := fun a =>
      if a = 16384 then 20 else if a = 16388 then 21 else if a = 16392 then 22
      else if a = 16396 then 1 else 0
    block_device := fun a =>
      if a = 20480 then 0xFF else if a = 20481 then 0xFF else if a = 20482 then 0x0F else 0
    block_size := 1024
    pointers_per_block := 256
    inodes_per_group := 1024
    block_group_count := 513
    bgd_block_span := 17
    bgd_offset := 2
    inode_size := 128
    flags := 2
    malloc_junk := fun _ => 0 }

/-- The first `size` bytes of the file with inode record `inode` are mapped:
every block below the size is counted in `inode.blocks`, the pointers that the
reference translation follows to it are set and name blocks within the first
4 GiB, and so does the block number that the translation gives. -/
def file_mapped (fs : ext2_fs_t) (inode : Buf) (size : Nat) : Prop :=
  ∀ k, k * fs.block_size < size →
    k < inode_blocks inode / (fs.block_size / 512) ∧ reference_path fs inode k ∧
    block_reachable fs (reference_block_number fs inode k)

/-- A device larger than 4 GiB holding the regular file inode 12 (inode table
block 6, byte 384: mode 0x81A4, size 1, `links_count` 1, `blocks` 2,
`block[0]` = 4194364).  The first byte of block 4194364 (device byte
4295028736 = 2^32 + 61440) is 0xAA; the first byte of block 60 (device byte
61440) is 0x11. -/
def far_file_dev : Buf := fun a =>
  if a = 6528 then 0xA4 else if a = 6529 then 0x81
  else if a = 6532 then 1
  else if a = 6554 then 1
  else if a = 6556 then 2
  else if a = 6568 then 0x3C else if a = 6570 then 0x40
  else if a = 61440 then 0x11
  else if a = 4295028736 then 0xAA
  else 0

/-- The filesystem on `far_file_dev`. -/
def far_file_fs : ext2_fs_t := { pattern_file_fs with block_device := far_file_dev }

/-- A device holding the directory inode 2 (size 1024, `block[0]` = 50) with
the records "." (inode 2, rec_len 12), ".." (inode 2, rec_len 12) and "x"
(inode 362, rec_len 1000) in block 50.  With 1024 inodes per group and the
inode table from block 5 on, the record of inode 362 is byte 128 of block 50,
inside the record "x": directory byte 154, its `links_count`, is 1. -/
def crossed_dir_dev : Buf := fun a =>
  if a = 5248 then 0xED else if a = 5249 then 0x41
  else if a = 5253 then 0x04
  else if a = 5276 then 2
  else if a = 5288 then 50
  else if 51200 ≤ a ∧ a < 52224 then
    let o := a - 51200
    if o = 0 then 2 else if o = 4 then 12 else if o = 6 then 1 else if o = 8 then 46
    else if o = 12 then 2 else if o = 16 then 12 else if o = 18 then 2
    else if o = 20 then 46 else if o = 21 then 46
    else if o = 24 then 0x6A else if o = 25 then 1
    else if o = 28 then 0xE8 else if o = 29 then 3 else if o = 30 then 1
    else if o = 32 then 120
    else if o = 154 then 1
    else 0
  else 0

/-- The filesystem on `crossed_dir_dev`. -/
def crossed_dir_fs : ext2_fs_t := { listed_dir_fs with block_device := crossed_dir_dev }

/-- A device on which the inode table reaches into a directory block: the root
directory, inode 2 (size 1024, `block[0]` = 50), holds the records "."
(rec_len 12) and one with a name of 108 bytes "b" (rec_len 1012); the inode
bitmap (block 4) marks the inodes 1..361 as used, and with 1024 inodes per
group and the inode table from block 5 on, the record of inode 362 is byte 128
of block 50, in the room behind the last record of the directory. -/
def crossed_link_dev : Buf := fun a =>
  if 3072 ≤ a ∧ a < 3080 then 0xFF
  else if 4096 ≤ a ∧ a < 4141 then 0xFF else if a = 4141 then 0x01
  else if a = 5248 then 0xED else if a = 5249 then 0x41
  else if a = 5253 then 0x04
  else if a = 5274 then 2
  else if a = 5276 then 2
  else if a = 5288 then 50
  else if 51200 ≤ a ∧ a < 52224 then
    let o := a - 51200
    if o = 0 then 2 else if o = 4 then 12 else if o = 6 then 1 else if o = 8 then 46
    else if o = 12 then 2 else if o = 16 then 0xF4 else if o = 17 then 3 else if o = 18 then 108
    else if 20 ≤ o ∧ o < 128 then 98
    else 0
  else 0

/-- The filesystem on `crossed_link_dev`, mounted read-write, with 100 free
blocks and 100 free inodes counted. -/
def crossed_link_fs : ext2_fs_t :=
  { superblock := fun a => if a = 12 then 100 else if a = 16 then 100 else if a = 33 then 0x20 else 0
    block_groups := fun a =>
      if a = 0 then 3 else if a = 4 then 4 else if a = 8 then 5
      else if a = 12 then 100 else if a = 14 then 100 else if a = 16 then 1 else 0
    block_device := crossed_link_dev
    block_size := 1024
    pointers_per_block := 256
    inodes_per_group := 1024
    block_group_count := 1
    bgd_block_span := 1
    bgd_offset := 2
    inode_size := 128
    flags := 2
    malloc_junk := fun _ => 0 }

/-- The directory `ino`, with its records at the offsets `l`, can be scanned
and extended in place: its inode carries the directory mode, the directory is
well-formed with record lengths as `create_entry` gives them, and it is laid
out consistently. -/
def dir_usable (fs : ext2_fs_t) (ino : Nat) (l : List Nat) : Prop :=
  inode_mode (read_inode fs ino) &&& EXT2_S_IFDIR ≠ 0 ∧
  dir_well_formed fs ino l ∧ rec_lens_aligned (file_view fs (read_inode fs ino)) l ∧
  dir_layout fs ino (inode_record_addr fs ino)

/-- The inode number and the name of the record at file offset `r`. -/
def dirent_entry (v : Buf) (r : Nat) : dirent :=
  { d_ino := dirent_inode v r, d_name := dirent_name v r }

/-- What a `create_ext2` in the directory `d` needs from `allocate_inode`: it
hands out the inode `n`, the record of `n` can be addressed, and the storage
of `d` is apart from the inode bitmaps and from the record of `n`. -/
def inode_supply (fs : ext2_fs_t) (d n : Nat) : Prop :=
  (allocate_inode fs).map Prod.fst = some n ∧ inode_addressable fs n ∧
  ∀ a, dir_storage fs d (inode_record_addr fs d) a →
    ¬ inode_bitmap_range fs a ∧ ¬ record_range fs n a

/-- The state after `mkdir_ext2` of "d" in the root directory of `fresh_fs`. -/
def listing_fs1 : ext2_fs_t :=
  ((mkdir_ext2 10 example_ambient fresh_fs 2 (some [100]) 0x1ED).map Prod.snd).getD fresh_fs

/-- The state after `create_ext2` of "a" in the new directory. -/
def listing_fs2 : ext2_fs_t :=
  ((create_ext2 10 example_ambient listing_fs1 11 (some [97]) 0x1A4).map Prod.snd).getD fresh_fs

/-- The state after `create_ext2` of "b" in the new directory. -/
def listing_fs3 : ext2_fs_t :=
  ((create_ext2 10 example_ambient listing_fs2 11 (some [98]) 0x1A4).map Prod.snd).getD fresh_fs

/-! # Theorems -/

/-! ## Buffers -/

theorem get8_lt (b : Buf) (i : Nat) : get8 b i < 256 := Nat.mod_lt _ (by decide)

theorem get16_lt (b : Buf) (i : Nat) : get16 b i < 65536 := by
  have h0 := get8_lt b i
  have h1 := get8_lt b (i + 1)
  unfold get16
  omega

theorem get32_lt (b : Buf) (i : Nat) : get32 b i < 4294967296 := by
  have h0 := get8_lt b i
  have h1 := get8_lt b (i + 1)
  have h2 := get8_lt b (i + 2)
  have h3 := get8_lt b (i + 3)
  unfold get32
  omega

theorem u32_of_lt {x : Nat} (h : x < 4294967296) : u32 x = x := Nat.mod_eq_of_lt h

theorem u32_get32 (b : Buf) (i : Nat) : u32 (get32 b i) = get32 b i := u32_of_lt (get32_lt b i)

theorem get8_set8 (b : Buf) (i v j : Nat) :
    get8 (set8 b i v) j = if j = i then v % 256 else get8 b j := by
  unfold get8 set8
  split <;> simp

theorem get8_memcpy (dst src : Buf) (d s n j : Nat) :
    get8 (memcpy dst d src s n) j
      = if d ≤ j ∧ j < d + n then get8 src (s + (j - d)) else get8 dst j := by
  unfold get8 memcpy
  split <;> rfl

theorem get8_memset (dst : Buf) (d v n j : Nat) :
    get8 (memset dst d v n) j = if d ≤ j ∧ j < d + n then v % 256 else get8 dst j := by
  unfold get8 memset
  split <;> simp

/-- Two buffers with the same bytes at `i .. i+3` hold the same 32-bit word there. -/
theorem get32_congr {b c : Buf} {i j : Nat}
    (h : ∀ k, k < 4 → get8 b (i + k) = get8 c (j + k)) : get32 b i = get32 c j := by
  unfold get32
  have h0 := h 0 (by decide)
  have h1 := h 1 (by decide)
  have h2 := h 2 (by decide)
  have h3 := h 3 (by decide)
  simp only [Nat.add_zero] at h0
  rw [h0, h1, h2, h3]

theorem get16_congr {b c : Buf} {i j : Nat}
    (h : ∀ k, k < 2 → get8 b (i + k) = get8 c (j + k)) : get16 b i = get16 c j := by
  unfold get16
  have h0 := h 0 (by decide)
  have h1 := h 1 (by decide)
  simp only [Nat.add_zero] at h0
  rw [h0, h1]

theorem get32_memcpy_inside (dst src : Buf) (d s n j : Nat) (h1 : d ≤ j) (h2 : j + 4 ≤ d + n) :
    get32 (memcpy dst d src s n) j = get32 src (s + (j - d)) := by
  apply get32_congr
  intro k hk
  rw [get8_memcpy, if_pos (by omega)]
  congr 1
  omega

theorem get32_memcpy_outside (dst src : Buf) (d s n j : Nat) (h : j + 4 ≤ d ∨ d + n ≤ j) :
    get32 (memcpy dst d src s n) j = get32 dst j := by
  apply get32_congr
  intro k hk
  rw [get8_memcpy, if_neg (by omega)]

theorem get32_set32_same (b : Buf) (i v : Nat) : get32 (set32 b i v) i = v % 4294967296 := by
  unfold get32 set32
  simp only [get8_set8]
  simp
  omega

theorem get32_set32_other (b : Buf) (i v j : Nat) (h : j + 4 ≤ i ∨ i + 4 ≤ j) :
    get32 (set32 b i v) j = get32 b j := by
  apply get32_congr
  intro k hk
  unfold set32
  simp only [get8_set8]
  rw [if_neg (by omega), if_neg (by omega), if_neg (by omega), if_neg (by omega)]

theorem get16_set16_same (b : Buf) (i v : Nat) : get16 (set16 b i v) i = v % 65536 := by
  unfold get16 set16
  simp only [get8_set8]
  simp
  omega

theorem get16_set16_other (b : Buf) (i v j : Nat) (h : j + 2 ≤ i ∨ i + 2 ≤ j) :
    get16 (set16 b i v) j = get16 b j := by
  apply get16_congr
  intro k hk
  unfold set16
  simp only [get8_set8]
  rw [if_neg (by omega), if_neg (by omega)]

theorem get32_set16_other (b : Buf) (i v j : Nat) (h : j + 4 ≤ i ∨ i + 2 ≤ j) :
    get32 (set16 b i v) j = get32 b j := by
  apply get32_congr
  intro k hk
  unfold set16
  simp only [get8_set8]
  rw [if_neg (by omega), if_neg (by omega)]

theorem get16_set32_other (b : Buf) (i v j : Nat) (h : j + 2 ≤ i ∨ i + 4 ≤ j) :
    get16 (set32 b i v) j = get16 b j := by
  apply get16_congr
  intro k hk
  unfold set32
  simp only [get8_set8]
  rw [if_neg (by omega), if_neg (by omega), if_neg (by omega), if_neg (by omega)]

/-! ## Block access -/

theorem read_block_snd (fs : ext2_fs_t) (b : Nat) (buf : Buf) (hb : u32 b ≠ 0) :
    (read_block fs b buf).2
      = memcpy buf 0 fs.block_device (u32 (u32 b * fs.block_size)) fs.block_size := by
  unfold read_block read_fs
  rw [if_neg hb]

theorem read_block_zero (fs : ext2_fs_t) (b : Nat) (buf : Buf) (hb : u32 b = 0) :
    (read_block fs b buf).2 = buf := by
  unfold read_block
  rw [if_pos hb]

theorem get32_read_block (fs : ext2_fs_t) (b : Nat) (buf : Buf) (j : Nat) (hb : u32 b ≠ 0)
    (hj : j + 4 ≤ fs.block_size) :
    get32 (read_block fs b buf).2 j = get32 fs.block_device (u32 (u32 b * fs.block_size) + j) := by
  rw [read_block_snd fs b buf hb, get32_memcpy_inside _ _ _ _ _ _ (Nat.zero_le _) (by omega)]
  simp

theorem sub32_of_le {a b : Nat} (ha : a < 4294967296) (hb : b ≤ a) : sub32 a b = a - b := by
  unfold sub32 u32
  rw [Nat.mod_eq_of_lt ha, Nat.mod_eq_of_lt (lt_of_le_of_lt hb ha)]
  omega

/-! ## Bitmap scans -/

theorem scan_free_bit_some (bg : Buf) : ∀ n off k, scan_free_bit bg n off = some k →
    off ≤ k ∧ k < off + n ∧ BLOCKBIT bg k = false ∧
      ∀ j, off ≤ j → j < k → BLOCKBIT bg j = true := by
  intro n
  induction n with
  | zero => intro off k h; simp [scan_free_bit] at h
  | succ n ih =>
    intro off k h
    unfold scan_free_bit at h
    by_cases hb : BLOCKBIT bg off = true
    · rw [if_pos hb] at h
      obtain ⟨h1, h2, h3, h4⟩ := ih (off + 1) k h
      refine ⟨by omega, by omega, h3, ?_⟩
      intro j hj1 hj2
      by_cases hj : j = off
      · rw [hj]; exact hb
      · exact h4 j (by omega) hj2
    · rw [if_neg hb] at h
      have hk : off = k := by simpa using h
      subst hk
      refine ⟨le_refl _, by omega, by simpa using hb, ?_⟩
      intro j hj1 hj2
      omega

theorem scan_free_bit_none (bg : Buf) : ∀ n off, scan_free_bit bg n off = none →
    ∀ j, off ≤ j → j < off + n → BLOCKBIT bg j = true := by
  intro n
  induction n with
  | zero => intro off _ j h1 h2; omega
  | succ n ih =>
    intro off h j hj1 hj2
    unfold scan_free_bit at h
    by_cases hb : BLOCKBIT bg off = true
    · rw [if_pos hb] at h
      by_cases hj : j = off
      · rw [hj]; exact hb
      · exact ih (off + 1) h j (by omega) (by omega)
    · rw [if_neg hb] at h
      simp at h

theorem allocate_block_groups_spec (fs : ext2_fs_t) : ∀ n i r,
    allocate_block_groups fs n i = some r →
    (r = (0, 0, 0, fs.malloc_junk) ∧
      ∀ j, i ≤ j → j < i + n → bgd_free_blocks_count fs j = 0) ∨
    (∃ g k, i ≤ g ∧ g < i + n ∧ 0 < bgd_free_blocks_count fs g ∧
      (∀ j, i ≤ j → j < g → bgd_free_blocks_count fs j = 0) ∧
      scan_free_bit (block_bitmap fs g) (8 * fs.block_size) 0 = some k ∧
      r = (u64 (k + u32 (sb_blocks_per_group fs * g)), k, g, block_bitmap fs g)) := by
  intro n
  induction n with
  | zero =>
    intro i r h
    left
    unfold allocate_block_groups at h
    refine ⟨by simpa using h.symm, ?_⟩
    intro j h1 h2; omega
  | succ n ih =>
    intro i r h
    unfold allocate_block_groups at h
    by_cases hf : bgd_free_blocks_count fs i > 0
    · rw [if_pos hf] at h
      dsimp only at h
      right
      cases hs : scan_free_bit (read_block fs (bgd_block_bitmap fs i) fs.malloc_junk).2
          (8 * fs.block_size) 0 with
      | none => rw [hs] at h; simp at h
      | some k =>
        rw [hs] at h
        refine ⟨i, k, le_refl _, by omega, hf, ?_, hs, by simpa using h.symm⟩
        intro j h1 h2; omega
    · rw [if_neg hf] at h
      rcases ih (i + 1) r h with ⟨h1, h2⟩ | ⟨g, k, h1, h2, h3, h4, h5, h6⟩
      · left
        refine ⟨h1, ?_⟩
        intro j hj1 hj2
        by_cases hj : j = i
        · rw [hj]; omega
        · exact h2 j (by omega) (by omega)
      · right
        refine ⟨g, k, by omega, by omega, h3, ?_, h5, h6⟩
        intro j hj1 hj2
        by_cases hj : j = i
        · rw [hj]; omega
        · exact h4 j (by omega) hj2

theorem allocate_block_spec (fs : ext2_fs_t) (r : Nat × ext2_fs_t)
    (h : allocate_block fs = some r) :
    (r = (0, fs) ∧ ((∀ j, j < fs.block_group_count → bgd_free_blocks_count fs j = 0) ∨
      ∃ g k, g < fs.block_group_count ∧ 0 < bgd_free_blocks_count fs g ∧
        (∀ j, j < g → bgd_free_blocks_count fs j = 0) ∧
        scan_free_bit (block_bitmap fs g) (8 * fs.block_size) 0 = some k ∧
        u64 (k + u32 (sb_blocks_per_group fs * g)) = 0)) ∨
    (∃ g k, g < fs.block_group_count ∧ 0 < bgd_free_blocks_count fs g ∧
      (∀ j, j < g → bgd_free_blocks_count fs j = 0) ∧
      scan_free_bit (block_bitmap fs g) (8 * fs.block_size) 0 = some k ∧
      r.1 = u64 (k + u32 (sb_blocks_per_group fs * g)) ∧ r.1 ≠ 0 ∧
      r.2 = allocate_block_commit fs r.1 k g (block_bitmap fs g)) := by
  unfold allocate_block at h
  cases hg : allocate_block_groups fs fs.block_group_count 0 with
  | none => rw [hg] at h; simp at h
  | some q =>
    rw [hg] at h
    obtain ⟨bn, off, grp, bg⟩ := q
    dsimp only at h
    rcases allocate_block_groups_spec fs _ _ _ hg with ⟨h1, h2⟩ | ⟨g, k, h1, h2, h3, h4, h5, h6⟩
    · left
      simp only [Prod.mk.injEq] at h1
      obtain ⟨e1, -, -, -⟩ := h1
      subst e1
      simp only [if_true] at h
      refine ⟨by simpa using h.symm, Or.inl ?_⟩
      intro j hj; exact h2 j (Nat.zero_le _) (by omega)
    · simp only [Prod.mk.injEq] at h6
      obtain ⟨e1, e2, e3, e4⟩ := h6
      subst e2 e3 e4
      by_cases hz : bn = 0
      · left
        rw [if_pos hz] at h
        refine ⟨by simpa using h.symm, Or.inr ⟨grp, off, by omega, h3, ?_, h5, by rw [← e1]; exact hz⟩⟩
        intro j hj; exact h4 j (Nat.zero_le _) hj
      · right
        rw [if_neg hz] at h
        have hr : r = (bn, allocate_block_commit fs bn off grp (block_bitmap fs grp)) := by
          simpa [allocate_block_commit] using h.symm
        refine ⟨grp, off, by omega, h3, ?_, h5, ?_, ?_, ?_⟩
        · intro j hj; exact h4 j (Nat.zero_le _) hj
        · rw [hr]; exact e1
        · rw [hr]; exact hz
        · rw [hr]

/-! ## Writes to the device -/

@[simp] theorem with_device_device (fs : ext2_fs_t) (dev : Buf) :
    (with_device fs dev).block_device = dev := rfl

@[simp] theorem with_device_superblock (fs : ext2_fs_t) (dev : Buf) :
    (with_device fs dev).superblock = fs.superblock := rfl

@[simp] theorem with_device_block_groups (fs : ext2_fs_t) (dev : Buf) :
    (with_device fs dev).block_groups = fs.block_groups := rfl

@[simp] theorem with_device_block_size (fs : ext2_fs_t) (dev : Buf) :
    (with_device fs dev).block_size = fs.block_size := rfl

@[simp] theorem with_device_pointers (fs : ext2_fs_t) (dev : Buf) :
    (with_device fs dev).pointers_per_block = fs.pointers_per_block := rfl

@[simp] theorem with_device_inodes_per_group (fs : ext2_fs_t) (dev : Buf) :
    (with_device fs dev).inodes_per_group = fs.inodes_per_group := rfl

@[simp] theorem with_device_group_count (fs : ext2_fs_t) (dev : Buf) :
    (with_device fs dev).block_group_count = fs.block_group_count := rfl

@[simp] theorem with_device_span (fs : ext2_fs_t) (dev : Buf) :
    (with_device fs dev).bgd_block_span = fs.bgd_block_span := rfl

@[simp] theorem with_device_bgd_offset (fs : ext2_fs_t) (dev : Buf) :
    (with_device fs dev).bgd_offset = fs.bgd_offset := rfl

@[simp] theorem with_device_inode_size (fs : ext2_fs_t) (dev : Buf) :
    (with_device fs dev).inode_size = fs.inode_size := rfl

@[simp] theorem with_device_flags (fs : ext2_fs_t) (dev : Buf) :
    (with_device fs dev).flags = fs.flags := rfl

@[simp] theorem with_device_junk (fs : ext2_fs_t) (dev : Buf) :
    (with_device fs dev).malloc_junk = fs.malloc_junk := rfl

@[simp] theorem with_device_with_device (fs : ext2_fs_t) (d e : Buf) :
    with_device (with_device fs d) e = with_device fs e := rfl

@[simp] theorem with_device_self (fs : ext2_fs_t) : with_device fs fs.block_device = fs := rfl

theorem write_block_snd (fs : ext2_fs_t) (b : Nat) (buf : Buf) :
    (write_block fs b buf).2 = with_device fs (write_block fs b buf).2.block_device := by
  unfold write_block
  split <;> rfl

theorem write_block_device_outside (fs : ext2_fs_t) (b : Nat) (buf : Buf) (a : Nat)
    (h : ¬ in_block fs b a) : (write_block fs b buf).2.block_device a = fs.block_device a := by
  unfold write_block
  by_cases hb : u32 b = 0
  · rw [if_pos hb]
  · rw [if_neg hb]
    unfold in_block block_start at h
    simp only [write_fs, memcpy]
    rw [if_neg]
    intro hc
    exact h ⟨hb, hc.1, hc.2⟩

theorem write_block_device_inside (fs : ext2_fs_t) (b : Nat) (buf : Buf) (a : Nat)
    (h : in_block fs b a) :
    (write_block fs b buf).2.block_device a = buf (a - block_start fs b) := by
  unfold write_block
  obtain ⟨hb, h1, h2⟩ := h
  rw [if_neg hb]
  unfold block_start at h1 h2 ⊢
  simp only [write_fs, memcpy]
  rw [if_pos ⟨h1, h2⟩]
  simp

theorem flush_bgd_loop_meta : ∀ n (fs : ext2_fs_t) i,
    flush_bgd_loop fs n i = with_device fs (flush_bgd_loop fs n i).block_device := by
  intro n
  induction n with
  | zero => intro fs i; rfl
  | succ n ih =>
    intro fs i
    unfold flush_bgd_loop
    dsimp only
    rw [ih, write_block_snd]
    rfl

theorem flush_bgd_loop_device_outside : ∀ n (fs : ext2_fs_t) i a,
    (∀ j, i ≤ j → j < i + n → ¬ in_block fs (fs.bgd_offset + j) a) →
    (flush_bgd_loop fs n i).block_device a = fs.block_device a := by
  intro n
  induction n with
  | zero => intro fs i a _; rfl
  | succ n ih =>
    intro fs i a h
    unfold flush_bgd_loop
    dsimp only
    rw [ih]
    · exact write_block_device_outside _ _ _ _ (h i (le_refl _) (by omega))
    · intro j hj1 hj2
      have := h j (by omega) (by omega)
      rw [write_block_snd]
      exact this

theorem in_block_congr {fs fs' : ext2_fs_t} (h : fs'.block_size = fs.block_size) (b a : Nat) :
    in_block fs' b a ↔ in_block fs b a := by
  unfold in_block block_start
  rw [h]

theorem rewrite_superblock_device_outside (fs : ext2_fs_t) (a : Nat)
    (h : ¬ (1024 ≤ a ∧ a < 2048)) :
    (rewrite_superblock fs).block_device a = fs.block_device a := by
  show memcpy fs.block_device 1024 fs.superblock 0 1024 a = fs.block_device a
  unfold memcpy
  rw [if_neg]
  intro hc
  exact h ⟨hc.1, by omega⟩

theorem rewrite_superblock_meta (fs : ext2_fs_t) :
    rewrite_superblock fs = with_device fs (rewrite_superblock fs).block_device := rfl

theorem allocate_block_commit_meta (fs : ext2_fs_t) (n k g : Nat) (bg : Buf) :
    (allocate_block_commit fs n k g bg).block_groups
        = set16 fs.block_groups (32 * g + 12) (sub16 (bgd_free_blocks_count fs g) 1) ∧
    (allocate_block_commit fs n k g bg).superblock
        = set32 fs.superblock 12 (sub32 (sb_free_blocks_count fs) 1) ∧
    (allocate_block_commit fs n k g bg).block_size = fs.block_size ∧
    (allocate_block_commit fs n k g bg).block_group_count = fs.block_group_count ∧
    (allocate_block_commit fs n k g bg).malloc_junk = fs.malloc_junk := by
  unfold allocate_block_commit
  dsimp only
  rw [write_block_snd _ n]
  unfold rewrite_superblock flush_bgd
  rw [flush_bgd_loop_meta]
  rw [write_block_snd fs]
  refine ⟨rfl, rfl, rfl, rfl, rfl⟩

theorem allocate_block_commit_device (fs : ext2_fs_t) (n k g : Nat) (bg : Buf) (a : Nat)
    (hn : ¬ in_block fs n a) (hsb : ¬ (1024 ≤ a ∧ a < 2048))
    (hbgd : ∀ j, j < fs.bgd_block_span → ¬ in_block fs (fs.bgd_offset + j) a) :
    (allocate_block_commit fs n k g bg).block_device a
      = (write_block fs (bgd_block_bitmap fs g) (set_blockbit bg k)).2.block_device a := by
  unfold allocate_block_commit
  dsimp only
  rw [write_block_device_outside]
  · rw [rewrite_superblock_device_outside _ _ hsb]
    unfold flush_bgd
    show (flush_bgd_loop _ _ 0).block_device a = _
    rw [flush_bgd_loop_device_outside]
    intro j _ hj
    rw [write_block_snd fs] at hj ⊢
    exact hbgd j (by simpa using hj)
  · unfold rewrite_superblock flush_bgd
    rw [flush_bgd_loop_meta, write_block_snd fs]
    exact hn

theorem BLOCKBIT_set_blockbit (bg : Buf) (k j : Nat) :
    BLOCKBIT (set_blockbit bg k) j = (decide (j = k) || BLOCKBIT bg j) := by
  unfold BLOCKBIT set_blockbit
  rw [get8_set8]
  by_cases h : j / 8 = k / 8
  · rw [if_pos h]
    have h256 : (256 : Nat) = 2 ^ 8 := by norm_num
    rw [h256, Nat.testBit_mod_two_pow, Nat.testBit_or, Nat.testBit_two_pow, h]
    have hj : j % 8 < 8 := Nat.mod_lt _ (by decide)
    simp only [hj, decide_True, Bool.true_and]
    by_cases hm : k % 8 = j % 8
    · have : j = k := by omega
      simp [hm, this]
    · have : j ≠ k := by intro e; rw [e] at hm; exact hm rfl
      simp [hm, this]
  · rw [if_neg h]
    have : j ≠ k := by intro e; rw [e] at h; exact h rfl
    simp [this]

theorem bgd_block_bitmap_commit (fs : ext2_fs_t) (n k g : Nat) (bg : Buf) (g' : Nat) :
    bgd_block_bitmap (allocate_block_commit fs n k g bg) g' = bgd_block_bitmap fs g' := by
  unfold bgd_block_bitmap
  rw [(allocate_block_commit_meta fs n k g bg).1]
  apply get32_set16_other
  omega

theorem BLOCKBIT_block_bitmap_commit (fs : ext2_fs_t) (n k g : Nat) (bg : Buf)
    (hap : bitmap_block_apart fs g n) (j : Nat) (hj : j < 8 * fs.block_size) :
    BLOCKBIT (block_bitmap (allocate_block_commit fs n k g bg) g) j
      = (decide (j = k) || BLOCKBIT bg j) := by
  obtain ⟨hb, hap⟩ := hap
  have hb' : u32 (bgd_block_bitmap fs g) ≠ 0 := by
    unfold bgd_block_bitmap at hb ⊢; rw [u32_get32]; exact hb
  rw [← BLOCKBIT_set_blockbit]
  have hj8 : j / 8 < fs.block_size := by omega
  have hin : in_block fs (bgd_block_bitmap fs g) (block_start fs (bgd_block_bitmap fs g) + j / 8) :=
    ⟨hb', by omega, by omega⟩
  obtain ⟨h1, h2, h3⟩ := hap _ hin
  have hm := allocate_block_commit_meta fs n k g bg
  unfold BLOCKBIT
  congr 1
  unfold block_bitmap
  rw [bgd_block_bitmap_commit, read_block_snd _ _ _ hb', get8_memcpy, if_pos ⟨Nat.zero_le _, by
    rw [hm.2.2.1]; omega⟩]
  unfold get8
  rw [hm.2.2.1, Nat.sub_zero]
  have e := allocate_block_commit_device fs n k g bg _ h2 h1 h3
  have e2 := write_block_device_inside fs _ (set_blockbit bg k) _ hin
  rw [Nat.add_sub_cancel_left] at e2
  unfold block_start at e e2
  rw [e, e2]

theorem BLOCKBIT_block_bitmap_device (fs : ext2_fs_t) (g j : Nat)
    (hb : bgd_block_bitmap fs g ≠ 0) (hj : j < 8 * fs.block_size) :
    BLOCKBIT (block_bitmap fs g) j
      = Nat.testBit (get8 fs.block_device (block_start fs (bgd_block_bitmap fs g) + j / 8))
          (j % 8) := by
  have hb' : u32 (bgd_block_bitmap fs g) ≠ 0 := by
    unfold bgd_block_bitmap at hb ⊢; rw [u32_get32]; exact hb
  unfold BLOCKBIT block_bitmap
  rw [read_block_snd _ _ _ hb', get8_memcpy, if_pos ⟨Nat.zero_le _, by omega⟩]
  rfl

theorem allocate_block_groups_isSome (fs : ext2_fs_t)
    (hcons : ∀ g, g < fs.block_group_count → 0 < bgd_free_blocks_count fs g →
      ∃ k, k < 8 * fs.block_size ∧ BLOCKBIT (block_bitmap fs g) k = false) :
    ∀ n i, i + n ≤ fs.block_group_count → ∃ r, allocate_block_groups fs n i = some r := by
  intro n
  induction n with
  | zero => intro i _; exact ⟨_, rfl⟩
  | succ n ih =>
    intro i hi
    unfold allocate_block_groups
    by_cases hf : bgd_free_blocks_count fs i > 0
    · rw [if_pos hf]
      dsimp only
      obtain ⟨k, hk1, hk2⟩ := hcons i (by omega) hf
      cases hs : scan_free_bit (read_block fs (bgd_block_bitmap fs i) fs.malloc_junk).2
          (8 * fs.block_size) 0 with
      | none =>
        have := scan_free_bit_none _ _ _ hs k (Nat.zero_le _) (by omega)
        unfold block_bitmap at hk2
        rw [hk2] at this
        exact absurd this (by decide)
      | some k' => exact ⟨_, rfl⟩
    · rw [if_neg hf]
      exact ih (i + 1) (by omega)

theorem allocate_block_isSome (fs : ext2_fs_t)
    (hcons : ∀ g, g < fs.block_group_count → 0 < bgd_free_blocks_count fs g →
      ∃ k, k < 8 * fs.block_size ∧ BLOCKBIT (block_bitmap fs g) k = false) :
    ∃ r, allocate_block fs = some r := by
  obtain ⟨q, hq⟩ := allocate_block_groups_isSome fs hcons fs.block_group_count 0 (by omega)
  unfold allocate_block
  rw [hq]
  obtain ⟨bn, off, grp, bg⟩ := q
  dsimp only
  by_cases hz : bn = 0
  · rw [if_pos hz]; exact ⟨_, rfl⟩
  · rw [if_neg hz]; exact ⟨_, rfl⟩

theorem map_fst_eq_some {α β : Type} {o : Option (α × β)} {a : α}
    (h : o.map Prod.fst = some a) : ∃ b, o = some (a, b) := by
  cases o with
  | none => simp at h
  | some r =>
    obtain ⟨x, y⟩ := r
    simp only [Option.map_some', Option.some.injEq] at h
    exact ⟨y, by rw [h]⟩

/-! ## Block-address translation -/

theorem get_block_number_beyond (fs : ext2_fs_t) (inode : Buf) (iblock : Nat)
    (hlo : 12 + fs.pointers_per_block + fs.pointers_per_block * fs.pointers_per_block
      + fs.pointers_per_block ≤ iblock)
    (hno : 12 + fs.pointers_per_block + fs.pointers_per_block * fs.pointers_per_block
      + fs.pointers_per_block < 4294967296) :
    get_block_number fs inode iblock = 0 := by
  unfold get_block_number
  simp only [EXT2_DIRECT_BLOCKS, u32]
  have e2 : (12 + fs.pointers_per_block) % 4294967296 = 12 + fs.pointers_per_block :=
    Nat.mod_eq_of_lt (by omega)
  have e3 : (12 + fs.pointers_per_block + fs.pointers_per_block * fs.pointers_per_block)
      % 4294967296 = 12 + fs.pointers_per_block + fs.pointers_per_block * fs.pointers_per_block :=
    Nat.mod_eq_of_lt (by omega)
  have e4 : (12 + fs.pointers_per_block + fs.pointers_per_block * fs.pointers_per_block
      + fs.pointers_per_block) % 4294967296 = 12 + fs.pointers_per_block
      + fs.pointers_per_block * fs.pointers_per_block + fs.pointers_per_block :=
    Nat.mod_eq_of_lt hno
  rw [e2, e3, e4]
  rw [if_neg (by omega), if_neg (by omega), if_neg (by omega), if_neg (by omega)]

theorem set_block_number_beyond (fs : ext2_fs_t) (inode : Buf) (inode_no iblock rblock : Nat)
    (hlo : 12 + fs.pointers_per_block + fs.pointers_per_block * fs.pointers_per_block
      + fs.pointers_per_block ≤ iblock)
    (hno : 12 + fs.pointers_per_block + fs.pointers_per_block * fs.pointers_per_block
      + fs.pointers_per_block < 4294967296) :
    set_block_number fs inode inode_no iblock rblock = some (E_BADBLOCK, fs, inode) := by
  unfold set_block_number
  simp only [EXT2_DIRECT_BLOCKS, u32]
  have e2 : (12 + fs.pointers_per_block) % 4294967296 = 12 + fs.pointers_per_block :=
    Nat.mod_eq_of_lt (by omega)
  have e3 : (12 + fs.pointers_per_block + fs.pointers_per_block * fs.pointers_per_block)
      % 4294967296 = 12 + fs.pointers_per_block + fs.pointers_per_block * fs.pointers_per_block :=
    Nat.mod_eq_of_lt (by omega)
  have e4 : (12 + fs.pointers_per_block + fs.pointers_per_block * fs.pointers_per_block
      + fs.pointers_per_block) % 4294967296 = 12 + fs.pointers_per_block
      + fs.pointers_per_block * fs.pointers_per_block + fs.pointers_per_block :=
    Nat.mod_eq_of_lt hno
  rw [e2, e3, e4]
  rw [if_neg (by omega), if_neg (by omega), if_neg (by omega), if_neg (by omega)]

/-! ## Directory scans -/

theorem get_block_number_lt (fs : ext2_fs_t) (inode : Buf) (i : Nat) :
    get_block_number fs inode i < 4294967296 := by
  unfold get_block_number
  dsimp only
  split
  · exact get32_lt _ _
  · split
    · exact get32_lt _ _
    · split
      · exact get32_lt _ _
      · split
        · exact get32_lt _ _
        · decide

theorem inode_read_block_holds (fs : ext2_fs_t) (inode : Buf) (k : Nat) (buf : Buf)
    (h1 : k < inode_blocks inode / (fs.block_size / 512))
    (h2 : get_block_number fs inode k ≠ 0) :
    holds_block fs inode (inode_read_block fs inode k buf).2 k := by
  intro a ha
  unfold inode_read_block
  rw [if_neg (by omega)]
  dsimp only
  have hb : u32 (get_block_number fs inode k) ≠ 0 := by
    rw [u32_of_lt (get_block_number_lt fs inode k)]; exact h2
  rw [read_block_snd _ _ _ hb]
  unfold memcpy block_start
  rw [if_pos ⟨Nat.zero_le _, by omega⟩]
  simp

theorem div_mod_add (pos j bs : Nat) (hj : pos % bs + j < bs) :
    (pos + j) / bs = pos / bs ∧ (pos + j) % bs = pos % bs + j := by
  have hbs : 0 < bs := by omega
  have e : pos + j = pos % bs + j + bs * (pos / bs) := by
    have := Nat.div_add_mod pos bs
    omega
  rw [e]
  constructor
  · rw [Nat.add_mul_div_left _ _ hbs, Nat.div_eq_of_lt hj, Nat.zero_add]
  · rw [Nat.add_mul_mod_self_left, Nat.mod_eq_of_lt hj]

theorem holds_block_view (fs : ext2_fs_t) (inode : Buf) (block : Buf) (pos j : Nat)
    (h : holds_block fs inode block (pos / fs.block_size))
    (hj : pos % fs.block_size + j < fs.block_size) :
    block (pos % fs.block_size + j) = file_view fs inode (pos + j) := by
  rw [h _ hj]
  unfold file_view file_byte_addr
  obtain ⟨h1, h2⟩ := div_mod_add pos j fs.block_size hj
  rw [h1, h2]

theorem sub32_self (a : Nat) : sub32 a a = 0 := by
  unfold sub32 u32
  have : a % 4294967296 < 4294967296 := Nat.mod_lt _ (by decide)
  omega

/-- The head of a scan iteration: after the optional load of the next block the
state stands inside the block of `pos`. -/
theorem scan_at_load (fs : ext2_fs_t) (inode : Buf) (pos block_nr dir_offset : Nat) (block : Buf)
    (size : Nat) (hbs : 0 < fs.block_size) (h256 : size ≤ 256 * fs.block_size)
    (hmap : blocks_mapped fs inode size) (hpos : pos < size)
    (h : scan_at fs inode pos block_nr dir_offset block) :
    (if dir_offset ≥ fs.block_size then u8 (block_nr + 1) else block_nr) = pos / fs.block_size ∧
    (if dir_offset ≥ fs.block_size then sub32 dir_offset fs.block_size else dir_offset)
      = pos % fs.block_size ∧
    holds_block fs inode
      (if dir_offset ≥ fs.block_size then
        (inode_read_block fs inode (if dir_offset ≥ fs.block_size then u8 (block_nr + 1)
          else block_nr) block).2 else block) (pos / fs.block_size) := by
  have hmod : pos % fs.block_size < fs.block_size := Nat.mod_lt _ hbs
  rcases h with ⟨h1, h2, h3⟩ | ⟨h0, h1, h2, h3⟩
  · have hn : ¬ dir_offset ≥ fs.block_size := by omega
    simp only [hn, if_false]
    exact ⟨h1, h2, h3⟩
  · have hn : dir_offset ≥ fs.block_size := by omega
    simp only [hn, if_true]
    have hk : pos / fs.block_size < 256 := by
      rw [Nat.div_lt_iff_lt_mul hbs]; omega
    have hu : u8 (block_nr + 1) = pos / fs.block_size := by
      unfold u8; rw [h2]; exact Nat.mod_eq_of_lt hk
    rw [hu]
    refine ⟨rfl, ?_, ?_⟩
    · rw [h3, sub32_self, h1]
    · have hm := hmap (pos / fs.block_size) (by
        have := Nat.div_mul_le_self pos fs.block_size
        omega)
      exact inode_read_block_holds fs inode _ _ hm.1 hm.2

/-- The fields of the record at `pos`, read from a buffer that holds the block
of `pos`, are those of the file content. -/
theorem record_fields (fs : ext2_fs_t) (inode : Buf) (block : Buf) (pos : Nat)
    (h : holds_block fs inode block (pos / fs.block_size))
    (hlen : 8 + dirent_name_len (file_view fs inode) pos ≤ dirent_rec_len (file_view fs inode) pos)
    (hfit : pos % fs.block_size + dirent_rec_len (file_view fs inode) pos ≤ fs.block_size) :
    dirent_inode block (pos % fs.block_size) = dirent_inode (file_view fs inode) pos ∧
    dirent_rec_len block (pos % fs.block_size) = dirent_rec_len (file_view fs inode) pos ∧
    dirent_name_len block (pos % fs.block_size) = dirent_name_len (file_view fs inode) pos ∧
    dirent_name block (pos % fs.block_size) = dirent_name (file_view fs inode) pos := by
  have hb : ∀ j, pos % fs.block_size + j < fs.block_size →
      get8 block (pos % fs.block_size + j) = get8 (file_view fs inode) (pos + j) := by
    intro j hj
    unfold get8
    rw [holds_block_view fs inode block pos j h hj]
  have e1 : dirent_inode block (pos % fs.block_size) = dirent_inode (file_view fs inode) pos := by
    unfold dirent_inode
    apply get32_congr
    intro k hk
    exact hb k (by omega)
  have e2 : dirent_rec_len block (pos % fs.block_size)
      = dirent_rec_len (file_view fs inode) pos := by
    unfold dirent_rec_len
    apply get16_congr
    intro k hk
    rw [Nat.add_assoc, Nat.add_assoc]
    exact hb (4 + k) (by omega)
  have e3 : dirent_name_len block (pos % fs.block_size)
      = dirent_name_len (file_view fs inode) pos := by
    unfold dirent_name_len
    exact hb 6 (by omega)
  refine ⟨e1, e2, e3, ?_⟩
  unfold dirent_name
  rw [e3]
  apply List.map_congr_left
  intro k hk
  rw [List.mem_range] at hk
  rw [Nat.add_assoc, Nat.add_assoc]
  exact hb (8 + k) (by omega)

theorem dir_chain_le (v : Buf) (bs size : Nat) : ∀ f pos l,
    dir_chain v bs size f pos = some l → pos ≤ size := by
  intro f pos l h
  cases f with
  | zero => simp [dir_chain] at h
  | succ f =>
    unfold dir_chain at h
    by_cases h1 : pos = size
    · omega
    · rw [if_neg h1] at h
      split at h
      · omega
      · simp at h

/-- One record further: the state after `dir_offset += rec_len` stands at
`pos + rec_len`. -/
theorem scan_at_next (fs : ext2_fs_t) (inode : Buf) (block : Buf) (pos r : Nat)
    (hr : 0 < r) (h : holds_block fs inode block (pos / fs.block_size))
    (hfit : pos % fs.block_size + r ≤ fs.block_size) :
    scan_at fs inode (pos + r) (pos / fs.block_size) (pos % fs.block_size + r) block := by
  have hbs : 0 < fs.block_size := by omega
  by_cases hlt : pos % fs.block_size + r < fs.block_size
  · left
    obtain ⟨h1, h2⟩ := div_mod_add pos r fs.block_size hlt
    rw [h1, h2]
    exact ⟨rfl, rfl, h⟩
  · right
    have heq : pos % fs.block_size + r = fs.block_size := by omega
    have e : pos + r = fs.block_size * (pos / fs.block_size + 1) := by
      have := Nat.div_add_mod pos fs.block_size
      rw [Nat.mul_add, Nat.mul_one]
      omega
    refine ⟨by omega, ?_, ?_, heq⟩
    · rw [e]; exact Nat.mul_mod_right _ _
    · rw [e, Nat.mul_div_cancel_left _ hbs]

theorem lookup_loop_refines (fs : ext2_fs_t) (inode : Buf) (name : List Nat)
    (hbs : 0 < fs.block_size) (h256 : inode_size_field inode ≤ 256 * fs.block_size)
    (hmap : blocks_mapped fs inode (inode_size_field inode)) :
    ∀ f pos l, dir_chain (file_view fs inode) fs.block_size (inode_size_field inode) f pos = some l →
    ∀ fuel block_nr dir_offset block, l.length < fuel →
      (pos < inode_size_field inode → scan_at fs inode pos block_nr dir_offset block) →
      ∃ res, lookup_loop fs inode name fuel block_nr dir_offset pos block = some res ∧
        match l.find? (live_named (file_view fs inode) name) with
        | none => res = none
        | some q => ∃ B, res = some (q / fs.block_size, q % fs.block_size, B) ∧
            holds_block fs inode B (q / fs.block_size) := by
  intro f
  induction f with
  | zero => intro pos l h; simp [dir_chain] at h
  | succ f ih =>
    intro pos l hchain fuel block_nr dir_offset block hfuel hat
    have hsz : inode_size_field inode < 4294967296 := get32_lt _ _
    unfold dir_chain at hchain
    cases fuel with
    | zero => omega
    | succ fuel =>
    by_cases hend : pos = inode_size_field inode
    · rw [if_pos hend] at hchain
      have hl : l = [] := by simpa using hchain.symm
      subst hl
      refine ⟨none, ?_, by simp⟩
      unfold lookup_loop
      rw [if_neg (by omega)]
    · rw [if_neg hend] at hchain
      by_cases hc : pos < inode_size_field inode ∧
          8 + dirent_name_len (file_view fs inode) pos ≤ dirent_rec_len (file_view fs inode) pos ∧
          pos % fs.block_size + dirent_rec_len (file_view fs inode) pos ≤ fs.block_size
      · rw [if_pos hc] at hchain
        obtain ⟨hpos, hlen, hfit⟩ := hc
        cases hrec : dir_chain (file_view fs inode) fs.block_size (inode_size_field inode) f
            (pos + dirent_rec_len (file_view fs inode) pos) with
        | none => rw [hrec] at hchain; simp at hchain
        | some l' =>
          rw [hrec] at hchain
          have hl : l = pos :: l' := by simpa using hchain.symm
          subst hl
          have hle := dir_chain_le _ _ _ _ _ _ hrec
          obtain ⟨hl1, hl2, hl3⟩ := scan_at_load fs inode pos block_nr dir_offset block
            (inode_size_field inode) hbs h256 hmap hpos (hat hpos)
          rw [hl1] at hl3
          unfold lookup_loop
          rw [if_pos hpos]
          dsimp only
          rw [hl1, hl2]
          generalize (if dir_offset ≥ fs.block_size then
            (inode_read_block fs inode (pos / fs.block_size) block).2 else block) = B at hl3 ⊢
          obtain ⟨f1, f2, f3, f4⟩ := record_fields fs inode B pos hl3 hlen hfit
          rw [f1, f2, f3, f4]
          have hu1 : u32 (pos % fs.block_size + dirent_rec_len (file_view fs inode) pos)
              = pos % fs.block_size + dirent_rec_len (file_view fs inode) pos := by
            apply u32_of_lt
            have := Nat.mod_le pos fs.block_size
            omega
          have hu2 : u32 (pos + dirent_rec_len (file_view fs inode) pos)
              = pos + dirent_rec_len (file_view fs inode) pos := u32_of_lt (by omega)
          rw [hu1, hu2]
          have hnext := scan_at_next fs inode B pos (dirent_rec_len (file_view fs inode) pos)
            (by omega) hl3 hfit
          have hcont := ih _ _ hrec fuel (pos / fs.block_size)
            (pos % fs.block_size + dirent_rec_len (file_view fs inode) pos) B
            (by simp at hfuel; omega) (fun _ => hnext)
          by_cases hskip : dirent_inode (file_view fs inode) pos = 0 ∨
              strlen name ≠ dirent_name_len (file_view fs inode) pos
          · rw [if_pos hskip]
            have hlive : live_named (file_view fs inode) name pos = false := by
              unfold live_named
              rcases hskip with h0 | h0
              · simp [h0]
              · simp [h0]
            rw [List.find?_cons_of_neg _ (by simp [hlive])]
            exact hcont
          · rw [if_neg hskip]
            have hskip' : dirent_inode (file_view fs inode) pos ≠ 0 ∧
                strlen name = dirent_name_len (file_view fs inode) pos := by
              constructor
              · intro h0; exact hskip (Or.inl h0)
              · by_contra h0; exact hskip (Or.inr h0)
            by_cases hname : c_str (dirent_name (file_view fs inode) pos) = c_str name
            · rw [if_pos hname]
              have hlive : live_named (file_view fs inode) name pos = true := by
                unfold live_named
                simp [hskip'.1, hskip'.2, hname]
              rw [List.find?_cons_of_pos _ hlive]
              exact ⟨_, rfl, B, rfl, hl3⟩
            · rw [if_neg hname]
              have hlive : live_named (file_view fs inode) name pos = false := by
                unfold live_named
                simp [hname]
              rw [List.find?_cons_of_neg _ (by simp [hlive])]
              exact hcont
      · rw [if_neg hc] at hchain
        simp at hchain

/-! ## Inode records on the device -/

theorem u32_u32 (x : Nat) : u32 (u32 x) = u32 x := by
  unfold u32
  exact Nat.mod_mod _ _

theorem read_inode_of_slot (fs : ext2_fs_t) (ino s : Nat) (h : inode_slot fs ino = some s) :
    read_inode fs ino = memcpy fs.malloc_junk 0 fs.block_device s fs.inode_size := by
  unfold inode_slot at h
  unfold read_inode refresh_inode
  by_cases h0 : ino = 0
  · rw [if_pos h0] at h; simp at h
  · rw [if_neg h0] at h ⊢
    dsimp only at h ⊢
    by_cases hg : u32 ((ino - 1) / fs.inodes_per_group) > fs.block_group_count
    · rw [if_pos hg] at h; simp at h
    · rw [if_neg hg] at h ⊢
      split at h
      · simp at h
      · rename_i hb
        split at h
        · rename_i hfit
          simp only [Option.some.injEq] at h
          have hb' : u32 (u32 (bgd_inode_table fs (u32 ((ino - 1) / fs.inodes_per_group)) +
              u32 (u64 (sub64 (ino - 1) (u32 (u32 ((ino - 1) / fs.inodes_per_group) *
                fs.inodes_per_group)) * fs.inode_size) / fs.block_size))) ≠ 0 := by
            rw [u32_u32]; exact hb
          rw [read_block_snd _ _ _ hb']
          funext j
          unfold memcpy
          by_cases hj : 0 ≤ j ∧ j < 0 + fs.inode_size
          · rw [if_pos hj, if_pos hj, if_pos ⟨Nat.zero_le _, by omega⟩]
            rw [← h]
            unfold block_start
            simp only [Nat.sub_zero]
            rw [u32_u32, Nat.add_assoc]
          · rw [if_neg hj, if_neg hj]
        · simp at h

theorem write_inode_meta (fs : ext2_fs_t) (inode : Buf) (index : Nat) :
    (write_inode fs inode index).2
      = with_device fs (write_inode fs inode index).2.block_device := by
  unfold write_inode
  split
  · rfl
  · dsimp only
    split
    · rfl
    · dsimp only
      rw [write_block_snd]
      rfl

theorem write_inode_device_outside (fs : ext2_fs_t) (inode : Buf) (index a : Nat)
    (h : ¬ inode_write_range fs index a) :
    (write_inode fs inode index).2.block_device a = fs.block_device a := by
  unfold write_inode
  by_cases h0 : index = 0
  · rw [if_pos h0]
  · rw [if_neg h0]
    dsimp only
    by_cases hg : (index - 1) / fs.inodes_per_group > fs.block_group_count
    · rw [if_pos hg]
    · rw [if_neg hg]
      dsimp only
      unfold inode_write_range write_inode_block write_inode_offset at h
      dsimp only at h
      generalize bgd_inode_table fs ((index - 1) / fs.inodes_per_group)
        + u64 ((index - 1 - (index - 1) / fs.inodes_per_group * fs.inodes_per_group)
            * fs.inode_size) / fs.block_size = T at h ⊢
      generalize u64 (sub64 (index - 1 - (index - 1) / fs.inodes_per_group * fs.inodes_per_group)
        (u64 (u64 ((index - 1 - (index - 1) / fs.inodes_per_group * fs.inodes_per_group)
            * fs.inode_size) / fs.block_size * (fs.block_size / fs.inode_size))) * fs.inode_size)
        = o at h ⊢
      by_cases hin : in_block fs T a
      · rw [write_block_device_inside _ _ _ _ hin]
        have hno : ¬ (o ≤ a - block_start fs T ∧ a - block_start fs T < o + fs.inode_size) := by
          intro hc; exact h ⟨h0, hg, hin, hc.1, hc.2⟩
        unfold memcpy
        rw [if_neg hno]
        obtain ⟨hb, h1, h2⟩ := hin
        rw [read_block_snd _ _ _ hb]
        unfold memcpy
        rw [if_pos ⟨Nat.zero_le _, by omega⟩]
        unfold block_start at h1 ⊢
        congr 1
        omega
      · exact write_block_device_outside _ _ _ _ hin

theorem set32_zero_apply (b : Buf) (i x : Nat) :
    set32 b i 0 x = if i ≤ x ∧ x < i + 4 then 0 else b x := by
  unfold set32 set8
  by_cases h : i ≤ x ∧ x < i + 4
  · rw [if_pos h]
    have : x = i ∨ x = i + 1 ∨ x = i + 2 ∨ x = i + 3 := by omega
    rcases this with e | e | e | e <;> subst e <;> simp
  · rw [if_neg h]
    rw [if_neg (by omega), if_neg (by omega), if_neg (by omega), if_neg (by omega)]

theorem inode_write_block_present (fuel : Nat) (fs : ext2_fs_t) (inode : Buf) (ino k : Nat)
    (buf : Buf) (hk : k < inode_blocks inode / (fs.block_size / 512)) :
    inode_write_block (fuel + 1) fs inode ino k buf
      = some (get_block_number fs inode k,
          (write_block fs (get_block_number fs inode k) buf).2, inode) := by
  unfold inode_write_block inode_write_block_loop
  rw [if_neg (by omega)]

theorem dir_chain_mem (v : Buf) (bs size : Nat) : ∀ f pos l,
    dir_chain v bs size f pos = some l → ∀ q, q ∈ l →
      pos ≤ q ∧ q < size ∧ 8 + dirent_name_len v q ≤ dirent_rec_len v q ∧
        q % bs + dirent_rec_len v q ≤ bs ∧ q + dirent_rec_len v q ≤ size := by
  intro f
  induction f with
  | zero => intro pos l h; simp [dir_chain] at h
  | succ f ih =>
    intro pos l h q hq
    unfold dir_chain at h
    by_cases hend : pos = size
    · rw [if_pos hend] at h
      have : l = [] := by simpa using h.symm
      subst this
      simp at hq
    · rw [if_neg hend] at h
      split at h
      · rename_i hc
        cases hrec : dir_chain v bs size f (pos + dirent_rec_len v pos) with
        | none => rw [hrec] at h; simp at h
        | some l' =>
          rw [hrec] at h
          have hl : l = pos :: l' := by simpa using h.symm
          subst hl
          rcases List.mem_cons.mp hq with e | hq'
          · subst e
            exact ⟨le_refl _, hc.1, hc.2.1, hc.2.2, dir_chain_le _ _ _ _ _ _ hrec⟩
          · have := ih _ _ hrec q hq'
            exact ⟨by omega, this.2⟩
      · simp at h

/-- In a chain, a record that follows another starts at or after its end. -/
theorem dir_chain_tail_ge (v : Buf) (bs size : Nat) (f pos : Nat) (l : List Nat)
    (h : dir_chain v bs size (f + 1) pos = some l) (q : Nat) (hq : q ∈ l) (hne : q ≠ pos) :
    pos + dirent_rec_len v pos ≤ q := by
  unfold dir_chain at h
  by_cases hend : pos = size
  · rw [if_pos hend] at h
    have : l = [] := by simpa using h.symm
    subst this
    simp at hq
  · rw [if_neg hend] at h
    split at h
    · cases hrec : dir_chain v bs size f (pos + dirent_rec_len v pos) with
      | none => rw [hrec] at h; simp at h
      | some l' =>
        rw [hrec] at h
        have hl : l = pos :: l' := by simpa using h.symm
        subst hl
        rcases List.mem_cons.mp hq with e | hq'
        · exact absurd e hne
        · exact (dir_chain_mem v bs size _ _ _ hrec q hq').1
    · simp at h

theorem get_block_number_congr (fs : ext2_fs_t) (dev : Buf) (inode : Buf) (k : Nat)
    (hk : k < 12 + fs.pointers_per_block) (hP : 12 + fs.pointers_per_block < 4294967296)
    (h4 : 4 * fs.pointers_per_block ≤ fs.block_size)
    (hdev : ∀ a, in_block fs (inode_block inode 12) a → dev a = fs.block_device a) :
    get_block_number (with_device fs dev) inode k = get_block_number fs inode k := by
  unfold get_block_number
  simp only [with_device_pointers, with_device_junk, EXT2_DIRECT_BLOCKS]
  by_cases c1 : k < 12
  · rw [if_pos c1, if_pos c1]
  · rw [if_neg c1, if_neg c1]
    have e2 : u32 (12 + fs.pointers_per_block) = 12 + fs.pointers_per_block := u32_of_lt hP
    rw [e2, if_pos hk, if_pos hk]
    by_cases hb : u32 (inode_block inode 12) = 0
    · rw [read_block_zero _ _ _ hb, read_block_zero _ _ _ hb]
    · rw [read_block_snd _ _ _ hb, read_block_snd _ _ _ hb]
      rw [sub32_of_le (by omega) (by omega)]
      apply get32_congr
      intro j hj
      simp only [with_device_device, with_device_block_size]
      rw [get8_memcpy, get8_memcpy, if_pos ⟨Nat.zero_le _, by omega⟩,
        if_pos ⟨Nat.zero_le _, by omega⟩]
      unfold get8
      rw [hdev]
      exact ⟨hb, by unfold block_start; omega, by unfold block_start; omega⟩

theorem inode_write_range_with_device (fs : ext2_fs_t) (dev : Buf) (n a : Nat) :
    inode_write_range (with_device fs dev) n a ↔ inode_write_range fs n a := Iff.rfl

theorem scan_at_start (fs : ext2_fs_t) (inode : Buf) (buf : Buf)
    (hmap : blocks_mapped fs inode (inode_size_field inode))
    (h : 0 < inode_size_field inode) :
    scan_at fs inode 0 0 0 (inode_read_block fs inode 0 buf).2 := by
  left
  have hm := hmap 0 (by omega)
  refine ⟨by simp, by simp, ?_⟩
  rw [Nat.zero_div]
  exact inode_read_block_holds fs inode 0 buf hm.1 hm.2

theorem unlink_ext2_found (fuel : Nat) (fs : ext2_fs_t) (ino : Nat) (name : List Nat)
    (f : Nat) (l : List Nat) (p : Nat)
    (hrw : fs.flags &&& EXT2_FLAG_READWRITE ≠ 0)
    (hbs : 0 < fs.block_size)
    (h256 : inode_size_field (read_inode fs ino) ≤ 256 * fs.block_size)
    (hmap : blocks_mapped fs (read_inode fs ino) (inode_size_field (read_inode fs ino)))
    (hchain : dir_chain (file_view fs (read_inode fs ino)) fs.block_size
      (inode_size_field (read_inode fs ino)) f 0 = some l)
    (hfind : l.find? (live_named (file_view fs (read_inode fs ino)) name) = some p)
    (hfuel : l.length < fuel) :
    ∃ dev2, unlink_ext2 fuel fs ino name = some (0, with_device fs dev2) ∧
      ∀ a, ¬ inode_write_range fs (dirent_inode (file_view fs (read_inode fs ino)) p) a →
        dev2 a = if file_byte_addr fs (read_inode fs ino) p ≤ a ∧
            a < file_byte_addr fs (read_inode fs ino) p + 4 then 0 else fs.block_device a := by
  have hp : p ∈ l := List.mem_of_find?_eq_some hfind
  obtain ⟨-, hpsize, hplen, hpfit, -⟩ := dir_chain_mem _ _ _ _ _ _ hchain p hp
  obtain ⟨res, hres, hmatch⟩ := lookup_loop_refines fs (read_inode fs ino) name hbs h256 hmap
    f 0 l hchain fuel 0 0 (inode_read_block fs (read_inode fs ino) 0 fs.malloc_junk).2 hfuel
    (scan_at_start fs _ _ hmap)
  rw [hfind] at hmatch
  obtain ⟨B, hB, hholds⟩ := hmatch
  obtain ⟨f1, -, -, -⟩ := record_fields fs (read_inode fs ino) B p hholds hplen hpfit
  have hm := hmap (p / fs.block_size) (by
    have := Nat.div_mul_le_self p fs.block_size
    omega)
  have hgb : u32 (get_block_number fs (read_inode fs ino) (p / fs.block_size)) ≠ 0 := by
    rw [u32_of_lt (get_block_number_lt _ _ _)]; exact hm.2
  obtain ⟨fuel', hfuel'⟩ : ∃ fuel', fuel = fuel' + 1 := ⟨fuel - 1, by omega⟩
  -- the device after the directory block is written back
  have hdev1 : ∀ a, (write_block fs (get_block_number fs (read_inode fs ino) (p / fs.block_size))
      (set32 B (p % fs.block_size) 0)).2.block_device a
      = if file_byte_addr fs (read_inode fs ino) p ≤ a ∧
          a < file_byte_addr fs (read_inode fs ino) p + 4 then 0 else fs.block_device a := by
    intro a
    unfold file_byte_addr
    by_cases hin : in_block fs (get_block_number fs (read_inode fs ino) (p / fs.block_size)) a
    · rw [write_block_device_inside _ _ _ _ hin, set32_zero_apply]
      obtain ⟨-, h1, h2⟩ := hin
      by_cases hz : p % fs.block_size ≤ a - block_start fs
            (get_block_number fs (read_inode fs ino) (p / fs.block_size)) ∧
          a - block_start fs (get_block_number fs (read_inode fs ino) (p / fs.block_size))
            < p % fs.block_size + 4
      · rw [if_pos hz, if_pos (by omega)]
      · rw [if_neg hz, if_neg (by omega), hholds _ (by omega)]
        congr 1
        omega
    · rw [write_block_device_outside _ _ _ _ hin]
      rw [if_neg]
      intro hc
      apply hin
      exact ⟨hgb, by omega, by omega⟩
  unfold unlink_ext2
  rw [if_neg hrw]
  dsimp only
  rw [hres, hB]
  dsimp only
  rw [hfuel', inode_write_block_present _ _ _ _ _ _ hm.1]
  dsimp only
  rw [f1]
  split
  · refine ⟨_, by rw [write_inode_meta, write_block_snd]; rfl, ?_⟩
    intro a ha
    rw [write_inode_device_outside _ _ _ _ (by
      rw [write_block_snd, inode_write_range_with_device]; exact ha)]
    exact hdev1 a
  · refine ⟨_, by rw [write_block_snd], ?_⟩
    intro a _
    exact hdev1 a

/-- The record at `q` reads the same in two file contents that agree on the
bytes `q .. q + rec_len - 1`. -/
theorem record_congr (v v2 : Buf) (q : Nat)
    (hlen : 8 + dirent_name_len v q ≤ dirent_rec_len v q)
    (h : ∀ x, q ≤ x → x < q + dirent_rec_len v q → v2 x = v x) :
    dirent_inode v2 q = dirent_inode v q ∧ dirent_rec_len v2 q = dirent_rec_len v q ∧
    dirent_name_len v2 q = dirent_name_len v q ∧ dirent_name v2 q = dirent_name v q := by
  have hr : dirent_rec_len v2 q = dirent_rec_len v q := by
    unfold dirent_rec_len
    apply get16_congr
    intro k hk
    unfold get8
    rw [h _ (by omega) (by unfold dirent_rec_len at hlen ⊢; omega)]
  have hn : dirent_name_len v2 q = dirent_name_len v q := by
    unfold dirent_name_len get8
    rw [h _ (by omega) (by omega)]
  refine ⟨?_, hr, hn, ?_⟩
  · unfold dirent_inode
    apply get32_congr
    intro k hk
    unfold get8
    rw [h _ (by omega) (by omega)]
  · unfold dirent_name
    rw [hn]
    apply List.map_congr_left
    intro k hk
    rw [List.mem_range] at hk
    unfold get8
    rw [h _ (by omega) (by omega)]

theorem live_named_congr (v v2 : Buf) (name : List Nat) (q : Nat)
    (hlen : 8 + dirent_name_len v q ≤ dirent_rec_len v q)
    (h : ∀ x, q ≤ x → x < q + dirent_rec_len v q → v2 x = v x) :
    live_named v2 name q = live_named v name q := by
  obtain ⟨h1, -, h3, h4⟩ := record_congr v v2 q hlen h
  unfold live_named
  rw [h1, h3, h4]

/-- Zeroing the inode field of the record at `p` keeps the chain of records and
leaves no live record at `p`; every other record reads as before. -/
theorem dir_chain_after_zero (v v2 : Buf) (bs size p : Nat) (name : List Nat)
    (hv2 : ∀ x, x < size → v2 x = if p ≤ x ∧ x < p + 4 then 0 else v x) :
    ∀ f pos l, dir_chain v bs size f pos = some l →
      ((p ∈ l ∧ pos ≤ p) ∨ p + 8 ≤ pos) →
      dir_chain v2 bs size f pos = some l ∧
      ∀ q, q ∈ l → live_named v2 name q = (decide (q ≠ p) && live_named v name q) := by
  intro f
  induction f with
  | zero => intro pos l h; simp [dir_chain] at h
  | succ f ih =>
    intro pos l h hinv
    have hfull := h
    unfold dir_chain at h ⊢
    by_cases hend : pos = size
    · rw [if_pos hend] at h ⊢
      have : l = [] := by simpa using h.symm
      subst this
      exact ⟨rfl, by simp⟩
    · rw [if_neg hend] at h ⊢
      by_cases hc : pos < size ∧ 8 + dirent_name_len v pos ≤ dirent_rec_len v pos ∧
          pos % bs + dirent_rec_len v pos ≤ bs
      · rw [if_pos hc] at h
        obtain ⟨hpos, hlen, hfit⟩ := hc
        cases hrec : dir_chain v bs size f (pos + dirent_rec_len v pos) with
        | none => rw [hrec] at h; simp at h
        | some l' =>
          rw [hrec] at h
          have hl : l = pos :: l' := by simpa using h.symm
          subst hl
          have hle := dir_chain_le _ _ _ _ _ _ hrec
          -- the length fields of the record at `pos` are untouched
          have hfields : dirent_rec_len v2 pos = dirent_rec_len v pos ∧
              dirent_name_len v2 pos = dirent_name_len v pos := by
            have hb : ∀ j, 4 ≤ j → j < 8 → v2 (pos + j) = v (pos + j) := by
              intro j hj1 hj2
              rw [hv2 _ (by omega), if_neg]
              rintro ⟨h1, h2⟩
              rcases hinv with ⟨hmem, hpp⟩ | hpp
              · by_cases e : p = pos
                · omega
                · have := dir_chain_tail_ge v bs size f pos _ hfull p hmem e
                  omega
              · omega
            constructor
            · unfold dirent_rec_len
              apply get16_congr
              intro k hk
              unfold get8
              rw [Nat.add_assoc, hb _ (by omega) (by omega)]
            · unfold dirent_name_len get8
              rw [hb _ (by omega) (by omega)]
          rw [hfields.1, hfields.2, if_pos ⟨hpos, hlen, hfit⟩]
          have hinv' : (p ∈ l' ∧ pos + dirent_rec_len v pos ≤ p) ∨
              p + 8 ≤ pos + dirent_rec_len v pos := by
            rcases hinv with ⟨hmem, hpp⟩ | hpp
            · by_cases e : p = pos
              · right; omega
              · left
                have hm : p ∈ l' := by
                  rcases List.mem_cons.mp hmem with e' | e'
                  · exact absurd e' e
                  · exact e'
                exact ⟨hm, dir_chain_tail_ge v bs size f pos _ hfull p hmem e⟩
            · right; omega
          obtain ⟨ih1, ih2⟩ := ih _ _ hrec hinv'
          rw [ih1]
          refine ⟨rfl, ?_⟩
          intro q hq
          rcases List.mem_cons.mp hq with e | hq'
          · subst e
            by_cases e : q = p
            · subst e
              have hz : dirent_inode v2 q = 0 := by
                unfold dirent_inode get32 get8
                rw [hv2 _ (by omega), hv2 _ (by omega), hv2 _ (by omega), hv2 _ (by omega)]
                rw [if_pos (by omega), if_pos (by omega), if_pos (by omega), if_pos (by omega)]
              unfold live_named
              simp [hz]
            · have hcg := live_named_congr v v2 name q hlen (by
                intro x hx1 hx2
                rw [hv2 _ (by omega), if_neg]
                rintro ⟨h1, h2⟩
                rcases hinv with ⟨hmem, hpp⟩ | hpp
                · have := dir_chain_tail_ge v bs size f q _ hfull p hmem (fun e' => e e'.symm)
                  omega
                · omega)
              rw [hcg]
              simp [e]
          · exact ih2 q hq'
      · rw [if_neg hc] at h
        simp at h

theorem find?_eq_head?_filter {α : Type} (P : α → Bool) (l : List α) :
    l.find? P = (l.filter P).head? := by
  induction l with
  | nil => rfl
  | cons a l ih =>
    by_cases h : P a = true
    · rw [List.find?_cons_of_pos _ h, List.filter_cons_of_pos h]
      rfl
    · rw [List.find?_cons_of_neg _ h, List.filter_cons_of_neg h]
      exact ih

theorem inode_slot_with_device (fs : ext2_fs_t) (dev : Buf) (ino : Nat) :
    inode_slot (with_device fs dev) ino = inode_slot fs ino := rfl

theorem file_byte_addr_add (fs : ext2_fs_t) (inode : Buf) (p i : Nat)
    (h : p % fs.block_size + i < fs.block_size) :
    file_byte_addr fs inode (p + i) = file_byte_addr fs inode p + i := by
  unfold file_byte_addr
  obtain ⟨h1, h2⟩ := div_mod_add p i fs.block_size h
  rw [h1, h2, Nat.add_assoc]

/-- After the inode field of the only live record named `name` is zeroed and
an inode record apart from the directory is rewritten, `finddir_ext2` finds
nothing under `name`. -/
theorem finddir_after_zero (fuel : Nat) (fs : ext2_fs_t) (ino : Nat) (name : List Nat)
    (s : Nat) (l : List Nat) (p : Nat) (dev2 : Buf)
    (hwf : dir_well_formed fs ino l) (hlay : dir_layout fs ino s) (hfuel : l.length < fuel)
    (hone : l.filter (live_named (file_view fs (read_inode fs ino)) name) = [p])
    (hap : inode_apart_from_dir fs ino s (dirent_inode (file_view fs (read_inode fs ino)) p))
    (hdev2 : ∀ a, ¬ inode_write_range fs (dirent_inode (file_view fs (read_inode fs ino)) p) a →
        dev2 a = if file_byte_addr fs (read_inode fs ino) p ≤ a ∧
            a < file_byte_addr fs (read_inode fs ino) p + 4 then 0 else fs.block_device a) :
    finddir_ext2 fuel (with_device fs dev2) ino name = some none := by
  obtain ⟨hbs, -, h256, hmap, hchain⟩ := hwf
  obtain ⟨hslot, hP1, hP2, hP3, hdist, hdir⟩ := hlay
  have hp : p ∈ l := by
    have : p ∈ l.filter (live_named (file_view fs (read_inode fs ino)) name) := by
      rw [hone]; exact List.mem_singleton_self p
    exact (List.mem_filter.mp this).1
  obtain ⟨-, hpsize, hplen, hpfit, hpend⟩ := dir_chain_mem _ _ _ _ _ _ hchain p hp
  -- the four zeroed bytes are bytes `p .. p+3` of the directory
  have haddr : ∀ i, i < 4 → file_byte_addr fs (read_inode fs ino) (p + i)
      = file_byte_addr fs (read_inode fs ino) p + i := by
    intro i hi
    exact file_byte_addr_add fs _ p i (by omega)
  have hzero : ∀ a, file_byte_addr fs (read_inode fs ino) p ≤ a →
      a < file_byte_addr fs (read_inode fs ino) p + 4 →
      ∃ i, i < 4 ∧ a = file_byte_addr fs (read_inode fs ino) (p + i) := by
    intro a h1 h2
    refine ⟨a - file_byte_addr fs (read_inode fs ino) p, by omega, ?_⟩
    rw [haddr _ (by omega)]
    omega
  -- the inode record of the directory reads as before
  have hinode : read_inode (with_device fs dev2) ino = read_inode fs ino := by
    rw [read_inode_of_slot _ _ s (by rw [inode_slot_with_device]; exact hslot),
      read_inode_of_slot fs ino s hslot]
    funext j
    unfold memcpy
    simp only [with_device_junk, with_device_device, with_device_inode_size]
    by_cases hj : 0 ≤ j ∧ j < 0 + fs.inode_size
    · rw [if_pos hj, if_pos hj]
      have hslota : s ≤ s + (j - 0) ∧ s + (j - 0) < s + fs.inode_size := by omega
      rw [hdev2 _ (fun hw => (hap _ hw).1 hslota), if_neg]
      rintro ⟨h1, h2⟩
      obtain ⟨i, hi, e⟩ := hzero _ h1 h2
      rw [e] at hslota
      exact (hdir (p + i) (by omega)).1 hslota
    · rw [if_neg hj, if_neg hj]
  -- the blocks of the directory are mapped as before
  have hgbn : ∀ k, k * fs.block_size < inode_size_field (read_inode fs ino) →
      get_block_number (with_device fs dev2) (read_inode fs ino) k
        = get_block_number fs (read_inode fs ino) k := by
    intro k hk
    have hk256 : k < 256 := by
      by_contra hc
      have : 256 * fs.block_size ≤ k * fs.block_size := Nat.mul_le_mul_right _ (by omega)
      omega
    apply get_block_number_congr fs dev2 _ k (by omega) hP2 hP3
    intro a ha
    rw [hdev2 _ (fun hw => (hap _ hw).2.1 ha), if_neg]
    rintro ⟨h1, h2⟩
    obtain ⟨i, hi, e⟩ := hzero _ h1 h2
    rw [e] at ha
    exact (hdir (p + i) (by omega)).2 ha
  -- the content of the directory: the inode field at `p` is zero, the rest as before
  have hv2 : ∀ x, x < inode_size_field (read_inode fs ino) →
      file_view (with_device fs dev2) (read_inode fs ino) x
        = if p ≤ x ∧ x < p + 4 then 0 else file_view fs (read_inode fs ino) x := by
    intro x hx
    have hxk : x / fs.block_size * fs.block_size < inode_size_field (read_inode fs ino) := by
      have := Nat.div_mul_le_self x fs.block_size
      omega
    have e : file_byte_addr (with_device fs dev2) (read_inode fs ino) x
        = file_byte_addr fs (read_inode fs ino) x := by
      unfold file_byte_addr
      simp only [with_device_block_size]
      rw [hgbn _ hxk]
      rfl
    unfold file_view
    rw [e]
    simp only [with_device_device]
    rw [hdev2 _ (fun hw => (hap _ hw).2.2 x hx rfl)]
    by_cases hpx : p ≤ x ∧ x < p + 4
    · rw [if_pos hpx, if_pos]
      have := haddr (x - p) (by omega)
      rw [show p + (x - p) = x by omega] at this
      omega
    · rw [if_neg hpx, if_neg]
      rintro ⟨h1, h2⟩
      obtain ⟨i, hi, e'⟩ := hzero _ h1 h2
      have := hdist x (p + i) hx (by omega) e'
      omega
  have hmap2 : blocks_mapped (with_device fs dev2) (read_inode fs ino)
      (inode_size_field (read_inode fs ino)) := by
    intro k hk
    have hk' : k * fs.block_size < inode_size_field (read_inode fs ino) := hk
    have := hmap k hk'
    rw [hgbn k hk']
    exact this
  obtain ⟨hchain2, hlive2⟩ := dir_chain_after_zero (file_view fs (read_inode fs ino))
    (file_view (with_device fs dev2) (read_inode fs ino)) fs.block_size
    (inode_size_field (read_inode fs ino)) p name hv2 _ 0 l hchain (Or.inl ⟨hp, Nat.zero_le _⟩)
  have hnone : l.find? (live_named (file_view (with_device fs dev2) (read_inode fs ino)) name)
      = none := by
    rw [List.find?_eq_none]
    intro q hq
    rw [hlive2 q hq]
    by_cases e : q = p
    · simp [e]
    · have : live_named (file_view fs (read_inode fs ino)) name q = false := by
        by_contra hc
        have hc' : live_named (file_view fs (read_inode fs ino)) name q = true := by
          simpa using hc
        have : q ∈ l.filter (live_named (file_view fs (read_inode fs ino)) name) :=
          List.mem_filter.mpr ⟨hq, hc'⟩
        rw [hone] at this
        exact e (List.mem_singleton.mp this)
      simp [this]
  obtain ⟨res, hres, hmatch⟩ := lookup_loop_refines (with_device fs dev2) (read_inode fs ino)
    name hbs h256 hmap2 _ 0 l hchain2 fuel 0 0
    (inode_read_block (with_device fs dev2) (read_inode fs ino) 0 fs.malloc_junk).2 hfuel
    (scan_at_start _ _ _ hmap2)
  rw [hnone] at hmatch
  dsimp only at hmatch
  unfold finddir_ext2
  dsimp only
  rw [hinode]
  simp only [with_device_junk]
  rw [hres, hmatch]

theorem listed_dir_addr (x : Nat) (hx : x < 1024) :
    file_byte_addr listed_dir_fs (read_inode listed_dir_fs 2) x = 51200 + x := by
  unfold file_byte_addr
  have hbs : listed_dir_fs.block_size = 1024 := rfl
  rw [hbs, Nat.div_eq_of_lt hx, Nat.mod_eq_of_lt hx]
  have e : block_start listed_dir_fs (get_block_number listed_dir_fs
      (read_inode listed_dir_fs 2) 0) = 51200 := by decide
  rw [e]

/-! ## Inode record addressing -/

theorem u64_of_lt {x : Nat} (h : x < 18446744073709551616) : u64 x = x := Nat.mod_eq_of_lt h

theorem sub64_of_le {a b : Nat} (ha : a < 18446744073709551616) (hb : b ≤ a) :
    sub64 a b = a - b := by
  unfold sub64 u64
  have hb' : b < 18446744073709551616 := by omega
  rw [Nat.mod_eq_of_lt ha, Nat.mod_eq_of_lt hb']
  omega

theorem inode_position (bs isz idx : Nat) (hisz : 0 < isz) (hbs : 0 < bs) (hd : isz ∣ bs) :
    idx * isz / bs = idx / (bs / isz) ∧
    idx - idx * isz / bs * (bs / isz) = idx % (bs / isz) ∧
    (idx % (bs / isz)) * isz + isz ≤ bs ∧
    idx * isz = idx * isz / bs * bs + (idx % (bs / isz)) * isz := by
  obtain ⟨q, rfl⟩ := hd
  have hq : 0 < q := by
    rcases Nat.eq_zero_or_pos q with h | h
    · subst h; simp at hbs
    · exact h
  have h1 : isz * q / isz = q := Nat.mul_div_cancel_left q hisz
  have h2 : idx * isz / (isz * q) = idx / q := by
    rw [Nat.mul_comm idx isz]; exact Nat.mul_div_mul_left idx q hisz
  rw [h1, h2]
  have h3 := Nat.div_add_mod idx q
  have h4 : idx % q < q := Nat.mod_lt _ hq
  refine ⟨rfl, ?_, ?_, ?_⟩
  · have : idx / q * q = q * (idx / q) := Nat.mul_comm _ _
    omega
  · have : (idx % q + 1) * isz ≤ q * isz := Nat.mul_le_mul_right _ h4
    rw [Nat.mul_comm isz q]
    linarith [this, Nat.add_mul (idx % q) 1 isz]
  · have : idx * isz = (q * (idx / q) + idx % q) * isz := by rw [h3]
    rw [this]; ring

/-- The facts about the position of an addressable record. -/
theorem addressable_facts (fs : ext2_fs_t) (n : Nat) (h : inode_addressable fs n) :
    n ≠ 0 ∧ (n - 1) / fs.inodes_per_group < fs.block_group_count ∧
    (n - 1) / fs.inodes_per_group < 4294967296 ∧
    (n - 1) / fs.inodes_per_group * fs.inodes_per_group < 4294967296 ∧
    n - 1 < 4294967296 ∧
    n - 1 - (n - 1) / fs.inodes_per_group * fs.inodes_per_group = (n - 1) % fs.inodes_per_group ∧
    (n - 1) % fs.inodes_per_group * fs.inode_size < 4294967296 ∧
    inode_record_block fs n < 4294967296 ∧
    inode_record_block fs n * fs.block_size < 4294967296 ∧
    fs.block_size < 4294967296 ∧
    inode_record_addr fs n = inode_record_block fs n * fs.block_size
      + (n - 1) % fs.inodes_per_group % (fs.block_size / fs.inode_size) * fs.inode_size := by
  obtain ⟨hbs, hisz, hd, h32, h1, hn, hb0, hb4⟩ := h
  have hipg : 0 < fs.inodes_per_group := by
    rcases Nat.eq_zero_or_pos fs.inodes_per_group with h | h
    · rw [h] at hn; simp at hn; omega
    · exact h
  have hg : (n - 1) / fs.inodes_per_group < fs.block_group_count := by
    rw [Nat.div_lt_iff_lt_mul hipg, Nat.mul_comm]; omega
  have hle : (n - 1) / fs.inodes_per_group * fs.inodes_per_group ≤ n - 1 :=
    Nat.div_mul_le_self _ _
  have hbc : fs.block_group_count ≤ fs.inodes_per_group * fs.block_group_count :=
    Nat.le_mul_of_pos_left _ hipg
  have hmod : n - 1 - (n - 1) / fs.inodes_per_group * fs.inodes_per_group
      = (n - 1) % fs.inodes_per_group := by
    have := Nat.div_add_mod (n - 1) fs.inodes_per_group
    have h2 : (n - 1) / fs.inodes_per_group * fs.inodes_per_group
        = fs.inodes_per_group * ((n - 1) / fs.inodes_per_group) := Nat.mul_comm _ _
    omega
  obtain ⟨p1, p2, p3, p4⟩ := inode_position fs.block_size fs.inode_size
    ((n - 1) % fs.inodes_per_group) hisz hbs hd
  have hrb : inode_record_block fs n = bgd_inode_table fs ((n - 1) / fs.inodes_per_group)
      + (n - 1) % fs.inodes_per_group * fs.inode_size / fs.block_size := rfl
  have hmul : (inode_record_block fs n + 1) * fs.block_size
      = inode_record_block fs n * fs.block_size + fs.block_size := by ring
  have hlow : (n - 1) % fs.inodes_per_group * fs.inode_size / fs.block_size * fs.block_size
      ≤ inode_record_block fs n * fs.block_size := by
    apply Nat.mul_le_mul_right; rw [hrb]; omega
  have hbge : inode_record_block fs n ≤ inode_record_block fs n * fs.block_size :=
    Nat.le_mul_of_pos_right _ hbs
  have hbs2 : fs.block_size ≤ inode_record_block fs n * fs.block_size :=
    Nat.le_mul_of_pos_left _ (Nat.pos_of_ne_zero hb0)
  refine ⟨by omega, hg, by omega, by omega, by omega, hmod, by omega, by omega, by omega,
    by omega, ?_⟩
  unfold inode_record_addr
  rw [hrb, Nat.add_mul]
  omega

theorem inode_slot_of_addressable (fs : ext2_fs_t) (n : Nat) (h : inode_addressable fs n) :
    inode_slot fs n = some (inode_record_addr fs n) := by
  obtain ⟨f0, f1, f2, f3, f4, f5, f6, f7, f8, f10, f9⟩ := addressable_facts fs n h
  obtain ⟨hbs, hisz, hd, h32, h1, hn, hb0, hb4⟩ := h
  obtain ⟨p1, p2, p3, p4⟩ := inode_position fs.block_size fs.inode_size
    ((n - 1) % fs.inodes_per_group) hisz hbs hd
  have hrb : inode_record_block fs n = bgd_inode_table fs ((n - 1) / fs.inodes_per_group)
      + (n - 1) % fs.inodes_per_group * fs.inode_size / fs.block_size := rfl
  have e1 : u32 ((n - 1) / fs.inodes_per_group) = (n - 1) / fs.inodes_per_group := u32_of_lt f2
  have e2 : sub64 (n - 1) (u32 ((n - 1) / fs.inodes_per_group * fs.inodes_per_group))
      = (n - 1) % fs.inodes_per_group := by
    have hn64 : n - 1 < 18446744073709551616 := by omega
    rw [u32_of_lt f3, sub64_of_le hn64 (Nat.div_mul_le_self _ _), f5]
  have hbo : (n - 1) % fs.inodes_per_group * fs.inode_size / fs.block_size < 4294967296 :=
    lt_of_le_of_lt (Nat.div_le_self _ _) f6
  have e3 : u32 (u64 ((n - 1) % fs.inodes_per_group * fs.inode_size) / fs.block_size)
      = (n - 1) % fs.inodes_per_group * fs.inode_size / fs.block_size := by
    have h64 : (n - 1) % fs.inodes_per_group * fs.inode_size < 18446744073709551616 := by omega
    rw [u64_of_lt h64, u32_of_lt hbo]
  have hmodlt : (n - 1) % fs.inodes_per_group < 4294967296 := by
    have := Nat.mod_le (n - 1) fs.inodes_per_group; omega
  have hq : (n - 1) % fs.inodes_per_group * fs.inode_size / fs.block_size
      * (fs.block_size / fs.inode_size) ≤ (n - 1) % fs.inodes_per_group := by
    rw [p1]; exact Nat.div_mul_le_self _ _
  have e4 : u32 (sub64 ((n - 1) % fs.inodes_per_group)
      (u32 ((n - 1) % fs.inodes_per_group * fs.inode_size / fs.block_size
        * (fs.block_size / fs.inode_size))))
      = (n - 1) % fs.inodes_per_group % (fs.block_size / fs.inode_size) := by
    have hbq : (n - 1) % fs.inodes_per_group * fs.inode_size / fs.block_size
        * (fs.block_size / fs.inode_size) < 4294967296 := by omega
    have hm64 : (n - 1) % fs.inodes_per_group < 18446744073709551616 := by omega
    rw [u32_of_lt hbq, sub64_of_le hm64 hq, p2]
    exact u32_of_lt (lt_of_le_of_lt (Nat.mod_le _ _) hmodlt)
  have e5 : u32 (bgd_inode_table fs ((n - 1) / fs.inodes_per_group)
      + (n - 1) % fs.inodes_per_group * fs.inode_size / fs.block_size)
      = inode_record_block fs n := by
    rw [← hrb]; exact u32_of_lt f7
  have e6 : u32 ((n - 1) % fs.inodes_per_group % (fs.block_size / fs.inode_size) * fs.inode_size)
      = (n - 1) % fs.inodes_per_group % (fs.block_size / fs.inode_size) * fs.inode_size := by
    apply u32_of_lt; omega
  have e7 : block_start fs (inode_record_block fs n) = inode_record_block fs n * fs.block_size := by
    unfold block_start; rw [u32_of_lt f7, u32_of_lt f8]
  unfold inode_slot
  rw [if_neg f0]
  dsimp only
  rw [e1, if_neg (by omega), e2, e3, e4, e5, if_neg hb0, e6, if_pos p3, e7, f9]

theorem write_inode_position (fs : ext2_fs_t) (n : Nat) (h : inode_addressable fs n) :
    write_inode_block fs n = inode_record_block fs n ∧
    write_inode_offset fs n
      = (n - 1) % fs.inodes_per_group % (fs.block_size / fs.inode_size) * fs.inode_size ∧
    block_start fs (inode_record_block fs n) = inode_record_block fs n * fs.block_size := by
  obtain ⟨f0, f1, f2, f3, f4, f5, f6, f7, f8, f10, f9⟩ := addressable_facts fs n h
  obtain ⟨hbs, hisz, hd, h32, h1, hn, hb0, hb4⟩ := h
  obtain ⟨p1, p2, p3, p4⟩ := inode_position fs.block_size fs.inode_size
    ((n - 1) % fs.inodes_per_group) hisz hbs hd
  have h64 : (n - 1) % fs.inodes_per_group * fs.inode_size < 18446744073709551616 := by omega
  have hmodlt : (n - 1) % fs.inodes_per_group < 4294967296 := by
    have := Nat.mod_le (n - 1) fs.inodes_per_group; omega
  have hq : (n - 1) % fs.inodes_per_group * fs.inode_size / fs.block_size
      * (fs.block_size / fs.inode_size) ≤ (n - 1) % fs.inodes_per_group := by
    rw [p1]; exact Nat.div_mul_le_self _ _
  have hbq : (n - 1) % fs.inodes_per_group * fs.inode_size / fs.block_size
      * (fs.block_size / fs.inode_size) < 18446744073709551616 := by omega
  have hm64 : (n - 1) % fs.inodes_per_group < 18446744073709551616 := by omega
  have ho64 : (n - 1) % fs.inodes_per_group % (fs.block_size / fs.inode_size) * fs.inode_size
      < 18446744073709551616 := by omega
  refine ⟨?_, ?_, ?_⟩
  · unfold write_inode_block inode_record_block
    dsimp only
    rw [f5, u64_of_lt h64]
  · unfold write_inode_offset
    dsimp only
    rw [f5, u64_of_lt h64, u64_of_lt hbq, sub64_of_le hm64 hq, p2, u64_of_lt ho64]
  · unfold block_start; rw [u32_of_lt f7, u32_of_lt f8]

theorem inode_write_range_of_addressable (fs : ext2_fs_t) (n a : Nat)
    (h : inode_addressable fs n) :
    inode_write_range fs n a
      ↔ inode_record_addr fs n ≤ a ∧ a < inode_record_addr fs n + fs.inode_size := by
  obtain ⟨w1, w2, w3⟩ := write_inode_position fs n h
  obtain ⟨f0, f1, f2, f3, f4, f5, f6, f7, f8, f10, f9⟩ := addressable_facts fs n h
  obtain ⟨hbs, hisz, hd, h32, h1, hn, hb0, hb4⟩ := h
  obtain ⟨p1, p2, p3, p4⟩ := inode_position fs.block_size fs.inode_size
    ((n - 1) % fs.inodes_per_group) hisz hbs hd
  unfold inode_write_range in_block
  rw [w1, w2, w3, f9, u32_of_lt f7]
  constructor
  · rintro ⟨-, -, ⟨-, h2, h3⟩, h4, h5⟩
    omega
  · rintro ⟨h2, h3⟩
    exact ⟨f0, by omega, ⟨hb0, by omega, by omega⟩, by omega, by omega⟩

theorem write_inode_device_inside (fs : ext2_fs_t) (inode : Buf) (index a : Nat)
    (h : inode_write_range fs index a) :
    (write_inode fs inode index).2.block_device a
      = inode (a - block_start fs (write_inode_block fs index) - write_inode_offset fs index) := by
  obtain ⟨h0, hg, hin, h1, h2⟩ := h
  unfold write_inode
  rw [if_neg h0]
  dsimp only
  rw [if_neg hg]
  dsimp only
  simp only [write_inode_block, write_inode_offset] at hin h1 h2 ⊢
  generalize bgd_inode_table fs ((index - 1) / fs.inodes_per_group)
    + u64 ((index - 1 - (index - 1) / fs.inodes_per_group * fs.inodes_per_group)
        * fs.inode_size) / fs.block_size = T at hin h1 h2 ⊢
  generalize u64 (sub64 (index - 1 - (index - 1) / fs.inodes_per_group * fs.inodes_per_group)
    (u64 (u64 ((index - 1 - (index - 1) / fs.inodes_per_group * fs.inodes_per_group)
        * fs.inode_size) / fs.block_size * (fs.block_size / fs.inode_size))) * fs.inode_size)
    = o at h1 h2 ⊢
  rw [write_block_device_inside _ _ _ _ hin]
  unfold memcpy
  rw [if_pos ⟨h1, h2⟩, Nat.zero_add]

theorem read_inode_addressable (fs : ext2_fs_t) (n k : Nat) (h : inode_addressable fs n)
    (hk : k < fs.inode_size) :
    read_inode fs n k = fs.block_device (inode_record_addr fs n + k) := by
  rw [read_inode_of_slot fs n _ (inode_slot_of_addressable fs n h)]
  unfold memcpy
  rw [if_pos ⟨Nat.zero_le _, by omega⟩, Nat.sub_zero]

theorem same_group_records_apart (fs : ext2_fs_t) (m n : Nat) (hm : 1 ≤ m) (hn : 1 ≤ n)
    (hne : m ≠ n) (hg : (m - 1) / fs.inodes_per_group = (n - 1) / fs.inodes_per_group) :
    inode_record_addr fs m + fs.inode_size ≤ inode_record_addr fs n ∨
    inode_record_addr fs n + fs.inode_size ≤ inode_record_addr fs m := by
  unfold inode_record_addr
  rw [hg]
  have h1 := Nat.div_add_mod (m - 1) fs.inodes_per_group
  have h2 := Nat.div_add_mod (n - 1) fs.inodes_per_group
  rw [hg] at h1
  have hne2 : (m - 1) % fs.inodes_per_group ≠ (n - 1) % fs.inodes_per_group := by
    intro he; rw [he] at h1; omega
  rcases Nat.lt_or_gt_of_ne hne2 with hlt | hgt
  · left
    have : ((m - 1) % fs.inodes_per_group + 1) * fs.inode_size
        ≤ (n - 1) % fs.inodes_per_group * fs.inode_size := Nat.mul_le_mul_right _ hlt
    rw [Nat.add_mul, Nat.one_mul] at this
    omega
  · right
    have : ((n - 1) % fs.inodes_per_group + 1) * fs.inode_size
        ≤ (m - 1) % fs.inodes_per_group * fs.inode_size := Nat.mul_le_mul_right _ hgt
    rw [Nat.add_mul, Nat.one_mul] at this
    omega

/-! ## Byte-range read -/

theorem holds_block_at (fs : ext2_fs_t) (inode : Buf) (block : Buf) (b a : Nat)
    (h : holds_block fs inode block b) (ha : a < fs.block_size) :
    block a = file_view fs inode (b * fs.block_size + a) := by
  have hbs : 0 < fs.block_size := by omega
  unfold file_view file_byte_addr
  have h1 : (b * fs.block_size + a) / fs.block_size = b := by
    rw [Nat.mul_comm, Nat.mul_add_div hbs, Nat.div_eq_of_lt ha, Nat.add_zero]
  have h2 : (b * fs.block_size + a) % fs.block_size = a := by
    rw [Nat.mul_comm, Nat.mul_add_mod, Nat.mod_eq_of_lt ha]
  rw [h1, h2]
  exact h a ha

theorem read_ext2_loop_spec (fs : ext2_fs_t) (inode : Buf) (offset sb o : Nat)
    (hbs : 0 < fs.block_size)
    (hmap : blocks_mapped fs inode (inode_size_field inode))
    (hoff : offset = sb * fs.block_size + o) (ho : o < fs.block_size) :
    ∀ n j buf buffer,
      (sb + j + n) * fs.block_size ≤ inode_size_field inode →
      ((read_ext2_loop fs inode offset sb n (sb + j) j buf buffer).2.2 = j + n) ∧
      (∀ k, bytes_done fs.block_size o j ≤ k → k < bytes_done fs.block_size o (j + n) →
        (read_ext2_loop fs inode offset sb n (sb + j) j buf buffer).2.1 k
          = file_view fs inode (offset + k)) ∧
      (∀ k, (k < bytes_done fs.block_size o j ∨ bytes_done fs.block_size o (j + n) ≤ k) →
        (read_ext2_loop fs inode offset sb n (sb + j) j buf buffer).2.1 k = buffer k) := by
  have hS : inode_size_field inode < 4294967296 := get32_lt _ _
  have hmod : offset % fs.block_size = o := by
    rw [hoff, Nat.mul_comm, Nat.mul_add_mod, Nat.mod_eq_of_lt ho]
  intro n
  induction n with
  | zero =>
    intro j buf buffer _
    refine ⟨rfl, ?_, ?_⟩
    · intro k h1 h2; simp only [Nat.add_zero] at h2; omega
    · intro k _; rfl
  | succ n ih =>
    intro j buf buffer hlim
    have hmul : (sb + j + (n + 1)) * fs.block_size
        = sb * fs.block_size + j * fs.block_size + n * fs.block_size + fs.block_size := by ring
    have hjle : j ≤ j * fs.block_size := Nat.le_mul_of_pos_right _ hbs
    have hsle : sb ≤ sb * fs.block_size := Nat.le_mul_of_pos_right _ hbs
    have hsj : (sb + j) * fs.block_size = sb * fs.block_size + j * fs.block_size := by ring
    have hmapped := hmap (sb + j) (by omega)
    have hholds := inode_read_block_holds fs inode (sb + j) buf hmapped.1 hmapped.2
    have e1 : u32 (sb + j + 1) = sb + (j + 1) := by
      have : sb + j + 1 < 4294967296 := by omega
      rw [u32_of_lt this]; omega
    have e2 : u32 (j + 1) = j + 1 := by
      have : j + 1 < 4294967296 := by omega
      exact u32_of_lt this
    have e3 : u32 (fs.block_size * j) = j * fs.block_size := by
      have : j * fs.block_size < 4294967296 := by omega
      rw [Nat.mul_comm]; exact u32_of_lt this
    have hlim2 : (sb + (j + 1) + n) * fs.block_size ≤ inode_size_field inode := by
      have : sb + (j + 1) + n = sb + j + (n + 1) := by omega
      rw [this]; exact hlim
    unfold read_ext2_loop
    dsimp only
    rw [e1, e2, e3, hmod]
    obtain ⟨i1, i2, i3⟩ := ih (j + 1) (inode_read_block fs inode (sb + j) buf).2
      (if sb + j = sb then
        memcpy buffer 0 (inode_read_block fs inode (sb + j) buf).2 o (fs.block_size - o)
      else
        memcpy buffer (j * fs.block_size - o) (inode_read_block fs inode (sb + j) buf).2 0
          fs.block_size) hlim2
    have hj1 : (j + 1) * fs.block_size = j * fs.block_size + fs.block_size := by ring
    have hd1 : bytes_done fs.block_size o (j + 1) = (j + 1) * fs.block_size - o := by
      unfold bytes_done; rw [if_neg (by omega)]
    have hdn : bytes_done fs.block_size o (j + 1 + n) = bytes_done fs.block_size o (j + (n + 1)) := by
      have : j + 1 + n = j + (n + 1) := by omega
      rw [this]
    have hmono : bytes_done fs.block_size o (j + 1) ≤ bytes_done fs.block_size o (j + 1 + n) := by
      unfold bytes_done
      rw [if_neg (by omega), if_neg (by omega)]
      have : (j + 1) * fs.block_size ≤ (j + 1 + n) * fs.block_size :=
        Nat.mul_le_mul_right _ (by omega)
      omega
    have hd0 : bytes_done fs.block_size o j ≤ bytes_done fs.block_size o (j + 1) := by
      rw [hd1]; unfold bytes_done
      split
      · omega
      · omega
    have hthis : ∀ k, bytes_done fs.block_size o j ≤ k → k < bytes_done fs.block_size o (j + 1) →
        (if sb + j = sb then
          memcpy buffer 0 (inode_read_block fs inode (sb + j) buf).2 o (fs.block_size - o)
        else
          memcpy buffer (j * fs.block_size - o) (inode_read_block fs inode (sb + j) buf).2 0
            fs.block_size) k = file_view fs inode (offset + k) := by
      intro k h1 h2
      rw [hd1] at h2
      by_cases hj0 : j = 0
      · subst hj0
        rw [if_pos (by omega)]
        unfold memcpy
        rw [if_pos ⟨Nat.zero_le _, by omega⟩, Nat.sub_zero]
        rw [holds_block_at fs inode _ _ _ hholds (by omega)]
        congr 1
        omega
      · have hbj : fs.block_size ≤ j * fs.block_size :=
          Nat.le_mul_of_pos_left _ (Nat.pos_of_ne_zero hj0)
        rw [if_neg (by omega)]
        unfold bytes_done at h1
        rw [if_neg hj0] at h1
        unfold memcpy
        rw [if_pos ⟨h1, by omega⟩, Nat.zero_add]
        rw [holds_block_at fs inode _ _ _ hholds (by omega)]
        congr 1
        omega
    have hother : ∀ k, (k < bytes_done fs.block_size o j ∨
        bytes_done fs.block_size o (j + 1) ≤ k) →
        (if sb + j = sb then
          memcpy buffer 0 (inode_read_block fs inode (sb + j) buf).2 o (fs.block_size - o)
        else
          memcpy buffer (j * fs.block_size - o) (inode_read_block fs inode (sb + j) buf).2 0
            fs.block_size) k = buffer k := by
      intro k hk
      rw [hd1] at hk
      by_cases hj0 : j = 0
      · subst hj0
        rw [if_pos (by omega)]
        unfold memcpy
        unfold bytes_done at hk
        rw [if_pos rfl] at hk
        rw [if_neg (by omega)]
      · have hbj : fs.block_size ≤ j * fs.block_size :=
          Nat.le_mul_of_pos_left _ (Nat.pos_of_ne_zero hj0)
        rw [if_neg (by omega)]
        unfold bytes_done at hk
        rw [if_neg hj0] at hk
        unfold memcpy
        rw [if_neg (by omega)]
    refine ⟨by rw [i1]; omega, ?_, ?_⟩
    · intro k h1 h2
      by_cases hk : k < bytes_done fs.block_size o (j + 1)
      · rw [i3 k (Or.inl hk)]
        exact hthis k h1 hk
      · exact i2 k (by omega) (by rw [hdn]; exact h2)
    · intro k hk
      rw [i3 k (by rw [hdn]; omega)]
      exact hother k (by omega)

theorem read_ext2_spec (fs : ext2_fs_t) (ino offset size : Nat) (buffer : Buf)
    (hbs : 0 < fs.block_size)
    (hmap : blocks_mapped fs (read_inode fs ino) (inode_size_field (read_inode fs ino)))
    (hoff : offset ≤ inode_size_field (read_inode fs ino))
    (hsum : offset + size < 4294967296) :
    (read_ext2 fs ino offset size buffer).1
      = min (offset + size) (inode_size_field (read_inode fs ino)) - offset ∧
    (∀ k, k < min (offset + size) (inode_size_field (read_inode fs ino)) - offset →
      (read_ext2 fs ino offset size buffer).2 k
        = file_view fs (read_inode fs ino) (offset + k)) ∧
    (∀ k, min (offset + size) (inode_size_field (read_inode fs ino)) - offset ≤ k →
      (read_ext2 fs ino offset size buffer).2 k = buffer k) := by
  unfold read_ext2
  dsimp only
  generalize read_inode fs ino = inode at *
  have hS : inode_size_field inode < 4294967296 := get32_lt _ _
  by_cases h0 : inode_size_field inode = 0
  · rw [if_pos h0]
    have : min (offset + size) (inode_size_field inode) - offset = 0 := by omega
    rw [this]
    exact ⟨rfl, fun k hk => by omega, fun k _ => rfl⟩
  · rw [if_neg h0]
    have hend : (if u64 (offset + size) > inode_size_field inode then inode_size_field inode
        else u32 (offset + size)) = min (offset + size) (inode_size_field inode) := by
      have h64 : offset + size < 18446744073709551616 := by omega
      rw [u64_of_lt h64, u32_of_lt hsum]
      split <;> omega
    rw [hend]
    generalize hE : min (offset + size) (inode_size_field inode) = E
    have hEle : E ≤ inode_size_field inode := by omega
    have hoE : offset ≤ E := by omega
    have hdm := Nat.div_add_mod offset fs.block_size
    have hdmE := Nat.div_add_mod E fs.block_size
    have hoffeq : offset = offset / fs.block_size * fs.block_size + offset % fs.block_size := by
      rw [Nat.mul_comm]; omega
    have ho : offset % fs.block_size < fs.block_size := Nat.mod_lt _ hbs
    have hEo : E % fs.block_size < fs.block_size := Nat.mod_lt _ hbs
    have hsb : u32 (offset / fs.block_size) = offset / fs.block_size :=
      u32_of_lt (lt_of_le_of_lt (Nat.div_le_self _ _) (by omega))
    have hebm : E / fs.block_size * fs.block_size = fs.block_size * (E / fs.block_size) :=
      Nat.mul_comm _ _
    have hes : sub32 E (u32 (E / fs.block_size * fs.block_size)) = E % fs.block_size := by
      have h1 : E / fs.block_size * fs.block_size < 4294967296 := by omega
      rw [u32_of_lt h1, sub32_of_le (by omega) (by omega)]
      omega
    have hsz : sub32 E offset = E - offset := sub32_of_le (by omega) hoE
    rw [hsb, hes, hsz]
    by_cases hse : offset / fs.block_size = E / fs.block_size
    · rw [if_pos hse]
      dsimp only
      refine ⟨rfl, ?_, ?_⟩
      · intro k hk
        have hlt : offset / fs.block_size * fs.block_size < inode_size_field inode := by
          rw [Nat.mul_comm]; omega
        have hm := hmap (offset / fs.block_size) hlt
        have hh := inode_read_block_holds fs inode (offset / fs.block_size) fs.malloc_junk
          hm.1 hm.2
        unfold memcpy
        rw [if_pos ⟨Nat.zero_le _, by omega⟩, Nat.sub_zero]
        have hfit : offset % fs.block_size + k < fs.block_size := by
          rw [hse] at hdm; omega
        exact holds_block_view fs inode _ offset k hh hfit
      · intro k hk
        unfold memcpy
        rw [if_neg (by omega)]
    · rw [if_neg hse]
      have hlt : offset / fs.block_size < E / fs.block_size := by
        have := Nat.div_le_div_right (c := fs.block_size) hoE
        omega
      obtain ⟨n, hn⟩ : ∃ n, E / fs.block_size = offset / fs.block_size + 0 + (n + 1) :=
        ⟨E / fs.block_size - offset / fs.block_size - 1, by omega⟩
      have hnsub : E / fs.block_size - offset / fs.block_size = n + 1 := by omega
      have hlim : (offset / fs.block_size + 0 + (n + 1)) * fs.block_size
          ≤ inode_size_field inode := by
        rw [← hn]; omega
      obtain ⟨l1, l2, l3⟩ := read_ext2_loop_spec fs inode offset (offset / fs.block_size)
        (offset % fs.block_size) hbs hmap hoffeq ho (n + 1) 0 fs.malloc_junk buffer hlim
      rw [hnsub]
      simp only [Nat.add_zero, Nat.zero_add] at l1 l2 l3 hn hlim
      generalize read_ext2_loop fs inode offset (offset / fs.block_size) (n + 1)
        (offset / fs.block_size) 0 fs.malloc_junk buffer = r at l1 l2 l3 ⊢
      obtain ⟨b1, b2, b3⟩ := r
      dsimp only at l1 l2 l3 ⊢
      subst l1
      have hd0 : bytes_done fs.block_size (offset % fs.block_size) 0 = 0 := rfl
      have hdn : bytes_done fs.block_size (offset % fs.block_size) (n + 1)
          = E / fs.block_size * fs.block_size - offset := by
        unfold bytes_done
        rw [if_neg (by omega), hn]
        have : (offset / fs.block_size + (n + 1)) * fs.block_size
            = offset / fs.block_size * fs.block_size + (n + 1) * fs.block_size := by ring
        rw [this]; omega
      rw [hd0, hdn] at l2 l3
      have hu : u32 (fs.block_size * (n + 1)) - offset % fs.block_size
          = E / fs.block_size * fs.block_size - offset := by
        have h1 : fs.block_size * (n + 1) < 4294967296 := by
          have : (offset / fs.block_size + (n + 1)) * fs.block_size
              = offset / fs.block_size * fs.block_size + fs.block_size * (n + 1) := by
            ring
          omega
        rw [u32_of_lt h1, hn]
        have : (offset / fs.block_size + (n + 1)) * fs.block_size
            = offset / fs.block_size * fs.block_size + fs.block_size * (n + 1) := by ring
        rw [this]; omega
      have hbe : offset ≤ E / fs.block_size * fs.block_size := by
        have : (offset / fs.block_size + 1) * fs.block_size ≤ E / fs.block_size * fs.block_size :=
          Nat.mul_le_mul_right _ hlt
        rw [Nat.add_mul, Nat.one_mul] at this
        omega
      by_cases hes0 : E % fs.block_size = 0
      · have hne : ¬ (E % fs.block_size ≠ 0) := by omega
        rw [if_neg hne]
        dsimp only
        have hEq : E / fs.block_size * fs.block_size = E := by omega
        rw [hEq] at l2 l3
        exact ⟨rfl, fun k hk => l2 k (Nat.zero_le _) hk, fun k hk => l3 k (Or.inr hk)⟩
      · rw [if_pos hes0]
        dsimp only
        rw [hu]
        have hm := hmap (E / fs.block_size) (by omega)
        have hh := inode_read_block_holds fs inode (E / fs.block_size) b1 hm.1 hm.2
        refine ⟨rfl, ?_, ?_⟩
        · intro k hk
          unfold memcpy
          by_cases hk2 : k < E / fs.block_size * fs.block_size - offset
          · rw [if_neg (by omega)]
            exact l2 k (Nat.zero_le _) hk2
          · rw [if_pos ⟨by omega, by omega⟩, Nat.zero_add]
            rw [holds_block_at fs inode _ _ _ hh (by omega)]
            congr 1
            omega
        · intro k hk
          unfold memcpy
          rw [if_neg (by omega)]
          exact l3 k (Or.inr (by omega))

/-! ## Directory listing -/

theorem direntry_loop_refines (fs : ext2_fs_t) (inode : Buf) (index : Nat)
    (hbs : 0 < fs.block_size) (h256 : inode_size_field inode ≤ 256 * fs.block_size)
    (hmap : blocks_mapped fs inode (inode_size_field inode)) (hidx : index < 4294967296) :
    ∀ f pos l, dir_chain (file_view fs inode) fs.block_size (inode_size_field inode) f pos = some l →
    ∀ fuel block_nr dir_offset dir_index block, l.length < fuel → dir_index ≤ index →
      (pos < inode_size_field inode → block_nr = pos / fs.block_size ∧
        dir_offset = pos % fs.block_size ∧ holds_block fs inode block (pos / fs.block_size)) →
      ∃ res, direntry_loop fs inode index fuel block_nr dir_offset pos dir_index block = some res ∧
        match (l.filter (live_record (file_view fs inode)))[index - dir_index]? with
        | none => res = none
        | some q => ∃ B, res = some (memcpy fs.malloc_junk 0 B (q % fs.block_size)
              (dirent_rec_len (file_view fs inode) q)) ∧
            holds_block fs inode B (q / fs.block_size) := by
  intro f
  induction f with
  | zero => intro pos l h; simp [dir_chain] at h
  | succ f ih =>
    intro pos l hchain fuel block_nr dir_offset dir_index block hfuel hdi hat
    have hsz : inode_size_field inode < 4294967296 := get32_lt _ _
    unfold dir_chain at hchain
    cases fuel with
    | zero => omega
    | succ fuel =>
    by_cases hend : pos = inode_size_field inode
    · rw [if_pos hend] at hchain
      have hl : l = [] := by simpa using hchain.symm
      subst hl
      refine ⟨none, ?_, by simp⟩
      unfold direntry_loop
      rw [if_neg (by omega)]
    · rw [if_neg hend] at hchain
      by_cases hc : pos < inode_size_field inode ∧
          8 + dirent_name_len (file_view fs inode) pos ≤ dirent_rec_len (file_view fs inode) pos ∧
          pos % fs.block_size + dirent_rec_len (file_view fs inode) pos ≤ fs.block_size
      · rw [if_pos hc] at hchain
        obtain ⟨hpos, hlen, hfit⟩ := hc
        cases hrec : dir_chain (file_view fs inode) fs.block_size (inode_size_field inode) f
            (pos + dirent_rec_len (file_view fs inode) pos) with
        | none => rw [hrec] at hchain; simp at hchain
        | some l' =>
          rw [hrec] at hchain
          have hl : l = pos :: l' := by simpa using hchain.symm
          subst hl
          have hle := dir_chain_le _ _ _ _ _ _ hrec
          obtain ⟨hb1, hb2, hb3⟩ := hat hpos
          subst hb1 hb2
          obtain ⟨f1, f2, f3, f4⟩ := record_fields fs inode block pos hb3 hlen hfit
          unfold direntry_loop
          rw [if_pos ⟨hpos, hdi⟩]
          dsimp only
          rw [f1, f2]
          by_cases hhit : dirent_inode (file_view fs inode) pos ≠ 0 ∧ dir_index = index
          · rw [if_pos hhit]
            have hlive : live_record (file_view fs inode) pos = true := by
              unfold live_record; simp [hhit.1]
            rw [List.filter_cons_of_pos hlive, hhit.2, Nat.sub_self]
            refine ⟨_, rfl, ?_⟩
            simp only [List.getElem?_cons_zero]
            exact ⟨block, rfl, hb3⟩
          · rw [if_neg hhit]
            have hu1 : u32 (pos % fs.block_size + dirent_rec_len (file_view fs inode) pos)
                = pos % fs.block_size + dirent_rec_len (file_view fs inode) pos := by
              apply u32_of_lt
              have := Nat.mod_le pos fs.block_size
              omega
            have hu2 : u32 (pos + dirent_rec_len (file_view fs inode) pos)
                = pos + dirent_rec_len (file_view fs inode) pos := u32_of_lt (by omega)
            rw [hu1, hu2]
            -- the state after the step stands at the next record
            have hdm := Nat.div_add_mod pos fs.block_size
            have hstate : pos + dirent_rec_len (file_view fs inode) pos < inode_size_field inode →
                (if pos % fs.block_size + dirent_rec_len (file_view fs inode) pos ≥ fs.block_size
                  then u8 (pos / fs.block_size + 1) else pos / fs.block_size)
                  = (pos + dirent_rec_len (file_view fs inode) pos) / fs.block_size ∧
                (if pos % fs.block_size + dirent_rec_len (file_view fs inode) pos ≥ fs.block_size
                  then sub32 (pos % fs.block_size + dirent_rec_len (file_view fs inode) pos)
                    fs.block_size
                  else pos % fs.block_size + dirent_rec_len (file_view fs inode) pos)
                  = (pos + dirent_rec_len (file_view fs inode) pos) % fs.block_size ∧
                holds_block fs inode
                  (if pos % fs.block_size + dirent_rec_len (file_view fs inode) pos ≥ fs.block_size
                    then (inode_read_block fs inode
                      (if pos % fs.block_size + dirent_rec_len (file_view fs inode) pos
                          ≥ fs.block_size
                        then u8 (pos / fs.block_size + 1) else pos / fs.block_size) block).2
                    else block)
                  ((pos + dirent_rec_len (file_view fs inode) pos) / fs.block_size) := by
              intro hlt
              by_cases hnext : pos % fs.block_size + dirent_rec_len (file_view fs inode) pos
                  ≥ fs.block_size
              · have heq : pos % fs.block_size + dirent_rec_len (file_view fs inode) pos
                    = fs.block_size := by omega
                have hp' : pos + dirent_rec_len (file_view fs inode) pos
                    = fs.block_size * (pos / fs.block_size + 1) := by
                  rw [Nat.mul_add, Nat.mul_one]; omega
                have hdiv : (pos + dirent_rec_len (file_view fs inode) pos) / fs.block_size
                    = pos / fs.block_size + 1 := by
                  rw [hp']; exact Nat.mul_div_cancel_left _ hbs
                have hmod : (pos + dirent_rec_len (file_view fs inode) pos) % fs.block_size
                    = 0 := by
                  rw [hp']; exact Nat.mul_mod_right _ _
                have hlt256 : pos / fs.block_size + 1 < 256 := by
                  have h1 : fs.block_size * (pos / fs.block_size + 1) < 256 * fs.block_size := by
                    omega
                  rw [Nat.mul_comm] at h1
                  exact Nat.lt_of_mul_lt_mul_right h1
                have hu8 : u8 (pos / fs.block_size + 1) = pos / fs.block_size + 1 :=
                  Nat.mod_eq_of_lt hlt256
                simp only [if_pos hnext]
                rw [hu8, hdiv, hmod, heq, sub32_self]
                have hm := hmap (pos / fs.block_size + 1) (by rw [Nat.mul_comm]; omega)
                exact ⟨rfl, rfl, inode_read_block_holds fs inode _ block hm.1 hm.2⟩
              · have hdma := div_mod_add pos (dirent_rec_len (file_view fs inode) pos)
                  fs.block_size (by omega)
                simp only [if_neg hnext]
                rw [hdma.1, hdma.2]
                exact ⟨rfl, rfl, hb3⟩
            by_cases hlv : dirent_inode (file_view fs inode) pos ≠ 0
            · rw [if_pos hlv]
              have hlive : live_record (file_view fs inode) pos = true := by
                unfold live_record; simp [hlv]
              have hne : dir_index ≠ index := fun h => hhit ⟨hlv, h⟩
              have hu3 : u32 (dir_index + 1) = dir_index + 1 := u32_of_lt (by omega)
              rw [hu3]
              obtain ⟨res, hr1, hr2⟩ := ih _ _ hrec fuel _ _ (dir_index + 1) _
                (by simp at hfuel; omega) (by omega) hstate
              refine ⟨res, hr1, ?_⟩
              rw [List.filter_cons_of_pos hlive]
              have hidx2 : index - dir_index = (index - (dir_index + 1)) + 1 := by omega
              rw [hidx2, List.getElem?_cons_succ]
              exact hr2
            · rw [if_neg hlv]
              have hlive : ¬ live_record (file_view fs inode) pos = true := by
                unfold live_record; simp; simpa using hlv
              obtain ⟨res, hr1, hr2⟩ := ih _ _ hrec fuel _ _ dir_index _
                (by simp at hfuel; omega) hdi hstate
              refine ⟨res, hr1, ?_⟩
              rw [List.filter_cons_of_neg hlive]
              exact hr2
      · rw [if_neg hc] at hchain
        simp at hchain

theorem direntry_copy_fields (junk B : Buf) (off : Nat)
    (hlen : 8 + dirent_name_len B off ≤ dirent_rec_len B off) :
    dirent_inode (memcpy junk 0 B off (dirent_rec_len B off)) 0 = dirent_inode B off ∧
    dirent_name (memcpy junk 0 B off (dirent_rec_len B off)) 0 = dirent_name B off := by
  have hnl : dirent_name_len (memcpy junk 0 B off (dirent_rec_len B off)) 0
      = dirent_name_len B off := by
    unfold dirent_name_len
    rw [get8_memcpy, if_pos ⟨Nat.zero_le _, by omega⟩]
  refine ⟨?_, ?_⟩
  · unfold dirent_inode
    rw [get32_memcpy_inside _ _ _ _ _ _ (Nat.le_refl _) (by omega)]
    simp only [Nat.sub_zero, Nat.add_zero]
  · unfold dirent_name
    rw [hnl]
    apply List.map_congr_left
    intro k hk
    rw [List.mem_range] at hk
    dsimp only
    unfold dirent_name_len at hlen hk
    rw [get8_memcpy, if_pos ⟨Nat.zero_le _, by omega⟩]
    simp only [Nat.zero_add, Nat.sub_zero]
    congr 1
    omega

theorem readdir_ext2_spec (fuel : Nat) (fs : ext2_fs_t) (ino i : Nat) (l : List Nat)
    (hwf : dir_well_formed fs ino l) (hfuel : l.length < fuel) (hi : i < 4294967296) :
    readdir_ext2 fuel fs ino i
      = some (((l.filter (live_record (file_view fs (read_inode fs ino))))[i]?).map
          (fun q => { d_ino := dirent_inode (file_view fs (read_inode fs ino)) q,
                      d_name := dirent_name (file_view fs (read_inode fs ino)) q })) := by
  obtain ⟨hbs, hmul, h256, hmap, hchain⟩ := hwf
  unfold readdir_ext2 direntry_ext2
  dsimp only
  generalize read_inode fs ino = inode at *
  have h64 : u64 i = i := u64_of_lt (by omega)
  rw [h64, u32_of_lt hi]
  have hstart : 0 < inode_size_field inode → 0 = 0 / fs.block_size ∧ 0 = 0 % fs.block_size ∧
      holds_block fs inode (inode_read_block fs inode 0 fs.malloc_junk).2 (0 / fs.block_size) := by
    intro h0
    have hm := hmap 0 (by omega)
    rw [Nat.zero_div]
    exact ⟨rfl, (Nat.zero_mod _).symm, inode_read_block_holds fs inode 0 _ hm.1 hm.2⟩
  obtain ⟨res, hr1, hr2⟩ := direntry_loop_refines fs inode i hbs h256 hmap hi _ 0 l hchain fuel 0 0 0
    (inode_read_block fs inode 0 fs.malloc_junk).2 hfuel (Nat.zero_le _) hstart
  rw [hr1]
  rw [Nat.sub_zero] at hr2
  cases hq : (l.filter (live_record (file_view fs inode)))[i]? with
  | none =>
    rw [hq] at hr2
    dsimp only at hr2
    subst hr2
    rfl
  | some q =>
    rw [hq] at hr2
    dsimp only at hr2
    obtain ⟨B, hB, hh⟩ := hr2
    subst hB
    have hmem : q ∈ l := by
      have h1 := List.getElem?_mem hq
      exact (List.mem_filter.1 h1).1
    obtain ⟨-, -, m3, m4, -⟩ := dir_chain_mem _ _ _ _ _ _ hchain q hmem
    obtain ⟨f1, f2, f3, f4⟩ := record_fields fs inode B q hh m3 m4
    have hlenB : 8 + dirent_name_len B (q % fs.block_size)
        ≤ dirent_rec_len B (q % fs.block_size) := by rw [f2, f3]; exact m3
    obtain ⟨c1, c2⟩ := direntry_copy_fields fs.malloc_junk B (q % fs.block_size) hlenB
    rw [f2] at c1 c2
    dsimp only
    rw [c1, c2, f1, f4]
    rfl

theorem listed_dir_well_formed : dir_well_formed listed_dir_fs 2 [0, 12, 24] := by
  have hsize : inode_size_field (read_inode listed_dir_fs 2) = 1024 := by decide
  refine ⟨by decide, by decide, by decide, ?_, by decide⟩
  intro k hk
  rw [hsize] at hk
  have hbs : listed_dir_fs.block_size = 1024 := rfl
  rw [hbs] at hk
  have hk0 : k = 0 := by omega
  subst hk0
  decide

/-! ## The effect of unlink -/

theorem with_device_of_meta {fs fs1 : ext2_fs_t} (h : fs1 = with_device fs fs1.block_device)
    (d : Buf) : with_device fs1 d = with_device fs d := by
  rw [h]; rfl

/-- The effect of a successful `unlink_ext2` on the device: outside the record
of the target inode only the inode field of the record found changes, and the
record of the target inode becomes its old content with `links_count`
decremented when it was positive. -/
theorem unlink_ext2_effect (fuel : Nat) (fs : ext2_fs_t) (ino : Nat) (name : List Nat)
    (s : Nat) (l : List Nat) (p : Nat)
    (hrw : fs.flags &&& EXT2_FLAG_READWRITE ≠ 0)
    (hwf : dir_well_formed fs ino l) (hfuel : l.length < fuel)
    (hfind : l.find? (live_named (file_view fs (read_inode fs ino)) name) = some p)
    (hadr : inode_addressable fs (dirent_inode (file_view fs (read_inode fs ino)) p))
    (hap : inode_apart_from_dir fs ino s (dirent_inode (file_view fs (read_inode fs ino)) p)) :
    ∃ dev2, unlink_ext2 fuel fs ino name = some (0, with_device fs dev2) ∧
      (∀ a, ¬ inode_write_range fs (dirent_inode (file_view fs (read_inode fs ino)) p) a →
        dev2 a = if file_byte_addr fs (read_inode fs ino) p ≤ a ∧
            a < file_byte_addr fs (read_inode fs ino) p + 4 then 0 else fs.block_device a) ∧
      (∀ a, inode_write_range fs (dirent_inode (file_view fs (read_inode fs ino)) p) a →
        dev2 a = (if inode_links_count
              (read_inode fs (dirent_inode (file_view fs (read_inode fs ino)) p)) > 0
            then set16 (read_inode fs (dirent_inode (file_view fs (read_inode fs ino)) p)) 26
              (sub16 (inode_links_count
                (read_inode fs (dirent_inode (file_view fs (read_inode fs ino)) p))) 1)
            else read_inode fs (dirent_inode (file_view fs (read_inode fs ino)) p))
          (a - inode_record_addr fs (dirent_inode (file_view fs (read_inode fs ino)) p))) := by
  obtain ⟨hbs, -, h256, hmap, hchain⟩ := hwf
  have hp : p ∈ l := List.mem_of_find?_eq_some hfind
  obtain ⟨-, hpsize, hplen, hpfit, hpend⟩ := dir_chain_mem _ _ _ _ _ _ hchain p hp
  obtain ⟨res, hres, hmatch⟩ := lookup_loop_refines fs (read_inode fs ino) name hbs h256 hmap
    _ 0 l hchain fuel 0 0 (inode_read_block fs (read_inode fs ino) 0 fs.malloc_junk).2 hfuel
    (scan_at_start fs _ _ hmap)
  rw [hfind] at hmatch
  obtain ⟨B, hB, hholds⟩ := hmatch
  obtain ⟨f1, -, -, -⟩ := record_fields fs (read_inode fs ino) B p hholds hplen hpfit
  have hm := hmap (p / fs.block_size) (by
    have := Nat.div_mul_le_self p fs.block_size
    omega)
  have hgb : u32 (get_block_number fs (read_inode fs ino) (p / fs.block_size)) ≠ 0 := by
    rw [u32_of_lt (get_block_number_lt _ _ _)]; exact hm.2
  obtain ⟨fuel', hfuel'⟩ : ∃ fuel', fuel = fuel' + 1 := ⟨fuel - 1, by omega⟩
  generalize ht : dirent_inode (file_view fs (read_inode fs ino)) p = t at *
  -- the device after the directory block is written back
  have hdev1 : ∀ a, (write_block fs (get_block_number fs (read_inode fs ino) (p / fs.block_size))
      (set32 B (p % fs.block_size) 0)).2.block_device a
      = if file_byte_addr fs (read_inode fs ino) p ≤ a ∧
          a < file_byte_addr fs (read_inode fs ino) p + 4 then 0 else fs.block_device a := by
    intro a
    unfold file_byte_addr
    by_cases hin : in_block fs (get_block_number fs (read_inode fs ino) (p / fs.block_size)) a
    · rw [write_block_device_inside _ _ _ _ hin, set32_zero_apply]
      obtain ⟨-, h1, h2⟩ := hin
      by_cases hz : p % fs.block_size ≤ a - block_start fs
            (get_block_number fs (read_inode fs ino) (p / fs.block_size)) ∧
          a - block_start fs (get_block_number fs (read_inode fs ino) (p / fs.block_size))
            < p % fs.block_size + 4
      · rw [if_pos hz, if_pos (by omega)]
      · rw [if_neg hz, if_neg (by omega), hholds _ (by omega)]
        congr 1
        omega
    · rw [write_block_device_outside _ _ _ _ hin]
      rw [if_neg]
      intro hc
      apply hin
      exact ⟨hgb, by omega, by omega⟩
  generalize hfs1 : (write_block fs (get_block_number fs (read_inode fs ino) (p / fs.block_size))
      (set32 B (p % fs.block_size) 0)).2 = fs1 at hdev1
  have hmeta1 : fs1 = with_device fs fs1.block_device := by
    rw [← hfs1]; exact write_block_snd _ _ _
  -- the record of the target inode is not touched by that write
  have hrange : ∀ a, inode_write_range fs t a → fs1.block_device a = fs.block_device a := by
    intro a ha
    rw [hdev1, if_neg]
    rintro ⟨h1, h2⟩
    have hadd := file_byte_addr_add fs (read_inode fs ino) p
      (a - file_byte_addr fs (read_inode fs ino) p) (by omega)
    exact (hap a ha).2.2 (p + (a - file_byte_addr fs (read_inode fs ino) p)) (by omega)
      (by rw [hadd]; omega)
  have hrd : read_inode fs1 t = read_inode fs t := by
    have hslot := inode_slot_of_addressable fs t hadr
    rw [hmeta1, read_inode_of_slot _ _ _ (by rw [inode_slot_with_device]; exact hslot),
      read_inode_of_slot fs t _ hslot]
    funext j
    unfold memcpy
    simp only [with_device_junk, with_device_device, with_device_inode_size]
    by_cases hj : 0 ≤ j ∧ j < 0 + fs.inode_size
    · rw [if_pos hj, if_pos hj]
      exact hrange _ ((inode_write_range_of_addressable fs t _ hadr).2 (by omega))
    · rw [if_neg hj, if_neg hj]
  unfold unlink_ext2
  rw [if_neg hrw]
  dsimp only
  rw [hres, hB]
  dsimp only
  rw [hfuel', inode_write_block_present _ _ _ _ _ _ hm.1]
  dsimp only
  rw [f1, hfs1, hrd]
  by_cases hl : inode_links_count (read_inode fs t) > 0
  · rw [if_pos hl, if_pos hl]
    refine ⟨(write_inode fs1 (set16 (read_inode fs t) 26
      (sub16 (inode_links_count (read_inode fs t)) 1)) t).2.block_device,
      by rw [write_inode_meta fs1, with_device_of_meta hmeta1]; rfl, ?_, ?_⟩
    · intro a ha
      rw [write_inode_device_outside _ _ _ _ (by
        rw [hmeta1, inode_write_range_with_device]; exact ha)]
      exact hdev1 a
    · intro a ha
      have ha1 : inode_write_range fs1 t a := by
        rw [hmeta1, inode_write_range_with_device]; exact ha
      rw [write_inode_device_inside _ _ _ _ ha1]
      obtain ⟨w1, w2, w3⟩ := write_inode_position fs t hadr
      have f9 := (addressable_facts fs t hadr).2.2.2.2.2.2.2.2.2.2
      have e1 : write_inode_block fs1 t = write_inode_block fs t := by rw [hmeta1]; rfl
      have e2 : write_inode_offset fs1 t = write_inode_offset fs t := by rw [hmeta1]; rfl
      have e3 : block_start fs1 (write_inode_block fs t)
          = block_start fs (write_inode_block fs t) := by rw [hmeta1]; rfl
      rw [e1, e2, e3, w1, w2, w3, f9]
      congr 1
      omega
  · rw [if_neg hl, if_neg hl]
    refine ⟨fs1.block_device, by rw [← hmeta1], fun a _ => hdev1 a, ?_⟩
    intro a ha
    rw [hrange a ha]
    have ha2 := (inode_write_range_of_addressable fs t a hadr).1 ha
    rw [read_inode_of_slot fs t _ (inode_slot_of_addressable fs t hadr)]
    unfold memcpy
    rw [if_pos ⟨Nat.zero_le _, by omega⟩]
    congr 1
    omega

theorem read_block_congr_device (fs : ext2_fs_t) (dev2 : Buf) (b : Nat) (buf : Buf)
    (h : ∀ a, in_block fs b a → dev2 a = fs.block_device a) :
    (read_block (with_device fs dev2) b buf).2 = (read_block fs b buf).2 := by
  by_cases hb : u32 b = 0
  · rw [read_block_zero _ _ _ hb, read_block_zero _ _ _ hb]
  · rw [read_block_snd _ _ _ hb, read_block_snd _ _ _ hb]
    funext j
    unfold memcpy
    simp only [with_device_device, with_device_block_size]
    by_cases hj : 0 ≤ j ∧ j < 0 + fs.block_size
    · rw [if_pos hj, if_pos hj]
      apply h
      exact ⟨hb, by unfold block_start; omega, by unfold block_start; omega⟩
    · rw [if_neg hj, if_neg hj]

/-- The directory as it reads once the inode field of the record at `p` is
zeroed on the device and the record of another inode is rewritten: the inode
record of the directory is as before, and its content differs in the four
bytes at `p` only. -/
theorem dir_view_after_zero (fs : ext2_fs_t) (ino s : Nat) (l : List Nat) (p t : Nat) (dev2 : Buf)
    (hwf : dir_well_formed fs ino l) (hlay : dir_layout fs ino s) (hp : p ∈ l)
    (hap : inode_apart_from_dir fs ino s t)
    (hdev2 : ∀ a, ¬ inode_write_range fs t a →
        dev2 a = if file_byte_addr fs (read_inode fs ino) p ≤ a ∧
            a < file_byte_addr fs (read_inode fs ino) p + 4 then 0 else fs.block_device a) :
    read_inode (with_device fs dev2) ino = read_inode fs ino ∧
    ∀ x, x < inode_size_field (read_inode fs ino) →
      file_view (with_device fs dev2) (read_inode fs ino) x
        = if p ≤ x ∧ x < p + 4 then 0 else file_view fs (read_inode fs ino) x := by
  obtain ⟨hbs, -, h256, hmap, hchain⟩ := hwf
  obtain ⟨hslot, hP1, hP2, hP3, hdist, hdir⟩ := hlay
  obtain ⟨-, hpsize, hplen, hpfit, hpend⟩ := dir_chain_mem _ _ _ _ _ _ hchain p hp
  have haddr : ∀ i, i < 4 → file_byte_addr fs (read_inode fs ino) (p + i)
      = file_byte_addr fs (read_inode fs ino) p + i := by
    intro i hi
    exact file_byte_addr_add fs _ p i (by omega)
  have hzero : ∀ a, file_byte_addr fs (read_inode fs ino) p ≤ a →
      a < file_byte_addr fs (read_inode fs ino) p + 4 →
      ∃ i, i < 4 ∧ a = file_byte_addr fs (read_inode fs ino) (p + i) := by
    intro a h1 h2
    refine ⟨a - file_byte_addr fs (read_inode fs ino) p, by omega, ?_⟩
    rw [haddr _ (by omega)]
    omega
  have hinode : read_inode (with_device fs dev2) ino = read_inode fs ino := by
    rw [read_inode_of_slot _ _ s (by rw [inode_slot_with_device]; exact hslot),
      read_inode_of_slot fs ino s hslot]
    funext j
    unfold memcpy
    simp only [with_device_junk, with_device_device, with_device_inode_size]
    by_cases hj : 0 ≤ j ∧ j < 0 + fs.inode_size
    · rw [if_pos hj, if_pos hj]
      have hslota : s ≤ s + (j - 0) ∧ s + (j - 0) < s + fs.inode_size := by omega
      rw [hdev2 _ (fun hw => (hap _ hw).1 hslota), if_neg]
      rintro ⟨h1, h2⟩
      obtain ⟨i, hi, e⟩ := hzero _ h1 h2
      rw [e] at hslota
      exact (hdir (p + i) (by omega)).1 hslota
    · rw [if_neg hj, if_neg hj]
  have hgbn : ∀ k, k * fs.block_size < inode_size_field (read_inode fs ino) →
      get_block_number (with_device fs dev2) (read_inode fs ino) k
        = get_block_number fs (read_inode fs ino) k := by
    intro k hk
    have hk256 : k < 256 := by
      by_contra hc
      have : 256 * fs.block_size ≤ k * fs.block_size := Nat.mul_le_mul_right _ (by omega)
      omega
    apply get_block_number_congr fs dev2 _ k (by omega) hP2 hP3
    intro a ha
    rw [hdev2 _ (fun hw => (hap _ hw).2.1 ha), if_neg]
    rintro ⟨h1, h2⟩
    obtain ⟨i, hi, e⟩ := hzero _ h1 h2
    rw [e] at ha
    exact (hdir (p + i) (by omega)).2 ha
  refine ⟨hinode, ?_⟩
  intro x hx
  have hxk : x / fs.block_size * fs.block_size < inode_size_field (read_inode fs ino) := by
    have := Nat.div_mul_le_self x fs.block_size
    omega
  have e : file_byte_addr (with_device fs dev2) (read_inode fs ino) x
      = file_byte_addr fs (read_inode fs ino) x := by
    unfold file_byte_addr
    simp only [with_device_block_size]
    rw [hgbn _ hxk]
    rfl
  unfold file_view
  rw [e]
  simp only [with_device_device]
  rw [hdev2 _ (fun hw => (hap _ hw).2.2 x hx rfl)]
  by_cases hpx : p ≤ x ∧ x < p + 4
  · rw [if_pos hpx, if_pos]
    have := haddr (x - p) (by omega)
    rw [show p + (x - p) = x by omega] at this
    omega
  · rw [if_neg hpx, if_neg]
    rintro ⟨h1, h2⟩
    obtain ⟨i, hi, e'⟩ := hzero _ h1 h2
    have := hdist x (p + i) hx (by omega) e'
    omega

theorem listed_dir_layout : dir_layout listed_dir_fs 2 5248 := by
  have hsize : inode_size_field (read_inode listed_dir_fs 2) = 1024 := by decide
  refine ⟨by decide, by decide, by decide, by decide, ?_, ?_⟩
  · intro x y hx hy h
    rw [hsize] at hx hy
    rw [listed_dir_addr x hx, listed_dir_addr y hy] at h
    omega
  · intro x hx
    rw [hsize] at hx
    rw [listed_dir_addr x hx]
    have hisz : listed_dir_fs.inode_size = 128 := rfl
    rw [hisz]
    refine ⟨by omega, ?_⟩
    rintro ⟨h0, -, -⟩
    exact h0 (by decide)

theorem listed_dir_apart : inode_apart_from_dir listed_dir_fs 2 5248 20 := by
  have hsize : inode_size_field (read_inode listed_dir_fs 2) = 1024 := by decide
  intro a ha
  obtain ⟨-, -, ⟨-, h1, h2⟩, h3, h4⟩ := ha
  have eT : write_inode_block listed_dir_fs 20 = 7 := by decide
  have eo : write_inode_offset listed_dir_fs 20 = 384 := by decide
  have es : block_start listed_dir_fs 7 = 7168 := by decide
  have hbs : listed_dir_fs.block_size = 1024 := rfl
  have hisz : listed_dir_fs.inode_size = 128 := rfl
  rw [eT, es] at h1 h2 h3 h4
  rw [eo] at h3 h4
  rw [hbs] at h2
  rw [hisz] at h4 ⊢
  refine ⟨by omega, ?_, ?_⟩
  · rintro ⟨h0, -, -⟩
    exact h0 (by decide)
  · intro x hx
    rw [hsize] at hx
    rw [listed_dir_addr x hx]
    omega

/-! ## Appending a directory record -/

theorem min_rec_len_bounds (n : Nat) :
    8 + n ≤ min_rec_len n ∧ min_rec_len n ≤ 8 + n + 3 ∧ min_rec_len n % 4 = 0 := by
  unfold min_rec_len sizeof_ext2_dir
  dsimp only
  split <;> omega

theorem dir_chain_last (v : Buf) (bs size : Nat) : ∀ f pos l q,
    dir_chain v bs size f pos = some l → l.getLast? = some q →
    q ∈ l ∧ q + dirent_rec_len v q = size := by
  intro f
  induction f with
  | zero => intro pos l q h; simp [dir_chain] at h
  | succ f ih =>
    intro pos l q hchain hlast
    unfold dir_chain at hchain
    by_cases hend : pos = size
    · rw [if_pos hend] at hchain
      have hl : l = [] := by simpa using hchain.symm
      subst hl
      simp at hlast
    · rw [if_neg hend] at hchain
      split at hchain
      · cases hrec : dir_chain v bs size f (pos + dirent_rec_len v pos) with
        | none => rw [hrec] at hchain; simp at hchain
        | some l' =>
          rw [hrec] at hchain
          have hl : l = pos :: l' := by simpa using hchain.symm
          subst hl
          cases l' with
          | nil =>
            simp at hlast
            subst hlast
            refine ⟨List.mem_singleton_self _, ?_⟩
            cases f with
            | zero => simp [dir_chain] at hrec
            | succ f =>
              unfold dir_chain at hrec
              by_cases he : pos + dirent_rec_len v pos = size
              · exact he
              · rw [if_neg he] at hrec
                split at hrec
                · split at hrec <;> simp at hrec
                · simp at hrec
          | cons x xs =>
            rw [List.getLast?_cons_cons] at hlast
            obtain ⟨h1, h2⟩ := ih _ _ q hrec hlast
            exact ⟨List.mem_cons_of_mem _ h1, h2⟩
      · simp at hchain

theorem create_entry_loop_refines (fs : ext2_fs_t) (inode : Buf)
    (hbs : 0 < fs.block_size) (h256 : inode_size_field inode ≤ 256 * fs.block_size)
    (hmul : inode_size_field inode % fs.block_size = 0)
    (hmap : blocks_mapped fs inode (inode_size_field inode)) :
    ∀ f pos l q, dir_chain (file_view fs inode) fs.block_size (inode_size_field inode) f pos
        = some l → l.getLast? = some q → rec_lens_aligned (file_view fs inode) l →
    ∀ fuel block_nr dir_offset block m, l.length < fuel →
      scan_at fs inode pos block_nr dir_offset block →
      ∃ B m', holds_block fs inode B (q / fs.block_size) ∧
        create_entry_loop fs inode fuel block_nr dir_offset pos block m = some
          (if dirent_rec_len (file_view fs inode) q
              ≠ min_rec_len (dirent_name_len (file_view fs inode) q) then
            (q / fs.block_size,
              q % fs.block_size + min_rec_len (dirent_name_len (file_view fs inode) q),
              q + min_rec_len (dirent_name_len (file_view fs inode) q), B, 1, q % fs.block_size)
          else (q / fs.block_size, fs.block_size, inode_size_field inode, B, m', 0)) := by
  intro f
  induction f with
  | zero => intro pos l q h; simp [dir_chain] at h
  | succ f ih =>
    intro pos l q hchain hlast hal fuel block_nr dir_offset block m hfuel hat
    have hsz : inode_size_field inode < 4294967296 := get32_lt _ _
    have hchain0 := hchain
    unfold dir_chain at hchain
    cases fuel with
    | zero => omega
    | succ fuel =>
    by_cases hend : pos = inode_size_field inode
    · rw [if_pos hend] at hchain
      have hl : l = [] := by simpa using hchain.symm
      subst hl
      simp at hlast
    · rw [if_neg hend] at hchain
      by_cases hc : pos < inode_size_field inode ∧
          8 + dirent_name_len (file_view fs inode) pos ≤ dirent_rec_len (file_view fs inode) pos ∧
          pos % fs.block_size + dirent_rec_len (file_view fs inode) pos ≤ fs.block_size
      · rw [if_pos hc] at hchain
        obtain ⟨hpos, hlen, hfit⟩ := hc
        cases hrec : dir_chain (file_view fs inode) fs.block_size (inode_size_field inode) f
            (pos + dirent_rec_len (file_view fs inode) pos) with
        | none => rw [hrec] at hchain; simp at hchain
        | some l' =>
          rw [hrec] at hchain
          have hl : l = pos :: l' := by simpa using hchain.symm
          subst hl
          have hle := dir_chain_le _ _ _ _ _ _ hrec
          obtain ⟨hl1, hl2, hl3⟩ := scan_at_load fs inode pos block_nr dir_offset block
            (inode_size_field inode) hbs h256 hmap hpos hat
          rw [hl1] at hl3
          have hmin := min_rec_len_bounds (dirent_name_len (file_view fs inode) pos)
          have halp := hal pos (List.mem_cons_self _ _)
          unfold create_entry_loop
          rw [if_pos hpos]
          dsimp only
          rw [hl1, hl2]
          generalize (if dir_offset ≥ fs.block_size then
            (inode_read_block fs inode (pos / fs.block_size) block).2 else block) = B at hl3 ⊢
          obtain ⟨f1, f2, f3, f4⟩ := record_fields fs inode B pos hl3 hlen hfit
          rw [f1, f2, f3]
          have hmodle := Nat.mod_le pos fs.block_size
          have hu0 : u32 (pos + dirent_rec_len (file_view fs inode) pos)
              = pos + dirent_rec_len (file_view fs inode) pos := u32_of_lt (by omega)
          rw [hu0]
          cases l' with
          | nil =>
            -- `pos` is the last record
            simp at hlast
            subst hlast
            obtain ⟨-, hlastend⟩ := dir_chain_last _ _ _ _ _ _ pos hchain0 (by simp)
            by_cases hslack : dirent_rec_len (file_view fs inode) pos
                ≠ min_rec_len (dirent_name_len (file_view fs inode) pos)
            · refine ⟨B, 0, hl3, ?_⟩
              rw [if_pos ⟨hslack, hlastend⟩, if_pos hslack]
              have hu1 : u32 (pos % fs.block_size
                  + min_rec_len (dirent_name_len (file_view fs inode) pos))
                  = pos % fs.block_size
                    + min_rec_len (dirent_name_len (file_view fs inode) pos) :=
                u32_of_lt (by omega)
              have hu2 : u32 (pos + min_rec_len (dirent_name_len (file_view fs inode) pos))
                  = pos + min_rec_len (dirent_name_len (file_view fs inode) pos) :=
                u32_of_lt (by omega)
              rw [hu1, hu2]
            · refine ⟨B, (if dirent_inode (file_view fs inode) pos = 0 then 2 else m), hl3, ?_⟩
              rw [if_neg (fun h => hslack h.1), if_neg hslack]
              have hu1 : u32 (pos % fs.block_size + dirent_rec_len (file_view fs inode) pos)
                  = pos % fs.block_size + dirent_rec_len (file_view fs inode) pos :=
                u32_of_lt (by omega)
              rw [hu1, hlastend]
              have hblk : pos % fs.block_size + dirent_rec_len (file_view fs inode) pos
                  = fs.block_size := by
                have h1 : (pos + dirent_rec_len (file_view fs inode) pos) % fs.block_size = 0 := by
                  rw [hlastend]; exact hmul
                have h2 := Nat.div_add_mod pos fs.block_size
                have h3 : (pos % fs.block_size + dirent_rec_len (file_view fs inode) pos)
                    % fs.block_size = 0 := by
                  have : pos + dirent_rec_len (file_view fs inode) pos
                      = fs.block_size * (pos / fs.block_size)
                        + (pos % fs.block_size + dirent_rec_len (file_view fs inode) pos) := by
                    omega
                  rw [this, Nat.mul_add_mod] at h1
                  exact h1
                by_contra hne
                have hlt : pos % fs.block_size + dirent_rec_len (file_view fs inode) pos
                    < fs.block_size := by omega
                rw [Nat.mod_eq_of_lt hlt] at h3
                omega
              rw [hblk]
              cases fuel with
              | zero => simp at hfuel
              | succ fuel =>
                unfold create_entry_loop
                rw [if_neg (by omega)]
          | cons x xs =>
            rw [List.getLast?_cons_cons] at hlast
            have hxmem : x ∈ x :: xs := List.mem_cons_self _ _
            obtain ⟨hx1, hx2, -, -, -⟩ := dir_chain_mem _ _ _ _ _ _ hrec x hxmem
            have hnotend : pos + dirent_rec_len (file_view fs inode) pos
                ≠ inode_size_field inode := by omega
            rw [if_neg (fun h => hnotend h.2)]
            have hu1 : u32 (pos % fs.block_size + dirent_rec_len (file_view fs inode) pos)
                = pos % fs.block_size + dirent_rec_len (file_view fs inode) pos :=
              u32_of_lt (by omega)
            rw [hu1]
            have hnext := scan_at_next fs inode B pos (dirent_rec_len (file_view fs inode) pos)
              (by omega) hl3 hfit
            exact ih _ _ q hrec hlast (fun y hy => hal y (List.mem_cons_of_mem _ hy)) fuel
              (pos / fs.block_size)
              (pos % fs.block_size + dirent_rec_len (file_view fs inode) pos) B _
              (by simp at hfuel ⊢; omega) hnext
      · rw [if_neg hc] at hchain
        simp at hchain

theorem size_block_bound (bs size k : Nat) (hbs : 0 < bs) (hmul : size % bs = 0)
    (hk : k * bs < size) : (k + 1) * bs ≤ size := by
  obtain ⟨c, hc⟩ : bs ∣ size := Nat.dvd_of_mod_eq_zero hmul
  rw [hc, Nat.mul_comm bs c] at hk ⊢
  have : k < c := Nat.lt_of_mul_lt_mul_right hk
  exact Nat.mul_le_mul_right _ this

/-- Rewriting block `k` of a directory with the buffer `buf`: the inode record
and the block numbers of the directory are as before, and its content changes
in block `k` only, to the bytes of `buf`. -/
theorem dir_block_write (fs : ext2_fs_t) (ino s : Nat) (l : List Nat) (k : Nat) (buf : Buf)
    (hwf : dir_well_formed fs ino l) (hlay : dir_layout fs ino s)
    (hk : k * fs.block_size < inode_size_field (read_inode fs ino)) :
    read_inode (write_block fs (get_block_number fs (read_inode fs ino) k) buf).2 ino
      = read_inode fs ino ∧
    (∀ j, j * fs.block_size < inode_size_field (read_inode fs ino) →
      get_block_number (write_block fs (get_block_number fs (read_inode fs ino) k) buf).2
        (read_inode fs ino) j = get_block_number fs (read_inode fs ino) j) ∧
    ∀ x, x < inode_size_field (read_inode fs ino) →
      file_view (write_block fs (get_block_number fs (read_inode fs ino) k) buf).2
        (read_inode fs ino) x
        = if x / fs.block_size = k then buf (x % fs.block_size)
          else file_view fs (read_inode fs ino) x := by
  obtain ⟨hbs, hmul, h256, hmap, hchain⟩ := hwf
  obtain ⟨hslot, hP1, hP2, hP3, hdist, hdir⟩ := hlay
  have hkb := size_block_bound _ _ _ hbs hmul hk
  rw [Nat.add_mul, Nat.one_mul] at hkb
  have hm := hmap k hk
  have hgb : u32 (get_block_number fs (read_inode fs ino) k) ≠ 0 := by
    rw [u32_of_lt (get_block_number_lt _ _ _)]; exact hm.2
  generalize hdev : (write_block fs (get_block_number fs (read_inode fs ino) k) buf).2.block_device
    = dev2
  have hmeta : (write_block fs (get_block_number fs (read_inode fs ino) k) buf).2
      = with_device fs dev2 := by rw [← hdev]; exact write_block_snd _ _ _
  rw [hmeta]
  -- every byte of the block written is a byte of the directory
  have hfile : ∀ a, in_block fs (get_block_number fs (read_inode fs ino) k) a →
      ∃ x, x < inode_size_field (read_inode fs ino) ∧ x / fs.block_size = k ∧
        a = file_byte_addr fs (read_inode fs ino) x ∧
        x % fs.block_size = a - block_start fs (get_block_number fs (read_inode fs ino) k) := by
    rintro a ⟨-, h1, h2⟩
    have hj : a - block_start fs (get_block_number fs (read_inode fs ino) k) < fs.block_size := by
      omega
    have e1 : (k * fs.block_size
        + (a - block_start fs (get_block_number fs (read_inode fs ino) k))) / fs.block_size
        = k := by
      rw [Nat.mul_comm, Nat.mul_add_div hbs, Nat.div_eq_of_lt hj, Nat.add_zero]
    have e2 : (k * fs.block_size
        + (a - block_start fs (get_block_number fs (read_inode fs ino) k))) % fs.block_size
        = a - block_start fs (get_block_number fs (read_inode fs ino) k) := by
      rw [Nat.mul_comm, Nat.mul_add_mod, Nat.mod_eq_of_lt hj]
    refine ⟨k * fs.block_size
      + (a - block_start fs (get_block_number fs (read_inode fs ino) k)), by omega, e1, ?_, e2⟩
    unfold file_byte_addr
    rw [e1, e2]
    omega
  have hout : ∀ a, ¬ in_block fs (get_block_number fs (read_inode fs ino) k) a →
      dev2 a = fs.block_device a := by
    intro a ha
    rw [← hdev]; exact write_block_device_outside _ _ _ _ ha
  have hinode : read_inode (with_device fs dev2) ino = read_inode fs ino := by
    rw [read_inode_of_slot _ _ s (by rw [inode_slot_with_device]; exact hslot),
      read_inode_of_slot fs ino s hslot]
    funext j
    unfold memcpy
    simp only [with_device_junk, with_device_device, with_device_inode_size]
    by_cases hj : 0 ≤ j ∧ j < 0 + fs.inode_size
    · rw [if_pos hj, if_pos hj]
      apply hout
      intro hin
      obtain ⟨x, hx, -, e, -⟩ := hfile _ hin
      exact (hdir x hx).1 (by rw [← e]; omega)
    · rw [if_neg hj, if_neg hj]
  have hgbn : ∀ j, j * fs.block_size < inode_size_field (read_inode fs ino) →
      get_block_number (with_device fs dev2) (read_inode fs ino) j
        = get_block_number fs (read_inode fs ino) j := by
    intro j hj
    have hj256 : j < 256 := by
      by_contra hc
      have : 256 * fs.block_size ≤ j * fs.block_size := Nat.mul_le_mul_right _ (by omega)
      omega
    apply get_block_number_congr fs dev2 _ j (by omega) hP2 hP3
    intro a ha
    apply hout
    intro hin
    obtain ⟨x, hx, -, e, -⟩ := hfile _ hin
    rw [e] at ha
    exact (hdir x hx).2 ha
  refine ⟨hinode, hgbn, ?_⟩
  intro x hx
  have hxk : x / fs.block_size * fs.block_size < inode_size_field (read_inode fs ino) := by
    have := Nat.div_mul_le_self x fs.block_size
    omega
  have e : file_byte_addr (with_device fs dev2) (read_inode fs ino) x
      = file_byte_addr fs (read_inode fs ino) x := by
    unfold file_byte_addr
    simp only [with_device_block_size]
    rw [hgbn _ hxk]
    rfl
  unfold file_view
  rw [e]
  simp only [with_device_device]
  have hxmod : x % fs.block_size < fs.block_size := Nat.mod_lt _ hbs
  by_cases hxb : x / fs.block_size = k
  · rw [if_pos hxb]
    have hin : in_block fs (get_block_number fs (read_inode fs ino) k)
        (file_byte_addr fs (read_inode fs ino) x) := by
      unfold file_byte_addr
      rw [hxb]
      exact ⟨hgb, by omega, by omega⟩
    rw [← hdev, write_block_device_inside _ _ _ _ hin]
    congr 1
    unfold file_byte_addr
    rw [hxb]
    omega
  · rw [if_neg hxb]
    apply hout
    intro hin
    obtain ⟨y, hy, hyk, e', -⟩ := hfile _ hin
    have := hdist x y hx hy e'
    rw [this] at hxb
    exact hxb hyk

theorem dir_chain_fuel (v : Buf) (bs size : Nat) : ∀ f pos l,
    dir_chain v bs size f pos = some l → ∀ f', l.length < f' →
    dir_chain v bs size f' pos = some l := by
  intro f
  induction f with
  | zero => intro pos l h; simp [dir_chain] at h
  | succ f ih =>
    intro pos l h f' hf'
    cases f' with
    | zero => omega
    | succ f' =>
    unfold dir_chain at h ⊢
    by_cases hend : pos = size
    · rw [if_pos hend] at h ⊢; exact h
    · rw [if_neg hend] at h ⊢
      split at h
      · rename_i hc
        rw [if_pos hc]
        cases hrec : dir_chain v bs size f (pos + dirent_rec_len v pos) with
        | none => rw [hrec] at h; simp at h
        | some l' =>
          rw [hrec] at h
          have hl : l = pos :: l' := by simpa using h.symm
          subst hl
          rw [ih _ _ hrec f' (by simp at hf'; omega)]
      · simp at h

theorem dir_chain_length (v : Buf) (bs size : Nat) : ∀ f pos l,
    dir_chain v bs size f pos = some l → pos + 8 * l.length ≤ size := by
  intro f
  induction f with
  | zero => intro pos l h; simp [dir_chain] at h
  | succ f ih =>
    intro pos l h
    unfold dir_chain at h
    by_cases hend : pos = size
    · rw [if_pos hend] at h
      have hl : l = [] := by simpa using h.symm
      subst hl; simp; omega
    · rw [if_neg hend] at h
      split at h
      · rename_i hc
        cases hrec : dir_chain v bs size f (pos + dirent_rec_len v pos) with
        | none => rw [hrec] at h; simp at h
        | some l' =>
          rw [hrec] at h
          have hl : l = pos :: l' := by simpa using h.symm
          subst hl
          have := ih _ _ hrec
          simp only [List.length_cons]
          omega
      · simp at h

/-- The chain of a directory whose last record `q` is cut down to the length
`msl` and followed by a new record that takes the rest of its space: `w` is
the new content, equal to `v` except in the `rec_len` field of `q` and from
`q + msl` to the old end of `q`. -/
theorem dir_chain_append (v w : Buf) (bs size q msl : Nat)
    (hout : ∀ x, ¬ (q + 4 ≤ x ∧ x < q + 6) →
      ¬ (q + msl ≤ x ∧ x < q + dirent_rec_len v q) → w x = v x)
    (hmsl : 8 + dirent_name_len v q ≤ msl) (hlt : msl < dirent_rec_len v q)
    (hrl : dirent_rec_len w q = msl)
    (hnew : dirent_rec_len w (q + msl) = dirent_rec_len v q - msl)
    (hnl : 8 + dirent_name_len w (q + msl) ≤ dirent_rec_len v q - msl) :
    ∀ f pos l, dir_chain v bs size f pos = some l → l.getLast? = some q →
      dir_chain w bs size (f + 1) pos = some (l ++ [q + msl]) := by
  intro f
  induction f with
  | zero => intro pos l h; simp [dir_chain] at h
  | succ f ih =>
    intro pos l h hlast
    have hfull := h
    obtain ⟨hqmem, hqend⟩ := dir_chain_last v bs size _ pos l q h hlast
    unfold dir_chain at h
    by_cases hend : pos = size
    · rw [if_pos hend] at h
      have hl : l = [] := by simpa using h.symm
      subst hl; simp at hlast
    · rw [if_neg hend] at h
      by_cases hc : pos < size ∧ 8 + dirent_name_len v pos ≤ dirent_rec_len v pos ∧
          pos % bs + dirent_rec_len v pos ≤ bs
      · rw [if_pos hc] at h
        obtain ⟨hpos, hlen, hfit⟩ := hc
        cases hrec : dir_chain v bs size f (pos + dirent_rec_len v pos) with
        | none => rw [hrec] at h; simp at h
        | some l' =>
          rw [hrec] at h
          have hl : l = pos :: l' := by simpa using h.symm
          subst hl
          cases l' with
          | nil =>
            simp at hlast
            subst hlast
            -- the record at `pos` is the last one
            have hnlq : dirent_name_len w pos = dirent_name_len v pos := by
              unfold dirent_name_len get8
              rw [hout _ (by omega) (by omega)]
            have hf1 : 1 ≤ f := by
              cases f with
              | zero => simp [dir_chain] at hrec
              | succ f => omega
            obtain ⟨f2, hf2⟩ : ∃ f2, f = f2 + 1 := ⟨f - 1, by omega⟩
            subst hf2
            have hdm := div_mod_add pos msl bs (by omega)
            unfold dir_chain
            rw [if_neg hend, hrl, hnlq, if_pos ⟨hpos, hmsl, by omega⟩]
            unfold dir_chain
            rw [if_neg (by omega), hnew, if_pos ⟨by omega, hnl, by rw [hdm.2]; omega⟩]
            have he : pos + msl + (dirent_rec_len v pos - msl) = size := by omega
            rw [he]
            unfold dir_chain
            rw [if_pos rfl]
            rfl
          | cons x xs =>
            rw [List.getLast?_cons_cons] at hlast
            have hqin : q ∈ x :: xs := (dir_chain_last v bs size _ _ _ q hrec hlast).1
            obtain ⟨hq1, -, -, -, -⟩ := dir_chain_mem _ _ _ _ _ _ hrec q hqin
            have hfields : dirent_rec_len w pos = dirent_rec_len v pos ∧
                dirent_name_len w pos = dirent_name_len v pos := by
              constructor
              · unfold dirent_rec_len
                apply get16_congr
                intro k hk
                unfold get8
                rw [hout _ (by omega) (by omega)]
              · unfold dirent_name_len get8
                rw [hout _ (by omega) (by omega)]
            unfold dir_chain
            rw [if_neg hend, hfields.1, hfields.2, if_pos ⟨hpos, hlen, hfit⟩]
            rw [ih _ _ hrec hlast]
            rfl
      · rw [if_neg hc] at h
        simp at h

theorem set8_agrees {bs base : Nat} {b w : Buf} (h : agrees bs base b w) (i val : Nat) :
    agrees bs base (set8 b i val) (set8 w (base + i) val) := by
  intro j hj
  unfold set8
  by_cases e : j = i
  · rw [if_pos e, if_pos (by omega)]
  · rw [if_neg e, if_neg (by omega)]
    exact h j hj

theorem set16_agrees {bs base : Nat} {b w : Buf} (h : agrees bs base b w) (i val : Nat) :
    agrees bs base (set16 b i val) (set16 w (base + i) val) := by
  unfold set16
  have := set8_agrees (set8_agrees h i val) (i + 1) (val / 256)
  rw [← Nat.add_assoc] at this
  exact this

theorem set32_agrees {bs base : Nat} {b w : Buf} (h : agrees bs base b w) (i val : Nat) :
    agrees bs base (set32 b i val) (set32 w (base + i) val) := by
  unfold set32
  have := set8_agrees (set8_agrees (set8_agrees (set8_agrees h i val) (i + 1) (val / 256))
    (i + 2) (val / 65536)) (i + 3) (val / 16777216)
  simp only [← Nat.add_assoc] at this
  exact this

theorem write_bytes_agrees {bs base : Nat} {b w : Buf} (h : agrees bs base b w) (d : Nat)
    (s : List Nat) : agrees bs base (write_bytes b d s) (write_bytes w (base + d) s) := by
  intro j hj
  unfold write_bytes
  by_cases e : d ≤ j ∧ j < d + s.length
  · rw [if_pos e, if_pos (by omega)]
    congr 2
    omega
  · rw [if_neg e, if_neg (by omega)]
    exact h j hj

theorem with_entry_agrees {bs base : Nat} {b w : Buf} (h : agrees bs base b w)
    (off inode rec_len : Nat) (name : List Nat) :
    agrees bs base (with_entry b off inode rec_len name)
      (with_entry w (base + off) inode rec_len name) := by
  unfold with_entry
  have := write_bytes_agrees (set8_agrees (set8_agrees (set16_agrees (set32_agrees h off inode)
    (off + 4) rec_len) (off + 6) (strlen name)) (off + 7) 0) (off + 8) (c_str name)
  simp only [← Nat.add_assoc] at this
  exact this

theorem set8_outside (b : Buf) (i val x : Nat) (h : x ≠ i) : set8 b i val x = b x := by
  unfold set8; rw [if_neg h]

theorem set16_outside (b : Buf) (i val x : Nat) (h : x < i ∨ i + 2 ≤ x) :
    set16 b i val x = b x := by
  unfold set16
  rw [set8_outside _ _ _ _ (by omega), set8_outside _ _ _ _ (by omega)]

theorem set32_outside (b : Buf) (i val x : Nat) (h : x < i ∨ i + 4 ≤ x) :
    set32 b i val x = b x := by
  unfold set32
  rw [set8_outside _ _ _ _ (by omega), set8_outside _ _ _ _ (by omega),
    set8_outside _ _ _ _ (by omega), set8_outside _ _ _ _ (by omega)]

theorem write_bytes_outside (b : Buf) (d : Nat) (s : List Nat) (x : Nat)
    (h : x < d ∨ d + s.length ≤ x) : write_bytes b d s x = b x := by
  unfold write_bytes; rw [if_neg (by omega)]

theorem with_entry_outside (b : Buf) (off inode rec_len : Nat) (name : List Nat) (x : Nat)
    (h : x < off ∨ off + 8 + strlen name ≤ x) :
    with_entry b off inode rec_len name x = b x := by
  unfold with_entry
  have hs : (c_str name).length = strlen name := rfl
  rw [write_bytes_outside _ _ _ _ (by omega), set8_outside _ _ _ _ (by omega),
    set8_outside _ _ _ _ (by omega), set16_outside _ _ _ _ (by omega),
    set32_outside _ _ _ _ (by omega)]

theorem with_entry_fields (b : Buf) (off inode rec_len : Nat) (name : List Nat) :
    dirent_inode (with_entry b off inode rec_len name) off = inode % 4294967296 ∧
    dirent_rec_len (with_entry b off inode rec_len name) off = rec_len % 65536 ∧
    dirent_name_len (with_entry b off inode rec_len name) off = strlen name % 256 := by
  have hs : (c_str name).length = strlen name := rfl
  refine ⟨?_, ?_, ?_⟩
  · unfold dirent_inode with_entry
    have : get32 (write_bytes (set8 (set8 (set16 (set32 b off inode) (off + 4) rec_len)
        (off + 6) (strlen name)) (off + 7) 0) (off + 8) (c_str name)) off
        = get32 (set32 b off inode) off := by
      apply get32_congr
      intro k hk
      unfold get8
      rw [write_bytes_outside _ _ _ _ (by omega), set8_outside _ _ _ _ (by omega),
        set8_outside _ _ _ _ (by omega), set16_outside _ _ _ _ (by omega)]
    rw [this, get32_set32_same]
  · unfold dirent_rec_len with_entry
    have : get16 (write_bytes (set8 (set8 (set16 (set32 b off inode) (off + 4) rec_len)
        (off + 6) (strlen name)) (off + 7) 0) (off + 8) (c_str name)) (off + 4)
        = get16 (set16 (set32 b off inode) (off + 4) rec_len) (off + 4) := by
      apply get16_congr
      intro k hk
      unfold get8
      rw [write_bytes_outside _ _ _ _ (by omega), set8_outside _ _ _ _ (by omega),
        set8_outside _ _ _ _ (by omega)]
    rw [this, get16_set16_same]
  · unfold dirent_name_len with_entry get8
    rw [write_bytes_outside _ _ _ _ (by omega), set8_outside _ _ _ _ (by omega)]
    unfold set8
    rw [if_pos rfl]
    exact Nat.mod_mod _ _

theorem last_fills_block (bs size q rl : Nat) (hbs : 0 < bs) (hmul : size % bs = 0)
    (hend : q + rl = size) (hfit : q % bs + rl ≤ bs) (hrl : 0 < rl) : q % bs + rl = bs := by
  have h1 : (q + rl) % bs = 0 := by rw [hend]; exact hmul
  have h2 := Nat.div_add_mod q bs
  have h3 : (q % bs + rl) % bs = 0 := by
    have : q + rl = bs * (q / bs) + (q % bs + rl) := by omega
    rw [this, Nat.mul_add_mod] at h1
    exact h1
  by_contra hne
  have hlt : q % bs + rl < bs := by omega
  rw [Nat.mod_eq_of_lt hlt] at h3
  omega

theorem entry_rec_len_eq (n : Nat) (h : min_rec_len n < 4294967296) :
    u32 (u32 (sizeof_ext2_dir + n)
      + (if u32 (sizeof_ext2_dir + n) % 4 ≠ 0 then 4 - u32 (sizeof_ext2_dir + n) % 4 else 0))
      = min_rec_len n := by
  have hb := min_rec_len_bounds n
  have h1 : u32 (sizeof_ext2_dir + n) = sizeof_ext2_dir + n := by
    apply u32_of_lt; unfold sizeof_ext2_dir; omega
  rw [h1]
  unfold min_rec_len at h ⊢
  dsimp only at h ⊢
  exact u32_of_lt h

/-- The effect of `create_entry` when the last record `q` of the directory has
room for the new record behind it: the last block of the directory is
rewritten with `q` cut down to its minimal length and the new record in the
rest of the block. -/
theorem create_entry_in_place (fuel : Nat) (fs : ext2_fs_t) (ino s : Nat) (l : List Nat)
    (q : Nat) (name : List Nat) (n : Nat)
    (hmode : inode_mode (read_inode fs ino) &&& EXT2_S_IFDIR ≠ 0)
    (hwf : dir_well_formed fs ino l) (hlay : dir_layout fs ino s)
    (hal : rec_lens_aligned (file_view fs (read_inode fs ino)) l)
    (hlast : l.getLast? = some q)
    (hslack : dirent_rec_len (file_view fs (read_inode fs ino)) q
      ≠ min_rec_len (dirent_name_len (file_view fs (read_inode fs ino)) q))
    (hfuel : l.length < fuel)
    (hroom : q % fs.block_size
      + min_rec_len (dirent_name_len (file_view fs (read_inode fs ino)) q)
      + min_rec_len (strlen name) < fs.block_size) :
    ∃ fs', create_entry fuel fs ino (some name) n = some (E_NOSPACE, fs') ∧
      fs' = with_device fs fs'.block_device ∧
      read_inode fs' ino = read_inode fs ino ∧
      (∀ j, j * fs.block_size < inode_size_field (read_inode fs ino) →
        get_block_number fs' (read_inode fs ino) j = get_block_number fs (read_inode fs ino) j) ∧
      (∀ x, x < inode_size_field (read_inode fs ino) →
        file_view fs' (read_inode fs ino) x
          = with_entry (set16 (file_view fs (read_inode fs ino)) (q + 4)
              (min_rec_len (dirent_name_len (file_view fs (read_inode fs ino)) q)))
              (q + min_rec_len (dirent_name_len (file_view fs (read_inode fs ino)) q)) n
              (fs.block_size - (q % fs.block_size
                + min_rec_len (dirent_name_len (file_view fs (read_inode fs ino)) q))) name x) ∧
      (∀ a, ¬ in_block fs (get_block_number fs (read_inode fs ino) (q / fs.block_size)) a →
        fs'.block_device a = fs.block_device a) := by
  have hwf0 := hwf
  obtain ⟨hbs, hmul, h256, hmap, hchain⟩ := hwf
  obtain ⟨hq, hqend⟩ := dir_chain_last _ _ _ _ _ _ q hchain hlast
  obtain ⟨-, hqsize, hqlen, hqfit, -⟩ := dir_chain_mem _ _ _ _ _ _ hchain q hq
  obtain ⟨hal4, halmin⟩ := hal q hq
  have hmslb := min_rec_len_bounds (dirent_name_len (file_view fs (read_inode fs ino)) q)
  have hnameb := min_rec_len_bounds (strlen name)
  have hfill := last_fills_block _ _ _ _ hbs hmul hqend hqfit (by omega)
  have hsz : inode_size_field (read_inode fs ino) < 4294967296 := get32_lt _ _
  have hbs32 : fs.block_size < 4294967296 := by
    have := Nat.mod_le q fs.block_size
    omega
  obtain ⟨B, m', hB, hloop⟩ := create_entry_loop_refines fs (read_inode fs ino) hbs h256 hmul hmap
    _ 0 l q hchain hlast hal fuel 0 0
    (inode_read_block fs (read_inode fs ino) 0 fs.malloc_junk).2 0 hfuel
    (scan_at_start fs _ _ hmap (by omega))
  rw [if_pos hslack] at hloop
  obtain ⟨f1, f2, f3, f4⟩ := record_fields fs (read_inode fs ino) B q hB hqlen hqfit
  have hkq : q / fs.block_size * fs.block_size < inode_size_field (read_inode fs ino) := by
    have := Nat.div_mul_le_self q fs.block_size
    omega
  have hm := hmap (q / fs.block_size) hkq
  obtain ⟨fuel', hfuel'⟩ : ∃ fuel', fuel = fuel' + 1 := ⟨fuel - 1, by omega⟩
  generalize hmsl : min_rec_len (dirent_name_len (file_view fs (read_inode fs ino)) q) = msl at *
  -- the call
  have hcall : create_entry fuel fs ino (some name) n = some (E_NOSPACE,
      (write_block fs (get_block_number fs (read_inode fs ino) (q / fs.block_size))
        (with_entry (set16 B (q % fs.block_size + 4) msl) (q % fs.block_size + msl) n
          (sub32 fs.block_size (q % fs.block_size + msl)) name)).2) := by
    unfold create_entry
    dsimp only
    rw [if_neg hmode, entry_rec_len_eq _ (by omega), hloop]
    dsimp only
    have hno : ¬ (u32 (q % fs.block_size + msl + min_rec_len (strlen name)) ≥ fs.block_size) := by
      rw [u32_of_lt (by omega)]; omega
    rw [if_pos rfl, if_neg hno]
    dsimp only
    rw [f3, hmsl, hfuel', inode_write_block_present _ _ _ _ _ _ hm.1]
    rfl
  obtain ⟨d1, d2, d3⟩ := dir_block_write fs ino s l (q / fs.block_size)
    (with_entry (set16 B (q % fs.block_size + 4) msl) (q % fs.block_size + msl) n
      (sub32 fs.block_size (q % fs.block_size + msl)) name) hwf0 hlay hkq
  refine ⟨_, hcall, write_block_snd _ _ _, d1, d2, ?_, ?_⟩
  · intro x hx
    rw [d3 x hx]
    have hdm := Nat.div_add_mod q fs.block_size
    have hsub : sub32 fs.block_size (q % fs.block_size + msl)
        = fs.block_size - (q % fs.block_size + msl) := sub32_of_le hbs32 (by omega)
    rw [hsub]
    by_cases hxb : x / fs.block_size = q / fs.block_size
    · rw [if_pos hxb]
      have hag : agrees fs.block_size (q / fs.block_size * fs.block_size) B
          (file_view fs (read_inode fs ino)) := by
        intro j hj
        exact holds_block_at fs _ B _ j hB hj
      have h1 := with_entry_agrees (set16_agrees hag (q % fs.block_size + 4) msl)
        (q % fs.block_size + msl) n (fs.block_size - (q % fs.block_size + msl)) name
      have e1 : q / fs.block_size * fs.block_size + (q % fs.block_size + 4) = q + 4 := by
        rw [Nat.mul_comm]; omega
      have e2 : q / fs.block_size * fs.block_size + (q % fs.block_size + msl) = q + msl := by
        rw [Nat.mul_comm]; omega
      rw [e1, e2] at h1
      have h2 := h1 (x % fs.block_size) (Nat.mod_lt _ hbs)
      have e3 : q / fs.block_size * fs.block_size + x % fs.block_size = x := by
        have := Nat.div_add_mod x fs.block_size
        rw [← hxb, Nat.mul_comm]; omega
      rw [e3] at h2
      exact h2
    · rw [if_neg hxb]
      have hxout : x < q ∨ q + dirent_rec_len (file_view fs (read_inode fs ino)) q ≤ x := by
        by_contra hc
        apply hxb
        have h1 : q ≤ x ∧ x < q + dirent_rec_len (file_view fs (read_inode fs ino)) q := by omega
        have := div_mod_add q (x - q) fs.block_size (by omega)
        rw [show q + (x - q) = x by omega] at this
        exact this.1
      rw [with_entry_outside _ _ _ _ _ _ (by omega), set16_outside _ _ _ _ (by omega)]
  · intro a ha
    exact write_block_device_outside _ _ _ _ ha

/-! ## Geometry and frames -/

theorem same_geometry_refl (fs : ext2_fs_t) : same_geometry fs fs :=
  ⟨rfl, rfl, rfl, rfl, rfl, rfl, rfl, rfl, rfl, rfl, fun _ => rfl, fun _ => rfl, fun _ => rfl⟩

theorem same_geometry_trans {fs fs2 fs3 : ext2_fs_t} (h : same_geometry fs fs2)
    (k : same_geometry fs2 fs3) : same_geometry fs fs3 :=
  ⟨k.bs.trans h.bs, k.ppb.trans h.ppb, k.ipg.trans h.ipg, k.bgc.trans h.bgc,
    k.span.trans h.span, k.bgdo.trans h.bgdo, k.isz.trans h.isz, k.flg.trans h.flg,
    k.junk.trans h.junk, k.bpg.trans h.bpg, fun g => (k.bbm g).trans (h.bbm g),
    fun g => (k.ibm g).trans (h.ibm g), fun g => (k.itb g).trans (h.itb g)⟩

theorem same_geometry_with_device (fs : ext2_fs_t) (dev : Buf) :
    same_geometry fs (with_device fs dev) :=
  ⟨rfl, rfl, rfl, rfl, rfl, rfl, rfl, rfl, rfl, rfl, fun _ => rfl, fun _ => rfl, fun _ => rfl⟩

theorem same_geometry_of_meta {fs fs2 : ext2_fs_t} (h : fs2 = with_device fs fs2.block_device) :
    same_geometry fs fs2 := by
  rw [h]; exact same_geometry_with_device fs _

theorem same_geometry_write_block (fs : ext2_fs_t) (b : Nat) (buf : Buf) :
    same_geometry fs (write_block fs b buf).2 := same_geometry_of_meta (write_block_snd fs b buf)

theorem same_geometry_write_inode (fs : ext2_fs_t) (inode : Buf) (n : Nat) :
    same_geometry fs (write_inode fs inode n).2 := same_geometry_of_meta (write_inode_meta fs inode n)

theorem same_geometry_rewrite_superblock (fs : ext2_fs_t) :
    same_geometry fs (rewrite_superblock fs) := same_geometry_of_meta (rewrite_superblock_meta fs)

theorem same_geometry_flush_bgd (fs : ext2_fs_t) : same_geometry fs (flush_bgd fs) :=
  same_geometry_of_meta (flush_bgd_loop_meta _ fs 0)

/-- Storing a 16-bit count (free blocks, free inodes or used directories) in a
group descriptor keeps the geometry. -/
theorem same_geometry_set_count (fs : ext2_fs_t) (g off v : Nat)
    (hoff : off = 12 ∨ off = 14 ∨ off = 16) :
    same_geometry fs { fs with block_groups := set16 fs.block_groups (32 * g + off) v } := by
  refine ⟨rfl, rfl, rfl, rfl, rfl, rfl, rfl, rfl, rfl, rfl, ?_, ?_, ?_⟩
  · intro g2
    show get32 (set16 fs.block_groups (32 * g + off) v) (32 * g2) = get32 fs.block_groups (32 * g2)
    apply get32_set16_other; omega
  · intro g2
    show get32 (set16 fs.block_groups (32 * g + off) v) (32 * g2 + 4)
      = get32 fs.block_groups (32 * g2 + 4)
    apply get32_set16_other; omega
  · intro g2
    show get32 (set16 fs.block_groups (32 * g + off) v) (32 * g2 + 8)
      = get32 fs.block_groups (32 * g2 + 8)
    apply get32_set16_other; omega

/-- Storing a free count in the superblock keeps the geometry. -/
theorem same_geometry_set_free (fs : ext2_fs_t) (off v : Nat) (hoff : off = 12 ∨ off = 16) :
    same_geometry fs { fs with superblock := set32 fs.superblock off v } := by
  refine ⟨rfl, rfl, rfl, rfl, rfl, rfl, rfl, rfl, rfl, ?_, fun _ => rfl, fun _ => rfl, fun _ => rfl⟩
  show get32 (set32 fs.superblock off v) 32 = get32 fs.superblock 32
  apply get32_set32_other; omega

theorem block_start_geom {fs fs2 : ext2_fs_t} (h : same_geometry fs fs2) (b : Nat) :
    block_start fs2 b = block_start fs b := by
  unfold block_start; rw [h.bs]

theorem in_block_geom {fs fs2 : ext2_fs_t} (h : same_geometry fs fs2) (b a : Nat) :
    in_block fs2 b a ↔ in_block fs b a := by
  unfold in_block; rw [block_start_geom h, h.bs]

theorem read_block_geom {fs fs2 : ext2_fs_t} (h : same_geometry fs fs2) (b : Nat) (buf : Buf)
    (hdev : ∀ a, in_block fs b a → fs2.block_device a = fs.block_device a) :
    (read_block fs2 b buf).2 = (read_block fs b buf).2 := by
  rw [← read_block_congr_device fs fs2.block_device b buf hdev]
  unfold read_block read_fs
  simp only [with_device_device, with_device_block_size, h.bs]

theorem get_block_number_geom {fs fs2 : ext2_fs_t} (h : same_geometry fs fs2) (inode : Buf)
    (k : Nat) (hk : k < 12 + fs.pointers_per_block) (hP : 12 + fs.pointers_per_block < 4294967296)
    (h4 : 4 * fs.pointers_per_block ≤ fs.block_size)
    (hdev : 12 ≤ k → ∀ a, in_block fs (inode_block inode 12) a →
      fs2.block_device a = fs.block_device a) :
    get_block_number fs2 inode k = get_block_number fs inode k := by
  unfold get_block_number
  simp only [h.ppb, h.junk, EXT2_DIRECT_BLOCKS]
  by_cases c1 : k < 12
  · rw [if_pos c1, if_pos c1]
  · rw [if_neg c1, if_neg c1]
    have e2 : u32 (12 + fs.pointers_per_block) = 12 + fs.pointers_per_block := u32_of_lt hP
    rw [e2, if_pos hk, if_pos hk]
    rw [read_block_geom h _ _ (hdev (by omega))]

theorem file_byte_addr_geom {fs fs2 : ext2_fs_t} (h : same_geometry fs fs2) (inode : Buf)
    (x : Nat) (hk : x / fs.block_size < 12 + fs.pointers_per_block)
    (hP : 12 + fs.pointers_per_block < 4294967296)
    (h4 : 4 * fs.pointers_per_block ≤ fs.block_size)
    (hdev : 12 ≤ x / fs.block_size → ∀ a, in_block fs (inode_block inode 12) a →
      fs2.block_device a = fs.block_device a) :
    file_byte_addr fs2 inode x = file_byte_addr fs inode x := by
  unfold file_byte_addr
  rw [block_start_geom h, h.bs, get_block_number_geom h inode _ hk hP h4 hdev]

theorem inode_slot_geom {fs fs2 : ext2_fs_t} (h : same_geometry fs fs2) (n : Nat) :
    inode_slot fs2 n = inode_slot fs n := by
  unfold inode_slot
  simp only [h.ipg, h.bgc, h.isz, h.bs, h.itb, block_start_geom h]

theorem read_inode_geom {fs fs2 : ext2_fs_t} (h : same_geometry fs fs2) (n s : Nat)
    (hs : inode_slot fs n = some s)
    (hdev : ∀ a, s ≤ a → a < s + fs.inode_size → fs2.block_device a = fs.block_device a) :
    read_inode fs2 n = read_inode fs n := by
  rw [read_inode_of_slot fs n s hs, read_inode_of_slot fs2 n s (by rw [inode_slot_geom h]; exact hs)]
  funext j
  unfold memcpy
  rw [h.junk, h.isz]
  by_cases hj : 0 ≤ j ∧ j < 0 + fs.inode_size
  · rw [if_pos hj, if_pos hj]
    apply hdev <;> omega
  · rw [if_neg hj, if_neg hj]

theorem inode_write_range_geom {fs fs2 : ext2_fs_t} (h : same_geometry fs fs2) (n a : Nat) :
    inode_write_range fs2 n a ↔ inode_write_range fs n a := by
  unfold inode_write_range write_inode_block write_inode_offset
  simp only [h.ipg, h.bgc, h.isz, h.bs, h.itb, block_start_geom h, in_block_geom h]

theorem block_bitmap_geom {fs fs2 : ext2_fs_t} (h : same_geometry fs fs2) (g : Nat)
    (hdev : ∀ a, in_block fs (bgd_block_bitmap fs g) a → fs2.block_device a = fs.block_device a) :
    block_bitmap fs2 g = block_bitmap fs g := by
  unfold block_bitmap
  rw [h.bbm, h.junk]
  exact read_block_geom h _ _ hdev

theorem inode_addressable_geom {fs fs2 : ext2_fs_t} (h : same_geometry fs fs2) (n : Nat) :
    inode_addressable fs2 n ↔ inode_addressable fs n := by
  unfold inode_addressable inode_record_block
  simp only [h.ipg, h.bgc, h.isz, h.bs, h.itb]

theorem dir_chain_congr (v v2 : Buf) (bs size : Nat) (hbs : 0 < bs) (hmul : size % bs = 0)
    (hv : ∀ x, x < size → v2 x = v x) : ∀ f pos l,
    dir_chain v bs size f pos = some l → dir_chain v2 bs size f pos = some l := by
  intro f
  induction f with
  | zero => intro pos l h; simp [dir_chain] at h
  | succ f ih =>
    intro pos l h
    unfold dir_chain at h ⊢
    by_cases hend : pos = size
    · rw [if_pos hend] at h ⊢; exact h
    · rw [if_neg hend] at h ⊢
      by_cases hc : pos < size ∧ 8 + dirent_name_len v pos ≤ dirent_rec_len v pos ∧
          pos % bs + dirent_rec_len v pos ≤ bs
      · rw [if_pos hc] at h
        obtain ⟨h1, h2, h3⟩ := hc
        have hblk := size_block_bound bs size (pos / bs) hbs hmul (by
          have := Nat.div_mul_le_self pos bs; omega)
        have hdm := Nat.div_add_mod pos bs
        have hin : pos + dirent_rec_len v pos ≤ size := by
          rw [Nat.add_mul, Nat.one_mul, Nat.mul_comm] at hblk; omega
        obtain ⟨-, e2, e3, -⟩ := record_congr v v2 pos h2 (fun x _ hx => hv x (by omega))
        rw [e2, e3, if_pos ⟨h1, h2, h3⟩]
        cases hrec : dir_chain v bs size f (pos + dirent_rec_len v pos) with
        | none => rw [hrec] at h; simp at h
        | some l2 =>
          rw [hrec] at h
          rw [ih _ _ hrec]
          exact h
      · rw [if_neg hc] at h; simp at h

theorem rec_lens_aligned_congr (v v2 : Buf) (bs size : Nat) (f pos : Nat) (l : List Nat)
    (hchain : dir_chain v bs size f pos = some l) (hv : ∀ x, x < size → v2 x = v x)
    (hal : rec_lens_aligned v l) : rec_lens_aligned v2 l := by
  intro q hq
  obtain ⟨-, h1, h2, h3, h4⟩ := dir_chain_mem _ _ _ _ _ _ hchain q hq
  obtain ⟨-, e2, e3, -⟩ := record_congr v v2 q h2 (fun x _ hx => hv x (by omega))
  rw [e2, e3]
  exact hal q hq

/-- A change of state that keeps the geometry and the device bytes that hold a
directory leaves the directory as it was. -/
theorem dir_frame {fs fs2 : ext2_fs_t} (h : same_geometry fs fs2) (ino s : Nat) (l : List Nat)
    (hwf : dir_well_formed fs ino l) (hlay : dir_layout fs ino s)
    (hdev : ∀ a, dir_storage fs ino s a → fs2.block_device a = fs.block_device a) :
    read_inode fs2 ino = read_inode fs ino ∧
    (∀ k, k * fs.block_size < inode_size_field (read_inode fs ino) →
      get_block_number fs2 (read_inode fs ino) k = get_block_number fs (read_inode fs ino) k) ∧
    (∀ x, x < inode_size_field (read_inode fs ino) →
      file_byte_addr fs2 (read_inode fs ino) x = file_byte_addr fs (read_inode fs ino) x) ∧
    (∀ x, x < inode_size_field (read_inode fs ino) →
      file_view fs2 (read_inode fs ino) x = file_view fs (read_inode fs ino) x) ∧
    dir_well_formed fs2 ino l ∧ dir_layout fs2 ino s := by
  obtain ⟨hbs, hmul, h256, hmap, hchain⟩ := hwf
  obtain ⟨hslot, hP1, hP2, hP3, hdist, hdir⟩ := hlay
  have hri : read_inode fs2 ino = read_inode fs ino :=
    read_inode_geom h ino s hslot (fun a h1 h2 => hdev a (Or.inl ⟨h1, h2⟩))
  have hkb : ∀ k, k * fs.block_size < inode_size_field (read_inode fs ino) →
      k < 12 + fs.pointers_per_block := by
    intro k hk
    have : k < 256 := by
      by_contra hc
      have : 256 * fs.block_size ≤ k * fs.block_size := Nat.mul_le_mul_right _ (by omega)
      omega
    omega
  have hgb : ∀ k, k * fs.block_size < inode_size_field (read_inode fs ino) →
      get_block_number fs2 (read_inode fs ino) k = get_block_number fs (read_inode fs ino) k := by
    intro k hk
    exact get_block_number_geom h _ k (hkb k hk) hP2 hP3
      (fun _ a ha => hdev a (Or.inr (Or.inl ha)))
  have hxk : ∀ x, x < inode_size_field (read_inode fs ino) →
      x / fs.block_size * fs.block_size < inode_size_field (read_inode fs ino) := by
    intro x hx
    have := Nat.div_mul_le_self x fs.block_size
    omega
  have hfa : ∀ x, x < inode_size_field (read_inode fs ino) →
      file_byte_addr fs2 (read_inode fs ino) x = file_byte_addr fs (read_inode fs ino) x := by
    intro x hx
    unfold file_byte_addr
    rw [block_start_geom h, h.bs, hgb _ (hxk x hx)]
  have hfv : ∀ x, x < inode_size_field (read_inode fs ino) →
      file_view fs2 (read_inode fs ino) x = file_view fs (read_inode fs ino) x := by
    intro x hx
    unfold file_view
    rw [hfa x hx]
    exact hdev _ (Or.inr (Or.inr ⟨x, hx, rfl⟩))
  refine ⟨hri, hgb, hfa, hfv, ⟨?_, ?_, ?_, ?_, ?_⟩, ⟨?_, ?_, ?_, ?_, ?_, ?_⟩⟩
  · rw [h.bs]; exact hbs
  · rw [hri, h.bs]; exact hmul
  · rw [hri, h.bs]; exact h256
  · rw [hri]
    intro k hk
    rw [h.bs] at hk ⊢
    rw [hgb k hk]
    exact hmap k hk
  · rw [hri, h.bs]
    exact dir_chain_congr _ _ _ _ hbs hmul hfv _ _ _ hchain
  · rw [inode_slot_geom h]; exact hslot
  · rw [h.ppb]; exact hP1
  · rw [h.ppb]; exact hP2
  · rw [h.ppb, h.bs]; exact hP3
  · rw [hri]
    intro x y hx hy hxy
    rw [hfa x hx, hfa y hy] at hxy
    exact hdist x y hx hy hxy
  · rw [hri]
    intro x hx
    rw [hfa x hx, h.isz, in_block_geom h]
    exact hdir x hx

/-! ## Allocating a block -/

theorem allocate_block_groups_first (fs : ext2_fs_t) (g k : Nat)
    (hcount : 0 < bgd_free_blocks_count fs g)
    (hscan : scan_free_bit (block_bitmap fs g) (8 * fs.block_size) 0 = some k) :
    ∀ n i, i ≤ g → g < i + n → (∀ j, i ≤ j → j < g → bgd_free_blocks_count fs j = 0) →
      allocate_block_groups fs n i = some (bit_block fs g k, k, g, block_bitmap fs g) := by
  intro n
  induction n with
  | zero => intro i h1 h2; omega
  | succ n ih =>
    intro i h1 h2 hz
    unfold allocate_block_groups
    by_cases hi : i = g
    · subst hi
      rw [if_pos hcount]
      dsimp only
      unfold block_bitmap at hscan
      rw [hscan]
      rfl
    · have h0 := hz i (le_refl _) (by omega)
      rw [if_neg (by omega)]
      exact ih (i + 1) (by omega) (by omega) (fun j hj1 hj2 => hz j (by omega) hj2)

theorem bit_block_eq (fs : ext2_fs_t) (g k : Nat)
    (h : (sb_blocks_per_group fs * g + k + 1) * fs.block_size ≤ 4294967296)
    (hbs : 0 < fs.block_size) :
    bit_block fs g k = sb_blocks_per_group fs * g + k ∧
      sb_blocks_per_group fs * g + k < 4294967296 := by
  have h1 : sb_blocks_per_group fs * g + k + 1 ≤ (sb_blocks_per_group fs * g + k + 1) * fs.block_size :=
    Nat.le_mul_of_pos_right _ hbs
  have h2 : sb_blocks_per_group fs * g + k < 4294967296 := by omega
  refine ⟨?_, h2⟩
  unfold bit_block
  rw [u32_of_lt (by omega), u64_of_lt (by omega)]
  omega

theorem block_start_of_fits (fs : ext2_fs_t) (b : Nat)
    (h : (b + 1) * fs.block_size ≤ 4294967296) (hbs : 0 < fs.block_size) :
    u32 b = b ∧ block_start fs b = b * fs.block_size := by
  have h1 : b + 1 ≤ (b + 1) * fs.block_size := Nat.le_mul_of_pos_right _ hbs
  have hb : u32 b = b := u32_of_lt (by omega)
  refine ⟨hb, ?_⟩
  unfold block_start
  rw [hb]
  apply u32_of_lt
  rw [Nat.add_mul] at h
  omega

/-- Two blocks that end within the first 4 GiB and share a device address are
the same block. -/
theorem in_block_inj (fs : ext2_fs_t) (b c a : Nat)
    (hb : (b + 1) * fs.block_size ≤ 4294967296) (hc : (c + 1) * fs.block_size ≤ 4294967296)
    (h1 : in_block fs b a) (h2 : in_block fs c a) : b = c := by
  have hbs : 0 < fs.block_size := by
    obtain ⟨-, h3, h4⟩ := h1; omega
  obtain ⟨-, e1⟩ := block_start_of_fits fs b hb hbs
  obtain ⟨-, e2⟩ := block_start_of_fits fs c hc hbs
  obtain ⟨-, h3, h4⟩ := h1
  obtain ⟨-, h5, h6⟩ := h2
  rw [e1] at h3 h4
  rw [e2] at h5 h6
  by_contra hne
  rcases Nat.lt_or_gt_of_ne hne with hlt | hgt
  · have : (b + 1) * fs.block_size ≤ c * fs.block_size := Nat.mul_le_mul_right _ hlt
    rw [Nat.add_mul] at this; omega
  · have : (c + 1) * fs.block_size ≤ b * fs.block_size := Nat.mul_le_mul_right _ hgt
    rw [Nat.add_mul] at this; omega

theorem write_zero_block (fs0 : ext2_fs_t) (b : Nat) (bg : Buf) (a : Nat)
    (h : in_block fs0 b a) :
    (write_block fs0 b (memset bg 0 0 fs0.block_size)).2.block_device a = 0 := by
  rw [write_block_device_inside _ _ _ _ h]
  obtain ⟨-, h1, h2⟩ := h
  unfold memset
  rw [if_pos ⟨Nat.zero_le _, by omega⟩]

theorem allocate_block_commit_eq (fs : ext2_fs_t) (n k g : Nat) (bg : Buf) :
    ∃ X, same_geometry fs X ∧
      allocate_block_commit fs n k g bg
        = (write_block X n (memset (set_blockbit bg k) 0 0 X.block_size)).2 := by
  unfold allocate_block_commit
  dsimp only
  refine ⟨_, ?_, rfl⟩
  refine same_geometry_trans ?_ (same_geometry_rewrite_superblock _)
  refine same_geometry_trans ?_ (same_geometry_set_free _ 12 _ (Or.inl rfl))
  refine same_geometry_trans ?_ (same_geometry_flush_bgd _)
  refine same_geometry_trans ?_ (same_geometry_set_count _ g 12 _ (Or.inl rfl))
  exact same_geometry_write_block _ _ _

theorem same_geometry_commit (fs : ext2_fs_t) (n k g : Nat) (bg : Buf) :
    same_geometry fs (allocate_block_commit fs n k g bg) := by
  obtain ⟨X, hX, e⟩ := allocate_block_commit_eq fs n k g bg
  rw [e]
  exact same_geometry_trans hX (same_geometry_write_block _ _ _)

theorem meta_range_geom {fs fs2 : ext2_fs_t} (h : same_geometry fs fs2) (a : Nat) :
    meta_range fs2 a ↔ meta_range fs a := by
  unfold meta_range
  simp only [h.span, h.bgdo, in_block_geom h]

theorem block_bitmap_range_geom {fs fs2 : ext2_fs_t} (h : same_geometry fs fs2) (a : Nat) :
    block_bitmap_range fs2 a ↔ block_bitmap_range fs a := by
  unfold block_bitmap_range
  simp only [h.bgc, h.bbm, in_block_geom h]

theorem bit_block_geom {fs fs2 : ext2_fs_t} (h : same_geometry fs fs2) (g k : Nat) :
    bit_block fs2 g k = bit_block fs g k := by
  unfold bit_block
  rw [h.bpg]

theorem sub16_one {c : Nat} (h1 : 0 < c) (h2 : c < 65536) : sub16 c 1 = c - 1 := by
  unfold sub16 u16
  omega

theorem bit_numbers_inj (bpg g k g2 k2 : Nat) (hk : k < bpg) (hk2 : k2 < bpg)
    (h : bpg * g + k = bpg * g2 + k2) : g = g2 ∧ k = k2 := by
  have hg : g = g2 := by
    by_contra hne
    rcases Nat.lt_or_gt_of_ne hne with hlt | hgt
    · have : bpg * (g + 1) ≤ bpg * g2 := Nat.mul_le_mul_left _ hlt
      rw [Nat.mul_add, Nat.mul_one] at this; omega
    · have : bpg * (g2 + 1) ≤ bpg * g := Nat.mul_le_mul_left _ hgt
      rw [Nat.mul_add, Nat.mul_one] at this; omega
  subst hg
  exact ⟨rfl, by omega⟩

/-- On a consistent volume with a free block ready, `allocate_block` hands out
a non-zero block that the bitmaps marked free, zeroes it, leaves the addresses
in use as they are, and leaves the volume consistent around the addresses in
use together with the new block. -/
theorem allocate_block_safe (fs : ext2_fs_t) (P : Nat → Prop) (m : Nat)
    (hok : volume_ok fs P) (hfree : free_blocks_ready fs (m + 1)) :
    ∃ b fs1, allocate_block fs = some (b, fs1) ∧ b ≠ 0 ∧
      (b + 1) * fs.block_size ≤ 4294967296 ∧ same_geometry fs fs1 ∧
      (∀ a, in_block fs b a → fs1.block_device a = 0) ∧
      (∀ a, in_block fs b a → free_range fs a) ∧
      (∀ a, P a → fs1.block_device a = fs.block_device a) ∧
      volume_ok fs1 (fun a => P a ∨ in_block fs b a) ∧ free_blocks_ready fs1 m := by
  obtain ⟨hbm0, hbmd, hbmr, hbits, hfm, hP⟩ := hok
  obtain ⟨g, ks, hg, hzero, hcnt, hnd, hlen, hks⟩ := hfree
  obtain ⟨k1, hk1⟩ : ∃ k1, k1 ∈ ks := by
    cases ks with
    | nil => simp at hlen
    | cons x xs => exact ⟨x, List.mem_cons_self _ _⟩
  obtain ⟨hk1a, hk1b⟩ := hks k1 hk1
  cases hscan : scan_free_bit (block_bitmap fs g) (8 * fs.block_size) 0 with
  | none =>
    have := scan_free_bit_none _ _ _ hscan k1 (Nat.zero_le _) (by omega)
    rw [hk1b] at this
    exact absurd this (by decide)
  | some k0 =>
    obtain ⟨-, hk0lt, hk0clear, -⟩ := scan_free_bit_some _ _ _ _ hscan
    have hbs : 0 < fs.block_size := by omega
    obtain ⟨hk0bpg, hb0, hbfit⟩ := hbits g k0 hg (by omega) hk0clear
    obtain ⟨hbeq, hb32⟩ := bit_block_eq fs g k0 hbfit hbs
    have hgroups := allocate_block_groups_first fs g k0 (by omega) hscan fs.block_group_count 0
      (Nat.zero_le _) (by omega) (fun j _ hj => hzero j hj)
    have hres : allocate_block fs = some (bit_block fs g k0,
        allocate_block_commit fs (bit_block fs g k0) k0 g (block_bitmap fs g)) := by
      unfold allocate_block
      rw [hgroups]
      dsimp only
      rw [if_neg (by rw [hbeq]; exact hb0)]
      rfl
    have hgeo := same_geometry_commit fs (bit_block fs g k0) k0 g (block_bitmap fs g)
    have hbfree : ∀ a, in_block fs (bit_block fs g k0) a → free_range fs a :=
      fun a ha => ⟨g, k0, hg, by omega, hk0clear, ha⟩
    -- the device outside the regions written
    have hframe : ∀ a, ¬ meta_range fs a → ¬ in_block fs (bgd_block_bitmap fs g) a →
        ¬ in_block fs (bit_block fs g k0) a →
        (allocate_block_commit fs (bit_block fs g k0) k0 g (block_bitmap fs g)).block_device a
          = fs.block_device a := by
      intro a h1 h2 h3
      rw [allocate_block_commit_device fs _ k0 g _ a h3 (fun hc => h1 (Or.inl hc))
        (fun j hj hc => h1 (Or.inr ⟨j, hj, hc⟩))]
      exact write_block_device_outside _ _ _ _ h2
    have hap : bitmap_block_apart fs g (bit_block fs g k0) := by
      refine ⟨hbm0 g hg, ?_⟩
      intro a ha
      obtain ⟨h1, h2⟩ := hbmr a ⟨g, hg, ha⟩
      exact ⟨fun hc => h1 (Or.inl hc), fun hc => h2 (hbfree a hc),
        fun j hj hc => h1 (Or.inr ⟨j, hj, hc⟩)⟩
    have hbitsg := BLOCKBIT_block_bitmap_commit fs (bit_block fs g k0) k0 g (block_bitmap fs g) hap
    have hbitso : ∀ g2, g2 < fs.block_group_count → g2 ≠ g →
        block_bitmap (allocate_block_commit fs (bit_block fs g k0) k0 g (block_bitmap fs g)) g2
          = block_bitmap fs g2 := by
      intro g2 hg2 hne
      apply block_bitmap_geom hgeo
      intro a ha
      obtain ⟨h1, h2⟩ := hbmr a ⟨g2, hg2, ha⟩
      exact hframe a h1 (hbmd g2 g hg2 hg hne a ha) (fun hc => h2 (hbfree a hc))
    have hmono : ∀ g2 k, g2 < fs.block_group_count → k < 8 * fs.block_size →
        BLOCKBIT (block_bitmap (allocate_block_commit fs (bit_block fs g k0) k0 g
          (block_bitmap fs g)) g2) k = false →
        BLOCKBIT (block_bitmap fs g2) k = false ∧ ¬ (g2 = g ∧ k = k0) := by
      intro g2 k hg2 hk hclear
      by_cases hgg : g2 = g
      · subst hgg
        rw [hbitsg k hk] at hclear
        simp only [Bool.or_eq_false_iff, decide_eq_false_iff_not] at hclear
        exact ⟨hclear.2, fun hc => hclear.1 hc.2⟩
      · rw [hbitso g2 hg2 hgg] at hclear
        exact ⟨hclear, fun hc => hgg hc.1⟩
    have hfr : ∀ a, free_range (allocate_block_commit fs (bit_block fs g k0) k0 g
        (block_bitmap fs g)) a → free_range fs a ∧ ¬ in_block fs (bit_block fs g k0) a := by
      intro a ⟨g2, k, hg2, hk, hclear, hin⟩
      rw [hgeo.bgc] at hg2
      rw [hgeo.bs] at hk
      rw [bit_block_geom hgeo, in_block_geom hgeo] at hin
      obtain ⟨hc1, hc2⟩ := hmono g2 k hg2 hk hclear
      refine ⟨⟨g2, k, hg2, hk, hc1, hin⟩, ?_⟩
      intro hb
      obtain ⟨hkbpg, -, hfit2⟩ := hbits g2 k hg2 hk hc1
      obtain ⟨hbeq2, -⟩ := bit_block_eq fs g2 k hfit2 hbs
      rw [hbeq2] at hin
      rw [hbeq] at hb
      have := in_block_inj fs _ _ a hfit2 hbfit hin hb
      exact hc2 (bit_numbers_inj _ _ _ _ _ hkbpg hk0bpg this)
    refine ⟨_, _, hres, by rw [hbeq]; exact hb0, by rw [hbeq]; exact hbfit, hgeo, ?_, hbfree, ?_,
      ⟨?_, ?_, ?_, ?_, ?_, ?_⟩, ?_⟩
    · intro a ha
      obtain ⟨X, hX, e⟩ := allocate_block_commit_eq fs (bit_block fs g k0) k0 g (block_bitmap fs g)
      rw [e]
      exact write_zero_block X _ _ a ((in_block_geom hX _ _).2 ha)
    · intro a ha
      obtain ⟨h1, h2, h3⟩ := hP a ha
      exact hframe a h1 (fun hc => h2 ⟨g, hg, hc⟩) (fun hc => h3 (hbfree a hc))
    · intro g2 hg2
      rw [hgeo.bgc] at hg2
      rw [hgeo.bbm]; exact hbm0 g2 hg2
    · intro g2 g3 hg2 hg3 hne a ha
      rw [hgeo.bgc] at hg2 hg3
      rw [hgeo.bbm, in_block_geom hgeo] at ha ⊢
      exact hbmd g2 g3 hg2 hg3 hne a ha
    · intro a ha
      rw [block_bitmap_range_geom hgeo] at ha
      rw [meta_range_geom hgeo]
      obtain ⟨h1, h2⟩ := hbmr a ha
      exact ⟨h1, fun hc => h2 (hfr a hc).1⟩
    · intro g2 k hg2 hk hclear
      rw [hgeo.bgc] at hg2
      rw [hgeo.bs] at hk ⊢
      rw [hgeo.bpg]
      exact hbits g2 k hg2 hk (hmono g2 k hg2 hk hclear).1
    · intro a ha
      rw [meta_range_geom hgeo]
      exact hfm a (hfr a ha).1
    · intro a ha
      rw [meta_range_geom hgeo, block_bitmap_range_geom hgeo]
      rcases ha with ha | ha
      · obtain ⟨h1, h2, h3⟩ := hP a ha
        exact ⟨h1, h2, fun hc => h3 (hfr a hc).1⟩
      · exact ⟨hfm a (hbfree a ha), fun hc => (hbmr a hc).2 (hbfree a ha),
          fun hc => (hfr a hc).2 ha⟩
    · refine ⟨g, ks.erase k0, by rw [hgeo.bgc]; exact hg, ?_, ?_, hnd.erase _, ?_, ?_⟩
      · intro j hj
        unfold bgd_free_blocks_count
        rw [(allocate_block_commit_meta fs _ k0 g _).1, get16_set16_other _ _ _ _ (by omega)]
        exact hzero j hj
      · unfold bgd_free_blocks_count
        rw [(allocate_block_commit_meta fs _ k0 g _).1, get16_set16_same]
        have hc16 : bgd_free_blocks_count fs g < 65536 := get16_lt _ _
        rw [sub16_one (by omega) hc16]
        unfold bgd_free_blocks_count at hcnt hc16 ⊢
        rw [Nat.mod_eq_of_lt (by omega)]
        omega
      · rw [List.length_erase]
        split <;> omega
      · intro k hk
        rw [hnd.mem_erase_iff] at hk
        obtain ⟨hk2a, hk2b⟩ := hks k hk.2
        rw [hgeo.bs]
        refine ⟨hk2a, ?_⟩
        rw [hbitsg k hk2a, hk2b]
        simp only [Bool.or_false, decide_eq_false_iff_not]
        exact hk.1

/-! ## Mapping a block of an inode -/

theorem get_block_number_direct (fs : ext2_fs_t) (inode : Buf) (k : Nat) (hk : k < 12) :
    get_block_number fs inode k = inode_block inode k := by
  unfold get_block_number
  simp only [EXT2_DIRECT_BLOCKS]
  rw [if_pos hk]

theorem get_block_number_single (fs : ext2_fs_t) (inode : Buf) (k : Nat) (hk : 12 ≤ k)
    (hkp : k < 12 + fs.pointers_per_block) (hP : 12 + fs.pointers_per_block < 4294967296)
    (h4 : 4 * fs.pointers_per_block ≤ fs.block_size) (hT : inode_block inode 12 ≠ 0) :
    get_block_number fs inode k
      = get32 fs.block_device (block_start fs (inode_block inode 12) + 4 * (k - 12)) := by
  unfold get_block_number
  simp only [EXT2_DIRECT_BLOCKS]
  rw [if_neg (by omega), u32_of_lt hP, if_pos hkp]
  have hT2 : u32 (inode_block inode 12) ≠ 0 := by
    unfold inode_block; rw [u32_get32]; exact hT
  rw [read_block_snd _ _ _ hT2, sub32_of_le (by omega) hk]
  apply get32_congr
  intro j hj
  rw [get8_memcpy, if_pos ⟨Nat.zero_le _, by omega⟩]
  unfold get8 block_start
  congr 2
  omega

theorem record_shaped_read (fs : ext2_fs_t) (n : Nat) (h : inode_addressable fs n) :
    record_shaped fs (read_inode fs n) := by
  intro j hj
  rw [read_inode_of_slot fs n _ (inode_slot_of_addressable fs n h)]
  unfold memcpy
  rw [if_neg (by omega)]

theorem record_shaped_set32 {fs : ext2_fs_t} {r : Buf} (h : record_shaped fs r) (i v : Nat)
    (hi : i + 4 ≤ fs.inode_size) : record_shaped fs (set32 r i v) := by
  intro j hj
  rw [set32_outside _ _ _ _ (by omega)]
  exact h j hj

theorem record_shaped_set16 {fs : ext2_fs_t} {r : Buf} (h : record_shaped fs r) (i v : Nat)
    (hi : i + 2 ≤ fs.inode_size) : record_shaped fs (set16 r i v) := by
  intro j hj
  rw [set16_outside _ _ _ _ (by omega)]
  exact h j hj

/-- Reading an addressable inode record back after `write_inode` stored it. -/
theorem read_after_write_inode (fs : ext2_fs_t) (r : Buf) (n : Nat)
    (h : inode_addressable fs n) (hr : record_shaped fs r) :
    read_inode (write_inode fs r n).2 n = r := by
  have hgeo := same_geometry_write_inode fs r n
  have h2 : inode_addressable (write_inode fs r n).2 n := (inode_addressable_geom hgeo n).2 h
  obtain ⟨w1, w2, w3⟩ := write_inode_position fs n h
  have f9 := (addressable_facts fs n h).2.2.2.2.2.2.2.2.2.2
  funext j
  by_cases hj : j < fs.inode_size
  · rw [read_inode_addressable _ n j h2 (by rw [hgeo.isz]; exact hj)]
    have haddr : inode_record_addr (write_inode fs r n).2 n = inode_record_addr fs n := by
      unfold inode_record_addr
      simp only [hgeo.ipg, hgeo.isz, hgeo.bs, hgeo.itb]
    rw [haddr, write_inode_device_inside fs r n _
      ((inode_write_range_of_addressable fs n _ h).2 ⟨by omega, by omega⟩), w1, w2, w3, f9]
    congr 1
    omega
  · rw [record_shaped_read _ n h2 j (by rw [hgeo.isz]; omega), hgeo.junk]
    exact (hr j (by omega)).symm

theorem free_range_frame {fs fs2 : ext2_fs_t} (h : same_geometry fs fs2)
    (hdev : ∀ a, block_bitmap_range fs a → fs2.block_device a = fs.block_device a) (a : Nat) :
    free_range fs2 a ↔ free_range fs a := by
  have hb : ∀ g, g < fs.block_group_count → block_bitmap fs2 g = block_bitmap fs g :=
    fun g hg => block_bitmap_geom h g (fun a ha => hdev a ⟨g, hg, ha⟩)
  unfold free_range
  constructor
  · rintro ⟨g, k, h1, h2, h3, h4⟩
    rw [h.bgc] at h1
    rw [h.bs] at h2
    rw [hb g h1] at h3
    rw [bit_block_geom h, in_block_geom h] at h4
    exact ⟨g, k, h1, h2, h3, h4⟩
  · rintro ⟨g, k, h1, h2, h3, h4⟩
    refine ⟨g, k, by rw [h.bgc]; exact h1, by rw [h.bs]; exact h2, by rw [hb g h1]; exact h3, ?_⟩
    rw [bit_block_geom h, in_block_geom h]
    exact h4

/-- A change of state that keeps the geometry and the block bitmaps keeps the
volume consistent. -/
theorem volume_ok_frame {fs fs2 : ext2_fs_t} (h : same_geometry fs fs2) (P : Nat → Prop)
    (hdev : ∀ a, block_bitmap_range fs a → fs2.block_device a = fs.block_device a)
    (hok : volume_ok fs P) : volume_ok fs2 P := by
  obtain ⟨hbm0, hbmd, hbmr, hbits, hfm, hP⟩ := hok
  have hb : ∀ g, g < fs.block_group_count → block_bitmap fs2 g = block_bitmap fs g :=
    fun g hg => block_bitmap_geom h g (fun a ha => hdev a ⟨g, hg, ha⟩)
  refine ⟨?_, ?_, ?_, ?_, ?_, ?_⟩
  · intro g hg
    rw [h.bgc] at hg
    rw [h.bbm]; exact hbm0 g hg
  · intro g g2 hg hg2 hne a ha
    rw [h.bgc] at hg hg2
    rw [h.bbm, in_block_geom h] at ha ⊢
    exact hbmd g g2 hg hg2 hne a ha
  · intro a ha
    rw [block_bitmap_range_geom h] at ha
    rw [meta_range_geom h, free_range_frame h hdev]
    exact hbmr a ha
  · intro g k hg hk hclear
    rw [h.bgc] at hg
    rw [h.bs] at hk ⊢
    rw [h.bpg]
    rw [hb g hg] at hclear
    exact hbits g k hg hk hclear
  · intro a ha
    rw [free_range_frame h hdev] at ha
    rw [meta_range_geom h]
    exact hfm a ha
  · intro a ha
    rw [meta_range_geom h, block_bitmap_range_geom h, free_range_frame h hdev]
    exact hP a ha

theorem free_blocks_ready_frame {fs fs2 : ext2_fs_t} (h : same_geometry fs fs2) (m : Nat)
    (hdev : ∀ a, block_bitmap_range fs a → fs2.block_device a = fs.block_device a)
    (hcount : ∀ g, bgd_free_blocks_count fs2 g = bgd_free_blocks_count fs g)
    (hfree : free_blocks_ready fs m) : free_blocks_ready fs2 m := by
  obtain ⟨g, ks, hg, hzero, hcnt, hnd, hlen, hks⟩ := hfree
  refine ⟨g, ks, by rw [h.bgc]; exact hg, ?_, by rw [hcount]; exact hcnt, hnd, hlen, ?_⟩
  · intro j hj; rw [hcount]; exact hzero j hj
  · intro k hk
    rw [h.bs, block_bitmap_geom h g (fun a ha => hdev a ⟨g, hg, ha⟩)]
    exact hks k hk

/-- A smaller set of addresses in use is consistent as well. -/
theorem volume_ok_mono {fs : ext2_fs_t} {P Q : Nat → Prop} (hsub : ∀ a, Q a → P a)
    (hok : volume_ok fs P) : volume_ok fs Q := by
  obtain ⟨hbm0, hbmd, hbmr, hbits, hfm, hP⟩ := hok
  exact ⟨hbm0, hbmd, hbmr, hbits, hfm, fun a ha => hP a (hsub a ha)⟩

theorem free_blocks_ready_le {fs : ext2_fs_t} {m m2 : Nat} (hle : m2 ≤ m)
    (h : free_blocks_ready fs m) : free_blocks_ready fs m2 := by
  obtain ⟨g, ks, hg, hzero, hcnt, hnd, hlen, hks⟩ := h
  exact ⟨g, ks, hg, hzero, by omega, hnd, by omega, hks⟩

theorem inode_block_lt (inode : Buf) (k : Nat) : inode_block inode k < 4294967296 :=
  get32_lt _ _

theorem inode_block_set_same (inode : Buf) (k v : Nat) (hv : v < 4294967296) :
    inode_block (set_inode_block inode k v) k = v := by
  unfold inode_block set_inode_block
  rw [get32_set32_same, Nat.mod_eq_of_lt hv]

theorem inode_block_set_other (inode : Buf) (k v j : Nat) (h : j ≠ k) :
    inode_block (set_inode_block inode k v) j = inode_block inode j := by
  unfold inode_block set_inode_block
  apply get32_set32_other
  omega

/-- The block number of a block in the direct or single-indirect range depends
on the inode record through its pointers `block[0..12]` only. -/
theorem get_block_number_inode_congr (fs : ext2_fs_t) (inode inode2 : Buf) (k : Nat)
    (hk : k < 12 + fs.pointers_per_block) (hP : 12 + fs.pointers_per_block < 4294967296)
    (h : ∀ j, j ≤ 12 → inode_block inode2 j = inode_block inode j) :
    get_block_number fs inode2 k = get_block_number fs inode k := by
  unfold get_block_number
  simp only [EXT2_DIRECT_BLOCKS]
  by_cases c1 : k < 12
  · rw [if_pos c1, if_pos c1]; exact h k (by omega)
  · rw [if_neg c1, if_neg c1, u32_of_lt hP, if_pos hk, if_pos hk, h 12 (le_refl _)]

/-- The effect of the single-indirect tail of `set_block_number`: entry
`k - 12` of the table block `block[12]` becomes `b`. -/
theorem set_block_number_single_effect (fs : ext2_fs_t) (X : Buf) (k b : Nat) (hk : 12 ≤ k)
    (hkp : k < 12 + fs.pointers_per_block) (hP : 12 + fs.pointers_per_block < 4294967296)
    (h4 : 4 * fs.pointers_per_block ≤ fs.block_size) (hT : inode_block X 12 ≠ 0)
    (hb : b < 4294967296) :
    ∃ fsY, set_block_number_single fs X k b = (E_SUCCESS, fsY, X) ∧
      fsY = with_device fs fsY.block_device ∧
      (∀ a, ¬ in_block fs (inode_block X 12) a → fsY.block_device a = fs.block_device a) ∧
      ∀ j, 12 ≤ j → j < 12 + fs.pointers_per_block →
        get_block_number fsY X j = if j = k then b else get_block_number fs X j := by
  have hT2 : u32 (inode_block X 12) ≠ 0 := by
    rw [u32_of_lt (inode_block_lt _ _)]; exact hT
  refine ⟨_, rfl, write_block_snd _ _ _, ?_, ?_⟩
  · intro a ha
    exact write_block_device_outside _ _ _ _ ha
  · intro j hj hjp
    have hgeo := same_geometry_write_block fs (inode_block X EXT2_DIRECT_BLOCKS)
      (set32 (read_block fs (inode_block X EXT2_DIRECT_BLOCKS) fs.malloc_junk).2
        (4 * sub32 k EXT2_DIRECT_BLOCKS) b)
    rw [get_block_number_single _ X j hj (by rw [hgeo.ppb]; exact hjp)
      (by rw [hgeo.ppb]; exact hP) (by rw [hgeo.ppb, hgeo.bs]; exact h4) hT,
      block_start_geom hgeo]
    simp only [EXT2_DIRECT_BLOCKS]
    rw [sub32_of_le (by omega) hk]
    have hin : ∀ i, i < 4 → in_block fs (inode_block X 12)
        (block_start fs (inode_block X 12) + 4 * (j - 12) + i) := by
      intro i hi
      exact ⟨hT2, by omega, by omega⟩
    have hdev : get32 (write_block fs (inode_block X 12)
        (set32 (read_block fs (inode_block X 12) fs.malloc_junk).2 (4 * (k - 12)) b)).2.block_device
          (block_start fs (inode_block X 12) + 4 * (j - 12))
        = get32 (set32 (read_block fs (inode_block X 12) fs.malloc_junk).2 (4 * (k - 12)) b)
          (4 * (j - 12)) := by
      apply get32_congr
      intro i hi
      unfold get8
      rw [write_block_device_inside _ _ _ _ (hin i hi)]
      congr 2
      omega
    rw [hdev]
    by_cases hjk : j = k
    · rw [if_pos hjk, hjk, get32_set32_same, Nat.mod_eq_of_lt hb]
    · rw [if_neg hjk, get32_set32_other _ _ _ _ (by omega),
        get_block_number_single fs X j hj hjp hP h4 hT]
      rw [read_block_snd _ _ _ hT2]
      apply get32_congr
      intro i hi
      rw [get8_memcpy, if_pos ⟨Nat.zero_le _, by omega⟩]
      unfold get8 block_start
      congr 2
      omega

theorem write_inode_block_groups (fs : ext2_fs_t) (r : Buf) (n : Nat) :
    (write_inode fs r n).2.block_groups = fs.block_groups := by
  rw [write_inode_meta]; rfl

theorem write_block_block_groups (fs : ext2_fs_t) (b : Nat) (buf : Buf) :
    (write_block fs b buf).2.block_groups = fs.block_groups := by
  rw [write_block_snd]; rfl

theorem free_count_of_block_groups {fs fs2 : ext2_fs_t} (h : fs2.block_groups = fs.block_groups)
    (g : Nat) : bgd_free_blocks_count fs2 g = bgd_free_blocks_count fs g := by
  unfold bgd_free_blocks_count; rw [h]

/-- The record of an addressable inode: where `write_inode` writes. -/
theorem write_inode_outside_record (fs : ext2_fs_t) (r : Buf) (n a : Nat)
    (h : inode_addressable fs n) (ha : ¬ record_range fs n a) :
    (write_inode fs r n).2.block_device a = fs.block_device a := by
  apply write_inode_device_outside
  rw [inode_write_range_of_addressable fs n a h]
  exact ha

theorem record_range_geom {fs fs2 : ext2_fs_t} (h : same_geometry fs fs2) (n a : Nat) :
    record_range fs2 n a ↔ record_range fs n a := by
  unfold record_range inode_record_addr
  simp only [h.ipg, h.isz, h.bs, h.itb]

theorem record_shaped_geom {fs fs2 : ext2_fs_t} (h : same_geometry fs fs2) (r : Buf) :
    record_shaped fs2 r ↔ record_shaped fs r := by
  unfold record_shaped
  rw [h.isz, h.junk]

theorem set_block_number_direct_case (fs1 : ext2_fs_t) (P1 : Nat → Prop) (X : Buf)
    (ino k b m : Nat) (hisz : 128 ≤ fs1.inode_size) (hX : record_shaped fs1 X)
    (hP2 : 12 + fs1.pointers_per_block < 4294967296)
    (hk : k < 12) (hb32 : b < 4294967296)
    (htabP : ∀ a, in_block fs1 (inode_block X 12) a → P1 a)
    (hok : volume_ok fs1 P1) (hfree : free_blocks_ready fs1 m) :
    ∃ fs2 X2, set_block_number fs1 X ino k b = some (E_SUCCESS, fs2, X2) ∧
      block_mapped_post fs1 P1 X ino k b m fs2 X2 := by
  refine ⟨fs1, set_inode_block X k b, ?_, same_geometry_refl _, ?_, ?_, ?_, ?_, ?_, ?_, ?_, ?_, ?_⟩
  · unfold set_block_number
    simp only [EXT2_DIRECT_BLOCKS]
    rw [if_pos hk]
  · exact record_shaped_set32 hX _ _ (by omega)
  · intro j hj
    exact set32_outside _ _ _ _ (by omega)
  · intro j hj
    rw [get_block_number_direct _ _ j (by omega), get_block_number_direct _ _ j (by omega)]
    exact inode_block_set_other _ _ _ _ (by omega)
  · rw [get_block_number_direct _ _ k hk]
    exact inode_block_set_same _ _ _ hb32
  · intro h; omega
  · intro a ha
    rw [inode_block_set_other _ _ _ _ (by omega)] at ha
    exact Or.inl ha
  · intro a _ _ _; rfl
  · apply volume_ok_mono _ hok
    intro a ha
    rcases ha with ha | ha
    · exact ha
    · rw [inode_block_set_other _ _ _ _ (by omega)] at ha
      exact htabP a ha
  · exact hfree

theorem set_block_number_table_case (fs1 : ext2_fs_t) (P1 : Nat → Prop) (X : Buf)
    (ino k b m : Nat) (hX : record_shaped fs1 X)
    (hP2 : 12 + fs1.pointers_per_block < 4294967296)
    (hP3 : 4 * fs1.pointers_per_block ≤ fs1.block_size)
    (hk : 12 ≤ k) (hkp : k < 12 + fs1.pointers_per_block)
    (htab : inode_block X 12 ≠ 0) (hb32 : b < 4294967296)
    (htabP : ∀ a, in_block fs1 (inode_block X 12) a → P1 a)
    (hok : volume_ok fs1 P1) (hfree : free_blocks_ready fs1 (m + 1)) :
    ∃ fs2 X2, set_block_number fs1 X ino k b = some (E_SUCCESS, fs2, X2) ∧
      block_mapped_post fs1 P1 X ino k b m fs2 X2 := by
  obtain ⟨fsY, hY, hmeta, hout, hgbn⟩ :=
    set_block_number_single_effect fs1 X k b hk hkp hP2 hP3 htab hb32
  have hgeo : same_geometry fs1 fsY := same_geometry_of_meta hmeta
  have hbm : ∀ a, block_bitmap_range fs1 a → fsY.block_device a = fs1.block_device a := by
    intro a ha
    apply hout
    intro hc
    exact (hok.2.2.2.2.2 a (htabP a hc)).2.1 ha
  refine ⟨fsY, X, ?_, hgeo, hX, fun _ _ => rfl, ?_, ?_, fun _ => htab, fun a ha => Or.inl ha,
    fun a _ _ h3 => hout a h3, ?_, ?_⟩
  · unfold set_block_number
    simp only [EXT2_DIRECT_BLOCKS]
    rw [if_neg (by omega), u32_of_lt hP2, if_pos hkp, if_neg htab, hY]
  · intro j hj
    by_cases hj12 : j < 12
    · rw [get_block_number_direct _ _ j hj12, get_block_number_direct _ _ j hj12]
    · rw [hgbn j (by omega) (by omega), if_neg (by omega)]
  · rw [hgbn k hk hkp, if_pos rfl]
  · apply volume_ok_frame hgeo _ hbm
    apply volume_ok_mono _ hok
    intro a ha
    rcases ha with ha | ha
    · exact ha
    · exact htabP a ha
  · apply free_blocks_ready_frame hgeo m hbm
    · intro g
      apply free_count_of_block_groups
      rw [hmeta]; rfl
    · exact free_blocks_ready_le (by omega) hfree

theorem set_block_number_grow_case (fs1 : ext2_fs_t) (P1 : Nat → Prop) (X : Buf)
    (ino k b m : Nat) (hadr : inode_addressable fs1 ino) (hisz : 128 ≤ fs1.inode_size)
    (hX : record_shaped fs1 X) (hP1 : 0 < fs1.pointers_per_block)
    (hP2 : 12 + fs1.pointers_per_block < 4294967296)
    (hP3 : 4 * fs1.pointers_per_block ≤ fs1.block_size)
    (hk : k = 12) (htab : inode_block X 12 = 0) (hb32 : b < 4294967296)
    (hrec : ∀ a, record_range fs1 ino a → P1 a)
    (hok : volume_ok fs1 P1) (hfree : free_blocks_ready fs1 (m + 1)) :
    ∃ fs2 X2, set_block_number fs1 X ino k b = some (E_SUCCESS, fs2, X2) ∧
      block_mapped_post fs1 P1 X ino k b m fs2 X2 := by
  subst hk
  obtain ⟨b2, fsb, halloc, hb2, hb2fit, hgeob, hzero, hb2free, hframe, hokb, hfreeb⟩ :=
    allocate_block_safe fs1 P1 m hok hfree
  have hbs : 0 < fs1.block_size := hadr.1
  obtain ⟨hb2u, -⟩ := block_start_of_fits fs1 b2 hb2fit hbs
  have hb232 : b2 < 4294967296 := by rw [← hb2u]; exact Nat.mod_lt _ (by decide)
  have hT : inode_block (set_inode_block X 12 b2) 12 = b2 := inode_block_set_same _ _ _ hb232
  have hgeoc : same_geometry fsb (write_inode fsb (set_inode_block X 12 b2) ino).2 :=
    same_geometry_write_inode _ _ _
  have hgeo1c := same_geometry_trans hgeob hgeoc
  obtain ⟨fsY, hY, hmeta, hout, hgbn⟩ :=
    set_block_number_single_effect (write_inode fsb (set_inode_block X 12 b2) ino).2
      (set_inode_block X 12 b2) 12 b (le_refl _) (by rw [hgeo1c.ppb]; omega)
      (by rw [hgeo1c.ppb]; exact hP2) (by rw [hgeo1c.ppb, hgeo1c.bs]; exact hP3)
      (by rw [hT]; exact hb2) hb32
  rw [hT] at hout
  have hgeoY : same_geometry (write_inode fsb (set_inode_block X 12 b2) ino).2 fsY :=
    same_geometry_of_meta hmeta
  have hgeo := same_geometry_trans hgeo1c hgeoY
  have hadrb : inode_addressable fsb ino := (inode_addressable_geom hgeob ino).2 hadr
  have hnotP : ∀ a, in_block fs1 b2 a → ¬ P1 a :=
    fun a ha hc => (hok.2.2.2.2.2 a hc).2.2 (hb2free a ha)
  -- the device after the three steps, outside the record and the new table block
  have hdevY : ∀ a, ¬ record_range fs1 ino a → ¬ in_block fs1 b2 a →
      fsY.block_device a = fsb.block_device a := by
    intro a h1 h2
    rw [hout a (by rw [in_block_geom hgeo1c]; exact h2)]
    exact write_inode_outside_record _ _ _ _ hadrb (by rw [record_range_geom hgeob]; exact h1)
  have hbm : ∀ a, block_bitmap_range fsb a → fsY.block_device a = fsb.block_device a := by
    intro a ha
    apply hdevY
    · intro hc
      exact (hokb.2.2.2.2.2 a (Or.inl (hrec a hc))).2.1 ha
    · intro hc
      exact (hokb.2.2.2.2.2 a (Or.inr hc)).2.1 ha
  have hbg : fsY.block_groups = fsb.block_groups := by
    rw [hmeta]
    show (write_inode fsb (set_inode_block X 12 b2) ino).2.block_groups = _
    exact write_inode_block_groups _ _ _
  refine ⟨fsY, set_inode_block X 12 b2, ?_, hgeo, ?_, ?_, ?_, ?_, ?_, ?_, ?_, ?_, ?_⟩
  · unfold set_block_number
    simp only [EXT2_DIRECT_BLOCKS]
    rw [if_neg (by omega), u32_of_lt hP2, if_pos (by omega), if_pos htab, halloc]
    dsimp only
    rw [hb2u, if_neg hb2, hY]
  · exact record_shaped_set32 hX _ _ (by omega)
  · intro j hj
    exact set32_outside _ _ _ _ (by omega)
  · intro j hj
    rw [get_block_number_direct _ _ j hj, get_block_number_direct _ _ j hj]
    exact inode_block_set_other _ _ _ _ (by omega)
  · rw [hgbn 12 (le_refl _) (by rw [hgeo1c.ppb]; omega), if_pos rfl]
  · intro _; rw [hT]; exact hb2
  · intro a ha
    rw [hT] at ha
    exact Or.inr ⟨hb2free a ha, hnotP a ha⟩
  · intro a h1 h2 _
    rw [hdevY a h2 (fun hc => hnotP a hc h1)]
    exact hframe a h1
  · rw [hT]
    exact volume_ok_frame (same_geometry_trans hgeoc hgeoY) _ hbm hokb
  · exact free_blocks_ready_frame (same_geometry_trans hgeoc hgeoY) m hbm
      (fun g => free_count_of_block_groups hbg g) hfreeb

theorem inode_blocks_set (X : Buf) (t : Nat) (ht : t < 4294967296) :
    inode_blocks (set32 X 28 t) = t := by
  unfold inode_blocks
  rw [get32_set32_same, Nat.mod_eq_of_lt ht]

theorem inode_block_set_blocks (X : Buf) (t j : Nat) :
    inode_block (set32 X 28 t) j = inode_block X j := by
  unfold inode_block
  apply get32_set32_other
  omega

/-- The effect of `allocate_inode_block` for block `k` of a directory of fewer
than 256 blocks on a consistent volume with two free blocks ready. -/
theorem allocate_inode_block_next (fs : ext2_fs_t) (P : Nat → Prop) (X : Buf) (ino k m : Nat)
    (hadr : inode_addressable fs ino) (hisz : 128 ≤ fs.inode_size) (hX : record_shaped fs X)
    (hP1 : 256 ≤ 12 + fs.pointers_per_block) (hP2 : 12 + fs.pointers_per_block < 4294967296)
    (hP3 : 4 * fs.pointers_per_block ≤ fs.block_size) (hk : k < 256)
    (hbs512 : 512 ≤ fs.block_size)
    (htab : 12 < k → inode_block X 12 ≠ 0)
    (hrec : ∀ a, record_range fs ino a → P a)
    (htabP : ∀ a, in_block fs (inode_block X 12) a → P a)
    (hrt : ∀ a, record_range fs ino a → ¬ in_block fs (inode_block X 12) a)
    (hok : volume_ok fs P)
    (hfree : free_blocks_ready fs (m + 1 + (if k < 12 then 0 else 1))) :
    ∃ fs1 X1 b, allocate_inode_block fs X ino k = some (E_SUCCESS, fs1, X1) ∧
      same_geometry fs fs1 ∧ read_inode fs1 ino = X1 ∧ record_shaped fs X1 ∧
      (∀ j, ¬ (28 ≤ j ∧ j < 32) → ¬ (40 ≤ j ∧ j < 92) → X1 j = X j) ∧
      k < inode_blocks X1 / (fs.block_size / 512) ∧ inode_blocks X ≤ inode_blocks X1 ∧
      (∀ j, j < k → get_block_number fs1 X1 j = get_block_number fs X j) ∧
      get_block_number fs1 X1 k = b ∧ b ≠ 0 ∧ (b + 1) * fs.block_size ≤ 4294967296 ∧
      (∀ a, in_block fs b a → fs1.block_device a = 0 ∧ ¬ P a) ∧
      (12 ≤ k → inode_block X1 12 ≠ 0) ∧
      (∀ a, in_block fs (inode_block X1 12) a →
        in_block fs (inode_block X 12) a ∨ (¬ P a ∧ ¬ in_block fs b a)) ∧
      (∀ a, P a → ¬ record_range fs ino a → ¬ in_block fs (inode_block X 12) a →
        fs1.block_device a = fs.block_device a) ∧
      volume_ok fs1 (fun a => P a ∨ in_block fs b a ∨ in_block fs (inode_block X1 12) a) ∧
      free_blocks_ready fs1 m := by
  have hbs : 0 < fs.block_size := hadr.1
  obtain ⟨b, fsa, halloc, hb, hbfit, hgeoa, hzero, hbfree, hframe, hoka, hfreea⟩ :=
    allocate_block_safe fs P (m + (if k < 12 then 0 else 1)) hok
      (by rw [Nat.add_right_comm]; exact hfree)
  obtain ⟨hbu, -⟩ := block_start_of_fits fs b hbfit hbs
  have hb32 : b < 4294967296 := by rw [← hbu]; exact Nat.mod_lt _ (by decide)
  have hnotP : ∀ a, in_block fs b a → ¬ P a :=
    fun a ha hc => (hok.2.2.2.2.2 a hc).2.2 (hbfree a ha)
  have hadra : inode_addressable fsa ino := (inode_addressable_geom hgeoa ino).2 hadr
  have hXa : record_shaped fsa X := (record_shaped_geom hgeoa X).2 hX
  -- the mapping step
  have hstep : ∃ fs2 X2, set_block_number fsa X ino k b = some (E_SUCCESS, fs2, X2) ∧
      block_mapped_post fsa (fun a => P a ∨ in_block fs b a) X ino k b m fs2 X2 := by
    by_cases hk12 : k < 12
    · exact set_block_number_direct_case fsa _ X ino k b m (by rw [hgeoa.isz]; exact hisz) hXa
        (by rw [hgeoa.ppb]; exact hP2) hk12 hb32
        (fun a ha => Or.inl (htabP a ((in_block_geom hgeoa _ _).1 ha))) hoka
        (by rw [if_pos hk12] at hfreea; exact hfreea)
    · by_cases ht : inode_block X 12 = 0
      · have hk12b : k = 12 := by
          by_contra hne
          exact htab (by omega) ht
        exact set_block_number_grow_case fsa _ X ino k b m hadra
          (by rw [hgeoa.isz]; exact hisz) hXa (by rw [hgeoa.ppb]; omega)
          (by rw [hgeoa.ppb]; exact hP2) (by rw [hgeoa.ppb, hgeoa.bs]; exact hP3) hk12b ht hb32
          (fun a ha => Or.inl (hrec a ((record_range_geom hgeoa _ _).1 ha))) hoka
          (by rw [if_neg hk12] at hfreea; exact hfreea)
      · exact set_block_number_table_case fsa _ X ino k b m hXa
          (by rw [hgeoa.ppb]; exact hP2) (by rw [hgeoa.ppb, hgeoa.bs]; exact hP3)
          (by omega) (by rw [hgeoa.ppb]; omega) ht hb32
          (fun a ha => Or.inl (htabP a ((in_block_geom hgeoa _ _).1 ha))) hoka
          (by rw [if_neg hk12] at hfreea; exact hfreea)
  obtain ⟨fs2, X2, hsbn, hgeo2, hX2, hfields, hlow, hat, htab2, hloc, hframe2, hok2, hfree2⟩ := hstep
  have hgeo02 := same_geometry_trans hgeoa hgeo2
  have hadr2 : inode_addressable fs2 ino := (inode_addressable_geom hgeo02 ino).2 hadr
  -- the block count
  have hbs32 : fs.block_size < 4294967296 := (addressable_facts fs ino hadr).2.2.2.2.2.2.2.2.2.1
  have hu : 0 < fs.block_size / 512 := Nat.div_pos hbs512 (by decide)
  have ht32 : (k + 1) * (fs.block_size / 512) < 4294967296 := by
    have h1 : (k + 1) * (fs.block_size / 512) ≤ 256 * (fs.block_size / 512) :=
      Nat.mul_le_mul_right _ (by omega)
    have h2 := Nat.div_mul_le_self fs.block_size 512
    omega
  generalize hX3 : (if inode_blocks X2 < u32 ((k + 1) * (fs2.block_size / 512))
      then set32 X2 28 (u32 ((k + 1) * (fs2.block_size / 512))) else X2) = X3
  have hX3b : inode_blocks X2 ≤ inode_blocks X3 ∧ (k + 1) * (fs.block_size / 512) ≤ inode_blocks X3 ∧
      (∀ j, inode_block X3 j = inode_block X2 j) ∧
      (∀ j, ¬ (28 ≤ j ∧ j < 32) → X3 j = X2 j) ∧ record_shaped fs X3 := by
    rw [hgeo02.bs, u32_of_lt ht32] at hX3
    by_cases hc : inode_blocks X2 < (k + 1) * (fs.block_size / 512)
    · rw [if_pos hc] at hX3
      subst hX3
      rw [inode_blocks_set _ _ ht32]
      refine ⟨by omega, le_refl _, fun j => inode_block_set_blocks _ _ _,
        fun j hj => set32_outside _ _ _ _ (by omega), ?_⟩
      exact record_shaped_set32 ((record_shaped_geom hgeoa _).1 hX2) _ _ (by omega)
    · rw [if_neg hc] at hX3
      subst hX3
      exact ⟨le_refl _, by omega, fun _ => rfl, fun _ _ => rfl, (record_shaped_geom hgeoa _).1 hX2⟩
  obtain ⟨hb1, hb2, hptr, hother, hshape3⟩ := hX3b
  have hblocksX : inode_blocks X2 = inode_blocks X := by
    unfold inode_blocks
    apply get32_congr
    intro i hi
    unfold get8
    rw [hfields (28 + i) (by omega)]
  -- the table block of the new record lies apart from the record
  have htabrec : ∀ a, record_range fs ino a → ¬ in_block fs (inode_block X2 12) a := by
    intro a ha hc
    rcases hloc a ((in_block_geom hgeoa _ _).2 hc) with h1 | ⟨-, h2⟩
    · exact hrt a ha ((in_block_geom hgeoa _ _).1 h1)
    · exact h2 (Or.inl (hrec a ha))
  have hdev3 : ∀ a, ¬ record_range fs ino a →
      (write_inode fs2 X3 ino).2.block_device a = fs2.block_device a := by
    intro a ha
    exact write_inode_outside_record _ _ _ _ hadr2 (by rw [record_range_geom hgeo02]; exact ha)
  have hgeo3 : same_geometry fs2 (write_inode fs2 X3 ino).2 := same_geometry_write_inode _ _ _
  have hgbn3 : ∀ j, j ≤ k → get_block_number (write_inode fs2 X3 ino).2 X3 j
      = get_block_number fs2 X2 j := by
    intro j hj
    rw [get_block_number_inode_congr _ X2 X3 j (by rw [hgeo3.ppb, hgeo02.ppb]; omega)
      (by rw [hgeo3.ppb, hgeo02.ppb]; exact hP2) (fun i _ => hptr i)]
    apply get_block_number_geom hgeo3 X2 j (by rw [hgeo02.ppb]; omega)
      (by rw [hgeo02.ppb]; exact hP2) (by rw [hgeo02.ppb, hgeo02.bs]; exact hP3)
    intro _ a ha
    apply hdev3
    intro hc
    exact htabrec a hc ((in_block_geom hgeo02 _ _).1 ha)
  have hbm : ∀ a, block_bitmap_range fs2 a →
      (write_inode fs2 X3 ino).2.block_device a = fs2.block_device a := by
    intro a ha
    apply hdev3
    intro hc
    exact (hok2.2.2.2.2.2 a (Or.inl (Or.inl (hrec a hc)))).2.1 ha
  refine ⟨(write_inode fs2 X3 ino).2, X3, b, ?_, same_geometry_trans hgeo02 hgeo3, ?_, hshape3,
    ?_, ?_, by omega, ?_, ?_, hb, hbfit, ?_, ?_, ?_, ?_, ?_, ?_⟩
  · unfold allocate_inode_block
    rw [halloc]
    dsimp only
    rw [hbu, if_neg hb, hsbn]
    dsimp only
    rw [hX3]
  · exact read_after_write_inode fs2 X3 ino hadr2 ((record_shaped_geom hgeo02 _).2 hshape3)
  · intro j h1 h2
    rw [hother j h1, hfields j h2]
  · show k + 1 ≤ _
    exact (Nat.le_div_iff_mul_le hu).2 hb2
  · intro j hj
    rw [hgbn3 j (by omega), hlow j hj]
    apply get_block_number_geom hgeoa X j (by omega) hP2 hP3
    intro _ a ha
    exact hframe a (htabP a ha)
  · rw [hgbn3 k (le_refl _), hat]
  · intro a ha
    refine ⟨?_, hnotP a ha⟩
    have hnr : ¬ record_range fs ino a := fun hc => hnotP a ha (hrec a hc)
    rw [hdev3 a hnr, hframe2 a (Or.inr ha) (by rw [record_range_geom hgeoa]; exact hnr)
      (by rw [in_block_geom hgeoa]; exact fun hc => hnotP a ha (htabP a hc))]
    exact hzero a ha
  · intro h12
    rw [hptr]; exact htab2 h12
  · intro a ha
    rw [hptr] at ha
    rcases hloc a ((in_block_geom hgeoa _ _).2 ha) with h1 | ⟨-, h2⟩
    · exact Or.inl ((in_block_geom hgeoa _ _).1 h1)
    · exact Or.inr ⟨fun hc => h2 (Or.inl hc), fun hc => h2 (Or.inr hc)⟩
  · intro a h1 h2 h3
    rw [hdev3 a h2, hframe2 a (Or.inl h1) (by rw [record_range_geom hgeoa]; exact h2)
      (by rw [in_block_geom hgeoa]; exact h3)]
    exact hframe a h1
  · apply volume_ok_frame hgeo3 _ hbm
    apply volume_ok_mono _ hok2
    intro a ha
    rcases ha with ha | ha | ha
    · exact Or.inl (Or.inl ha)
    · exact Or.inl (Or.inr ha)
    · rw [hptr] at ha
      exact Or.inr ((in_block_geom hgeoa _ _).2 ha)
  · exact free_blocks_ready_frame hgeo3 m hbm
      (fun g => free_count_of_block_groups (write_inode_block_groups _ _ _) g) hfree2

/-! ## The effect of create_entry -/

theorem dir_chain_extend (v w : Buf) (bs size : Nat) (hbs : 0 < bs) (hmul : size % bs = 0)
    (hagree : ∀ x, x < size → w x = v x)
    (hrl : dirent_rec_len w size = bs) (hnl : 8 + dirent_name_len w size ≤ bs) :
    ∀ f pos l, dir_chain v bs size f pos = some l →
      dir_chain w bs (size + bs) (f + 1) pos = some (l ++ [size]) := by
  intro f
  induction f with
  | zero => intro pos l h; simp [dir_chain] at h
  | succ f ih =>
    intro pos l h
    unfold dir_chain at h
    by_cases hend : pos = size
    · rw [if_pos hend] at h
      have hl : l = [] := by simpa using h.symm
      subst hl
      subst hend
      unfold dir_chain
      rw [if_neg (by omega), if_pos ⟨by omega, by omega, by omega⟩, hrl]
      unfold dir_chain
      rw [if_pos rfl]
      rfl
    · rw [if_neg hend] at h
      by_cases hc : pos < size ∧ 8 + dirent_name_len v pos ≤ dirent_rec_len v pos ∧
          pos % bs + dirent_rec_len v pos ≤ bs
      · rw [if_pos hc] at h
        obtain ⟨h1, h2, h3⟩ := hc
        have hblk := size_block_bound bs size (pos / bs) hbs hmul (by
          have := Nat.div_mul_le_self pos bs; omega)
        have hdm := Nat.div_add_mod pos bs
        have hin : pos + dirent_rec_len v pos ≤ size := by
          rw [Nat.add_mul, Nat.one_mul, Nat.mul_comm] at hblk; omega
        obtain ⟨-, e2, e3, -⟩ := record_congr v w pos h2 (fun x _ hx => hagree x (by omega))
        cases hrec : dir_chain v bs size f (pos + dirent_rec_len v pos) with
        | none => rw [hrec] at h; simp at h
        | some l2 =>
          rw [hrec] at h
          have hl : l = pos :: l2 := by simpa using h.symm
          subst hl
          unfold dir_chain
          rw [if_neg (by omega), e2, e3, if_pos ⟨by omega, h2, h3⟩, ih _ _ hrec]
          rfl
      · rw [if_neg hc] at h; simp at h

/-- In a chain that starts at a multiple of 4 at or before the end of the
first block and reaches past it, with record lengths that are multiples of 4,
the block size is a multiple of 4. -/
theorem block_size_aligned (v : Buf) (bs size : Nat) (hsize : bs ≤ size) :
    ∀ f pos l, dir_chain v bs size f pos = some l → rec_lens_aligned v l →
      pos ≤ bs → pos % 4 = 0 → bs % 4 = 0 := by
  intro f
  induction f with
  | zero => intro pos l h; simp [dir_chain] at h
  | succ f ih =>
    intro pos l h hal hpos h4
    unfold dir_chain at h
    by_cases hend : pos = size
    · have : pos = bs := by omega
      rw [← this]; exact h4
    · rw [if_neg hend] at h
      by_cases hc : pos < size ∧ 8 + dirent_name_len v pos ≤ dirent_rec_len v pos ∧
          pos % bs + dirent_rec_len v pos ≤ bs
      · rw [if_pos hc] at h
        obtain ⟨h1, h2, h3⟩ := hc
        cases hrec : dir_chain v bs size f (pos + dirent_rec_len v pos) with
        | none => rw [hrec] at h; simp at h
        | some l2 =>
          rw [hrec] at h
          have hl : l = pos :: l2 := by simpa using h.symm
          subst hl
          by_cases hpb : pos = bs
          · rw [← hpb]; exact h4
          · have hlt : pos < bs := by omega
            rw [Nat.mod_eq_of_lt hlt] at h3
            have hr4 := (hal pos (List.mem_cons_self _ _)).1
            exact ih _ _ hrec (fun q hq => hal q (List.mem_cons_of_mem _ hq)) h3 (by omega)
      · rw [if_neg hc] at h; simp at h

theorem agrees_fields {bs base : Nat} {b w : Buf} (h : agrees bs base b w) (off : Nat)
    (hoff : off + 8 ≤ bs) :
    dirent_inode w (base + off) = dirent_inode b off ∧
    dirent_rec_len w (base + off) = dirent_rec_len b off ∧
    dirent_name_len w (base + off) = dirent_name_len b off := by
  refine ⟨?_, ?_, ?_⟩
  · unfold dirent_inode
    apply get32_congr
    intro i hi
    unfold get8
    rw [h (off + i) (by omega), Nat.add_assoc]
  · unfold dirent_rec_len
    apply get16_congr
    intro i hi
    unfold get8
    rw [h (off + 4 + i) (by omega)]
    congr 2
    omega
  · unfold dirent_name_len get8
    rw [h (off + 6) (by omega), Nat.add_assoc]

/-- A well-formed directory that is not empty lives on blocks of at least 512
bytes. -/
theorem block_size_of_mapped (fs : ext2_fs_t) (inode : Buf)
    (hmap : blocks_mapped fs inode (inode_size_field inode)) (h : 0 < inode_size_field inode) :
    512 ≤ fs.block_size := by
  have := (hmap 0 (by omega)).1
  by_contra hc
  have hz : fs.block_size / 512 = 0 := Nat.div_eq_of_lt (by omega)
  rw [hz, Nat.div_zero] at this
  omega

theorem last_block_index (bs size q rl : Nat) (hbs : 0 < bs) (hend : q + rl = size)
    (hfill : q % bs + rl = bs) : size = (q / bs + 1) * bs ∧ size / bs = q / bs + 1 := by
  have hdm := Nat.div_add_mod q bs
  have h1 : size = (q / bs + 1) * bs := by
    rw [Nat.add_mul, Nat.one_mul, Nat.mul_comm]; omega
  refine ⟨h1, ?_⟩
  rw [h1]
  exact Nat.mul_div_cancel _ hbs

theorem inode_record_addr_geom {fs fs2 : ext2_fs_t} (h : same_geometry fs fs2) (n : Nat) :
    inode_record_addr fs2 n = inode_record_addr fs n := by
  unfold inode_record_addr
  simp only [h.ipg, h.isz, h.bs, h.itb]

theorem dir_storage_record {fs : ext2_fs_t} {ino a : Nat} (h : record_range fs ino a) :
    dir_storage fs ino (inode_record_addr fs ino) a := Or.inl h

/-- The effect of `create_entry` when the last record of the directory has
slack but not enough room for the new record: the directory gets a new block
that holds the new record alone, and stays ready. -/
theorem create_entry_new_block (fuel : Nat) (fs : ext2_fs_t) (P : Nat → Prop) (ino : Nat)
    (l : List Nat) (q : Nat) (name : List Nat) (n m : Nat)
    (hready : dir_ready fs P ino l) (hlast : l.getLast? = some q)
    (hslack : dirent_rec_len (file_view fs (read_inode fs ino)) q
      ≠ min_rec_len (dirent_name_len (file_view fs (read_inode fs ino)) q))
    (hfuel : l.length < fuel) (hname : strlen name < 256)
    (hfull : fs.block_size ≤ q % fs.block_size
      + min_rec_len (dirent_name_len (file_view fs (read_inode fs ino)) q)
      + min_rec_len (strlen name))
    (hsmall : inode_size_field (read_inode fs ino) < 256 * fs.block_size)
    (hbs16 : fs.block_size < 65536)
    (hfree : free_blocks_ready fs (m + 2)) :
    ∃ fs3, create_entry fuel fs ino (some name) n = some (E_NOSPACE, fs3) ∧
      same_geometry fs fs3 ∧
      dir_ready fs3 (fun a => P a ∨ dir_storage fs3 ino (inode_record_addr fs3 ino) a) ino
        (l ++ [inode_size_field (read_inode fs ino)]) ∧
      (∀ a, P a → ¬ dir_storage fs ino (inode_record_addr fs ino) a →
        fs3.block_device a = fs.block_device a) ∧
      free_blocks_ready fs3 m ∧
      (∀ x, x < inode_size_field (read_inode fs ino) →
        file_view fs3 (read_inode fs3 ino) x = file_view fs (read_inode fs ino) x) ∧
      (∀ i, i < fs.block_size →
        file_view fs3 (read_inode fs3 ino) (inode_size_field (read_inode fs ino) + i)
          = with_entry (fun _ => 0) 0 n fs.block_size name i) ∧
      inode_size_field (read_inode fs3 ino) = inode_size_field (read_inode fs ino) + fs.block_size ∧
      (∀ j, ¬ (4 ≤ j ∧ j < 8) → ¬ (28 ≤ j ∧ j < 32) → ¬ (40 ≤ j ∧ j < 92) →
        read_inode fs3 ino j = read_inode fs ino j) ∧
      (∀ a, dir_storage fs3 ino (inode_record_addr fs3 ino) a →
        dir_storage fs ino (inode_record_addr fs ino) a ∨ ¬ P a) := by
  obtain ⟨hadr, hisz, hmode, hwf, hal, hlay, hrt, htab, hP, hok⟩ := hready
  obtain ⟨hbs, hmul, h256, hmap, hchain⟩ := hwf
  obtain ⟨hslot, hP1, hP2, hP3, hdist, hdir⟩ := hlay
  obtain ⟨hq, hqend⟩ := dir_chain_last _ _ _ _ _ _ q hchain hlast
  obtain ⟨-, hqsize, hqlen, hqfit, -⟩ := dir_chain_mem _ _ _ _ _ _ hchain q hq
  obtain ⟨hal4, halmin⟩ := hal q hq
  have hmslb := min_rec_len_bounds (dirent_name_len (file_view fs (read_inode fs ino)) q)
  have hnameb := min_rec_len_bounds (strlen name)
  have hnl : dirent_name_len (file_view fs (read_inode fs ino)) q < 256 := get8_lt _ _
  have hfill := last_fills_block _ _ _ _ hbs hmul hqend hqfit (by omega)
  have hsz : inode_size_field (read_inode fs ino) < 4294967296 := get32_lt _ _
  have hbs512 := block_size_of_mapped fs _ hmap (by omega)
  have hbs32 : fs.block_size < 4294967296 := (addressable_facts fs ino hadr).2.2.2.2.2.2.2.2.2.1
  obtain ⟨hsizek, hkdiv⟩ := last_block_index _ _ _ _ hbs hqend hfill
  have hk256 : q / fs.block_size + 1 < 256 := by
    have hsm := hsmall
    rw [hsizek] at hsm
    exact Nat.lt_of_mul_lt_mul_right hsm
  obtain ⟨B, m', hB, hloop⟩ := create_entry_loop_refines fs (read_inode fs ino) hbs h256 hmul hmap
    _ 0 l q hchain hlast hal fuel 0 0
    (inode_read_block fs (read_inode fs ino) 0 fs.malloc_junk).2 0 hfuel
    (scan_at_start fs _ _ hmap (by omega))
  rw [if_pos hslack] at hloop
  obtain ⟨fs1, X1, b, hNB, hgeo1, hread1, hshape1, hfields1, hcount1, -, hlow1, hat1, hb0, hbfit,
    hbz, htab1, hloc1, hframe1, hok1, hfree1⟩ :=
    allocate_inode_block_next fs P (read_inode fs ino) ino (q / fs.block_size + 1) m hadr hisz
      (record_shaped_read fs ino hadr) hP1 hP2 hP3 hk256 hbs512
      (fun h12 => htab (by
        rw [hsizek]
        exact Nat.mul_lt_mul_of_pos_right (by omega) hbs))
      (fun a ha => hP a (Or.inl ha)) (fun a ha => hP a (Or.inr (Or.inl ha))) hrt hok
      (free_blocks_ready_le (by split <;> omega) hfree)
  obtain ⟨fuel', hfuel'⟩ : ∃ fuel', fuel = fuel' + 1 := ⟨fuel - 1, by omega⟩
  have hsize1 : inode_size_field X1 = inode_size_field (read_inode fs ino) := by
    unfold inode_size_field
    apply get32_congr
    intro i hi
    unfold get8
    rw [hfields1 (4 + i) (by omega) (by omega)]
  have hgeo2 := same_geometry_write_inode fs1
    (set32 X1 4 (inode_size_field (read_inode fs ino) + fs.block_size)) ino
  have hblocksF : inode_blocks (set32 X1 4 (inode_size_field (read_inode fs ino) + fs.block_size))
      = inode_blocks X1 := by
    unfold inode_blocks
    apply get32_set32_other; omega
  have hcall : create_entry fuel fs ino (some name) n = some (E_NOSPACE,
      (write_block (write_inode fs1
        (set32 X1 4 (inode_size_field (read_inode fs ino) + fs.block_size)) ino).2
        (get_block_number (write_inode fs1
          (set32 X1 4 (inode_size_field (read_inode fs ino) + fs.block_size)) ino).2
          (set32 X1 4 (inode_size_field (read_inode fs ino) + fs.block_size))
          (q / fs.block_size + 1))
        (with_entry (memset B 0 0 fs.block_size) 0 n fs.block_size name)).2) := by
    unfold create_entry
    dsimp only
    rw [if_neg hmode, entry_rec_len_eq _ (by omega), hloop]
    dsimp only
    have hge : u32 (q % fs.block_size
        + min_rec_len (dirent_name_len (file_view fs (read_inode fs ino)) q)
        + min_rec_len (strlen name)) ≥ fs.block_size := by
      rw [u32_of_lt (by omega)]; exact hfull
    have hu8 : u8 (q / fs.block_size + 1) = q / fs.block_size + 1 := Nat.mod_eq_of_lt hk256
    rw [if_pos rfl, if_pos hge]
    rw [hu8, hNB]
    dsimp only
    rw [hsize1, hgeo1.bs, u32_of_lt (by omega), hgeo2.bs, hgeo1.bs, sub32_of_le hbs32 (Nat.zero_le _),
      hfuel', inode_write_block_present _ _ _ _ _ _ (by
        rw [hblocksF, hgeo2.bs, hgeo1.bs]; exact hcount1)]
    rfl
  generalize hXF : set32 X1 4 (inode_size_field (read_inode fs ino) + fs.block_size) = XF
    at hcall hgeo2 hblocksF
  generalize hE : with_entry (memset B 0 0 fs.block_size) 0 n fs.block_size name = E at hcall
  have hadr1 : inode_addressable fs1 ino := (inode_addressable_geom hgeo1 ino).2 hadr
  have hXFshape : record_shaped fs XF := by
    rw [← hXF]; exact record_shaped_set32 hshape1 _ _ (by omega)
  have hread2 : read_inode (write_inode fs1 XF ino).2 ino = XF :=
    read_after_write_inode fs1 XF ino hadr1 ((record_shaped_geom hgeo1 _).2 hXFshape)
  have hXFblock : ∀ j, inode_block XF j = inode_block X1 j := by
    intro j; rw [← hXF]; unfold inode_block; apply get32_set32_other; omega
  have hXFsize : inode_size_field XF = inode_size_field (read_inode fs ino) + fs.block_size := by
    have hlt : inode_size_field (read_inode fs ino) + fs.block_size < 4294967296 := by omega
    rw [← hXF]
    show get32 (set32 X1 4 _) 4 = _
    rw [get32_set32_same, Nat.mod_eq_of_lt hlt]
  have hXFfields : ∀ j, ¬ (4 ≤ j ∧ j < 8) → XF j = X1 j := by
    intro j hj; rw [← hXF]; exact set32_outside _ _ _ _ (by omega)
  have hgeo02 := same_geometry_trans hgeo1 hgeo2
  have hbnP : ∀ a, in_block fs b a → ¬ P a := fun a ha => (hbz a ha).2
  have hrecP : ∀ a, record_range fs ino a → P a := fun a ha => hP a (Or.inl ha)
  have htabrec : ∀ a, record_range fs ino a → ¬ in_block fs (inode_block X1 12) a := by
    intro a ha hc
    rcases hloc1 a hc with h1 | ⟨h2, -⟩
    · exact hrt a ha h1
    · exact h2 (hrecP a ha)
  have htabb : ∀ a, in_block fs (inode_block X1 12) a → ¬ in_block fs b a := by
    intro a ha hc
    rcases hloc1 a ha with h1 | ⟨-, h2⟩
    · exact hbnP a hc (hP a (Or.inr (Or.inl h1)))
    · exact h2 hc
  have hdev2 : ∀ a, ¬ record_range fs ino a →
      (write_inode fs1 XF ino).2.block_device a = fs1.block_device a := by
    intro a ha
    exact write_inode_outside_record _ _ _ _ hadr1 (by rw [record_range_geom hgeo1]; exact ha)
  have hgbn2 : ∀ j, j ≤ q / fs.block_size + 1 →
      get_block_number (write_inode fs1 XF ino).2 XF j = get_block_number fs1 X1 j := by
    intro j hj
    rw [get_block_number_inode_congr _ X1 XF j (by rw [hgeo02.ppb]; omega)
      (by rw [hgeo02.ppb]; exact hP2) (fun i _ => hXFblock i)]
    apply get_block_number_geom hgeo2 X1 j (by rw [hgeo1.ppb]; omega)
      (by rw [hgeo1.ppb]; exact hP2) (by rw [hgeo1.ppb, hgeo1.bs]; exact hP3)
    intro _ a ha
    apply hdev2
    intro hc
    exact htabrec a hc ((in_block_geom hgeo1 _ _).1 ha)
  rw [hgbn2 _ (le_refl _), hat1] at hcall
  have hgeo3 := same_geometry_write_block (write_inode fs1 XF ino).2 b E
  have hdev3 : ∀ a, ¬ in_block fs b a → (write_block (write_inode fs1 XF ino).2 b E).2.block_device a
      = (write_inode fs1 XF ino).2.block_device a := by
    intro a ha
    exact write_block_device_outside _ _ _ _ (by rw [in_block_geom hgeo02]; exact ha)
  have hbstart := block_start_of_fits fs b hbfit hbs
  have hdev3in : ∀ i, i < fs.block_size →
      (write_block (write_inode fs1 XF ino).2 b E).2.block_device (block_start fs b + i) = E i := by
    intro i hi
    rw [write_block_device_inside _ _ _ _ (by
      rw [in_block_geom hgeo02]
      exact ⟨by rw [hbstart.1]; exact hb0, by omega, by omega⟩), block_start_geom hgeo02]
    congr 1; omega
  generalize hfs3 : (write_block (write_inode fs1 XF ino).2 b E).2 = fs3
    at hcall hgeo3 hdev3 hdev3in
  have hgeo03 := same_geometry_trans hgeo02 hgeo3
  have hslot2 : inode_slot (write_inode fs1 XF ino).2 ino = some (inode_record_addr fs ino) := by
    rw [inode_slot_geom hgeo02]; exact hslot
  have hread3 : read_inode fs3 ino = XF := by
    rw [read_inode_geom hgeo3 ino _ hslot2 (fun a h1 h2 => hdev3 a (fun hc =>
      hbnP a hc (hrecP a ⟨h1, by rw [hgeo02.isz] at h2; exact h2⟩)))]
    exact hread2
  have hgbn3 : ∀ j, j ≤ q / fs.block_size + 1 →
      get_block_number fs3 XF j = get_block_number fs1 X1 j := by
    intro j hj
    rw [← hgbn2 j hj]
    apply get_block_number_geom hgeo3 XF j (by rw [hgeo02.ppb]; omega)
      (by rw [hgeo02.ppb]; exact hP2) (by rw [hgeo02.ppb, hgeo02.bs]; exact hP3)
    intro _ a ha
    rw [hXFblock, in_block_geom hgeo02] at ha
    exact hdev3 a (htabb a ha)
  have haddr_old : ∀ x, x < inode_size_field (read_inode fs ino) →
      file_byte_addr fs3 XF x = file_byte_addr fs (read_inode fs ino) x := by
    intro x hx
    have hxk : x / fs.block_size < q / fs.block_size + 1 := by
      rw [Nat.div_lt_iff_lt_mul hbs, ← hsizek]; exact hx
    unfold file_byte_addr
    rw [block_start_geom hgeo03, hgeo03.bs, hgbn3 _ (by omega), hlow1 _ hxk]
  have haddr_new : ∀ i, i < fs.block_size →
      file_byte_addr fs3 XF (inode_size_field (read_inode fs ino) + i) = block_start fs b + i := by
    intro i hi
    obtain ⟨e1, e2⟩ := div_mod_add (inode_size_field (read_inode fs ino)) i fs.block_size
      (by rw [hmul]; omega)
    unfold file_byte_addr
    rw [block_start_geom hgeo03, hgeo03.bs, e1, e2, hkdiv, hgbn3 _ (le_refl _), hat1, hmul,
      Nat.zero_add]
  have hold : ∀ x, x < inode_size_field (read_inode fs ino) →
      fs3.block_device (file_byte_addr fs (read_inode fs ino) x)
        = fs.block_device (file_byte_addr fs (read_inode fs ino) x) := by
    intro x hx
    have hPx : P (file_byte_addr fs (read_inode fs ino) x) := hP _ (Or.inr (Or.inr ⟨x, hx, rfl⟩))
    obtain ⟨h1, h2⟩ := hdir x hx
    rw [hdev3 _ (fun hc => hbnP _ hc hPx), hdev2 _ h1, hframe1 _ hPx h1 h2]
  have hview_old : ∀ x, x < inode_size_field (read_inode fs ino) →
      file_view fs3 XF x = file_view fs (read_inode fs ino) x := by
    intro x hx; unfold file_view; rw [haddr_old x hx]; exact hold x hx
  have hview_new : ∀ i, i < fs.block_size →
      file_view fs3 XF (inode_size_field (read_inode fs ino) + i) = E i := by
    intro i hi; unfold file_view; rw [haddr_new i hi]; exact hdev3in i hi
  have hsize_ge : fs.block_size ≤ inode_size_field (read_inode fs ino) := by
    rw [hsizek]; exact Nat.le_mul_of_pos_left _ (Nat.succ_pos _)
  have hsize_le : inode_size_field (read_inode fs ino) + fs.block_size ≤ 256 * fs.block_size := by
    have h := Nat.mul_le_mul_right fs.block_size (show q / fs.block_size + 1 + 1 ≤ 256 by omega)
    rw [Nat.add_mul _ 1, Nat.one_mul, ← hsizek] at h
    exact h
  have hbs4 : fs.block_size % 4 = 0 :=
    block_size_aligned _ _ _ hsize_ge _ 0 l hchain hal (Nat.zero_le _) rfl
  obtain ⟨-, hErl, hEnl⟩ := with_entry_fields (memset B 0 0 fs.block_size) 0 n fs.block_size name
  rw [hE] at hErl hEnl
  have hagE : agrees fs.block_size (inode_size_field (read_inode fs ino)) E (file_view fs3 XF) :=
    fun j hj => (hview_new j hj).symm
  obtain ⟨-, f2, f3⟩ := agrees_fields hagE 0 (by omega)
  simp only [Nat.add_zero] at f2 f3
  have hrlnew : dirent_rec_len (file_view fs3 XF) (inode_size_field (read_inode fs ino))
      = fs.block_size := by rw [f2, hErl, Nat.mod_eq_of_lt hbs16]
  have hnlnew : dirent_name_len (file_view fs3 XF) (inode_size_field (read_inode fs ino))
      = strlen name := by rw [f3, hEnl, Nat.mod_eq_of_lt hname]
  have hchain3 : dir_chain (file_view fs3 XF) fs.block_size
      (inode_size_field (read_inode fs ino) + fs.block_size)
      (inode_size_field (read_inode fs ino) + fs.block_size + 1) 0
      = some (l ++ [inode_size_field (read_inode fs ino)]) := by
    have h1 := dir_chain_extend (file_view fs (read_inode fs ino)) (file_view fs3 XF) fs.block_size
      _ hbs hmul hview_old hrlnew (by rw [hnlnew]; omega) _ 0 l hchain
    have hlen := dir_chain_length _ _ _ _ _ _ hchain
    exact dir_chain_fuel _ _ _ _ _ _ h1 _ (by
      rw [List.length_append, List.length_singleton]; omega)
  have hal3 : rec_lens_aligned (file_view fs3 XF) (l ++ [inode_size_field (read_inode fs ino)]) := by
    intro q2 hq2
    rw [List.mem_append] at hq2
    rcases hq2 with h | h
    · exact rec_lens_aligned_congr _ _ _ _ _ _ _ hchain hview_old hal q2 h
    · have hq2e : q2 = inode_size_field (read_inode fs ino) := by simpa using h
      rw [hq2e, hrlnew, hnlnew]
      exact ⟨hbs4, by omega⟩
  have hmode3 : inode_mode XF = inode_mode (read_inode fs ino) := by
    unfold inode_mode
    apply get16_congr
    intro i hi
    unfold get8
    rw [hXFfields _ (by omega), hfields1 _ (by omega) (by omega)]
  have hktab : 12 * fs.block_size < inode_size_field (read_inode fs ino) + fs.block_size →
      12 ≤ q / fs.block_size + 1 := by
    intro h
    by_contra hc
    have h2 := Nat.mul_le_mul_right fs.block_size (show q / fs.block_size + 1 + 1 ≤ 12 by omega)
    rw [Nat.add_mul _ 1, Nat.one_mul, ← hsizek] at h2
    omega
  -- the storage of the directory in the new state
  have hstore : ∀ a, dir_storage fs3 ino (inode_record_addr fs3 ino) a →
      P a ∨ in_block fs b a ∨ in_block fs (inode_block X1 12) a := by
    intro a ha
    rw [inode_record_addr_geom hgeo03] at ha
    rcases ha with ha | ha | ⟨x, hx, ha⟩
    · rw [hgeo03.isz] at ha
      exact Or.inl (hrecP a ha)
    · rw [hread3, hXFblock, in_block_geom hgeo03] at ha
      exact Or.inr (Or.inr ha)
    · rw [hread3] at hx ha
      rw [hXFsize] at hx
      by_cases hxs : x < inode_size_field (read_inode fs ino)
      · rw [haddr_old x hxs] at ha
        exact Or.inl (hP a (Or.inr (Or.inr ⟨x, hxs, ha⟩)))
      · have hx2 : x = inode_size_field (read_inode fs ino)
            + (x - inode_size_field (read_inode fs ino)) := by omega
        rw [hx2, haddr_new _ (by omega)] at ha
        exact Or.inr (Or.inl ⟨by rw [hbstart.1]; exact hb0, by omega, by omega⟩)
  have hbm3 : ∀ a, block_bitmap_range fs1 a → fs3.block_device a = fs1.block_device a := by
    intro a ha
    have h1 : ¬ in_block fs b a := fun hc => (hok1.2.2.2.2.2 a (Or.inr (Or.inl hc))).2.1 ha
    have h2 : ¬ record_range fs ino a :=
      fun hc => (hok1.2.2.2.2.2 a (Or.inl (hrecP a hc))).2.1 ha
    rw [hdev3 a h1, hdev2 a h2]
  have hbg3 : fs3.block_groups = fs1.block_groups := by
    rw [← hfs3, write_block_block_groups, write_inode_block_groups]
  have hinb : ∀ i, i < fs.block_size → in_block fs b (block_start fs b + i) :=
    fun i hi => ⟨by rw [hbstart.1]; exact hb0, by omega, by omega⟩
  have hEz : agrees fs.block_size 0 E (with_entry (fun _ => 0) 0 n fs.block_size name) := by
    rw [← hE]
    have h0 : agrees fs.block_size 0 (memset B 0 0 fs.block_size) (fun _ => 0) := by
      intro j hj; unfold memset; rw [if_pos ⟨Nat.zero_le _, by omega⟩]
    exact with_entry_agrees h0 0 n fs.block_size name
  have hgeo13 := same_geometry_trans hgeo2 hgeo3
  have hsplit : ∀ x, x < inode_size_field (read_inode fs ino) + fs.block_size →
      ¬ x < inode_size_field (read_inode fs ino) →
      ∃ i, i < fs.block_size ∧ x = inode_size_field (read_inode fs ino) + i :=
    fun x hx hxs => ⟨x - inode_size_field (read_inode fs ino), by omega, by omega⟩
  refine ⟨fs3, hcall, hgeo03, ⟨?_, ?_, ?_, ⟨?_, ?_, ?_, ?_, ?_⟩, ?_, ⟨?_, ?_, ?_, ?_, ?_, ?_⟩, ?_, ?_,
    fun a ha => Or.inr ha, ?_⟩, ?_, ?_, ?_, ?_, ?_, ?_, ?_⟩
  · exact (inode_addressable_geom hgeo03 ino).2 hadr
  · rw [hgeo03.isz]; exact hisz
  · rw [hread3, hmode3]; exact hmode
  · rw [hgeo03.bs]; exact hbs
  · rw [hread3, hXFsize, hgeo03.bs, Nat.add_mod_right]; exact hmul
  · rw [hread3, hXFsize, hgeo03.bs]; exact hsize_le
  · rw [hread3, hXFsize]
    intro j hj
    rw [hgeo03.bs] at hj ⊢
    have hjk : j < q / fs.block_size + 1 + 1 := by
      rw [hsizek, ← Nat.succ_mul] at hj
      exact Nat.lt_of_mul_lt_mul_right hj
    refine ⟨by rw [hblocksF]; omega, ?_⟩
    rw [hgbn3 j (by omega)]
    by_cases hjk2 : j < q / fs.block_size + 1
    · rw [hlow1 j hjk2]
      refine (hmap j ?_).2
      rw [hsizek]
      exact Nat.mul_lt_mul_of_pos_right hjk2 hbs
    · have : j = q / fs.block_size + 1 := by omega
      rw [this, hat1]; exact hb0
  · rw [hread3, hXFsize, hgeo03.bs]; exact hchain3
  · rw [hread3]; exact hal3
  · rw [inode_slot_geom hgeo03, inode_record_addr_geom hgeo03]; exact hslot
  · rw [hgeo03.ppb]; exact hP1
  · rw [hgeo03.ppb]; exact hP2
  · rw [hgeo03.ppb, hgeo03.bs]; exact hP3
  · rw [hread3, hXFsize]
    intro x y hx hy hxy
    by_cases hxs : x < inode_size_field (read_inode fs ino)
    · by_cases hys : y < inode_size_field (read_inode fs ino)
      · rw [haddr_old x hxs, haddr_old y hys] at hxy
        exact hdist x y hxs hys hxy
      · exfalso
        obtain ⟨i, hi, rfl⟩ := hsplit y hy hys
        rw [haddr_old x hxs, haddr_new i hi] at hxy
        have hPx := hP _ (Or.inr (Or.inr ⟨x, hxs, rfl⟩))
        rw [hxy] at hPx
        exact hbnP _ (hinb i hi) hPx
    · obtain ⟨i, hi, rfl⟩ := hsplit x hx hxs
      by_cases hys : y < inode_size_field (read_inode fs ino)
      · exfalso
        rw [haddr_old y hys, haddr_new i hi] at hxy
        have hPy := hP _ (Or.inr (Or.inr ⟨y, hys, rfl⟩))
        rw [← hxy] at hPy
        exact hbnP _ (hinb i hi) hPy
      · obtain ⟨i2, hi2, rfl⟩ := hsplit y hy hys
        rw [haddr_new i hi, haddr_new i2 hi2] at hxy
        omega
  · rw [hread3, hXFsize, inode_record_addr_geom hgeo03, hgeo03.isz]
    intro x hx
    rw [hXFblock, in_block_geom hgeo03]
    by_cases hxs : x < inode_size_field (read_inode fs ino)
    · rw [haddr_old x hxs]
      obtain ⟨h1, h2⟩ := hdir x hxs
      refine ⟨h1, ?_⟩
      intro hc
      rcases hloc1 _ hc with h3 | ⟨h3, -⟩
      · exact h2 h3
      · exact h3 (hP _ (Or.inr (Or.inr ⟨x, hxs, rfl⟩)))
    · obtain ⟨i, hi, rfl⟩ := hsplit x hx hxs
      rw [haddr_new i hi]
      exact ⟨fun hc => hbnP _ (hinb i hi) (hrecP _ hc), fun hc => htabb _ hc (hinb i hi)⟩
  · intro a ha
    rw [record_range_geom hgeo03] at ha
    rw [hread3, hXFblock, in_block_geom hgeo03]
    exact htabrec a ha
  · rw [hread3, hXFsize, hXFblock, hgeo03.bs]
    intro h
    exact htab1 (hktab h)
  · apply volume_ok_mono _ (volume_ok_frame hgeo13 _ hbm3 hok1)
    intro a ha
    rcases ha with ha | ha
    · exact Or.inl ha
    · exact hstore a ha
  · intro a hPa hns
    have h1 : ¬ record_range fs ino a := fun hc => hns (Or.inl hc)
    have h2 : ¬ in_block fs (inode_block (read_inode fs ino) 12) a :=
      fun hc => hns (Or.inr (Or.inl hc))
    rw [hdev3 a (fun hc => hbnP a hc hPa), hdev2 a h1, hframe1 a hPa h1 h2]
  · exact free_blocks_ready_frame hgeo13 m hbm3 (fun g => free_count_of_block_groups hbg3 g) hfree1
  · rw [hread3]; exact hview_old
  · rw [hread3]
    intro i hi
    rw [hview_new i hi, hEz i hi, Nat.zero_add]
  · rw [hread3]; exact hXFsize
  · intro j h1 h2 h3
    rw [hread3, hXFfields j h1, hfields1 j h2 h3]
  · intro a ha
    rw [inode_record_addr_geom hgeo03] at ha
    rcases ha with ha | ha | ⟨x, hx, ha⟩
    · rw [hgeo03.isz] at ha
      exact Or.inl (Or.inl ha)
    · rw [hread3, hXFblock, in_block_geom hgeo03] at ha
      rcases hloc1 a ha with h1 | ⟨h1, -⟩
      · exact Or.inl (Or.inr (Or.inl h1))
      · exact Or.inr h1
    · rw [hread3] at hx ha
      rw [hXFsize] at hx
      by_cases hxs : x < inode_size_field (read_inode fs ino)
      · rw [haddr_old x hxs] at ha
        exact Or.inl (Or.inr (Or.inr ⟨x, hxs, ha⟩))
      · obtain ⟨i, hi, rfl⟩ := hsplit x hx hxs
        rw [haddr_new i hi] at ha
        rw [ha]
        exact Or.inr (hbnP _ (hinb i hi))

theorem min_rec_len_mono {a b : Nat} (h : a ≤ b) : min_rec_len a ≤ min_rec_len b := by
  unfold min_rec_len sizeof_ext2_dir
  dsimp only
  split <;> split <;> omega

/-- Every record of a chain other than the last one ends at or before the
last one. -/
theorem dir_chain_before_last (v : Buf) (bs size : Nat) : ∀ f pos l q,
    dir_chain v bs size f pos = some l → l.getLast? = some q →
    ∀ p, p ∈ l → p = q ∨ p + dirent_rec_len v p ≤ q := by
  intro f
  induction f with
  | zero => intro pos l q h; simp [dir_chain] at h
  | succ f ih =>
    intro pos l q hchain hlast p hp
    unfold dir_chain at hchain
    by_cases hend : pos = size
    · rw [if_pos hend] at hchain
      have hl : l = [] := by simpa using hchain.symm
      subst hl; simp at hp
    · rw [if_neg hend] at hchain
      by_cases hc : pos < size ∧ 8 + dirent_name_len v pos ≤ dirent_rec_len v pos ∧
          pos % bs + dirent_rec_len v pos ≤ bs
      · rw [if_pos hc] at hchain
        cases hrec : dir_chain v bs size f (pos + dirent_rec_len v pos) with
        | none => rw [hrec] at hchain; simp at hchain
        | some l2 =>
          rw [hrec] at hchain
          have hl : l = pos :: l2 := by simpa using hchain.symm
          subst hl
          cases l2 with
          | nil =>
            simp at hlast hp
            left; rw [hp, hlast]
          | cons x xs =>
            have hlast2 : (x :: xs).getLast? = some q := by
              rw [List.getLast?_cons_cons] at hlast; exact hlast
            rcases List.mem_cons.1 hp with h | h
            · right
              obtain ⟨hq, -⟩ := dir_chain_last v bs size _ _ _ q hrec hlast2
              have := (dir_chain_mem v bs size _ _ _ hrec q hq).1
              rw [h]; exact this
            · exact ih _ _ q hrec hlast2 p h
      · rw [if_neg hc] at hchain; simp at hchain

/-- The record lengths of a directory whose last record `q` is cut down to
the length `msl` and followed by a new record stay as `create_entry` gives
them. -/
theorem rec_lens_aligned_append (v w : Buf) (bs size q msl : Nat) (f pos : Nat) (l : List Nat)
    (hchain : dir_chain v bs size f pos = some l) (hlast : l.getLast? = some q)
    (hal : rec_lens_aligned v l)
    (hout : ∀ x, ¬ (q + 4 ≤ x ∧ x < q + 6) →
      ¬ (q + msl ≤ x ∧ x < q + dirent_rec_len v q) → w x = v x)
    (h1 : dirent_rec_len w q % 4 = 0 ∧ min_rec_len (dirent_name_len w q) ≤ dirent_rec_len w q)
    (h2 : dirent_rec_len w (q + msl) % 4 = 0 ∧
      min_rec_len (dirent_name_len w (q + msl)) ≤ dirent_rec_len w (q + msl)) :
    rec_lens_aligned w (l ++ [q + msl]) := by
  intro p hp
  rw [List.mem_append] at hp
  rcases hp with hp | hp
  · rcases dir_chain_before_last v bs size f pos l q hchain hlast p hp with h | h
    · rw [h]; exact h1
    · obtain ⟨-, -, hlen, -, -⟩ := dir_chain_mem v bs size _ _ _ hchain p hp
      obtain ⟨-, e2, e3, -⟩ := record_congr v w p hlen
        (fun x hx1 hx2 => hout x (by omega) (by omega))
      rw [e2, e3]
      exact hal p hp
  · have : p = q + msl := by simpa using hp
    rw [this]; exact h2

theorem header_congr (v w : Buf) (p : Nat) (h : ∀ x, p ≤ x → x < p + 8 → w x = v x) :
    dirent_inode w p = dirent_inode v p ∧ dirent_rec_len w p = dirent_rec_len v p ∧
    dirent_name_len w p = dirent_name_len v p := by
  refine ⟨?_, ?_, ?_⟩
  · unfold dirent_inode
    apply get32_congr
    intro i hi
    unfold get8
    rw [h _ (by omega) (by omega)]
  · unfold dirent_rec_len
    apply get16_congr
    intro i hi
    unfold get8
    rw [h _ (by omega) (by omega)]
  · unfold dirent_name_len get8
    rw [h _ (by omega) (by omega)]

/-- The effect of `create_entry` when the last record of the directory has
room for the new record behind it, for a directory that is ready: the
directory stays ready, with the new record behind the old last one, and only
bytes of the directory change on the device. -/
theorem create_entry_in_place_ready (fuel : Nat) (fs : ext2_fs_t) (P : Nat → Prop) (ino : Nat)
    (l : List Nat) (q : Nat) (name : List Nat) (n : Nat)
    (hready : dir_ready fs P ino l) (hlast : l.getLast? = some q)
    (hslack : dirent_rec_len (file_view fs (read_inode fs ino)) q
      ≠ min_rec_len (dirent_name_len (file_view fs (read_inode fs ino)) q))
    (hfuel : l.length < fuel)
    (hroom : q % fs.block_size
      + min_rec_len (dirent_name_len (file_view fs (read_inode fs ino)) q)
      + min_rec_len (strlen name) < fs.block_size) :
    ∃ fs2, create_entry fuel fs ino (some name) n = some (E_NOSPACE, fs2) ∧
      fs2 = with_device fs fs2.block_device ∧
      dir_ready fs2 P ino
        (l ++ [q + min_rec_len (dirent_name_len (file_view fs (read_inode fs ino)) q)]) ∧
      (∀ a, ¬ dir_storage fs ino (inode_record_addr fs ino) a →
        fs2.block_device a = fs.block_device a) ∧
      read_inode fs2 ino = read_inode fs ino ∧
      (∀ x, x < inode_size_field (read_inode fs ino) →
        file_view fs2 (read_inode fs2 ino) x
          = with_entry (set16 (file_view fs (read_inode fs ino)) (q + 4)
              (min_rec_len (dirent_name_len (file_view fs (read_inode fs ino)) q)))
              (q + min_rec_len (dirent_name_len (file_view fs (read_inode fs ino)) q)) n
              (fs.block_size - (q % fs.block_size
                + min_rec_len (dirent_name_len (file_view fs (read_inode fs ino)) q))) name x) ∧
      (∀ a, dir_storage fs2 ino (inode_record_addr fs2 ino) a →
        dir_storage fs ino (inode_record_addr fs ino) a) := by
  obtain ⟨hadr, hisz, hmode, hwf, hal, hlay, hrt, htab, hP, hok⟩ := hready
  obtain ⟨fs2, hcall, hmeta, hread, hgbn, hview, hdev⟩ :=
    create_entry_in_place fuel fs ino _ l q name n hmode hwf hlay hal hlast hslack hfuel hroom
  have hgeo : same_geometry fs fs2 := same_geometry_of_meta hmeta
  obtain ⟨hbs, hmul, h256, hmap, hchain⟩ := hwf
  obtain ⟨hslot, hP1, hP2, hP3, hdist, hdir⟩ := hlay
  obtain ⟨hq, hqend⟩ := dir_chain_last _ _ _ _ _ _ q hchain hlast
  obtain ⟨-, hqsize, hqlen, hqfit, -⟩ := dir_chain_mem _ _ _ _ _ _ hchain q hq
  obtain ⟨hal4, halmin⟩ := hal q hq
  have hmslb := min_rec_len_bounds (dirent_name_len (file_view fs (read_inode fs ino)) q)
  have hnameb := min_rec_len_bounds (strlen name)
  have hnl : dirent_name_len (file_view fs (read_inode fs ino)) q < 256 := get8_lt _ _
  have hrl16 : dirent_rec_len (file_view fs (read_inode fs ino)) q < 65536 := get16_lt _ _
  have hfill := last_fills_block _ _ _ _ hbs hmul hqend hqfit (by omega)
  generalize hmsl : min_rec_len (dirent_name_len (file_view fs (read_inode fs ino)) q) = msl at *
  generalize hv : file_view fs (read_inode fs ino) = v at *
  -- the new content
  generalize hW : with_entry (set16 v (q + 4) msl) (q + msl) n
    (fs.block_size - (q % fs.block_size + msl)) name = W at hview
  have hWout : ∀ x, ¬ (q + 4 ≤ x ∧ x < q + 6) →
      ¬ (q + msl ≤ x ∧ x < q + dirent_rec_len v q) → W x = v x := by
    intro x h1 h2
    rw [← hW, with_entry_outside _ _ _ _ _ _ (by omega), set16_outside _ _ _ _ (by omega)]
  have hWq : dirent_rec_len W q = msl ∧ dirent_name_len W q = dirent_name_len v q := by
    constructor
    · have : dirent_rec_len W q = get16 (set16 v (q + 4) msl) (q + 4) := by
        unfold dirent_rec_len
        apply get16_congr
        intro i hi
        unfold get8
        rw [← hW, with_entry_outside _ _ _ _ _ _ (by omega)]
      rw [this, get16_set16_same, Nat.mod_eq_of_lt (by omega)]
    · unfold dirent_name_len get8
      rw [← hW, with_entry_outside _ _ _ _ _ _ (by omega), set16_outside _ _ _ _ (by omega)]
  obtain ⟨-, hWrl, hWnl⟩ := with_entry_fields (set16 v (q + 4) msl) (q + msl) n
    (fs.block_size - (q % fs.block_size + msl)) name
  rw [hW] at hWrl hWnl
  have hrest : fs.block_size - (q % fs.block_size + msl) = dirent_rec_len v q - msl := by omega
  rw [hrest, Nat.mod_eq_of_lt (by omega)] at hWrl
  have hnlle : strlen name % 256 ≤ strlen name := Nat.mod_le _ _
  have hminW : min_rec_len (dirent_name_len W (q + msl)) ≤ min_rec_len (strlen name) := by
    rw [hWnl]; exact min_rec_len_mono hnlle
  have hminWb := min_rec_len_bounds (dirent_name_len W (q + msl))
  have hchainW := dir_chain_append v W fs.block_size (inode_size_field (read_inode fs ino)) q msl
    hWout (by omega) (by omega) hWq.1 hWrl (by omega) _ 0 l hchain hlast
  have halW : rec_lens_aligned W (l ++ [q + msl]) :=
    rec_lens_aligned_append v W fs.block_size _ q msl _ 0 l hchain hlast hal hWout
      ⟨by rw [hWq.1]; omega, by rw [hWq.1, hWq.2, hmsl]⟩
      ⟨by rw [hWrl]; omega, by rw [hWrl]; omega⟩
  have hagree : ∀ x, x < inode_size_field (read_inode fs ino) →
      file_view fs2 (read_inode fs ino) x = W x := hview
  have hchain2 : dir_chain (file_view fs2 (read_inode fs ino)) fs.block_size
      (inode_size_field (read_inode fs ino)) (inode_size_field (read_inode fs ino) + 1) 0
      = some (l ++ [q + msl]) := by
    have h1 := dir_chain_congr W _ fs.block_size _ hbs hmul hagree _ _ _ hchainW
    have hlen := dir_chain_length _ _ _ _ _ _ h1
    exact dir_chain_fuel _ _ _ _ _ _ h1 _ (by omega)
  have hal2 : rec_lens_aligned (file_view fs2 (read_inode fs ino)) (l ++ [q + msl]) :=
    rec_lens_aligned_congr W _ fs.block_size _ _ 0 _ hchainW hagree halW
  -- addresses of the directory bytes
  have hxk : ∀ x, x < inode_size_field (read_inode fs ino) →
      x / fs.block_size * fs.block_size < inode_size_field (read_inode fs ino) := by
    intro x hx
    have := Nat.div_mul_le_self x fs.block_size
    omega
  have hfa : ∀ x, x < inode_size_field (read_inode fs ino) →
      file_byte_addr fs2 (read_inode fs ino) x = file_byte_addr fs (read_inode fs ino) x := by
    intro x hx
    unfold file_byte_addr
    rw [block_start_geom hgeo, hgeo.bs, hgbn _ (hxk x hx)]
  have hstore : ∀ a, dir_storage fs2 ino (inode_record_addr fs2 ino) a →
      dir_storage fs ino (inode_record_addr fs ino) a := by
    intro a ha
    rw [inode_record_addr_geom hgeo] at ha
    rcases ha with ha | ha | ⟨x, hx, ha⟩
    · rw [hgeo.isz] at ha; exact Or.inl ha
    · rw [hread, in_block_geom hgeo] at ha; exact Or.inr (Or.inl ha)
    · rw [hread] at hx ha
      rw [hfa x hx] at ha; exact Or.inr (Or.inr ⟨x, hx, ha⟩)
  -- the block that is rewritten belongs to the directory
  have hblock : ∀ a, in_block fs (get_block_number fs (read_inode fs ino) (q / fs.block_size)) a →
      dir_storage fs ino (inode_record_addr fs ino) a := by
    intro a ha
    obtain ⟨-, h1, h2⟩ := ha
    have hdm := Nat.div_add_mod q fs.block_size
    have hqb := size_block_bound _ _ _ hbs hmul (hxk q hqsize)
    rw [Nat.add_mul, Nat.one_mul] at hqb
    refine Or.inr (Or.inr ⟨q / fs.block_size * fs.block_size
      + (a - block_start fs (get_block_number fs (read_inode fs ino) (q / fs.block_size))),
      by omega, ?_⟩)
    unfold file_byte_addr
    have e1 : (q / fs.block_size * fs.block_size
        + (a - block_start fs (get_block_number fs (read_inode fs ino) (q / fs.block_size))))
        / fs.block_size = q / fs.block_size := by
      have hlt : a - block_start fs (get_block_number fs (read_inode fs ino) (q / fs.block_size))
          < fs.block_size := by omega
      rw [Nat.mul_comm, Nat.mul_add_div hbs, Nat.div_eq_of_lt hlt, Nat.add_zero]
    have e2 : (q / fs.block_size * fs.block_size
        + (a - block_start fs (get_block_number fs (read_inode fs ino) (q / fs.block_size))))
        % fs.block_size
        = a - block_start fs (get_block_number fs (read_inode fs ino) (q / fs.block_size)) := by
      have hlt : a - block_start fs (get_block_number fs (read_inode fs ino) (q / fs.block_size))
          < fs.block_size := by omega
      rw [Nat.mul_comm, Nat.mul_add_mod, Nat.mod_eq_of_lt hlt]
    rw [e1, e2]
    omega
  have hframe : ∀ a, ¬ dir_storage fs ino (inode_record_addr fs ino) a →
      fs2.block_device a = fs.block_device a :=
    fun a ha => hdev a (fun hc => ha (hblock a hc))
  refine ⟨fs2, hcall, hmeta, ⟨?_, ?_, ?_, ⟨?_, ?_, ?_, ?_, ?_⟩, ?_, ⟨?_, ?_, ?_, ?_, ?_, ?_⟩, ?_, ?_,
    ?_, ?_⟩, hframe, hread, ?_, hstore⟩
  · exact (inode_addressable_geom hgeo ino).2 hadr
  · rw [hgeo.isz]; exact hisz
  · rw [hread]; exact hmode
  · rw [hgeo.bs]; exact hbs
  · rw [hread, hgeo.bs]; exact hmul
  · rw [hread, hgeo.bs]; exact h256
  · rw [hread]
    intro j hj
    rw [hgeo.bs] at hj ⊢
    rw [hgbn j hj]
    exact hmap j hj
  · rw [hread, hgeo.bs]; exact hchain2
  · rw [hread]; exact hal2
  · rw [inode_slot_geom hgeo, inode_record_addr_geom hgeo]; exact hslot
  · rw [hgeo.ppb]; exact hP1
  · rw [hgeo.ppb]; exact hP2
  · rw [hgeo.ppb, hgeo.bs]; exact hP3
  · rw [hread]
    intro x y hx hy hxy
    rw [hfa x hx, hfa y hy] at hxy
    exact hdist x y hx hy hxy
  · rw [hread, inode_record_addr_geom hgeo, hgeo.isz]
    intro x hx
    rw [hfa x hx, in_block_geom hgeo]
    exact hdir x hx
  · intro a ha
    rw [record_range_geom hgeo] at ha
    rw [hread, in_block_geom hgeo]
    exact hrt a ha
  · rw [hread, hgeo.bs]; exact htab
  · intro a ha
    exact hP a (hstore a ha)
  · apply volume_ok_frame hgeo P _ hok
    intro a ha
    apply hframe
    intro hc
    exact (hok.2.2.2.2.2 a (hP a hc)).2.1 ha
  · rw [hread]; exact hview

theorem dir_ready_mono {fs : ext2_fs_t} {P Q : Nat → Prop} {ino : Nat} {l : List Nat}
    (h : dir_ready fs P ino l) (hsub : ∀ a, Q a → P a)
    (hQ : ∀ a, dir_storage fs ino (inode_record_addr fs ino) a → Q a) : dir_ready fs Q ino l := by
  obtain ⟨hadr, hisz, hmode, hwf, hal, hlay, hrt, htab, hP, hok⟩ := h
  exact ⟨hadr, hisz, hmode, hwf, hal, hlay, hrt, htab, hQ, volume_ok_mono hsub hok⟩

theorem getLast?_append_singleton {α : Type} (l : List α) (a : α) :
    (l ++ [a]).getLast? = some a := by
  simp

/-- The effect of `create_entry` on a directory that is ready and has fewer
than 256 blocks, whose last record has slack, on a volume with two free blocks
ready and blocks of less than 64 KiB, for a name of at most 255 bytes: the
call returns, the directory stays ready and its last record has slack again,
and within the addresses in use only the storage of the directory changes. -/
theorem create_entry_ready (fuel : Nat) (fs : ext2_fs_t) (P : Nat → Prop) (ino : Nat)
    (l : List Nat) (name : List Nat) (n m : Nat)
    (hready : dir_ready fs P ino l)
    (hslack : last_has_slack (file_view fs (read_inode fs ino)) l)
    (hfuel : l.length < fuel) (hname : strlen name < 256)
    (hsmall : inode_size_field (read_inode fs ino) < 256 * fs.block_size)
    (hbs16 : fs.block_size < 65536)
    (hfree : free_blocks_ready fs (m + 2)) :
    ∃ fs2 l2, create_entry fuel fs ino (some name) n = some (E_NOSPACE, fs2) ∧
      same_geometry fs fs2 ∧
      dir_ready fs2 (fun a => P a ∨ dir_storage fs2 ino (inode_record_addr fs2 ino) a) ino l2 ∧
      last_has_slack (file_view fs2 (read_inode fs2 ino)) l2 ∧
      (∀ a, P a → ¬ dir_storage fs ino (inode_record_addr fs ino) a →
        fs2.block_device a = fs.block_device a) ∧
      free_blocks_ready fs2 m ∧
      (∃ p, l2 = l ++ [p]) ∧
      inode_size_field (read_inode fs2 ino)
        ≤ inode_size_field (read_inode fs ino) + fs.block_size ∧
      (∀ j, ¬ (4 ≤ j ∧ j < 8) → ¬ (28 ≤ j ∧ j < 32) → ¬ (40 ≤ j ∧ j < 92) →
        read_inode fs2 ino j = read_inode fs ino j) ∧
      (∀ a, dir_storage fs2 ino (inode_record_addr fs2 ino) a →
        dir_storage fs ino (inode_record_addr fs ino) a ∨ ¬ P a) := by
  obtain ⟨q, hlast, hsl⟩ := hslack
  have hready0 := hready
  obtain ⟨hadr, hisz, hmode, hwf, hal, hlay, hrt, htab, hP, hok⟩ := hready
  obtain ⟨hbs, hmul, h256, hmap, hchain⟩ := hwf
  obtain ⟨hq, hqend⟩ := dir_chain_last _ _ _ _ _ _ q hchain hlast
  obtain ⟨-, hqsize, hqlen, hqfit, -⟩ := dir_chain_mem _ _ _ _ _ _ hchain q hq
  obtain ⟨hal4, halmin⟩ := hal q hq
  have hmslb := min_rec_len_bounds (dirent_name_len (file_view fs (read_inode fs ino)) q)
  have hnameb := min_rec_len_bounds (strlen name)
  have hrl16 : dirent_rec_len (file_view fs (read_inode fs ino)) q < 65536 := get16_lt _ _
  have hfill := last_fills_block _ _ _ _ hbs hmul hqend hqfit (by omega)
  have hbs512 := block_size_of_mapped fs _ hmap (by omega)
  have hnlle : strlen name % 256 ≤ strlen name := Nat.mod_le _ _
  by_cases hroom : q % fs.block_size
      + min_rec_len (dirent_name_len (file_view fs (read_inode fs ino)) q)
      + min_rec_len (strlen name) < fs.block_size
  · obtain ⟨fs2, hcall, hmeta, hready2, hframe, hread, hview, hstore2⟩ :=
      create_entry_in_place_ready fuel fs P ino l q name n hready0 hlast hsl hfuel hroom
    have hgeo : same_geometry fs fs2 := same_geometry_of_meta hmeta
    have hP2 := hready2.2.2.2.2.2.2.2.2.1
    refine ⟨fs2, _, hcall, hgeo, dir_ready_mono hready2 ?_ (fun a ha => Or.inr ha), ?_, ?_, ?_,
      ⟨_, rfl⟩, by rw [hread]; omega, fun j _ _ _ => by rw [hread],
      fun a ha => Or.inl (hstore2 a ha)⟩
    · intro a ha
      rcases ha with ha | ha
      · exact ha
      · exact hP2 a ha
    · refine ⟨_, getLast?_append_singleton _ _, ?_⟩
      generalize hmsl : min_rec_len (dirent_name_len (file_view fs (read_inode fs ino)) q) = msl
        at *
      obtain ⟨-, e2, e3⟩ := header_congr _ _ (q + msl)
        (fun x h1 h2 => hview x (by omega))
      obtain ⟨-, hWrl, hWnl⟩ := with_entry_fields
        (set16 (file_view fs (read_inode fs ino)) (q + 4) msl) (q + msl) n
        (fs.block_size - (q % fs.block_size + msl)) name
      rw [e2, e3, hWrl, hWnl, Nat.mod_eq_of_lt (by omega)]
      have := min_rec_len_mono hnlle
      omega
    · intro a _ ha
      exact hframe a ha
    · apply free_blocks_ready_frame hgeo m _ _ (free_blocks_ready_le (by omega) hfree)
      · intro a ha
        apply hframe
        intro hc
        exact (hok.2.2.2.2.2 a (hP a hc)).2.1 ha
      · intro g
        apply free_count_of_block_groups
        rw [hmeta]; rfl
  · obtain ⟨fs3, hcall, hgeo, hready3, hframe, hfree3, hvold, hvnew, hsize3, hfields3, hstore3⟩ :=
      create_entry_new_block fuel fs P ino l q name n m hready0 hlast hsl hfuel hname
        (by omega) hsmall hbs16 hfree
    refine ⟨fs3, _, hcall, hgeo, hready3, ?_, hframe, hfree3, ⟨_, rfl⟩, by omega, hfields3,
      hstore3⟩
    refine ⟨_, getLast?_append_singleton _ _, ?_⟩
    have hag : agrees fs.block_size (inode_size_field (read_inode fs ino))
        (with_entry (fun _ => 0) 0 n fs.block_size name) (file_view fs3 (read_inode fs3 ino)) :=
      fun j hj => (hvnew j hj).symm
    obtain ⟨-, f2, f3⟩ := agrees_fields hag 0 (by omega)
    obtain ⟨-, hErl, hEnl⟩ := with_entry_fields (fun _ => 0) 0 n fs.block_size name
    simp only [Nat.add_zero] at f2 f3
    rw [f2, f3, hErl, hEnl, Nat.mod_eq_of_lt hbs16]
    have hb := min_rec_len_bounds (strlen name % 256)
    omega

/-! ## Writing a new inode -/

theorem allocate_inode_groups_group (fs : ext2_fs_t) : ∀ n i no buf r,
    allocate_inode_groups fs n i no buf = some r →
    r.2.2.1 = 0 ∨ (i ≤ r.2.2.1 ∧ r.2.2.1 < i + n) := by
  intro n
  induction n with
  | zero =>
    intro i no buf r h
    unfold allocate_inode_groups at h
    left
    have : r = (no, 0, 0, buf) := by simpa using h.symm
    rw [this]
  | succ n ih =>
    intro i no buf r h
    unfold allocate_inode_groups at h
    by_cases hc : bgd_free_inodes_count fs i > 0
    · rw [if_pos hc] at h
      dsimp only at h
      cases hs : allocate_inode_scan fs (read_block fs (bgd_inode_bitmap fs i) buf).2 i
          (8 * fs.block_size + 1) 0 no with
      | none => rw [hs] at h; simp at h
      | some t =>
        obtain ⟨off, no2, nb⟩ := t
        rw [hs] at h
        dsimp only at h
        by_cases hn : (nb || decide (off = fs.inodes_per_group)) = true
        · rw [if_pos hn] at h
          rcases ih _ _ _ _ h with h1 | h1
          · exact Or.inl h1
          · exact Or.inr ⟨by omega, by omega⟩
        · rw [if_neg hn] at h
          have : r = (no2, off, i, (read_block fs (bgd_inode_bitmap fs i) buf).2) := by
            simpa using h.symm
          rw [this]
          show i = 0 ∨ (i ≤ i ∧ i < i + (n + 1))
          exact Or.inr ⟨le_refl _, by omega⟩
    · rw [if_neg hc] at h
      rcases ih _ _ _ _ h with h1 | h1
      · exact Or.inl h1
      · exact Or.inr ⟨by omega, by omega⟩

/-- What `allocate_inode` leaves unchanged: the geometry, the free block
counts, and the device outside the superblock, the descriptor table and the
inode bitmaps. -/
theorem allocate_inode_frame (fs : ext2_fs_t) (n : Nat) (fs1 : ext2_fs_t)
    (h : allocate_inode fs = some (n, fs1)) :
    same_geometry fs fs1 ∧ (∀ g, bgd_free_blocks_count fs1 g = bgd_free_blocks_count fs g) ∧
    ∀ a, ¬ meta_range fs a → ¬ inode_bitmap_range fs a →
      fs1.block_device a = fs.block_device a := by
  unfold allocate_inode at h
  cases hg : allocate_inode_groups fs fs.block_group_count 0 0 fs.malloc_junk with
  | none => rw [hg] at h; simp at h
  | some r =>
    obtain ⟨no, off, g, buf⟩ := r
    rw [hg] at h
    dsimp only at h
    by_cases h0 : no = 0
    · rw [if_pos h0] at h
      have : fs1 = fs := by
        have := Option.some.inj h
        exact (Prod.mk.inj this).2.symm
      subst this
      exact ⟨same_geometry_refl _, fun _ => rfl, fun _ _ _ => rfl⟩
    · rw [if_neg h0] at h
      have hfs1 := (Prod.mk.inj (Option.some.inj h)).2
      have hgrp : g < fs.block_group_count := by
        rcases allocate_inode_groups_group fs _ _ _ _ _ hg with h1 | h1
        · have h1' : g = 0 := h1
          by_contra hc
          have hz : fs.block_group_count = 0 := by omega
          rw [hz] at hg
          unfold allocate_inode_groups at hg
          have := (Prod.mk.inj (Option.some.inj hg)).1
          exact h0 this.symm
        · have h1' : 0 ≤ g ∧ g < 0 + fs.block_group_count := h1
          omega
      rw [← hfs1]
      refine ⟨?_, ?_, ?_⟩
      · refine same_geometry_trans ?_ (same_geometry_rewrite_superblock _)
        refine same_geometry_trans ?_ (same_geometry_set_free _ 16 _ (Or.inr rfl))
        refine same_geometry_trans ?_ (same_geometry_flush_bgd _)
        refine same_geometry_trans ?_ (same_geometry_set_count _ g 14 _ (Or.inr (Or.inl rfl)))
        exact same_geometry_write_block _ _ _
      · intro g2
        unfold bgd_free_blocks_count rewrite_superblock flush_bgd
        dsimp only
        rw [flush_bgd_loop_meta]
        dsimp only [with_device]
        rw [write_block_block_groups]
        apply get16_set16_other
        omega
      · intro a h1 h2
        rw [rewrite_superblock_device_outside _ _ (fun hc => h1 (Or.inl hc))]
        unfold flush_bgd
        show (flush_bgd_loop _ _ 0).block_device a = _
        rw [flush_bgd_loop_device_outside]
        · show (write_block fs _ _).2.block_device a = _
          exact write_block_device_outside _ _ _ _ (fun hc => h2 ⟨g, hgrp, hc⟩)
        · intro j _ hj hc
          apply h1
          right
          refine ⟨j, ?_, ?_⟩
          · have : (write_block fs (bgd_inode_bitmap fs g) (set_blockbit buf off)).2.bgd_block_span
                = fs.bgd_block_span := (same_geometry_write_block _ _ _).span
            simpa [this] using hj
          · have hgeo := same_geometry_write_block fs (bgd_inode_bitmap fs g) (set_blockbit buf off)
            have hin : in_block (write_block fs (bgd_inode_bitmap fs g) (set_blockbit buf off)).2
                ((write_block fs (bgd_inode_bitmap fs g) (set_blockbit buf off)).2.bgd_offset + j) a :=
              hc
            rw [in_block_geom hgeo, hgeo.bgdo] at hin
            exact hin

/-- A change of state that keeps the geometry, the storage of a ready
directory and the block bitmaps leaves the directory ready, with the same
records. -/
theorem dir_ready_frame {fs fs2 : ext2_fs_t} (h : same_geometry fs fs2) (P : Nat → Prop)
    (ino : Nat) (l : List Nat) (hready : dir_ready fs P ino l)
    (hdevP : ∀ a, dir_storage fs ino (inode_record_addr fs ino) a →
      fs2.block_device a = fs.block_device a)
    (hdevB : ∀ a, block_bitmap_range fs a → fs2.block_device a = fs.block_device a) :
    dir_ready fs2 P ino l ∧ read_inode fs2 ino = read_inode fs ino ∧
    (∀ x, x < inode_size_field (read_inode fs ino) →
      file_view fs2 (read_inode fs ino) x = file_view fs (read_inode fs ino) x) ∧
    ∀ a, dir_storage fs2 ino (inode_record_addr fs2 ino) a ↔
      dir_storage fs ino (inode_record_addr fs ino) a := by
  obtain ⟨hadr, hisz, hmode, hwf, hal, hlay, hrt, htab, hP, hok⟩ := hready
  obtain ⟨hread, hgbn, hfa, hfv, hwf2, hlay2⟩ := dir_frame h ino _ l hwf hlay hdevP
  have hst : ∀ a, dir_storage fs2 ino (inode_record_addr fs2 ino) a ↔
      dir_storage fs ino (inode_record_addr fs ino) a := by
    intro a
    rw [inode_record_addr_geom h]
    unfold dir_storage
    rw [hread, h.isz, in_block_geom h]
    constructor
    · rintro (ha | ha | ⟨x, hx, ha⟩)
      · exact Or.inl ha
      · exact Or.inr (Or.inl ha)
      · rw [hfa x hx] at ha; exact Or.inr (Or.inr ⟨x, hx, ha⟩)
    · rintro (ha | ha | ⟨x, hx, ha⟩)
      · exact Or.inl ha
      · exact Or.inr (Or.inl ha)
      · rw [← hfa x hx] at ha; exact Or.inr (Or.inr ⟨x, hx, ha⟩)
  refine ⟨⟨(inode_addressable_geom h ino).2 hadr, by rw [h.isz]; exact hisz,
    by rw [hread]; exact hmode, hwf2, ?_, by rw [inode_record_addr_geom h]; exact hlay2, ?_, ?_,
    fun a ha => hP a ((hst a).1 ha), volume_ok_frame h P hdevB hok⟩, hread, hfv, hst⟩
  · rw [hread]
    exact rec_lens_aligned_congr _ _ _ _ _ _ _ hwf.2.2.2.2 hfv hal
  · intro a ha
    rw [record_range_geom h] at ha
    rw [hread, in_block_geom h]
    exact hrt a ha
  · rw [hread, h.bs]; exact htab

theorem last_has_slack_congr (v w : Buf) (bs size f pos : Nat) (l : List Nat)
    (hchain : dir_chain v bs size f pos = some l) (hv : ∀ x, x < size → w x = v x)
    (h : last_has_slack v l) : last_has_slack w l := by
  obtain ⟨q, hlast, hsl⟩ := h
  obtain ⟨hq, -⟩ := dir_chain_last _ _ _ _ _ _ q hchain hlast
  obtain ⟨-, h1, h2, h3, h4⟩ := dir_chain_mem _ _ _ _ _ _ hchain q hq
  obtain ⟨-, e2, e3, -⟩ := record_congr v w q h2 (fun x _ hx => hv x (by omega))
  exact ⟨q, hlast, by rw [e2, e3]; exact hsl⟩

theorem record_shaped_set8 {fs : ext2_fs_t} {r : Buf} (h : record_shaped fs r) (i v : Nat)
    (hi : i + 1 ≤ fs.inode_size) : record_shaped fs (set8 r i v) := by
  intro j hj
  rw [set8_outside _ _ _ _ (by omega)]
  exact h j hj

theorem record_shaped_memset {fs : ext2_fs_t} {r : Buf} (h : record_shaped fs r) (d v n : Nat)
    (hi : d + n ≤ fs.inode_size) : record_shaped fs (memset r d v n) := by
  intro j hj
  unfold memset
  rw [if_neg (by omega)]
  exact h j hj

theorem record_shaped_write_bytes {fs : ext2_fs_t} {r : Buf} (h : record_shaped fs r) (d : Nat)
    (s : List Nat) (hi : d + s.length ≤ fs.inode_size) : record_shaped fs (write_bytes r d s) := by
  intro j hj
  rw [write_bytes_outside _ _ _ _ (by omega)]
  exact h j hj

theorem record_shaped_init {fs : ext2_fs_t} {r : Buf} (h : record_shaped fs r)
    (amb : ambient_t) (links mode : Nat) (hisz : 128 ≤ fs.inode_size) :
    record_shaped fs (init_inode r amb links mode) := by
  unfold init_inode
  dsimp only
  apply record_shaped_memset _ _ _ _ (by omega)
  apply record_shaped_set16 _ _ _ (by omega)
  apply record_shaped_set32 _ _ _ (by omega)
  apply record_shaped_set32 _ _ _ (by omega)
  apply record_shaped_set32 _ _ _ (by omega)
  apply record_shaped_set32 _ _ _ (by omega)
  apply record_shaped_set32 _ _ _ (by omega)
  apply record_shaped_set16 _ _ _ (by omega)
  apply record_shaped_set32 _ _ _ (by omega)
  apply record_shaped_set16 _ _ _ (by omega)
  apply record_shaped_set16 _ _ _ (by omega)
  apply record_shaped_set32 _ _ _ (by omega)
  apply record_shaped_set32 _ _ _ (by omega)
  apply record_shaped_memset _ _ _ _ (by omega)
  apply record_shaped_set32 _ _ _ (by omega)
  apply record_shaped_set32 _ _ _ (by omega)
  apply record_shaped_set32 _ _ _ (by omega)
  apply record_shaped_set32 _ _ _ (by omega)
  exact h

theorem memset_outside (b : Buf) (d v n x : Nat) (h : x < d ∨ d + n ≤ x) :
    memset b d v n x = b x := by
  unfold memset
  rw [if_neg (by omega)]

/-- The fields that `init_inode` leaves: `size` 0, `blocks` 0, the given mode
and link count, and zero bytes in `block[]`. -/
theorem init_inode_fields (r : Buf) (amb : ambient_t) (links mode : Nat) :
    inode_size_field (init_inode r amb links mode) = 0 ∧
    inode_blocks (init_inode r amb links mode) = 0 ∧
    inode_mode (init_inode r amb links mode) = mode % 65536 ∧
    inode_links_count (init_inode r amb links mode) = links % 65536 ∧
    ∀ j, 40 ≤ j → j < 100 → init_inode r amb links mode j = 0 := by
  refine ⟨?_, ?_, ?_, ?_, ?_⟩
  · simp [init_inode, inode_size_field, get32, get8, set32, set16, set8, memset]
  · simp [init_inode, inode_blocks, get32, get8, set32, set16, set8, memset]
  · simp [init_inode, inode_mode, get16, get8, set32, set16, set8, memset]
    omega
  · simp [init_inode, inode_links_count, get16, get8, set32, set16, set8, memset]
    omega
  · intro j h1 h2
    unfold init_inode
    rw [memset_outside _ _ _ _ _ (by omega), set16_outside _ _ _ _ (by omega),
      set32_outside _ _ _ _ (by omega), set32_outside _ _ _ _ (by omega),
      set32_outside _ _ _ _ (by omega), set32_outside _ _ _ _ (by omega),
      set32_outside _ _ _ _ (by omega), set16_outside _ _ _ _ (by omega),
      set32_outside _ _ _ _ (by omega), set16_outside _ _ _ _ (by omega),
      set16_outside _ _ _ _ (by omega), set32_outside _ _ _ _ (by omega),
      set32_outside _ _ _ _ (by omega)]
    unfold memset
    rw [if_pos ⟨h1, by omega⟩]

/-- The state after `allocate_inode` and the write of the record of the new
inode `n`, as `mkdir_ext2`, `create_ext2` and `symlink_ext2` reach it before
they call `create_entry`: the parent directory is still ready, and the record
of `n` reads as written. -/
theorem new_inode_written (fs : ext2_fs_t) (P : Nat → Prop) (parent : Nat) (l : List Nat)
    (n : Nat) (fs1 : ext2_fs_t) (r : Buf) (m : Nat)
    (halloc : allocate_inode fs = some (n, fs1)) (hn : inode_addressable fs n)
    (hready : dir_ready fs P parent l)
    (hslack : last_has_slack (file_view fs (read_inode fs parent)) l)
    (hfree : free_blocks_ready fs m)
    (hrec : ∀ a, record_range fs n a →
      P a ∧ ¬ dir_storage fs parent (inode_record_addr fs parent) a)
    (hibm : ∀ a, inode_bitmap_range fs a → ¬ P a ∧ ¬ block_bitmap_range fs a)
    (hr : record_shaped fs r) :
    same_geometry fs (write_inode fs1 r n).2 ∧
    read_inode fs1 n = read_inode fs n ∧
    read_inode (write_inode fs1 r n).2 n = r ∧
    read_inode (write_inode fs1 r n).2 parent = read_inode fs parent ∧
    dir_ready (write_inode fs1 r n).2 P parent l ∧
    last_has_slack (file_view (write_inode fs1 r n).2 (read_inode fs parent)) l ∧
    free_blocks_ready (write_inode fs1 r n).2 m ∧
    (∀ a, dir_storage (write_inode fs1 r n).2 parent
        (inode_record_addr (write_inode fs1 r n).2 parent) a ↔
      dir_storage fs parent (inode_record_addr fs parent) a) ∧
    (∀ a, ¬ meta_range fs a → ¬ inode_bitmap_range fs a → ¬ record_range fs n a →
      (write_inode fs1 r n).2.block_device a = fs.block_device a) ∧
    fs1.block_groups = (write_inode fs1 r n).2.block_groups := by
  obtain ⟨hgeo1, hcnt1, hdev1⟩ := allocate_inode_frame fs n fs1 halloc
  have hok := hready.2.2.2.2.2.2.2.2.2
  have hPs := hready.2.2.2.2.2.2.2.2.1
  have hPdev1 : ∀ a, P a → fs1.block_device a = fs.block_device a :=
    fun a ha => hdev1 a (hok.2.2.2.2.2 a ha).1 (fun hc => (hibm a hc).1 ha)
  have hBdev1 : ∀ a, block_bitmap_range fs a → fs1.block_device a = fs.block_device a :=
    fun a ha => hdev1 a (hok.2.2.1 a ha).1 (fun hc => (hibm a hc).2 ha)
  obtain ⟨hready1, hread1, hview1, hst1⟩ := dir_ready_frame hgeo1 P parent l hready
    (fun a ha => hPdev1 a (hPs a ha)) hBdev1
  have hadr1 : inode_addressable fs1 n := (inode_addressable_geom hgeo1 n).2 hn
  have hreadn : read_inode fs1 n = read_inode fs n :=
    read_inode_geom hgeo1 n _ (inode_slot_of_addressable fs n hn)
      (fun a h1 h2 => hPdev1 a (hrec a ⟨h1, h2⟩).1)
  have hgeo12 := same_geometry_write_inode fs1 r n
  have hdev2 : ∀ a, ¬ record_range fs n a →
      (write_inode fs1 r n).2.block_device a = fs1.block_device a := by
    intro a ha
    exact write_inode_outside_record _ _ _ _ hadr1 (by rw [record_range_geom hgeo1]; exact ha)
  have hBP : ∀ a, block_bitmap_range fs a → ¬ P a :=
    fun a ha hc => (hok.2.2.2.2.2 a hc).2.1 ha
  obtain ⟨hready2, hread2, hview2, hst2⟩ := dir_ready_frame hgeo12 P parent l hready1
    (fun a ha => hdev2 a (fun hc => (hrec a hc).2 ((hst1 a).1 ha)))
    (fun a ha => hdev2 a (fun hc =>
      hBP a ((block_bitmap_range_geom hgeo1 a).1 ha) (hrec a hc).1))
  rw [hread1] at hread2 hview2
  have hwf := hready.2.2.2.1
  refine ⟨same_geometry_trans hgeo1 hgeo12, hreadn,
    read_after_write_inode fs1 r n hadr1 ((record_shaped_geom hgeo1 r).2 hr), hread2, hready2, ?_,
    ?_, fun a => (hst2 a).trans (hst1 a), ?_, (write_inode_block_groups _ _ _).symm⟩
  · apply last_has_slack_congr _ _ _ _ _ _ _ hwf.2.2.2.2 _ hslack
    intro x hx
    rw [hview2 x hx, hview1 x hx]
  · apply free_blocks_ready_frame hgeo12 m _ _
      (free_blocks_ready_frame hgeo1 m hBdev1 hcnt1 hfree)
    · intro a ha
      apply hdev2
      intro hc
      exact hBP a ((block_bitmap_range_geom hgeo1 a).1 ha) (hrec a hc).1
    · intro g
      exact free_count_of_block_groups (write_inode_block_groups _ _ _) g
  · intro a h1 h2 h3
    rw [hdev2 a h3]
    exact hdev1 a h1 h2

/-! ## The effect of mkdir -/

theorem refresh_inode_of_slot (fs : ext2_fs_t) (inodet : Buf) (ino s : Nat)
    (h : inode_slot fs ino = some s) :
    refresh_inode fs inodet ino = memcpy inodet 0 fs.block_device s fs.inode_size := by
  unfold inode_slot at h
  unfold refresh_inode
  by_cases h0 : ino = 0
  · rw [if_pos h0] at h; simp at h
  · rw [if_neg h0] at h ⊢
    dsimp only at h ⊢
    by_cases hg : u32 ((ino - 1) / fs.inodes_per_group) > fs.block_group_count
    · rw [if_pos hg] at h; simp at h
    · rw [if_neg hg] at h ⊢
      split at h
      · simp at h
      · rename_i hb
        split at h
        · rename_i hfit
          simp only [Option.some.injEq] at h
          have hb' : u32 (u32 (bgd_inode_table fs (u32 ((ino - 1) / fs.inodes_per_group)) +
              u32 (u64 (sub64 (ino - 1) (u32 (u32 ((ino - 1) / fs.inodes_per_group) *
                fs.inodes_per_group)) * fs.inode_size) / fs.block_size))) ≠ 0 := by
            rw [u32_u32]; exact hb
          rw [read_block_snd _ _ _ hb']
          funext j
          unfold memcpy
          by_cases hj : 0 ≤ j ∧ j < 0 + fs.inode_size
          · rw [if_pos hj, if_pos hj, if_pos ⟨Nat.zero_le _, by omega⟩]
            rw [← h]
            unfold block_start
            simp only [Nat.sub_zero]
            rw [u32_u32, Nat.add_assoc]
          · rw [if_neg hj, if_neg hj]
        · simp at h

/-- Reloading a record that is the one on the device changes nothing. -/
theorem refresh_inode_self (fs : ext2_fs_t) (n : Nat) (h : inode_addressable fs n) :
    refresh_inode fs (read_inode fs n) n = read_inode fs n := by
  rw [refresh_inode_of_slot fs _ n _ (inode_slot_of_addressable fs n h),
    read_inode_of_slot fs n _ (inode_slot_of_addressable fs n h)]
  funext j
  unfold memcpy
  by_cases hj : 0 ≤ j ∧ j < 0 + fs.inode_size
  · rw [if_pos hj, if_pos hj]
  · rw [if_neg hj, if_neg hj]

/-- A change of state that keeps the geometry, the size, the block count and
the block pointers of a directory inode, and the device bytes of its
single-indirect block and of its content, keeps the directory well-formed. -/
theorem dir_wf_transfer {fs fs2 : ext2_fs_t} (h : same_geometry fs fs2) (ino s : Nat)
    (l : List Nat) (hwf : dir_well_formed fs ino l)
    (hal : rec_lens_aligned (file_view fs (read_inode fs ino)) l) (hlay : dir_layout fs ino s)
    (hX : ∀ j, (4 ≤ j ∧ j < 8) ∨ (28 ≤ j ∧ j < 32) ∨ (40 ≤ j ∧ j < 92) →
      read_inode fs2 ino j = read_inode fs ino j)
    (hdev : ∀ a, in_block fs (inode_block (read_inode fs ino) 12) a ∨
        (∃ x, x < inode_size_field (read_inode fs ino) ∧
          a = file_byte_addr fs (read_inode fs ino) x) →
      fs2.block_device a = fs.block_device a) :
    dir_well_formed fs2 ino l ∧ rec_lens_aligned (file_view fs2 (read_inode fs2 ino)) l := by
  obtain ⟨hbs, hmul, h256, hmap, hchain⟩ := hwf
  obtain ⟨hslot, hP1, hP2, hP3, hdist, hdir⟩ := hlay
  have hsize : inode_size_field (read_inode fs2 ino) = inode_size_field (read_inode fs ino) := by
    unfold inode_size_field
    apply get32_congr
    intro i hi
    unfold get8
    rw [hX _ (Or.inl ⟨by omega, by omega⟩)]
  have hblocks : inode_blocks (read_inode fs2 ino) = inode_blocks (read_inode fs ino) := by
    unfold inode_blocks
    apply get32_congr
    intro i hi
    unfold get8
    rw [hX _ (Or.inr (Or.inl ⟨by omega, by omega⟩))]
  have hptr : ∀ j, j ≤ 12 → inode_block (read_inode fs2 ino) j = inode_block (read_inode fs ino) j := by
    intro j hj
    unfold inode_block
    apply get32_congr
    intro i hi
    unfold get8
    rw [hX _ (Or.inr (Or.inr ⟨by omega, by omega⟩))]
  have hkb : ∀ k, k * fs.block_size < inode_size_field (read_inode fs ino) →
      k < 12 + fs.pointers_per_block := by
    intro k hk
    have : k < 256 := by
      by_contra hc
      have : 256 * fs.block_size ≤ k * fs.block_size := Nat.mul_le_mul_right _ (by omega)
      omega
    omega
  have hgb : ∀ k, k * fs.block_size < inode_size_field (read_inode fs ino) →
      get_block_number fs2 (read_inode fs2 ino) k = get_block_number fs (read_inode fs ino) k := by
    intro k hk
    rw [get_block_number_inode_congr fs2 (read_inode fs ino) (read_inode fs2 ino) k
      (by rw [h.ppb]; exact hkb k hk) (by rw [h.ppb]; exact hP2) hptr]
    exact get_block_number_geom h _ k (hkb k hk) hP2 hP3 (fun _ a ha => hdev a (Or.inl ha))
  have hfv : ∀ x, x < inode_size_field (read_inode fs ino) →
      file_view fs2 (read_inode fs2 ino) x = file_view fs (read_inode fs ino) x := by
    intro x hx
    have hxk : x / fs.block_size * fs.block_size < inode_size_field (read_inode fs ino) := by
      have := Nat.div_mul_le_self x fs.block_size
      omega
    unfold file_view file_byte_addr
    rw [block_start_geom h, h.bs, hgb _ hxk]
    exact hdev _ (Or.inr ⟨x, hx, rfl⟩)
  refine ⟨⟨by rw [h.bs]; exact hbs, by rw [hsize, h.bs]; exact hmul,
    by rw [hsize, h.bs]; exact h256, ?_, ?_⟩, ?_⟩
  · rw [hsize]
    intro k hk
    rw [h.bs] at hk ⊢
    rw [hgb k hk, hblocks]
    exact hmap k hk
  · rw [hsize, h.bs]
    exact dir_chain_congr _ _ _ _ hbs hmul hfv _ _ _ hchain
  · exact rec_lens_aligned_congr _ _ _ _ _ _ _ hchain hfv hal

/-- The fields of the two records in the block that `mkdir_ext2` writes. -/
theorem mkdir_block_fields (fs : ext2_fs_t) (n parent : Nat) :
    dirent_inode (mkdir_block fs n parent) 0 = n % 4294967296 ∧
    dirent_rec_len (mkdir_block fs n parent) 0 = 12 ∧
    dirent_name_len (mkdir_block fs n parent) 0 = 1 ∧
    dirent_inode (mkdir_block fs n parent) 12 = parent % 4294967296 ∧
    dirent_rec_len (mkdir_block fs n parent) 12 = sub32 fs.block_size 12 % 65536 ∧
    dirent_name_len (mkdir_block fs n parent) 12 = 2 := by
  refine ⟨?_, ?_, ?_, ?_, ?_, ?_⟩
  · simp [mkdir_block, dirent_inode, get32, get8, memcpy, set32, set16, set8, memset]
    omega
  · simp [mkdir_block, dirent_rec_len, get16, get8, memcpy, set32, set16, set8, memset]
  · simp [mkdir_block, dirent_name_len, get8, memcpy, set32, set16, set8, memset]
  · simp [mkdir_block, dirent_inode, get32, get8, memcpy, set32, set16, set8, memset]
    omega
  · simp [mkdir_block, dirent_rec_len, get16, get8, memcpy, set32, set16, set8, memset]
    omega
  · simp [mkdir_block, dirent_name_len, get8, memcpy, set32, set16, set8, memset]

/-- A direct block of an inode set by `allocate_inode_block`: the record in
memory changes in its block count and in the pointer of that block only. -/
theorem allocate_inode_block_direct_ptrs (fs : ext2_fs_t) (X : Buf) (ino k c : Nat)
    (fs1 : ext2_fs_t) (X1 : Buf)
    (h : allocate_inode_block fs X ino k = some (c, fs1, X1)) (hk : k < 12) (j : Nat)
    (h1 : ¬ (28 ≤ j ∧ j < 32)) (h2 : ¬ (40 + 4 * k ≤ j ∧ j < 44 + 4 * k)) : X1 j = X j := by
  unfold allocate_inode_block at h
  cases ha : allocate_block fs with
  | none => rw [ha] at h; exact absurd h (by simp)
  | some r =>
    obtain ⟨bn, fsa⟩ := r
    rw [ha] at h
    dsimp only at h
    by_cases hb : u32 bn = 0
    · rw [if_pos hb] at h
      have := (Prod.mk.inj (Prod.mk.inj (Option.some.inj h)).2).2
      rw [← this]
    · rw [if_neg hb] at h
      unfold set_block_number at h
      rw [if_pos (by unfold EXT2_DIRECT_BLOCKS; omega)] at h
      dsimp only at h
      have := (Prod.mk.inj (Prod.mk.inj (Option.some.inj h)).2).2
      rw [← this]
      have hs : set_inode_block X k (u32 bn) j = X j := by
        unfold set_inode_block
        exact set32_outside _ _ _ _ (by omega)
      split
      · rw [set32_outside _ _ _ _ (by omega)]; exact hs
      · exact hs

theorem new_dir_block (fuel : Nat) (fs3 : ext2_fs_t) (P3 : Nat → Prop) (n : Nat) (X tmp : Buf)
    (m : Nat) (hfuel : 2 ≤ fuel) (hadr : inode_addressable fs3 n)
    (hisz : 128 ≤ fs3.inode_size) (hX : record_shaped fs3 X) (hblocks : inode_blocks X = 0)
    (hblk : ∀ j, 40 ≤ j → j < 92 → X j = 0)
    (hP1 : 256 ≤ 12 + fs3.pointers_per_block) (hP2 : 12 + fs3.pointers_per_block < 4294967296)
    (hP3 : 4 * fs3.pointers_per_block ≤ fs3.block_size) (hbs512 : 512 ≤ fs3.block_size)
    (hrec : ∀ a, record_range fs3 n a → P3 a)
    (hok : volume_ok fs3 P3) (hfree : free_blocks_ready fs3 (m + 1)) :
    ∃ fs5 X1 b, inode_write_block fuel (write_inode fs3 X n).2 X n 0 tmp = some (b, fs5, X1) ∧
      same_geometry fs3 fs5 ∧ read_inode fs5 n = X1 ∧
      (∀ j, ¬ (28 ≤ j ∧ j < 32) → ¬ (40 ≤ j ∧ j < 92) → X1 j = X j) ∧
      0 < inode_blocks X1 / (fs3.block_size / 512) ∧
      inode_block X1 0 = b ∧ b ≠ 0 ∧ (b + 1) * fs3.block_size ≤ 4294967296 ∧
      (∀ a, in_block fs3 b a → ¬ P3 a ∧ ¬ meta_range fs3 a) ∧
      (∀ i, i < fs3.block_size → fs5.block_device (block_start fs3 b + i) = tmp i) ∧
      (∀ a, P3 a → ¬ record_range fs3 n a → fs5.block_device a = fs3.block_device a) ∧
      (∀ j, 44 ≤ j → j < 92 → X1 j = X j) := by
  have hgeo4 := same_geometry_write_inode fs3 X n
  have hdev4 : ∀ a, ¬ record_range fs3 n a →
      (write_inode fs3 X n).2.block_device a = fs3.block_device a :=
    fun a ha => write_inode_outside_record _ _ _ _ hadr ha
  have hbm4 : ∀ a, block_bitmap_range fs3 a →
      (write_inode fs3 X n).2.block_device a = fs3.block_device a :=
    fun a ha => hdev4 a (fun hc => (hok.2.2.2.2.2 a (hrec a hc)).2.1 ha)
  have hok4 := volume_ok_frame hgeo4 P3 hbm4 hok
  have hfree4 := free_blocks_ready_frame hgeo4 (m + 1) hbm4
    (fun g => free_count_of_block_groups (write_inode_block_groups _ _ _) g) hfree
  have hT0 : inode_block X 12 = 0 := by
    unfold inode_block get32 get8
    rw [hblk _ (by omega) (by omega), hblk _ (by omega) (by omega), hblk _ (by omega) (by omega),
      hblk _ (by omega) (by omega)]
  have hnoT : ∀ a, ¬ in_block (write_inode fs3 X n).2 (inode_block X 12) a := by
    intro a ha
    rw [hT0] at ha
    exact ha.1 rfl
  obtain ⟨fs5, X1, b, hNB, hgeo5, hread5, hshape, hfields, hcount, -, -, hat, hb0, hbfit, hbz, -,
    -, hframe5, hok5, -⟩ :=
    allocate_inode_block_next (write_inode fs3 X n).2 P3 X n 0 m
      ((inode_addressable_geom hgeo4 n).2 hadr) (by rw [hgeo4.isz]; exact hisz)
      ((record_shaped_geom hgeo4 X).2 hX) (by rw [hgeo4.ppb]; exact hP1)
      (by rw [hgeo4.ppb]; exact hP2) (by rw [hgeo4.ppb, hgeo4.bs]; exact hP3) (by omega)
      (by rw [hgeo4.bs]; exact hbs512) (fun h => absurd h (by omega))
      (fun a ha => hrec a ((record_range_geom hgeo4 n a).1 ha))
      (fun a ha => absurd ha (hnoT a)) (fun a _ ha => hnoT a ha) hok4 hfree4
  rw [hgeo4.bs] at hcount hbfit
  have hgeo35 := same_geometry_trans hgeo4 hgeo5
  have hadr5 : inode_addressable fs5 n := (inode_addressable_geom hgeo35 n).2 hadr
  have hbs : 0 < fs3.block_size := by omega
  obtain ⟨hbu, hbst⟩ := block_start_of_fits fs3 b hbfit hbs
  have hdirect : inode_block X1 0 = b := by
    rw [← get_block_number_direct fs5 X1 0 (by omega)]; exact hat
  obtain ⟨f, hf⟩ : ∃ f, fuel = f + 2 := ⟨fuel - 2, by omega⟩
  have hloop : inode_write_block_loop n 0 fuel (write_inode fs3 X n).2 X = some (fs5, X1) := by
    rw [hf]
    unfold inode_write_block_loop
    rw [if_pos (by rw [hblocks, Nat.zero_div]), hblocks, Nat.zero_div, hNB]
    dsimp only
    have hself : refresh_inode fs5 X1 n = X1 := by
      rw [← hread5]; exact refresh_inode_self fs5 n hadr5
    rw [hself]
    unfold inode_write_block_loop
    rw [if_neg (by rw [hgeo35.bs]; omega)]
  have hinb : ∀ a, in_block fs3 b a → ¬ record_range fs3 n a :=
    fun a ha hc => (hbz a ((in_block_geom hgeo4 _ _).2 ha)).2 (hrec a hc)
  refine ⟨(write_block fs5 b tmp).2, X1, b, ?_,
    same_geometry_trans hgeo35 (same_geometry_write_block _ _ _), ?_, hfields,
    by omega, hdirect, hb0, hbfit, ?_, ?_, ?_,
    fun j h1 h2 => allocate_inode_block_direct_ptrs _ _ _ _ _ _ _ hNB (by omega) j (by omega)
      (by omega)⟩
  · unfold inode_write_block
    rw [hloop]
    dsimp only
    rw [hat]
  · rw [read_inode_geom (same_geometry_write_block fs5 b tmp) n _
      (by rw [inode_slot_geom hgeo35]; exact inode_slot_of_addressable fs3 n hadr)
      (fun a h1 h2 => write_block_device_outside _ _ _ _ (fun hc =>
        hinb a ((in_block_geom hgeo35 _ _).1 hc) ⟨h1, by rw [hgeo35.isz] at h2; exact h2⟩))]
    exact hread5
  · intro a ha
    refine ⟨(hbz a ((in_block_geom hgeo4 _ _).2 ha)).2, ?_⟩
    have := (hok5.2.2.2.2.2 a (Or.inr (Or.inl ((in_block_geom hgeo4 _ _).2 ha)))).1
    rw [meta_range_geom hgeo35] at this
    exact this
  · intro i hi
    rw [write_block_device_inside _ _ _ _ (by
      rw [in_block_geom hgeo35]
      exact ⟨by rw [hbu]; exact hb0, by omega, by omega⟩), block_start_geom hgeo35]
    congr 1; omega
  · intro a hPa hnr
    rw [write_block_device_outside _ _ _ _ (fun hc =>
      (hbz a ((in_block_geom hgeo5 _ _).1 hc)).2 hPa),
      hframe5 a hPa (by rw [record_range_geom hgeo4]; exact hnr) (hnoT a)]
    exact hdev4 a hnr

theorem flush_bgd_device_outside (fs : ext2_fs_t) (a : Nat) (h : ¬ meta_range fs a) :
    (flush_bgd fs).block_device a = fs.block_device a := by
  unfold flush_bgd
  apply flush_bgd_loop_device_outside
  intro j _ hj hc
  exact h (Or.inr ⟨j, by omega, hc⟩)

/-- What the last statements of `mkdir_ext2` change: the record of the parent,
in its link count only, and the descriptor table. -/
theorem mkdir_finish_effect (fs : ext2_fs_t) (parent n : Nat)
    (hadr : inode_addressable fs parent) (hisz : 128 ≤ fs.inode_size)
    (hrm : ∀ a, record_range fs parent a → ¬ meta_range fs a) :
    same_geometry fs (mkdir_finish fs parent n) ∧
    (∀ a, ¬ record_range fs parent a → ¬ meta_range fs a →
      (mkdir_finish fs parent n).block_device a = fs.block_device a) ∧
    read_inode (mkdir_finish fs parent n) parent
      = set16 (read_inode fs parent) 26 (inode_links_count (read_inode fs parent) + 1) := by
  generalize hp : set16 (read_inode fs parent) 26 (inode_links_count (read_inode fs parent) + 1)
    = pinode
  have hshape : record_shaped fs pinode := by
    rw [← hp]
    exact record_shaped_set16 (record_shaped_read fs parent hadr) _ _ (by omega)
  have hgeo6 := same_geometry_write_inode fs pinode parent
  have hread6 := read_after_write_inode fs pinode parent hadr hshape
  unfold mkdir_finish
  dsimp only
  rw [hp]
  have hgeoc := same_geometry_set_count (write_inode fs pinode parent).2
    (u32 (n / (write_inode fs pinode parent).2.inodes_per_group)) 16
    (bgd_used_dirs_count (write_inode fs pinode parent).2
      (u32 (n / (write_inode fs pinode parent).2.inodes_per_group)) + 1) (Or.inr (Or.inr rfl))
  have hgeo6c := same_geometry_trans hgeo6 hgeoc
  have hgeo7 := same_geometry_trans hgeo6c (same_geometry_flush_bgd _)
  refine ⟨hgeo7, ?_, ?_⟩
  · intro a h1 h2
    rw [flush_bgd_device_outside _ a (by rw [meta_range_geom hgeo6c]; exact h2)]
    exact write_inode_outside_record _ _ _ _ hadr h1
  · rw [read_inode_geom (same_geometry_trans hgeoc (same_geometry_flush_bgd _)) parent _
      (by rw [inode_slot_geom hgeo6]; exact inode_slot_of_addressable fs parent hadr)
      (fun a h1 h2 => flush_bgd_device_outside _ a (by
        rw [meta_range_geom hgeo6c]
        exact hrm a ⟨h1, by rw [hgeo6.isz] at h2; exact h2⟩))]
    exact hread6

theorem two_record_chain (v : Buf) (bs : Nat) (hbs : 24 ≤ bs)
    (h0 : dirent_rec_len v 0 = 12 ∧ dirent_name_len v 0 = 1)
    (h12 : dirent_rec_len v 12 = bs - 12 ∧ dirent_name_len v 12 = 2) :
    dir_chain v bs bs (bs + 1) 0 = some [0, 12] := by
  obtain ⟨f, hf⟩ : ∃ f, bs + 1 = f + 3 := ⟨bs - 2, by omega⟩
  rw [hf]
  unfold dir_chain
  rw [if_neg (by omega), if_pos ⟨by omega, by omega, by
    rw [h0.1, Nat.zero_mod]; omega⟩, h0.1]
  rw [Nat.zero_add]
  unfold dir_chain
  rw [if_neg (by omega), if_pos ⟨by omega, by omega, by
    rw [h12.1, Nat.mod_eq_of_lt (by omega)]; omega⟩, h12.1]
  unfold dir_chain
  rw [if_pos (by omega)]

/-! ## Unlinking in a ready directory -/

/-- Two different records of a chain do not overlap. -/
theorem dir_chain_disjoint (v : Buf) (bs size : Nat) : ∀ f pos l,
    dir_chain v bs size f pos = some l → ∀ p q, p ∈ l → q ∈ l → p ≠ q →
      p + dirent_rec_len v p ≤ q ∨ q + dirent_rec_len v q ≤ p := by
  intro f
  induction f with
  | zero => intro pos l h; simp [dir_chain] at h
  | succ f ih =>
    intro pos l h p q hp hq hne
    have hfull := h
    unfold dir_chain at h
    by_cases hend : pos = size
    · rw [if_pos hend] at h
      have hl : l = [] := by simpa using h.symm
      subst hl; simp at hp
    · rw [if_neg hend] at h
      by_cases hc : pos < size ∧ 8 + dirent_name_len v pos ≤ dirent_rec_len v pos ∧
          pos % bs + dirent_rec_len v pos ≤ bs
      · rw [if_pos hc] at h
        cases hrec : dir_chain v bs size f (pos + dirent_rec_len v pos) with
        | none => rw [hrec] at h; simp at h
        | some l2 =>
          rw [hrec] at h
          have hl : l = pos :: l2 := by simpa using h.symm
          subst hl
          by_cases hpp : p = pos
          · left
            rw [hpp]
            exact dir_chain_tail_ge v bs size f pos _ hfull q hq (by rw [← hpp]; exact Ne.symm hne)
          · by_cases hqp : q = pos
            · right
              rw [hqp]
              exact dir_chain_tail_ge v bs size f pos _ hfull p hp hpp
            · have hp2 : p ∈ l2 := by
                rcases List.mem_cons.1 hp with h1 | h1
                · exact absurd h1 hpp
                · exact h1
              have hq2 : q ∈ l2 := by
                rcases List.mem_cons.1 hq with h1 | h1
                · exact absurd h1 hqp
                · exact h1
              exact ih _ _ hrec p q hp2 hq2 hne
      · rw [if_neg hc] at h; simp at h

/-- The call of `unlink_ext2` that finds no live record with the name. -/
theorem unlink_ext2_miss (fuel : Nat) (fs : ext2_fs_t) (ino : Nat) (name : List Nat)
    (l : List Nat) (hrw : fs.flags &&& EXT2_FLAG_READWRITE ≠ 0)
    (hwf : dir_well_formed fs ino l) (hfuel : l.length < fuel)
    (hfind : l.find? (live_named (file_view fs (read_inode fs ino)) name) = none) :
    unlink_ext2 fuel fs ino name = some (-ENOENT, fs) := by
  obtain ⟨hbs, -, h256, hmap, hchain⟩ := hwf
  obtain ⟨res, hres, hmatch⟩ := lookup_loop_refines fs (read_inode fs ino) name hbs h256 hmap
    _ 0 l hchain fuel 0 0 (inode_read_block fs (read_inode fs ino) 0 fs.malloc_junk).2 hfuel
    (scan_at_start fs _ _ hmap)
  rw [hfind] at hmatch
  have hres2 : res = none := hmatch
  unfold unlink_ext2
  rw [if_neg hrw]
  dsimp only
  rw [hres, hres2]

/-- The call of `unlink_ext2` that finds the record at `p`: the block of the
record is written back with the inode field zeroed, and the record of the
inode it named is written with its link count lowered when that was
positive. -/
theorem unlink_ext2_call (fuel : Nat) (fs : ext2_fs_t) (ino : Nat) (name : List Nat)
    (l : List Nat) (p : Nat) (hrw : fs.flags &&& EXT2_FLAG_READWRITE ≠ 0)
    (hwf : dir_well_formed fs ino l) (hfuel : l.length < fuel)
    (hfind : l.find? (live_named (file_view fs (read_inode fs ino)) name) = some p) :
    ∃ B fs1, holds_block fs (read_inode fs ino) B (p / fs.block_size) ∧
      fs1 = (write_block fs (get_block_number fs (read_inode fs ino) (p / fs.block_size))
        (set32 B (p % fs.block_size) 0)).2 ∧
      unlink_ext2 fuel fs ino name = some (0,
        if inode_links_count
            (read_inode fs1 (dirent_inode (file_view fs (read_inode fs ino)) p)) > 0 then
          (write_inode fs1 (set16
            (read_inode fs1 (dirent_inode (file_view fs (read_inode fs ino)) p)) 26
            (sub16 (inode_links_count
              (read_inode fs1 (dirent_inode (file_view fs (read_inode fs ino)) p))) 1))
            (dirent_inode (file_view fs (read_inode fs ino)) p)).2
        else fs1) := by
  obtain ⟨hbs, -, h256, hmap, hchain⟩ := hwf
  have hp : p ∈ l := List.mem_of_find?_eq_some hfind
  obtain ⟨-, hpsize, hplen, hpfit, -⟩ := dir_chain_mem _ _ _ _ _ _ hchain p hp
  obtain ⟨res, hres, hmatch⟩ := lookup_loop_refines fs (read_inode fs ino) name hbs h256 hmap
    _ 0 l hchain fuel 0 0 (inode_read_block fs (read_inode fs ino) 0 fs.malloc_junk).2 hfuel
    (scan_at_start fs _ _ hmap)
  rw [hfind] at hmatch
  obtain ⟨B, hB, hholds⟩ := hmatch
  obtain ⟨f1, -, -, -⟩ := record_fields fs (read_inode fs ino) B p hholds hplen hpfit
  have hm := hmap (p / fs.block_size) (by
    have := Nat.div_mul_le_self p fs.block_size
    omega)
  obtain ⟨fuel', hfuel'⟩ : ∃ fuel', fuel = fuel' + 1 := ⟨fuel - 1, by omega⟩
  refine ⟨B, _, hholds, rfl, ?_⟩
  unfold unlink_ext2
  rw [if_neg hrw]
  dsimp only
  rw [hres, hB]
  dsimp only
  rw [hfuel', inode_write_block_present _ _ _ _ _ _ hm.1]
  dsimp only
  rw [f1]
  split <;> rfl

/-- Zeroing the inode field of one record keeps the lengths of all records. -/
theorem rec_lens_aligned_after_zero (v v2 : Buf) (bs size p : Nat) (f pos : Nat) (l : List Nat)
    (hchain : dir_chain v bs size f pos = some l) (hp : p ∈ l)
    (hv2 : ∀ x, x < size → v2 x = if p ≤ x ∧ x < p + 4 then 0 else v x)
    (hal : rec_lens_aligned v l) : rec_lens_aligned v2 l := by
  intro q hq
  obtain ⟨-, h1, h2, h3, h4⟩ := dir_chain_mem _ _ _ _ _ _ hchain q hq
  obtain ⟨-, g1, g2, g3, g4⟩ := dir_chain_mem _ _ _ _ _ _ hchain p hp
  have hout : ∀ i, 4 ≤ i → i < 8 → v2 (q + i) = v (q + i) := by
    intro i hi1 hi2
    rw [hv2 _ (by omega)]
    by_cases hpq : p = q
    · rw [if_neg (by omega)]
    · rcases dir_chain_disjoint _ _ _ _ _ _ hchain p q hp hq hpq with hd | hd
      · rw [if_neg (by omega)]
      · rw [if_neg (by omega)]
  have e1 : dirent_rec_len v2 q = dirent_rec_len v q := by
    unfold dirent_rec_len
    apply get16_congr
    intro k hk
    unfold get8
    rw [show q + 4 + k = q + (4 + k) by omega, hout _ (by omega) (by omega)]
  have e2 : dirent_name_len v2 q = dirent_name_len v q := by
    unfold dirent_name_len get8
    rw [hout 6 (by omega) (by omega)]
  rw [e1, e2]
  exact hal q hq

/-- Directory well-formedness is kept by `unlink_ext2`: for a directory that
is ready, whose live records name the directory itself or an inode whose
record lies apart from the storage of the directory, the call returns and
leaves the directory well-formed with the same records. -/
theorem unlink_keeps_well_formed (fuel : Nat) (fs : ext2_fs_t) (P : Nat → Prop) (ino : Nat)
    (l : List Nat) (name : List Nat)
    (hready : dir_ready fs P ino l) (hfuel : l.length < fuel)
    (htarget : ∀ p, p ∈ l →
      dirent_inode (file_view fs (read_inode fs ino)) p = ino ∨
      ∀ a, inode_write_range fs (dirent_inode (file_view fs (read_inode fs ino)) p) a →
        ¬ dir_storage fs ino (inode_record_addr fs ino) a) :
    ∃ r fs2, unlink_ext2 fuel fs ino name = some (r, fs2) ∧
      dir_well_formed fs2 ino l ∧ rec_lens_aligned (file_view fs2 (read_inode fs2 ino)) l := by
  obtain ⟨hadr, hisz, hmode, hwf, hal, hlay, hrt, htab, hP, hok⟩ := hready
  by_cases hrw : fs.flags &&& EXT2_FLAG_READWRITE = 0
  · refine ⟨-EROFS, fs, ?_, hwf, hal⟩
    unfold unlink_ext2
    rw [if_pos hrw]
  cases hfind : l.find? (live_named (file_view fs (read_inode fs ino)) name) with
  | none => exact ⟨-ENOENT, fs, unlink_ext2_miss fuel fs ino name l hrw hwf hfuel hfind, hwf, hal⟩
  | some p =>
    obtain ⟨B, fs1, hholds, hfs1, hcall⟩ := unlink_ext2_call fuel fs ino name l p hrw hwf hfuel hfind
    have hp : p ∈ l := List.mem_of_find?_eq_some hfind
    have hwf0 := hwf
    have hlay0 := hlay
    obtain ⟨hbs, hmul, h256, hmap, hchain⟩ := hwf
    obtain ⟨hslot, hP1, hP2, hP3, hdist, hdir⟩ := hlay
    obtain ⟨-, hpsize, hplen, hpfit, hpend⟩ := dir_chain_mem _ _ _ _ _ _ hchain p hp
    have hxk : ∀ x, x < inode_size_field (read_inode fs ino) →
        x / fs.block_size * fs.block_size < inode_size_field (read_inode fs ino) := by
      intro x hx
      have := Nat.div_mul_le_self x fs.block_size
      omega
    obtain ⟨hread, hgbn, hview⟩ := dir_block_write fs ino _ l (p / fs.block_size)
      (set32 B (p % fs.block_size) 0) hwf0 hlay0 (hxk p hpsize)
    rw [← hfs1] at hread hgbn hview
    have hgeo : same_geometry fs fs1 := by
      rw [hfs1]; exact same_geometry_write_block fs _ _
    -- the content after the first store
    have hv2 : ∀ x, x < inode_size_field (read_inode fs ino) →
        file_view fs1 (read_inode fs ino) x
          = if p ≤ x ∧ x < p + 4 then 0 else file_view fs (read_inode fs ino) x := by
      intro x hx
      rw [hview x hx]
      have hdx := Nat.div_add_mod x fs.block_size
      have hdp := Nat.div_add_mod p fs.block_size
      have hxm : x % fs.block_size < fs.block_size := Nat.mod_lt _ hbs
      by_cases hk : x / fs.block_size = p / fs.block_size
      · rw [if_pos hk, set32_zero_apply]
        rw [hk] at hdx
        by_cases hc : p ≤ x ∧ x < p + 4
        · rw [if_pos hc, if_pos (by omega)]
        · rw [if_neg hc, if_neg (by omega), holds_block_at fs _ B _ _ hholds hxm]
          congr 1
          rw [Nat.mul_comm]
          exact hdx
      · rw [if_neg hk, if_neg]
        rintro ⟨h1, h2⟩
        apply hk
        have := (div_mod_add p (x - p) fs.block_size (by omega)).1
        rw [show p + (x - p) = x by omega] at this
        exact this
    obtain ⟨hchain1, -⟩ := dir_chain_after_zero _ _ fs.block_size _ p name hv2 _ 0 l hchain
      (Or.inl ⟨hp, Nat.zero_le _⟩)
    have hal1 : rec_lens_aligned (file_view fs1 (read_inode fs ino)) l :=
      rec_lens_aligned_after_zero _ _ _ _ p _ 0 l hchain hp hv2 hal
    have hfa : ∀ x, x < inode_size_field (read_inode fs ino) →
        file_byte_addr fs1 (read_inode fs ino) x = file_byte_addr fs (read_inode fs ino) x := by
      intro x hx
      unfold file_byte_addr
      rw [block_start_geom hgeo, hgeo.bs, hgbn _ (hxk x hx)]
    have hwf1 : dir_well_formed fs1 ino l := by
      refine ⟨?_, ?_, ?_, ?_, ?_⟩
      · rw [hgeo.bs]; exact hbs
      · rw [hread, hgeo.bs]; exact hmul
      · rw [hread, hgeo.bs]; exact h256
      · rw [hread]
        intro j hj
        rw [hgeo.bs] at hj ⊢
        rw [hgbn j hj]
        exact hmap j hj
      · rw [hread, hgeo.bs]; exact hchain1
    have hlay1 : dir_layout fs1 ino (inode_record_addr fs ino) := by
      refine ⟨?_, ?_, ?_, ?_, ?_, ?_⟩
      · rw [inode_slot_geom hgeo]; exact hslot
      · rw [hgeo.ppb]; exact hP1
      · rw [hgeo.ppb]; exact hP2
      · rw [hgeo.ppb, hgeo.bs]; exact hP3
      · rw [hread]
        intro x y hx hy hxy
        rw [hfa x hx, hfa y hy] at hxy
        exact hdist x y hx hy hxy
      · rw [hread, hgeo.isz]
        intro x hx
        rw [hfa x hx, in_block_geom hgeo]
        exact hdir x hx
    have hal1b : rec_lens_aligned (file_view fs1 (read_inode fs1 ino)) l := by
      rw [hread]; exact hal1
    generalize ht : dirent_inode (file_view fs (read_inode fs ino)) p = t at hcall
    have htg := htarget p hp
    rw [ht] at htg
    by_cases hlinks : inode_links_count (read_inode fs1 t) > 0
    · rw [if_pos hlinks] at hcall
      refine ⟨0, _, hcall, ?_⟩
      have hgeo2 := same_geometry_write_inode fs1
        (set16 (read_inode fs1 t) 26 (sub16 (inode_links_count (read_inode fs1 t)) 1)) t
      apply dir_wf_transfer hgeo2 ino _ l hwf1 hal1b hlay1
      · intro j hj
        rcases htg with htg | htg
        · subst htg
          have hadr1 : inode_addressable fs1 t := (inode_addressable_geom hgeo t).2 hadr
          rw [read_after_write_inode fs1 _ t hadr1
            (record_shaped_set16 (record_shaped_read fs1 t hadr1) _ _
              (by rw [hgeo.isz]; omega))]
          rw [set16_outside _ _ _ _ (by omega)]
        · have : read_inode (write_inode fs1
              (set16 (read_inode fs1 t) 26 (sub16 (inode_links_count (read_inode fs1 t)) 1)) t).2 ino
              = read_inode fs1 ino := by
            apply read_inode_geom hgeo2 ino _ hlay1.1
            intro a h1 h2
            apply write_inode_device_outside
            intro hc
            rw [inode_write_range_geom hgeo] at hc
            rw [hgeo.isz] at h2
            exact htg a hc (Or.inl ⟨h1, h2⟩)
          rw [this]
      · intro a ha
        rw [hread, in_block_geom hgeo] at ha
        apply write_inode_device_outside
        intro hc
        rw [inode_write_range_geom hgeo] at hc
        have hsto : dir_storage fs ino (inode_record_addr fs ino) a := by
          rcases ha with ha | ⟨x, hx, ha⟩
          · exact Or.inr (Or.inl ha)
          · rw [hfa x hx] at ha
            exact Or.inr (Or.inr ⟨x, hx, ha⟩)
        rcases htg with htg | htg
        · subst htg
          rw [inode_write_range_of_addressable fs _ a hadr] at hc
          rcases ha with ha | ⟨x, hx, ha⟩
          · exact hrt a hc ha
          · rw [hfa x hx] at ha
            rw [ha] at hc
            exact (hdir x hx).1 hc
        · exact htg a hc hsto
    · rw [if_neg hlinks] at hcall
      exact ⟨0, fs1, hcall, hwf1, hal1b⟩

/-! ## Symbolic links -/

/-- The bytes of a C string are bytes. -/
theorem c_str_getD_u8 (s : List Nat) (k : Nat) : u8 ((c_str s).getD k 0) = (c_str s).getD k 0 := by
  by_cases hk : k < (c_str s).length
  · have hmem : (c_str s).getD k 0 ∈ c_str s := by
      rw [List.getD_eq_getElem _ _ hk]
      exact List.getElem_mem _
    have hmap : (c_str s).getD k 0 ∈ s.map u8 := (List.takeWhile_prefix _).sublist.subset hmem
    obtain ⟨x, -, hx⟩ := List.mem_map.1 hmap
    rw [← hx]
    unfold u8
    exact Nat.mod_mod _ _
  · rw [List.getD_eq_default _ _ (by omega)]
    rfl

/-- The fields of the record that `symlink_ext2` writes for a target of at
most 60 bytes: the size is the length of the target, no block is counted, and
the bytes of `block[]` hold the target. -/
theorem symlink_record_fields (r : Buf) (amb : ambient_t) (target : List Nat)
    (hL : strlen target ≤ 60) :
    inode_size_field (symlink_record r amb target) = strlen target ∧
    inode_blocks (symlink_record r amb target) = 0 ∧
    ∀ k, k < strlen target → symlink_record r amb target (40 + k) = (c_str target).getD k 0 := by
  have hlen : (c_str target).length = strlen target := rfl
  obtain ⟨-, hb, -, -, -⟩ := init_inode_fields r amb 1 (EXT2_S_IFLNK ||| 0x1FF)
  refine ⟨?_, ?_, ?_⟩
  · unfold symlink_record inode_size_field
    rw [get32_set32_same, Nat.mod_eq_of_lt (by omega)]
  · unfold symlink_record inode_blocks
    rw [get32_set32_other _ _ _ _ (by omega)]
    rw [← hb]
    unfold inode_blocks
    apply get32_congr
    intro k hk
    unfold get8
    rw [write_bytes_outside _ _ _ _ (by omega)]
  · intro k hk
    unfold symlink_record
    rw [set32_outside _ _ _ _ (by omega)]
    unfold write_bytes
    rw [if_pos ⟨by omega, by omega⟩, Nat.add_sub_cancel_left, c_str_getD_u8]

/-- What `readlink_ext2` delivers for a link whose record holds its target in
`block[]`: the length of the target, and the target followed by a NUL. -/
theorem readlink_embedded (fs : ext2_fs_t) (n : Nat) (buf : Buf) (size L : Nat)
    (hsize : inode_size_field (read_inode fs n) = L) (hL : L ≤ 60) (hbuf : L < size) :
    (readlink_ext2 fs n buf size).1 = L ∧
    (∀ k, k < L → (readlink_ext2 fs n buf size).2 k = read_inode fs n (40 + k)) ∧
    (readlink_ext2 fs n buf size).2 L = 0 := by
  unfold readlink_ext2
  dsimp only
  simp only [hsize, if_pos hbuf, if_neg (Nat.not_lt.2 hL)]
  refine ⟨trivial, ?_, ?_⟩
  · intro k hk
    unfold set8 memcpy
    rw [if_neg (by omega), if_pos ⟨by omega, by omega⟩, Nat.sub_zero]
  · unfold set8
    rw [if_pos rfl]

/-! ## The fresh volume -/

theorem fresh_root_addr (x : Nat) (hx : x < 1024) :
    file_byte_addr fresh_fs (read_inode fresh_fs 2) x = 51200 + x := by
  unfold file_byte_addr
  have hbs : fresh_fs.block_size = 1024 := rfl
  rw [hbs, Nat.div_eq_of_lt hx, Nat.mod_eq_of_lt hx]
  have e : block_start fresh_fs (get_block_number fresh_fs (read_inode fresh_fs 2) 0) = 51200 := by
    decide
  rw [e]

theorem fresh_root_well_formed : dir_well_formed fresh_fs 2 [0, 12] := by
  have hsize : inode_size_field (read_inode fresh_fs 2) = 1024 := by decide
  refine ⟨by decide, by decide, by decide, ?_, by decide⟩
  intro k hk
  rw [hsize] at hk
  have hbs : fresh_fs.block_size = 1024 := rfl
  rw [hbs] at hk
  have hk0 : k = 0 := by omega
  subst hk0
  decide

theorem fresh_root_layout : dir_layout fresh_fs 2 5248 := by
  have hsize : inode_size_field (read_inode fresh_fs 2) = 1024 := by decide
  refine ⟨by decide, by decide, by decide, by decide, ?_, ?_⟩
  · intro x y hx hy h
    rw [hsize] at hx hy
    rw [fresh_root_addr x hx, fresh_root_addr y hy] at h
    omega
  · intro x hx
    rw [hsize] at hx
    rw [fresh_root_addr x hx]
    have hisz : fresh_fs.inode_size = 128 := rfl
    rw [hisz]
    refine ⟨by omega, ?_⟩
    rintro ⟨h0, -, -⟩
    exact h0 (by decide)

theorem fresh_in_block (b a : Nat) (hb : b < 4194304) (h : in_block fresh_fs b a) :
    b ≠ 0 ∧ b * 1024 ≤ a ∧ a < b * 1024 + 1024 := by
  obtain ⟨h0, h1, h2⟩ := h
  have hbs : fresh_fs.block_size = 1024 := rfl
  unfold block_start at h1 h2
  rw [hbs] at h1 h2
  unfold u32 at h0 h1 h2
  rw [Nat.mod_eq_of_lt (by omega)] at h0 h1 h2
  rw [Nat.mod_eq_of_lt (by omega)] at h1 h2
  exact ⟨h0, h1, h2⟩

theorem fresh_meta_range (a : Nat) (h : meta_range fresh_fs a) : 1024 ≤ a ∧ a < 3072 := by
  rcases h with h | ⟨j, hj, h⟩
  · omega
  · have hspan : fresh_fs.bgd_block_span = 1 := rfl
    have hoff : fresh_fs.bgd_offset = 2 := rfl
    rw [hspan] at hj
    rw [hoff] at h
    have hj0 : j = 0 := by omega
    subst hj0
    have := fresh_in_block _ a (by omega) h
    omega

theorem fresh_bitmap_range (a : Nat) (h : block_bitmap_range fresh_fs a) :
    3072 ≤ a ∧ a < 4096 := by
  obtain ⟨g, hg, h⟩ := h
  have hc : fresh_fs.block_group_count = 1 := rfl
  rw [hc] at hg
  have hg0 : g = 0 := by omega
  subst hg0
  have e : bgd_block_bitmap fresh_fs 0 = 3 := by decide
  rw [e] at h
  have := fresh_in_block _ a (by omega) h
  omega

theorem fresh_inode_bitmap_range (a : Nat) (h : inode_bitmap_range fresh_fs a) :
    4096 ≤ a ∧ a < 5120 := by
  obtain ⟨g, hg, h⟩ := h
  have hc : fresh_fs.block_group_count = 1 := rfl
  rw [hc] at hg
  have hg0 : g = 0 := by omega
  subst hg0
  have e : bgd_inode_bitmap fresh_fs 0 = 4 := by decide
  rw [e] at h
  have := fresh_in_block _ a (by omega) h
  omega

theorem fresh_free_bit (k : Nat) (h : BLOCKBIT (block_bitmap fresh_fs 0) k = false) :
    64 ≤ k := by
  by_contra hc
  have hk : k / 8 < 8 := by omega
  have hbyte : get8 (block_bitmap fresh_fs 0) (k / 8) = 255 := by
    generalize k / 8 = j at hk
    interval_cases j <;> decide
  unfold BLOCKBIT at h
  rw [hbyte] at h
  have hm : k % 8 < 8 := Nat.mod_lt _ (by decide)
  generalize k % 8 = i at hm h
  interval_cases i <;> exact absurd h (by decide)

theorem fresh_free_range (a : Nat) (h : free_range fresh_fs a) : 65536 ≤ a := by
  obtain ⟨g, k, hg, hk, hbit, h⟩ := h
  have hc : fresh_fs.block_group_count = 1 := rfl
  have hbs : fresh_fs.block_size = 1024 := rfl
  rw [hc] at hg
  rw [hbs] at hk
  have hg0 : g = 0 := by omega
  subst hg0
  have h64 := fresh_free_bit k hbit
  have e : bit_block fresh_fs 0 k = k := by
    unfold bit_block
    have : u32 (sb_blocks_per_group fresh_fs * 0) = 0 := by decide
    rw [this, Nat.add_zero]
    unfold u64
    exact Nat.mod_eq_of_lt (by omega)
  rw [e] at h
  have := fresh_in_block _ a (by omega) h
  omega

theorem fresh_volume_ok : volume_ok fresh_fs fresh_in_use := by
  have hc : fresh_fs.block_group_count = 1 := rfl
  have hbs : fresh_fs.block_size = 1024 := rfl
  refine ⟨?_, ?_, ?_, ?_, ?_, ?_⟩
  · intro g hg
    rw [hc] at hg
    have hg0 : g = 0 := by omega
    subst hg0
    decide
  · intro g g2 hg hg2 hne
    rw [hc] at hg hg2
    omega
  · intro a ha
    have h1 := fresh_bitmap_range a ha
    refine ⟨fun hm => ?_, fun hf => ?_⟩
    · have := fresh_meta_range a hm
      omega
    · have := fresh_free_range a hf
      omega
  · intro g k hg hk hbit
    rw [hc] at hg
    rw [hbs] at hk ⊢
    have hg0 : g = 0 := by omega
    subst hg0
    have h64 := fresh_free_bit k hbit
    have e : sb_blocks_per_group fresh_fs = 8192 := by decide
    rw [e]
    omega
  · intro a ha hm
    have h1 := fresh_free_range a ha
    have := fresh_meta_range a hm
    omega
  · intro a ha
    unfold fresh_in_use at ha
    refine ⟨fun hm => ?_, fun hb => ?_, fun hf => ?_⟩
    · have := fresh_meta_range a hm
      omega
    · have := fresh_bitmap_range a hb
      omega
    · have := fresh_free_range a hf
      omega

theorem fresh_root_storage (a : Nat)
    (h : dir_storage fresh_fs 2 (inode_record_addr fresh_fs 2) a) :
    (5248 ≤ a ∧ a < 5376) ∨ (51200 ≤ a ∧ a < 52224) := by
  have hsize : inode_size_field (read_inode fresh_fs 2) = 1024 := by decide
  have hrec : inode_record_addr fresh_fs 2 = 5248 := by decide
  have hisz : fresh_fs.inode_size = 128 := rfl
  rw [hrec] at h
  rcases h with h | h | ⟨x, hx, h⟩
  · rw [hisz] at h; omega
  · exact absurd (by decide) h.1
  · rw [hsize] at hx
    rw [fresh_root_addr x hx] at h
    omega

theorem fresh_root_ready : dir_ready fresh_fs fresh_in_use 2 [0, 12] := by
  have hrec : inode_record_addr fresh_fs 2 = 5248 := by decide
  refine ⟨by unfold inode_addressable; decide, by decide, by decide, fresh_root_well_formed, ?_,
    by rw [hrec]; exact fresh_root_layout, ?_, ?_, ?_, fresh_volume_ok⟩
  · intro q hq
    simp only [List.mem_cons, List.mem_singleton, List.not_mem_nil, or_false] at hq
    rcases hq with rfl | rfl <;> decide
  · intro a _ h
    exact absurd (by decide) h.1
  · intro h
    exact absurd h (by decide)
  · intro a ha
    have := fresh_root_storage a ha
    unfold fresh_in_use
    omega

theorem fresh_root_slack :
    last_has_slack (file_view fresh_fs (read_inode fresh_fs 2)) [0, 12] :=
  ⟨12, rfl, by decide⟩

theorem fresh_free_blocks : free_blocks_ready fresh_fs 3 := by
  refine ⟨0, [64, 65, 66], by decide, ?_, by decide, by decide, by decide, ?_⟩
  · intro j hj
    omega
  · intro k hk
    simp only [List.mem_cons, List.mem_singleton, List.not_mem_nil, or_false] at hk
    rcases hk with rfl | rfl | rfl <;> decide

theorem fresh_new_inode_apart (a : Nat) (h : record_range fresh_fs 11 a) :
    fresh_in_use a ∧ ¬ dir_storage fresh_fs 2 (inode_record_addr fresh_fs 2) a := by
  have hrec : inode_record_addr fresh_fs 11 = 6400 := by decide
  have hisz : fresh_fs.inode_size = 128 := rfl
  unfold record_range at h
  rw [hrec, hisz] at h
  refine ⟨⟨by omega, by omega⟩, fun hc => ?_⟩
  have := fresh_root_storage a hc
  omega

theorem fresh_inode_bitmap_apart (a : Nat) (h : inode_bitmap_range fresh_fs a) :
    ¬ fresh_in_use a ∧ ¬ block_bitmap_range fresh_fs a := by
  have h1 := fresh_inode_bitmap_range a h
  refine ⟨fun hc => ?_, fun hc => ?_⟩
  · unfold fresh_in_use at hc
    omega
  · have := fresh_bitmap_range a hc
    omega

theorem eq_some_none_of_map {α : Type} (o : Option (Option α))
    (h : o.map Option.isSome = some false) : o = some none := by
  cases o with
  | none => simp at h
  | some x =>
    cases x with
    | none => rfl
    | some y => simp at h

/-- The lookup of `finddir_ext2` returns in a well-formed directory. -/
theorem finddir_ext2_total (fuel : Nat) (fs : ext2_fs_t) (ino : Nat) (name : List Nat)
    (l : List Nat) (hwf : dir_well_formed fs ino l) (hfuel : l.length < fuel) :
    ∃ r, finddir_ext2 fuel fs ino name = some r := by
  obtain ⟨hbs, -, h256, hmap, hchain⟩ := hwf
  obtain ⟨res, hres, -⟩ := lookup_loop_refines fs (read_inode fs ino) name hbs h256 hmap
    _ 0 l hchain fuel 0 0 (inode_read_block fs (read_inode fs ino) 0 fs.malloc_junk).2 hfuel
    (scan_at_start fs _ _ hmap)
  unfold finddir_ext2
  dsimp only
  rw [hres]
  cases res with
  | none => exact ⟨_, rfl⟩
  | some t => exact ⟨_, rfl⟩

/-! ## Running out of blocks -/

/-- The loop of `inode_write_block` never ends when `allocate_block` finds no
free block and the record on the device counts too few blocks: every
iteration leaves the state as it was and reloads the same record. -/
theorem inode_write_block_loop_stuck (fs : ext2_fs_t) (ino block : Nat)
    (hfull : allocate_block fs = some (0, fs))
    (hdisk : ∀ r, block ≥ inode_blocks (refresh_inode fs r ino) / (fs.block_size / 512)) :
    ∀ fuel inode, block ≥ inode_blocks inode / (fs.block_size / 512) →
      inode_write_block_loop ino block fuel fs inode = none := by
  intro fuel
  induction fuel with
  | zero => intro inode _; rfl
  | succ fuel ih =>
    intro inode h
    unfold inode_write_block_loop
    rw [if_pos h]
    unfold allocate_inode_block
    rw [hfull]
    dsimp only
    rw [if_pos (by decide)]
    dsimp only
    exact ih _ (hdisk _)

/-! ## Records after create_entry -/

/-- What `finddir_ext2` returns in a well-formed directory: the node of the
first live record with the name, whose inode number is the inode field of
that record; NULL when there is none. -/
theorem finddir_ext2_spec (fuel : Nat) (fs : ext2_fs_t) (ino : Nat) (name : List Nat)
    (l : List Nat) (hwf : dir_well_formed fs ino l) (hfuel : l.length < fuel) :
    (finddir_ext2 fuel fs ino name).map (Option.map fs_node_t.inode)
      = some ((l.find? (live_named (file_view fs (read_inode fs ino)) name)).map
          (dirent_inode (file_view fs (read_inode fs ino)))) := by
  obtain ⟨hbs, -, h256, hmap, hchain⟩ := hwf
  obtain ⟨res, hres, hmatch⟩ := lookup_loop_refines fs (read_inode fs ino) name hbs h256 hmap
    _ 0 l hchain fuel 0 0 (inode_read_block fs (read_inode fs ino) 0 fs.malloc_junk).2 hfuel
    (scan_at_start fs _ _ hmap)
  unfold finddir_ext2
  dsimp only
  rw [hres]
  cases hfind : l.find? (live_named (file_view fs (read_inode fs ino)) name) with
  | none =>
    rw [hfind] at hmatch
    have : res = none := hmatch
    rw [this]
    rfl
  | some p =>
    rw [hfind] at hmatch
    obtain ⟨B, hB, hholds⟩ := hmatch
    have hp : p ∈ l := List.mem_of_find?_eq_some hfind
    obtain ⟨-, hpsize, hplen, hpfit, -⟩ := dir_chain_mem _ _ _ _ _ _ hchain p hp
    obtain ⟨f1, f2, f3, f4⟩ := record_fields fs (read_inode fs ino) B p hholds hplen hpfit
    rw [hB]
    dsimp only
    have hlenB : 8 + dirent_name_len B (p % fs.block_size)
        ≤ dirent_rec_len B (p % fs.block_size) := by rw [f2, f3]; exact hplen
    obtain ⟨c1, -⟩ := direntry_copy_fields fs.malloc_junk B (p % fs.block_size) hlenB
    simp only [Option.map_some', node_from_file]
    rw [c1, f1]

/-- The name stored by `with_entry` is the name given, for a name of fewer
than 256 bytes. -/
theorem with_entry_name (b : Buf) (off inode rec_len : Nat) (name : List Nat)
    (hname : strlen name < 256) :
    dirent_name (with_entry b off inode rec_len name) off = c_str name := by
  obtain ⟨-, -, h3⟩ := with_entry_fields b off inode rec_len name
  have hs : (c_str name).length = strlen name := rfl
  unfold dirent_name
  rw [h3, Nat.mod_eq_of_lt hname]
  apply List.ext_getElem
  · rw [List.length_map, List.length_range, hs]
  · intro k h1 h2
    rw [List.getElem_map, List.getElem_range]
    unfold get8 with_entry write_bytes
    rw [if_pos ⟨by omega, by omega⟩]
    rw [show off + 8 + k - (off + 8) = k by omega, c_str_getD_u8, ← c_str_getD_u8,
      List.getD_eq_getElem _ _ h2]
    unfold u8
    rw [Nat.mod_mod]
    have := c_str_getD_u8 name k
    rw [List.getD_eq_getElem _ _ h2] at this
    exact this

/-- The inode field, the name length and the name of the record at `r` are
the same in `w` as in `v` when the bytes that hold them are. -/
theorem record_kept (v w : Buf) (r : Nat)
    (h : ∀ x, (r ≤ x ∧ x < r + 4) ∨ (r + 6 ≤ x ∧ x < r + 8 + dirent_name_len v r) → w x = v x) :
    dirent_inode w r = dirent_inode v r ∧ dirent_name_len w r = dirent_name_len v r ∧
    dirent_name w r = dirent_name v r := by
  have hn : dirent_name_len w r = dirent_name_len v r := by
    unfold dirent_name_len get8
    rw [h _ (Or.inr ⟨by omega, by omega⟩)]
  refine ⟨?_, hn, ?_⟩
  · unfold dirent_inode
    apply get32_congr
    intro k hk
    unfold get8
    rw [h _ (Or.inl ⟨by omega, by omega⟩)]
  · unfold dirent_name
    rw [hn]
    apply List.map_congr_left
    intro k hk
    rw [List.mem_range] at hk
    unfold get8
    rw [h _ (Or.inr ⟨by omega, by omega⟩)]

/-- The bytes that hold the inode field and the name of a record of the chain
lie below the size and outside the two ranges that `create_entry` rewrites
when it appends in place behind the last record `q`. -/
theorem kept_in_place (v W : Buf) (bs size : Nat) (f pos : Nat) (l : List Nat)
    (hchain : dir_chain v bs size f pos = some l) (q msl : Nat) (hq : q ∈ l)
    (hmsl : 8 + dirent_name_len v q ≤ msl)
    (hWout : ∀ x, ¬ (q + 4 ≤ x ∧ x < q + 6) →
      ¬ (q + msl ≤ x ∧ x < q + dirent_rec_len v q) → W x = v x) :
    ∀ r, r ∈ l → ∀ x,
      (r ≤ x ∧ x < r + 4) ∨ (r + 6 ≤ x ∧ x < r + 8 + dirent_name_len v r) →
      x < size ∧ W x = v x := by
  intro r hr x hx
  obtain ⟨-, hrsize, hrlen, hrfit, hrend⟩ := dir_chain_mem _ _ _ _ _ _ hchain r hr
  obtain ⟨-, -, hqlen, -, -⟩ := dir_chain_mem _ _ _ _ _ _ hchain q hq
  refine ⟨by omega, ?_⟩
  by_cases hrq : r = q
  · subst hrq
    exact hWout x (by omega) (by omega)
  · rcases dir_chain_disjoint _ _ _ _ _ _ hchain r q hr hq hrq with hd | hd
    · exact hWout x (by omega) (by omega)
    · exact hWout x (by omega) (by omega)

/-- The records of a directory after `create_entry`: every record that was
there keeps its inode field and its name, and the new record, the last of the
chain, carries the inode number and the name given. -/
theorem create_entry_records (fuel : Nat) (fs : ext2_fs_t) (P : Nat → Prop) (ino : Nat)
    (l : List Nat) (name : List Nat) (n m : Nat)
    (hready : dir_ready fs P ino l)
    (hslack : last_has_slack (file_view fs (read_inode fs ino)) l)
    (hfuel : l.length < fuel) (hname : strlen name < 256)
    (hsmall : inode_size_field (read_inode fs ino) < 256 * fs.block_size)
    (hbs16 : fs.block_size < 65536)
    (hfree : free_blocks_ready fs (m + 2)) :
    ∃ fs2 p, create_entry fuel fs ino (some name) n = some (E_NOSPACE, fs2) ∧
      dir_well_formed fs2 ino (l ++ [p]) ∧
      (∀ r, r ∈ l →
        dirent_inode (file_view fs2 (read_inode fs2 ino)) r
          = dirent_inode (file_view fs (read_inode fs ino)) r ∧
        dirent_name_len (file_view fs2 (read_inode fs2 ino)) r
          = dirent_name_len (file_view fs (read_inode fs ino)) r ∧
        dirent_name (file_view fs2 (read_inode fs2 ino)) r
          = dirent_name (file_view fs (read_inode fs ino)) r) ∧
      dirent_inode (file_view fs2 (read_inode fs2 ino)) p = n % 4294967296 ∧
      dirent_name_len (file_view fs2 (read_inode fs2 ino)) p = strlen name ∧
      dirent_name (file_view fs2 (read_inode fs2 ino)) p = c_str name := by
  obtain ⟨q, hlast, hsl⟩ := hslack
  have hready0 := hready
  obtain ⟨hadr, hisz, hmode, hwf, hal, hlay, hrt, htab, hP, hok⟩ := hready
  obtain ⟨hbs, hmul, h256, hmap, hchain⟩ := hwf
  obtain ⟨hq, hqend⟩ := dir_chain_last _ _ _ _ _ _ q hchain hlast
  obtain ⟨-, hqsize, hqlen, hqfit, -⟩ := dir_chain_mem _ _ _ _ _ _ hchain q hq
  obtain ⟨hal4, halmin⟩ := hal q hq
  have hmslb := min_rec_len_bounds (dirent_name_len (file_view fs (read_inode fs ino)) q)
  have hnameb := min_rec_len_bounds (strlen name)
  have hfill := last_fills_block _ _ _ _ hbs hmul hqend hqfit (by omega)
  by_cases hroom : q % fs.block_size
      + min_rec_len (dirent_name_len (file_view fs (read_inode fs ino)) q)
      + min_rec_len (strlen name) < fs.block_size
  · obtain ⟨fs2, hcall, hmeta, hready2, hframe, hread, hview, hstore2⟩ :=
      create_entry_in_place_ready fuel fs P ino l q name n hready0 hlast hsl hfuel hroom
    generalize hmsl : min_rec_len (dirent_name_len (file_view fs (read_inode fs ino)) q) = msl
      at *
    generalize hv : file_view fs (read_inode fs ino) = v at *
    generalize hW : with_entry (set16 v (q + 4) msl) (q + msl) n
      (fs.block_size - (q % fs.block_size + msl)) name = W at hview
    have hWout : ∀ x, ¬ (q + 4 ≤ x ∧ x < q + 6) →
        ¬ (q + msl ≤ x ∧ x < q + dirent_rec_len v q) → W x = v x := by
      intro x h1 h2
      rw [← hW, with_entry_outside _ _ _ _ _ _ (by omega), set16_outside _ _ _ _ (by omega)]
    have hnew : q + msl + 8 + strlen name ≤ inode_size_field (read_inode fs ino) := by
      clear hready0 hready2 hframe hstore2 hcall hmeta hok hP hrt htab hlay hmap hchain hal hview
        hWout hW hsl hlast hq hfree hsmall
      omega
    have hW8 : ∀ x, q + msl ≤ x → x < q + msl + 8 + strlen name →
        file_view fs2 (read_inode fs2 ino) x = W x := by
      intro x h1 h2
      exact hview x (Nat.lt_of_lt_of_le h2 hnew)
    refine ⟨fs2, q + msl, hcall, hready2.2.2.2.1, ?_, ?_, ?_, ?_⟩
    · intro r hr
      apply record_kept
      intro x hx
      obtain ⟨k1, k2⟩ := kept_in_place v W fs.block_size _ _ 0 l hchain q msl hq (by omega)
        hWout r hr x hx
      rw [hview x k1]
      exact k2
    · obtain ⟨e1, -, -⟩ := header_congr W (file_view fs2 (read_inode fs2 ino)) (q + msl)
        (fun x h1 h2 => hW8 x h1 (by omega))
      rw [e1, ← hW]
      exact (with_entry_fields _ _ _ _ _).1
    · obtain ⟨-, -, e3⟩ := header_congr W (file_view fs2 (read_inode fs2 ino)) (q + msl)
        (fun x h1 h2 => hW8 x h1 (by omega))
      rw [e3, ← hW, (with_entry_fields _ _ _ _ _).2.2, Nat.mod_eq_of_lt hname]
    · have hnl : dirent_name_len W (q + msl) = strlen name := by
        rw [← hW, (with_entry_fields _ _ _ _ _).2.2, Nat.mod_eq_of_lt hname]
      obtain ⟨-, -, e3⟩ := record_kept W (file_view fs2 (read_inode fs2 ino)) (q + msl)
        (fun x hx => hW8 x (by omega) (by rw [hnl] at hx; omega))
      rw [e3, ← hW]
      exact with_entry_name _ _ _ _ _ hname
  · obtain ⟨fs3, hcall, hgeo, hready3, hframe, hfree3, hvold, hvnew, hsize3, hfields3, hstore3⟩ :=
      create_entry_new_block fuel fs P ino l q name n m hready0 hlast hsl hfuel hname
        (by omega) hsmall hbs16 hfree
    have hbs512 := block_size_of_mapped fs _ hmap (by omega)
    have hag : agrees fs.block_size (inode_size_field (read_inode fs ino))
        (with_entry (fun _ => 0) 0 n fs.block_size name) (file_view fs3 (read_inode fs3 ino)) :=
      fun j hj => (hvnew j hj).symm
    refine ⟨fs3, _, hcall, hready3.2.2.2.1, ?_, ?_, ?_, ?_⟩
    · intro r hr
      obtain ⟨-, hrsize, hrlen, hrfit, hrend⟩ := dir_chain_mem _ _ _ _ _ _ hchain r hr
      apply record_kept
      intro x hx
      exact hvold x (by omega)
    · obtain ⟨f1, -, -⟩ := agrees_fields hag 0 (by omega)
      rw [Nat.add_zero] at f1
      rw [f1]
      exact (with_entry_fields _ _ _ _ _).1
    · obtain ⟨-, -, f3⟩ := agrees_fields hag 0 (by omega)
      rw [Nat.add_zero] at f3
      rw [f3, (with_entry_fields _ _ _ _ _).2.2, Nat.mod_eq_of_lt hname]
    · have hnl : dirent_name_len (with_entry (fun _ => 0) 0 n fs.block_size name) 0
          = strlen name := by
        rw [(with_entry_fields _ _ _ _ _).2.2, Nat.mod_eq_of_lt hname]
      have hshift : ∀ x, file_view fs3 (read_inode fs3 ino) x
          = (fun y => file_view fs3 (read_inode fs3 ino) y) x := fun _ => rfl
      have e3 : dirent_name (file_view fs3 (read_inode fs3 ino))
          (inode_size_field (read_inode fs ino))
          = dirent_name (with_entry (fun _ => 0) 0 n fs.block_size name) 0 := by
        obtain ⟨-, -, f3⟩ := agrees_fields hag 0 (by omega)
        rw [Nat.add_zero] at f3
        unfold dirent_name
        rw [f3]
        apply List.map_congr_left
        intro k hk
        rw [List.mem_range, hnl] at hk
        unfold get8
        rw [Nat.add_assoc, hvnew (8 + k) (by omega), Nat.zero_add]
      rw [e3]
      exact with_entry_name _ _ _ _ _ hname

theorem c_str_c_str (s : List Nat) : c_str (c_str s) = c_str s := by
  have hmem : ∀ x, x ∈ c_str s → u8 x = x ∧ x ≠ 0 := by
    intro x hx
    have h0 : x ≠ 0 := by
      have := List.mem_takeWhile_imp hx
      simpa using this
    have hmap : x ∈ s.map u8 := (List.takeWhile_prefix _).sublist.subset hx
    obtain ⟨y, -, hy⟩ := List.mem_map.1 hmap
    refine ⟨?_, h0⟩
    rw [← hy]
    unfold u8
    exact Nat.mod_mod _ _
  generalize c_str s = t at hmem
  unfold c_str
  have h1 : t.map u8 = t := by
    conv_rhs => rw [← List.map_id t]
    apply List.map_congr_left
    intro x hx
    exact (hmem x hx).1
  rw [h1, List.takeWhile_eq_self_iff]
  intro x hx
  simpa using (hmem x hx).2

theorem find?_congr_mem {α : Type} (f g : α → Bool) (l : List α)
    (h : ∀ x, x ∈ l → f x = g x) : l.find? f = l.find? g := by
  induction l with
  | nil => rfl
  | cons a l ih =>
    have ha := h a (List.mem_cons_self _ _)
    have ih2 := ih (fun x hx => h x (List.mem_cons_of_mem _ hx))
    by_cases hf : f a = true
    · rw [List.find?_cons_of_pos _ hf, List.find?_cons_of_pos _ (by rw [← ha]; exact hf)]
    · rw [List.find?_cons_of_neg _ hf, List.find?_cons_of_neg _ (by rw [← ha]; exact hf), ih2]

theorem filter_congr_mem {α : Type} (f g : α → Bool) (l : List α)
    (h : ∀ x, x ∈ l → f x = g x) : l.filter f = l.filter g := by
  induction l with
  | nil => rfl
  | cons a l ih =>
    have ha := h a (List.mem_cons_self _ _)
    have ih2 := ih (fun x hx => h x (List.mem_cons_of_mem _ hx))
    by_cases hf : f a = true
    · rw [List.filter_cons_of_pos hf, List.filter_cons_of_pos (by rw [← ha]; exact hf), ih2]
    · rw [List.filter_cons_of_neg hf, List.filter_cons_of_neg (by rw [← ha]; exact hf), ih2]

/-- The lookups in a directory after a record was appended: when the old
records keep their inode fields and names and the new record `p` carries a
live inode number and the name `name`, a lookup of another name gives the
inode number it gave before, the listing gives the old live records at their
old positions and the new record after them. -/
theorem lookups_after_append (v v2 : Buf) (l : List Nat) (p : Nat) (name other : List Nat)
    (i : Nat)
    (hkept : ∀ r, r ∈ l → dirent_inode v2 r = dirent_inode v r ∧
      dirent_name_len v2 r = dirent_name_len v r ∧ dirent_name v2 r = dirent_name v r)
    (hino : dirent_inode v2 p = i) (hname : dirent_name v2 p = c_str name)
    (hother : c_str other ≠ c_str name) (hi : i ≠ 0) :
    ((l ++ [p]).find? (live_named v2 other)).map (dirent_inode v2)
      = (l.find? (live_named v other)).map (dirent_inode v) ∧
    (∀ k, k < (l.filter (live_record v)).length →
      (((l ++ [p]).filter (live_record v2))[k]?).map
          (fun q => ({ d_ino := dirent_inode v2 q, d_name := dirent_name v2 q } : dirent))
        = ((l.filter (live_record v))[k]?).map
          (fun q => ({ d_ino := dirent_inode v q, d_name := dirent_name v q } : dirent))) ∧
    (((l ++ [p]).filter (live_record v2))[(l.filter (live_record v)).length]?).map
        (fun q => ({ d_ino := dirent_inode v2 q, d_name := dirent_name v2 q } : dirent))
      = some { d_ino := i, d_name := c_str name } ∧
    (l.filter (live_record v))[(l.filter (live_record v)).length]? = none := by
  have hln : ∀ r, r ∈ l → live_named v2 other r = live_named v other r := by
    intro r hr
    obtain ⟨e1, e2, e3⟩ := hkept r hr
    unfold live_named
    rw [e1, e2, e3]
  have hlr : ∀ r, r ∈ l → live_record v2 r = live_record v r := by
    intro r hr
    obtain ⟨e1, -, -⟩ := hkept r hr
    unfold live_record
    rw [e1]
  have hpn : live_named v2 other p = false := by
    unfold live_named
    rw [hname, c_str_c_str]
    have : decide (c_str name = c_str other) = false := by
      apply decide_eq_false
      exact fun h => hother h.symm
    rw [this, Bool.and_false]
  have hpl : live_record v2 p = true := by
    unfold live_record
    rw [hino]
    exact decide_eq_true hi
  have hfilter : (l ++ [p]).filter (live_record v2) = l.filter (live_record v) ++ [p] := by
    rw [List.filter_append, filter_congr_mem _ _ l hlr, List.filter_cons_of_pos hpl,
      List.filter_nil]
  refine ⟨?_, ?_, ?_, ?_⟩
  · rw [List.find?_append, find?_congr_mem _ _ l hln, List.find?_cons_of_neg _ (by rw [hpn]; simp),
      List.find?_nil, Option.or_none]
    cases hf : l.find? (live_named v other) with
    | none => rfl
    | some q =>
      have hq : q ∈ l := List.mem_of_find?_eq_some hf
      simp only [Option.map_some']
      rw [(hkept q hq).1]
  · intro k hk
    rw [hfilter, List.getElem?_append_left hk, List.getElem?_eq_getElem hk]
    simp only [Option.map_some']
    have hq : (l.filter (live_record v))[k] ∈ l :=
      (List.mem_filter.1 (List.getElem_mem _)).1
    obtain ⟨e1, -, e3⟩ := hkept _ hq
    rw [e1, e3]
  · rw [hfilter, List.getElem?_append_right (Nat.le_refl _), Nat.sub_self]
    simp only [List.getElem?_cons_zero, Option.map_some']
    rw [hino, hname]
  · exact List.getElem?_eq_none (Nat.le_refl _)

/-! ## The details of mkdir -/

/-- A change of state that keeps the geometry, the size, the block count and
the block pointers of a directory inode, and the device bytes of its
single-indirect block and of its content, keeps the content. -/
theorem dir_view_transfer {fs fs2 : ext2_fs_t} (h : same_geometry fs fs2) (ino s : Nat)
    (l : List Nat) (hwf : dir_well_formed fs ino l) (hlay : dir_layout fs ino s)
    (hX : ∀ j, (4 ≤ j ∧ j < 8) ∨ (28 ≤ j ∧ j < 32) ∨ (40 ≤ j ∧ j < 92) →
      read_inode fs2 ino j = read_inode fs ino j)
    (hdev : ∀ a, in_block fs (inode_block (read_inode fs ino) 12) a ∨
        (∃ x, x < inode_size_field (read_inode fs ino) ∧
          a = file_byte_addr fs (read_inode fs ino) x) →
      fs2.block_device a = fs.block_device a) :
    ∀ x, x < inode_size_field (read_inode fs ino) →
      file_view fs2 (read_inode fs2 ino) x = file_view fs (read_inode fs ino) x := by
  obtain ⟨hbs, hmul, h256, hmap, hchain⟩ := hwf
  obtain ⟨hslot, hP1, hP2, hP3, hdist, hdir⟩ := hlay
  have hptr : ∀ j, j ≤ 12 → inode_block (read_inode fs2 ino) j = inode_block (read_inode fs ino) j := by
    intro j hj
    unfold inode_block
    apply get32_congr
    intro i hi
    unfold get8
    rw [hX _ (Or.inr (Or.inr ⟨by omega, by omega⟩))]
  have hkb : ∀ k, k * fs.block_size < inode_size_field (read_inode fs ino) →
      k < 12 + fs.pointers_per_block := by
    intro k hk
    have : k < 256 := by
      by_contra hc
      have : 256 * fs.block_size ≤ k * fs.block_size := Nat.mul_le_mul_right _ (by omega)
      omega
    omega
  have hgb : ∀ k, k * fs.block_size < inode_size_field (read_inode fs ino) →
      get_block_number fs2 (read_inode fs2 ino) k = get_block_number fs (read_inode fs ino) k := by
    intro k hk
    rw [get_block_number_inode_congr fs2 (read_inode fs ino) (read_inode fs2 ino) k
      (by rw [h.ppb]; exact hkb k hk) (by rw [h.ppb]; exact hP2) hptr]
    exact get_block_number_geom h _ k (hkb k hk) hP2 hP3 (fun _ a ha => hdev a (Or.inl ha))
  intro x hx
  have hxk : x / fs.block_size * fs.block_size < inode_size_field (read_inode fs ino) := by
    have := Nat.div_mul_le_self x fs.block_size
    omega
  unfold file_view file_byte_addr
  rw [block_start_geom h, h.bs, hgb _ hxk]
  exact hdev _ (Or.inr ⟨x, hx, rfl⟩)

/-- Records of a chain read the same in a content that agrees below the size. -/
theorem records_kept_of_view (v w : Buf) (bs size : Nat) (f pos : Nat) (l : List Nat)
    (hchain : dir_chain v bs size f pos = some l) (h : ∀ x, x < size → w x = v x) :
    ∀ r, r ∈ l → dirent_inode w r = dirent_inode v r ∧
      dirent_name_len w r = dirent_name_len v r ∧ dirent_name w r = dirent_name v r := by
  intro r hr
  obtain ⟨-, hrsize, hrlen, hrfit, hrend⟩ := dir_chain_mem _ _ _ _ _ _ hchain r hr
  apply record_kept
  intro x hx
  exact h x (by omega)

/-- The name bytes of the two records in the block that `mkdir_ext2` writes. -/
theorem mkdir_block_names (fs : ext2_fs_t) (n parent : Nat) :
    get8 (mkdir_block fs n parent) 8 = 46 ∧ get8 (mkdir_block fs n parent) 20 = 46 ∧
    get8 (mkdir_block fs n parent) 21 = 46 := by
  refine ⟨?_, ?_, ?_⟩
  · simp [mkdir_block, get8, memcpy, set32, set16, set8, memset]
  · simp [mkdir_block, get8, memcpy, set32, set16, set8, memset]
  · simp [mkdir_block, get8, memcpy, set32, set16, set8, memset]

/-- The details of what `mkdir_ext2` leaves in a parent directory that is
ready, on a volume with three free blocks ready, when `allocate_inode` hands
out an addressable inode `n` whose record is in use and apart from the
parent: the call returns 0; the parent is well-formed with one more record
`p`, which carries the inode number `n` and the name, while the old records
keep their inode fields and names, and its link count is raised by one; the
new directory has the directory mode with the permission bits, two links and
the size of one block, and is well-formed with the records "." for `n` and
".." for the parent. -/
theorem mkdir_details (fuel : Nat) (amb : ambient_t) (fs : ext2_fs_t) (P : Nat → Prop)
    (parent : Nat) (l : List Nat) (name : List Nat) (n permission : Nat)
    (hrw : fs.flags &&& EXT2_FLAG_READWRITE ≠ 0)
    (habsent : finddir_ext2 fuel fs parent name = some none)
    (halloc : (allocate_inode fs).map Prod.fst = some n) (hn : inode_addressable fs n)
    (hready : dir_ready fs P parent l)
    (hslack : last_has_slack (file_view fs (read_inode fs parent)) l)
    (hfuel : l.length < fuel) (hfuel2 : 2 ≤ fuel) (hname : strlen name < 256)
    (hsmall : inode_size_field (read_inode fs parent) < 256 * fs.block_size)
    (hbs16 : fs.block_size < 65536)
    (hfree : free_blocks_ready fs 3)
    (hrec : ∀ a, record_range fs n a →
      P a ∧ ¬ dir_storage fs parent (inode_record_addr fs parent) a)
    (hibm : ∀ a, inode_bitmap_range fs a → ¬ P a ∧ ¬ block_bitmap_range fs a) :
    ∃ fs7 p, mkdir_ext2 fuel amb fs parent (some name) permission = some (0, fs7) ∧
      dir_well_formed fs7 parent (l ++ [p]) ∧
      rec_lens_aligned (file_view fs7 (read_inode fs7 parent)) (l ++ [p]) ∧
      dir_well_formed fs7 n [0, 12] ∧
      rec_lens_aligned (file_view fs7 (read_inode fs7 n)) [0, 12] ∧
      (inode_mode (read_inode fs7 n) = EXT2_S_IFDIR ||| (0xFFF &&& permission) ∧
        inode_links_count (read_inode fs7 n) = 2 ∧
        inode_size_field (read_inode fs7 n) = fs.block_size) ∧
      (dirent_inode (file_view fs7 (read_inode fs7 n)) 0 = n % 4294967296 ∧
        dirent_rec_len (file_view fs7 (read_inode fs7 n)) 0 = 12 ∧
        dirent_name (file_view fs7 (read_inode fs7 n)) 0 = [46] ∧
        dirent_inode (file_view fs7 (read_inode fs7 n)) 12 = parent % 4294967296 ∧
        dirent_rec_len (file_view fs7 (read_inode fs7 n)) 12 = fs.block_size - 12 ∧
        dirent_name (file_view fs7 (read_inode fs7 n)) 12 = [46, 46]) ∧
      inode_links_count (read_inode fs7 parent)
        = (inode_links_count (read_inode fs parent) + 1) % 65536 ∧
      (∀ r, r ∈ l →
        dirent_inode (file_view fs7 (read_inode fs7 parent)) r
          = dirent_inode (file_view fs (read_inode fs parent)) r ∧
        dirent_name_len (file_view fs7 (read_inode fs7 parent)) r
          = dirent_name_len (file_view fs (read_inode fs parent)) r ∧
        dirent_name (file_view fs7 (read_inode fs7 parent)) r
          = dirent_name (file_view fs (read_inode fs parent)) r) ∧
      dirent_inode (file_view fs7 (read_inode fs7 parent)) p = n % 4294967296 ∧
      dirent_name (file_view fs7 (read_inode fs7 parent)) p = c_str name := by
  obtain ⟨fs1, hal⟩ := map_fst_eq_some halloc
  have hisz := hready.2.1
  have hadrp := hready.1
  have hwf0 := hready.2.2.2.1
  have hal0 := hready.2.2.2.2.1
  have hbs : 0 < fs.block_size := hwf0.1
  have hslack0 := hslack
  obtain ⟨q0, hq0last, -⟩ := hslack
  obtain ⟨hq0, -⟩ := dir_chain_last _ _ _ _ _ _ q0 hwf0.2.2.2.2 hq0last
  obtain ⟨-, hq0size, -, -, -⟩ := dir_chain_mem _ _ _ _ _ _ hwf0.2.2.2.2 q0 hq0
  have hbs512 := block_size_of_mapped fs _ hwf0.2.2.2.1 (by omega)
  have hsize_ge : fs.block_size ≤ inode_size_field (read_inode fs parent) := by
    have := size_block_bound _ _ 0 hbs hwf0.2.1 (by omega)
    omega
  have hbs4 : fs.block_size % 4 = 0 :=
    block_size_aligned _ _ _ hsize_ge _ 0 l hwf0.2.2.2.2 hal0 (Nat.zero_le _) rfl
  have hok0 := hready.2.2.2.2.2.2.2.2.2
  obtain ⟨hslot0, hP1, hP2, hP3, -, -⟩ := hready.2.2.2.2.2.1
  -- the record of the new inode as first written
  generalize hI1 : init_inode (read_inode fs n) amb 2 (EXT2_S_IFDIR ||| (0xFFF &&& permission))
    = I1
  have hI1shape : record_shaped fs I1 := by
    rw [← hI1]; exact record_shaped_init (record_shaped_read fs n hn) _ _ _ hisz
  obtain ⟨-, hI1blocks, hI1mode, hI1links, hI1blk⟩ := init_inode_fields (read_inode fs n) amb 2
    (EXT2_S_IFDIR ||| (0xFFF &&& permission))
  rw [hI1] at hI1blocks hI1blk hI1mode hI1links
  obtain ⟨hgeo2, hreadn, hread2n, hread2p, hready2, hslack2, hfree2, hst2, hdev2, -⟩ :=
    new_inode_written fs P parent l n fs1 I1 3 hal hn hready hslack0 hfree hrec hibm hI1shape
  obtain ⟨fs3, l3, hcall, hgeo23, hready3, -, hframe3, hfree3, -, -, hfields3, hstore3⟩ :=
    create_entry_ready fuel _ P parent l name n 1 hready2
      (by rw [hread2p]; exact hslack2) hfuel hname
      (by rw [hread2p, hgeo2.bs]; exact hsmall) (by rw [hgeo2.bs]; exact hbs16) hfree2
  obtain ⟨fs3X, p, hcallb, hwf3b, hkept3, hino3, -, hnm3⟩ :=
    create_entry_records fuel _ P parent l name n 1 hready2
      (by rw [hread2p]; exact hslack2) hfuel hname
      (by rw [hread2p, hgeo2.bs]; exact hsmall) (by rw [hgeo2.bs]; exact hbs16) hfree2
  have hfs3 : fs3 = fs3X := by
    have h1 := hcall.symm.trans hcallb
    exact (Prod.mk.inj (Option.some.inj h1)).2
  subst hfs3
  have hl3 : l3 = l ++ [p] := by
    have h1 := hready3.2.2.2.1.2.2.2.2
    rw [hwf3b.2.2.2.2] at h1
    exact (Option.some.inj h1).symm
  subst hl3
  have hgeo3 := same_geometry_trans hgeo2 hgeo23
  -- the record of the new inode and the parent are apart in the state after create_entry
  have hnst3 : ∀ a, record_range fs n a →
      ¬ dir_storage fs3 parent (inode_record_addr fs3 parent) a := by
    intro a ha hc
    obtain ⟨hp1, hp2⟩ := hrec a ha
    rcases hstore3 a hc with h1 | h1
    · exact hp2 ((hst2 a).1 h1)
    · exact h1 hp1
  have hnP3 : ∀ a, record_range fs3 n a →
      P a ∨ dir_storage fs3 parent (inode_record_addr fs3 parent) a :=
    fun a ha => Or.inl (hrec a ((record_range_geom hgeo3 n a).1 ha)).1
  -- the record with the size of one block, and the block of the new directory
  generalize hI2 : set32 I1 4 fs3.block_size = I2
  have hI2shape : record_shaped fs3 I2 := by
    rw [← hI2]
    exact record_shaped_set32 ((record_shaped_geom hgeo3 _).2 hI1shape) _ _
      (by rw [hgeo3.isz]; omega)
  have hI2blocks : inode_blocks I2 = 0 := by
    rw [← hI2, ← hI1blocks]
    unfold inode_blocks
    apply get32_set32_other; omega
  have hI2blk : ∀ j, 40 ≤ j → j < 92 → I2 j = 0 := by
    intro j h1 h2
    rw [← hI2, set32_outside _ _ _ _ (by omega)]
    exact hI1blk j h1 (by omega)
  have hI2size : inode_size_field I2 = fs.block_size := by
    rw [← hI2, hgeo3.bs]
    show get32 (set32 I1 4 _) 4 = _
    rw [get32_set32_same, Nat.mod_eq_of_lt (by omega)]
  obtain ⟨fs5, X1, b, hNDB, hgeo35, hread5n, hX1fields, hX1count, hX1block, hb0, hbfit, hbout,
    hbin, hframe5, -⟩ :=
    new_dir_block fuel fs3 _ n I2 (mkdir_block (write_inode fs3 I2 n).2 n parent) 0 hfuel2
      ((inode_addressable_geom hgeo3 n).2 hn) (by rw [hgeo3.isz]; exact hisz) hI2shape hI2blocks
      hI2blk (by rw [hgeo3.ppb]; exact hP1) (by rw [hgeo3.ppb]; exact hP2)
      (by rw [hgeo3.ppb, hgeo3.bs]; exact hP3) (by rw [hgeo3.bs]; exact hbs512) hnP3
      hready3.2.2.2.2.2.2.2.2.2 hfree3
  rw [hgeo3.bs] at hX1count hbfit hbin
  have hgeo5 := same_geometry_trans hgeo3 hgeo35
  -- the last statements
  have hadrp5 : inode_addressable fs5 parent := (inode_addressable_geom hgeo5 parent).2 hadrp
  have hPmeta : ∀ a, P a → ¬ meta_range fs a := fun a ha => (hok0.2.2.2.2.2 a ha).1
  have hrecp_P : ∀ a, record_range fs parent a → P a :=
    fun a ha => hready.2.2.2.2.2.2.2.2.1 a (Or.inl ha)
  obtain ⟨hgeo57, hdev7, hread7p⟩ := mkdir_finish_effect fs5 parent n hadrp5
    (by rw [hgeo5.isz]; exact hisz)
    (fun a ha => by
      rw [meta_range_geom hgeo5]
      exact hPmeta a (hrecp_P a ((record_range_geom hgeo5 parent a).1 ha)))
  have hgeo7 := same_geometry_trans hgeo5 hgeo57
  have hgeo37 := same_geometry_trans hgeo35 hgeo57
  have hdev7' : ∀ a, ¬ record_range fs parent a → ¬ meta_range fs a →
      (mkdir_finish fs5 parent n).block_device a = fs5.block_device a := by
    intro a h1 h2
    exact hdev7 a (by rw [record_range_geom hgeo5]; exact h1)
      (by rw [meta_range_geom hgeo5]; exact h2)
  -- the call
  have hcallm : mkdir_ext2 fuel amb fs parent (some name) permission
      = some (0, mkdir_finish fs5 parent n) := by
    unfold mkdir_ext2
    dsimp only
    rw [if_neg hrw, habsent]
    dsimp only
    rw [hal]
    dsimp only
    rw [hreadn, hI1, hcall]
    dsimp only
    rw [hI2, hNDB]
    rfl
  obtain ⟨hadr3, hisz3, hmode3, hwf3, hal3, hlay3, hrt3, htab3, hP3, hok3⟩ := hready3
  have hnrec3 : ∀ a, dir_storage fs3 parent (inode_record_addr fs3 parent) a →
      ¬ record_range fs3 n a :=
    fun a ha hc => hnst3 a ((record_range_geom hgeo3 n a).1 hc) ha
  have hmeta3 : ∀ a, dir_storage fs3 parent (inode_record_addr fs3 parent) a →
      ¬ meta_range fs a := by
    intro a ha
    have := (hok3.2.2.2.2.2 a (Or.inr ha)).1
    rw [meta_range_geom hgeo3] at this
    exact this
  have hread5p : read_inode fs5 parent = read_inode fs3 parent :=
    read_inode_geom hgeo35 parent _ hlay3.1 (fun a h1 h2 =>
      hframe5 a (Or.inr (Or.inl ⟨h1, h2⟩)) (hnrec3 a (Or.inl ⟨h1, h2⟩)))
  -- the parent
  obtain ⟨hwf7, hal7⟩ := dir_wf_transfer hgeo37 parent _ (l ++ [p]) hwf3 hal3 hlay3
    (fun j hj => by
      rw [hread7p, hread5p]
      exact set16_outside _ _ _ _ (by omega))
    (fun a ha => by
      have hst : dir_storage fs3 parent (inode_record_addr fs3 parent) a := by
        rcases ha with ha | ha
        · exact Or.inr (Or.inl ha)
        · exact Or.inr (Or.inr ha)
      have hnr : ¬ record_range fs parent a := by
        rw [← record_range_geom hgeo3]
        rcases ha with ha | ⟨x, hx, ha⟩
        · exact fun hc => hrt3 a hc ha
        · rw [ha]; exact (hlay3.2.2.2.2.2 x hx).1
      rw [hdev7' a hnr (hmeta3 a hst)]
      exact hframe5 a (Or.inr hst) (hnrec3 a hst))
  -- the new directory
  have hread7n : read_inode (mkdir_finish fs5 parent n) n = X1 := by
    rw [read_inode_geom hgeo57 n _
      (by rw [inode_slot_geom hgeo5]; exact inode_slot_of_addressable fs n hn)
      (fun a h1 h2 => by
        have hr : record_range fs n a := ⟨h1, by rw [hgeo5.isz] at h2; exact h2⟩
        obtain ⟨hp1, hp2⟩ := hrec a hr
        exact hdev7 a (by
          rw [record_range_geom hgeo5]
          exact fun hc => hp2 (Or.inl hc)) (by rw [meta_range_geom hgeo5]; exact hPmeta a hp1))]
    exact hread5n
  have hX1size : inode_size_field X1 = fs.block_size := by
    rw [← hI2size]
    unfold inode_size_field
    apply get32_congr
    intro i hi
    unfold get8
    rw [hX1fields _ (by omega) (by omega)]
  have hgbn7 : get_block_number (mkdir_finish fs5 parent n) X1 0 = b := by
    rw [get_block_number_direct _ _ 0 (by omega)]; exact hX1block
  have hbst : block_start fs3 b = block_start fs b := block_start_geom hgeo3 b
  obtain ⟨hbu, -⟩ := block_start_of_fits fs b hbfit hbs
  have hview7 : ∀ x, x < fs.block_size → file_view (mkdir_finish fs5 parent n) X1 x
      = mkdir_block (write_inode fs3 I2 n).2 n parent x := by
    intro x hx
    unfold file_view file_byte_addr
    rw [hgeo7.bs, Nat.div_eq_of_lt hx, Nat.mod_eq_of_lt hx, hgbn7, block_start_geom hgeo7,
      ← hbst]
    have hin : in_block fs3 b (block_start fs3 b + x) := by
      rw [in_block_geom hgeo3, hbst]
      exact ⟨by rw [hbu]; exact hb0, by omega, by omega⟩
    obtain ⟨h1, h2⟩ := hbout _ hin
    rw [hdev7' _ (fun hc => h1 (Or.inl (hrecp_P _ hc)))
      (by rw [← meta_range_geom hgeo3]; exact h2)]
    exact hbin x hx
  have hag : agrees fs.block_size 0 (mkdir_block (write_inode fs3 I2 n).2 n parent)
      (file_view (mkdir_finish fs5 parent n) X1) := by
    intro j hj
    rw [Nat.zero_add]
    exact (hview7 j hj).symm
  obtain ⟨-, g2, g3⟩ := agrees_fields hag 0 (by omega)
  obtain ⟨-, g5, g6⟩ := agrees_fields hag 12 (by omega)
  obtain ⟨-, m2, m3, -, m5, m6⟩ := mkdir_block_fields (write_inode fs3 I2 n).2 n parent
  rw [(same_geometry_write_inode fs3 I2 n).bs, hgeo3.bs, sub32_of_le (by omega) (by omega),
    Nat.mod_eq_of_lt (by omega)] at m5
  simp only [Nat.zero_add] at g2 g3 g5 g6
  rw [m2] at g2
  rw [m3] at g3
  rw [m5] at g5
  rw [m6] at g6
  have hminl : min_rec_len 1 = 12 ∧ min_rec_len 2 = 12 := by
    constructor <;> rfl
  -- the content of the parent
  have hv73 : ∀ x, x < inode_size_field (read_inode fs3 parent) →
      file_view (mkdir_finish fs5 parent n) (read_inode (mkdir_finish fs5 parent n) parent) x
        = file_view fs3 (read_inode fs3 parent) x :=
    dir_view_transfer hgeo37 parent _ (l ++ [p]) hwf3 hlay3
      (fun j hj => by
        rw [hread7p, hread5p]
        exact set16_outside _ _ _ _ (by omega))
      (fun a ha => by
        have hst : dir_storage fs3 parent (inode_record_addr fs3 parent) a := by
          rcases ha with ha | ha
          · exact Or.inr (Or.inl ha)
          · exact Or.inr (Or.inr ha)
        have hnr : ¬ record_range fs parent a := by
          rw [← record_range_geom hgeo3]
          rcases ha with ha | ⟨x, hx, ha⟩
          · exact fun hc => hrt3 a hc ha
          · rw [ha]; exact (hlay3.2.2.2.2.2 x hx).1
        rw [hdev7' a hnr (hmeta3 a hst)]
        exact hframe5 a (Or.inr hst) (hnrec3 a hst))
  have hkept73 := records_kept_of_view _ _ _ _ _ 0 _ hwf3.2.2.2.2 hv73
  have hPm := hready.2.2.2.2.2.2.2.2.1
  obtain ⟨-, -, -, hv20, -, -⟩ := dir_frame hgeo2 parent _ l hwf0 hready.2.2.2.2.2.1
    (fun a ha => hdev2 a (hPmeta a (hPm a ha)) (fun hc => (hibm a hc).1 (hPm a ha))
      (fun hc => (hrec a hc).2 ha))
  have hv20b : ∀ x, x < inode_size_field (read_inode fs parent) →
      file_view (write_inode fs1 I1 n).2 (read_inode (write_inode fs1 I1 n).2 parent) x
        = file_view fs (read_inode fs parent) x := by
    intro x hx
    rw [hread2p]
    exact hv20 x hx
  have hkept20 := records_kept_of_view _ _ _ _ _ 0 _ hwf0.2.2.2.2 hv20b
  have hmode16 : EXT2_S_IFDIR ||| (0xFFF &&& permission) < 65536 := by
    have h1 : 0xFFF &&& permission ≤ 0xFFF := Nat.and_le_left
    show _ < 2 ^ 16
    exact Nat.or_lt_two_pow (by decide) (by omega)
  obtain ⟨n1, n2, n3⟩ := mkdir_block_names (write_inode fs3 I2 n).2 n parent
  have hv8 : ∀ x, x < fs.block_size →
      get8 (file_view (mkdir_finish fs5 parent n) X1) x
        = get8 (mkdir_block (write_inode fs3 I2 n).2 n parent) x := by
    intro x hx
    unfold get8
    rw [hview7 x hx]
  refine ⟨_, p, hcallm, hwf7, hal7, ⟨?_, ?_, ?_, ?_, ?_⟩, ?_, ⟨?_, ?_, ?_⟩,
    ⟨?_, ?_, ?_, ?_, ?_, ?_⟩, ?_, ?_, ?_, ?_⟩
  · rw [hgeo7.bs]; exact hbs
  · rw [hread7n, hX1size, hgeo7.bs, Nat.mod_self]
  · rw [hread7n, hX1size, hgeo7.bs]; omega
  · rw [hread7n, hX1size]
    intro k hk
    rw [hgeo7.bs] at hk ⊢
    have hk0 : k = 0 := by
      have : k < 1 := Nat.lt_of_mul_lt_mul_right (by rw [Nat.one_mul]; exact hk)
      omega
    rw [hk0, hgbn7]
    exact ⟨hX1count, hb0⟩
  · rw [hread7n, hX1size, hgeo7.bs]
    exact two_record_chain _ _ (by omega) ⟨g2, g3⟩ ⟨g5, g6⟩
  · rw [hread7n]
    intro q hq
    simp only [List.mem_cons, List.mem_singleton, List.not_mem_nil, or_false] at hq
    rcases hq with hq | hq
    · rw [hq, g2, g3, hminl.1]; exact ⟨rfl, le_refl _⟩
    · rw [hq, g5, g6, hminl.2]; exact ⟨by omega, by omega⟩
  · rw [hread7n, ← Nat.mod_eq_of_lt hmode16, ← hI1mode]
    unfold inode_mode
    apply get16_congr
    intro i hi
    unfold get8
    rw [hX1fields _ (by omega) (by omega), ← hI2, set32_outside _ _ _ _ (by omega)]
  · rw [hread7n]
    have : inode_links_count I1 = 2 := hI1links
    rw [← this]
    unfold inode_links_count
    apply get16_congr
    intro i hi
    unfold get8
    rw [hX1fields _ (by omega) (by omega), ← hI2, set32_outside _ _ _ _ (by omega)]
  · rw [hread7n]; exact hX1size
  · rw [hread7n]
    obtain ⟨g1, -, -⟩ := agrees_fields hag 0 (by omega)
    rw [Nat.zero_add] at g1
    rw [g1]
    exact (mkdir_block_fields _ _ _).1
  · rw [hread7n]; exact g2
  · rw [hread7n]
    unfold dirent_name
    rw [g3]
    simp only [List.range_succ, List.range_zero, List.nil_append, List.map_cons, List.map_nil,
      Nat.add_zero]
    rw [hv8 _ (by omega), n1]
  · rw [hread7n]
    obtain ⟨g4, -, -⟩ := agrees_fields hag 12 (by omega)
    rw [Nat.zero_add] at g4
    rw [g4]
    exact (mkdir_block_fields _ _ _).2.2.2.1
  · rw [hread7n]; exact g5
  · rw [hread7n]
    unfold dirent_name
    rw [g6]
    simp only [List.range_succ, List.range_zero, List.nil_append, List.map_cons, List.map_nil,
      Nat.add_zero, List.cons_append]
    rw [hv8 _ (by omega), hv8 _ (by omega), n2, n3]
  · rw [hread7p, hread5p]
    show get16 (set16 _ 26 _) 26 = _
    rw [get16_set16_same]
    have e : inode_links_count (read_inode fs3 parent)
        = inode_links_count (read_inode fs parent) := by
      rw [← hread2p]
      unfold inode_links_count
      apply get16_congr
      intro i hi
      unfold get8
      rw [hfields3 _ (by omega) (by omega) (by omega)]
    rw [e]
  · intro r hr
    obtain ⟨a1, a2, a3⟩ := hkept73 r (List.mem_append_left _ hr)
    obtain ⟨b1, b2, b3⟩ := hkept3 r hr
    obtain ⟨c1, c2, c3⟩ := hkept20 r hr
    exact ⟨a1.trans (b1.trans c1), a2.trans (b2.trans c2), a3.trans (b3.trans c3)⟩
  · obtain ⟨a1, -, -⟩ := hkept73 p (List.mem_append_right _ (List.mem_singleton_self _))
    rw [a1]; exact hino3
  · obtain ⟨-, -, a3⟩ := hkept73 p (List.mem_append_right _ (List.mem_singleton_self _))
    rw [a3]; exact hnm3

/-- The effect of `mkdir_ext2` in a parent directory that is ready, on a
volume with three free blocks ready, when `allocate_inode` hands out an
addressable inode whose record is in use and apart from the parent: the call
returns 0, the parent is well-formed with one more record, and the new
directory is well-formed with the records "." and "..". -/
theorem mkdir_effect (fuel : Nat) (amb : ambient_t) (fs : ext2_fs_t) (P : Nat → Prop)
    (parent : Nat) (l : List Nat) (name : List Nat) (n permission : Nat)
    (hrw : fs.flags &&& EXT2_FLAG_READWRITE ≠ 0)
    (habsent : finddir_ext2 fuel fs parent name = some none)
    (halloc : (allocate_inode fs).map Prod.fst = some n) (hn : inode_addressable fs n)
    (hready : dir_ready fs P parent l)
    (hslack : last_has_slack (file_view fs (read_inode fs parent)) l)
    (hfuel : l.length < fuel) (hfuel2 : 2 ≤ fuel) (hname : strlen name < 256)
    (hsmall : inode_size_field (read_inode fs parent) < 256 * fs.block_size)
    (hbs16 : fs.block_size < 65536)
    (hfree : free_blocks_ready fs 3)
    (hrec : ∀ a, record_range fs n a →
      P a ∧ ¬ dir_storage fs parent (inode_record_addr fs parent) a)
    (hibm : ∀ a, inode_bitmap_range fs a → ¬ P a ∧ ¬ block_bitmap_range fs a) :
    ∃ fs7 l2, mkdir_ext2 fuel amb fs parent (some name) permission = some (0, fs7) ∧
      (∃ p, l2 = l ++ [p]) ∧
      dir_well_formed fs7 parent l2 ∧
      rec_lens_aligned (file_view fs7 (read_inode fs7 parent)) l2 ∧
      dir_well_formed fs7 n [0, 12] ∧
      rec_lens_aligned (file_view fs7 (read_inode fs7 n)) [0, 12] := by
  obtain ⟨fs7, p, hcall, h1, h2, h3, h4, -⟩ := mkdir_details fuel amb fs P parent l name n
    permission hrw habsent halloc hn hready hslack hfuel hfuel2 hname hsmall hbs16 hfree hrec hibm
  exact ⟨fs7, l ++ [p], hcall, ⟨p, rfl⟩, h1, h2, h3, h4⟩

/-! ## Setting two blocks of an inode -/

theorem table_entry_lt (fs : ext2_fs_t) (b k : Nat) : table_entry fs b k < 4294967296 :=
  get32_lt _ _

theorem table_entry_frame {fs fs2 : ext2_fs_t} (h : same_geometry fs fs2) (b k : Nat)
    (hdev : ∀ a, in_cell fs b k a → fs2.block_device a = fs.block_device a) :
    table_entry fs2 b k = table_entry fs b k := by
  unfold table_entry
  rw [block_start_geom h]
  apply get32_congr
  intro x hx
  unfold get8
  rw [hdev _ ⟨by omega, by omega⟩]

theorem in_cell_in_block (fs : ext2_fs_t) (b k a : Nat) (hb : u32 b ≠ 0)
    (hk : 4 * k + 4 ≤ fs.block_size) (h : in_cell fs b k a) : in_block fs b a := by
  obtain ⟨h1, h2⟩ := h
  exact ⟨hb, by omega, by omega⟩

theorem in_block_start (fs : ext2_fs_t) (b : Nat) (hb : u32 b ≠ 0) (hbs : 0 < fs.block_size) :
    in_block fs b (block_start fs b) :=
  ⟨hb, le_refl _, by omega⟩

/-- The read-modify-write of one table entry: `read_block`, a store into entry
`k`, `write_block`.  Only the four bytes of the entry change on the device. -/
theorem write_cell_effect (fs : ext2_fs_t) (b k v : Nat) (buf : Buf) (hb : u32 b ≠ 0)
    (hk : 4 * k + 4 ≤ fs.block_size) :
    same_geometry fs (write_block fs b (set32 (read_block fs b buf).2 (4 * k) v)).2 ∧
    (write_block fs b (set32 (read_block fs b buf).2 (4 * k) v)).2.block_groups
      = fs.block_groups ∧
    (∀ a, ¬ in_cell fs b k a →
      (write_block fs b (set32 (read_block fs b buf).2 (4 * k) v)).2.block_device a
        = fs.block_device a) ∧
    table_entry (write_block fs b (set32 (read_block fs b buf).2 (4 * k) v)).2 b k
      = v % 4294967296 := by
  refine ⟨same_geometry_write_block _ _ _, write_block_block_groups _ _ _, ?_, ?_⟩
  · intro a ha
    by_cases hin : in_block fs b a
    · rw [write_block_device_inside _ _ _ _ hin]
      obtain ⟨-, h1, h2⟩ := hin
      rw [set32_outside _ _ _ _ (by unfold in_cell at ha; omega), read_block_snd _ _ _ hb]
      unfold memcpy
      rw [if_pos ⟨Nat.zero_le _, by omega⟩]
      unfold block_start at h1 ⊢
      congr 1
      omega
    · exact write_block_device_outside _ _ _ _ hin
  · unfold table_entry
    rw [block_start_geom (same_geometry_write_block _ _ _)]
    have : get32 (write_block fs b (set32 (read_block fs b buf).2 (4 * k) v)).2.block_device
        (block_start fs b + 4 * k)
        = get32 (set32 (read_block fs b buf).2 (4 * k) v) (4 * k) := by
      apply get32_congr
      intro x hx
      unfold get8
      rw [write_block_device_inside _ _ _ _ ⟨hb, by omega, by omega⟩]
      congr 2
      omega
    rw [this, get32_set32_same]

/-- The index arithmetic of the double-indirect branch, free of wrap-around. -/
theorem double_index (p i : Nat) (hP : 12 + p + p * p < 4294967296) (h1 : 12 + p ≤ i)
    (h2 : i < 12 + p + p * p) :
    0 < p ∧ sub32 (sub32 i 12) p = i - 12 - p ∧ (i - 12 - p) / p < p ∧
    sub32 (i - 12 - p) (u32 ((i - 12 - p) / p * p)) = (i - 12 - p) % p ∧
    (i - 12 - p) % p < p ∧ i = 12 + p + ((i - 12 - p) / p * p + (i - 12 - p) % p) := by
  have hppos : 0 < p := by
    rcases Nat.eq_zero_or_pos p with h | h
    · rw [h] at h1 h2; omega
    · exact h
  have ea : sub32 i 12 = i - 12 := sub32_of_le (by omega) (by omega)
  have eb : sub32 (i - 12) p = i - 12 - p := sub32_of_le (by omega) (by omega)
  have hclt : (i - 12 - p) / p < p := by
    rw [Nat.div_lt_iff_lt_mul hppos]; omega
  have hmul : (i - 12 - p) / p * p ≤ i - 12 - p := Nat.div_mul_le_self _ _
  have hdm := Nat.div_add_mod (i - 12 - p) p
  have hcomm : p * ((i - 12 - p) / p) = (i - 12 - p) / p * p := Nat.mul_comm _ _
  refine ⟨hppos, by rw [ea, eb], hclt, ?_, Nat.mod_lt _ hppos, by omega⟩
  rw [u32_of_lt (by omega), sub32_of_le (by omega) hmul]
  omega

/-- On the double-indirect range `get_block_number` follows two set pointers. -/
theorem get_block_number_double (fs : ext2_fs_t) (X : Buf) (i : Nat)
    (hP : 12 + fs.pointers_per_block + fs.pointers_per_block * fs.pointers_per_block < 4294967296)
    (h4 : 4 * fs.pointers_per_block ≤ fs.block_size)
    (h1 : 12 + fs.pointers_per_block ≤ i)
    (h2 : i < 12 + fs.pointers_per_block + fs.pointers_per_block * fs.pointers_per_block)
    (hT : inode_block X 13 ≠ 0)
    (hL : table_entry fs (inode_block X 13)
      ((i - 12 - fs.pointers_per_block) / fs.pointers_per_block) ≠ 0) :
    get_block_number fs X i
      = table_entry fs (table_entry fs (inode_block X 13)
          ((i - 12 - fs.pointers_per_block) / fs.pointers_per_block))
          ((i - 12 - fs.pointers_per_block) % fs.pointers_per_block) := by
  obtain ⟨hppos, eab, hclt, ed, hdlt, -⟩ := double_index fs.pointers_per_block i hP h1 h2
  unfold get_block_number
  simp only [EXT2_DIRECT_BLOCKS]
  rw [if_neg (by omega), u32_of_lt (by omega), if_neg (by omega), u32_of_lt hP, if_pos h2]
  simp only [eab, ed]
  have hT2 : u32 (inode_block X (12 + 1)) ≠ 0 := by
    rw [u32_of_lt (inode_block_lt _ _)]; exact hT
  have e1 : get32 (read_block fs (inode_block X (12 + 1)) fs.malloc_junk).2
      (4 * ((i - 12 - fs.pointers_per_block) / fs.pointers_per_block))
      = table_entry fs (inode_block X 13)
          ((i - 12 - fs.pointers_per_block) / fs.pointers_per_block) := by
    rw [get32_read_block fs _ _ _ hT2 (by omega)]
    rfl
  rw [e1]
  have hL2 : u32 (table_entry fs (inode_block X 13)
      ((i - 12 - fs.pointers_per_block) / fs.pointers_per_block)) ≠ 0 := by
    rw [u32_of_lt (table_entry_lt _ _ _)]; exact hL
  rw [get32_read_block fs _ _ _ hL2 (by omega)]
  rfl

/-- A block that is mapped is what `get_block_number` returns. -/
theorem get_block_number_of_maps_to (fs : ext2_fs_t) (X : Buf) (i r : Nat)
    (hP : 12 + fs.pointers_per_block + fs.pointers_per_block * fs.pointers_per_block < 4294967296)
    (h4 : 4 * fs.pointers_per_block ≤ fs.block_size)
    (hi : i < 12 + fs.pointers_per_block + fs.pointers_per_block * fs.pointers_per_block)
    (h : maps_to fs X i r) : get_block_number fs X i = r := by
  unfold maps_to at h
  by_cases c1 : i < 12
  · rw [if_pos c1] at h
    rw [get_block_number_direct _ _ _ c1, h]
  · rw [if_neg c1] at h
    by_cases c2 : i < 12 + fs.pointers_per_block
    · rw [if_pos c2] at h
      rw [get_block_number_single fs X i (by omega) c2 (by omega) h4 h.1]
      exact h.2
    · rw [if_neg c2] at h
      rw [get_block_number_double fs X i hP h4 (by omega) hi h.1 h.2.1]
      exact h.2.2

/-- A successful `allocate_block` on a consistent volume: the block handed out
has a non-zero number, was marked free, ends within the first 4 GiB and is
zeroed; the addresses in use keep their content, and the volume is consistent
around them together with the new block. -/
theorem allocate_block_success (fs : ext2_fs_t) (P : Nat → Prop) (b : Nat) (fs1 : ext2_fs_t)
    (hok : volume_ok fs P) (h : allocate_block fs = some (b, fs1)) (hb : b ≠ 0) :
    (b + 1) * fs.block_size ≤ 4294967296 ∧ same_geometry fs fs1 ∧
    (∀ a, in_block fs b a → fs1.block_device a = 0) ∧
    (∀ a, in_block fs b a → free_range fs a) ∧
    (∀ a, P a → fs1.block_device a = fs.block_device a) ∧
    volume_ok fs1 (fun a => P a ∨ in_block fs b a) := by
  have hfree : free_blocks_ready fs (0 + 1) := by
    rcases allocate_block_spec fs (b, fs1) h with ⟨h1, -⟩ | ⟨g, k, hg, hcnt, hzero, hscan, -, -, -⟩
    · exact absurd (congrArg Prod.fst h1) hb
    · obtain ⟨-, hk, hclear, -⟩ := scan_free_bit_some _ _ _ _ hscan
      refine ⟨g, [k], hg, hzero, hcnt, List.nodup_singleton _, le_refl _, ?_⟩
      intro k2 hk2
      rw [List.mem_singleton] at hk2
      subst hk2
      exact ⟨by omega, hclear⟩
  obtain ⟨b2, fs2, h2, -, hfit, hgeo, hz, hfr, hframe, hok2, -⟩ :=
    allocate_block_safe fs P 0 hok hfree
  rw [h] at h2
  have e1 : b = b2 := congrArg Prod.fst (Option.some.inj h2)
  have e2 : fs1 = fs2 := congrArg Prod.snd (Option.some.inj h2)
  subst e1 e2
  exact ⟨hfit, hgeo, hz, hfr, hframe, hok2⟩

/-- A write that leaves the block bitmaps and the double-indirect block as they
are, and a record with the same two table pointers, keep the indirection
blocks consistent. -/
theorem tables_ok_frame {fs fs2 : ext2_fs_t} {P : Nat → Prop} {X X2 : Buf} {ino : Nat}
    (H : tables_ok fs P X ino) (hgeo : same_geometry fs fs2)
    (hbm : ∀ a, block_bitmap_range fs a → fs2.block_device a = fs.block_device a)
    (hT2 : ∀ a, in_block fs (inode_block X 13) a → fs2.block_device a = fs.block_device a)
    (h12 : inode_block X2 12 = inode_block X 12) (h13 : inode_block X2 13 = inode_block X 13) :
    tables_ok fs2 P X2 ino := by
  have hbs : 0 < fs.block_size := H.adr.1
  have hent : inode_block X 13 ≠ 0 → ∀ c, c < fs.pointers_per_block →
      table_entry fs2 (inode_block X 13) c = table_entry fs (inode_block X 13) c := by
    intro h0 c hc
    apply table_entry_frame hgeo
    intro a ha
    apply hT2
    exact in_cell_in_block fs _ c a (by rw [u32_of_lt (inode_block_lt _ _)]; exact h0)
      (by have := H.ppb.2.1; omega) ha
  refine ⟨volume_ok_frame hgeo P hbm H.vol, (inode_addressable_geom hgeo ino).2 H.adr, ?_, ?_, ?_,
    ?_, ?_⟩
  · rw [hgeo.ppb, hgeo.bs]; exact H.ppb
  · intro a ha
    rw [record_range_geom hgeo] at ha
    exact H.recd a ha
  · intro a ha
    rw [h12, in_block_geom hgeo] at ha
    rw [record_range_geom hgeo]
    exact H.single a ha
  · intro a ha
    rw [h13, in_block_geom hgeo] at ha
    rw [record_range_geom hgeo, h12, in_block_geom hgeo]
    exact H.double a ha
  · rw [h13, hgeo.ppb]
    intro h0 c hc a ha
    rw [hent h0 c hc, in_block_geom hgeo] at ha
    obtain ⟨p1, p2, p3, p4, p5⟩ := H.leaf h0 c hc a ha
    rw [record_range_geom hgeo, h12, in_block_geom hgeo, in_block_geom hgeo]
    refine ⟨p1, p2, p3, p4, ?_⟩
    intro c2 hc2 hne
    rw [hent h0 c2 hc2, in_block_geom hgeo]
    exact p5 c2 hc2 hne

/-- An entry of a block in use, apart from the record, keeps its value across
a write that changes the addresses in use only in the record and in `W`, when
the entry lies outside `W`. -/
theorem table_entry_kept {fs fs2 : ext2_fs_t} {P : Nat → Prop} {ino : Nat} (W : Nat → Prop)
    (hgeo : same_geometry fs fs2)
    (hdev : ∀ a, P a → ¬ record_range fs ino a → ¬ W a →
      fs2.block_device a = fs.block_device a)
    (b k : Nat) (hb0 : b ≠ 0) (hb32 : b < 4294967296) (hk : 4 * k + 4 ≤ fs.block_size)
    (hb : ∀ a, in_block fs b a → P a ∧ ¬ record_range fs ino a)
    (hW : ∀ a, in_cell fs b k a → ¬ W a) :
    table_entry fs2 b k = table_entry fs b k := by
  apply table_entry_frame hgeo
  intro a ha
  have hin := in_cell_in_block fs b k a (by rw [u32_of_lt hb32]; exact hb0) hk ha
  exact hdev a (hb a hin).1 (hb a hin).2 (hW a ha)

/-- A mapped block stays mapped across a write that keeps the direct pointer,
the set table pointers and, on the device, the entries that the translation of
the block reads. -/
theorem maps_to_kept {fs fs2 : ext2_fs_t} {P : Nat → Prop} {X X2 : Buf} {ino : Nat}
    (H : tables_ok fs P X ino) (W : Nat → Prop) (hgeo : same_geometry fs fs2)
    (hdev : ∀ a, P a → ¬ record_range fs ino a → ¬ W a →
      fs2.block_device a = fs.block_device a)
    (i r : Nat)
    (hd : i < 12 → inode_block X2 i = inode_block X i)
    (h12 : inode_block X 12 ≠ 0 → inode_block X2 12 = inode_block X 12)
    (h13 : inode_block X 13 ≠ 0 → inode_block X2 13 = inode_block X 13)
    (hi : i < 12 + fs.pointers_per_block + fs.pointers_per_block * fs.pointers_per_block)
    (hW1 : 12 ≤ i → i < 12 + fs.pointers_per_block → inode_block X 12 ≠ 0 →
      ∀ a, in_cell fs (inode_block X 12) (i - 12) a → ¬ W a)
    (hW2 : 12 + fs.pointers_per_block ≤ i → inode_block X 13 ≠ 0 →
      table_entry fs (inode_block X 13)
        ((i - 12 - fs.pointers_per_block) / fs.pointers_per_block) ≠ 0 →
      ∀ a, (in_cell fs (inode_block X 13)
          ((i - 12 - fs.pointers_per_block) / fs.pointers_per_block) a ∨
        in_cell fs (table_entry fs (inode_block X 13)
          ((i - 12 - fs.pointers_per_block) / fs.pointers_per_block))
          ((i - 12 - fs.pointers_per_block) % fs.pointers_per_block) a) → ¬ W a)
    (h : maps_to fs X i r) : maps_to fs2 X2 i r := by
  obtain ⟨hp0, hp4, hp32⟩ := H.ppb
  unfold maps_to at h ⊢
  rw [hgeo.ppb]
  by_cases c1 : i < 12
  · rw [if_pos c1] at h ⊢
    rw [hd c1]; exact h
  · rw [if_neg c1] at h ⊢
    by_cases c2 : i < 12 + fs.pointers_per_block
    · rw [if_pos c2] at h ⊢
      obtain ⟨hT, he⟩ := h
      rw [h12 hT]
      refine ⟨hT, ?_⟩
      rw [table_entry_kept W hgeo hdev _ _ hT (inode_block_lt _ _) (by omega) H.single
        (hW1 (by omega) c2 hT)]
      exact he
    · rw [if_neg c2] at h ⊢
      obtain ⟨hT, hL, he⟩ := h
      obtain ⟨-, -, hclt, -, hdlt, -⟩ :=
        double_index fs.pointers_per_block i hp32 (by omega) hi
      rw [h13 hT]
      have e1 := table_entry_kept W hgeo hdev (inode_block X 13)
        ((i - 12 - fs.pointers_per_block) / fs.pointers_per_block) hT (inode_block_lt _ _)
        (by omega) (fun a ha => ⟨(H.double a ha).1, (H.double a ha).2.1⟩)
        (fun a ha => hW2 (by omega) hT hL a (Or.inl ha))
      rw [e1]
      refine ⟨hT, hL, ?_⟩
      rw [table_entry_kept W hgeo hdev _ _ hL (table_entry_lt _ _ _) (by omega)
        (fun a ha => ⟨(H.leaf hT _ hclt a ha).1, (H.leaf hT _ hclt a ha).2.1⟩)
        (fun a ha => hW2 (by omega) hT hL a (Or.inr ha))]
      exact he

/-- The direct branch of `set_block_number`. -/
theorem set_direct_step {fs : ext2_fs_t} {P : Nat → Prop} {X : Buf} {ino : Nat}
    (H : tables_ok fs P X ino) (j r : Nat) (hj : j < 12) (hr : r < 4294967296) :
    tables_ok fs P (set_inode_block X j r) ino ∧ maps_to fs (set_inode_block X j r) j r ∧
    ∀ i r2, i ≠ j →
      i < 12 + fs.pointers_per_block + fs.pointers_per_block * fs.pointers_per_block →
      maps_to fs X i r2 → maps_to fs (set_inode_block X j r) i r2 := by
  have e12 : inode_block (set_inode_block X j r) 12 = inode_block X 12 :=
    inode_block_set_other _ _ _ _ (by omega)
  have e13 : inode_block (set_inode_block X j r) 13 = inode_block X 13 :=
    inode_block_set_other _ _ _ _ (by omega)
  refine ⟨tables_ok_frame H (same_geometry_refl _) (fun _ _ => rfl) (fun _ _ => rfl) e12 e13,
    ?_, ?_⟩
  · unfold maps_to
    rw [if_pos hj]
    exact inode_block_set_same _ _ _ hr
  · intro i r2 hne hi h
    exact maps_to_kept H (fun _ => False) (same_geometry_refl _) (fun _ _ _ _ => rfl) i r2
      (fun _ => inode_block_set_other _ _ _ _ hne) (fun _ => e12) (fun _ => e13) hi
      (fun _ _ _ _ _ => not_false) (fun _ _ _ _ _ => not_false) h

/-- The tail of the single-indirect branch of `set_block_number`, with
`block[12]` set. -/
theorem set_single_step {fs : ext2_fs_t} {P : Nat → Prop} {X : Buf} {ino : Nat}
    (H : tables_ok fs P X ino) (j r : Nat) (hj1 : 12 ≤ j) (hj2 : j < 12 + fs.pointers_per_block)
    (hT : inode_block X 12 ≠ 0) (hr : r < 4294967296) :
    ∃ fs2, set_block_number_single fs X j r = (E_SUCCESS, fs2, X) ∧ same_geometry fs fs2 ∧
      tables_ok fs2 P X ino ∧ maps_to fs2 X j r ∧
      ∀ i r2, i ≠ j →
        i < 12 + fs.pointers_per_block + fs.pointers_per_block * fs.pointers_per_block →
        maps_to fs X i r2 → maps_to fs2 X i r2 := by
  obtain ⟨hp0, hp4, hp32⟩ := H.ppb
  have hT32 : u32 (inode_block X 12) ≠ 0 := by
    rw [u32_of_lt (inode_block_lt _ _)]; exact hT
  have hsub : sub32 j 12 = j - 12 := sub32_of_le (by omega) hj1
  obtain ⟨hgeo, -, hout, hent⟩ :=
    write_cell_effect fs (inode_block X 12) (j - 12) r fs.malloc_junk hT32 (by omega)
  have hcell : ∀ a, in_cell fs (inode_block X 12) (j - 12) a → in_block fs (inode_block X 12) a :=
    fun a ha => in_cell_in_block fs _ _ a hT32 (by omega) ha
  refine ⟨_, by unfold set_block_number_single; simp only [EXT2_DIRECT_BLOCKS, hsub], hgeo,
    ?_, ?_, ?_⟩
  · apply tables_ok_frame H hgeo _ _ rfl rfl
    · intro a ha
      apply hout
      intro hc
      exact (H.vol.2.2.2.2.2 a (H.single a (hcell a hc)).1).2.1 ha
    · intro a ha
      apply hout
      intro hc
      exact (H.double a ha).2.2 (hcell a hc)
  · unfold maps_to
    rw [hgeo.ppb, if_neg (by omega), if_pos hj2]
    exact ⟨hT, by rw [hent, Nat.mod_eq_of_lt hr]⟩
  · intro i r2 hne hi h
    apply maps_to_kept H (in_cell fs (inode_block X 12) (j - 12)) hgeo
      (fun a _ _ h3 => hout a h3) i r2 (fun _ => rfl) (fun _ => rfl) (fun _ => rfl) hi _ _ h
    · intro h1 h2 _ a ha hc
      unfold in_cell at ha hc
      omega
    · intro h1 hT2 hL a ha hc
      obtain ⟨-, -, hclt, -, hdlt, -⟩ :=
        double_index fs.pointers_per_block i hp32 (by omega) hi
      rcases ha with ha | ha
      · have hin := in_cell_in_block fs _ _ a
          (by rw [u32_of_lt (inode_block_lt _ _)]; exact hT2) (by omega) ha
        exact (H.double a hin).2.2 (hcell a hc)
      · have hin := in_cell_in_block fs _ _ a
          (by rw [u32_of_lt (table_entry_lt _ _ _)]; exact hL) (by omega) ha
        exact (H.leaf hT2 _ hclt a hin).2.2.1 (hcell a hc)

/-- The last step of the double-indirect branch of `set_block_number`, with
`block[13]` and its entry set. -/
theorem set_leaf_step {fs : ext2_fs_t} {P : Nat → Prop} {X : Buf} {ino : Nat}
    (H : tables_ok fs P X ino) (j r : Nat) (buf : Buf)
    (hj1 : 12 + fs.pointers_per_block ≤ j)
    (hj2 : j < 12 + fs.pointers_per_block + fs.pointers_per_block * fs.pointers_per_block)
    (hT : inode_block X 13 ≠ 0)
    (hL : table_entry fs (inode_block X 13)
      ((j - 12 - fs.pointers_per_block) / fs.pointers_per_block) ≠ 0)
    (hr : r < 4294967296) :
    ∃ fs2, set_block_number_leaf fs X buf
        (table_entry fs (inode_block X 13)
          ((j - 12 - fs.pointers_per_block) / fs.pointers_per_block))
        ((j - 12 - fs.pointers_per_block) % fs.pointers_per_block) r = (E_SUCCESS, fs2, X) ∧
      same_geometry fs fs2 ∧ tables_ok fs2 P X ino ∧ maps_to fs2 X j r ∧
      ∀ i r2, i ≠ j →
        i < 12 + fs.pointers_per_block + fs.pointers_per_block * fs.pointers_per_block →
        maps_to fs X i r2 → maps_to fs2 X i r2 := by
  obtain ⟨hp0, hp4, hp32⟩ := H.ppb
  obtain ⟨-, -, hcj, -, hdj, hjeq⟩ := double_index fs.pointers_per_block j hp32 hj1 hj2
  have hT32 : u32 (inode_block X 13) ≠ 0 := by
    rw [u32_of_lt (inode_block_lt _ _)]; exact hT
  have hL32 : u32 (table_entry fs (inode_block X 13)
      ((j - 12 - fs.pointers_per_block) / fs.pointers_per_block)) ≠ 0 := by
    rw [u32_of_lt (table_entry_lt _ _ _)]; exact hL
  obtain ⟨hgeo, -, hout, hent⟩ :=
    write_cell_effect fs (table_entry fs (inode_block X 13)
      ((j - 12 - fs.pointers_per_block) / fs.pointers_per_block))
      ((j - 12 - fs.pointers_per_block) % fs.pointers_per_block) r buf hL32 (by omega)
  have hcell : ∀ a, in_cell fs (table_entry fs (inode_block X 13)
      ((j - 12 - fs.pointers_per_block) / fs.pointers_per_block))
      ((j - 12 - fs.pointers_per_block) % fs.pointers_per_block) a →
      in_block fs (table_entry fs (inode_block X 13)
        ((j - 12 - fs.pointers_per_block) / fs.pointers_per_block)) a :=
    fun a ha => in_cell_in_block fs _ _ a hL32 (by omega) ha
  have hkeepT : ∀ a, in_block fs (inode_block X 13) a →
      (write_block fs (table_entry fs (inode_block X 13)
        ((j - 12 - fs.pointers_per_block) / fs.pointers_per_block))
        (set32 (read_block fs (table_entry fs (inode_block X 13)
          ((j - 12 - fs.pointers_per_block) / fs.pointers_per_block)) buf).2
          (4 * ((j - 12 - fs.pointers_per_block) % fs.pointers_per_block)) r)).2.block_device a
        = fs.block_device a := by
    intro a ha
    apply hout
    intro hc
    exact (H.leaf hT _ hcj a (hcell a hc)).2.2.2.1 ha
  refine ⟨_, rfl, hgeo, ?_, ?_, ?_⟩
  · apply tables_ok_frame H hgeo _ hkeepT rfl rfl
    intro a ha
    apply hout
    intro hc
    exact (H.vol.2.2.2.2.2 a (H.leaf hT _ hcj a (hcell a hc)).1).2.1 ha
  · unfold maps_to
    rw [hgeo.ppb, if_neg (by omega), if_neg (by omega)]
    have e1 : table_entry (write_block fs (table_entry fs (inode_block X 13)
        ((j - 12 - fs.pointers_per_block) / fs.pointers_per_block))
        (set32 (read_block fs (table_entry fs (inode_block X 13)
          ((j - 12 - fs.pointers_per_block) / fs.pointers_per_block)) buf).2
          (4 * ((j - 12 - fs.pointers_per_block) % fs.pointers_per_block)) r)).2
        (inode_block X 13) ((j - 12 - fs.pointers_per_block) / fs.pointers_per_block)
        = table_entry fs (inode_block X 13)
          ((j - 12 - fs.pointers_per_block) / fs.pointers_per_block) := by
      apply table_entry_frame hgeo
      intro a ha
      exact hkeepT a (in_cell_in_block fs _ _ a hT32 (by omega) ha)
    rw [e1]
    exact ⟨hT, hL, by rw [hent, Nat.mod_eq_of_lt hr]⟩
  · intro i r2 hne hi h
    apply maps_to_kept H _ hgeo (fun a _ _ h3 => hout a h3) i r2 (fun _ => rfl) (fun _ => rfl)
      (fun _ => rfl) hi _ _ h
    · intro h1 h2 hT1 a ha hc
      have hin := in_cell_in_block fs _ _ a
        (by rw [u32_of_lt (inode_block_lt _ _)]; exact hT1) (by omega) ha
      exact (H.leaf hT _ hcj a (hcell a hc)).2.2.1 hin
    · intro h1 _ hLi a ha hc
      obtain ⟨-, -, hci, -, hdi, hieq⟩ :=
        double_index fs.pointers_per_block i hp32 (by omega) hi
      rcases ha with ha | ha
      · exact (H.leaf hT _ hcj a (hcell a hc)).2.2.2.1
          (in_cell_in_block fs _ _ a hT32 (by omega) ha)
      · by_cases hcc : (i - 12 - fs.pointers_per_block) / fs.pointers_per_block
            = (j - 12 - fs.pointers_per_block) / fs.pointers_per_block
        · rw [hcc] at ha hieq
          have hdd : (i - 12 - fs.pointers_per_block) % fs.pointers_per_block
              ≠ (j - 12 - fs.pointers_per_block) % fs.pointers_per_block := by
            intro hdd
            rw [hdd] at hieq
            exact hne (hieq.trans hjeq.symm)
          unfold in_cell at ha hc
          omega
        · have hin := in_cell_in_block fs _ _ a
            (by rw [u32_of_lt (table_entry_lt _ _ _)]; exact hLi) (by omega) ha
          exact (H.leaf hT _ hcj a (hcell a hc)).2.2.2.2 _ hci hcc hin

theorem table_entry_zero (fs : ext2_fs_t) (b k : Nat)
    (h : ∀ a, in_cell fs b k a → fs.block_device a = 0) : table_entry fs b k = 0 := by
  unfold table_entry get32 get8
  rw [h _ ⟨by omega, by omega⟩, h _ ⟨by omega, by omega⟩, h _ ⟨by omega, by omega⟩,
    h _ ⟨by omega, by omega⟩]

theorem not_in_block_zero (fs : ext2_fs_t) (a : Nat) : ¬ in_block fs 0 a :=
  fun h => h.1 rfl

/-- The allocation of a table block followed by `write_inode`: the new block
is zeroed and was not in use, the addresses in use outside the record keep
their content, and the volume is consistent around them and the new block. -/
theorem table_alloc_device {fs : ext2_fs_t} {P : Nat → Prop} {X : Buf} {ino : Nat}
    (H : tables_ok fs P X ino) (b : Nat) (fsb : ext2_fs_t)
    (halloc : allocate_block fs = some (b, fsb)) (hb : u32 b ≠ 0) (X2 : Buf) :
    u32 b = b ∧ b ≠ 0 ∧ b < 4294967296 ∧ same_geometry fs (write_inode fsb X2 ino).2 ∧
    (∀ a, in_block fs b a → ¬ P a ∧ (write_inode fsb X2 ino).2.block_device a = 0) ∧
    (∀ a, P a → ¬ record_range fs ino a →
      (write_inode fsb X2 ino).2.block_device a = fs.block_device a) ∧
    volume_ok (write_inode fsb X2 ino).2 (fun a => P a ∨ in_block fs b a) := by
  have hb0 : b ≠ 0 := by
    intro h; rw [h] at hb; exact hb rfl
  obtain ⟨hfit, hgeob, hzero, hfr, hframe, hokb⟩ :=
    allocate_block_success fs P b fsb H.vol halloc hb0
  obtain ⟨hbu, -⟩ := block_start_of_fits fs b hfit H.adr.1
  have hgeoc : same_geometry fsb (write_inode fsb X2 ino).2 := same_geometry_write_inode _ _ _
  have hadrb : inode_addressable fsb ino := (inode_addressable_geom hgeob ino).2 H.adr
  have hnotP : ∀ a, in_block fs b a → ¬ P a :=
    fun a ha hc => (H.vol.2.2.2.2.2 a hc).2.2 (hfr a ha)
  have hout : ∀ a, ¬ record_range fs ino a →
      (write_inode fsb X2 ino).2.block_device a = fsb.block_device a := by
    intro a ha
    exact write_inode_outside_record _ _ _ _ hadrb (by rw [record_range_geom hgeob]; exact ha)
  refine ⟨hbu, hb0, by rw [← hbu]; exact Nat.mod_lt _ (by decide),
    same_geometry_trans hgeob hgeoc, ?_, ?_, ?_⟩
  · intro a ha
    refine ⟨hnotP a ha, ?_⟩
    rw [hout a (fun hc => hnotP a ha (H.recd a hc))]
    exact hzero a ha
  · intro a h1 h2
    rw [hout a h2]
    exact hframe a h1
  · apply volume_ok_frame hgeoc _ _ hokb
    intro a ha
    apply hout
    intro hc
    exact (hokb.2.2.2.2.2 a (Or.inl (H.recd a hc))).2.1 ha

/-- The first step of the single-indirect branch of `set_block_number` when
`block[12]` is not set: a block is allocated for the table and the record is
written back. -/
theorem grow_single_step {fs : ext2_fs_t} {P : Nat → Prop} {X : Buf} {ino : Nat}
    (H : tables_ok fs P X ino) (b : Nat) (fsb : ext2_fs_t) (h0 : inode_block X 12 = 0)
    (halloc : allocate_block fs = some (b, fsb)) (hb : u32 b ≠ 0) :
    ∃ P2, tables_ok (write_inode fsb (set_inode_block X 12 (u32 b)) ino).2 P2
        (set_inode_block X 12 (u32 b)) ino ∧
      same_geometry fs (write_inode fsb (set_inode_block X 12 (u32 b)) ino).2 ∧
      inode_block (set_inode_block X 12 (u32 b)) 12 ≠ 0 ∧
      ∀ i r2, i < 12 + fs.pointers_per_block + fs.pointers_per_block * fs.pointers_per_block →
        maps_to fs X i r2 →
        maps_to (write_inode fsb (set_inode_block X 12 (u32 b)) ino).2
          (set_inode_block X 12 (u32 b)) i r2 := by
  obtain ⟨hbu, hb0, hb32, hgeo, hnew, hdev, hok⟩ :=
    table_alloc_device H b fsb halloc hb (set_inode_block X 12 (u32 b))
  obtain ⟨hp0, hp4, hp32⟩ := H.ppb
  rw [hbu] at hgeo hnew hdev hok ⊢
  have e12 : inode_block (set_inode_block X 12 b) 12 = b := inode_block_set_same _ _ _ hb32
  have e13 : inode_block (set_inode_block X 12 b) 13 = inode_block X 13 :=
    inode_block_set_other _ _ _ _ (by omega)
  have hdevF : ∀ a, P a → ¬ record_range fs ino a → ¬ (fun _ => False) a →
      (write_inode fsb (set_inode_block X 12 b) ino).2.block_device a = fs.block_device a :=
    fun a h1 h2 _ => hdev a h1 h2
  refine ⟨fun a => P a ∨ in_block fs b a, ⟨hok, (inode_addressable_geom hgeo ino).2 H.adr, ?_, ?_,
    ?_, ?_, ?_⟩, hgeo, by rw [e12]; exact hb0, ?_⟩
  · rw [hgeo.ppb, hgeo.bs]; exact H.ppb
  · intro a ha
    rw [record_range_geom hgeo] at ha
    exact Or.inl (H.recd a ha)
  · intro a ha
    rw [e12, in_block_geom hgeo] at ha
    rw [record_range_geom hgeo]
    exact ⟨Or.inr ha, fun hc => (hnew a ha).1 (H.recd a hc)⟩
  · intro a ha
    rw [e13, in_block_geom hgeo] at ha
    rw [record_range_geom hgeo, e12, in_block_geom hgeo]
    exact ⟨Or.inl (H.double a ha).1, (H.double a ha).2.1,
      fun hc => (hnew a hc).1 (H.double a ha).1⟩
  · rw [e13, hgeo.ppb]
    intro hT c hc a ha
    have hent : ∀ c2, c2 < fs.pointers_per_block →
        table_entry (write_inode fsb (set_inode_block X 12 b) ino).2 (inode_block X 13) c2
          = table_entry fs (inode_block X 13) c2 := by
      intro c2 hc2
      exact table_entry_kept _ hgeo hdevF _ _ hT (inode_block_lt _ _) (by omega)
        (fun a ha => ⟨(H.double a ha).1, (H.double a ha).2.1⟩) (fun _ _ => not_false)
    rw [hent c hc, in_block_geom hgeo] at ha
    obtain ⟨p1, p2, p3, p4, p5⟩ := H.leaf hT c hc a ha
    rw [record_range_geom hgeo, e12, in_block_geom hgeo, in_block_geom hgeo]
    refine ⟨Or.inl p1, p2, fun hc => (hnew a hc).1 p1, p4, ?_⟩
    intro c2 hc2 hne
    rw [hent c2 hc2, in_block_geom hgeo]
    exact p5 c2 hc2 hne
  · intro i r2 hi h
    exact maps_to_kept H (fun _ => False) hgeo hdevF i r2
      (fun hlt => inode_block_set_other _ _ _ _ (by omega)) (fun hc => absurd h0 hc)
      (fun _ => e13) hi (fun _ _ _ _ _ => not_false) (fun _ _ _ _ _ => not_false) h

/-- The first step of the double-indirect branch of `set_block_number` when
`block[13]` is not set: a block is allocated for the table and the record is
written back.  The new table holds no entry. -/
theorem grow_double_step {fs : ext2_fs_t} {P : Nat → Prop} {X : Buf} {ino : Nat}
    (H : tables_ok fs P X ino) (b : Nat) (fsb : ext2_fs_t) (h0 : inode_block X 13 = 0)
    (halloc : allocate_block fs = some (b, fsb)) (hb : u32 b ≠ 0) :
    ∃ P2, tables_ok (write_inode fsb (set_inode_block X 13 (u32 b)) ino).2 P2
        (set_inode_block X 13 (u32 b)) ino ∧
      same_geometry fs (write_inode fsb (set_inode_block X 13 (u32 b)) ino).2 ∧
      inode_block (set_inode_block X 13 (u32 b)) 13 ≠ 0 ∧
      ∀ i r2, i < 12 + fs.pointers_per_block + fs.pointers_per_block * fs.pointers_per_block →
        maps_to fs X i r2 →
        maps_to (write_inode fsb (set_inode_block X 13 (u32 b)) ino).2
          (set_inode_block X 13 (u32 b)) i r2 := by
  obtain ⟨hbu, hb0, hb32, hgeo, hnew, hdev, hok⟩ :=
    table_alloc_device H b fsb halloc hb (set_inode_block X 13 (u32 b))
  obtain ⟨hp0, hp4, hp32⟩ := H.ppb
  rw [hbu] at hgeo hnew hdev hok ⊢
  have e13 : inode_block (set_inode_block X 13 b) 13 = b := inode_block_set_same _ _ _ hb32
  have e12 : inode_block (set_inode_block X 13 b) 12 = inode_block X 12 :=
    inode_block_set_other _ _ _ _ (by omega)
  have hdevF : ∀ a, P a → ¬ record_range fs ino a → ¬ (fun _ => False) a →
      (write_inode fsb (set_inode_block X 13 b) ino).2.block_device a = fs.block_device a :=
    fun a h1 h2 _ => hdev a h1 h2
  refine ⟨fun a => P a ∨ in_block fs b a, ⟨hok, (inode_addressable_geom hgeo ino).2 H.adr, ?_, ?_,
    ?_, ?_, ?_⟩, hgeo, by rw [e13]; exact hb0, ?_⟩
  · rw [hgeo.ppb, hgeo.bs]; exact H.ppb
  · intro a ha
    rw [record_range_geom hgeo] at ha
    exact Or.inl (H.recd a ha)
  · intro a ha
    rw [e12, in_block_geom hgeo] at ha
    rw [record_range_geom hgeo]
    exact ⟨Or.inl (H.single a ha).1, (H.single a ha).2⟩
  · intro a ha
    rw [e13, in_block_geom hgeo] at ha
    rw [record_range_geom hgeo, e12, in_block_geom hgeo]
    exact ⟨Or.inr ha, fun hc => (hnew a ha).1 (H.recd a hc),
      fun hc => (hnew a ha).1 (H.single a hc).1⟩
  · rw [e13, hgeo.ppb]
    intro _ c hc a ha
    have hz : table_entry (write_inode fsb (set_inode_block X 13 b) ino).2 b c = 0 := by
      apply table_entry_zero
      intro x hx
      rw [in_cell, block_start_geom hgeo] at hx
      exact (hnew x (in_cell_in_block fs b c x (by rw [hbu]; exact hb0) (by omega) hx)).2
    rw [hz] at ha
    exact absurd ha (not_in_block_zero _ _)
  · intro i r2 hi h
    exact maps_to_kept H (fun _ => False) hgeo hdevF i r2
      (fun hlt => inode_block_set_other _ _ _ _ (by omega)) (fun _ => e12)
      (fun hc => absurd h0 hc) hi (fun _ _ _ _ _ => not_false) (fun _ _ _ _ _ => not_false) h

/-- The step of the double-indirect branch of `set_block_number` when the
entry of `block[13]` is not set: a block is allocated and its number is
stored in the entry. -/
theorem grow_leaf_step {fs : ext2_fs_t} {P : Nat → Prop} {X : Buf} {ino : Nat}
    (H : tables_ok fs P X ino) (c b : Nat) (fsb : ext2_fs_t) (hT : inode_block X 13 ≠ 0)
    (hc : c < fs.pointers_per_block) (hz : table_entry fs (inode_block X 13) c = 0)
    (halloc : allocate_block fs = some (b, fsb)) (hb : u32 b ≠ 0) :
    ∃ P2, tables_ok (write_block fsb (inode_block X 13)
          (set32 (read_block fs (inode_block X 13) fs.malloc_junk).2 (4 * c) (u32 b))).2 P2 X ino ∧
      same_geometry fs (write_block fsb (inode_block X 13)
          (set32 (read_block fs (inode_block X 13) fs.malloc_junk).2 (4 * c) (u32 b))).2 ∧
      table_entry (write_block fsb (inode_block X 13)
          (set32 (read_block fs (inode_block X 13) fs.malloc_junk).2 (4 * c) (u32 b))).2
          (inode_block X 13) c = u32 b ∧
      ∀ i r2, i < 12 + fs.pointers_per_block + fs.pointers_per_block * fs.pointers_per_block →
        maps_to fs X i r2 →
        maps_to (write_block fsb (inode_block X 13)
          (set32 (read_block fs (inode_block X 13) fs.malloc_junk).2 (4 * c) (u32 b))).2 X i r2 := by
  obtain ⟨hp0, hp4, hp32⟩ := H.ppb
  have hb0 : b ≠ 0 := by
    intro h; rw [h] at hb; exact hb rfl
  obtain ⟨hfit, hgeob, hzero, hfr, hframe, hokb⟩ :=
    allocate_block_success fs P b fsb H.vol halloc hb0
  obtain ⟨hbu, -⟩ := block_start_of_fits fs b hfit H.adr.1
  have hb32 : b < 4294967296 := by rw [← hbu]; exact Nat.mod_lt _ (by decide)
  have hnotP : ∀ a, in_block fs b a → ¬ P a :=
    fun a ha hc => (H.vol.2.2.2.2.2 a hc).2.2 (hfr a ha)
  have hT32 : u32 (inode_block X 13) ≠ 0 := by
    rw [u32_of_lt (inode_block_lt _ _)]; exact hT
  have hread : (read_block fs (inode_block X 13) fs.malloc_junk).2
      = (read_block fsb (inode_block X 13) fs.malloc_junk).2 :=
    (read_block_geom hgeob _ _ (fun a ha => hframe a (H.double a ha).1)).symm
  rw [hread, hbu]
  obtain ⟨hgeoc, -, hout, hent⟩ :=
    write_cell_effect fsb (inode_block X 13) c b fs.malloc_junk hT32
      (by rw [hgeob.bs]; omega)
  rw [Nat.mod_eq_of_lt hb32] at hent
  have hgeo := same_geometry_trans hgeob hgeoc
  have hcell : ∀ a, in_cell fs (inode_block X 13) c a → in_block fs (inode_block X 13) a :=
    fun a ha => in_cell_in_block fs _ _ a hT32 (by omega) ha
  have hcellb : ∀ a, in_cell fsb (inode_block X 13) c a ↔ in_cell fs (inode_block X 13) c a := by
    intro a; unfold in_cell; rw [block_start_geom hgeob]
  have hdev : ∀ a, P a → ¬ record_range fs ino a → ¬ in_cell fs (inode_block X 13) c a →
      (write_block fsb (inode_block X 13)
        (set32 (read_block fsb (inode_block X 13) fs.malloc_junk).2 (4 * c) b)).2.block_device a
        = fs.block_device a := by
    intro a h1 _ h3
    rw [hout a (by rw [hcellb]; exact h3)]
    exact hframe a h1
  have hzero2 : ∀ a, in_block fs b a →
      (write_block fsb (inode_block X 13)
        (set32 (read_block fsb (inode_block X 13) fs.malloc_junk).2 (4 * c) b)).2.block_device a
        = 0 := by
    intro a ha
    rw [hout a (by rw [hcellb]; exact fun hc => hnotP a ha (H.double a (hcell a hc)).1)]
    exact hzero a ha
  -- the entries of the double-indirect block afterwards
  have hother : ∀ c2, c2 < fs.pointers_per_block → c2 ≠ c →
      table_entry (write_block fsb (inode_block X 13)
        (set32 (read_block fsb (inode_block X 13) fs.malloc_junk).2 (4 * c) b)).2
        (inode_block X 13) c2 = table_entry fs (inode_block X 13) c2 := by
    intro c2 hc2 hne
    apply table_entry_kept _ hgeo hdev _ _ hT (inode_block_lt _ _) (by omega)
      (fun a ha => ⟨(H.double a ha).1, (H.double a ha).2.1⟩)
    intro a ha hc
    unfold in_cell at ha hc
    omega
  refine ⟨fun a => P a ∨ in_block fs b a, ⟨?_, (inode_addressable_geom hgeo ino).2 H.adr, ?_, ?_,
    ?_, ?_, ?_⟩, hgeo, hent, ?_⟩
  · apply volume_ok_frame hgeoc _ _ hokb
    intro a ha
    apply hout
    intro hc
    rw [hcellb] at hc
    exact (hokb.2.2.2.2.2 a (Or.inl (H.double a (hcell a hc)).1)).2.1 ha
  · rw [hgeo.ppb, hgeo.bs]; exact H.ppb
  · intro a ha
    rw [record_range_geom hgeo] at ha
    exact Or.inl (H.recd a ha)
  · intro a ha
    rw [in_block_geom hgeo] at ha
    rw [record_range_geom hgeo]
    exact ⟨Or.inl (H.single a ha).1, (H.single a ha).2⟩
  · intro a ha
    rw [in_block_geom hgeo] at ha
    rw [record_range_geom hgeo, in_block_geom hgeo]
    exact ⟨Or.inl (H.double a ha).1, (H.double a ha).2.1, (H.double a ha).2.2⟩
  · rw [hgeo.ppb]
    intro _ c1 hc1 a ha
    rw [record_range_geom hgeo, in_block_geom hgeo, in_block_geom hgeo]
    by_cases e : c1 = c
    · subst e
      rw [hent, in_block_geom hgeo] at ha
      refine ⟨Or.inr ha, fun hc => hnotP a ha (H.recd a hc),
        fun hc => hnotP a ha (H.single a hc).1, fun hc => hnotP a ha (H.double a hc).1, ?_⟩
      intro c2 hc2 hne hin
      rw [hother c2 hc2 hne, in_block_geom hgeo] at hin
      exact hnotP a ha (H.leaf hT c2 hc2 a hin).1
    · rw [hother c1 hc1 e, in_block_geom hgeo] at ha
      obtain ⟨p1, p2, p3, p4, p5⟩ := H.leaf hT c1 hc1 a ha
      refine ⟨Or.inl p1, p2, p3, p4, ?_⟩
      intro c2 hc2 hne hin
      by_cases e2 : c2 = c
      · subst e2
        rw [hent, in_block_geom hgeo] at hin
        exact hnotP a hin p1
      · rw [hother c2 hc2 e2, in_block_geom hgeo] at hin
        exact p5 c2 hc2 hne hin
  · intro i r2 hi h
    apply maps_to_kept H _ hgeo hdev i r2 (fun _ => rfl) (fun _ => rfl) (fun _ => rfl) hi _ _ h
    · intro h1 h2 hT1 a ha hc
      have hin := in_cell_in_block fs _ _ a
        (by rw [u32_of_lt (inode_block_lt _ _)]; exact hT1) (by omega) ha
      exact (H.double a (hcell a hc)).2.2 hin
    · intro h1 _ hLi a ha hc
      obtain ⟨-, -, hci, -, hdi, -⟩ :=
        double_index fs.pointers_per_block i hp32 (by omega) hi
      rcases ha with ha | ha
      · have hne : (i - 12 - fs.pointers_per_block) / fs.pointers_per_block ≠ c := by
          intro e; rw [e] at hLi; exact hLi hz
        unfold in_cell at ha hc
        omega
      · have hin := in_cell_in_block fs _ _ a
          (by rw [u32_of_lt (table_entry_lt _ _ _)]; exact hLi) (by omega) ha
        exact (H.leaf hT _ hci a hin).2.2.2.1 (hcell a hc)

/-- The tail of the double-indirect branch of `set_block_number`, with
`block[13]` set, when it succeeds. -/
theorem set_double_step {fs : ext2_fs_t} {P : Nat → Prop} {X : Buf} {ino : Nat}
    (H : tables_ok fs P X ino) (j r : Nat)
    (hj1 : 12 + fs.pointers_per_block ≤ j)
    (hj2 : j < 12 + fs.pointers_per_block + fs.pointers_per_block * fs.pointers_per_block)
    (hT : inode_block X 13 ≠ 0) (hr : r < 4294967296) (fs2 : ext2_fs_t) (X2 : Buf)
    (h : set_block_number_double fs X
      ((j - 12 - fs.pointers_per_block) / fs.pointers_per_block)
      ((j - 12 - fs.pointers_per_block) % fs.pointers_per_block) r = some (E_SUCCESS, fs2, X2)) :
    ∃ P2, tables_ok fs2 P2 X2 ino ∧ same_geometry fs fs2 ∧ maps_to fs2 X2 j r ∧
      ∀ i r2, i ≠ j →
        i < 12 + fs.pointers_per_block + fs.pointers_per_block * fs.pointers_per_block →
        maps_to fs X i r2 → maps_to fs2 X2 i r2 := by
  obtain ⟨hp0, hp4, hp32⟩ := H.ppb
  obtain ⟨-, -, hcj, -, hdj, -⟩ := double_index fs.pointers_per_block j hp32 hj1 hj2
  have hT32 : u32 (inode_block X 13) ≠ 0 := by
    rw [u32_of_lt (inode_block_lt _ _)]; exact hT
  have e13 : (12 + 1 : Nat) = 13 := rfl
  have etmp : get32 (read_block fs (inode_block X 13) fs.malloc_junk).2
      (4 * ((j - 12 - fs.pointers_per_block) / fs.pointers_per_block))
      = table_entry fs (inode_block X 13)
        ((j - 12 - fs.pointers_per_block) / fs.pointers_per_block) := by
    rw [get32_read_block fs _ _ _ hT32 (by omega)]
    rfl
  unfold set_block_number_double at h
  simp only [EXT2_DIRECT_BLOCKS, e13, etmp] at h
  by_cases hz : table_entry fs (inode_block X 13)
      ((j - 12 - fs.pointers_per_block) / fs.pointers_per_block) = 0
  · rw [if_pos hz] at h
    cases halloc : allocate_block fs with
    | none => rw [halloc] at h; simp at h
    | some q =>
      obtain ⟨b, fsb⟩ := q
      rw [halloc] at h
      dsimp only at h
      by_cases hb : u32 b = 0
      · rw [if_pos hb] at h
        simp only [Option.some.injEq, Prod.mk.injEq] at h
        exact absurd h.1 (by decide)
      · rw [if_neg hb] at h
        obtain ⟨P2, H2, hgeo2, hent2, hby2⟩ := grow_leaf_step H _ b fsb hT hcj hz halloc hb
        have hL2 : table_entry (write_block fsb (inode_block X 13)
            (set32 (read_block fs (inode_block X 13) fs.malloc_junk).2
              (4 * ((j - 12 - fs.pointers_per_block) / fs.pointers_per_block)) (u32 b))).2
            (inode_block X 13) ((j - 12 - fs.pointers_per_block) / fs.pointers_per_block) ≠ 0 := by
          rw [hent2]; exact hb
        have hstep := set_leaf_step H2 j r
          (set32 (read_block fs (inode_block X 13) fs.malloc_junk).2
            (4 * ((j - 12 - fs.pointers_per_block) / fs.pointers_per_block)) (u32 b))
        rw [hgeo2.ppb] at hstep
        obtain ⟨fs3, hset, hgeo3, H3, hmap3, hby3⟩ := hstep hj1 hj2 hT hL2 hr
        have eget : get32 (set32 (read_block fs (inode_block X 13) fs.malloc_junk).2
            (4 * ((j - 12 - fs.pointers_per_block) / fs.pointers_per_block)) (u32 b))
            (4 * ((j - 12 - fs.pointers_per_block) / fs.pointers_per_block))
            = table_entry (write_block fsb (inode_block X 13)
              (set32 (read_block fs (inode_block X 13) fs.malloc_junk).2
                (4 * ((j - 12 - fs.pointers_per_block) / fs.pointers_per_block)) (u32 b))).2
              (inode_block X 13) ((j - 12 - fs.pointers_per_block) / fs.pointers_per_block) := by
          rw [hent2, get32_set32_same]
          exact Nat.mod_mod _ _
        rw [eget, hset] at h
        simp only [Option.some.injEq, Prod.mk.injEq] at h
        obtain ⟨-, e2, e3⟩ := h
        subst e2 e3
        exact ⟨P2, H3, same_geometry_trans hgeo2 hgeo3, hmap3,
          fun i r2 hne hi hm => hby3 i r2 hne hi (hby2 i r2 hi hm)⟩
  · rw [if_neg hz] at h
    obtain ⟨fs3, hset, hgeo3, H3, hmap3, hby3⟩ :=
      set_leaf_step H j r (read_block fs (inode_block X 13) fs.malloc_junk).2 hj1 hj2 hT hz hr
    rw [hset] at h
    simp only [Option.some.injEq, Prod.mk.injEq] at h
    obtain ⟨-, e2, e3⟩ := h
    subst e2 e3
    exact ⟨P, H3, hgeo3, hmap3, hby3⟩

/-- A successful `set_block_number` below the triple-indirect range, on an
inode whose indirection blocks are laid out consistently: the layout stays
consistent, the block is mapped, and every other mapped block stays mapped. -/
theorem set_block_number_post {fs : ext2_fs_t} {P : Nat → Prop} {X : Buf} {ino : Nat}
    (H : tables_ok fs P X ino) (j r : Nat)
    (hj : j < 12 + fs.pointers_per_block + fs.pointers_per_block * fs.pointers_per_block)
    (hr : r < 4294967296) (fs2 : ext2_fs_t) (X2 : Buf)
    (h : set_block_number fs X ino j r = some (E_SUCCESS, fs2, X2)) :
    ∃ P2, tables_ok fs2 P2 X2 ino ∧ same_geometry fs fs2 ∧ maps_to fs2 X2 j r ∧
      ∀ i r2, i ≠ j →
        i < 12 + fs.pointers_per_block + fs.pointers_per_block * fs.pointers_per_block →
        maps_to fs X i r2 → maps_to fs2 X2 i r2 := by
  obtain ⟨hp0, hp4, hp32⟩ := H.ppb
  have e13 : (12 + 1 : Nat) = 13 := rfl
  unfold set_block_number at h
  simp only [EXT2_DIRECT_BLOCKS, e13] at h
  by_cases c1 : j < 12
  · rw [if_pos c1] at h
    simp only [Option.some.injEq, Prod.mk.injEq] at h
    obtain ⟨-, e2, e3⟩ := h
    subst e2 e3
    obtain ⟨h1, h2, h3⟩ := set_direct_step H j r c1 hr
    exact ⟨P, h1, same_geometry_refl _, h2, h3⟩
  · rw [if_neg c1, u32_of_lt (by omega)] at h
    by_cases c2 : j < 12 + fs.pointers_per_block
    · rw [if_pos c2] at h
      by_cases h0 : inode_block X 12 = 0
      · rw [if_pos h0] at h
        cases halloc : allocate_block fs with
        | none => rw [halloc] at h; simp at h
        | some q =>
          obtain ⟨b, fsb⟩ := q
          rw [halloc] at h
          dsimp only at h
          by_cases hb : u32 b = 0
          · rw [if_pos hb] at h
            simp only [Option.some.injEq, Prod.mk.injEq] at h
            exact absurd h.1 (by decide)
          · rw [if_neg hb] at h
            obtain ⟨P2, H2, hgeo2, hT2, hby2⟩ := grow_single_step H b fsb h0 halloc hb
            obtain ⟨fs3, hset, hgeo3, H3, hmap3, hby3⟩ :=
              set_single_step H2 j r (by omega) (by rw [hgeo2.ppb]; exact c2) hT2 hr
            rw [hgeo2.ppb] at hby3
            rw [hset] at h
            simp only [Option.some.injEq, Prod.mk.injEq] at h
            obtain ⟨-, e2, e3⟩ := h
            subst e2 e3
            exact ⟨P2, H3, same_geometry_trans hgeo2 hgeo3, hmap3,
              fun i r2 hne hi hm => hby3 i r2 hne hi (hby2 i r2 hi hm)⟩
      · rw [if_neg h0] at h
        obtain ⟨fs3, hset, hgeo3, H3, hmap3, hby3⟩ :=
          set_single_step H j r (by omega) c2 h0 hr
        rw [hset] at h
        simp only [Option.some.injEq, Prod.mk.injEq] at h
        obtain ⟨-, e2, e3⟩ := h
        subst e2 e3
        exact ⟨P, H3, hgeo3, hmap3, hby3⟩
    · obtain ⟨-, eab, -, ed, -, -⟩ :=
        double_index fs.pointers_per_block j hp32 (by omega) hj
      rw [if_neg c2, u32_of_lt hp32, if_pos hj] at h
      simp only [eab, ed] at h
      by_cases h0 : inode_block X 13 = 0
      · rw [if_pos h0] at h
        cases halloc : allocate_block fs with
        | none => rw [halloc] at h; simp at h
        | some q =>
          obtain ⟨b, fsb⟩ := q
          rw [halloc] at h
          dsimp only at h
          by_cases hb : u32 b = 0
          · rw [if_pos hb] at h
            simp only [Option.some.injEq, Prod.mk.injEq] at h
            exact absurd h.1 (by decide)
          · rw [if_neg hb] at h
            obtain ⟨P2, H2, hgeo2, hT2, hby2⟩ := grow_double_step H b fsb h0 halloc hb
            have hstep := set_double_step H2 j r
            rw [hgeo2.ppb] at hstep
            obtain ⟨P3, H3, hgeo3, hmap3, hby3⟩ := hstep (by omega) hj hT2 hr fs2 X2 h
            exact ⟨P3, H3, same_geometry_trans hgeo2 hgeo3, hmap3,
              fun i r2 hne hi hm => hby3 i r2 hne hi (hby2 i r2 hi hm)⟩
      · rw [if_neg h0] at h
        exact set_double_step H j r (by omega) hj h0 hr fs2 X2 h

theorem fresh_root_tables : tables_ok fresh_fs fresh_in_use (read_inode fresh_fs 2) 2 := by
  have hrec : inode_record_addr fresh_fs 2 = 5248 := by decide
  have h12 : inode_block (read_inode fresh_fs 2) 12 = 0 := by decide
  have h13 : inode_block (read_inode fresh_fs 2) 13 = 0 := by decide
  refine ⟨fresh_volume_ok, by unfold inode_addressable; decide, by decide, ?_, ?_, ?_, ?_⟩
  · intro a ha
    unfold record_range at ha
    rw [hrec] at ha
    have hisz : fresh_fs.inode_size = 128 := rfl
    rw [hisz] at ha
    unfold fresh_in_use
    omega
  · intro a ha
    rw [h12] at ha
    exact absurd ha (not_in_block_zero _ _)
  · intro a ha
    rw [h13] at ha
    exact absurd ha (not_in_block_zero _ _)
  · intro h
    exact absurd h13 h

/-! ## Device offsets beyond 4 GiB, links and listings -/

theorem block_entry_eq_table_entry (fs : ext2_fs_t) (b k : Nat)
    (h : block_reachable fs b) : block_entry fs b k = table_entry fs b k := by
  unfold block_entry table_entry
  rcases Nat.eq_zero_or_pos fs.block_size with h0 | h0
  · unfold block_start u32
    rw [h0]
    simp
  · rw [(block_start_of_fits fs b h.2 h0).2]

/-- With every pointer on the way set and within the first 4 GiB,
`get_block_number` is the reference translation. -/
theorem get_block_number_eq_reference (fs : ext2_fs_t) (inode : Buf) (i : Nat)
    (hP : 12 + fs.pointers_per_block + fs.pointers_per_block * fs.pointers_per_block < 4294967296)
    (h4 : 4 * fs.pointers_per_block ≤ fs.block_size)
    (hi : i < 12 + fs.pointers_per_block + fs.pointers_per_block * fs.pointers_per_block)
    (hpath : reference_path fs inode i) :
    get_block_number fs inode i = reference_block_number fs inode i := by
  unfold reference_block_number
  dsimp only
  by_cases c1 : i < 12
  · rw [if_pos c1, get_block_number_direct _ _ _ c1]
  · rw [if_neg c1]
    by_cases c2 : i < 12 + fs.pointers_per_block
    · rw [if_pos c2]
      have hT := hpath.1 (by omega) c2
      rw [get_block_number_single fs inode i (by omega) c2 (by omega) h4 hT.1,
        block_entry_eq_table_entry fs _ _ hT]
      rfl
    · rw [if_neg c2]
      obtain ⟨hT, hL⟩ := hpath.2 (by omega)
      rw [block_entry_eq_table_entry fs _ _ hT] at hL
      rw [get_block_number_double fs inode i hP h4 (by omega) hi hT.1 hL.1,
        block_entry_eq_table_entry fs _ _ hT, block_entry_eq_table_entry fs _ _ hL]

theorem in_block_of_bytes (fs : ext2_fs_t) (b a : Nat)
    (hfit : (b + 1) * fs.block_size ≤ 4294967296) (hbs : 0 < fs.block_size) :
    in_block fs b a ↔ b ≠ 0 ∧ block_bytes fs b a := by
  obtain ⟨e1, e2⟩ := block_start_of_fits fs b hfit hbs
  unfold in_block block_bytes
  rw [e1, e2, Nat.add_mul, Nat.one_mul]

theorem bitmap_block_apart_of_clear (fs : ext2_fs_t) (g n : Nat) (hbs : 0 < fs.block_size)
    (h : bitmap_block_clear fs g n) : bitmap_block_apart fs g n := by
  obtain ⟨⟨hB0, hBfit⟩, hnfit, hdfit, hap⟩ := h
  refine ⟨hB0, ?_⟩
  intro a ha
  rw [in_block_of_bytes fs _ a hBfit hbs] at ha
  obtain ⟨p1, p2, p3⟩ := hap a ha.2
  refine ⟨p1, ?_, ?_⟩
  · intro hc
    rw [in_block_of_bytes fs _ a hnfit hbs] at hc
    exact p2 hc.2
  · intro j hj hc
    rw [in_block_of_bytes fs _ a (hdfit j hj) hbs] at hc
    exact p3 j hj hc.2

/-- What a successful `allocate_block` returns, and its effect on the bitmap
block as the driver addresses it. -/
theorem allocate_block_bits (fs : ext2_fs_t) (n : Nat) (fs' : ext2_fs_t)
    (h : allocate_block fs = some (n, fs')) (hn : n ≠ 0)
    (hbs : fs.block_size < 4294967296)
    (hmul : ∀ g, g < fs.block_group_count → sb_blocks_per_group fs * g < 4294967296) :
    ∃ g k, g < fs.block_group_count ∧ 0 < bgd_free_blocks_count fs g ∧
      (∀ j, j < g → bgd_free_blocks_count fs j = 0) ∧
      k < 8 * fs.block_size ∧ BLOCKBIT (block_bitmap fs g) k = false ∧
      (∀ j, j < k → BLOCKBIT (block_bitmap fs g) j = true) ∧
      n = k + sb_blocks_per_group fs * g ∧
      (bitmap_block_apart fs g n → ∀ j, j < 8 * fs.block_size →
        BLOCKBIT (block_bitmap fs g) j
          = Nat.testBit (get8 fs.block_device
              (block_start fs (bgd_block_bitmap fs g) + j / 8)) (j % 8) ∧
        BLOCKBIT (block_bitmap fs' g) j
          = Nat.testBit (get8 fs'.block_device
              (block_start fs (bgd_block_bitmap fs g) + j / 8)) (j % 8) ∧
        BLOCKBIT (block_bitmap fs' g) j = (decide (j = k) || BLOCKBIT (block_bitmap fs g) j)) := by
  rcases allocate_block_spec fs _ h with ⟨h1, -⟩ | ⟨g, k, h1, h2, h3, h4, h5, h6, h7⟩
  · simp only [Prod.mk.injEq] at h1
    exact absurd h1.1 hn
  · dsimp only at h5 h6 h7
    have hk := scan_free_bit_some _ _ _ _ h4
    have hu : u32 (sb_blocks_per_group fs * g) = sb_blocks_per_group fs * g :=
      u32_of_lt (hmul g h1)
    have hn2 : n = k + sb_blocks_per_group fs * g := by
      rw [h5, hu]
      unfold u64
      apply Nat.mod_eq_of_lt
      have := hmul g h1
      omega
    refine ⟨g, k, h1, h2, h3, by omega, hk.2.2.1, fun j hj => hk.2.2.2 j (Nat.zero_le _) hj,
      hn2, ?_⟩
    intro hap j hj
    have hm := allocate_block_commit_meta fs n k g (block_bitmap fs g)
    refine ⟨BLOCKBIT_block_bitmap_device fs g j hap.1 hj, ?_, ?_⟩
    · rw [h7]
      have := BLOCKBIT_block_bitmap_device (allocate_block_commit fs n k g (block_bitmap fs g)) g j
        (by rw [bgd_block_bitmap_commit]; exact hap.1) (by rw [hm.2.2.1]; exact hj)
      rw [this, bgd_block_bitmap_commit]
      unfold block_start
      rw [hm.2.2.1]
    · rw [h7]
      exact BLOCKBIT_block_bitmap_commit fs n k g _ hap j hj

/-- The scan of `create_entry` leaves with `modify_or_replace = 1` only
through its `break`, and then `total_offset` is not the size. -/
theorem create_entry_loop_flag (fs : ext2_fs_t) (pinode : Buf) :
    ∀ fuel bn off tot block m r, m ≠ 1 →
      create_entry_loop fs pinode fuel bn off tot block m = some r →
      r.2.2.2.2.1 = 1 → r.2.2.1 ≠ inode_size_field pinode := by
  intro fuel
  induction fuel with
  | zero => intro bn off tot block m r _ h; simp [create_entry_loop] at h
  | succ fuel ih =>
    intro bn off tot block m r hm h hflag
    have step : ∀ bn2 off2 blk2,
        (if dirent_rec_len blk2 off2 ≠ min_rec_len (dirent_name_len blk2 off2) ∧
            u32 (tot + dirent_rec_len blk2 off2) = inode_size_field pinode then
          some (bn2, u32 (off2 + min_rec_len (dirent_name_len blk2 off2)),
            u32 (tot + min_rec_len (dirent_name_len blk2 off2)), blk2, 1, off2)
        else create_entry_loop fs pinode fuel bn2 (u32 (off2 + dirent_rec_len blk2 off2))
          (u32 (tot + dirent_rec_len blk2 off2)) blk2
          (if dirent_inode blk2 off2 = 0 then 2 else m)) = some r →
        r.2.2.1 ≠ inode_size_field pinode := by
      intro bn2 off2 blk2 h2
      by_cases hc : dirent_rec_len blk2 off2 ≠ min_rec_len (dirent_name_len blk2 off2) ∧
          u32 (tot + dirent_rec_len blk2 off2) = inode_size_field pinode
      · rw [if_pos hc] at h2
        simp only [Option.some.injEq] at h2
        subst h2
        dsimp only
        intro e
        apply hc.1
        have e2 := e.trans hc.2.symm
        unfold u32 at e2
        have h3 := Nat.ModEq.add_left_cancel' tot e2.symm
        unfold Nat.ModEq at h3
        have b1 := get16_lt blk2 (off2 + 4)
        have b2 := min_rec_len_bounds (dirent_name_len blk2 off2)
        have b3 := get8_lt blk2 (off2 + 6)
        unfold dirent_rec_len at h3 ⊢
        unfold dirent_name_len at b2 h3 ⊢
        rw [Nat.mod_eq_of_lt (by omega), Nat.mod_eq_of_lt (by omega)] at h3
        exact h3
      · rw [if_neg hc] at h2
        refine ih _ _ _ _ _ r ?_ h2 hflag
        split
        · decide
        · exact hm
    unfold create_entry_loop at h
    by_cases ht : tot < inode_size_field pinode
    · rw [if_pos ht] at h
      exact step (if off ≥ fs.block_size then u8 (bn + 1) else bn)
        (if off ≥ fs.block_size then sub32 off fs.block_size else off)
        (if off ≥ fs.block_size then (inode_read_block fs pinode
          (if off ≥ fs.block_size then u8 (bn + 1) else bn) block).2 else block) h
    · rw [if_neg ht] at h
      simp only [Option.some.injEq] at h
      subst h
      exact absurd hflag hm

/-- When the last record of the directory is exactly as long as its name
needs, `create_entry` finds no place for the new record: it stores the record
behind the block in its buffer and writes the block back as it was. -/
theorem create_entry_no_slack (fuel : Nat) (fs : ext2_fs_t) (ino : Nat) (l : List Nat)
    (q : Nat) (name : List Nat) (n : Nat)
    (hmode : inode_mode (read_inode fs ino) &&& EXT2_S_IFDIR ≠ 0)
    (hwf : dir_well_formed fs ino l)
    (hal : rec_lens_aligned (file_view fs (read_inode fs ino)) l)
    (hlast : l.getLast? = some q)
    (hns : dirent_rec_len (file_view fs (read_inode fs ino)) q
      = min_rec_len (dirent_name_len (file_view fs (read_inode fs ino)) q))
    (hfuel : l.length < fuel) :
    create_entry fuel fs ino (some name) n = some (E_NOSPACE, fs) := by
  obtain ⟨hbs, hmul, h256, hmap, hchain⟩ := hwf
  obtain ⟨hq, hqend⟩ := dir_chain_last _ _ _ _ _ _ q hchain hlast
  obtain ⟨-, hqsize, hqlen, hqfit, -⟩ := dir_chain_mem _ _ _ _ _ _ hchain q hq
  obtain ⟨B, m2, hB, hloop⟩ := create_entry_loop_refines fs (read_inode fs ino) hbs h256 hmul hmap
    _ 0 l q hchain hlast hal fuel 0 0
    (inode_read_block fs (read_inode fs ino) 0 fs.malloc_junk).2 0 hfuel
    (scan_at_start fs _ _ hmap (by omega))
  rw [if_neg (fun h => h hns)] at hloop
  have hm2 : m2 ≠ 1 := by
    intro e
    exact create_entry_loop_flag fs _ _ _ _ _ _ _ _ (by decide) hloop (by rw [e]) rfl
  have hkq : q / fs.block_size * fs.block_size < inode_size_field (read_inode fs ino) := by
    have := Nat.div_mul_le_self q fs.block_size
    omega
  have hm := hmap (q / fs.block_size) hkq
  obtain ⟨fuel2, hfuel2⟩ : ∃ fuel2, fuel = fuel2 + 1 := ⟨fuel - 1, by omega⟩
  have hdev : (write_block fs (get_block_number fs (read_inode fs ino) (q / fs.block_size))
      (with_entry B fs.block_size n (sub32 fs.block_size fs.block_size) name)).2 = fs := by
    rw [write_block_snd]
    have : (write_block fs (get_block_number fs (read_inode fs ino) (q / fs.block_size))
        (with_entry B fs.block_size n (sub32 fs.block_size fs.block_size) name)).2.block_device
        = fs.block_device := by
      funext a
      by_cases hin : in_block fs (get_block_number fs (read_inode fs ino) (q / fs.block_size)) a
      · rw [write_block_device_inside _ _ _ _ hin]
        obtain ⟨-, h1, h2⟩ := hin
        rw [with_entry_outside _ _ _ _ _ _ (Or.inl (by omega)), hB _ (by omega)]
        congr 1
        omega
      · exact write_block_device_outside _ _ _ _ hin
    rw [this]
    exact with_device_self fs
  unfold create_entry
  dsimp only
  rw [if_neg hmode, hloop]
  dsimp only
  rw [if_neg hm2]
  dsimp only
  rw [hfuel2, inode_write_block_present _ _ _ _ _ _ hm.1]
  dsimp only
  have hblk : write_bytes (set8 (set8 (set16 (set32 B fs.block_size n) (fs.block_size + 4)
      (sub32 fs.block_size fs.block_size)) (fs.block_size + 6) (strlen name))
      (fs.block_size + 7) 0) (fs.block_size + 8) (c_str name)
      = with_entry B fs.block_size n (sub32 fs.block_size fs.block_size) name := rfl
  rw [hblk, hdev]

/-- The allocation of the inode `n` followed by the write of its record `r`
leaves a parent directory that is ready as it was, when the record of `n` is
in use and apart from the storage of the parent. -/
theorem new_inode_ready (fs : ext2_fs_t) (P : Nat → Prop) (parent : Nat) (l : List Nat)
    (n : Nat) (fs1 : ext2_fs_t) (r : Buf)
    (halloc : allocate_inode fs = some (n, fs1)) (hn : inode_addressable fs n)
    (hready : dir_ready fs P parent l)
    (hrec : ∀ a, record_range fs n a →
      P a ∧ ¬ dir_storage fs parent (inode_record_addr fs parent) a)
    (hibm : ∀ a, inode_bitmap_range fs a → ¬ P a ∧ ¬ block_bitmap_range fs a)
    (hr : record_shaped fs r) :
    same_geometry fs (write_inode fs1 r n).2 ∧
    read_inode fs1 n = read_inode fs n ∧
    read_inode (write_inode fs1 r n).2 n = r ∧
    read_inode (write_inode fs1 r n).2 parent = read_inode fs parent ∧
    dir_ready (write_inode fs1 r n).2 P parent l ∧
    (∀ x, x < inode_size_field (read_inode fs parent) →
      file_view (write_inode fs1 r n).2 (read_inode fs parent) x
        = file_view fs (read_inode fs parent) x) ∧
    (∀ m, free_blocks_ready fs m → free_blocks_ready (write_inode fs1 r n).2 m) ∧
    (∀ a, dir_storage (write_inode fs1 r n).2 parent
        (inode_record_addr (write_inode fs1 r n).2 parent) a ↔
      dir_storage fs parent (inode_record_addr fs parent) a) := by
  obtain ⟨hgeo1, hcnt1, hdev1⟩ := allocate_inode_frame fs n fs1 halloc
  have hok := hready.2.2.2.2.2.2.2.2.2
  have hPs := hready.2.2.2.2.2.2.2.2.1
  have hPdev1 : ∀ a, P a → fs1.block_device a = fs.block_device a :=
    fun a ha => hdev1 a (hok.2.2.2.2.2 a ha).1 (fun hc => (hibm a hc).1 ha)
  have hBdev1 : ∀ a, block_bitmap_range fs a → fs1.block_device a = fs.block_device a :=
    fun a ha => hdev1 a (hok.2.2.1 a ha).1 (fun hc => (hibm a hc).2 ha)
  obtain ⟨hready1, hread1, hview1, hst1⟩ := dir_ready_frame hgeo1 P parent l hready
    (fun a ha => hPdev1 a (hPs a ha)) hBdev1
  have hadr1 : inode_addressable fs1 n := (inode_addressable_geom hgeo1 n).2 hn
  have hreadn : read_inode fs1 n = read_inode fs n :=
    read_inode_geom hgeo1 n _ (inode_slot_of_addressable fs n hn)
      (fun a h1 h2 => hPdev1 a (hrec a ⟨h1, h2⟩).1)
  have hgeo12 := same_geometry_write_inode fs1 r n
  have hdev2 : ∀ a, ¬ record_range fs n a →
      (write_inode fs1 r n).2.block_device a = fs1.block_device a := by
    intro a ha
    exact write_inode_outside_record _ _ _ _ hadr1 (by rw [record_range_geom hgeo1]; exact ha)
  have hBP : ∀ a, block_bitmap_range fs a → ¬ P a :=
    fun a ha hc => (hok.2.2.2.2.2 a hc).2.1 ha
  obtain ⟨hready2, hread2, hview2, hst2⟩ := dir_ready_frame hgeo12 P parent l hready1
    (fun a ha => hdev2 a (fun hc => (hrec a hc).2 ((hst1 a).1 ha)))
    (fun a ha => hdev2 a (fun hc =>
      hBP a ((block_bitmap_range_geom hgeo1 a).1 ha) (hrec a hc).1))
  rw [hread1] at hread2 hview2
  refine ⟨same_geometry_trans hgeo1 hgeo12, hreadn,
    read_after_write_inode fs1 r n hadr1 ((record_shaped_geom hgeo1 r).2 hr), hread2, hready2, ?_,
    ?_, fun a => (hst2 a).trans (hst1 a)⟩
  · intro x hx
    rw [hview2 x hx, hview1 x hx]
  · intro m hfree
    apply free_blocks_ready_frame hgeo12 m _ _
      (free_blocks_ready_frame hgeo1 m hBdev1 hcnt1 hfree)
    · intro a ha
      apply hdev2
      intro hc
      exact hBP a ((block_bitmap_range_geom hgeo1 a).1 ha) (hrec a hc).1
    · intro g
      exact free_count_of_block_groups (write_inode_block_groups _ _ _) g

/-- In a ready directory that holds a record, `create_entry` returns and, of
the addresses in use, changes only the storage of the directory: when the
last record is exactly as long as its name needs nothing changes; when the
new record fits behind the last one it is stored there; otherwise a new block
is taken, for which the name has fewer than 256 bytes, the directory fewer
than 256 blocks, the block size is below 65536 and two blocks can be handed
out. -/
theorem create_entry_frame (fuel : Nat) (fs : ext2_fs_t) (P : Nat → Prop) (ino : Nat)
    (l : List Nat) (name : List Nat) (n : Nat)
    (hready : dir_ready fs P ino l) (hne : l ≠ []) (hfuel : l.length < fuel)
    (hgrow : ∀ q, l.getLast? = some q →
      dirent_rec_len (file_view fs (read_inode fs ino)) q
        ≠ min_rec_len (dirent_name_len (file_view fs (read_inode fs ino)) q) →
      fs.block_size ≤ q % fs.block_size
        + min_rec_len (dirent_name_len (file_view fs (read_inode fs ino)) q)
        + min_rec_len (strlen name) →
      strlen name < 256 ∧ inode_size_field (read_inode fs ino) < 256 * fs.block_size ∧
      fs.block_size < 65536 ∧ free_blocks_ready fs 2) :
    ∃ fs2, create_entry fuel fs ino (some name) n = some (E_NOSPACE, fs2) ∧
      same_geometry fs fs2 ∧
      ∀ a, P a → ¬ dir_storage fs ino (inode_record_addr fs ino) a →
        fs2.block_device a = fs.block_device a := by
  obtain ⟨q, hlast⟩ : ∃ q, l.getLast? = some q := by
    cases h : l.getLast? with
    | none => exact absurd (List.getLast?_eq_none_iff.1 h) hne
    | some q => exact ⟨q, rfl⟩
  by_cases hslack : dirent_rec_len (file_view fs (read_inode fs ino)) q
      ≠ min_rec_len (dirent_name_len (file_view fs (read_inode fs ino)) q)
  · by_cases hroom : q % fs.block_size
        + min_rec_len (dirent_name_len (file_view fs (read_inode fs ino)) q)
        + min_rec_len (strlen name) < fs.block_size
    · obtain ⟨fs2, hcall, hmeta, -, hframe, -, -, -⟩ :=
        create_entry_in_place_ready fuel fs P ino l q name n hready hlast hslack hfuel hroom
      exact ⟨fs2, hcall, same_geometry_of_meta hmeta, fun a _ h2 => hframe a h2⟩
    · obtain ⟨g1, g2, g3, g4⟩ := hgrow q hlast hslack (by omega)
      obtain ⟨fs3, hcall, hgeo, -, hframe, -, -, -, -, -, -⟩ :=
        create_entry_new_block fuel fs P ino l q name n 0 hready hlast hslack hfuel g1
          (by omega) g2 g3 g4
      exact ⟨fs3, hcall, hgeo, hframe⟩
  · refine ⟨fs, ?_, same_geometry_refl _, fun _ _ _ => rfl⟩
    exact create_entry_no_slack fuel fs ino l q name n hready.2.2.1 hready.2.2.2.1
      hready.2.2.2.2.1 hlast (not_not.1 hslack) hfuel

/-- The effect of `symlink_ext2` for a target of at most 60 bytes, in a parent
directory that is ready and holds a record, when `allocate_inode` hands out an
addressable inode whose record is in use and apart from the parent: the call
returns 0 and the record of the new inode is the symlink record. -/
theorem symlink_effect_any (fuel : Nat) (amb : ambient_t) (fs : ext2_fs_t) (P : Nat → Prop)
    (parent : Nat) (l : List Nat) (target name : List Nat) (n : Nat)
    (hrw : fs.flags &&& EXT2_FLAG_READWRITE ≠ 0)
    (habsent : finddir_ext2 fuel fs parent name = some none)
    (halloc : (allocate_inode fs).map Prod.fst = some n) (hn : inode_addressable fs n)
    (hL : strlen target ≤ 60)
    (hready : dir_ready fs P parent l) (hne : l ≠ []) (hfuel : l.length < fuel)
    (hgrow : ∀ q, l.getLast? = some q →
      dirent_rec_len (file_view fs (read_inode fs parent)) q
        ≠ min_rec_len (dirent_name_len (file_view fs (read_inode fs parent)) q) →
      fs.block_size ≤ q % fs.block_size
        + min_rec_len (dirent_name_len (file_view fs (read_inode fs parent)) q)
        + min_rec_len (strlen name) →
      strlen name < 256 ∧ inode_size_field (read_inode fs parent) < 256 * fs.block_size ∧
      fs.block_size < 65536 ∧ free_blocks_ready fs 2)
    (hrec : ∀ a, record_range fs n a →
      P a ∧ ¬ dir_storage fs parent (inode_record_addr fs parent) a)
    (hibm : ∀ a, inode_bitmap_range fs a → ¬ P a ∧ ¬ block_bitmap_range fs a) :
    ∃ fs3, symlink_ext2 fuel amb fs parent target (some name) = some (0, fs3) ∧
      read_inode fs3 n = symlink_record (read_inode fs n) amb target := by
  obtain ⟨fs1, hal⟩ := map_fst_eq_some halloc
  have hisz := hready.2.1
  have hwf := hready.2.2.2.1
  have hshape : record_shaped fs (symlink_record (read_inode fs n) amb target) := by
    unfold symlink_record
    apply record_shaped_set32 _ _ _ (by omega)
    apply record_shaped_write_bytes _ _ _ (by
      have : (c_str target).length = strlen target := rfl
      omega)
    exact record_shaped_init (record_shaped_read fs n hn) _ _ _ hisz
  obtain ⟨hgeo2, hreadn, hread2n, hread2p, hready2, hview2, hfree2, hst2⟩ :=
    new_inode_ready fs P parent l n fs1 (symlink_record (read_inode fs n) amb target) hal hn
      hready hrec hibm hshape
  have hfields : ∀ q, l.getLast? = some q →
      dirent_rec_len (file_view (write_inode fs1 (symlink_record (read_inode fs n) amb target) n).2
          (read_inode fs parent)) q
        = dirent_rec_len (file_view fs (read_inode fs parent)) q ∧
      dirent_name_len (file_view (write_inode fs1 (symlink_record (read_inode fs n) amb target)
          n).2 (read_inode fs parent)) q
        = dirent_name_len (file_view fs (read_inode fs parent)) q := by
    intro q hlast
    obtain ⟨hq, -⟩ := dir_chain_last _ _ _ _ _ _ q hwf.2.2.2.2 hlast
    obtain ⟨-, h1, h2, h3, h4⟩ := dir_chain_mem _ _ _ _ _ _ hwf.2.2.2.2 q hq
    obtain ⟨-, e2, e3, -⟩ := record_congr (file_view fs (read_inode fs parent))
      (file_view (write_inode fs1 (symlink_record (read_inode fs n) amb target) n).2
        (read_inode fs parent)) q h2 (fun x _ hx => hview2 x (by omega))
    exact ⟨e2, e3⟩
  obtain ⟨fs3, hcall, hgeo3, hframe3⟩ :=
    create_entry_frame fuel _ P parent l name n hready2 hne hfuel (by
      intro q hlast hsl hfull
      rw [hread2p] at hsl hfull ⊢
      rw [(hfields q hlast).1, (hfields q hlast).2] at hsl
      rw [(hfields q hlast).2, hgeo2.bs] at hfull
      obtain ⟨g1, g2, g3, g4⟩ := hgrow q hlast hsl hfull
      rw [hgeo2.bs]
      exact ⟨g1, g2, g3, hfree2 2 g4⟩)
  have hslot2 : inode_slot (write_inode fs1 (symlink_record (read_inode fs n) amb target) n).2 n
      = some (inode_record_addr fs n) := by
    rw [inode_slot_geom hgeo2]; exact inode_slot_of_addressable fs n hn
  refine ⟨fs3, ?_, ?_⟩
  · unfold symlink_ext2
    dsimp only
    rw [if_neg hrw, habsent]
    dsimp only
    rw [hal]
    dsimp only
    rw [if_pos hL, hreadn]
    unfold symlink_record at hcall
    rw [hcall]
    dsimp only
    rw [if_pos hL]
  · rw [read_inode_geom hgeo3 n _ hslot2 (fun a h1 h2 => by
      rw [hgeo2.isz] at h2
      obtain ⟨hp1, hp2⟩ := hrec a ⟨h1, h2⟩
      exact hframe3 a hp1 (fun hc => hp2 ((hst2 a).1 hc)))]
    exact hread2n

/-- What `create_entry` leaves of a directory that is ready and holds a
record: the call returns, the directory is ready with its storage counted as
in use, within the addresses in use only the storage of the directory
changes, and the free blocks stay ready.  Where the call takes a new block
(the last record is longer than its name needs and the new record does not fit
behind it), the name has fewer than 256 bytes, the directory fewer than 256
blocks, the block size is below 65536 and two more blocks can be handed out. -/
theorem create_entry_any (fuel : Nat) (fs : ext2_fs_t) (P : Nat → Prop) (ino : Nat)
    (l : List Nat) (name : List Nat) (n m : Nat)
    (hready : dir_ready fs P ino l) (hne : l ≠ []) (hfuel : l.length < fuel)
    (hfree : free_blocks_ready fs m)
    (hgrow : ∀ q, l.getLast? = some q →
      dirent_rec_len (file_view fs (read_inode fs ino)) q
        ≠ min_rec_len (dirent_name_len (file_view fs (read_inode fs ino)) q) →
      fs.block_size ≤ q % fs.block_size
        + min_rec_len (dirent_name_len (file_view fs (read_inode fs ino)) q)
        + min_rec_len (strlen name) →
      strlen name < 256 ∧ inode_size_field (read_inode fs ino) < 256 * fs.block_size ∧
      fs.block_size < 65536 ∧ free_blocks_ready fs (m + 2)) :
    ∃ fs2 l2, create_entry fuel fs ino (some name) n = some (E_NOSPACE, fs2) ∧
      same_geometry fs fs2 ∧
      dir_ready fs2 (fun a => P a ∨ dir_storage fs2 ino (inode_record_addr fs2 ino) a) ino l2 ∧
      (∀ a, P a → ¬ dir_storage fs ino (inode_record_addr fs ino) a →
        fs2.block_device a = fs.block_device a) ∧
      free_blocks_ready fs2 m ∧
      (∀ a, dir_storage fs2 ino (inode_record_addr fs2 ino) a →
        dir_storage fs ino (inode_record_addr fs ino) a ∨ ¬ P a) := by
  obtain ⟨q, hlast⟩ : ∃ q, l.getLast? = some q := by
    cases h : l.getLast? with
    | none => exact absurd (List.getLast?_eq_none_iff.1 h) hne
    | some q => exact ⟨q, rfl⟩
  have hP := hready.2.2.2.2.2.2.2.2.1
  have hok := hready.2.2.2.2.2.2.2.2.2
  by_cases hslack : dirent_rec_len (file_view fs (read_inode fs ino)) q
      ≠ min_rec_len (dirent_name_len (file_view fs (read_inode fs ino)) q)
  · by_cases hroom : q % fs.block_size
        + min_rec_len (dirent_name_len (file_view fs (read_inode fs ino)) q)
        + min_rec_len (strlen name) < fs.block_size
    · obtain ⟨fs2, hcall, hmeta, hready2, hframe, -, -, hstore2⟩ :=
        create_entry_in_place_ready fuel fs P ino l q name n hready hlast hslack hfuel hroom
      have hgeo : same_geometry fs fs2 := same_geometry_of_meta hmeta
      have hP2 := hready2.2.2.2.2.2.2.2.2.1
      refine ⟨fs2, _, hcall, hgeo, dir_ready_mono hready2 ?_ (fun a ha => Or.inr ha),
        fun a _ ha => hframe a ha, ?_, fun a ha => Or.inl (hstore2 a ha)⟩
      · intro a ha
        rcases ha with ha | ha
        · exact ha
        · exact hP2 a ha
      · apply free_blocks_ready_frame hgeo m _ _ hfree
        · intro a ha
          apply hframe
          intro hc
          exact (hok.2.2.2.2.2 a (hP a hc)).2.1 ha
        · intro g
          apply free_count_of_block_groups
          rw [hmeta]; rfl
    · obtain ⟨g1, g2, g3, g4⟩ := hgrow q hlast hslack (by omega)
      obtain ⟨fs3, hcall, hgeo, hready3, hframe, hfree3, -, -, -, -, hstore3⟩ :=
        create_entry_new_block fuel fs P ino l q name n m hready hlast hslack hfuel g1
          (by omega) g2 g3 g4
      exact ⟨fs3, _, hcall, hgeo, hready3, hframe, hfree3, hstore3⟩
  · refine ⟨fs, l, ?_, same_geometry_refl _, dir_ready_mono hready ?_ (fun a ha => Or.inr ha),
      fun _ _ _ => rfl, hfree, fun a ha => Or.inl ha⟩
    · exact create_entry_no_slack fuel fs ino l q name n hready.2.2.1 hready.2.2.2.1
        hready.2.2.2.2.1 hlast (not_not.1 hslack) hfuel
    · intro a ha
      rcases ha with ha | ha
      · exact ha
      · exact hP a ha

/-- The new directory that `mkdir_ext2` makes in a parent directory that is
ready and holds a record, on a volume with a free block ready and blocks of at
most 64 KiB, when `allocate_inode` hands out an addressable inode whose record
is in use and apart from the parent: the call returns 0 and the new directory
is well-formed with the records "." and "..", laid out consistently, with its
storage apart from the superblock and the descriptor table.  Where
`create_entry` takes a new block for the parent, the name has fewer than 256
bytes, the parent fewer than 256 blocks, the block size is below 65536 and
three blocks can be handed out. -/
theorem mkdir_new_dir (fuel : Nat) (amb : ambient_t) (fs : ext2_fs_t) (P : Nat → Prop)
    (parent : Nat) (l : List Nat) (name : List Nat) (n permission : Nat)
    (hrw : fs.flags &&& EXT2_FLAG_READWRITE ≠ 0)
    (habsent : finddir_ext2 fuel fs parent name = some none)
    (halloc : (allocate_inode fs).map Prod.fst = some n) (hn : inode_addressable fs n)
    (hready : dir_ready fs P parent l) (hne : l ≠ [])
    (hfuel : l.length < fuel) (hfuel2 : 2 ≤ fuel)
    (hbs64 : fs.block_size ≤ 65536)
    (hfree : free_blocks_ready fs 1)
    (hgrow : ∀ q, l.getLast? = some q →
      dirent_rec_len (file_view fs (read_inode fs parent)) q
        ≠ min_rec_len (dirent_name_len (file_view fs (read_inode fs parent)) q) →
      fs.block_size ≤ q % fs.block_size
        + min_rec_len (dirent_name_len (file_view fs (read_inode fs parent)) q)
        + min_rec_len (strlen name) →
      strlen name < 256 ∧ inode_size_field (read_inode fs parent) < 256 * fs.block_size ∧
      fs.block_size < 65536 ∧ free_blocks_ready fs 3)
    (hrec : ∀ a, record_range fs n a →
      P a ∧ ¬ dir_storage fs parent (inode_record_addr fs parent) a)
    (hibm : ∀ a, inode_bitmap_range fs a → ¬ P a ∧ ¬ block_bitmap_range fs a) :
    ∃ fs7, mkdir_ext2 fuel amb fs parent (some name) permission = some (0, fs7) ∧
      same_geometry fs fs7 ∧
      dir_well_formed fs7 n [0, 12] ∧
      rec_lens_aligned (file_view fs7 (read_inode fs7 n)) [0, 12] ∧
      dir_layout fs7 n (inode_record_addr fs7 n) ∧
      inode_mode (read_inode fs7 n) = EXT2_S_IFDIR ||| (0xFFF &&& permission) ∧
      inode_size_field (read_inode fs7 n) = fs.block_size ∧
      (dirent_inode (file_view fs7 (read_inode fs7 n)) 0 = n % 4294967296 ∧
        dirent_name (file_view fs7 (read_inode fs7 n)) 0 = [46] ∧
        dirent_inode (file_view fs7 (read_inode fs7 n)) 12 = parent % 4294967296 ∧
        dirent_rec_len (file_view fs7 (read_inode fs7 n)) 12 = fs.block_size - 12 ∧
        dirent_name (file_view fs7 (read_inode fs7 n)) 12 = [46, 46]) ∧
      (∀ a, dir_storage fs7 n (inode_record_addr fs7 n) a → ¬ meta_range fs7 a) := by
  obtain ⟨fs1, hal⟩ := map_fst_eq_some halloc
  have hisz := hready.2.1
  have hadrp := hready.1
  have hwf0 := hready.2.2.2.1
  have hal0 := hready.2.2.2.2.1
  have hbs : 0 < fs.block_size := hwf0.1
  obtain ⟨q0, hq0last⟩ : ∃ q, l.getLast? = some q := by
    cases h : l.getLast? with
    | none => exact absurd (List.getLast?_eq_none_iff.1 h) hne
    | some q => exact ⟨q, rfl⟩
  obtain ⟨hq0, -⟩ := dir_chain_last _ _ _ _ _ _ q0 hwf0.2.2.2.2 hq0last
  obtain ⟨-, hq0size, -, -, -⟩ := dir_chain_mem _ _ _ _ _ _ hwf0.2.2.2.2 q0 hq0
  have hbs512 := block_size_of_mapped fs _ hwf0.2.2.2.1 (by omega)
  have hsize_ge : fs.block_size ≤ inode_size_field (read_inode fs parent) := by
    have := size_block_bound _ _ 0 hbs hwf0.2.1 (by omega)
    omega
  have hbs4 : fs.block_size % 4 = 0 :=
    block_size_aligned _ _ _ hsize_ge _ 0 l hwf0.2.2.2.2 hal0 (Nat.zero_le _) rfl
  have hok0 := hready.2.2.2.2.2.2.2.2.2
  obtain ⟨hslot0, hP1, hP2, hP3, -, -⟩ := hready.2.2.2.2.2.1
  -- the record of the new inode as first written
  generalize hI1 : init_inode (read_inode fs n) amb 2 (EXT2_S_IFDIR ||| (0xFFF &&& permission))
    = I1
  have hI1shape : record_shaped fs I1 := by
    rw [← hI1]; exact record_shaped_init (record_shaped_read fs n hn) _ _ _ hisz
  obtain ⟨-, hI1blocks, hI1mode, hI1links, hI1blk⟩ := init_inode_fields (read_inode fs n) amb 2
    (EXT2_S_IFDIR ||| (0xFFF &&& permission))
  rw [hI1] at hI1blocks hI1blk hI1mode hI1links
  obtain ⟨hgeo2, hreadn, hread2n, hread2p, hready2, hview2, hfree2, hst2⟩ :=
    new_inode_ready fs P parent l n fs1 I1 hal hn hready hrec hibm hI1shape
  have hfields : ∀ q, l.getLast? = some q →
      dirent_rec_len (file_view (write_inode fs1 I1 n).2 (read_inode fs parent)) q
        = dirent_rec_len (file_view fs (read_inode fs parent)) q ∧
      dirent_name_len (file_view (write_inode fs1 I1 n).2 (read_inode fs parent)) q
        = dirent_name_len (file_view fs (read_inode fs parent)) q := by
    intro q hlast
    obtain ⟨hq, -⟩ := dir_chain_last _ _ _ _ _ _ q hwf0.2.2.2.2 hlast
    obtain ⟨-, h1, h2, h3, h4⟩ := dir_chain_mem _ _ _ _ _ _ hwf0.2.2.2.2 q hq
    obtain ⟨-, e2, e3, -⟩ := record_congr (file_view fs (read_inode fs parent))
      (file_view (write_inode fs1 I1 n).2 (read_inode fs parent)) q h2
      (fun x _ hx => hview2 x (by omega))
    exact ⟨e2, e3⟩
  obtain ⟨fs3, l3, hcall, hgeo23, hready3, hframe3, hfree3, hstore3⟩ :=
    create_entry_any fuel _ P parent l name n 1 hready2 hne hfuel (hfree2 1 hfree) (by
      intro q hlast hsl hfull
      rw [hread2p] at hsl hfull ⊢
      rw [(hfields q hlast).1, (hfields q hlast).2] at hsl
      rw [(hfields q hlast).2, hgeo2.bs] at hfull
      obtain ⟨g1, g2, g3, g4⟩ := hgrow q hlast hsl hfull
      rw [hgeo2.bs]
      exact ⟨g1, g2, g3, hfree2 3 g4⟩)
  have hgeo3 := same_geometry_trans hgeo2 hgeo23
  -- the record of the new inode and the parent are apart in the state after create_entry
  have hnst3 : ∀ a, record_range fs n a →
      ¬ dir_storage fs3 parent (inode_record_addr fs3 parent) a := by
    intro a ha hc
    obtain ⟨hp1, hp2⟩ := hrec a ha
    rcases hstore3 a hc with h1 | h1
    · exact hp2 ((hst2 a).1 h1)
    · exact h1 hp1
  have hnP3 : ∀ a, record_range fs3 n a →
      P a ∨ dir_storage fs3 parent (inode_record_addr fs3 parent) a :=
    fun a ha => Or.inl (hrec a ((record_range_geom hgeo3 n a).1 ha)).1
  -- the record with the size of one block, and the block of the new directory
  generalize hI2 : set32 I1 4 fs3.block_size = I2
  have hI2shape : record_shaped fs3 I2 := by
    rw [← hI2]
    exact record_shaped_set32 ((record_shaped_geom hgeo3 _).2 hI1shape) _ _
      (by rw [hgeo3.isz]; omega)
  have hI2blocks : inode_blocks I2 = 0 := by
    rw [← hI2, ← hI1blocks]
    unfold inode_blocks
    apply get32_set32_other; omega
  have hI2blk : ∀ j, 40 ≤ j → j < 92 → I2 j = 0 := by
    intro j h1 h2
    rw [← hI2, set32_outside _ _ _ _ (by omega)]
    exact hI1blk j h1 (by omega)
  have hI2size : inode_size_field I2 = fs.block_size := by
    rw [← hI2, hgeo3.bs]
    show get32 (set32 I1 4 _) 4 = _
    rw [get32_set32_same, Nat.mod_eq_of_lt (by omega)]
  obtain ⟨fs5, X1, b, hNDB, hgeo35, hread5n, hX1fields, hX1count, hX1block, hb0, hbfit, hbout,
    hbin, hframe5, hX1ptr⟩ :=
    new_dir_block fuel fs3 _ n I2 (mkdir_block (write_inode fs3 I2 n).2 n parent) 0 hfuel2
      ((inode_addressable_geom hgeo3 n).2 hn) (by rw [hgeo3.isz]; exact hisz) hI2shape hI2blocks
      hI2blk (by rw [hgeo3.ppb]; exact hP1) (by rw [hgeo3.ppb]; exact hP2)
      (by rw [hgeo3.ppb, hgeo3.bs]; exact hP3) (by rw [hgeo3.bs]; exact hbs512) hnP3
      hready3.2.2.2.2.2.2.2.2.2 hfree3
  rw [hgeo3.bs] at hX1count hbfit hbin
  have hgeo5 := same_geometry_trans hgeo3 hgeo35
  -- the last statements
  have hadrp5 : inode_addressable fs5 parent := (inode_addressable_geom hgeo5 parent).2 hadrp
  have hPmeta : ∀ a, P a → ¬ meta_range fs a := fun a ha => (hok0.2.2.2.2.2 a ha).1
  have hrecp_P : ∀ a, record_range fs parent a → P a :=
    fun a ha => hready.2.2.2.2.2.2.2.2.1 a (Or.inl ha)
  obtain ⟨hgeo57, hdev7, hread7p⟩ := mkdir_finish_effect fs5 parent n hadrp5
    (by rw [hgeo5.isz]; exact hisz)
    (fun a ha => by
      rw [meta_range_geom hgeo5]
      exact hPmeta a (hrecp_P a ((record_range_geom hgeo5 parent a).1 ha)))
  have hgeo7 := same_geometry_trans hgeo5 hgeo57
  have hgeo37 := same_geometry_trans hgeo35 hgeo57
  have hdev7' : ∀ a, ¬ record_range fs parent a → ¬ meta_range fs a →
      (mkdir_finish fs5 parent n).block_device a = fs5.block_device a := by
    intro a h1 h2
    exact hdev7 a (by rw [record_range_geom hgeo5]; exact h1)
      (by rw [meta_range_geom hgeo5]; exact h2)
  -- the call
  have hcallm : mkdir_ext2 fuel amb fs parent (some name) permission
      = some (0, mkdir_finish fs5 parent n) := by
    unfold mkdir_ext2
    dsimp only
    rw [if_neg hrw, habsent]
    dsimp only
    rw [hal]
    dsimp only
    rw [hreadn, hI1, hcall]
    dsimp only
    rw [hI2, hNDB]
    rfl
  obtain ⟨hadr3, hisz3, hmode3, hwf3, hal3, hlay3, hrt3, htab3, hP3, hok3⟩ := hready3
  have hnrec3 : ∀ a, dir_storage fs3 parent (inode_record_addr fs3 parent) a →
      ¬ record_range fs3 n a :=
    fun a ha hc => hnst3 a ((record_range_geom hgeo3 n a).1 hc) ha
  have hmeta3 : ∀ a, dir_storage fs3 parent (inode_record_addr fs3 parent) a →
      ¬ meta_range fs a := by
    intro a ha
    have := (hok3.2.2.2.2.2 a (Or.inr ha)).1
    rw [meta_range_geom hgeo3] at this
    exact this
  -- the new directory
  have hread7n : read_inode (mkdir_finish fs5 parent n) n = X1 := by
    rw [read_inode_geom hgeo57 n _
      (by rw [inode_slot_geom hgeo5]; exact inode_slot_of_addressable fs n hn)
      (fun a h1 h2 => by
        have hr : record_range fs n a := ⟨h1, by rw [hgeo5.isz] at h2; exact h2⟩
        obtain ⟨hp1, hp2⟩ := hrec a hr
        exact hdev7 a (by
          rw [record_range_geom hgeo5]
          exact fun hc => hp2 (Or.inl hc)) (by rw [meta_range_geom hgeo5]; exact hPmeta a hp1))]
    exact hread5n
  have hX1size : inode_size_field X1 = fs.block_size := by
    rw [← hI2size]
    unfold inode_size_field
    apply get32_congr
    intro i hi
    unfold get8
    rw [hX1fields _ (by omega) (by omega)]
  have hgbn7 : get_block_number (mkdir_finish fs5 parent n) X1 0 = b := by
    rw [get_block_number_direct _ _ 0 (by omega)]; exact hX1block
  have hbst : block_start fs3 b = block_start fs b := block_start_geom hgeo3 b
  obtain ⟨hbu, -⟩ := block_start_of_fits fs b hbfit hbs
  have hview7 : ∀ x, x < fs.block_size → file_view (mkdir_finish fs5 parent n) X1 x
      = mkdir_block (write_inode fs3 I2 n).2 n parent x := by
    intro x hx
    unfold file_view file_byte_addr
    rw [hgeo7.bs, Nat.div_eq_of_lt hx, Nat.mod_eq_of_lt hx, hgbn7, block_start_geom hgeo7,
      ← hbst]
    have hin : in_block fs3 b (block_start fs3 b + x) := by
      rw [in_block_geom hgeo3, hbst]
      exact ⟨by rw [hbu]; exact hb0, by omega, by omega⟩
    obtain ⟨h1, h2⟩ := hbout _ hin
    rw [hdev7' _ (fun hc => h1 (Or.inl (hrecp_P _ hc)))
      (by rw [← meta_range_geom hgeo3]; exact h2)]
    exact hbin x hx
  have hag : agrees fs.block_size 0 (mkdir_block (write_inode fs3 I2 n).2 n parent)
      (file_view (mkdir_finish fs5 parent n) X1) := by
    intro j hj
    rw [Nat.zero_add]
    exact (hview7 j hj).symm
  obtain ⟨-, g2, g3⟩ := agrees_fields hag 0 (by omega)
  obtain ⟨-, g5, g6⟩ := agrees_fields hag 12 (by omega)
  obtain ⟨-, m2, m3, -, m5, m6⟩ := mkdir_block_fields (write_inode fs3 I2 n).2 n parent
  rw [(same_geometry_write_inode fs3 I2 n).bs, hgeo3.bs, sub32_of_le (by omega) (by omega),
    Nat.mod_eq_of_lt (by omega)] at m5
  simp only [Nat.zero_add] at g2 g3 g5 g6
  rw [m2] at g2
  rw [m3] at g3
  rw [m5] at g5
  rw [m6] at g6
  have hminl : min_rec_len 1 = 12 ∧ min_rec_len 2 = 12 := by
    constructor <;> rfl
  have hmode16 : EXT2_S_IFDIR ||| (0xFFF &&& permission) < 65536 := by
    have h1 : 0xFFF &&& permission ≤ 0xFFF := Nat.and_le_left
    show _ < 2 ^ 16
    exact Nat.or_lt_two_pow (by decide) (by omega)
  obtain ⟨n1, n2, n3⟩ := mkdir_block_names (write_inode fs3 I2 n).2 n parent
  have hv8 : ∀ x, x < fs.block_size →
      get8 (file_view (mkdir_finish fs5 parent n) X1) x
        = get8 (mkdir_block (write_inode fs3 I2 n).2 n parent) x := by
    intro x hx
    unfold get8
    rw [hview7 x hx]
  have hT7 : inode_block X1 12 = 0 := by
    unfold inode_block get32 get8
    rw [hX1ptr _ (by omega) (by omega), hX1ptr _ (by omega) (by omega),
      hX1ptr _ (by omega) (by omega), hX1ptr _ (by omega) (by omega),
      hI2blk _ (by omega) (by omega), hI2blk _ (by omega) (by omega),
      hI2blk _ (by omega) (by omega), hI2blk _ (by omega) (by omega)]
  have hfa7 : ∀ x, x < fs.block_size →
      file_byte_addr (mkdir_finish fs5 parent n) X1 x = block_start fs b + x ∧
      in_block fs3 b (block_start fs b + x) := by
    intro x hx
    unfold file_byte_addr
    rw [hgeo7.bs, Nat.div_eq_of_lt hx, Nat.mod_eq_of_lt hx, hgbn7, block_start_geom hgeo7]
    refine ⟨rfl, ?_⟩
    rw [in_block_geom hgeo3]
    exact ⟨by rw [hbu]; exact hb0, by omega, by omega⟩
  obtain ⟨-, hQ1, hQ2, hQ3, -, -⟩ := hready.2.2.2.2.2.1
  refine ⟨_, hcallm, hgeo7, ⟨?_, ?_, ?_, ?_, ?_⟩, ?_, ⟨?_, ?_, ?_, ?_, ?_, ?_⟩, ?_, ?_,
    ⟨?_, ?_, ?_, ?_, ?_⟩, ?_⟩
  · rw [hgeo7.bs]; exact hbs
  · rw [hread7n, hX1size, hgeo7.bs, Nat.mod_self]
  · rw [hread7n, hX1size, hgeo7.bs]; omega
  · rw [hread7n, hX1size]
    intro k hk
    rw [hgeo7.bs] at hk ⊢
    have hk0 : k = 0 := by
      have : k < 1 := Nat.lt_of_mul_lt_mul_right (by rw [Nat.one_mul]; exact hk)
      omega
    rw [hk0, hgbn7]
    exact ⟨hX1count, hb0⟩
  · rw [hread7n, hX1size, hgeo7.bs]
    exact two_record_chain _ _ (by omega) ⟨g2, g3⟩ ⟨g5, g6⟩
  · rw [hread7n]
    intro q hq
    simp only [List.mem_cons, List.mem_singleton, List.not_mem_nil, or_false] at hq
    rcases hq with hq | hq
    · rw [hq, g2, g3, hminl.1]; exact ⟨rfl, le_refl _⟩
    · rw [hq, g5, g6, hminl.2]; exact ⟨by omega, by omega⟩
  · exact inode_slot_of_addressable _ n ((inode_addressable_geom hgeo7 n).2 hn)
  · rw [hgeo7.ppb]; exact hQ1
  · rw [hgeo7.ppb]; exact hQ2
  · rw [hgeo7.ppb, hgeo7.bs]; exact hQ3
  · rw [hread7n, hX1size]
    intro x y hx hy hxy
    rw [(hfa7 x hx).1, (hfa7 y hy).1] at hxy
    omega
  · rw [hread7n, hX1size]
    intro x hx
    rw [(hfa7 x hx).1, hT7]
    refine ⟨fun hc => ?_, fun hc => hc.1 rfl⟩
    rw [inode_record_addr_geom hgeo7, hgeo7.isz] at hc
    exact (hbout _ (hfa7 x hx).2).1 (Or.inl (hrec _ hc).1)
  · rw [hread7n, ← Nat.mod_eq_of_lt hmode16, ← hI1mode]
    unfold inode_mode
    apply get16_congr
    intro i hi
    unfold get8
    rw [hX1fields _ (by omega) (by omega), ← hI2, set32_outside _ _ _ _ (by omega)]
  · rw [hread7n]; exact hX1size
  · rw [hread7n]
    obtain ⟨g1, -, -⟩ := agrees_fields hag 0 (by omega)
    rw [Nat.zero_add] at g1
    rw [g1]
    exact (mkdir_block_fields _ _ _).1
  · rw [hread7n]
    unfold dirent_name
    rw [g3]
    simp only [List.range_succ, List.range_zero, List.nil_append, List.map_cons, List.map_nil,
      Nat.add_zero]
    rw [hv8 _ (by omega), n1]
  · rw [hread7n]
    obtain ⟨g4, -, -⟩ := agrees_fields hag 12 (by omega)
    rw [Nat.zero_add] at g4
    rw [g4]
    exact (mkdir_block_fields _ _ _).2.2.2.1
  · rw [hread7n]; exact g5
  · rw [hread7n]
    unfold dirent_name
    rw [g6]
    simp only [List.range_succ, List.range_zero, List.nil_append, List.map_cons, List.map_nil,
      Nat.add_zero, List.cons_append]
    rw [hv8 _ (by omega), hv8 _ (by omega), n2, n3]
  · intro a ha
    rw [meta_range_geom hgeo7]
    unfold dir_storage at ha
    rw [inode_record_addr_geom hgeo7, hgeo7.isz, hread7n, hT7, hX1size] at ha
    rcases ha with ha | ha | ⟨x, hx, ha⟩
    · exact hPmeta a (hrec a ha).1
    · exact absurd rfl ha.1
    · rw [ha, (hfa7 x hx).1, ← meta_range_geom hgeo3]
      exact (hbout _ (hfa7 x hx).2).2

/-- The effect of `create_entry` on a usable directory whose last record has
room for the new one: the call returns, the directory stays usable with the
new record behind the shortened last one, and only the storage of the
directory changes. -/
theorem create_entry_in_place_usable (fuel : Nat) (fs : ext2_fs_t) (ino : Nat)
    (l : List Nat) (q : Nat) (name : List Nat) (n : Nat)
    (hready : dir_usable fs ino l) (hlast : l.getLast? = some q)
    (hslack : dirent_rec_len (file_view fs (read_inode fs ino)) q
      ≠ min_rec_len (dirent_name_len (file_view fs (read_inode fs ino)) q))
    (hfuel : l.length < fuel)
    (hroom : q % fs.block_size
      + min_rec_len (dirent_name_len (file_view fs (read_inode fs ino)) q)
      + min_rec_len (strlen name) < fs.block_size) :
    ∃ fs2, create_entry fuel fs ino (some name) n = some (E_NOSPACE, fs2) ∧
      same_geometry fs fs2 ∧
      dir_usable fs2 ino
        (l ++ [q + min_rec_len (dirent_name_len (file_view fs (read_inode fs ino)) q)]) ∧
      (∀ a, ¬ dir_storage fs ino (inode_record_addr fs ino) a →
        fs2.block_device a = fs.block_device a) ∧
      read_inode fs2 ino = read_inode fs ino ∧
      (∀ x, x < inode_size_field (read_inode fs ino) →
        file_view fs2 (read_inode fs2 ino) x
          = with_entry (set16 (file_view fs (read_inode fs ino)) (q + 4)
              (min_rec_len (dirent_name_len (file_view fs (read_inode fs ino)) q)))
              (q + min_rec_len (dirent_name_len (file_view fs (read_inode fs ino)) q)) n
              (fs.block_size - (q % fs.block_size
                + min_rec_len (dirent_name_len (file_view fs (read_inode fs ino)) q))) name x) ∧
      (∀ a, dir_storage fs2 ino (inode_record_addr fs2 ino) a ↔
        dir_storage fs ino (inode_record_addr fs ino) a) := by
  obtain ⟨hmode, hwf, hal, hlay⟩ := hready
  obtain ⟨fs2, hcall, hmeta, hread, hgbn, hview, hdev⟩ :=
    create_entry_in_place fuel fs ino _ l q name n hmode hwf hlay hal hlast hslack hfuel hroom
  have hgeo : same_geometry fs fs2 := same_geometry_of_meta hmeta
  obtain ⟨hbs, hmul, h256, hmap, hchain⟩ := hwf
  obtain ⟨hslot, hP1, hP2, hP3, hdist, hdir⟩ := hlay
  obtain ⟨hq, hqend⟩ := dir_chain_last _ _ _ _ _ _ q hchain hlast
  obtain ⟨-, hqsize, hqlen, hqfit, -⟩ := dir_chain_mem _ _ _ _ _ _ hchain q hq
  obtain ⟨hal4, halmin⟩ := hal q hq
  have hmslb := min_rec_len_bounds (dirent_name_len (file_view fs (read_inode fs ino)) q)
  have hnameb := min_rec_len_bounds (strlen name)
  have hnl : dirent_name_len (file_view fs (read_inode fs ino)) q < 256 := get8_lt _ _
  have hrl16 : dirent_rec_len (file_view fs (read_inode fs ino)) q < 65536 := get16_lt _ _
  have hfill := last_fills_block _ _ _ _ hbs hmul hqend hqfit (by omega)
  generalize hmsl : min_rec_len (dirent_name_len (file_view fs (read_inode fs ino)) q) = msl at *
  generalize hv : file_view fs (read_inode fs ino) = v at *
  -- the new content
  generalize hW : with_entry (set16 v (q + 4) msl) (q + msl) n
    (fs.block_size - (q % fs.block_size + msl)) name = W at hview
  have hWout : ∀ x, ¬ (q + 4 ≤ x ∧ x < q + 6) →
      ¬ (q + msl ≤ x ∧ x < q + dirent_rec_len v q) → W x = v x := by
    intro x h1 h2
    rw [← hW, with_entry_outside _ _ _ _ _ _ (by omega), set16_outside _ _ _ _ (by omega)]
  have hWq : dirent_rec_len W q = msl ∧ dirent_name_len W q = dirent_name_len v q := by
    constructor
    · have : dirent_rec_len W q = get16 (set16 v (q + 4) msl) (q + 4) := by
        unfold dirent_rec_len
        apply get16_congr
        intro i hi
        unfold get8
        rw [← hW, with_entry_outside _ _ _ _ _ _ (by omega)]
      rw [this, get16_set16_same, Nat.mod_eq_of_lt (by omega)]
    · unfold dirent_name_len get8
      rw [← hW, with_entry_outside _ _ _ _ _ _ (by omega), set16_outside _ _ _ _ (by omega)]
  obtain ⟨-, hWrl, hWnl⟩ := with_entry_fields (set16 v (q + 4) msl) (q + msl) n
    (fs.block_size - (q % fs.block_size + msl)) name
  rw [hW] at hWrl hWnl
  have hrest : fs.block_size - (q % fs.block_size + msl) = dirent_rec_len v q - msl := by omega
  rw [hrest, Nat.mod_eq_of_lt (by omega)] at hWrl
  have hnlle : strlen name % 256 ≤ strlen name := Nat.mod_le _ _
  have hminW : min_rec_len (dirent_name_len W (q + msl)) ≤ min_rec_len (strlen name) := by
    rw [hWnl]; exact min_rec_len_mono hnlle
  have hminWb := min_rec_len_bounds (dirent_name_len W (q + msl))
  have hchainW := dir_chain_append v W fs.block_size (inode_size_field (read_inode fs ino)) q msl
    hWout (by omega) (by omega) hWq.1 hWrl (by omega) _ 0 l hchain hlast
  have halW : rec_lens_aligned W (l ++ [q + msl]) :=
    rec_lens_aligned_append v W fs.block_size _ q msl _ 0 l hchain hlast hal hWout
      ⟨by rw [hWq.1]; omega, by rw [hWq.1, hWq.2, hmsl]⟩
      ⟨by rw [hWrl]; omega, by rw [hWrl]; omega⟩
  have hagree : ∀ x, x < inode_size_field (read_inode fs ino) →
      file_view fs2 (read_inode fs ino) x = W x := hview
  have hchain2 : dir_chain (file_view fs2 (read_inode fs ino)) fs.block_size
      (inode_size_field (read_inode fs ino)) (inode_size_field (read_inode fs ino) + 1) 0
      = some (l ++ [q + msl]) := by
    have h1 := dir_chain_congr W _ fs.block_size _ hbs hmul hagree _ _ _ hchainW
    have hlen := dir_chain_length _ _ _ _ _ _ h1
    exact dir_chain_fuel _ _ _ _ _ _ h1 _ (by omega)
  have hal2 : rec_lens_aligned (file_view fs2 (read_inode fs ino)) (l ++ [q + msl]) :=
    rec_lens_aligned_congr W _ fs.block_size _ _ 0 _ hchainW hagree halW
  -- addresses of the directory bytes
  have hxk : ∀ x, x < inode_size_field (read_inode fs ino) →
      x / fs.block_size * fs.block_size < inode_size_field (read_inode fs ino) := by
    intro x hx
    have := Nat.div_mul_le_self x fs.block_size
    omega
  have hfa : ∀ x, x < inode_size_field (read_inode fs ino) →
      file_byte_addr fs2 (read_inode fs ino) x = file_byte_addr fs (read_inode fs ino) x := by
    intro x hx
    unfold file_byte_addr
    rw [block_start_geom hgeo, hgeo.bs, hgbn _ (hxk x hx)]
  have hstore : ∀ a, dir_storage fs2 ino (inode_record_addr fs2 ino) a ↔
      dir_storage fs ino (inode_record_addr fs ino) a := by
    intro a
    rw [inode_record_addr_geom hgeo]
    unfold dir_storage
    rw [hread, hgeo.isz, in_block_geom hgeo]
    constructor
    · rintro (ha | ha | ⟨x, hx, ha⟩)
      · exact Or.inl ha
      · exact Or.inr (Or.inl ha)
      · rw [hfa x hx] at ha; exact Or.inr (Or.inr ⟨x, hx, ha⟩)
    · rintro (ha | ha | ⟨x, hx, ha⟩)
      · exact Or.inl ha
      · exact Or.inr (Or.inl ha)
      · rw [← hfa x hx] at ha; exact Or.inr (Or.inr ⟨x, hx, ha⟩)
  -- the block that is rewritten belongs to the directory
  have hblock : ∀ a, in_block fs (get_block_number fs (read_inode fs ino) (q / fs.block_size)) a →
      dir_storage fs ino (inode_record_addr fs ino) a := by
    intro a ha
    obtain ⟨-, h1, h2⟩ := ha
    have hdm := Nat.div_add_mod q fs.block_size
    have hqb := size_block_bound _ _ _ hbs hmul (hxk q hqsize)
    rw [Nat.add_mul, Nat.one_mul] at hqb
    refine Or.inr (Or.inr ⟨q / fs.block_size * fs.block_size
      + (a - block_start fs (get_block_number fs (read_inode fs ino) (q / fs.block_size))),
      by omega, ?_⟩)
    unfold file_byte_addr
    have e1 : (q / fs.block_size * fs.block_size
        + (a - block_start fs (get_block_number fs (read_inode fs ino) (q / fs.block_size))))
        / fs.block_size = q / fs.block_size := by
      have hlt : a - block_start fs (get_block_number fs (read_inode fs ino) (q / fs.block_size))
          < fs.block_size := by omega
      rw [Nat.mul_comm, Nat.mul_add_div hbs, Nat.div_eq_of_lt hlt, Nat.add_zero]
    have e2 : (q / fs.block_size * fs.block_size
        + (a - block_start fs (get_block_number fs (read_inode fs ino) (q / fs.block_size))))
        % fs.block_size
        = a - block_start fs (get_block_number fs (read_inode fs ino) (q / fs.block_size)) := by
      have hlt : a - block_start fs (get_block_number fs (read_inode fs ino) (q / fs.block_size))
          < fs.block_size := by omega
      rw [Nat.mul_comm, Nat.mul_add_mod, Nat.mod_eq_of_lt hlt]
    rw [e1, e2]
    omega
  have hframe : ∀ a, ¬ dir_storage fs ino (inode_record_addr fs ino) a →
      fs2.block_device a = fs.block_device a :=
    fun a ha => hdev a (fun hc => ha (hblock a hc))
  refine ⟨fs2, hcall, hgeo, ⟨?_, ⟨?_, ?_, ?_, ?_, ?_⟩, ?_, ⟨?_, ?_, ?_, ?_, ?_, ?_⟩⟩,
    hframe, hread, ?_, hstore⟩
  · rw [hread]; exact hmode
  · rw [hgeo.bs]; exact hbs
  · rw [hread, hgeo.bs]; exact hmul
  · rw [hread, hgeo.bs]; exact h256
  · rw [hread]
    intro j hj
    rw [hgeo.bs] at hj ⊢
    rw [hgbn j hj]
    exact hmap j hj
  · rw [hread, hgeo.bs]; exact hchain2
  · rw [hread]; exact hal2
  · rw [inode_slot_geom hgeo, inode_record_addr_geom hgeo]; exact hslot
  · rw [hgeo.ppb]; exact hP1
  · rw [hgeo.ppb]; exact hP2
  · rw [hgeo.ppb, hgeo.bs]; exact hP3
  · rw [hread]
    intro x y hx hy hxy
    rw [hfa x hx, hfa y hy] at hxy
    exact hdist x y hx hy hxy
  · rw [hread, inode_record_addr_geom hgeo, hgeo.isz]
    intro x hx
    rw [hfa x hx, in_block_geom hgeo]
    exact hdir x hx
  · rw [hread]; exact hview

theorem dir_storage_frame {fs fs2 : ext2_fs_t} (h : same_geometry fs fs2) (ino s : Nat)
    (hread : read_inode fs2 ino = read_inode fs ino)
    (hfa : ∀ x, x < inode_size_field (read_inode fs ino) →
      file_byte_addr fs2 (read_inode fs ino) x = file_byte_addr fs (read_inode fs ino) x)
    (a : Nat) : dir_storage fs2 ino s a ↔ dir_storage fs ino s a := by
  unfold dir_storage
  rw [hread, h.isz, in_block_geom h]
  constructor
  · rintro (ha | ha | ⟨x, hx, ha⟩)
    · exact Or.inl ha
    · exact Or.inr (Or.inl ha)
    · rw [hfa x hx] at ha; exact Or.inr (Or.inr ⟨x, hx, ha⟩)
  · rintro (ha | ha | ⟨x, hx, ha⟩)
    · exact Or.inl ha
    · exact Or.inr (Or.inl ha)
    · rw [← hfa x hx] at ha; exact Or.inr (Or.inr ⟨x, hx, ha⟩)

/-- The allocation of the inode `n` followed by the write of a record `r` for
it leaves a usable directory as it was, when the storage of the directory is
apart from the superblock, the descriptor table, the inode bitmaps and the
record of `n`. -/
theorem new_inode_usable (fs : ext2_fs_t) (d : Nat) (l : List Nat)
    (n : Nat) (fs1 : ext2_fs_t) (r : Buf)
    (halloc : allocate_inode fs = some (n, fs1)) (hn : inode_addressable fs n)
    (hdir : dir_usable fs d l)
    (hapart : ∀ a, dir_storage fs d (inode_record_addr fs d) a →
      ¬ meta_range fs a ∧ ¬ inode_bitmap_range fs a ∧ ¬ record_range fs n a) :
    same_geometry fs (write_inode fs1 r n).2 ∧
    read_inode (write_inode fs1 r n).2 d = read_inode fs d ∧
    dir_usable (write_inode fs1 r n).2 d l ∧
    (∀ x, x < inode_size_field (read_inode fs d) →
      file_view (write_inode fs1 r n).2 (read_inode fs d) x
        = file_view fs (read_inode fs d) x) ∧
    (∀ a, dir_storage (write_inode fs1 r n).2 d
        (inode_record_addr (write_inode fs1 r n).2 d) a ↔
      dir_storage fs d (inode_record_addr fs d) a) := by
  obtain ⟨hgeo1, -, hdev1⟩ := allocate_inode_frame fs n fs1 halloc
  obtain ⟨hmode, hwf, hal, hlay⟩ := hdir
  obtain ⟨hread1, hgbn1, hfa1, hfv1, hwf1, hlay1⟩ := dir_frame hgeo1 d _ l hwf hlay
    (fun a ha => hdev1 a (hapart a ha).1 (hapart a ha).2.1)
  have hst1 := dir_storage_frame hgeo1 d (inode_record_addr fs d) hread1 hfa1
  have hadr1 : inode_addressable fs1 n := (inode_addressable_geom hgeo1 n).2 hn
  have hgeo12 := same_geometry_write_inode fs1 r n
  have hdev2 : ∀ a, ¬ record_range fs n a →
      (write_inode fs1 r n).2.block_device a = fs1.block_device a := by
    intro a ha
    exact write_inode_outside_record _ _ _ _ hadr1 (by rw [record_range_geom hgeo1]; exact ha)
  obtain ⟨hread2, hgbn2, hfa2, hfv2, hwf2, hlay2⟩ := dir_frame hgeo12 d _ l hwf1 hlay1
    (fun a ha => hdev2 a (hapart a ((hst1 a).1 ha)).2.2)
  have hst2 := dir_storage_frame hgeo12 d (inode_record_addr fs d) hread2
    (by rw [hread1]; intro x hx; rw [← hread1]; exact hfa2 x (by rw [hread1]; exact hx))
  have hgeo := same_geometry_trans hgeo1 hgeo12
  have hfv : ∀ x, x < inode_size_field (read_inode fs d) →
      file_view (write_inode fs1 r n).2 (read_inode fs d) x
        = file_view fs (read_inode fs d) x := by
    intro x hx
    have := hfv2 x (by rw [hread1]; exact hx)
    rw [hread1] at this
    rw [this]
    exact hfv1 x hx
  refine ⟨hgeo, hread2.trans hread1, ⟨?_, hwf2, ?_, ?_⟩, hfv, ?_⟩
  · rw [hread2, hread1]; exact hmode
  · rw [hread2, hread1]
    exact rec_lens_aligned_congr _ _ _ _ _ _ _ hwf.2.2.2.2 hfv hal
  · rw [inode_record_addr_geom hgeo]; exact hlay2
  · intro a
    rw [inode_record_addr_geom hgeo]
    exact (hst2 a).trans (hst1 a)

/-- The effect of `create_ext2` in a usable directory whose last record has
room for the new one, when `allocate_inode` hands out an addressable inode and
the storage of the directory is apart from the superblock, the descriptor
table, the inode bitmaps and the record of the new inode: the call returns 0,
the directory stays usable with the new record behind the shortened last one,
the old records keep their inode numbers and names, and the new record
carries the new inode number and the name. -/
theorem create_ext2_in_place (fuel : Nat) (amb : ambient_t) (fs : ext2_fs_t) (d : Nat)
    (l : List Nat) (q : Nat) (name : List Nat) (n permission : Nat)
    (hrw : fs.flags &&& EXT2_FLAG_READWRITE ≠ 0)
    (habsent : finddir_ext2 fuel fs d name = some none)
    (halloc : (allocate_inode fs).map Prod.fst = some n) (hn : inode_addressable fs n)
    (hdir : dir_usable fs d l) (hlast : l.getLast? = some q)
    (hslack : dirent_rec_len (file_view fs (read_inode fs d)) q
      ≠ min_rec_len (dirent_name_len (file_view fs (read_inode fs d)) q))
    (hfuel : l.length < fuel) (hname : strlen name < 256)
    (hroom : q % fs.block_size
      + min_rec_len (dirent_name_len (file_view fs (read_inode fs d)) q)
      + min_rec_len (strlen name) < fs.block_size)
    (hapart : ∀ a, dir_storage fs d (inode_record_addr fs d) a →
      ¬ meta_range fs a ∧ ¬ inode_bitmap_range fs a ∧ ¬ record_range fs n a) :
    ∃ fs2, create_ext2 fuel amb fs d (some name) permission = some (0, fs2) ∧
      same_geometry fs fs2 ∧
      dir_usable fs2 d
        (l ++ [q + min_rec_len (dirent_name_len (file_view fs (read_inode fs d)) q)]) ∧
      (∀ r, r ∈ l →
        dirent_inode (file_view fs2 (read_inode fs2 d)) r
          = dirent_inode (file_view fs (read_inode fs d)) r ∧
        dirent_name_len (file_view fs2 (read_inode fs2 d)) r
          = dirent_name_len (file_view fs (read_inode fs d)) r ∧
        dirent_name (file_view fs2 (read_inode fs2 d)) r
          = dirent_name (file_view fs (read_inode fs d)) r) ∧
      (dirent_inode (file_view fs2 (read_inode fs2 d))
          (q + min_rec_len (dirent_name_len (file_view fs (read_inode fs d)) q))
          = n % 4294967296 ∧
        dirent_rec_len (file_view fs2 (read_inode fs2 d))
          (q + min_rec_len (dirent_name_len (file_view fs (read_inode fs d)) q))
          = fs.block_size - (q % fs.block_size
              + min_rec_len (dirent_name_len (file_view fs (read_inode fs d)) q)) ∧
        dirent_name_len (file_view fs2 (read_inode fs2 d))
          (q + min_rec_len (dirent_name_len (file_view fs (read_inode fs d)) q))
          = strlen name ∧
        dirent_name (file_view fs2 (read_inode fs2 d))
          (q + min_rec_len (dirent_name_len (file_view fs (read_inode fs d)) q))
          = c_str name) ∧
      (∀ a, dir_storage fs2 d (inode_record_addr fs2 d) a ↔
        dir_storage fs d (inode_record_addr fs d) a) := by
  obtain ⟨fs1, hal⟩ := map_fst_eq_some halloc
  have hdir0 := hdir
  obtain ⟨hmode, hwf, halig, hlay⟩ := hdir
  obtain ⟨hbs, hmul, h256, hmap, hchain⟩ := hwf
  obtain ⟨hq, hqend⟩ := dir_chain_last _ _ _ _ _ _ q hchain hlast
  obtain ⟨-, hqsize, hqlen, hqfit, -⟩ := dir_chain_mem _ _ _ _ _ _ hchain q hq
  obtain ⟨hal4, halmin⟩ := halig q hq
  have hmslb := min_rec_len_bounds (dirent_name_len (file_view fs (read_inode fs d)) q)
  have hnameb := min_rec_len_bounds (strlen name)
  have hfill := last_fills_block _ _ _ _ hbs hmul hqend hqfit (by omega)
  generalize hR : init_inode (read_inode fs1 n) amb 1 (EXT2_S_IFREG ||| (0xFFF &&& permission))
    = R
  obtain ⟨hgeoA, hreadA, hdirA, hviewA, hstA⟩ := new_inode_usable fs d l n fs1 R hal hn hdir0
    hapart
  obtain ⟨-, e2, e3, -⟩ := record_congr (file_view fs (read_inode fs d))
    (file_view (write_inode fs1 R n).2 (read_inode fs d)) q hqlen
    (fun x _ hx => hviewA x (by omega))
  obtain ⟨fs2, hcall, hgeoA2, hdir2, hframe, hread, hview, hst2⟩ :=
    create_entry_in_place_usable fuel (write_inode fs1 R n).2 d l q name n hdirA hlast
      (by rw [hreadA, e2, e3]; exact hslack) hfuel (by rw [hreadA, e3, hgeoA.bs]; exact hroom)
  rw [hreadA, e3] at hdir2
  rw [hreadA, e3, hgeoA.bs] at hview
  have hgeo := same_geometry_trans hgeoA hgeoA2
  generalize hmsl : min_rec_len (dirent_name_len (file_view fs (read_inode fs d)) q) = msl at *
  generalize hv : file_view fs (read_inode fs d) = v at *
  generalize hvA : file_view (write_inode fs1 R n).2 (read_inode fs d) = vA at *
  generalize hW : with_entry (set16 vA (q + 4) msl) (q + msl) n
    (fs.block_size - (q % fs.block_size + msl)) name = W at hview
  have hrlA : dirent_rec_len vA q = dirent_rec_len v q := e2
  have hWout : ∀ x, ¬ (q + 4 ≤ x ∧ x < q + 6) →
      ¬ (q + msl ≤ x ∧ x < q + dirent_rec_len v q) → W x = vA x := by
    intro x h1 h2
    rw [← hW, with_entry_outside _ _ _ _ _ _ (by omega), set16_outside _ _ _ _ (by omega)]
  have hnew : q + msl + 8 + strlen name ≤ inode_size_field (read_inode fs d) := by
    clear hdir0 hdir2 hframe hst2 hstA hcall hlay hmap hchain halig hview hWout hW hslack hlast hq
      hapart hdirA hviewA
    omega
  have hW8 : ∀ x, q + msl ≤ x → x < q + msl + 8 + strlen name →
      file_view fs2 (read_inode fs2 d) x = W x := by
    intro x h1 h2
    exact hview x (Nat.lt_of_lt_of_le h2 hnew)
  have hchainA : dir_chain vA fs.block_size (inode_size_field (read_inode fs d))
      (inode_size_field (read_inode fs d) + 1) 0 = some l :=
    dir_chain_congr v vA _ _ hbs hmul hviewA _ _ _ hchain
  have hkeptA := records_kept_of_view v vA fs.block_size _ _ 0 l hchain hviewA
  refine ⟨fs2, ?_, hgeo, hdir2, ?_, ⟨?_, ?_, ?_, ?_⟩, fun a => ?_⟩
  · unfold create_ext2
    dsimp only
    rw [if_neg hrw, habsent]
    dsimp only
    rw [hal]
    dsimp only
    rw [hR, hcall]
  · intro r hr
    have h1 : dirent_inode (file_view fs2 (read_inode fs2 d)) r = dirent_inode vA r ∧
        dirent_name_len (file_view fs2 (read_inode fs2 d)) r = dirent_name_len vA r ∧
        dirent_name (file_view fs2 (read_inode fs2 d)) r = dirent_name vA r := by
      apply record_kept
      intro x hx
      obtain ⟨k1, k2⟩ := kept_in_place vA W fs.block_size _ _ 0 l hchainA q msl hq
        (by rw [e3]; omega) (by rw [hrlA]; exact hWout) r hr x hx
      rw [hview x k1]
      exact k2
    obtain ⟨a1, a2, a3⟩ := h1
    obtain ⟨b1, b2, b3⟩ := hkeptA r hr
    exact ⟨a1.trans b1, a2.trans b2, a3.trans b3⟩
  · obtain ⟨e1, -, -⟩ := header_congr W (file_view fs2 (read_inode fs2 d)) (q + msl)
      (fun x h1 h2 => hW8 x h1 (by omega))
    rw [e1, ← hW]
    exact (with_entry_fields _ _ _ _ _).1
  · obtain ⟨-, e1, -⟩ := header_congr W (file_view fs2 (read_inode fs2 d)) (q + msl)
      (fun x h1 h2 => hW8 x h1 (by omega))
    rw [e1, ← hW, (with_entry_fields _ _ _ _ _).2.1]
    apply Nat.mod_eq_of_lt
    have := get16_lt v (q + 4)
    unfold dirent_rec_len at hfill
    omega
  · obtain ⟨-, -, e1⟩ := header_congr W (file_view fs2 (read_inode fs2 d)) (q + msl)
      (fun x h1 h2 => hW8 x h1 (by omega))
    rw [e1, ← hW, (with_entry_fields _ _ _ _ _).2.2, Nat.mod_eq_of_lt hname]
  · have hnl : dirent_name_len W (q + msl) = strlen name := by
      rw [← hW, (with_entry_fields _ _ _ _ _).2.2, Nat.mod_eq_of_lt hname]
    obtain ⟨-, -, e1⟩ := record_kept W (file_view fs2 (read_inode fs2 d)) (q + msl)
      (fun x hx => hW8 x (by omega) (by rw [hnl] at hx; omega))
    rw [e1, ← hW]
    exact with_entry_name _ _ _ _ _ hname
  · exact (hst2 a).trans (hstA a)

theorem eq_some_none_of_map_map {α β : Type} (f : α → β) (o : Option (Option α))
    (h : o.map (Option.map f) = some none) : o = some none := by
  cases o with
  | none => simp at h
  | some x =>
    cases x with
    | none => rfl
    | some y => simp at h

/-- A name that no record of a well-formed directory carries is not found. -/
theorem finddir_ext2_absent (fuel : Nat) (fs : ext2_fs_t) (d : Nat) (name : List Nat)
    (l : List Nat) (hwf : dir_well_formed fs d l) (hfuel : l.length < fuel)
    (hnames : ∀ r, r ∈ l → c_str (dirent_name (file_view fs (read_inode fs d)) r) ≠ c_str name) :
    finddir_ext2 fuel fs d name = some none := by
  apply eq_some_none_of_map_map fs_node_t.inode
  rw [finddir_ext2_spec fuel fs d name l hwf hfuel]
  have : l.find? (live_named (file_view fs (read_inode fs d)) name) = none := by
    rw [List.find?_eq_none]
    intro r hr
    unfold live_named
    simp [hnames r hr]
  rw [this]
  rfl

/-- The listing of a well-formed directory whose records are all live. -/
theorem readdir_ext2_entries (fuel : Nat) (fs : ext2_fs_t) (d i : Nat) (l : List Nat)
    (es : List dirent) (hwf : dir_well_formed fs d l) (hfuel : l.length < fuel)
    (hi : i < 4294967296)
    (hes : l.map (dirent_entry (file_view fs (read_inode fs d))) = es)
    (hlive : ∀ e, e ∈ es → e.d_ino ≠ 0) :
    readdir_ext2 fuel fs d i = some es[i]? := by
  rw [readdir_ext2_spec fuel fs d i l hwf hfuel hi]
  have hall : l.filter (live_record (file_view fs (read_inode fs d))) = l := by
    rw [List.filter_eq_self]
    intro r hr
    unfold live_record
    have : dirent_entry (file_view fs (read_inode fs d)) r ∈ es := by
      rw [← hes]; exact List.mem_map_of_mem _ hr
    simpa using hlive _ this
  rw [hall, ← hes, List.getElem?_map]
  rfl

/-- One `create_ext2` in a usable directory of one block whose last record
reaches to the end of the block and has room for the new record: the call
returns 0 and appends the entry. -/
theorem create_ext2_append (fuel : Nat) (amb : ambient_t) (fs : ext2_fs_t) (d : Nat)
    (l : List Nat) (q k : Nat) (name : List Nat) (n permission : Nat) (es : List dirent)
    (hrw : fs.flags &&& EXT2_FLAG_READWRITE ≠ 0)
    (hdir : dir_usable fs d l) (hlast : l.getLast? = some q)
    (hnl : dirent_name_len (file_view fs (read_inode fs d)) q = k)
    (hrl : dirent_rec_len (file_view fs (read_inode fs d)) q = fs.block_size - q)
    (hes : l.map (dirent_entry (file_view fs (read_inode fs d))) = es)
    (hnames : ∀ e, e ∈ es → c_str e.d_name ≠ c_str name)
    (hfuel : l.length < fuel) (hname : strlen name < 256)
    (hroom : q + min_rec_len k + min_rec_len (strlen name) < fs.block_size)
    (hsup : inode_supply fs d n)
    (hmeta : ∀ a, dir_storage fs d (inode_record_addr fs d) a → ¬ meta_range fs a) :
    ∃ fs2, create_ext2 fuel amb fs d (some name) permission = some (0, fs2) ∧
      same_geometry fs fs2 ∧ dir_usable fs2 d (l ++ [q + min_rec_len k]) ∧
      dirent_name_len (file_view fs2 (read_inode fs2 d)) (q + min_rec_len k) = strlen name ∧
      dirent_rec_len (file_view fs2 (read_inode fs2 d)) (q + min_rec_len k)
        = fs.block_size - (q + min_rec_len k) ∧
      (l ++ [q + min_rec_len k]).map (dirent_entry (file_view fs2 (read_inode fs2 d)))
        = es ++ [{ d_ino := n % 4294967296, d_name := c_str name }] ∧
      (∀ a, dir_storage fs2 d (inode_record_addr fs2 d) a → ¬ meta_range fs2 a) := by
  obtain ⟨halloc, hn, hapart⟩ := hsup
  have hwf := hdir.2.1
  have hqbs : q % fs.block_size = q := Nat.mod_eq_of_lt (by omega)
  have hmslb := min_rec_len_bounds (strlen name)
  have habsent : finddir_ext2 fuel fs d name = some none := by
    apply finddir_ext2_absent fuel fs d name l hwf hfuel
    intro r hr
    have : dirent_entry (file_view fs (read_inode fs d)) r ∈ es := by
      rw [← hes]; exact List.mem_map_of_mem _ hr
    exact hnames _ this
  obtain ⟨fs2, hcall, hgeo, hdir2, hkept, ⟨hino, hrl2, hnl2, hnm⟩, hst⟩ :=
    create_ext2_in_place fuel amb fs d l q name n permission hrw habsent halloc hn hdir hlast
      (by rw [hnl, hrl]; omega) hfuel hname (by rw [hnl, hqbs]; exact hroom)
      (fun a ha => ⟨hmeta a ha, (hapart a ha).1, (hapart a ha).2⟩)
  rw [hnl] at hdir2 hino hrl2 hnl2 hnm
  rw [hqbs] at hrl2
  refine ⟨fs2, hcall, hgeo, hdir2, hnl2, hrl2, ?_, ?_⟩
  · rw [List.map_append, ← hes]
    congr 1
    · apply List.map_congr_left
      intro r hr
      obtain ⟨a1, -, a3⟩ := hkept r hr
      unfold dirent_entry
      rw [a1, a3]
    · unfold dirent_entry
      rw [List.map_singleton, hino, hnm]
  · intro a ha
    rw [meta_range_geom hgeo]
    exact hmeta a ((hst a).1 ha)

theorem inode_number_mod (fs : ext2_fs_t) (n : Nat) (h : inode_addressable fs n) :
    n % 4294967296 = n ∧ n ≠ 0 := by
  obtain ⟨-, -, -, h1, h2, h3, -, -⟩ := h
  exact ⟨Nat.mod_eq_of_lt (by omega), by omega⟩

theorem dir_mode_bit (x : Nat) : (EXT2_S_IFDIR ||| x) &&& EXT2_S_IFDIR ≠ 0 := by
  intro h
  have h1 := congrArg (fun y => Nat.testBit y 14) h
  simp only [Nat.testBit_and, Nat.testBit_or, Nat.zero_testBit] at h1
  have h2 : Nat.testBit EXT2_S_IFDIR 14 = true := by decide
  rw [h2] at h1
  simp at h1

/-- The storage of a directory of one block without a single-indirect block:
its inode record and its block. -/
theorem one_block_storage (fs : ext2_fs_t) (d s b a : Nat)
    (hsize : inode_size_field (read_inode fs d) = fs.block_size)
    (hT : u32 (inode_block (read_inode fs d) 12) = 0)
    (hb : block_start fs (get_block_number fs (read_inode fs d) 0) = b)
    (h : dir_storage fs d s a) :
    (s ≤ a ∧ a < s + fs.inode_size) ∨ (b ≤ a ∧ a < b + fs.block_size) := by
  rcases h with h | h | ⟨x, hx, h⟩
  · exact Or.inl h
  · exact absurd hT h.1
  · rw [hsize] at hx
    unfold file_byte_addr at h
    rw [Nat.div_eq_of_lt hx, Nat.mod_eq_of_lt hx, hb] at h
    exact Or.inr ⟨by omega, by omega⟩

/-- The inode bitmaps of a volume with one group. -/
theorem one_group_inode_bitmap (fs : ext2_fs_t) (a s : Nat) (hc : fs.block_group_count = 1)
    (hs : block_start fs (bgd_inode_bitmap fs 0) = s) (h : inode_bitmap_range fs a) :
    s ≤ a ∧ a < s + fs.block_size := by
  obtain ⟨g, hg, h⟩ := h
  rw [hc] at hg
  have hg0 : g = 0 := by omega
  subst hg0
  obtain ⟨-, h1, h2⟩ := h
  rw [hs] at h1 h2
  exact ⟨h1, h2⟩

set_option maxRecDepth 100000 in
theorem listing_supply_a (fs1 : ext2_fs_t)
    (h : mkdir_ext2 10 example_ambient fresh_fs 2 (some [100]) 0x1ED = some (0, fs1)) :
    inode_supply fs1 11 12 := by
  have e : listing_fs1 = fs1 := by
    unfold listing_fs1
    rw [h]
    rfl
  subst e
  refine ⟨by decide, by unfold inode_addressable; decide, fun a ha => ?_⟩
  have h1 := one_block_storage listing_fs1 11 _ 65536 a (by decide) (by decide) (by decide) ha
  have hr : inode_record_addr listing_fs1 11 = 6400 := by decide
  have hr2 : inode_record_addr listing_fs1 12 = 6528 := by decide
  have hisz : listing_fs1.inode_size = 128 := by decide
  have hbs : listing_fs1.block_size = 1024 := by decide
  rw [hr, hisz, hbs] at h1
  refine ⟨fun hc => ?_, fun hc => ?_⟩
  · have h2 := one_group_inode_bitmap listing_fs1 a 4096 (by decide) (by decide) hc
    rw [hbs] at h2
    omega
  · unfold record_range at hc
    rw [hr2, hisz] at hc
    omega

set_option maxRecDepth 100000 in
theorem listing_supply_b (fs1 fs2 : ext2_fs_t)
    (h : mkdir_ext2 10 example_ambient fresh_fs 2 (some [100]) 0x1ED = some (0, fs1))
    (h2 : create_ext2 10 example_ambient fs1 11 (some [97]) 0x1A4 = some (0, fs2)) :
    inode_supply fs2 11 13 := by
  have e : listing_fs1 = fs1 := by
    unfold listing_fs1
    rw [h]
    rfl
  subst e
  have e2 : listing_fs2 = fs2 := by
    unfold listing_fs2
    rw [h2]
    rfl
  subst e2
  refine ⟨by decide, by unfold inode_addressable; decide, fun a ha => ?_⟩
  have h1 := one_block_storage listing_fs2 11 _ 65536 a (by decide) (by decide) (by decide) ha
  have hr : inode_record_addr listing_fs2 11 = 6400 := by decide
  have hr2 : inode_record_addr listing_fs2 13 = 6656 := by decide
  have hisz : listing_fs2.inode_size = 128 := by decide
  have hbs : listing_fs2.block_size = 1024 := by decide
  rw [hr, hisz, hbs] at h1
  refine ⟨fun hc => ?_, fun hc => ?_⟩
  · have h2 := one_group_inode_bitmap listing_fs2 a 4096 (by decide) (by decide) hc
    rw [hbs] at h2
    omega
  · unfold record_range at hc
    rw [hr2, hisz] at hc
    omega

set_option maxRecDepth 100000 in
theorem listing_supply_c (fs1 fs2 fs3 : ext2_fs_t)
    (h : mkdir_ext2 10 example_ambient fresh_fs 2 (some [100]) 0x1ED = some (0, fs1))
    (h2 : create_ext2 10 example_ambient fs1 11 (some [97]) 0x1A4 = some (0, fs2))
    (h3 : create_ext2 10 example_ambient fs2 11 (some [98]) 0x1A4 = some (0, fs3)) :
    inode_supply fs3 11 14 := by
  have e : listing_fs1 = fs1 := by
    unfold listing_fs1
    rw [h]
    rfl
  subst e
  have e2 : listing_fs2 = fs2 := by
    unfold listing_fs2
    rw [h2]
    rfl
  subst e2
  have e3 : listing_fs3 = fs3 := by
    unfold listing_fs3
    rw [h3]
    rfl
  subst e3
  refine ⟨by decide, by unfold inode_addressable; decide, fun a ha => ?_⟩
  have h1 := one_block_storage listing_fs3 11 _ 65536 a (by decide) (by decide) (by decide) ha
  have hr : inode_record_addr listing_fs3 11 = 6400 := by decide
  have hr2 : inode_record_addr listing_fs3 14 = 6784 := by decide
  have hisz : listing_fs3.inode_size = 128 := by decide
  have hbs : listing_fs3.block_size = 1024 := by decide
  rw [hr, hisz, hbs] at h1
  refine ⟨fun hc => ?_, fun hc => ?_⟩
  · have h2 := one_group_inode_bitmap listing_fs3 a 4096 (by decide) (by decide) hc
    rw [hbs] at h2
    omega
  · unfold record_range at hc
    rw [hr2, hisz] at hc
    omega

/-! ## The claims -/

/-- C4: the claim fails on the code.  Every logical block index from
`12 + P + P*P + P` on, which includes all but the first `P` indices of the
triple-indirect range `12 + P + P*P .. 12 + P + P*P + P*P*P - 1`, is rejected as
too high: `set_block_number` returns `E_BADBLOCK` and changes nothing, and
`get_block_number` returns 0. -/
theorem triple_indirect_index_rejected (fs : ext2_fs_t) (inode : Buf)
    (inode_no iblock rblock : Nat)
    (hlo : 12 + fs.pointers_per_block + fs.pointers_per_block * fs.pointers_per_block
      + fs.pointers_per_block ≤ iblock)
    (hno : 12 + fs.pointers_per_block + fs.pointers_per_block * fs.pointers_per_block
      + fs.pointers_per_block < 4294967296) :
    set_block_number fs inode inode_no iblock rblock = some (E_BADBLOCK, fs, inode) ∧
    get_block_number fs inode iblock = 0 :=
  ⟨set_block_number_beyond fs inode inode_no iblock rblock hlo hno,
    get_block_number_beyond fs inode iblock hlo hno⟩

/-- Witness for C4: with 256 pointers per block, index 66060 lies inside the
triple-indirect range and is rejected. -/
theorem triple_indirect_index_rejected_witness :
    (12 + 256 + 256 * 256 ≤ 66060 ∧ 66060 ≤ 12 + 256 + 256 * 256 + 256 * 256 * 256 - 1) ∧
    set_block_number triple_fs triple_inode 12 66060 500
      = some (E_BADBLOCK, triple_fs, triple_inode) ∧
    get_block_number triple_fs triple_inode 66060 = 0 :=
  ⟨by decide, triple_indirect_index_rejected triple_fs triple_inode 12 66060 500
    (by decide) (by decide)⟩

/-- C2: the claim fails on the code.  At the first triple-indirect index
`12 + 256 + 256 * 256 = 65804`, with all three indirection levels already in
place (blocks 100, 101, 102), `set_block_number` for the real block 500 returns
`E_SUCCESS`, yet `get_block_number` on the resulting state returns 102, the
number of the third-level block itself, not 500. -/
theorem set_then_get_triple_indirect :
    (set_block_number triple_fs triple_inode 12 65804 500).map
      (fun r => (r.1, get_block_number r.2.1 r.2.2 65804)) = some (E_SUCCESS, 102) := by
  decide

/-- C1: the claim fails on the code.  On a filesystem with 1024-byte blocks, for
a file that covers logical block 66060 (inside the triple-indirect range), a
write of 4 bytes at the start of that block returns 4 and leaves the whole
state, device included, as it was; the following read returns 4 and hands back
the bytes of its uninitialised scratch buffer, whatever was written. -/
theorem write_then_read_triple_indirect (fuel : Nat) (fs : ext2_fs_t) (ino : Nat)
    (buffer out : Buf)
    (hbs : fs.block_size = 1024) (hp : fs.pointers_per_block = 256)
    (hrw : fs.flags &&& EXT2_FLAG_READWRITE ≠ 0)
    (hsize : 67645444 ≤ inode_size_field (read_inode fs ino))
    (hblocks : 132122 ≤ inode_blocks (read_inode fs ino)) :
    write_ext2 (fuel + 1) fs ino 67645440 4 buffer = some (4, fs) ∧
    (read_ext2 fs ino 67645440 4 out).1 = 4 ∧
    ∀ k, k < 4 → (read_ext2 fs ino 67645440 4 out).2 k = fs.malloc_junk k := by
  have hg : get_block_number fs (read_inode fs ino) 66060 = 0 :=
    get_block_number_beyond fs (read_inode fs ino) 66060 (by rw [hp]) (by rw [hp]; decide)
  have hb : ¬ (66060 ≥ inode_blocks (read_inode fs ino) / 2) := by omega
  have hread : read_ext2 fs ino 67645440 4 out = (4, memcpy out 0 fs.malloc_junk 0 4) := by
    unfold read_ext2
    simp only [u32, sub32, u64, hbs]
    have h0 : inode_size_field (read_inode fs ino) ≠ 0 := by omega
    have h1 : ¬ ((67645440 + 4) % 18446744073709551616
        > inode_size_field (read_inode fs ino)) := by omega
    simp only [h0, h1, if_false]
    norm_num
    unfold inode_read_block
    simp only [hbs]
    norm_num
    simp only [hb, if_false, hg]
    simp [read_block, u32]
  refine ⟨?_, ?_, ?_⟩
  · unfold write_ext2 write_inode_buffer
    simp only [hrw, if_false, u32, sub32, hbs]
    have h1 : ¬ ((67645440 + 4) % 4294967296 > inode_size_field (read_inode fs ino)) := by
      omega
    simp only [h1, if_false]
    norm_num
    unfold inode_write_block inode_write_block_loop
    simp only [hbs]
    norm_num
    simp only [hb, if_false, hg]
    simp [write_block, u32]
  · rw [hread]
  · intro k hk
    rw [hread]
    simp [memcpy, hk]

/-- Witness for C1: the file of 66061 blocks held by `big_file_fs`; the bytes
written are all 65, the bytes read back are all 0. -/
theorem write_then_read_triple_indirect_witness :
    write_ext2 1 big_file_fs 12 67645440 4 (fun _ => 65) = some (4, big_file_fs) ∧
    (read_ext2 big_file_fs 12 67645440 4 (fun _ => 7)).1 = 4 ∧
    ∀ k, k < 4 → (read_ext2 big_file_fs 12 67645440 4 (fun _ => 7)).2 k
      = big_file_fs.malloc_junk k :=
  write_then_read_triple_indirect 0 big_file_fs 12 (fun _ => 65) (fun _ => 7) rfl rfl
    (by decide) (by decide) (by decide)

/-- C5: the claim fails on the code.  In the well-formed directory of
`full_dir_fs`, whose last record ends at the block boundary with its minimal
length, the name "x" is absent; `create_entry` for "x" and inode 20 returns,
and `finddir_ext2` for "x" on the resulting state still finds nothing. -/
theorem create_entry_then_finddir_full_block :
    (finddir_ext2 10 full_dir_fs 2 [120]).map (Option.map fs_node_t.inode) = some none ∧
    (create_entry 10 full_dir_fs 2 (some [120]) 20).map Prod.fst = some E_NOSPACE ∧
    ((create_entry 10 full_dir_fs 2 (some [120]) 20).bind
      (fun r => finddir_ext2 10 r.2 2 [120])).map (Option.map fs_node_t.inode) = some none := by
  decide

/-- C10: the claim fails on the code.  With inode 1 marked free and every other
inode of the only group marked used, `allocate_inode` returns inode number 1,
which is neither 0 nor greater than 10. -/
theorem allocate_inode_returns_reserved :
    (allocate_inode reserved_free_fs).map Prod.fst = some 1 := by
  decide

/-- C3: the claim fails on the code, in two ways.  For an inode whose
single-indirect pointer `block[12]` is 0, `read_block` refuses block 0 and
`get_block_number` returns what its scratch buffer held (here 0), not entry 0
of device block 0 (here 7).  And `read_block` computes the device offset
`block_no * block_size` in 32 bits: for `block[12]` = 4194364 on a device with
1024-byte blocks it reads at byte 61440, so `get_block_number` returns entry 0
of block 60 (here 5), not entry 0 of block 4194364 (here 9). -/
theorem get_block_number_not_reference :
    get_block_number unset_pointer_fs (fun _ => 0) 12
      ≠ reference_block_number unset_pointer_fs (fun _ => 0) 12 ∧
    inode_block far_pointer_inode 12 = 4194364 ∧
    get_block_number far_entry_fs far_pointer_inode 12 = 5 ∧
    reference_block_number far_entry_fs far_pointer_inode 12 = 9 := by
  decide

/-- C3, as amended: when `12 + P + P*P` fits in 32 bits, a block holds `P`
pointers, and every pointer followed is non-zero and names a block that ends
within the first 4 GiB of the device (`reference_path`), `get_block_number`
equals the reference translation on the direct, single-indirect and
double-indirect ranges: `inode.block[i]` for `i < 12`; entry `i - 12` of block
`inode.block[12]` for `12 <= i < 12 + P`; entry `(i-12-P) mod P` of the block
whose number is entry `(i-12-P) div P` of block `inode.block[13]` for
`12 + P <= i < 12 + P + P*P`, where entry `k` of block `b` is the 32-bit word
at device byte `b * block_size + 4 * k`.  (`get_block_number` contains no
write: its embedding is a function of the state and the inode record that
returns the block number only.) -/
theorem get_block_number_refines_reference (fs : ext2_fs_t) (inode : Buf) (i : Nat)
    (hP : 12 + fs.pointers_per_block + fs.pointers_per_block * fs.pointers_per_block < 4294967296)
    (h4 : 4 * fs.pointers_per_block ≤ fs.block_size)
    (hi : i < 12 + fs.pointers_per_block + fs.pointers_per_block * fs.pointers_per_block)
    (hpath : reference_path fs inode i) :
    get_block_number fs inode i = reference_block_number fs inode i :=
  get_block_number_eq_reference fs inode i hP h4 hi hpath

/-- Witness for C3: the first double-indirect index of an inode whose
double-indirect block 100 points to block 101. -/
theorem get_block_number_refines_reference_witness :
    get_block_number triple_fs double_inode 268
      = reference_block_number triple_fs double_inode 268 :=
  get_block_number_refines_reference triple_fs double_inode 268 (by decide) (by decide)
    (by decide) ⟨fun _ h => absurd h (by decide),
      fun _ => ⟨⟨by decide, by decide⟩, ⟨by decide, by decide⟩⟩⟩

set_option maxRecDepth 100000 in
/-- C7: the claim fails on the code, in two ways.  When the bitmap marks its
own block as the first free one, `allocate_block` returns that block (3) and
zero-fills it: afterwards bit 3 is clear, not set, and bit 0, set before, is
clear.  And `write_block` computes the device offset `block_no * block_size`
in 32 bits: on `far_bitmap_fs` the block handed out is 4194324, which shares
no device byte with the bitmap block 20 of its group, and the zero-fill lands
on byte 20480, in the bitmap block: afterwards bit 20 is clear, not set, and
bit 0, set before, is clear. -/
theorem allocate_block_bitmap_overwritten :
    (allocate_block self_free_bitmap_fs).map
      (fun r => (r.1, BLOCKBIT (block_bitmap self_free_bitmap_fs 0) 0,
        BLOCKBIT (block_bitmap r.2 0) 0, BLOCKBIT (block_bitmap r.2 0) 3))
      = some (3, true, false, false) ∧
    (21 * far_bitmap_fs.block_size ≤ 4194324 * far_bitmap_fs.block_size ∧
      bgd_block_bitmap far_bitmap_fs 512 = 20) ∧
    (allocate_block far_bitmap_fs).map
      (fun r => (r.1, BLOCKBIT (block_bitmap far_bitmap_fs 512) 0,
        BLOCKBIT (block_bitmap r.2 512) 0, BLOCKBIT (block_bitmap r.2 512) 20))
      = some (4194324, true, false, false) := by
  refine ⟨by decide, by decide, by decide⟩

/-- C7, as amended: when `allocate_block` succeeds (with `blocks_per_group * g`
below 2^32 for every group, as results from mounting) it returns
`k + blocks_per_group * g`, where `g` is the lowest-numbered group with
`free_blocks_count > 0` and `k` is the position of the first zero bit of the
bitmap loaded for `g`; bit `k` was clear before the call.  When the bitmap block
of `g` is clear of the other device ranges the call writes (`bitmap_block_clear`:
it has a non-zero number; it, the descriptor table blocks and the block handed
out end within the first 4 GiB of the device; and it shares no device byte
with the superblock bytes, the descriptor table blocks and the block handed
out), bit `n` of the bitmap is bit `n mod 8` of byte `n div 8` of that block,
the device byte `bitmap_block * block_size + n div 8`, before and after the
call, bit `k` is set afterwards and no other bit of that block changes. -/
theorem allocate_block_first_free_bit (fs : ext2_fs_t) (n : Nat) (fs' : ext2_fs_t)
    (h : allocate_block fs = some (n, fs')) (hn : n ≠ 0)
    (hbs : fs.block_size < 4294967296)
    (hmul : ∀ g, g < fs.block_group_count → sb_blocks_per_group fs * g < 4294967296) :
    ∃ g k, g < fs.block_group_count ∧ 0 < bgd_free_blocks_count fs g ∧
      (∀ j, j < g → bgd_free_blocks_count fs j = 0) ∧
      k < 8 * fs.block_size ∧ BLOCKBIT (block_bitmap fs g) k = false ∧
      (∀ j, j < k → BLOCKBIT (block_bitmap fs g) j = true) ∧
      n = k + sb_blocks_per_group fs * g ∧
      (bitmap_block_clear fs g n → ∀ j, j < 8 * fs.block_size →
        BLOCKBIT (block_bitmap fs g) j
          = Nat.testBit (get8 fs.block_device
              (bgd_block_bitmap fs g * fs.block_size + j / 8)) (j % 8) ∧
        BLOCKBIT (block_bitmap fs' g) j
          = Nat.testBit (get8 fs'.block_device
              (bgd_block_bitmap fs g * fs.block_size + j / 8)) (j % 8) ∧
        BLOCKBIT (block_bitmap fs' g) j = (decide (j = k) || BLOCKBIT (block_bitmap fs g) j)) := by
  obtain ⟨g, k, h1, h2, h3, h4, h5, h6, h7, h8⟩ := allocate_block_bits fs n fs' h hn hbs hmul
  refine ⟨g, k, h1, h2, h3, h4, h5, h6, h7, ?_⟩
  intro hclear j hj
  have hpos : 0 < fs.block_size := by omega
  have hst := (block_start_of_fits fs _ hclear.1.2 hpos).2
  have := h8 (bitmap_block_apart_of_clear fs g n hpos hclear) j hj
  rw [hst] at this
  exact this

/-- Witness for C7: on `triple_fs`, whose bitmap marks blocks 0..103 as used,
the call returns block 104 and afterwards bit 104 of the bitmap is set. -/
theorem allocate_block_first_free_bit_witness :
    ∃ fs', allocate_block triple_fs = some (104, fs') ∧
      BLOCKBIT (block_bitmap triple_fs 0) 104 = false ∧
      BLOCKBIT (block_bitmap fs' 0) 104 = true := by
  have h0 : (allocate_block triple_fs).map Prod.fst = some 104 := by decide
  obtain ⟨fs', hfs⟩ := map_fst_eq_some h0
  obtain ⟨g, k, hg, -, -, -, -, -, hn, hbits⟩ :=
    allocate_block_first_free_bit triple_fs 104 fs' hfs (by decide) (by decide) (by decide)
  have hg0 : g = 0 := by
    have : triple_fs.block_group_count = 1 := rfl
    omega
  subst hg0
  have hk : k = 104 := by omega
  subst hk
  have hap : bitmap_block_clear triple_fs 0 104 := by
    have e3 : bgd_block_bitmap triple_fs 0 = 3 := by decide
    have hbs : triple_fs.block_size = 1024 := rfl
    have hsp : triple_fs.bgd_block_span = 1 := rfl
    have hoff : triple_fs.bgd_offset = 2 := rfl
    unfold bitmap_block_clear block_reachable block_bytes
    rw [e3, hbs, hsp, hoff]
    refine ⟨⟨by decide, by decide⟩, by decide, fun j hj => by omega, ?_⟩
    intro a ha
    refine ⟨by omega, by omega, fun j hj => by omega⟩
  refine ⟨fs', hfs, by decide, ?_⟩
  rw [(hbits hap 104 (by decide)).2.2]
  simp

/-- C8: the claim fails on the code.  With an all-zero bitmap, group 0 has free
blocks and a zero bit, yet `allocate_block` returns 0: the first zero bit is bit
0 of group 0, and the block number computed for it is 0. -/
theorem allocate_block_zero_with_free_group :
    0 < bgd_free_blocks_count block_zero_free_fs 0 ∧
    BLOCKBIT (block_bitmap block_zero_free_fs 0) 0 = false ∧
    (allocate_block block_zero_free_fs).map Prod.fst = some 0 := by
  decide

/-- C8, as amended: in every state in which each group with
`free_blocks_count > 0` has a zero bit in its block bitmap, `allocate_block`
returns, and it returns 0 if and only if no group has `free_blocks_count > 0`
or the lowest-numbered group `g` with `free_blocks_count > 0` has bit 0 of its
bitmap clear and `blocks_per_group * g` is 0 modulo 2^32 (the block number
computed is then 0); whenever it returns 0 the whole state is unchanged. -/
theorem allocate_block_zero_iff (fs : ext2_fs_t)
    (hbs : fs.block_size < 4294967296)
    (hcons : ∀ g, g < fs.block_group_count → 0 < bgd_free_blocks_count fs g →
      ∃ k, k < 8 * fs.block_size ∧ BLOCKBIT (block_bitmap fs g) k = false) :
    ∃ r, allocate_block fs = some r ∧
      (r.1 = 0 ↔ ((∀ g, g < fs.block_group_count → bgd_free_blocks_count fs g = 0) ∨
        ∃ g, g < fs.block_group_count ∧ 0 < bgd_free_blocks_count fs g ∧
          (∀ j, j < g → bgd_free_blocks_count fs j = 0) ∧
          BLOCKBIT (block_bitmap fs g) 0 = false ∧
          (sb_blocks_per_group fs * g) % 4294967296 = 0)) ∧
      (r.1 = 0 → r.2 = fs) := by
  obtain ⟨r, hr⟩ := allocate_block_isSome fs hcons
  refine ⟨r, hr, ?_, ?_⟩
  · rcases allocate_block_spec fs r hr with ⟨h1, h2⟩ | ⟨g, k, h1, h2, h3, h4, h5, h6, -⟩
    · rw [h1]
      refine ⟨fun _ => ?_, fun _ => rfl⟩
      rcases h2 with h2 | ⟨g, k, h1, h2, h3, h4, h5⟩
      · exact Or.inl h2
      · right
        have hk := scan_free_bit_some _ _ _ _ h4
        have hlt : k + u32 (sb_blocks_per_group fs * g) < 18446744073709551616 := by
          have : u32 (sb_blocks_per_group fs * g) < 4294967296 := Nat.mod_lt _ (by decide)
          omega
        unfold u64 at h5
        rw [Nat.mod_eq_of_lt hlt] at h5
        have hk0 : k = 0 := by omega
        have hu0 : u32 (sb_blocks_per_group fs * g) = 0 := by omega
        subst hk0
        exact ⟨g, h1, h2, h3, hk.2.2.1, hu0⟩
    · refine ⟨fun hz => absurd hz h6, fun hrhs => ?_⟩
      exfalso
      rcases hrhs with hall | ⟨g', hg1, hg2, hg3, hg4, hg5⟩
      · have := hall g h1; omega
      · have hgg : g' = g := by
          rcases Nat.lt_trichotomy g' g with hlt | heq | hgt
          · have := h3 g' hlt; omega
          · exact heq
          · have := hg3 g hgt; omega
        subst hgg
        have hk := scan_free_bit_some _ _ _ _ h4
        have hk0 : k = 0 := by
          rcases Nat.eq_zero_or_pos k with hk0 | hkpos
          · exact hk0
          · have := hk.2.2.2 0 (le_refl _) hkpos
            rw [hg4] at this
            exact absurd this (by decide)
        apply h6
        rw [h5, hk0]
        unfold u32
        rw [hg5]
        rfl
  · intro hz
    rcases allocate_block_spec fs r hr with ⟨h1, -⟩ | ⟨g, k, -, -, -, -, -, h6, -⟩
    · rw [h1]
    · exact absurd hz h6

/-- Witness for C8: `triple_fs`, whose only group has free blocks and bit 104 clear. -/
theorem allocate_block_zero_iff_witness :
    ∃ r, allocate_block triple_fs = some r ∧
      (r.1 = 0 ↔ ((∀ g, g < triple_fs.block_group_count →
          bgd_free_blocks_count triple_fs g = 0) ∨
        ∃ g, g < triple_fs.block_group_count ∧ 0 < bgd_free_blocks_count triple_fs g ∧
          (∀ j, j < g → bgd_free_blocks_count triple_fs j = 0) ∧
          BLOCKBIT (block_bitmap triple_fs g) 0 = false ∧
          (sb_blocks_per_group triple_fs * g) % 4294967296 = 0)) ∧
      (r.1 = 0 → r.2 = triple_fs) :=
  allocate_block_zero_iff triple_fs (by decide) (by
    intro g hg _
    have hg0 : g = 0 := by
      have : triple_fs.block_group_count = 1 := rfl
      omega
    subst hg0
    exact ⟨104, by decide, by decide⟩)

/-- C9: the claim fails on the code.  In `small_groups_fs` the group counters
add up to the superblock counter (1 = 1).  `allocate_inode` returns the
reserved inode 9 of group 1 and decrements the counter of group 0, which wraps
from 0 to 65535: afterwards the groups add up to 65536 and the superblock
counts 0. -/
theorem allocate_inode_breaks_free_count :
    total_free_inodes small_groups_fs = sb_free_inodes_count small_groups_fs ∧
    (allocate_inode small_groups_fs).map
      (fun r => (r.1, bgd_free_inodes_count r.2 0, bgd_free_inodes_count r.2 1,
        total_free_inodes r.2, sb_free_inodes_count r.2))
      = some (9, 65535, 1, 65536, 0) := by
  decide

set_option maxRecDepth 100000 in
/-- C6: the claim fails on the code.  The directory of `big_dir_fs` is
well-formed (257 mapped blocks, one record per block) and the name "z" occurs
in it as a live entry exactly once, in block 256.  The scan of `unlink_ext2`
runs to `inode->size` but counts the blocks in a `uint8_t`: `block_nr++` wraps
from 255 to 0, block 0 is read again in place of block 256, and the call
returns `-ENOENT` instead of 0. -/
theorem unlink_big_directory :
    inode_size_field (read_inode big_dir_fs 2) = 257 * big_dir_fs.block_size ∧
    (List.range 257).all (fun k =>
      decide (k < inode_blocks (read_inode big_dir_fs 2) / (big_dir_fs.block_size / 512) ∧
        get_block_number big_dir_fs (read_inode big_dir_fs 2) k ≠ 0)) = true ∧
    dir_chain (file_view big_dir_fs (read_inode big_dir_fs 2)) 1024 263168 263169 0
      = some ((List.range 257).map (fun k => 1024 * k)) ∧
    ((List.range 257).map (fun k => 1024 * k)).filter
      (live_named (file_view big_dir_fs (read_inode big_dir_fs 2)) [122]) = [262144] ∧
    (unlink_ext2 300 big_dir_fs 2 [122]).map Prod.fst = some (-ENOENT) := by
  decide

/-- Where the block counter of the scan does not wrap: on a read-write mount,
for every well-formed directory of at most 256 blocks with its records at the
offsets `l` and fuel for one loop iteration per record: if `name` occurs as a
live entry exactly once, the
directory's storage is laid out consistently and the inode record of the entry
lies apart from it, then `unlink_ext2` returns 0 and a following `finddir_ext2`
returns NULL; if `name` is not present, `unlink_ext2` returns `-ENOENT` and
leaves the whole state, device included, unchanged. -/
theorem unlink_then_finddir (fuel : Nat) (fs : ext2_fs_t) (ino : Nat) (name : List Nat)
    (s : Nat) (l : List Nat)
    (hrw : fs.flags &&& EXT2_FLAG_READWRITE ≠ 0)
    (hwf : dir_well_formed fs ino l) (hfuel : l.length < fuel) :
    (∀ p, l.filter (live_named (file_view fs (read_inode fs ino)) name) = [p] →
      dir_layout fs ino s →
      inode_apart_from_dir fs ino s (dirent_inode (file_view fs (read_inode fs ino)) p) →
      ∃ fs', unlink_ext2 fuel fs ino name = some (0, fs') ∧
        finddir_ext2 fuel fs' ino name = some none) ∧
    (l.filter (live_named (file_view fs (read_inode fs ino)) name) = [] →
      unlink_ext2 fuel fs ino name = some (-ENOENT, fs)) := by
  constructor
  · intro p hone hlay hap
    have hfind : l.find? (live_named (file_view fs (read_inode fs ino)) name) = some p := by
      rw [find?_eq_head?_filter, hone]; rfl
    obtain ⟨dev2, hun, hdev2⟩ := unlink_ext2_found fuel fs ino name _ l p hrw hwf.1 hwf.2.2.1
      hwf.2.2.2.1 hwf.2.2.2.2 hfind hfuel
    exact ⟨_, hun, finddir_after_zero fuel fs ino name s l p dev2 hwf hlay hfuel hone hap hdev2⟩
  · intro hnone
    have hfind : l.find? (live_named (file_view fs (read_inode fs ino)) name) = none := by
      rw [find?_eq_head?_filter, hnone]; rfl
    obtain ⟨hbs, -, h256, hmap, hchain⟩ := hwf
    obtain ⟨res, hres, hmatch⟩ := lookup_loop_refines fs (read_inode fs ino) name hbs h256 hmap
      _ 0 l hchain fuel 0 0 (inode_read_block fs (read_inode fs ino) 0 fs.malloc_junk).2 hfuel
      (scan_at_start fs _ _ hmap)
    rw [hfind] at hmatch
    dsimp only at hmatch
    unfold unlink_ext2
    rw [if_neg hrw]
    dsimp only
    rw [hres, hmatch]

/-- An instance of `unlink_then_finddir`: unlinking "x" in the directory of
`listed_dir_fs`. -/
theorem unlink_then_finddir_witness :
    ∃ fs', unlink_ext2 10 listed_dir_fs 2 [120] = some (0, fs') ∧
      finddir_ext2 10 fs' 2 [120] = some none := by
  have hsize : inode_size_field (read_inode listed_dir_fs 2) = 1024 := by decide
  have hwf : dir_well_formed listed_dir_fs 2 [0, 12, 24] := by
    refine ⟨by decide, by decide, by decide, ?_, by decide⟩
    intro k hk
    rw [hsize] at hk
    have hbs : listed_dir_fs.block_size = 1024 := rfl
    rw [hbs] at hk
    have hk0 : k = 0 := by omega
    subst hk0
    decide
  have hlay : dir_layout listed_dir_fs 2 5248 := by
    refine ⟨by decide, by decide, by decide, by decide, ?_, ?_⟩
    · intro x y hx hy h
      rw [hsize] at hx hy
      rw [listed_dir_addr x hx, listed_dir_addr y hy] at h
      omega
    · intro x hx
      rw [hsize] at hx
      rw [listed_dir_addr x hx]
      have hisz : listed_dir_fs.inode_size = 128 := rfl
      rw [hisz]
      refine ⟨by omega, ?_⟩
      rintro ⟨h0, -, -⟩
      exact h0 (by decide)
  have hap : inode_apart_from_dir listed_dir_fs 2 5248
      (dirent_inode (file_view listed_dir_fs (read_inode listed_dir_fs 2)) 24) := by
    have hn : dirent_inode (file_view listed_dir_fs (read_inode listed_dir_fs 2)) 24 = 20 := by
      decide
    rw [hn]
    intro a ha
    obtain ⟨-, -, ⟨-, h1, h2⟩, h3, h4⟩ := ha
    have eT : write_inode_block listed_dir_fs 20 = 7 := by decide
    have eo : write_inode_offset listed_dir_fs 20 = 384 := by decide
    have es : block_start listed_dir_fs 7 = 7168 := by decide
    have hbs : listed_dir_fs.block_size = 1024 := rfl
    have hisz : listed_dir_fs.inode_size = 128 := rfl
    rw [eT, es] at h1 h2 h3 h4
    rw [eo] at h3 h4
    rw [hbs] at h2
    rw [hisz] at h4 ⊢
    refine ⟨by omega, ?_, ?_⟩
    · rintro ⟨h0, -, -⟩
      exact h0 (by decide)
    · intro x hx
      rw [hsize] at hx
      rw [listed_dir_addr x hx]
      omega
  exact (unlink_then_finddir 10 listed_dir_fs 2 [120] 5248 [0, 12, 24] (by decide) hwf
    (by decide)).1 24 (by decide) hlay hap

/-- C11: the claim fails on the code.  On `small_groups_fs` (two groups of 8
inodes; group 0 full; group 1 counts one free inode and its bitmap marks only
the reserved inode 9 as free) two calls of `allocate_inode` in a row both
return 9: the number is left over from the skipped reserved inode, and bit 0
of the inode bitmap of group 1, the bit of inode 9, is clear before the first
call, after it and after the second call. -/
theorem allocate_inode_twice_same_number :
    (allocate_inode small_groups_fs).bind (fun r =>
      (allocate_inode r.2).map (fun r2 =>
        (r.1, r2.1, BLOCKBIT (inode_bitmap small_groups_fs 1) 0,
          BLOCKBIT (inode_bitmap r.2 1) 0, BLOCKBIT (inode_bitmap r2.2 1) 0)))
      = some (9, 9, false, false, false) := by
  decide

/-- C13: the claim fails on the code.  For an inode number whose group index
`(n - 1) / inodes_per_group` equals `block_group_count`, the first index that
is not a valid group, the guard `group > BGDS` of `write_inode` does not fire
and the call returns `E_SUCCESS`. -/
theorem write_inode_accepts_group_count (fs : ext2_fs_t) (inode : Buf) (n : Nat) (hn : n ≠ 0)
    (hg : (n - 1) / fs.inodes_per_group = fs.block_group_count) :
    (write_inode fs inode n).1 = E_SUCCESS := by
  unfold write_inode
  rw [if_neg hn]
  dsimp only
  rw [hg, if_neg (lt_irrefl _)]

/-- C13, at a concrete input: `reserved_free_fs` has one group of 16 inodes, so
inode number 25 has group index 1 = `block_group_count`.  `write_inode`
returns `E_SUCCESS` and stores the record at device byte 1024, the start of the
on-disk superblock, and `refresh_inode` overwrites the caller's record. -/
theorem write_inode_accepts_group_count_witness :
    (25 - 1) / reserved_free_fs.inodes_per_group = reserved_free_fs.block_group_count ∧
    (write_inode reserved_free_fs (fun _ => 170) 25).1 = E_SUCCESS ∧
    reserved_free_fs.block_device 1024 = 0 ∧
    (write_inode reserved_free_fs (fun _ => 170) 25).2.block_device 1024 = 170 ∧
    refresh_inode reserved_free_fs (fun _ => 7) 25 0 = 0 :=
  ⟨by decide,
    write_inode_accepts_group_count reserved_free_fs (fun _ => 170) 25 (by decide) (by decide),
    by decide, by decide, by decide⟩

/-- C17: the claim fails on the code.  In the listing scenario the entries at
indices 0..3 of the fresh directory are not "a", "b", "c" and NULL. -/
theorem listing_not_only_created_names :
    ¬ (listing_scenario.map (fun r =>
        (List.range 4).map (fun i =>
          (readdir_ext2 10 r.2 r.1 i).map (Option.map dirent.d_name)))
      = some [some (some [97]), some (some [98]), some (some [99]), some none]) := by
  decide

/-- C17, as amended: on a read-write mount with blocks of at most 64 KiB and a
free block ready, in a parent directory that is ready and holds a record (its
inode addressable with the directory mode, well-formed, its storage in use on
a consistent volume), `mkdir_ext2` of a name that is not present, with
`allocate_inode` handing out an addressable inode `d` whose record is in use
and apart from the parent, returns 0 and makes the fresh directory `d`; when
each of the following calls `create_ext2(d, "a")`, `create_ext2(d, "b")`,
`create_ext2(d, "c")` gets from `allocate_inode` an addressable inode with the
storage of `d` apart from the inode bitmaps and from the record of that inode
(`inode_supply`), the three calls return 0, `readdir_ext2(d, 0)` and
`readdir_ext2(d, 1)` return the entries "." (`d` itself) and ".." (the
parent) that `mkdir_ext2` stored, `readdir_ext2(d, 2)`, `readdir_ext2(d, 3)`
and `readdir_ext2(d, 4)` return the entries named "a", "b" and "c" in that
order, and `readdir_ext2(d, 5)` returns NULL.  Where `create_entry` takes a
new block for the parent (its last record is longer than its name needs and
the new record does not fit behind it), the name of `d` has fewer than 256
bytes, the parent fewer than 256 blocks, the block size is below 65536 and
three blocks can be handed out. -/
theorem listing_of_fresh_directory (fuel : Nat) (amb : ambient_t) (fs : ext2_fs_t) (P : Nat → Prop)
    (parent : Nat) (l : List Nat) (dname : List Nat) (d permission pa pb pc na nb nc : Nat)
    (hrw : fs.flags &&& EXT2_FLAG_READWRITE ≠ 0)
    (habsent : finddir_ext2 fuel fs parent dname = some none)
    (halloc : (allocate_inode fs).map Prod.fst = some d) (hd : inode_addressable fs d)
    (hready : dir_ready fs P parent l) (hne : l ≠ [])
    (hfuel : l.length < fuel) (hfuel6 : 6 ≤ fuel)
    (hbs64 : fs.block_size ≤ 65536)
    (hfree : free_blocks_ready fs 1)
    (hgrow : ∀ q, l.getLast? = some q →
      dirent_rec_len (file_view fs (read_inode fs parent)) q
        ≠ min_rec_len (dirent_name_len (file_view fs (read_inode fs parent)) q) →
      fs.block_size ≤ q % fs.block_size
        + min_rec_len (dirent_name_len (file_view fs (read_inode fs parent)) q)
        + min_rec_len (strlen dname) →
      strlen dname < 256 ∧ inode_size_field (read_inode fs parent) < 256 * fs.block_size ∧
      fs.block_size < 65536 ∧ free_blocks_ready fs 3)
    (hrec : ∀ a, record_range fs d a →
      P a ∧ ¬ dir_storage fs parent (inode_record_addr fs parent) a)
    (hibm : ∀ a, inode_bitmap_range fs a → ¬ P a ∧ ¬ block_bitmap_range fs a)
    (ha : ∀ fs1, mkdir_ext2 fuel amb fs parent (some dname) permission = some (0, fs1) →
      inode_supply fs1 d na)
    (hb : ∀ fs1 fs2, mkdir_ext2 fuel amb fs parent (some dname) permission = some (0, fs1) →
      create_ext2 fuel amb fs1 d (some [97]) pa = some (0, fs2) → inode_supply fs2 d nb)
    (hc : ∀ fs1 fs2 fs3, mkdir_ext2 fuel amb fs parent (some dname) permission = some (0, fs1) →
      create_ext2 fuel amb fs1 d (some [97]) pa = some (0, fs2) →
      create_ext2 fuel amb fs2 d (some [98]) pb = some (0, fs3) → inode_supply fs3 d nc) :
    ∃ fs1 fs2 fs3 fs4,
      mkdir_ext2 fuel amb fs parent (some dname) permission = some (0, fs1) ∧
      create_ext2 fuel amb fs1 d (some [97]) pa = some (0, fs2) ∧
      create_ext2 fuel amb fs2 d (some [98]) pb = some (0, fs3) ∧
      create_ext2 fuel amb fs3 d (some [99]) pc = some (0, fs4) ∧
      readdir_ext2 fuel fs4 d 0 = some (some ⟨d, [46]⟩) ∧
      readdir_ext2 fuel fs4 d 1 = some (some ⟨parent, [46, 46]⟩) ∧
      readdir_ext2 fuel fs4 d 2 = some (some ⟨na, [97]⟩) ∧
      readdir_ext2 fuel fs4 d 3 = some (some ⟨nb, [98]⟩) ∧
      readdir_ext2 fuel fs4 d 4 = some (some ⟨nc, [99]⟩) ∧
      readdir_ext2 fuel fs4 d 5 = some none := by
  obtain ⟨fs1, hmk, hgeo1, hwf1, hal1, hlay1, hmode1, hsize1, ⟨i0, n0, i12, r12, n12⟩, hmeta1⟩ :=
    mkdir_new_dir fuel amb fs P parent l dname d permission hrw habsent halloc hd hready hne
      hfuel (by omega) hbs64 hfree hgrow hrec hibm
  have hbs512 : 512 ≤ fs1.block_size :=
    block_size_of_mapped fs1 _ hwf1.2.2.2.1 (by rw [hsize1]; exact hready.2.2.2.1.1)
  have hdir1 : dir_usable fs1 d [0, 12] := ⟨by rw [hmode1]; exact dir_mode_bit _, hwf1, hal1, hlay1⟩
  have hnl12 : dirent_name_len (file_view fs1 (read_inode fs1 d)) 12 = 2 := by
    have := congrArg List.length n12
    unfold dirent_name at this
    simpa using this
  obtain ⟨hdm, hd0⟩ := inode_number_mod fs d hd
  obtain ⟨hpm, hp0⟩ := inode_number_mod fs parent hready.1
  rw [hdm] at i0
  rw [hpm] at i12
  rw [← hgeo1.bs] at r12
  have hm1 : min_rec_len 1 = 12 := rfl
  have hm2 : min_rec_len 2 = 12 := rfl
  have hsa : strlen [97] = 1 := by decide
  have hsb : strlen [98] = 1 := by decide
  have hsc : strlen [99] = 1 := by decide
  have hes1 : [0, 12].map (dirent_entry (file_view fs1 (read_inode fs1 d)))
      = [⟨d, [46]⟩, ⟨parent, [46, 46]⟩] := by
    simp only [List.map_cons, List.map_nil, dirent_entry, i0, n0, i12, n12]
  have hrw1 : fs1.flags &&& EXT2_FLAG_READWRITE ≠ 0 := by rw [hgeo1.flg]; exact hrw
  -- the first file
  have hsup1 := ha fs1 hmk
  obtain ⟨hnam, hna0⟩ := inode_number_mod fs1 na hsup1.2.1
  obtain ⟨fs2, hca, hgeo2, hdir2, hnl2, hrl2, hes2, hmeta2⟩ :=
    create_ext2_append fuel amb fs1 d [0, 12] 12 2 [97] na pa _ hrw1 hdir1 rfl hnl12 r12 hes1
      (by
        intro e he
        simp only [List.mem_cons, List.mem_singleton, List.not_mem_nil, or_false] at he
        rcases he with rfl | rfl <;> dsimp only <;> decide)
      (by simp only [List.length_cons, List.length_nil]; omega) (by rw [hsa]; omega)
      (by rw [hsa, hm1, hm2]; omega) hsup1 hmeta1
  rw [hm2, hnam] at hes2
  rw [hm2] at hdir2 hnl2 hrl2
  rw [hgeo2.bs.symm] at hrl2
  simp only [List.cons_append, List.nil_append, Nat.reduceAdd] at hdir2 hes2 hnl2 hrl2
  have hrw2 : fs2.flags &&& EXT2_FLAG_READWRITE ≠ 0 := by rw [hgeo2.flg]; exact hrw1
  have hbs2 : 512 ≤ fs2.block_size := by rw [hgeo2.bs]; exact hbs512
  -- the second file
  have hsup2 := hb fs1 fs2 hmk hca
  obtain ⟨hnbm, hnb0⟩ := inode_number_mod fs2 nb hsup2.2.1
  obtain ⟨fs3, hcb, hgeo3, hdir3, hnl3, hrl3, hes3, hmeta3⟩ :=
    create_ext2_append fuel amb fs2 d [0, 12, 24] 24 (strlen [97]) [98] nb pb _ hrw2 hdir2 rfl
      hnl2 hrl2 hes2
      (by
        intro e he
        simp only [List.mem_cons, List.mem_singleton, List.not_mem_nil, or_false] at he
        rcases he with rfl | rfl | rfl <;> dsimp only <;> decide)
      (by simp only [List.length_cons, List.length_nil]; omega) (by rw [hsb]; omega)
      (by rw [hsa, hsb, hm1]; omega) hsup2 hmeta2
  rw [hsa, hm1, hnbm] at hes3
  rw [hsa, hm1] at hdir3 hnl3 hrl3
  rw [hgeo3.bs.symm] at hrl3
  simp only [List.cons_append, List.nil_append, Nat.reduceAdd] at hdir3 hes3 hnl3 hrl3
  have hrw3 : fs3.flags &&& EXT2_FLAG_READWRITE ≠ 0 := by rw [hgeo3.flg]; exact hrw2
  have hbs3 : 512 ≤ fs3.block_size := by rw [hgeo3.bs]; exact hbs2
  -- the third file
  have hsup3 := hc fs1 fs2 fs3 hmk hca hcb
  obtain ⟨hncm, hnc0⟩ := inode_number_mod fs3 nc hsup3.2.1
  obtain ⟨fs4, hcc, hgeo4, hdir4, hnl4, hrl4, hes4, hmeta4⟩ :=
    create_ext2_append fuel amb fs3 d [0, 12, 24, 36] 36 (strlen [98]) [99] nc pc _ hrw3 hdir3
      rfl hnl3 hrl3 hes3
      (by
        intro e he
        simp only [List.mem_cons, List.mem_singleton, List.not_mem_nil, or_false] at he
        rcases he with rfl | rfl | rfl | rfl <;> dsimp only <;> decide)
      (by simp only [List.length_cons, List.length_nil]; omega) (by rw [hsc]; omega)
      (by rw [hsb, hsc, hm1]; omega) hsup3 hmeta3
  rw [hsb, hm1, hncm] at hes4
  rw [hsb, hm1] at hdir4
  simp only [List.cons_append, List.nil_append, Nat.reduceAdd] at hdir4 hes4
  have hca97 : c_str [97] = [97] := by decide
  have hcb98 : c_str [98] = [98] := by decide
  have hcc99 : c_str [99] = [99] := by decide
  rw [hca97, hcb98, hcc99] at hes4
  -- the listing
  have hlist : ∀ i, i < 4294967296 → readdir_ext2 fuel fs4 d i
      = some ([⟨d, [46]⟩, ⟨parent, [46, 46]⟩, ⟨na, [97]⟩, ⟨nb, [98]⟩, ⟨nc, [99]⟩] : List dirent)[i]? :=
    fun i hi => readdir_ext2_entries fuel fs4 d i _ _ hdir4.2.1
      (by simp only [List.length_cons, List.length_nil]; omega) hi hes4
      (by
        intro e he
        simp only [List.mem_cons, List.mem_singleton, List.not_mem_nil, or_false] at he
        rcases he with rfl | rfl | rfl | rfl | rfl <;> assumption)
  refine ⟨fs1, fs2, fs3, fs4, hmk, hca, hcb, hcc, ?_, ?_, ?_, ?_, ?_, ?_⟩
  · rw [hlist 0 (by omega)]; rfl
  · rw [hlist 1 (by omega)]; rfl
  · rw [hlist 2 (by omega)]; rfl
  · rw [hlist 3 (by omega)]; rfl
  · rw [hlist 4 (by omega)]; rfl
  · rw [hlist 5 (by omega)]; rfl

/-- C17, at a concrete input: on `fresh_fs`, `mkdir_ext2` of "d" in the root
directory makes the directory with inode 11, the three files get the inodes
12, 13 and 14, and `readdir_ext2` lists ".", "..", "a", "b", "c" and then
nothing. -/
theorem listing_of_fresh_directory_witness :
    ∃ fs1 fs2 fs3 fs4,
      mkdir_ext2 10 example_ambient fresh_fs 2 (some [100]) 0x1ED = some (0, fs1) ∧
      create_ext2 10 example_ambient fs1 11 (some [97]) 0x1A4 = some (0, fs2) ∧
      create_ext2 10 example_ambient fs2 11 (some [98]) 0x1A4 = some (0, fs3) ∧
      create_ext2 10 example_ambient fs3 11 (some [99]) 0x1A4 = some (0, fs4) ∧
      readdir_ext2 10 fs4 11 0 = some (some ⟨11, [46]⟩) ∧
      readdir_ext2 10 fs4 11 1 = some (some ⟨2, [46, 46]⟩) ∧
      readdir_ext2 10 fs4 11 2 = some (some ⟨12, [97]⟩) ∧
      readdir_ext2 10 fs4 11 3 = some (some ⟨13, [98]⟩) ∧
      readdir_ext2 10 fs4 11 4 = some (some ⟨14, [99]⟩) ∧
      readdir_ext2 10 fs4 11 5 = some none :=
  listing_of_fresh_directory 10 example_ambient fresh_fs fresh_in_use 2 [0, 12] [100] 11 0x1ED
    0x1A4 0x1A4 0x1A4 12 13 14
    (by decide) (eq_some_none_of_map _ (by decide)) (by decide)
    (by unfold inode_addressable; decide) fresh_root_ready (by decide) (by decide)
    (by decide) (by decide) (free_blocks_ready_le (by decide) fresh_free_blocks)
    (fun _ _ _ _ => ⟨by decide, by decide, by decide, fresh_free_blocks⟩)
    fresh_new_inode_apart fresh_inode_bitmap_apart listing_supply_a listing_supply_b
    listing_supply_c

/-- C20: on a filesystem whose flags lack `EXT2_FLAG_READWRITE`, each of
`write_ext2`, `truncate_ext2`, `chmod_ext2`, `unlink_ext2` and, with a
non-null name, `create_ext2`, `mkdir_ext2` and `symlink_ext2` returns `-EROFS`
and leaves the whole state (device, superblock, group descriptors) as it was,
whatever the fuel. -/
theorem read_only_mount_rejects_mutation (fuel : Nat) (amb : ambient_t) (fs : ext2_fs_t)
    (ino offset size mode : Nat) (buffer : Buf) (name target : List Nat)
    (hro : fs.flags &&& EXT2_FLAG_READWRITE = 0) :
    write_ext2 fuel fs ino offset size buffer = some (-EROFS, fs) ∧
    truncate_ext2 fs ino = (-EROFS, fs) ∧
    chmod_ext2 fs ino mode = (-EROFS, fs) ∧
    unlink_ext2 fuel fs ino name = some (-EROFS, fs) ∧
    create_ext2 fuel amb fs ino (some name) mode = some (-EROFS, fs) ∧
    mkdir_ext2 fuel amb fs ino (some name) mode = some (-EROFS, fs) ∧
    symlink_ext2 fuel amb fs ino target (some name) = some (-EROFS, fs) := by
  refine ⟨?_, ?_, ?_, ?_, ?_, ?_, ?_⟩
  · unfold write_ext2; rw [if_pos hro]
  · unfold truncate_ext2; rw [if_pos hro]
  · unfold chmod_ext2; rw [if_pos hro]
  · unfold unlink_ext2; rw [if_pos hro]
  · unfold create_ext2; dsimp only; rw [if_pos hro]
  · unfold mkdir_ext2; dsimp only; rw [if_pos hro]
  · unfold symlink_ext2; dsimp only; rw [if_pos hro]

/-- C20, at a concrete input: on the read-only `read_only_fs` a write to the
root directory's inode and a `mkdir_ext2` in the root both return `-EROFS` and
leave the state unchanged. -/
theorem read_only_mount_rejects_mutation_witness :
    read_only_fs.flags &&& EXT2_FLAG_READWRITE = 0 ∧
    write_ext2 0 read_only_fs 2 0 4 (fun _ => 65) = some (-EROFS, read_only_fs) ∧
    mkdir_ext2 0 example_ambient read_only_fs 2 (some [100]) 0x1ED
      = some (-EROFS, read_only_fs) :=
  ⟨by decide,
    (read_only_mount_rejects_mutation 0 example_ambient read_only_fs 2 0 4 0x1ED (fun _ => 65)
      [100] [116] (by decide)).1,
    (read_only_mount_rejects_mutation 0 example_ambient read_only_fs 2 0 4 0x1ED (fun _ => 65)
      [100] [116] (by decide)).2.2.2.2.2.1⟩

/-- C12: the claim fails on the code.  On `far_table_fs` inode 8193 is the
first inode of group 512, whose table starts at device byte 4294972416, where
the device holds 0xA4.  The driver computes the offset in 32 bits:
`read_inode` returns the byte 0 of device offset 5120 instead, and
`write_inode` leaves the byte at 4294972416 as it is and stores the record at
offset 5120, in the inode table of group 0. -/
theorem far_table_record_misaddressed :
    (1 ≤ 8193 ∧ 8193 ≤ far_table_fs.inodes_per_group * far_table_fs.block_group_count) ∧
    far_table_fs.inode_size ∣ far_table_fs.block_size ∧
    inode_record_addr far_table_fs 8193 = 4294972416 ∧
    far_table_fs.block_device 4294972416 = 0xA4 ∧
    read_inode far_table_fs 8193 0 = 0 ∧
    (write_inode far_table_fs (fun _ => 0x55) 8193).2.block_device 4294972416 = 0xA4 ∧
    (write_inode far_table_fs (fun _ => 0x55) 8193).2.block_device 5120 = 0x55 := by
  refine ⟨by decide, by decide, by decide, by decide, by decide, by decide, by decide⟩

/-- C12, amended: for an inode number `n` whose record can be addressed (see
`inode_addressable`: the table block of the record has a non-zero number and
lies in the first 2^32 bytes of the device), `read_inode` returns the
`inode_size` bytes at the device offset of the specification; `write_inode`
changes nothing but the device, and on the device exactly those bytes, which
become the record written; `read_inode` after `write_inode` returns that
record; and the record read for any other addressable inode number `m` is
unaffected when `m` is in the same group, or in another group whose record does
not overlap the one of `n`. -/
theorem inode_record_roundtrip (fs : ext2_fs_t) (n : Nat) (r : Buf)
    (h : inode_addressable fs n) :
    (∀ k, k < fs.inode_size → read_inode fs n k = fs.block_device (inode_record_addr fs n + k)) ∧
    (write_inode fs r n).2 = with_device fs (write_inode fs r n).2.block_device ∧
    (∀ a, (write_inode fs r n).2.block_device a
        = if inode_record_addr fs n ≤ a ∧ a < inode_record_addr fs n + fs.inode_size
          then r (a - inode_record_addr fs n) else fs.block_device a) ∧
    (∀ k, k < fs.inode_size → read_inode (write_inode fs r n).2 n k = r k) ∧
    ∀ m, inode_addressable fs m → m ≠ n →
      ((m - 1) / fs.inodes_per_group ≠ (n - 1) / fs.inodes_per_group →
        inode_record_addr fs m + fs.inode_size ≤ inode_record_addr fs n ∨
        inode_record_addr fs n + fs.inode_size ≤ inode_record_addr fs m) →
      ∀ k, k < fs.inode_size → read_inode (write_inode fs r n).2 m k = read_inode fs m k := by
  have hdev : ∀ a, (write_inode fs r n).2.block_device a
      = if inode_record_addr fs n ≤ a ∧ a < inode_record_addr fs n + fs.inode_size
        then r (a - inode_record_addr fs n) else fs.block_device a := by
    intro a
    by_cases ha : inode_record_addr fs n ≤ a ∧ a < inode_record_addr fs n + fs.inode_size
    · rw [if_pos ha]
      have hr := (inode_write_range_of_addressable fs n a h).2 ha
      rw [write_inode_device_inside fs r n a hr]
      obtain ⟨w1, w2, w3⟩ := write_inode_position fs n h
      have f9 := (addressable_facts fs n h).2.2.2.2.2.2.2.2.2.2
      rw [w1, w2, w3, f9]
      congr 1
      omega
    · rw [if_neg ha]
      exact write_inode_device_outside fs r n a
        (fun hr => ha ((inode_write_range_of_addressable fs n a h).1 hr))
  have hmeta := write_inode_meta fs r n
  have hread : ∀ m, inode_addressable fs m → ∀ k, k < fs.inode_size →
      read_inode (write_inode fs r n).2 m k
        = (write_inode fs r n).2.block_device (inode_record_addr fs m + k) := by
    intro m hm k hk
    rw [hmeta]
    exact read_inode_addressable (with_device fs (write_inode fs r n).2.block_device) m k hm hk
  refine ⟨fun k hk => read_inode_addressable fs n k h hk, hmeta, hdev, ?_, ?_⟩
  · intro k hk
    rw [hread n h k hk, hdev, if_pos ⟨by omega, by omega⟩]
    congr 1
    omega
  · intro m hm hne hgrp k hk
    rw [hread m hm k hk, hdev, read_inode_addressable fs m k hm hk]
    have hap : inode_record_addr fs m + fs.inode_size ≤ inode_record_addr fs n ∨
        inode_record_addr fs n + fs.inode_size ≤ inode_record_addr fs m := by
      by_cases hg : (m - 1) / fs.inodes_per_group = (n - 1) / fs.inodes_per_group
      · exact same_group_records_apart fs m n hm.2.2.2.2.1 h.2.2.2.2.1 hne hg
      · exact hgrp hg
    rw [if_neg (by omega)]

/-- C12, at a concrete input: inode 11 of `fresh_fs` is addressable; after a
record of bytes 7 is written for it, `read_inode` returns that record, and the
root directory's record (inode 2, in the same group) reads as before. -/
theorem inode_record_roundtrip_witness :
    inode_addressable fresh_fs 11 ∧ inode_addressable fresh_fs 2 ∧
    (∀ k, k < fresh_fs.inode_size →
      read_inode (write_inode fresh_fs (fun _ => 7) 11).2 11 k = 7) ∧
    (∀ k, k < fresh_fs.inode_size →
      read_inode (write_inode fresh_fs (fun _ => 7) 11).2 2 k = read_inode fresh_fs 2 k) := by
  have h11 : inode_addressable fresh_fs 11 := by unfold inode_addressable; decide
  have h2 : inode_addressable fresh_fs 2 := by unfold inode_addressable; decide
  exact ⟨h11, h2, (inode_record_roundtrip fresh_fs 11 (fun _ => 7) h11).2.2.2.1,
    (inode_record_roundtrip fresh_fs 11 (fun _ => 7) h11).2.2.2.2 2 h2 (by decide)
      (fun hg => absurd rfl hg)⟩

/-- C14: the claim fails on the code.  The file inode 12 of `far_file_fs` has
one byte, in its block 0, which is counted in `inode.blocks` and mapped to
block 4194364; byte 0 of that block is the device byte 4194364 * 1024, which
holds 0xAA.  `read_block` computes the device offset `block_no * block_size`
in 32 bits and reads at byte 61440: `read_ext2` of one byte at offset 0
returns 1 and delivers 0x11, the first byte of block 60. -/
theorem read_ext2_far_block :
    inode_size_field (read_inode far_file_fs 12) = 1 ∧
    0 < inode_blocks (read_inode far_file_fs 12) / (far_file_fs.block_size / 512) ∧
    get_block_number far_file_fs (read_inode far_file_fs 12) 0 = 4194364 ∧
    far_file_fs.block_device (4194364 * far_file_fs.block_size + 0) = 0xAA ∧
    (read_ext2 far_file_fs 12 0 1 (fun _ => 0)).1 = 1 ∧
    (read_ext2 far_file_fs 12 0 1 (fun _ => 0)).2 0 = 0x11 := by
  decide

/-- C14, as amended: for a file of at most `12 + P + P*P` blocks (the direct,
single-indirect and double-indirect ranges) whose blocks below its size are
all mapped (`file_mapped`: counted in `inode.blocks`, with every pointer
followed and the block number itself non-zero and within the first 4 GiB of
the device), an offset within the size and `offset + size < 2^32`, `read_ext2`
returns `min (offset + size) inode.size - offset`, and byte `k` of the
caller's buffer below that count is byte `(offset + k) mod block_size` of the
physical block `get_block_number inode ((offset + k) div block_size)`, which
is the block that the reference translation gives: the device byte
`block_no * block_size + (offset + k) mod block_size`.  The statement is the
same for a range within one block and for a range over several. -/
theorem read_ext2_returns_file_bytes (fs : ext2_fs_t) (ino offset size : Nat) (buffer : Buf)
    (hbs : 0 < fs.block_size)
    (hP : 12 + fs.pointers_per_block + fs.pointers_per_block * fs.pointers_per_block < 4294967296)
    (h4 : 4 * fs.pointers_per_block ≤ fs.block_size)
    (hsmall : inode_size_field (read_inode fs ino)
      ≤ (12 + fs.pointers_per_block + fs.pointers_per_block * fs.pointers_per_block)
        * fs.block_size)
    (hmap : file_mapped fs (read_inode fs ino) (inode_size_field (read_inode fs ino)))
    (hoff : offset ≤ inode_size_field (read_inode fs ino))
    (hsum : offset + size < 4294967296) :
    (read_ext2 fs ino offset size buffer).1
      = min (offset + size) (inode_size_field (read_inode fs ino)) - offset ∧
    ∀ k, k < min (offset + size) (inode_size_field (read_inode fs ino)) - offset →
      get_block_number fs (read_inode fs ino) ((offset + k) / fs.block_size)
        = reference_block_number fs (read_inode fs ino) ((offset + k) / fs.block_size) ∧
      (read_ext2 fs ino offset size buffer).2 k
        = fs.block_device
            (get_block_number fs (read_inode fs ino) ((offset + k) / fs.block_size)
              * fs.block_size + (offset + k) % fs.block_size) := by
  have hin : ∀ k, k * fs.block_size < inode_size_field (read_inode fs ino) →
      k < 12 + fs.pointers_per_block + fs.pointers_per_block * fs.pointers_per_block := by
    intro k hk
    exact Nat.lt_of_mul_lt_mul_right (Nat.lt_of_lt_of_le hk hsmall)
  have href : ∀ k, k * fs.block_size < inode_size_field (read_inode fs ino) →
      get_block_number fs (read_inode fs ino) k = reference_block_number fs (read_inode fs ino) k :=
    fun k hk => get_block_number_eq_reference fs _ k hP h4 (hin k hk) (hmap k hk).2.1
  have hbm : blocks_mapped fs (read_inode fs ino) (inode_size_field (read_inode fs ino)) := by
    intro k hk
    refine ⟨(hmap k hk).1, ?_⟩
    rw [href k hk]
    exact (hmap k hk).2.2.1
  obtain ⟨h1, h2, -⟩ := read_ext2_spec fs ino offset size buffer hbs hbm hoff hsum
  refine ⟨h1, ?_⟩
  intro k hk
  have hK : (offset + k) / fs.block_size * fs.block_size
      < inode_size_field (read_inode fs ino) := by
    have := Nat.div_mul_le_self (offset + k) fs.block_size
    omega
  refine ⟨href _ hK, ?_⟩
  rw [h2 k hk]
  unfold file_view file_byte_addr
  rw [href _ hK, (block_start_of_fits fs _ (hmap _ hK).2.2.2 hbs).2]

/-- C14, at a concrete input: reading the bytes 500..2499 of the 3000-byte file
of `pattern_file_fs`, a range over three blocks, returns 2000 and delivers the
file's bytes; the first and the last byte delivered are 500 mod 251 and 2499
mod 251. -/
theorem read_ext2_returns_file_bytes_witness :
    (read_ext2 pattern_file_fs 12 500 2000 (fun _ => 0)).1 = 2000 ∧
    (∀ k, k < 2000 →
      (read_ext2 pattern_file_fs 12 500 2000 (fun _ => 0)).2 k
        = pattern_file_fs.block_device
            (get_block_number pattern_file_fs (read_inode pattern_file_fs 12)
              ((500 + k) / 1024) * 1024 + (500 + k) % 1024)) ∧
    (read_ext2 pattern_file_fs 12 500 2000 (fun _ => 0)).2 0 = 249 ∧
    (read_ext2 pattern_file_fs 12 500 2000 (fun _ => 0)).2 1999 = 240 := by
  have hsize : inode_size_field (read_inode pattern_file_fs 12) = 3000 := by decide
  have hmap : file_mapped pattern_file_fs (read_inode pattern_file_fs 12)
      (inode_size_field (read_inode pattern_file_fs 12)) := by
    intro k hk
    rw [hsize] at hk
    have hbs : pattern_file_fs.block_size = 1024 := rfl
    rw [hbs] at hk
    have hk3 : k < 3 := by omega
    refine ⟨?_, ⟨fun h => by omega, fun h => ?_⟩, ?_⟩
    · interval_cases k <;> decide
    · have hp : pattern_file_fs.pointers_per_block = 256 := rfl
      rw [hp] at h
      omega
    · unfold block_reachable
      interval_cases k <;> decide
  have h := read_ext2_returns_file_bytes pattern_file_fs 12 500 2000 (fun _ => 0)
    (by decide) (by decide) (by decide) (by decide) hmap (by decide) (by decide)
  rw [hsize] at h
  exact ⟨h.1, fun k hk => (h.2 k hk).2, by decide, by decide⟩

set_option maxRecDepth 100000 in
/-- C16: the claim fails on the code.  The directory of `big_dir_fs` is
well-formed, with 257 mapped blocks of one live record each; the record at
index 256 is the one of block 256 (inode 356, name "z").  The scan of
`direntry_ext2` runs to `inode->size` but counts the blocks in a `uint8_t`:
`block_nr++` wraps from 255 to 0, and `readdir_ext2` at index 256 returns the
record of block 0 (inode 100, name "a"). -/
theorem readdir_block_counter_wraps :
    inode_size_field (read_inode big_dir_fs 2) = 257 * big_dir_fs.block_size ∧
    (List.range 257).all (fun k =>
      decide (k < inode_blocks (read_inode big_dir_fs 2) / (big_dir_fs.block_size / 512) ∧
        get_block_number big_dir_fs (read_inode big_dir_fs 2) k ≠ 0)) = true ∧
    dir_chain (file_view big_dir_fs (read_inode big_dir_fs 2)) 1024 263168 263169 0
      = some ((List.range 257).map (fun k => 1024 * k)) ∧
    (((List.range 257).map (fun k => 1024 * k)).filter
      (live_record (file_view big_dir_fs (read_inode big_dir_fs 2))))[256]? = some 262144 ∧
    dirent_inode (file_view big_dir_fs (read_inode big_dir_fs 2)) 262144 = 356 ∧
    dirent_name (file_view big_dir_fs (read_inode big_dir_fs 2)) 262144 = [122] ∧
    readdir_ext2 300 big_dir_fs 2 256 = some (some ⟨100, [97]⟩) := by
  decide

/-- Where the block counter of the scan does not wrap: for a well-formed
directory of at most 256 blocks (see `dir_well_formed`; `l` lists the offsets
of its records in on-disk order) and an index `i < 2^32`, `readdir_ext2`
returns the record at position `i` among
the records of `l` with a non-zero inode field, with that record's inode
number and name, and NULL when there is no such position; records with inode 0
are neither returned nor counted. -/
theorem readdir_ext2_nth_live (fuel : Nat) (fs : ext2_fs_t) (ino i : Nat) (l : List Nat)
    (hwf : dir_well_formed fs ino l) (hfuel : l.length < fuel) (hi : i < 4294967296) :
    readdir_ext2 fuel fs ino i
      = some (((l.filter (live_record (file_view fs (read_inode fs ino))))[i]?).map
          (fun q => { d_ino := dirent_inode (file_view fs (read_inode fs ino)) q,
                      d_name := dirent_name (file_view fs (read_inode fs ino)) q })) :=
  readdir_ext2_spec fuel fs ino i l hwf hfuel hi

/-- An instance of `readdir_ext2_nth_live`: in the directory of
`listed_dir_fs` index 2 is the entry "x" with inode 20 and index 3 is NULL. -/
theorem readdir_ext2_nth_live_witness :
    readdir_ext2 10 listed_dir_fs 2 2 = some (some ⟨20, [120]⟩) ∧
    readdir_ext2 10 listed_dir_fs 2 3 = some none := by
  have h2 := readdir_ext2_nth_live 10 listed_dir_fs 2 2 [0, 12, 24] listed_dir_well_formed
    (by decide) (by decide)
  have h3 := readdir_ext2_nth_live 10 listed_dir_fs 2 3 [0, 12, 24] listed_dir_well_formed
    (by decide) (by decide)
  refine ⟨h2.trans (by decide), h3.trans (by decide)⟩

/-- C18: the claim fails on the code.  The directory of `crossed_dir_fs` has
the records ".", ".." and "x", and "x" names inode 362, whose record the
inode table places in the directory's own block: at the directory bytes
128..255.  `unlink_ext2` of "x" returns 0 and zeroes the inode field of the
record, and then it lowers the `links_count` of inode 362 and writes that
record back: directory byte 154 changes from 1 to 0 as well. -/
theorem unlink_ext2_crossed_record :
    inode_size_field (read_inode crossed_dir_fs 2) = 1024 ∧
    dir_chain (file_view crossed_dir_fs (read_inode crossed_dir_fs 2)) 1024 1024 1025 0
      = some [0, 12, 24] ∧
    dirent_inode (file_view crossed_dir_fs (read_inode crossed_dir_fs 2)) 24 = 362 ∧
    dirent_name (file_view crossed_dir_fs (read_inode crossed_dir_fs 2)) 24 = [120] ∧
    inode_record_addr crossed_dir_fs 362 = 51328 ∧
    file_byte_addr crossed_dir_fs (read_inode crossed_dir_fs 2) 128 = 51328 ∧
    file_view crossed_dir_fs (read_inode crossed_dir_fs 2) 154 = 1 ∧
    (unlink_ext2 10 crossed_dir_fs 2 [120]).map
      (fun r => (r.1, dirent_inode (file_view r.2 (read_inode r.2 2)) 24,
        file_view r.2 (read_inode r.2 2) 154)) = some (0, 0, 0) := by
  decide

/-- C18, as amended: on a read-write mount with inode records of at least 128
bytes, in a well-formed directory with a consistent layout (see
`dir_well_formed`, `dir_layout`), when the name occurs and `p` is its first live
record, whose inode number is valid (`inode_addressable`) and whose inode
record lies apart from the storage of the directory, `unlink_ext2` returns 0
and: the in-memory state is unchanged and the device is unchanged outside the
four bytes of the inode field at `p` and the record of the target inode; the
inode record of the directory (its size with it) is unchanged; the content of
the directory changes in the four bytes of the inode field at `p` only, which
become 0, so the `rec_len` and the name at `p` are as before; the
`links_count` of the target inode is decreased by 1 when it was positive, and
the rest of its record is unchanged; and every block bitmap and inode bitmap
stored apart from those two ranges reads as before. -/
theorem unlink_ext2_frame (fuel : Nat) (fs : ext2_fs_t) (ino : Nat) (name : List Nat)
    (s : Nat) (l : List Nat) (p : Nat)
    (hrw : fs.flags &&& EXT2_FLAG_READWRITE ≠ 0)
    (hwf : dir_well_formed fs ino l) (hlay : dir_layout fs ino s) (hfuel : l.length < fuel)
    (hfind : l.find? (live_named (file_view fs (read_inode fs ino)) name) = some p)
    (hadr : inode_addressable fs (dirent_inode (file_view fs (read_inode fs ino)) p))
    (hisz : 128 ≤ fs.inode_size)
    (hap : inode_apart_from_dir fs ino s (dirent_inode (file_view fs (read_inode fs ino)) p)) :
    ∃ fs', unlink_ext2 fuel fs ino name = some (0, fs') ∧
      fs' = with_device fs fs'.block_device ∧
      (∀ a, ¬ (file_byte_addr fs (read_inode fs ino) p ≤ a ∧
            a < file_byte_addr fs (read_inode fs ino) p + 4) →
          ¬ (inode_record_addr fs (dirent_inode (file_view fs (read_inode fs ino)) p) ≤ a ∧
            a < inode_record_addr fs (dirent_inode (file_view fs (read_inode fs ino)) p)
              + fs.inode_size) →
          fs'.block_device a = fs.block_device a) ∧
      read_inode fs' ino = read_inode fs ino ∧
      (∀ x, x < inode_size_field (read_inode fs ino) →
        file_view fs' (read_inode fs' ino) x
          = if p ≤ x ∧ x < p + 4 then 0 else file_view fs (read_inode fs ino) x) ∧
      dirent_inode (file_view fs' (read_inode fs' ino)) p = 0 ∧
      dirent_rec_len (file_view fs' (read_inode fs' ino)) p
        = dirent_rec_len (file_view fs (read_inode fs ino)) p ∧
      dirent_name (file_view fs' (read_inode fs' ino)) p
        = dirent_name (file_view fs (read_inode fs ino)) p ∧
      inode_links_count (read_inode fs' (dirent_inode (file_view fs (read_inode fs ino)) p))
        = (if 0 < inode_links_count
              (read_inode fs (dirent_inode (file_view fs (read_inode fs ino)) p))
          then inode_links_count
              (read_inode fs (dirent_inode (file_view fs (read_inode fs ino)) p)) - 1
          else 0) ∧
      (∀ k, k < fs.inode_size → k ≠ 26 → k ≠ 27 →
        read_inode fs' (dirent_inode (file_view fs (read_inode fs ino)) p) k
          = read_inode fs (dirent_inode (file_view fs (read_inode fs ino)) p) k) ∧
      (∀ g, (∀ a, in_block fs (bgd_block_bitmap fs g) a →
            ¬ (file_byte_addr fs (read_inode fs ino) p ≤ a ∧
              a < file_byte_addr fs (read_inode fs ino) p + 4) ∧
            ¬ (inode_record_addr fs (dirent_inode (file_view fs (read_inode fs ino)) p) ≤ a ∧
              a < inode_record_addr fs (dirent_inode (file_view fs (read_inode fs ino)) p)
                + fs.inode_size)) →
          block_bitmap fs' g = block_bitmap fs g) ∧
      (∀ g, (∀ a, in_block fs (bgd_inode_bitmap fs g) a →
            ¬ (file_byte_addr fs (read_inode fs ino) p ≤ a ∧
              a < file_byte_addr fs (read_inode fs ino) p + 4) ∧
            ¬ (inode_record_addr fs (dirent_inode (file_view fs (read_inode fs ino)) p) ≤ a ∧
              a < inode_record_addr fs (dirent_inode (file_view fs (read_inode fs ino)) p)
                + fs.inode_size)) →
          inode_bitmap fs' g = inode_bitmap fs g) := by
  obtain ⟨dev2, hun, hout, hin⟩ := unlink_ext2_effect fuel fs ino name s l p hrw hwf hfuel hfind
    hadr hap
  have hp : p ∈ l := List.mem_of_find?_eq_some hfind
  obtain ⟨hinode, hview⟩ := dir_view_after_zero fs ino s l p _ dev2 hwf hlay hp hap hout
  obtain ⟨-, hpsize, hplen, hpfit, hpend⟩ := dir_chain_mem _ _ _ _ _ _ hwf.2.2.2.2 p hp
  generalize ht : dirent_inode (file_view fs (read_inode fs ino)) p = t at *
  have hrange := inode_write_range_of_addressable fs t
  have hslot := inode_slot_of_addressable fs t hadr
  -- the device outside the two ranges
  have hframe : ∀ a, ¬ (file_byte_addr fs (read_inode fs ino) p ≤ a ∧
        a < file_byte_addr fs (read_inode fs ino) p + 4) →
      ¬ (inode_record_addr fs t ≤ a ∧ a < inode_record_addr fs t + fs.inode_size) →
      dev2 a = fs.block_device a := by
    intro a h1 h2
    rw [hout a (fun hw => h2 ((hrange a hadr).1 hw)), if_neg h1]
  -- the record of the target inode after the call
  have hread : ∀ k, k < fs.inode_size → read_inode (with_device fs dev2) t k
      = (if inode_links_count (read_inode fs t) > 0
          then set16 (read_inode fs t) 26 (sub16 (inode_links_count (read_inode fs t)) 1)
          else read_inode fs t) k := by
    intro k hk
    rw [read_inode_of_slot _ _ _ (by rw [inode_slot_with_device]; exact hslot)]
    unfold memcpy
    simp only [with_device_junk, with_device_device, with_device_inode_size]
    rw [if_pos ⟨Nat.zero_le _, by omega⟩]
    rw [hin _ ((hrange _ hadr).2 (by omega))]
    have hk0 : inode_record_addr fs t + (k - 0) - inode_record_addr fs t = k := by omega
    rw [hk0]
  have hv' : ∀ x, x < inode_size_field (read_inode fs ino) →
      file_view (with_device fs dev2) (read_inode (with_device fs dev2) ino) x
        = if p ≤ x ∧ x < p + 4 then 0 else file_view fs (read_inode fs ino) x := by
    intro x hx; rw [hinode]; exact hview x hx
  refine ⟨with_device fs dev2, hun, rfl, hframe, hinode, hv', ?_, ?_, ?_, ?_, ?_, ?_, ?_⟩
  · unfold dirent_inode get32 get8
    rw [hv' p (by omega), hv' (p + 1) (by omega), hv' (p + 2) (by omega), hv' (p + 3) (by omega),
      if_pos (by omega), if_pos (by omega), if_pos (by omega), if_pos (by omega)]
  · unfold dirent_rec_len
    apply get16_congr
    intro k hk
    unfold get8
    rw [hv' (p + 4 + k) (by omega), if_neg (by omega)]
  · have hnl : dirent_name_len (file_view (with_device fs dev2)
        (read_inode (with_device fs dev2) ino)) p
        = dirent_name_len (file_view fs (read_inode fs ino)) p := by
      unfold dirent_name_len get8
      rw [hv' (p + 6) (by omega), if_neg (by omega)]
    unfold dirent_name
    rw [hnl]
    apply List.map_congr_left
    intro k hk
    rw [List.mem_range] at hk
    dsimp only
    unfold get8
    rw [hv' (p + 8 + k) (by omega), if_neg (by omega)]
  · have h26 := hread 26 (by omega)
    have h27 := hread 27 (by omega)
    have hlt := get16_lt (read_inode fs t) 26
    unfold inode_links_count at hlt ⊢
    by_cases hl : 0 < get16 (read_inode fs t) 26
    · rw [if_pos hl]
      have hl' : inode_links_count (read_inode fs t) > 0 := hl
      rw [if_pos hl'] at h26 h27
      have hg : get16 (read_inode (with_device fs dev2) t) 26
          = get16 (set16 (read_inode fs t) 26 (sub16 (inode_links_count (read_inode fs t)) 1))
              26 := by
        apply get16_congr
        intro k hk
        unfold get8
        have hk2 : k = 0 ∨ k = 1 := by omega
        rcases hk2 with rfl | rfl
        · rw [h26]
        · rw [h27]
      rw [hg, get16_set16_same]
      unfold sub16 u16 inode_links_count
      omega
    · rw [if_neg hl]
      have hl' : ¬ inode_links_count (read_inode fs t) > 0 := hl
      rw [if_neg hl'] at h26 h27
      have hg : get16 (read_inode (with_device fs dev2) t) 26 = get16 (read_inode fs t) 26 := by
        apply get16_congr
        intro k hk
        unfold get8
        have hk2 : k = 0 ∨ k = 1 := by omega
        rcases hk2 with rfl | rfl
        · rw [h26]
        · rw [h27]
      rw [hg]
      omega
  · intro k hk h26 h27
    rw [hread k hk]
    split
    · unfold set16 set8
      rw [if_neg (by omega), if_neg (by omega)]
    · rfl
  · intro g hg
    unfold block_bitmap
    exact read_block_congr_device fs dev2 _ _ (fun a ha => hframe a (hg a ha).1 (hg a ha).2)
  · intro g hg
    unfold inode_bitmap
    exact read_block_congr_device fs dev2 _ _ (fun a ha => hframe a (hg a ha).1 (hg a ha).2)

/-- C18, at a concrete input: unlinking "x" in the directory of `listed_dir_fs`
returns 0, leaves the record of the directory inode as it was and brings the
`links_count` of inode 20 from 1 to 0; and on `fresh_fs` a file made by
`create_ext2` and unlinked once has `links_count` 0. -/
theorem unlink_ext2_frame_witness :
    (∃ fs', unlink_ext2 10 listed_dir_fs 2 [120] = some (0, fs') ∧
      read_inode fs' 2 = read_inode listed_dir_fs 2 ∧
      inode_links_count (read_inode listed_dir_fs 20) = 1 ∧
      inode_links_count (read_inode fs' 20) = 0) ∧
    ((create_ext2 10 example_ambient fresh_fs 2 (some [97]) 0x1A4).bind
      (fun r => (unlink_ext2 10 r.2 2 [97]).map
        (fun r2 => (r.1, inode_links_count (read_inode r.2 11), r2.1,
          inode_links_count (read_inode r2.2 11))))) = some (0, 1, 0, 0) := by
  have hn : dirent_inode (file_view listed_dir_fs (read_inode listed_dir_fs 2)) 24 = 20 := by
    decide
  have hadr : inode_addressable listed_dir_fs
      (dirent_inode (file_view listed_dir_fs (read_inode listed_dir_fs 2)) 24) := by
    rw [hn]; unfold inode_addressable; decide
  have hap : inode_apart_from_dir listed_dir_fs 2 5248
      (dirent_inode (file_view listed_dir_fs (read_inode listed_dir_fs 2)) 24) := by
    rw [hn]; exact listed_dir_apart
  obtain ⟨fs', h1, -, -, h4, -, -, -, -, h9, -⟩ := unlink_ext2_frame 10 listed_dir_fs 2 [120]
    5248 [0, 12, 24] 24 (by decide) listed_dir_well_formed listed_dir_layout (by decide)
    (by decide) hadr (by decide) hap
  rw [hn] at h9
  have hl : inode_links_count (read_inode listed_dir_fs 20) = 1 := by decide
  rw [hl] at h9
  exact ⟨⟨fs', h1, h4, hl, h9⟩, by decide⟩

/-- Where the block counter of `create_entry` does not wrap: directory
well-formedness is an invariant of `create_entry`, `unlink_ext2` and
`mkdir_ext2`, and is established by `mkdir_ext2` for the new directory, for a
directory of fewer than 256 blocks on a consistent volume.
When the directory is ready (its inode is addressable and has the directory
mode, it is well-formed with all blocks mapped, and its storage is in use and
apart from the metadata, the bitmaps and the free blocks), its last record is
longer than its name needs, the block size is below 65536, the names have
fewer than 256 bytes, three blocks can be handed out, every record names the
directory itself or an inode whose record lies apart from the storage of the
directory, and `allocate_inode` hands out an addressable inode whose record is
in use and apart from the directory, then each of the three calls returns and
leaves `inode.size` an exact multiple of `block_size` and the records of every
directory block chained by `rec_len` from offset 0 exactly to the block
boundary, with every `rec_len` a multiple of 4 and at least 8 + `name_len`
rounded up to a multiple of 4; a `mkdir_ext2` of a name that is not present,
on a read-write mount, returns 0 and leaves the new directory well-formed
with the records "." and "..". -/
theorem dir_well_formed_invariant (fuel : Nat) (amb : ambient_t) (fs : ext2_fs_t)
    (P : Nat → Prop) (parent : Nat) (l : List Nat) (name uname dname : List Nat)
    (i n permission : Nat)
    (hready : dir_ready fs P parent l)
    (hslack : last_has_slack (file_view fs (read_inode fs parent)) l)
    (hfuel : l.length < fuel) (hfuel2 : 2 ≤ fuel)
    (hname : strlen name < 256) (hdname : strlen dname < 256)
    (hsmall : inode_size_field (read_inode fs parent) < 256 * fs.block_size)
    (hbs16 : fs.block_size < 65536)
    (hfree : free_blocks_ready fs 3)
    (htarget : ∀ p, p ∈ l →
      dirent_inode (file_view fs (read_inode fs parent)) p = parent ∨
      ∀ a, inode_write_range fs (dirent_inode (file_view fs (read_inode fs parent)) p) a →
        ¬ dir_storage fs parent (inode_record_addr fs parent) a)
    (halloc : (allocate_inode fs).map Prod.fst = some n) (hn : inode_addressable fs n)
    (hrec : ∀ a, record_range fs n a →
      P a ∧ ¬ dir_storage fs parent (inode_record_addr fs parent) a)
    (hibm : ∀ a, inode_bitmap_range fs a → ¬ P a ∧ ¬ block_bitmap_range fs a) :
    (∃ fs2 l2, create_entry fuel fs parent (some name) i = some (E_NOSPACE, fs2) ∧
      dir_well_formed fs2 parent l2 ∧
      rec_lens_aligned (file_view fs2 (read_inode fs2 parent)) l2) ∧
    (∃ r fs2, unlink_ext2 fuel fs parent uname = some (r, fs2) ∧
      dir_well_formed fs2 parent l ∧
      rec_lens_aligned (file_view fs2 (read_inode fs2 parent)) l) ∧
    (∃ r fs2 l2, mkdir_ext2 fuel amb fs parent (some dname) permission = some (r, fs2) ∧
      dir_well_formed fs2 parent l2 ∧
      rec_lens_aligned (file_view fs2 (read_inode fs2 parent)) l2 ∧
      (fs.flags &&& EXT2_FLAG_READWRITE ≠ 0 → finddir_ext2 fuel fs parent dname = some none →
        r = 0 ∧ dir_well_formed fs2 n [0, 12] ∧
        rec_lens_aligned (file_view fs2 (read_inode fs2 n)) [0, 12])) := by
  have hwf := hready.2.2.2.1
  have hal := hready.2.2.2.2.1
  refine ⟨?_, ?_, ?_⟩
  · obtain ⟨fs2, l2, hcall, -, hready2, -⟩ := create_entry_ready fuel fs P parent l name i 0
      hready hslack hfuel hname hsmall hbs16 (free_blocks_ready_le (by decide) hfree)
    exact ⟨fs2, l2, hcall, hready2.2.2.2.1, hready2.2.2.2.2.1⟩
  · exact unlink_keeps_well_formed fuel fs P parent l uname hready hfuel htarget
  · by_cases hrw : fs.flags &&& EXT2_FLAG_READWRITE = 0
    · refine ⟨-EROFS, fs, l, ?_, hwf, hal, fun h => absurd hrw h⟩
      unfold mkdir_ext2
      dsimp only
      rw [if_pos hrw]
    · obtain ⟨r, hr⟩ := finddir_ext2_total fuel fs parent dname l hwf hfuel
      cases r with
      | some node =>
        refine ⟨-EEXIST, fs, l, ?_, hwf, hal, fun _ h => ?_⟩
        · unfold mkdir_ext2
          dsimp only
          rw [if_neg hrw, hr]
        · rw [hr] at h
          exact absurd h (by simp)
      | none =>
        obtain ⟨fs7, l2, hcall, -, h1, h2, h3, h4⟩ := mkdir_effect fuel amb fs P parent l dname n
          permission hrw hr halloc hn hready hslack hfuel hfuel2 hdname hsmall hbs16 hfree hrec
          hibm
        exact ⟨0, fs7, l2, hcall, h1, h2, fun _ _ => ⟨rfl, h3, h4⟩⟩

set_option maxRecDepth 100000 in
set_option maxHeartbeats 40000000 in
/-- C15: the claim fails on the code.  The directory of `wrap_dir_fs` is
well-formed: 256 mapped blocks, the records chained to the end of every block,
every `rec_len` a multiple of 4 and large enough for its name.  `create_entry`
of the name "c" finds no room behind the last record, in block 255, and counts
the new block in a `uint8_t`: `block_nr++` wraps from 255 to 0, so it maps
the fresh block 360 as block 0 of the directory, in place of block 100, and
grows the size to 257 blocks.  Block 256 of the directory is not mapped, no
record starts in it (`rec_len` 0), and the records no longer chain to the end
of the directory. -/
theorem create_entry_wraps_block_counter :
    inode_size_field (read_inode wrap_dir_fs 2) = 256 * wrap_dir_fs.block_size ∧
    (List.range 256).all (fun k =>
      decide (k < inode_blocks (read_inode wrap_dir_fs 2) / (wrap_dir_fs.block_size / 512) ∧
        get_block_number wrap_dir_fs (read_inode wrap_dir_fs 2) k ≠ 0)) = true ∧
    (dir_chain (file_view wrap_dir_fs (read_inode wrap_dir_fs 2)) 1024 262144 262145 0).map
      (fun l => (l.length, l.all (fun q =>
        decide (dirent_rec_len (file_view wrap_dir_fs (read_inode wrap_dir_fs 2)) q % 4 = 0 ∧
          min_rec_len (dirent_name_len (file_view wrap_dir_fs (read_inode wrap_dir_fs 2)) q)
            ≤ dirent_rec_len (file_view wrap_dir_fs (read_inode wrap_dir_fs 2)) q))))
      = some (257, true) ∧
    inode_block (read_inode wrap_dir_fs 2) 0 = 100 ∧
    (create_entry 300 wrap_dir_fs 2 (some [99]) 11).map
      (fun r => (r.1, inode_size_field (read_inode r.2 2), inode_block (read_inode r.2 2) 0,
        get_block_number r.2 (read_inode r.2 2) 256,
        dirent_rec_len (file_view r.2 (read_inode r.2 2)) 262144,
        (dir_chain (file_view r.2 (read_inode r.2 2)) 1024 263168 263169 0).isSome))
      = some (E_NOSPACE, 263168, 360, 0, 0, false) := by
  decide

/-- An instance of `dir_well_formed_invariant`: in the root directory of
`fresh_fs`, with the records "." and "..", `create_entry` of "a" for inode 11,
`unlink_ext2` of "."
and `mkdir_ext2` of "d" (mode 0755, new inode 11) each return and leave the
root directory well-formed; `mkdir_ext2` returns 0 and leaves the new
directory well-formed with the records at the offsets 0 and 12. -/
theorem dir_well_formed_invariant_witness :
    (∃ fs2 l2, create_entry 10 fresh_fs 2 (some [97]) 11 = some (E_NOSPACE, fs2) ∧
      dir_well_formed fs2 2 l2 ∧
      rec_lens_aligned (file_view fs2 (read_inode fs2 2)) l2) ∧
    (∃ r fs2, unlink_ext2 10 fresh_fs 2 [46] = some (r, fs2) ∧
      dir_well_formed fs2 2 [0, 12] ∧
      rec_lens_aligned (file_view fs2 (read_inode fs2 2)) [0, 12]) ∧
    (∃ r fs2 l2, mkdir_ext2 10 example_ambient fresh_fs 2 (some [100]) 0x1ED = some (r, fs2) ∧
      dir_well_formed fs2 2 l2 ∧
      rec_lens_aligned (file_view fs2 (read_inode fs2 2)) l2 ∧
      (fresh_fs.flags &&& EXT2_FLAG_READWRITE ≠ 0 →
        finddir_ext2 10 fresh_fs 2 [100] = some none →
        r = 0 ∧ dir_well_formed fs2 11 [0, 12] ∧
        rec_lens_aligned (file_view fs2 (read_inode fs2 11)) [0, 12])) :=
  dir_well_formed_invariant 10 example_ambient fresh_fs fresh_in_use 2 [0, 12] [97] [46] [100]
    11 11 0x1ED fresh_root_ready fresh_root_slack (by decide) (by decide) (by decide) (by decide)
    (by decide) (by decide) fresh_free_blocks
    (fun p hp => Or.inl (by
      simp only [List.mem_cons, List.mem_singleton, List.not_mem_nil, or_false] at hp
      rcases hp with rfl | rfl <;> decide))
    (by decide) (by unfold inode_addressable; decide) fresh_new_inode_apart
    fresh_inode_bitmap_apart

set_option maxRecDepth 100000 in
/-- C19: the claim fails on the code.  On the read-write mount
`crossed_link_fs` the root directory is well-formed (records at 0 and 12), the
name "a" is not present in it and the target "t" has length 1.
`allocate_inode` hands out inode 362, whose record the inode table places in
the directory's own block, at the directory bytes 128..255, and
`create_entry` stores the new directory record at byte 128.  `symlink_ext2`
returns 0, and the new link inode has the size 66432, not 1: a following
`readlink_ext2` with a buffer of 8 bytes returns 8 and delivers a NUL byte
first, not "t". -/
theorem symlink_crossed_record :
    crossed_link_fs.flags &&& EXT2_FLAG_READWRITE ≠ 0 ∧ strlen [116] ≤ 60 ∧
    dir_chain (file_view crossed_link_fs (read_inode crossed_link_fs 2)) 1024 1024 1025 0
      = some [0, 12] ∧
    (finddir_ext2 10 crossed_link_fs 2 [97]).map Option.isSome = some false ∧
    (allocate_inode crossed_link_fs).map Prod.fst = some 362 ∧
    inode_record_addr crossed_link_fs 362 = 51328 ∧
    file_byte_addr crossed_link_fs (read_inode crossed_link_fs 2) 128 = 51328 ∧
    (symlink_ext2 10 example_ambient crossed_link_fs 2 [116] (some [97])).map
      (fun r => (r.1, inode_size_field (read_inode r.2 362),
        (readlink_ext2 r.2 362 (fun _ => 7) 8).1, (readlink_ext2 r.2 362 (fun _ => 7) 8).2 0))
      = some (0, 66432, 8, 0) := by
  refine ⟨by decide, by decide, by decide, by decide, by decide, by decide, by decide, by decide⟩

/-- C19, as amended: on a read-write mount, for every target string of length
L <= 60 and every name that is not present in the parent, when the parent is a
ready directory that holds a record (its inode addressable with the directory
mode, well-formed, its storage in use on a consistent volume) and
`allocate_inode` hands out an addressable inode `n` whose record is in use and
apart from the storage of the parent: `symlink_ext2(parent, target, name)`
returns 0 and leaves the new link inode with size = L, blocks = 0 and the L
target bytes in the bytes of its `block[]` array; a following `readlink_ext2`
on that link with a buffer of size > L returns L and fills the buffer with the
target bytes followed by a NUL.  Where `create_entry` takes a new block for
the directory (the last record is longer than its name needs and the new
record does not fit behind it), the name has fewer than 256 bytes, the
directory fewer than 256 blocks, the block size is below 65536 and two blocks
can be handed out. -/
theorem symlink_then_readlink (fuel : Nat) (amb : ambient_t) (fs : ext2_fs_t) (P : Nat → Prop)
    (parent : Nat) (l : List Nat) (target name : List Nat) (n : Nat) (buf : Buf) (size : Nat)
    (hrw : fs.flags &&& EXT2_FLAG_READWRITE ≠ 0)
    (habsent : finddir_ext2 fuel fs parent name = some none)
    (halloc : (allocate_inode fs).map Prod.fst = some n) (hn : inode_addressable fs n)
    (hL : strlen target ≤ 60)
    (hready : dir_ready fs P parent l) (hne : l ≠ []) (hfuel : l.length < fuel)
    (hgrow : ∀ q, l.getLast? = some q →
      dirent_rec_len (file_view fs (read_inode fs parent)) q
        ≠ min_rec_len (dirent_name_len (file_view fs (read_inode fs parent)) q) →
      fs.block_size ≤ q % fs.block_size
        + min_rec_len (dirent_name_len (file_view fs (read_inode fs parent)) q)
        + min_rec_len (strlen name) →
      strlen name < 256 ∧ inode_size_field (read_inode fs parent) < 256 * fs.block_size ∧
      fs.block_size < 65536 ∧ free_blocks_ready fs 2)
    (hrec : ∀ a, record_range fs n a →
      P a ∧ ¬ dir_storage fs parent (inode_record_addr fs parent) a)
    (hibm : ∀ a, inode_bitmap_range fs a → ¬ P a ∧ ¬ block_bitmap_range fs a)
    (hsize : strlen target < size) :
    ∃ fs3, symlink_ext2 fuel amb fs parent target (some name) = some (0, fs3) ∧
      inode_size_field (read_inode fs3 n) = strlen target ∧
      inode_blocks (read_inode fs3 n) = 0 ∧
      (∀ k, k < strlen target → read_inode fs3 n (40 + k) = (c_str target).getD k 0) ∧
      (readlink_ext2 fs3 n buf size).1 = strlen target ∧
      (∀ k, k < strlen target →
        (readlink_ext2 fs3 n buf size).2 k = (c_str target).getD k 0) ∧
      (readlink_ext2 fs3 n buf size).2 (strlen target) = 0 := by
  obtain ⟨fs3, hcall, hrecord⟩ := symlink_effect_any fuel amb fs P parent l target name n hrw
    habsent halloc hn hL hready hne hfuel hgrow hrec hibm
  obtain ⟨f1, f2, f3⟩ := symlink_record_fields (read_inode fs n) amb target hL
  rw [← hrecord] at f1 f2 f3
  obtain ⟨r1, r2, r3⟩ := readlink_embedded fs3 n buf size (strlen target) f1 hL hsize
  exact ⟨fs3, hcall, f1, f2, f3, r1, fun k hk => (r2 k hk).trans (f3 k hk), r3⟩

/-- C19, at a concrete input: on `fresh_fs` the symlink "a" to "t" in the root
directory gets inode 11; the call returns 0, the link has size 1, no blocks
and the byte "t" in `block[]`, and `readlink_ext2` into a buffer of 8 bytes
returns 1 and delivers "t" and a NUL. -/
theorem symlink_then_readlink_witness :
    ∃ fs3, symlink_ext2 10 example_ambient fresh_fs 2 [116] (some [97]) = some (0, fs3) ∧
      inode_size_field (read_inode fs3 11) = 1 ∧
      inode_blocks (read_inode fs3 11) = 0 ∧
      read_inode fs3 11 40 = 116 ∧
      (readlink_ext2 fs3 11 (fun _ => 7) 8).1 = 1 ∧
      (readlink_ext2 fs3 11 (fun _ => 7) 8).2 0 = 116 ∧
      (readlink_ext2 fs3 11 (fun _ => 7) 8).2 1 = 0 := by
  obtain ⟨fs3, h1, h2, h3, h4, h5, h6, h7⟩ := symlink_then_readlink 10 example_ambient fresh_fs
    fresh_in_use 2 [0, 12] [116] [97] 11 (fun _ => 7) 8 (by decide)
    (eq_some_none_of_map _ (by decide)) (by decide)
    (by unfold inode_addressable; decide) (by decide) fresh_root_ready (by decide) (by decide)
    (fun _ _ _ _ => ⟨by decide, by decide, by decide,
      free_blocks_ready_le (by decide) fresh_free_blocks⟩)
    fresh_new_inode_apart fresh_inode_bitmap_apart (by decide)
  exact ⟨fs3, h1, h2, h3, h4 0 (by decide), h5, h6 0 (by decide), h7⟩

/-- C21: the claim fails on the code.  On `fresh_fs`, `allocate_inode_block`
for the logical block 66060 = 12 + P + P^2 + P of inode 2 takes block 64 and
returns `E_SUCCESS` although `set_block_number` returns `E_BADBLOCK`, and
`get_block_number` then returns 0 for that block; on `one_free_block_fs`,
for the logical block 12, it takes the last free block 64 and returns
`E_SUCCESS` although `set_block_number` returns `E_NOSPACE` (no block is left
for the single-indirect block), and `get_block_number` returns 0. -/
theorem allocate_inode_block_hides_failure :
    (allocate_block fresh_fs).map Prod.fst = some 64 ∧
    ((allocate_block fresh_fs).bind
      (fun r => set_block_number r.2 (read_inode fresh_fs 2) 2 66060 r.1)).map (fun r => r.1)
      = some E_BADBLOCK ∧
    (allocate_inode_block fresh_fs (read_inode fresh_fs 2) 2 66060).map
      (fun r => (r.1, get_block_number r.2.1 r.2.2 66060)) = some (E_SUCCESS, 0) ∧
    (allocate_block one_free_block_fs).map Prod.fst = some 64 ∧
    ((allocate_block one_free_block_fs).bind
      (fun r => set_block_number r.2 (read_inode one_free_block_fs 2) 2 12 r.1)).map
      (fun r => r.1) = some E_NOSPACE ∧
    (allocate_inode_block one_free_block_fs (read_inode one_free_block_fs 2) 2 12).map
      (fun r => (r.1, get_block_number r.2.1 r.2.2 12)) = some (E_SUCCESS, 0) := by
  decide

/-- C22: the claim fails on the code.  On `no_free_inode_fs` no inode can be
allocated (`allocate_inode` returns 0) and the root directory holds the
records "." and ".."; `create_ext2`, `mkdir_ext2` and `symlink_ext2` of the
name "a" each return 0 and add a third record, named "a" with inode 0, to the
root directory; `mkdir_ext2` also raises the `links_count` of the root from 2
to 3 and the directory count of group 0 from 1 to 2, and takes a block. -/
theorem create_without_inode_returns_zero :
    (allocate_inode no_free_inode_fs).map Prod.fst = some 0 ∧
    dir_chain (file_view no_free_inode_fs (read_inode no_free_inode_fs 2)) 1024 1024 1025 0
      = some [0, 12] ∧
    (create_ext2 10 example_ambient no_free_inode_fs 2 (some [97]) 0x1A4).map
      (fun r => (r.1, dir_chain (file_view r.2 (read_inode r.2 2)) 1024 1024 1025 0,
        dirent_inode (file_view r.2 (read_inode r.2 2)) 24,
        dirent_name (file_view r.2 (read_inode r.2 2)) 24))
      = some (0, some [0, 12, 24], 0, [97]) ∧
    (mkdir_ext2 10 example_ambient no_free_inode_fs 2 (some [97]) 0x1ED).map
      (fun r => (r.1, dir_chain (file_view r.2 (read_inode r.2 2)) 1024 1024 1025 0,
        dirent_inode (file_view r.2 (read_inode r.2 2)) 24,
        dirent_name (file_view r.2 (read_inode r.2 2)) 24))
      = some (0, some [0, 12, 24], 0, [97]) ∧
    (mkdir_ext2 10 example_ambient no_free_inode_fs 2 (some [97]) 0x1ED).map
      (fun r => (inode_links_count (read_inode r.2 2), bgd_used_dirs_count r.2 0,
        bgd_free_blocks_count r.2 0))
      = some (3, 2, 99) ∧
    (symlink_ext2 10 example_ambient no_free_inode_fs 2 [116] (some [97])).map
      (fun r => (r.1, dir_chain (file_view r.2 (read_inode r.2 2)) 1024 1024 1025 0,
        dirent_inode (file_view r.2 (read_inode r.2 2)) 24,
        dirent_name (file_view r.2 (read_inode r.2 2)) 24))
      = some (0, some [0, 12, 24], 0, [97]) := by
  refine ⟨by decide, by decide, by decide, by decide, by decide, by decide⟩

/-- C23: the claim fails on the code.  On `pattern_file_fs` no group counts a
free block, so `allocate_block` returns 0 and leaves the state as it was, and
`allocate_inode_block` returns `E_NOSPACE`; the file inode 12 counts 3 blocks.
For the logical block 3 the loop of `inode_write_block` therefore repeats
without end: whatever the number of iterations allowed, `inode_write_block`
does not return, and neither does `write_ext2` of one byte at offset 3072. -/
theorem inode_write_block_never_returns (fuel : Nat) (buf : Buf) :
    allocate_block pattern_file_fs = some (0, pattern_file_fs) ∧
    (allocate_inode_block pattern_file_fs (read_inode pattern_file_fs 12) 12 3).map
      (fun r => r.1) = some E_NOSPACE ∧
    inode_blocks (read_inode pattern_file_fs 12) / (pattern_file_fs.block_size / 512) = 3 ∧
    inode_write_block fuel pattern_file_fs (read_inode pattern_file_fs 12) 12 3 buf = none ∧
    write_ext2 fuel pattern_file_fs 12 3072 1 buf = none := by
  have hdisk : ∀ (fs : ext2_fs_t) (r : Buf), fs.block_device 6556 = 6 → fs.block_device 6557 = 0 →
      fs.block_device 6558 = 0 → fs.block_device 6559 = 0 → fs.block_size = 1024 →
      fs.inode_size = 128 → fs.inodes_per_group = 1024 → fs.block_group_count = 1 →
      bgd_inode_table fs 0 = 5 →
      3 ≥ inode_blocks (refresh_inode fs r 12) / (fs.block_size / 512) := by
    intro fs r h0 h1 h2 h3 hbs hisz hipg hbgc htab
    have : inode_blocks (refresh_inode fs r 12) = 6 := by
      unfold inode_blocks refresh_inode
      simp [hbs, hisz, hipg, hbgc, htab, get32, get8, memcpy, read_block, read_fs, u32, u64, sub64,
        h0, h1, h2, h3]
    rw [this, hbs]
  refine ⟨rfl, by decide, by decide, ?_, ?_⟩
  · unfold inode_write_block
    rw [inode_write_block_loop_stuck pattern_file_fs 12 3 rfl
      (fun r => hdisk _ r rfl rfl rfl rfl rfl rfl rfl rfl rfl) fuel _ (by decide)]
  · have hstuck : ∀ b, inode_write_block fuel
        (write_inode pattern_file_fs (set32 (read_inode pattern_file_fs 12) 4 3073) 12).2
        (set32 (read_inode pattern_file_fs 12) 4 3073) 12 3 b = none := by
      intro b
      unfold inode_write_block
      rw [inode_write_block_loop_stuck
        (write_inode pattern_file_fs (set32 (read_inode pattern_file_fs 12) 4 3073) 12).2 12 3 rfl
        (fun r => hdisk _ r (by decide) (by decide) (by decide) (by decide) rfl rfl rfl rfl
          (by decide)) fuel _ (by decide)]
    unfold write_ext2
    rw [if_neg (by decide)]
    unfold write_inode_buffer
    have e1 : u32 (3072 + 1) = 3073 := rfl
    have e2 : 3073 > inode_size_field (read_inode pattern_file_fs 12) := by decide
    have e3 : (write_inode pattern_file_fs (set32 (read_inode pattern_file_fs 12) 4 3073)
        12).2.block_size = 1024 := rfl
    simp only [e1, if_pos e2, e3]
    have e4 : u32 (3072 / 1024) = 3 := rfl
    have e5 : 3073 / 1024 = 3 := rfl
    simp only [e4, e5, if_true]
    rw [hstuck]

/-- C24: the claim fails on the code.  On `fresh_fs`, `create_entry` of the
name "a" for inode 11 in the root directory writes the record (a following
`finddir_ext2` returns a node with inode 11) and returns `E_NOSPACE` = 2, not
`E_SUCCESS` = 0; and for all arguments the code returned is not `E_SUCCESS`:
the call returns `E_BADPARENT` or `E_NOSPACE` or does not return. -/
theorem create_entry_reports_no_space (fuel : Nat) (fs : ext2_fs_t) (parent : Nat)
    (name : Option (List Nat)) (inode : Nat) :
    ((create_entry 10 fresh_fs 2 (some [97]) 11).map
      (fun r => (r.1, (finddir_ext2 10 r.2 2 [97]).map (Option.map fs_node_t.inode)))
      = some (E_NOSPACE, some (some 11))) ∧
    (finddir_ext2 10 fresh_fs 2 [97]).map (Option.map fs_node_t.inode) = some none ∧
    ((create_entry fuel fs parent name inode).map Prod.fst = none ∨
      (create_entry fuel fs parent name inode).map Prod.fst = some E_BADPARENT ∨
      (create_entry fuel fs parent name inode).map Prod.fst = some E_NOSPACE) := by
  refine ⟨by decide, by decide, ?_⟩
  unfold create_entry
  dsimp only
  cases name with
  | none => exact Or.inr (Or.inl rfl)
  | some name =>
    dsimp only
    split
    · exact Or.inr (Or.inl rfl)
    · split
      · exact Or.inl rfl
      · split
        · exact Or.inl rfl
        · split
          · exact Or.inl rfl
          · exact Or.inr (Or.inr rfl)

/-- C26: the claim fails on the code.  The file inode 12 of `pattern_file_fs`
has 3000 bytes.  `read_ext2` at offset 3500 with size 5 returns 4294966796
(3000 - 3500 in a `uint32_t`), not 0; at offset 3001 with size 5 it returns
4294967295 and copies into the caller's buffer beyond its 5 bytes: byte 100 of
the buffer, 7 before the call, is 0 afterwards.  At offset 3000 it returns 0. -/
theorem read_ext2_beyond_size :
    inode_size_field (read_inode pattern_file_fs 12) = 3000 ∧
    (read_ext2 pattern_file_fs 12 3500 5 (fun _ => 7)).1 = 4294966796 ∧
    (read_ext2 pattern_file_fs 12 3001 5 (fun _ => 7)).1 = 4294967295 ∧
    (read_ext2 pattern_file_fs 12 3001 5 (fun _ => 7)).2 100 = 0 ∧
    (read_ext2 pattern_file_fs 12 3000 5 (fun _ => 7)).1 = 0 := by
  decide

/-- C30: the claim fails on the code.  On `last_inode_fs`, two groups of 32
inodes, `mkdir_ext2` of "d" gets inode 32, the last inode of group 0 (its bit
31 in the inode bitmap of group 0 is set by the call and the free-inode count
of group 0 drops to 0), and returns 0; the directory count of group 0 stays 1
and the one of group 1 goes from 0 to 1: the group is computed as
`inode_no / inodes_per_group` = 1 instead of (32 - 1) / 32 = 0. -/
theorem mkdir_counts_wrong_group :
    (allocate_inode last_inode_fs).map Prod.fst = some 32 ∧
    (32 - 1) / last_inode_fs.inodes_per_group = 0 ∧
    bgd_used_dirs_count last_inode_fs 0 = 1 ∧ bgd_used_dirs_count last_inode_fs 1 = 0 ∧
    (mkdir_ext2 10 example_ambient last_inode_fs 2 (some [100]) 0x1ED).map
      (fun r => (r.1, (finddir_ext2 10 r.2 2 [100]).map (Option.map fs_node_t.inode),
        BLOCKBIT (inode_bitmap r.2 0) 31, bgd_free_inodes_count r.2 0))
      = some (0, some (some 32), true, 0) ∧
    (mkdir_ext2 10 example_ambient last_inode_fs 2 (some [100]) 0x1ED).map
      (fun r => (bgd_used_dirs_count r.2 0, bgd_used_dirs_count r.2 1))
      = some (1, 1) := by
  refine ⟨by decide, by decide, by decide, by decide, by decide, by decide⟩

set_option maxRecDepth 100000 in
/-- C25: the claim fails on the code.  The file inode 12 of `triple_file_fs`
has 65805 blocks, all mapped; its last block, the logical block 65804, is
reached through the triple-indirect pointer and its first byte, file byte
67383296, is 0x5A.  `write_ext2` of the 4 bytes "BBBB" at offset 67384320, the
end of the file, returns 4 and sets the size to 67384324, but file byte
67383296, which lies below the old size and outside the range written, reads
0 afterwards: the new block is wired in with `tmp[g] = nblock`, so the data
is written over the third-level pointer block 102 and the logical block 65804
is then mapped to block 0x42424242. -/
theorem write_ext2_destroys_triple_mapping :
    inode_size_field (read_inode triple_file_fs 12) = 67384320 ∧
    inode_blocks (read_inode triple_file_fs 12) / (triple_file_fs.block_size / 512) = 65805 ∧
    [0, 11, 12, 267, 268, 65803, 65804].map
      (get_block_number triple_file_fs (read_inode triple_file_fs 12))
      = [1000, 1011, 1012, 1267, 3000, 68535, 200] ∧
    (read_ext2 triple_file_fs 12 67383296 1 (fun _ => 0)).2 0 = 0x5A ∧
    (write_ext2 10 triple_file_fs 12 67384320 4 (fun _ => 66)).map
      (fun r => (r.1, inode_size_field (read_inode r.2 12),
        get_block_number r.2 (read_inode r.2 12) 65804,
        (read_ext2 r.2 12 67383296 1 (fun _ => 0)).2 0))
      = some (4, 67384324, 0x42424242, 0) := by
  refine ⟨by decide, by decide, by decide, by decide, by decide⟩

/-- Where the block counter of `create_entry` does not wrap: `create_entry`
destroys no entry of a directory of fewer than 256 blocks on a consistent
volume, and lists the new entry last when its inode number is not 0.  When the directory is ready (its inode is addressable
and has the directory mode, it is well-formed with all blocks mapped, its
storage is in use and apart from the metadata, the bitmaps and the free
blocks), its last record is longer than its name needs, the block size is
below 65536, the new name has fewer than 256 bytes and two blocks can be
handed out: for every other name `other` different from the new name,
`finddir_ext2(parent, other)` returns a node with the same inode number after
the call as before it (or NULL in both), the live entries that existed before
are returned by `readdir_ext2` at the same indices as before, and the new
entry is returned at the next index, where the listing ended before. -/
theorem create_entry_keeps_entries (fuel : Nat) (fs : ext2_fs_t) (P : Nat → Prop) (ino : Nat)
    (l : List Nat) (name other : List Nat) (n : Nat)
    (hready : dir_ready fs P ino l)
    (hslack : last_has_slack (file_view fs (read_inode fs ino)) l)
    (hfuel : l.length + 1 < fuel) (hname : strlen name < 256)
    (hsmall : inode_size_field (read_inode fs ino) < 256 * fs.block_size)
    (hbs16 : fs.block_size < 65536)
    (hfree : free_blocks_ready fs 2)
    (hother : c_str other ≠ c_str name) (hn : n % 4294967296 ≠ 0) :
    ∃ fs2 r, create_entry fuel fs ino (some name) n = some (E_NOSPACE, fs2) ∧
      (finddir_ext2 fuel fs ino other).map (Option.map fs_node_t.inode) = some r ∧
      (finddir_ext2 fuel fs2 ino other).map (Option.map fs_node_t.inode) = some r ∧
      (∀ k, k < (l.filter (live_record (file_view fs (read_inode fs ino)))).length →
        ∃ d, readdir_ext2 fuel fs ino k = some (some d) ∧
          readdir_ext2 fuel fs2 ino k = some (some d)) ∧
      readdir_ext2 fuel fs ino
        (l.filter (live_record (file_view fs (read_inode fs ino)))).length = some none ∧
      readdir_ext2 fuel fs2 ino
        (l.filter (live_record (file_view fs (read_inode fs ino)))).length
        = some (some { d_ino := n % 4294967296, d_name := c_str name }) := by
  have hwf := hready.2.2.2.1
  obtain ⟨fs2, p, hcall, hwf2, hkept, hino, -, hnm⟩ := create_entry_records fuel fs P ino l name n 0
    hready hslack (by omega) hname hsmall hbs16 hfree
  have hlen32 : l.length + 1 < 4294967296 := by
    have h1 := dir_chain_length _ _ _ _ _ _ hwf2.2.2.2.2
    have h2 : inode_size_field (read_inode fs2 ino) < 4294967296 := get32_lt _ _
    rw [List.length_append, List.length_singleton] at h1
    omega
  obtain ⟨a1, a2, a3, a4⟩ := lookups_after_append (file_view fs (read_inode fs ino))
    (file_view fs2 (read_inode fs2 ino)) l p name other (n % 4294967296) hkept hino hnm hother hn
  have hflen : (l.filter (live_record (file_view fs (read_inode fs ino)))).length ≤ l.length :=
    List.length_filter_le _ _
  have hfuel2 : (l ++ [p]).length < fuel := by
    rw [List.length_append, List.length_singleton]; exact hfuel
  refine ⟨fs2, _, hcall, finddir_ext2_spec fuel fs ino other l hwf (by omega), ?_, ?_, ?_, ?_⟩
  · rw [finddir_ext2_spec fuel fs2 ino other _ hwf2 hfuel2, a1]
  · intro k hk
    refine ⟨{ d_ino := dirent_inode (file_view fs (read_inode fs ino))
                (l.filter (live_record (file_view fs (read_inode fs ino))))[k],
              d_name := dirent_name (file_view fs (read_inode fs ino))
                (l.filter (live_record (file_view fs (read_inode fs ino))))[k] }, ?_, ?_⟩
    · rw [readdir_ext2_spec fuel fs ino k l hwf (by omega) (by omega),
        List.getElem?_eq_getElem hk]
      rfl
    · rw [readdir_ext2_spec fuel fs2 ino k _ hwf2 hfuel2 (by omega), a2 k hk,
        List.getElem?_eq_getElem hk]
      rfl
  · rw [readdir_ext2_spec fuel fs ino _ l hwf (by omega) (by omega), a4]
    rfl
  · rw [readdir_ext2_spec fuel fs2 ino _ _ hwf2 hfuel2 (by omega), a3]

/-- An instance of `create_entry_keeps_entries`: in the root directory of
`fresh_fs`, with the live records "." and "..", `create_entry` of "a" for
inode 11 leaves the
lookup of ".." at inode 2, the listing of the indices 0 and 1 as it was, and
lists the new entry at index 2. -/
theorem create_entry_keeps_entries_witness :
    ∃ fs2 r, create_entry 10 fresh_fs 2 (some [97]) 11 = some (E_NOSPACE, fs2) ∧
      (finddir_ext2 10 fresh_fs 2 [46, 46]).map (Option.map fs_node_t.inode) = some r ∧
      (finddir_ext2 10 fs2 2 [46, 46]).map (Option.map fs_node_t.inode) = some r ∧
      (∀ k, k < 2 →
        ∃ d, readdir_ext2 10 fresh_fs 2 k = some (some d) ∧
          readdir_ext2 10 fs2 2 k = some (some d)) ∧
      readdir_ext2 10 fresh_fs 2 2 = some none ∧
      readdir_ext2 10 fs2 2 2 = some (some { d_ino := 11, d_name := [97] }) := by
  have hk : ([0, 12].filter (live_record (file_view fresh_fs (read_inode fresh_fs 2)))).length
      = 2 := by decide
  have h := create_entry_keeps_entries 10 fresh_fs fresh_in_use 2 [0, 12] [97] [46, 46] 11
    fresh_root_ready fresh_root_slack (by decide) (by decide) (by decide) (by decide)
    (free_blocks_ready_le (by decide) fresh_free_blocks) (by decide) (by decide)
  rw [hk] at h
  exact h

set_option maxRecDepth 100000 in
set_option maxHeartbeats 40000000 in
/-- C27: the claim fails on the code.  The directory of `wrap_named_fs` is
well-formed, with 256 mapped blocks; its first entry, in block 0, is "z" with
inode 77.  `create_entry` of the name "c" for inode 11 finds no room behind
the last record and counts the new block in a `uint8_t`: `block_nr++` wraps
from 255 to 0, so it maps the fresh block as block 0 of the directory, and
afterwards `finddir_ext2` of "z" returns NULL and `readdir_ext2` returns the
new entry at index 0, before the old entries. -/
theorem create_entry_destroys_entry :
    inode_size_field (read_inode wrap_named_fs 2) = 256 * wrap_named_fs.block_size ∧
    (List.range 256).all (fun k =>
      decide (k < inode_blocks (read_inode wrap_named_fs 2) / (wrap_named_fs.block_size / 512) ∧
        get_block_number wrap_named_fs (read_inode wrap_named_fs 2) k ≠ 0)) = true ∧
    (dir_chain (file_view wrap_named_fs (read_inode wrap_named_fs 2)) 1024 262144 262145 0).map
      List.length = some 257 ∧
    (finddir_ext2 300 wrap_named_fs 2 [122]).map (Option.map fs_node_t.inode)
      = some (some 77) ∧
    readdir_ext2 300 wrap_named_fs 2 0 = some (some { d_ino := 77, d_name := [122] }) ∧
    (create_entry 300 wrap_named_fs 2 (some [99]) 11).map
      (fun r => (r.1, (finddir_ext2 300 r.2 2 [122]).map (Option.map fs_node_t.inode),
        readdir_ext2 300 r.2 2 0))
      = some (E_NOSPACE, some none, some (some { d_ino := 11, d_name := [99] })) := by
  refine ⟨by decide, by decide, by decide, by decide, by decide, by decide⟩

/-- C29, amended: after `mkdir_ext2(parent, name, perm)` on a read-write mount
with free space, in a parent directory of fewer than 256 blocks and fewer
than 65535 links on a consistent volume.  When the name has fewer than 256
bytes and is not present, the parent is ready (its inode is addressable and
has the directory mode, it is well-formed with all blocks mapped, its storage
is in use and apart from the metadata, the bitmaps and the free blocks), its
last record is longer than its name needs, the block size is below 65536,
three blocks can be handed out, and `allocate_inode` hands out an addressable
inode `n` whose record is in use and apart from the parent: the call returns
0; the new inode has mode = `EXT2_S_IFDIR | (perm & 0xFFF)`, `links_count` = 2
and size = `block_size`; its first data block starts with a record "."
(`rec_len` 12) whose inode is `n`, followed by a record ".." (`rec_len`
`block_size - 12`) whose inode is the parent's inode number; the parent's
`links_count` is increased by exactly 1; and `finddir_ext2(parent, name)`
returns a node with the inode number `n`. -/
theorem mkdir_ext2_effect (fuel : Nat) (amb : ambient_t) (fs : ext2_fs_t) (P : Nat → Prop)
    (parent : Nat) (l : List Nat) (name : List Nat) (n permission : Nat)
    (hrw : fs.flags &&& EXT2_FLAG_READWRITE ≠ 0)
    (habsent : finddir_ext2 fuel fs parent name = some none)
    (halloc : (allocate_inode fs).map Prod.fst = some n) (hn : inode_addressable fs n)
    (hready : dir_ready fs P parent l)
    (hslack : last_has_slack (file_view fs (read_inode fs parent)) l)
    (hfuel : l.length + 1 < fuel) (hname : strlen name < 256)
    (hsmall : inode_size_field (read_inode fs parent) < 256 * fs.block_size)
    (hbs16 : fs.block_size < 65536)
    (hlinks : inode_links_count (read_inode fs parent) < 65535)
    (hfree : free_blocks_ready fs 3)
    (hrec : ∀ a, record_range fs n a →
      P a ∧ ¬ dir_storage fs parent (inode_record_addr fs parent) a)
    (hibm : ∀ a, inode_bitmap_range fs a → ¬ P a ∧ ¬ block_bitmap_range fs a) :
    ∃ fs7, mkdir_ext2 fuel amb fs parent (some name) permission = some (0, fs7) ∧
      inode_mode (read_inode fs7 n) = EXT2_S_IFDIR ||| (0xFFF &&& permission) ∧
      inode_links_count (read_inode fs7 n) = 2 ∧
      inode_size_field (read_inode fs7 n) = fs.block_size ∧
      dirent_inode (file_view fs7 (read_inode fs7 n)) 0 = n ∧
      dirent_rec_len (file_view fs7 (read_inode fs7 n)) 0 = 12 ∧
      dirent_name (file_view fs7 (read_inode fs7 n)) 0 = [46] ∧
      dirent_inode (file_view fs7 (read_inode fs7 n)) 12 = parent ∧
      dirent_rec_len (file_view fs7 (read_inode fs7 n)) 12 = fs.block_size - 12 ∧
      dirent_name (file_view fs7 (read_inode fs7 n)) 12 = [46, 46] ∧
      inode_links_count (read_inode fs7 parent) = inode_links_count (read_inode fs parent) + 1 ∧
      (finddir_ext2 fuel fs7 parent name).map (Option.map fs_node_t.inode) = some (some n) := by
  obtain ⟨fs7, p, hcall, hwf7, -, -, -, ⟨d1, d2, d3⟩, ⟨e1, e2, e3, e4, e5, e6⟩, hl, hkept, hino, hnm⟩ :=
    mkdir_details fuel amb fs P parent l name n permission hrw habsent halloc hn hready hslack
      (by omega) (by omega) hname hsmall hbs16 hfree hrec hibm
  have hwf := hready.2.2.2.1
  have hn32 : n % 4294967296 = n := by
    obtain ⟨-, -, -, h32, h1, hle, -, -⟩ := hn
    exact Nat.mod_eq_of_lt (by omega)
  have hn0 : n ≠ 0 := by
    obtain ⟨-, -, -, -, h1, -, -, -⟩ := hn
    omega
  have hp32 : parent % 4294967296 = parent := by
    obtain ⟨-, -, -, h32, h1, hle, -, -⟩ := hready.1
    exact Nat.mod_eq_of_lt (by omega)
  rw [hn32] at e1 hino
  rw [hp32] at e4
  rw [Nat.mod_eq_of_lt (by omega)] at hl
  refine ⟨fs7, hcall, d1, d2, d3, e1, e2, e3, e4, e5, e6, hl, ?_⟩
  -- the lookup of the name
  have hnone : l.find? (live_named (file_view fs (read_inode fs parent)) name) = none := by
    have h1 := finddir_ext2_spec fuel fs parent name l hwf (by omega)
    rw [habsent] at h1
    have h2 := Option.some.inj h1
    cases hf : l.find? (live_named (file_view fs (read_inode fs parent)) name) with
    | none => rfl
    | some q => rw [hf] at h2; simp at h2
  have hold : ∀ r, r ∈ l → live_named (file_view fs7 (read_inode fs7 parent)) name r = false := by
    intro r hr
    obtain ⟨a1, a2, a3⟩ := hkept r hr
    have := List.find?_eq_none.1 hnone r hr
    unfold live_named at this ⊢
    rw [a1, a2, a3]
    simpa using this
  have hnl : dirent_name_len (file_view fs7 (read_inode fs7 parent)) p = strlen name := by
    have h1 : (dirent_name (file_view fs7 (read_inode fs7 parent)) p).length
        = dirent_name_len (file_view fs7 (read_inode fs7 parent)) p := by
      unfold dirent_name
      rw [List.length_map, List.length_range]
    rw [← h1, hnm]
    rfl
  have hnew : live_named (file_view fs7 (read_inode fs7 parent)) name p = true := by
    unfold live_named
    rw [hino, hnl, hnm, c_str_c_str]
    simp [hn0]
  rw [finddir_ext2_spec fuel fs7 parent name _ hwf7
    (by rw [List.length_append, List.length_singleton]; exact hfuel)]
  rw [List.find?_append, find?_congr_mem _ (fun _ => false) l hold]
  have hf0 : l.find? (fun _ => false) = none := by
    apply List.find?_eq_none.2
    intro x _
    simp
  rw [hf0, List.find?_cons_of_pos _ hnew]
  simp only [Option.none_or, Option.map_some']
  rw [hino]

/-- C29: the claim fails on the code.  On `max_links_fs`, the root directory
has `links_count` 65535; `mkdir_ext2` of "d" (mode 0755) returns 0, the new
directory is found under its name with inode 11, and the `links_count` of the
root is 0 afterwards: the `uint16_t` counter wraps instead of growing by 1. -/
theorem mkdir_links_count_wraps :
    inode_links_count (read_inode max_links_fs 2) = 65535 ∧
    (finddir_ext2 10 max_links_fs 2 [100]).map (Option.map fs_node_t.inode) = some none ∧
    (mkdir_ext2 10 example_ambient max_links_fs 2 (some [100]) 0x1ED).map
      (fun r => (r.1, (finddir_ext2 10 r.2 2 [100]).map (Option.map fs_node_t.inode),
        inode_links_count (read_inode r.2 2)))
      = some (0, some (some 11), 0) := by
  refine ⟨by decide, by decide, by decide⟩

/-- C29, at a concrete input: on `fresh_fs`, `mkdir_ext2` of "d" (mode 0755) in
the root directory returns 0; the new inode 11 has mode 0x41ED, two links and
size 1024; its block starts with "." for inode 11 (`rec_len` 12) and ".." for
inode 2 (`rec_len` 1012); the `links_count` of the root goes from 2 to 3; and
`finddir_ext2` of "d" returns a node with inode 11. -/
theorem mkdir_ext2_effect_witness :
    ∃ fs7, mkdir_ext2 10 example_ambient fresh_fs 2 (some [100]) 0x1ED = some (0, fs7) ∧
      inode_mode (read_inode fs7 11) = 0x41ED ∧
      inode_links_count (read_inode fs7 11) = 2 ∧
      inode_size_field (read_inode fs7 11) = 1024 ∧
      dirent_inode (file_view fs7 (read_inode fs7 11)) 0 = 11 ∧
      dirent_rec_len (file_view fs7 (read_inode fs7 11)) 0 = 12 ∧
      dirent_name (file_view fs7 (read_inode fs7 11)) 0 = [46] ∧
      dirent_inode (file_view fs7 (read_inode fs7 11)) 12 = 2 ∧
      dirent_rec_len (file_view fs7 (read_inode fs7 11)) 12 = 1012 ∧
      dirent_name (file_view fs7 (read_inode fs7 11)) 12 = [46, 46] ∧
      inode_links_count (read_inode fs7 2) = 3 ∧
      (finddir_ext2 10 fs7 2 [100]).map (Option.map fs_node_t.inode) = some (some 11) := by
  have h := mkdir_ext2_effect 10 example_ambient fresh_fs fresh_in_use 2 [0, 12] [100] 11 0x1ED
    (by decide) (eq_some_none_of_map _ (by decide)) (by decide)
    (by unfold inode_addressable; decide) fresh_root_ready fresh_root_slack (by decide)
    (by decide) (by decide) (by decide) (by decide) fresh_free_blocks fresh_new_inode_apart
    fresh_inode_bitmap_apart
  have hl : inode_links_count (read_inode fresh_fs 2) = 2 := by decide
  rw [hl] at h
  exact h

/-- C28: the claim fails on the code.  On `fresh_fs` the record `crossed_inode`
names block 60 both as its single-indirect and as its double-indirect block.
`set_block_number` of block 268 (the first of the double-indirect range) to 77
succeeds and maps it: a block (64) is allocated for entry 0 of block 60.  The
following `set_block_number` of block 12 to 99 succeeds as well and stores 99
in that same entry 0 of block 60, after which `get_block_number` of block 268
follows the pointer 99 and returns 0, not 77. -/
theorem set_block_number_crossed_tables :
    (268 ≠ 12 ∧ 268 < 12 + fresh_fs.pointers_per_block
      + fresh_fs.pointers_per_block * fresh_fs.pointers_per_block) ∧
    (set_block_number fresh_fs crossed_inode 2 268 77).map
      (fun s => (s.1, get_block_number s.2.1 s.2.2 268)) = some (E_SUCCESS, 77) ∧
    ((set_block_number fresh_fs crossed_inode 2 268 77).bind
      (fun s => set_block_number s.2.1 s.2.2 2 12 99)).map
      (fun s => (s.1, get_block_number s.2.1 s.2.2 268)) = some (E_SUCCESS, 0) := by
  decide

/-- C28, as amended: setting one logical block does not disturb another, for
an inode whose indirection blocks are laid out consistently (`tables_ok`): on
a volume that is consistent around the addresses in use, with the inode
addressable and its record in use, a block that holds the `P` pointers and
`12 + P + P*P` within 32 bits, and with `block[12]`, `block[13]` and the
blocks named by the entries of `block[13]` in use, on device ranges apart from
the record and from each other.  For every two distinct indices `i`, `j` below
`12 + P + P*P` and block numbers `r1`, `r2` below 2^32: when
`set_block_number(inode, i, r1)` followed by `set_block_number(inode, j, r2)`
both succeed, `get_block_number(inode, i)` returns `r1`. -/
theorem set_block_number_keeps_other (fs : ext2_fs_t) (P : Nat → Prop) (X : Buf)
    (ino i j r1 r2 : Nat) (fs1 : ext2_fs_t) (X1 : Buf) (fs2 : ext2_fs_t) (X2 : Buf)
    (H : tables_ok fs P X ino) (hne : i ≠ j)
    (hi : i < 12 + fs.pointers_per_block + fs.pointers_per_block * fs.pointers_per_block)
    (hj : j < 12 + fs.pointers_per_block + fs.pointers_per_block * fs.pointers_per_block)
    (hr1 : r1 < 4294967296) (hr2 : r2 < 4294967296)
    (h1 : set_block_number fs X ino i r1 = some (E_SUCCESS, fs1, X1))
    (h2 : set_block_number fs1 X1 ino j r2 = some (E_SUCCESS, fs2, X2)) :
    get_block_number fs2 X2 i = r1 := by
  obtain ⟨P1, H1, hgeo1, hmap1, -⟩ := set_block_number_post H i r1 hi hr1 fs1 X1 h1
  obtain ⟨P2, H2, hgeo2, -, hby2⟩ :=
    set_block_number_post H1 j r2 (by rw [hgeo1.ppb]; exact hj) hr2 fs2 X2 h2
  have hgeo := same_geometry_trans hgeo1 hgeo2
  apply get_block_number_of_maps_to
  · rw [hgeo.ppb]; exact H.ppb.2.2
  · rw [hgeo.ppb, hgeo.bs]; exact H.ppb.2.1
  · rw [hgeo.ppb]; exact hi
  · exact hby2 i r1 hne (by rw [hgeo1.ppb]; exact hi) hmap1

/-- Witness for C28: on `fresh_fs`, for the root directory (inode 2, no
indirection block yet), block 268 is set to 77, which allocates the
double-indirect block and a block for its entry 0, and then block 12 is set to
99, which allocates the single-indirect block. -/
theorem set_block_number_keeps_other_witness :
    ∃ fs1 X1 fs2 X2,
      set_block_number fresh_fs (read_inode fresh_fs 2) 2 268 77 = some (E_SUCCESS, fs1, X1) ∧
      set_block_number fs1 X1 2 12 99 = some (E_SUCCESS, fs2, X2) ∧
      get_block_number fs2 X2 268 = 77 := by
  have hboth : ((set_block_number fresh_fs (read_inode fresh_fs 2) 2 268 77).bind
      (fun s => if s.1 = E_SUCCESS then set_block_number s.2.1 s.2.2 2 12 99 else none)).map
      Prod.fst = some E_SUCCESS := by decide
  cases hs1 : set_block_number fresh_fs (read_inode fresh_fs 2) 2 268 77 with
  | none => rw [hs1] at hboth; simp at hboth
  | some s1 =>
    obtain ⟨e1, fs1, X1⟩ := s1
    rw [hs1] at hboth
    simp only [Option.some_bind] at hboth
    by_cases he1 : e1 = E_SUCCESS
    · subst he1
      rw [if_pos rfl] at hboth
      cases hs2 : set_block_number fs1 X1 2 12 99 with
      | none => rw [hs2] at hboth; simp at hboth
      | some s2 =>
        obtain ⟨e2, fs2, X2⟩ := s2
        rw [hs2] at hboth
        simp only [Option.map, Option.some.injEq] at hboth
        subst hboth
        exact ⟨fs1, X1, fs2, X2, rfl, hs2,
          set_block_number_keeps_other fresh_fs fresh_in_use (read_inode fresh_fs 2) 2 268 12 77 99
            fs1 X1 fs2 X2 fresh_root_tables (by decide) (by decide) (by decide) (by decide)
            (by decide) hs1 hs2⟩
    · rw [if_neg he1] at hboth
      simp at hboth

end Ext2
